import Mathlib

/-!
# stk_mesh BulkData: modification cycle, entities and relations

A shallow embedding of `stk_mesh/base/BulkData.cpp`, `stk_mesh/base/BulkDataRelation.cpp`
and `stk_mesh/baseImpl/EntityRepository.hpp`; the prefix sums of
`tpetra/core/src/Tpetra_Details_computeOffsets.hpp` have a section of their own.

* A mesh is a value of `BulkData`; every member function becomes a function that
  takes the mesh and returns an `Outcome` together with the mesh it leaves behind.
  A C++ exception is `Outcome.error`: the mesh returned next to it is the mesh at
  the throw, because the members written before a throw stay written.
* The four per-entity vectors are kept as four lists indexed by local offset.
* Code that lives outside the three files (buckets, part bookkeeping, the entity
  map's creation routine, accessors declared in BulkData.hpp) is modelled from the
  specification; each such definition says so in its doc comment.
-/

namespace StkMesh

/-! ## Data model -/

abbrev EntityRank := Nat
abbrev EntityId := Nat
abbrev PartOrdinal := Nat
abbrev ConnectivityOrdinal := Nat
abbrev RelationIdentifier := Nat
abbrev Permutation := Nat

/-- An entity handle is its local offset into the per-entity vectors; the default
handle `Entity()` is offset 0. -/
abbrev Entity := Nat

/-- The key of an entity: rank and identifier. -/
structure EntityKey where
  rank : EntityRank
  id : EntityId
deriving DecidableEq, Repr

/-- The default constructed key ("Default constructed EntityKey has all bits set",
BulkData.cpp line 50): with the 64-bit key split in 8 rank bits and 56 id bits this
is rank 255 and id 2^56 - 1. -/
def EntityKey.invalid_key : EntityKey := ⟨255, 2 ^ 56 - 1⟩

/-- Modelled from the spec: EntityKey::is_valid_id (EntityKey.hpp is not among the
sources). Section 3 of the specification: an id is a 64-bit unsigned with id ≥ 1. -/
def EntityKey.is_valid_id (id : EntityId) : Bool := decide (1 ≤ id)

inductive EntityState where
  | Unchanged
  | Created
  | Modified
  | Deleted
deriving DecidableEq, Repr

inductive BulkDataSyncState where
  | MODIFIABLE
  | SYNCHRONIZED
deriving DecidableEq, Repr

inductive ConnectivityType where
  | FIXED_CONNECTIVITY
  | DYNAMIC_CONNECTIVITY
  | INVALID_CONNECTIVITY_TYPE
deriving DecidableEq, Repr

/-- One position of an entity's connectivity: the parallel arrays (target entity,
ordinal, permutation) of the table for target rank `rank`. -/
structure ConnEntry where
  rank : EntityRank
  entity : Entity
  ordinal : ConnectivityOrdinal
  permutation : Permutation
deriving DecidableEq, Repr

/-- What a non-null mesh index designates: the entity's slot in its bucket. The
bucket is represented by what it stores for the entity: the part signature of the
bucket, the owning process and the connectivity tables. -/
structure MeshIndex where
  parts : List PartOrdinal
  owner : Nat
  connectivity : List ConnEntry
deriving DecidableEq, Repr

/-- The legacy relation record taken by the vector overload of declare_relation. -/
structure Relation where
  entity : Entity
  relation_ordinal : RelationIdentifier
  orientation : Permutation
deriving DecidableEq, Repr

structure EntityCommInfo where
  ghost_id : Nat
  proc : Nat
deriving DecidableEq, Repr

structure EntityCommListInfo where
  key : EntityKey
  owner : Nat
  entity : Entity
deriving DecidableEq, Repr

/-- The part of MetaData that BulkData reads. `supersets` and `induces` are the
part tables: the supersets of a part, and whether a part declares induction from
entities of one rank onto entities of another. -/
structure MetaData where
  entity_rank_count : Nat
  spatial_dimension : Nat
  is_commit : Bool
  mesh_set_on_fields : Bool
  locally_owned_part : PartOrdinal
  universal_part : PartOrdinal
  supersets : PartOrdinal → List PartOrdinal
  induces : PartOrdinal → EntityRank → EntityRank → Bool

/-- The value of MetaData::FACE_RANK (stk::topology: node 0, edge 1, face 2,
element 3). -/
def MetaData.FACE_RANK : EntityRank := 2

/-- The connectivity configuration: `size` is `m_map.size()` and `type a b` is
`connectivity_map()(a, b)`. -/
structure ConnectivityMap where
  size : Nat
  type : EntityRank → EntityRank → ConnectivityType

/-- The members of BulkData. `m_entity_repo` is the entity map of the
EntityRepository (key to handle); `m_removed_keys` records the keys handed to
`m_entities_index.register_removed_key`; `parallel_consistent` is the verdict that
the collective `verify_parallel_consistency` reaches, and `assertions_enabled`
tells whether `ThrowAssertMsg` is compiled in. The synchronization counter is a
`size_t` incremented once per cycle and is kept as a natural number. -/
structure BulkData where
  m_entity_repo : List (EntityKey × Entity)
  m_entity_comm_map : List (EntityKey × List EntityCommInfo)
  m_entity_comm_list : List EntityCommListInfo
  m_ghosting : List String
  m_deleted_entities : List Nat
  m_deleted_entities_current_modification_cycle : List Nat
  m_removed_keys : List EntityKey
  m_mesh_meta_data : MetaData
  m_connectivity_map : ConnectivityMap
  m_parallel_size : Nat
  m_parallel_rank : Nat
  m_sync_count : Nat
  m_sync_state : BulkDataSyncState
  m_meta_data_verified : Bool
  m_mesh_finalized : Bool
  m_check_invalid_rels : Bool
  m_mesh_indexes : List (Option MeshIndex)
  m_entity_keys : List EntityKey
  m_entity_states : List EntityState
  m_entity_sync_counts : List Nat
  parallel_consistent : Bool
  assertions_enabled : Bool

/-- The result of a member function: a returned value, or the exception thrown. -/
inductive Outcome (α : Type) where
  | ok : α → Outcome α
  | error : String → Outcome α
deriving DecidableEq, Repr

/-- Whether the call threw. -/
def Outcome.isError {α : Type} : Outcome α → Bool
  | .ok _ => false
  | .error _ => true

namespace BulkData

/-! ## Accessors -/

/-- The key stored for an entity, `m_entity_keys[entity.local_offset()]`. -/
def entity_key (m : BulkData) (e : Entity) : EntityKey :=
  m.m_entity_keys.getD e EntityKey.invalid_key

def entity_rank (m : BulkData) (e : Entity) : EntityRank :=
  (m.entity_key e).rank

def identifier (m : BulkData) (e : Entity) : EntityId :=
  (m.entity_key e).id

/-- The state stored for an entity, `m_entity_states[entity.local_offset()]`. -/
def state (m : BulkData) (e : Entity) : EntityState :=
  m.m_entity_states.getD e EntityState.Deleted

def set_state (m : BulkData) (e : Entity) (s : EntityState) : BulkData :=
  { m with m_entity_states := m.m_entity_states.set e s }

def set_entity_key (m : BulkData) (e : Entity) (k : EntityKey) : BulkData :=
  { m with m_entity_keys := m.m_entity_keys.set e k }

def set_synchronized_count (m : BulkData) (e : Entity) (n : Nat) : BulkData :=
  { m with m_entity_sync_counts := m.m_entity_sync_counts.set e n }

/-- The sync count stored for an entity, `m_entity_sync_counts[entity.local_offset()]`. -/
def synchronized_count (m : BulkData) (e : Entity) : Nat :=
  m.m_entity_sync_counts.getD e 0

/-- Writes the flag `m_check_invalid_rels`. -/
def set_check_invalid_rels (m : BulkData) (b : Bool) : BulkData :=
  { m with m_check_invalid_rels := b }

/-- Modelled from the spec: BulkData::is_valid (BulkData.hpp is not among the
sources). An entity is valid when it is not destroyed: its offset lies inside the
per-entity vectors and the state stored there is not `Deleted`; offset 0 is the
reserved invalid handle, whose state `initialize_arrays` sets to `Deleted`. -/
def is_valid (m : BulkData) (e : Entity) : Bool :=
  decide (e < m.m_entity_states.length) && decide (m.state e ≠ EntityState.Deleted)

/-- The mesh index of an entity; `none` is the null index `{NULL, 0}`. -/
def mesh_index (m : BulkData) (e : Entity) : Option MeshIndex :=
  (m.m_mesh_indexes.getD e none)

/-- Stores a mesh index for an entity, `m_mesh_indexes[entity.local_offset()] = ...`. -/
def set_mesh_index (m : BulkData) (e : Entity) (idx : Option MeshIndex) : BulkData :=
  { m with m_mesh_indexes := m.m_mesh_indexes.set e idx }

/-- The parts of the bucket the entity is in (no parts for an entity in no bucket). -/
def bucket_parts (m : BulkData) (e : Entity) : List PartOrdinal :=
  match m.mesh_index e with
  | some idx => idx.parts
  | none => []

/-- Every connectivity position of the entity, all target ranks together. -/
def connectivity (m : BulkData) (e : Entity) : List ConnEntry :=
  match m.mesh_index e with
  | some idx => idx.connectivity
  | none => []

/-- The connectivity table of the entity for one target rank: the range
`begin_entities(entity, rank) .. end_entities(entity, rank)` with its ordinals and
permutations. -/
def begin_entities (m : BulkData) (e : Entity) (irank : EntityRank) : List ConnEntry :=
  (m.connectivity e).filter (fun c => c.rank == irank)

def num_connectivity (m : BulkData) (e : Entity) (irank : EntityRank) : Nat :=
  (m.begin_entities e irank).length

/-- The owner kept in the entity's bucket slot; 0 for an entity in no bucket. -/
def parallel_owner_rank (m : BulkData) (e : Entity) : Nat :=
  match m.mesh_index e with
  | some idx => idx.owner
  | none => 0

/-- Stores the owner in the entity's bucket slot. -/
def set_parallel_owner_rank (m : BulkData) (e : Entity) (owner : Nat) : BulkData :=
  match m.mesh_index e with
  | some idx => m.set_mesh_index e (some { idx with owner := owner })
  | none => m

/-- The comm-info run of a key. -/
def entity_comm (m : BulkData) (key : EntityKey) : List EntityCommInfo :=
  match m.m_entity_comm_map.find? (fun p => p.1 == key) with
  | some p => p.2
  | none => []

/-- Modelled from the spec: BulkData::entity_comm_sharing (BulkData.hpp is not among
the sources): the part of the key's comm-info run that belongs to the sharing
ghosting, the ghosting of ordinal 0 created first by the constructor. -/
def entity_comm_sharing (m : BulkData) (key : EntityKey) : List EntityCommInfo :=
  (m.entity_comm key).filter (fun c => c.ghost_id == 0)

/-! ## Construction and the modification cycle -/

/-- BulkData::initialize_arrays (BulkData.cpp 448-472). -/
def initialize_arrays (m : BulkData) : Outcome Unit × BulkData :=
  if m.m_mesh_indexes.length == 0 && m.m_entity_keys.length == 0
      && m.m_entity_states.length == 0 && m.m_entity_sync_counts.length == 0 then
    (.ok (), { m with
      m_mesh_indexes := m.m_mesh_indexes ++ [none]
      m_entity_keys := m.m_entity_keys ++ [EntityKey.invalid_key]
      m_entity_states := m.m_entity_states ++ [EntityState.Deleted]
      m_entity_sync_counts := m.m_entity_sync_counts ++ [0] })
  else
    (.error "BulkData::initialize_arrays() called by something other than constructor", m)

/-- The constructor BulkData::BulkData (BulkData.cpp 106-179): the member
initializers, `initialize_arrays`, the two ghostings, and the final
`m_sync_state = SYNCHRONIZED`. -/
def construct (meta : MetaData) (cmap : ConnectivityMap) (parallel_size parallel_rank : Nat)
    (consistent assertions : Bool) : BulkData :=
  let m0 : BulkData :=
    { m_entity_repo := []
      m_entity_comm_map := []
      m_entity_comm_list := []
      m_ghosting := []
      m_deleted_entities := []
      m_deleted_entities_current_modification_cycle := []
      m_removed_keys := []
      m_mesh_meta_data := meta
      m_connectivity_map := cmap
      m_parallel_size := parallel_size
      m_parallel_rank := parallel_rank
      m_sync_count := 0
      m_sync_state := BulkDataSyncState.MODIFIABLE
      m_meta_data_verified := false
      m_mesh_finalized := false
      m_check_invalid_rels := true
      m_mesh_indexes := []
      m_entity_keys := []
      m_entity_states := []
      m_entity_sync_counts := []
      parallel_consistent := consistent
      assertions_enabled := assertions }
  let m1 := (initialize_arrays m0).2
  let m2 := { m1 with m_ghosting := m1.m_ghosting ++ ["shared", "shared_aura"] }
  { m2 with m_sync_state := BulkDataSyncState.SYNCHRONIZED }

/-- BulkData::require_ok_to_modify (BulkData.cpp 226-230). -/
def require_ok_to_modify (m : BulkData) : Outcome Unit :=
  if m.m_sync_state ≠ BulkDataSyncState.SYNCHRONIZED then .ok ()
  else .error "NOT in the ok-to-modify state"

/-- BulkData::require_metadata_committed (BulkData.cpp 256-261). -/
def require_metadata_committed (m : BulkData) : BulkData :=
  if !m.m_mesh_meta_data.is_commit then
    { m with m_mesh_meta_data := { m.m_mesh_meta_data with is_commit := true } }
  else m

/-- The loop of modification_begin over the entity map (BulkData.cpp 292-296):
`m_entity_states[i->second.local_offset()] = Unchanged` for every entry. -/
def reset_entity_states (repo : List (EntityKey × Entity)) (states : List EntityState) :
    List EntityState :=
  repo.foldl (fun st p => st.set p.2 EntityState.Unchanged) states

/-- BulkData::modification_begin (BulkData.cpp 265-304). The barrier has no effect
on the local mesh. -/
def modification_begin (m : BulkData) : Outcome Bool × BulkData :=
  if m.m_mesh_finalized ≠ false then
    (.error "Unable to modifiy, BulkData has been finalized.", m)
  else
    let m1 : BulkData :=
      if m.m_sync_count == 0 then
        { m with m_mesh_meta_data := { m.m_mesh_meta_data with mesh_set_on_fields := true } }
      else m
    if m1.m_sync_state = BulkDataSyncState.MODIFIABLE ∧ m1.m_mesh_finalized = false then
      (.ok false, m1)
    else if !m1.m_meta_data_verified then
      let m2 := require_metadata_committed m1
      if 1 < m2.m_parallel_size ∧ m2.parallel_consistent = false then
        (.error "verify_parallel_consistency", m2)
      else
        let m3 := { m2 with m_meta_data_verified := true }
        (.ok true, { m3 with m_sync_state := BulkDataSyncState.MODIFIABLE })
    else
      let m2 := { m1 with m_sync_count := m1.m_sync_count + 1 }
      let m3 := { m2 with
        m_entity_states := reset_entity_states m2.m_entity_repo m2.m_entity_states }
      (.ok true, { m3 with m_sync_state := BulkDataSyncState.MODIFIABLE })

/-- Modelled from the spec: BulkData::modification_end (its body is not among the
sources). Section 4.6 of the specification: it "transitions back to SYNCHRONIZED";
the parallel consistency resolution it performs is external. The local bookkeeping
the source defers to the end of the cycle, update_deleted_entities_container, is an
operation of its own here. -/
def modification_end (m : BulkData) : BulkData :=
  { m with m_sync_state := BulkDataSyncState.SYNCHRONIZED }

/-! ## Parts -/

/-- The helper `insert_ordinal` of the part ordinal vectors: insertion into a sorted
vector without duplicates. -/
def insert_ordinal (v : List PartOrdinal) (ord : PartOrdinal) : List PartOrdinal :=
  if ord ∈ v then v else v.orderedInsert (· ≤ ·) ord

/-- Modelled from the spec: induced_part_membership (Relation.cpp is not among the
sources; the call sites in BulkDataRelation.cpp fix its arguments). Section 4.3 of
the specification: a lower-rank entity inherits part X if a higher-rank relation of
it belongs to a part that declares induction for that rank pair. The parts of
`e_from` that declare induction from its rank onto `entity_rank_to` and are not in
`omit_parts` are inserted into `induced_parts`; with `include_supersets` their supersets
are inserted too ("a part implies membership in every superset part", section 3). -/
def induced_part_membership (m : BulkData) (e_from : Entity) (omit_parts : List PartOrdinal)
    (entity_rank_to : EntityRank) (_relation_identifier : RelationIdentifier)
    (induced_parts : List PartOrdinal) (include_supersets : Bool) : List PartOrdinal :=
  (m.bucket_parts e_from).foldl
    (fun acc p =>
      if m.m_mesh_meta_data.induces p (m.entity_rank e_from) entity_rank_to && !(omit_parts.contains p) then
        let acc1 := insert_ordinal acc p
        if include_supersets then (m.m_mesh_meta_data.supersets p).foldl insert_ordinal acc1
        else acc1
      else acc)
    induced_parts

/-- Modelled from the spec: BulkData::internal_change_entity_parts (BulkDataParts.cpp
is not among the sources). Section 4.4 of the specification: the entity is relocated
to the bucket whose signature is the requested sorted part set, its connectivity
going with it. The new part set is the old one without `remove_parts`, with
`add_parts` inserted. -/
def internal_change_entity_parts (m : BulkData) (e : Entity) (add_parts remove_parts : List PartOrdinal) :
    BulkData :=
  let kept := (m.bucket_parts e).filter (fun p => !(remove_parts.contains p))
  let new_parts := add_parts.foldl insert_ordinal kept
  match m.mesh_index e with
  | some idx => m.set_mesh_index e (some { idx with parts := new_parts })
  | none => m.set_mesh_index e (some { parts := new_parts, owner := 0, connectivity := [] })

/-- Modelled from the spec: BulkData::change_entity_parts (BulkDataParts.cpp is not
among the sources). Section 3 of the specification: supersets must be included, a
part implies membership in every superset part. -/
def change_entity_parts (m : BulkData) (e : Entity) (add_parts remove_parts : List PartOrdinal) :
    BulkData :=
  let add_all := add_parts.foldl
    (fun acc p => (m.m_mesh_meta_data.supersets p).foldl insert_ordinal (insert_ordinal acc p)) []
  internal_change_entity_parts m e add_all remove_parts

/-! ## Relations -/

/-- BulkData::require_valid_relation (BulkDataRelation.cpp 32-53). -/
def require_valid_relation (action : String) (mesh : BulkData) (e_from e_to : Entity) :
    Outcome Unit :=
  let error_type := decide (mesh.entity_rank e_from ≤ mesh.entity_rank e_to)
  let error_nil_from := !mesh.is_valid e_from
  let error_nil_to := !mesh.is_valid e_to
  if error_type || error_nil_from || error_nil_to then
    if error_nil_from || error_nil_to then
      .error ("Could not " ++ action ++ " relation, entity was destroyed")
    else if error_type then
      .error ("Could not " ++ action ++
        " relation, A relation must be from higher to lower ranking entity")
    else .ok ()
  else .ok ()

/-- The flood of BulkData::modified (BulkData.cpp 306-336) with a bound on the depth
of the recursion. The outer loop runs over the ranks above the rank of the entity,
highest first; the inner loop over the entity's relations of that rank. -/
def modified_fuel : Nat → BulkData → Entity → BulkData
  | 0, m, _ => m
  | fuel + 1, m, entity =>
    if m.state entity ≠ EntityState.Unchanged then m
    else
      let m1 := m.set_state entity EntityState.Modified
      let rank_of_original_entity := m1.entity_rank entity
      let ranks := ((List.range m1.m_mesh_meta_data.entity_rank_count).reverse).filter
        (fun irank => decide (rank_of_original_entity < irank))
      ranks.foldl
        (fun acc irank =>
          (m1.begin_entities entity irank).foldl
            (fun acc2 c =>
              if acc2.state c.entity = EntityState.Unchanged then modified_fuel fuel acc2 c.entity
              else acc2)
            acc)
        m1

/-- BulkData::modified (BulkData.cpp 306-336). Every call that recurses has turned
one more `Unchanged` state into `Modified`, so the depth is at most the number of
entity slots. -/
def modified (m : BulkData) (entity : Entity) : BulkData :=
  modified_fuel (m.m_entity_states.length + 1) m entity

/-- Modelled from the spec: Bucket::declare_relation (Bucket.cpp is not among the
sources). Section 4.3 of the specification: inserts (to, ordinal, permutation) into
the entity's connectivity table for rank(to) and tells whether this is a new edge
(not already present). Section 3: in the rank-descending direction a duplicate
ordinal with a different target is a degenerate relation error. An entity in no
bucket has no table to insert into. -/
def bucket_declare_relation (m : BulkData) (e e_to : Entity) (ordinal : ConnectivityOrdinal)
    (permut : Permutation) : Outcome Bool × BulkData :=
  let table := m.begin_entities e (m.entity_rank e_to)
  if table.any (fun c => c.entity == e_to && c.ordinal == ordinal) then (.ok false, m)
  else if decide (m.entity_rank e_to < m.entity_rank e) && table.any (fun c => c.ordinal == ordinal) then
    (.error "degenerate relation", m)
  else
    match m.mesh_index e with
    | some idx =>
      let entry : ConnEntry := ⟨m.entity_rank e_to, e_to, ordinal, permut⟩
      (.ok true, m.set_mesh_index e (some { idx with connectivity := idx.connectivity ++ [entry] }))
    | none => (.error "entity is in no bucket", m)

/-- The test "this position holds (e_to, ordinal) in the table for rank(e_to)". -/
def relation_hit (m : BulkData) (e_to : Entity) (ordinal : ConnectivityOrdinal) (c : ConnEntry) :
    Bool :=
  c.rank == m.entity_rank e_to && c.entity == e_to && c.ordinal == ordinal

/-- Modelled from the spec: Bucket::destroy_relation (Bucket.cpp is not among the
sources). Section 4.3 of the specification: removes the edge. The positions of the
entity's table for rank(to) that hold (to, ordinal) are removed; the result tells
whether there was one. -/
def bucket_destroy_relation (m : BulkData) (e e_to : Entity) (ordinal : ConnectivityOrdinal) :
    Bool × BulkData :=
  match m.mesh_index e with
  | some idx =>
    if idx.connectivity.any (relation_hit m e_to ordinal) then
      (true, m.set_mesh_index e
        (some { idx with connectivity :=
                  idx.connectivity.filter (fun c => !relation_hit m e_to ordinal c) }))
    else (false, m)
  | none => (false, m)

/-- BulkData::internal_declare_relation (BulkDataRelation.cpp 65-81). -/
def internal_declare_relation (m : BulkData) (e_from e_to : Entity) (local_id : RelationIdentifier)
    (sync_count : Nat) (_is_back_relation : Bool) (permut : Permutation) : Outcome Bool × BulkData :=
  match bucket_declare_relation m e_from e_to local_id permut with
  | (.error msg, m1) => (.error msg, m1)
  | (.ok caused, m1) =>
    if caused then (.ok true, m1.set_synchronized_count e_from sync_count)
    else (.ok false, m1)

/-- The test of declare_relation (BulkDataRelation.cpp 112-114) for "this rank pair
has a converse relation": either rank is outside the connectivity map, or the map
entry (rank(to), rank(from)) is not INVALID_CONNECTIVITY_TYPE. -/
def tracks_back_relation (m : BulkData) (rank_to rank_from : EntityRank) : Bool :=
  decide (m.m_connectivity_map.size ≤ rank_to) || decide (m.m_connectivity_map.size ≤ rank_from)
    || decide (m.m_connectivity_map.type rank_to rank_from ≠ ConnectivityType.INVALID_CONNECTIVITY_TYPE)

/-- BulkData::declare_relation(Entity, Entity, RelationIdentifier, Permutation)
(BulkDataRelation.cpp 83-140). -/
def declare_relation (m : BulkData) (e_from e_to : Entity) (local_id : RelationIdentifier)
    (permut : Permutation) : Outcome Unit × BulkData :=
  match m.require_ok_to_modify with
  | .error msg => (.error msg, m)
  | .ok _ =>
  match require_valid_relation "declare" m e_from e_to with
  | .error msg => (.error msg, m)
  | .ok _ =>
  match internal_declare_relation m e_from e_to local_id m.m_sync_count false permut with
  | (.error msg, m1) => (.error msg, m1)
  | (.ok caused_change_fwd, m1) =>
    let inverse : Outcome Unit × BulkData :=
      if caused_change_fwd then
        if m1.tracks_back_relation (m1.entity_rank e_to) (m1.entity_rank e_from) then
          match internal_declare_relation m1 e_to e_from local_id m1.m_sync_count true permut with
          | (.error msg, m2) => (.error msg, m2)
          | (.ok caused_change_inv, m2) =>
            if !caused_change_inv then
              (.error " Internal error - could not create inverse relation", m2)
            else (.ok (), m2)
        else (.ok (), m1)
      else (.ok (), m1)
    match inverse with
    | (.error msg, m2) => (.error msg, m2)
    | (.ok _, m2) =>
      let m3 := if caused_change_fwd then (m2.modified e_to).modified e_from else m2
      let add := induced_part_membership m3 e_from [] (m3.entity_rank e_to) local_id [] true
      (.ok (), internal_change_entity_parts m3 e_to add [])

/-- The loop of BulkData::declare_relation(Entity, const std::vector<Relation> &)
(BulkDataRelation.cpp 151-166). -/
def declare_relation_loop (entity : Entity) (erank : EntityRank) :
    List Relation → BulkData → Outcome Unit × BulkData
  | [], m => (.ok (), m)
  | i :: rest, m =>
    let e := i.entity
    let n := i.relation_ordinal
    let permut := i.orientation
    if m.entity_rank e < erank then
      match declare_relation m entity e n permut with
      | (.error msg, m1) => (.error msg, m1)
      | (.ok _, m1) => declare_relation_loop entity erank rest m1
    else if erank < m.entity_rank e then
      match declare_relation m e entity n permut with
      | (.error msg, m1) => (.error msg, m1)
      | (.ok _, m1) => declare_relation_loop entity erank rest m1
    else (.error "Given entities of the same entity rank.", m)

/-- BulkData::declare_relation(Entity, const std::vector<Relation> &)
(BulkDataRelation.cpp 144-167). -/
def declare_relation_vector (m : BulkData) (entity : Entity) (rel : List Relation) :
    Outcome Unit × BulkData :=
  match m.require_ok_to_modify with
  | .error msg => (.error msg, m)
  | .ok _ => declare_relation_loop entity (m.entity_rank entity) rel m

/-- The first loop nest of destroy_relation (BulkDataRelation.cpp 214-231): the parts
induced on `e_to` by its relations from higher-rank entities other than the one
being deleted. -/
def destroy_relation_keep (m : BulkData) (e_from e_to : Entity) (local_id : RelationIdentifier) :
    List PartOrdinal :=
  (List.range m.m_mesh_meta_data.entity_rank_count).foldl
    (fun keep irank =>
      (m.begin_entities e_to irank).foldl
        (fun keep2 c =>
          if m.entity_rank e_to < irank then
            if !(c.entity == e_from && c.ordinal == local_id) then
              induced_part_membership m c.entity [] (m.entity_rank e_to) c.ordinal keep2 false
            else keep2
          else keep2)
        keep)
    []

/-- The second loop nest of destroy_relation (BulkDataRelation.cpp 235-249): the parts
induced by the relation being deleted that are not in `keep`. The `break` leaves the
inner loop at the first position that matches. -/
def destroy_relation_del (m : BulkData) (e_from e_to : Entity) (local_id : RelationIdentifier)
    (keep : List PartOrdinal) : List PartOrdinal :=
  (List.range m.m_mesh_meta_data.entity_rank_count).foldl
    (fun del irank =>
      match (m.begin_entities e_from irank).find? (fun c => c.entity == e_to && c.ordinal == local_id) with
      | some c => induced_part_membership m e_from keep (m.entity_rank e_to) c.ordinal del false
      | none => del)
    []

/-- The block of destroy_relation that removes induced parts (BulkDataRelation.cpp
199-254): entered only if the mesh is serial or `e_to` has no sharing process, it
removes `del` from `e_to` unless `del` is empty. -/
def destroy_relation_parts (m : BulkData) (e_from e_to : Entity) (local_id : RelationIdentifier) :
    BulkData :=
  if m.m_parallel_size < 2 ∨ (m.entity_comm_sharing (m.entity_key e_to)).isEmpty = true then
    let keep := destroy_relation_keep m e_from e_to local_id
    let del := destroy_relation_del m e_from e_to local_id keep
    if !del.isEmpty then internal_change_entity_parts m e_to [] del else m
  else m

/-- BulkData::destroy_relation (BulkDataRelation.cpp 171-278). -/
def destroy_relation (m : BulkData) (e_from e_to : Entity) (local_id : RelationIdentifier) :
    Outcome Bool × BulkData :=
  match m.require_ok_to_modify with
  | .error msg => (.error msg, m)
  | .ok _ =>
  match require_valid_relation "destroy" m e_from e_to with
  | .error msg => (.error msg, m)
  | .ok _ =>
    let m1 := m.set_check_invalid_rels false
    let m2 := destroy_relation_parts m1 e_from e_to local_id
    match bucket_destroy_relation m2 e_from e_to local_id with
    | (caused_change_fwd, m3) =>
      let inverse : Outcome Unit × BulkData :=
        if caused_change_fwd then
          match bucket_destroy_relation m3 e_to e_from local_id with
          | (caused_change_inv, m4) =>
            if !caused_change_inv then
              (.error " Internal error - could not destroy inverse relation", m4)
            else (.ok (), m4)
        else (.ok (), m3)
      match inverse with
      | (.error msg, m4) => (.error msg, m4)
      | (.ok _, m4) =>
        let m5 := if caused_change_fwd then (m4.modified e_to).modified e_from else m4
        (.ok caused_change_fwd, m5.set_check_invalid_rels true)

/-! ## Entities -/

/-- BulkData::update_deleted_entities_container (BulkData.cpp 198-208). -/
def update_deleted_entities_container (m : BulkData) : BulkData :=
  { m with
    m_deleted_entities :=
      m.m_deleted_entities_current_modification_cycle.foldl (fun acc o => o :: acc) m.m_deleted_entities
    m_deleted_entities_current_modification_cycle := [] }

/-- BulkData::require_entity_owner (BulkData.cpp 232-242). -/
def require_entity_owner (m : BulkData) (entity : Entity) (owner : Nat) : Outcome Unit :=
  if 1 < m.m_parallel_size ∧ (m.mesh_index entity).isSome = true then
    let error_not_owner := decide (owner ≠ m.parallel_owner_rank entity)
    if !error_not_owner then .ok () else .error "Entity owner is not the expected owner"
  else .ok ()

/-- BulkData::require_good_rank_and_id (BulkData.cpp 244-254). -/
def require_good_rank_and_id (m : BulkData) (ent_rank : EntityRank) (ent_id : EntityId) :
    Outcome Unit :=
  let rank_count := m.m_mesh_meta_data.entity_rank_count
  let ok_id := EntityKey.is_valid_id ent_id
  let ok_rank := decide (ent_rank < rank_count) &&
    !(decide (ent_rank = MetaData.FACE_RANK) && decide (m.m_mesh_meta_data.spatial_dimension = 2))
  if !ok_rank then .error "Bad key rank"
  else if !ok_id then .error "Bad id"
  else .ok ()

/-- BulkData::generate_next_local_offset (BulkData.cpp 395-446); the framework
vectors of the SIERRA_MIGRATION build are left out. -/
def generate_next_local_offset (m : BulkData) : Nat × BulkData :=
  let fresh := m.m_mesh_indexes.length
  let popped : Nat × BulkData :=
    match m.m_deleted_entities with
    | [] => (fresh, m)
    | o :: rest => (o, { m with m_deleted_entities := rest })
  let new_local_offset := popped.1
  let m1 := popped.2
  if new_local_offset = m1.m_mesh_indexes.length then
    (new_local_offset, { m1 with
      m_mesh_indexes := m1.m_mesh_indexes ++ [none]
      m_entity_keys := m1.m_entity_keys ++ [EntityKey.invalid_key]
      m_entity_states := m1.m_entity_states ++ [EntityState.Created]
      m_entity_sync_counts := m1.m_entity_sync_counts ++ [0] })
  else
    (new_local_offset, { m1 with
      m_mesh_indexes := m1.m_mesh_indexes.set new_local_offset none
      m_entity_keys := m1.m_entity_keys.set new_local_offset EntityKey.invalid_key
      m_entity_states := m1.m_entity_states.set new_local_offset EntityState.Created
      m_entity_sync_counts := m1.m_entity_sync_counts.set new_local_offset 0 })

/-- The entry of the entity map for a key. -/
def get_entity (m : BulkData) (key : EntityKey) : Option Entity :=
  (m.m_entity_repo.find? (fun p => p.1 == key)).map (fun p => p.2)

/-- Modelled from the spec: EntityRepository::internal_create_entity (declared in
EntityRepository.hpp 65-70, its body is not among the sources). Section 4.1 of the
specification: create(key) returns an existing active entity unchanged with
wasCreated = false; otherwise, also when a destroyed entity with that key is still
present, a fresh handle is allocated, given the key and entered in the map, and
wasCreated = true. -/
def internal_create_entity (m : BulkData) (key : EntityKey) : (Entity × Bool) × BulkData :=
  let allocate : (Entity × Bool) × BulkData :=
    let g := m.generate_next_local_offset
    let m2 := g.2.set_entity_key g.1 key
    ((g.1, true),
      { m2 with m_entity_repo := m2.m_entity_repo.filter (fun p => !(p.1 == key)) ++ [(key, g.1)] })
  match m.get_entity key with
  | some e => if m.is_valid e then ((e, false), m) else allocate
  | none => allocate

/-- BulkData::declare_entity(EntityRank, EntityId, const PartVector &)
(BulkData.cpp 482-524). -/
def declare_entity (m : BulkData) (ent_rank : EntityRank) (ent_id : EntityId)
    (parts : List PartOrdinal) : Outcome Entity × BulkData :=
  let m0 := m.set_check_invalid_rels false
  match m0.require_ok_to_modify with
  | .error msg => (.error msg, m0)
  | .ok _ =>
  match m0.require_good_rank_and_id ent_rank ent_id with
  | .error msg => (.error msg, m0)
  | .ok _ =>
    let key : EntityKey := ⟨ent_rank, ent_id⟩
    let result := m0.internal_create_entity key
    let declared_entity := result.1.1
    let m1 := result.2
    let owner_check : Outcome Unit :=
      if !result.1.2 then m1.require_entity_owner declared_entity m1.m_parallel_rank else .ok ()
    match owner_check with
    | .error msg => (.error msg, m1)
    | .ok _ =>
      let owns := m1.m_mesh_meta_data.locally_owned_part
      let add := parts ++ [owns]
      let m2 := m1.change_entity_parts declared_entity add []
      let m3 :=
        if result.1.2 then
          (m2.set_parallel_owner_rank declared_entity m2.m_parallel_rank).set_synchronized_count
            declared_entity m2.m_sync_count
        else m2
      (.ok declared_entity, m3.set_check_invalid_rels true)

/-- BulkData::declare_entity(EntityRank, EntityId) (BulkData.cpp 526-530). -/
def declare_entity_universal (m : BulkData) (ent_rank : EntityRank) (ent_id : EntityId) :
    Outcome Entity × BulkData :=
  m.declare_entity ent_rank ent_id [m.m_mesh_meta_data.universal_part]

/-- Modelled from the spec: EntityRepository::update_entity_key (declared in
EntityRepository.hpp 74, its body is not among the sources). Section 4.1 of the
specification: update_key re-indexes the entity on identifier change. -/
def update_entity_key (m : BulkData) (new_key old_key : EntityKey) (entity : Entity) : BulkData :=
  { m with m_entity_repo :=
      m.m_entity_repo.filter (fun p => !(p.1 == old_key) && !(p.1 == new_key)) ++ [(new_key, entity)] }

/-- BulkData::internal_change_entity_key (BulkData.cpp 548-552). -/
def internal_change_entity_key (m : BulkData) (old_key new_key : EntityKey) (entity : Entity) :
    BulkData :=
  (m.update_entity_key new_key old_key entity).set_entity_key entity new_key

/-- BulkData::change_entity_id (BulkData.cpp 532-546). -/
def change_entity_id (m : BulkData) (id : EntityId) (entity : Entity) : Outcome Unit × BulkData :=
  if m.assertions_enabled = true ∧ m.m_parallel_size ≠ 1 then
    (.error "change_entity_id only supported in serial", m)
  else
    let e_rank := m.entity_rank entity
    match m.require_ok_to_modify with
    | .error msg => (.error msg, m)
    | .ok _ =>
    match m.require_good_rank_and_id e_rank id with
    | .error msg => (.error msg, m)
    | .ok _ =>
      let new_key : EntityKey := ⟨e_rank, id⟩
      let old_key := m.entity_key entity
      (.ok (), m.internal_change_entity_key old_key new_key entity)

/-- The order of entity keys: by rank, then by id (the order of the packed 64-bit
value). -/
def key_less (a b : EntityKey) : Bool :=
  decide (a.rank < b.rank) || (decide (a.rank = b.rank) && decide (a.id < b.id))

/-- The bisection of `std::lower_bound` over the comm list, comparing entry keys
with `key`: `first` and `count` delimit the range still searched. -/
def comm_list_lower_bound_go (l : List EntityCommListInfo) (key : EntityKey) :
    Nat → Nat → Nat → Nat
  | 0, first, _ => first
  | fuel + 1, first, count =>
    if count = 0 then first
    else
      let step := count / 2
      let it := first + step
      match l.get? it with
      | some info =>
        if key_less info.key key then comm_list_lower_bound_go l key fuel (it + 1) (count - (step + 1))
        else comm_list_lower_bound_go l key fuel first step
      | none => first

/-- The position `std::lower_bound(m_entity_comm_list.begin(), m_entity_comm_list.end(), key)`
returns. -/
def comm_list_lower_bound (l : List EntityCommListInfo) (key : EntityKey) : Nat :=
  comm_list_lower_bound_go l key (l.length + 1) 0 l.length

/-- The step of destroy_entity that invalidates the entity handle in the comm list
(BulkData.cpp 609-614). -/
def invalidate_comm_list_entity (m : BulkData) (key : EntityKey) : BulkData :=
  let lb := comm_list_lower_bound m.m_entity_comm_list key
  match m.m_entity_comm_list.get? lb with
  | some info =>
    if info.key = key then
      { m with m_entity_comm_list := m.m_entity_comm_list.set lb { info with entity := 0 } }
    else m
  | none => m

/-- The inner loop of destroy_entity over one connectivity table (BulkData.cpp
595-601), `j` counting down from the number of relations; position `j` is read
from the table as it is at that moment. -/
def destroy_entity_relations_of_rank (entity : Entity) (irank : EntityRank) :
    Nat → BulkData → Outcome Unit × BulkData
  | 0, m => (.ok (), m)
  | j + 1, m =>
    match (m.begin_entities entity irank).get? j with
    | some c =>
      if m.is_valid c.entity then
        match m.destroy_relation entity c.entity c.ordinal with
        | (.error msg, m1) => (.error msg, m1)
        | (.ok _, m1) => destroy_entity_relations_of_rank entity irank j m1
      else destroy_entity_relations_of_rank entity irank j m
    | none => destroy_entity_relations_of_rank entity irank j m

/-- The outer loop of destroy_entity (BulkData.cpp 590-602) over the ranks still to
visit, highest first. -/
def destroy_entity_relations (entity : Entity) : List EntityRank → BulkData → Outcome Unit × BulkData
  | [], m => (.ok (), m)
  | irank :: rest, m =>
    match destroy_entity_relations_of_rank entity irank (m.num_connectivity entity irank) m with
    | (.error msg, m1) => (.error msg, m1)
    | (.ok _, m1) => destroy_entity_relations entity rest m1

/-- Modelled from the spec: Partition::remove (Partition.cpp is not among the
sources). Section 3 of the specification: a destroyed entity is removed from its
bucket immediately; its mesh index becomes the null index. -/
def partition_remove (m : BulkData) (entity : Entity) : BulkData :=
  m.set_mesh_index entity none

/-- EntityRepository::destroy_entity (EntityRepository.hpp 93-97): `m_entities.erase(key)`. -/
def repo_destroy_entity (m : BulkData) (key : EntityKey) (_entity : Entity) : BulkData :=
  { m with m_entity_repo := m.m_entity_repo.filter (fun p => !(p.1 == key)) }

/-- The last part of destroy_entity (BulkData.cpp 604-625): the handle in the comm
list is invalidated, the key is registered as removed, and the entity leaves its
bucket and the entity map, is marked Deleted and entered in the list of offsets
deleted in this cycle. `remove_entity_callback` writes only field bytes, which are
not part of this state. -/
def destroy_entity_remove (m1 : BulkData) (entity : Entity) : BulkData :=
  let m2 := m1.invalidate_comm_list_entity (m1.entity_key entity)
  let m3 := { m2 with m_removed_keys := m2.m_removed_keys ++ [m2.entity_key entity] }
  let m4 := m3.partition_remove entity
  let m5 := m4.repo_destroy_entity (m4.entity_key entity) entity
  let m6 := { m5 with m_entity_states := m5.m_entity_states.set entity EntityState.Deleted }
  let m7 := { m6 with m_deleted_entities_current_modification_cycle :=
                entity :: m6.m_deleted_entities_current_modification_cycle }
  m7.set_check_invalid_rels true

/-- BulkData::destroy_entity (BulkData.cpp 556-627). The ranks of the first loop
are rank(entity)+1 up to the rank count. -/
def destroy_entity (m : BulkData) (entity : Entity) : Outcome Bool × BulkData :=
  match m.require_ok_to_modify with
  | .error msg => (.error msg, m)
  | .ok _ =>
    let m0 := m.set_check_invalid_rels false
    if !m0.is_valid entity then (.ok false, m0.set_check_invalid_rels true)
    else
      let end_rank := m0.m_mesh_meta_data.entity_rank_count
      let higher := List.range' (m0.entity_rank entity + 1) (end_rank - (m0.entity_rank entity + 1))
      if higher.any (fun irank => decide (0 < m0.num_connectivity entity irank)) then
        (.ok false, m0.set_check_invalid_rels true)
      else
        match destroy_entity_relations entity (List.range end_rank).reverse m0 with
        | (.error msg, m1) => (.error msg, m1)
        | (.ok _, m1) => (.ok true, m1.destroy_entity_remove entity)

/-! ## A small mesh for the examples -/

/-- Metadata with four ranks in three dimensions: part 0 is the universal part,
part 1 the locally owned part, and part 10, a subset of part 9, is induced from
rank 3 onto rank 0. -/
def scenario_meta : MetaData :=
  { entity_rank_count := 4
    spatial_dimension := 3
    is_commit := false
    mesh_set_on_fields := false
    locally_owned_part := 1
    universal_part := 0
    supersets := fun p => if p = 10 then [9] else []
    induces := fun p rank_from rank_to => p == 10 && rank_from == 3 && rank_to == 0 }

/-- A connectivity map that tracks every rank pair. -/
def scenario_map : ConnectivityMap :=
  { size := 4, type := fun _ _ => ConnectivityType.DYNAMIC_CONNECTIVITY }

/-- A connectivity map in which every pair is forward-only. -/
def scenario_forward_only_map : ConnectivityMap :=
  { size := 4, type := fun _ _ => ConnectivityType.INVALID_CONNECTIVITY_TYPE }

/-- A serial mesh straight out of the constructor. -/
def scenario_fresh : BulkData := construct scenario_meta scenario_map 1 0 true true

/-- The fresh mesh after its first modification_begin. -/
def scenario_begun : BulkData := scenario_fresh.modification_begin.2

/-- The begun mesh with an element (rank 3, id 1, in part 10) at offset 1 and a
node (rank 0, id 1) at offset 2. -/
def scenario_two_entities : BulkData :=
  ((scenario_begun.declare_entity 3 1 [10]).2.declare_entity 0 1 []).2

/-- The two entities joined by the relation element -> node with ordinal 0. -/
def scenario_related : BulkData := (scenario_two_entities.declare_relation 1 2 0 0).2

/-- The two-entity mesh as it would stand after a modification_end: synchronized,
its metadata verified. -/
def scenario_synchronized : BulkData :=
  { scenario_two_entities with m_sync_state := BulkDataSyncState.SYNCHRONIZED }

/-- The two-entity mesh on a forward-only connectivity map. -/
def scenario_two_entities_forward_only : BulkData :=
  { scenario_two_entities with m_connectivity_map := scenario_forward_only_map }

/-- The begun mesh after finalization. -/
def scenario_finalized : BulkData := { scenario_begun with m_mesh_finalized := true }

/-- The related two-entity mesh on two processes, the node shared with process 1:
its key has an entry of the sharing ghosting in the comm map. -/
def scenario_shared : BulkData :=
  { scenario_related with
    m_parallel_size := 2
    m_entity_comm_map := [(⟨0, 1⟩, [⟨0, 1⟩])] }

/-- The two-entity mesh in its second modification cycle: after modification_end
and modification_begin both entities are Unchanged. -/
def scenario_second_cycle : BulkData :=
  scenario_two_entities.modification_end.modification_begin.2

/-- An element (offset 1), a face (offset 2) and a node (offset 3) declared in the
first cycle, with the relation element -> face; the mesh is in its second
modification cycle, where all three are Unchanged. -/
def scenario_chain : BulkData :=
  ((((((scenario_begun.declare_entity 3 1 [10]).2.declare_entity 2 1 []).2.declare_entity
    0 1 []).2.declare_relation 1 2 0 0).2).modification_end).modification_begin.2

/-- The two entities on the forward-only map, joined by the relation element ->
node with ordinal 0: the node holds no back-relation. -/
def scenario_related_forward_only : BulkData :=
  (scenario_two_entities_forward_only.declare_relation 1 2 0 0).2

/-- The two-entity mesh after the node (offset 2) was destroyed. -/
def scenario_node_destroyed : BulkData := (scenario_two_entities.destroy_entity 2).2

/-- The mesh after the node was destroyed and the offsets deleted in the cycle were
moved to the free list: offset 2 is free. -/
def scenario_recycling : BulkData := scenario_node_destroyed.update_deleted_entities_container

/-- The mesh with offset 2 free in which a face (rank 2, id 7) was declared, which
recycles offset 2, and joined to the element by the relation element -> face with
ordinal 0. -/
def scenario_recycled_related : BulkData :=
  ((scenario_recycling.declare_entity 2 7 []).2.declare_relation 1 2 0 0).2

/-- The related two-entity mesh with a comm list that holds the element and the
node, sorted by key (the node, of rank 0, first). -/
def scenario_with_comm_list : BulkData :=
  { scenario_related with
    m_entity_comm_list := [⟨⟨0, 1⟩, 0, 2⟩, ⟨⟨3, 1⟩, 0, 1⟩] }

/-- The two-entity mesh on two processes, with the node (offset 2) owned by process
1 while the local process is process 0. -/
def scenario_owned_elsewhere : BulkData :=
  ({ scenario_two_entities with m_parallel_size := 2 } : BulkData).set_parallel_owner_rank 2 1

/-- A serial mesh of spatial dimension 2 after its first modification_begin. -/
def scenario_planar : BulkData :=
  (construct { scenario_meta with spatial_dimension := 2 } scenario_map 1 0 true
    true).modification_begin.2

/-- The entities, relations, part memberships, repository entries and per-entity
vector slots of two meshes are the same: the entity map and the four per-entity
vectors (the mesh indexes hold parts and connectivity) are equal. -/
def same_entities (m m' : BulkData) : Prop :=
  m'.m_entity_repo = m.m_entity_repo ∧ m'.m_mesh_indexes = m.m_mesh_indexes ∧
  m'.m_entity_keys = m.m_entity_keys ∧ m'.m_entity_states = m.m_entity_states ∧
  m'.m_entity_sync_counts = m.m_entity_sync_counts

/-- What the relation operations leave alone: `m'` has the keys, the metadata, the
connectivity map, the entity map, the free lists, the comm data and the cycle
members of `m`; its mesh-index and state vectors have the lengths they had, and the
same slots hold the state `Deleted`. -/
structure Frame (m m' : BulkData) : Prop where
  keys : m'.m_entity_keys = m.m_entity_keys
  meta : m'.m_mesh_meta_data = m.m_mesh_meta_data
  cmap : m'.m_connectivity_map = m.m_connectivity_map
  repo : m'.m_entity_repo = m.m_entity_repo
  deleted : m'.m_deleted_entities = m.m_deleted_entities
  deleted_cycle : m'.m_deleted_entities_current_modification_cycle
    = m.m_deleted_entities_current_modification_cycle
  comm_map : m'.m_entity_comm_map = m.m_entity_comm_map
  comm_list : m'.m_entity_comm_list = m.m_entity_comm_list
  sync_state : m'.m_sync_state = m.m_sync_state
  sync_count : m'.m_sync_count = m.m_sync_count
  parallel_size : m'.m_parallel_size = m.m_parallel_size
  parallel_rank : m'.m_parallel_rank = m.m_parallel_rank
  indexes_length : m'.m_mesh_indexes.length = m.m_mesh_indexes.length
  states_length : m'.m_entity_states.length = m.m_entity_states.length
  deleted_iff : ∀ e : Entity, m'.state e = EntityState.Deleted ↔ m.state e = EntityState.Deleted

/-- The position that declares the relation to `e_to` with an ordinal and a
permutation, as Bucket::declare_relation stores it. -/
def declared_entry (m : BulkData) (e_to : Entity) (ordinal : ConnectivityOrdinal)
    (permut : Permutation) : ConnEntry :=
  ⟨m.entity_rank e_to, e_to, ordinal, permut⟩

/-- A position holds the relation to `e_to` with an ordinal. -/
def holds_relation (m : BulkData) (e_to : Entity) (ordinal : ConnectivityOrdinal)
    (c : ConnEntry) : Prop :=
  c.rank = m.entity_rank e_to ∧ c.entity = e_to ∧ c.ordinal = ordinal

/-- The mesh `m'` that declare_relation leaves, told by three flags: `fwd`, the
forward position was appended to the table of `e_from`; `inv`, the mirrored
position was appended to the table of `e_to`; `prt`, the induced parts were added
to `e_to`. Nothing else differs from `m` but states and sync counts. -/
def declare_relation_view (m m' : BulkData) (e_from e_to : Entity) (local_id : RelationIdentifier)
    (permut : Permutation) (fwd inv prt : Bool) : Prop :=
  Frame m m' ∧
  (∀ x, m'.connectivity x =
    m.connectivity x
      ++ (if fwd = true ∧ x = e_from then [declared_entry m e_to local_id permut] else [])
      ++ (if inv = true ∧ x = e_to then [declared_entry m e_from local_id permut] else [])) ∧
  (∀ x, m'.bucket_parts x =
    if prt = true ∧ x = e_to ∧ e_to < m.m_mesh_indexes.length then
      (induced_part_membership m e_from [] (m.entity_rank e_to) local_id [] true).foldl
        insert_ordinal (m.bucket_parts e_to)
    else m.bucket_parts x) ∧
  (∀ x, (m'.mesh_index x).isSome =
    ((m.mesh_index x).isSome || (prt && decide (x = e_to ∧ e_to < m.m_mesh_indexes.length))))

/-- What the flags of `declare_relation_view` tell about the call: it returns
normally exactly when the parts step ran; a step ran only after both checks passed;
the forward position was appended only to an entity in a bucket that did not hold
the relation; the mirror only for a tracked rank pair, and likewise; a forward
position without its mirror on a tracked pair means the call threw because the
mirror was already there or `e_to` is in no bucket; and a call that appended
nothing but returned normally found the relation already held. -/
def declare_relation_facts (m : BulkData) (e_from e_to : Entity) (local_id : RelationIdentifier)
    (out : Outcome Unit) (fwd inv prt : Bool) : Prop :=
  (out = Outcome.ok () ↔ prt = true) ∧
  ((fwd = true ∨ prt = true) →
    m.m_sync_state ≠ BulkDataSyncState.SYNCHRONIZED ∧
    m.entity_rank e_to < m.entity_rank e_from ∧ m.is_valid e_from = true ∧ m.is_valid e_to = true) ∧
  (fwd = true →
    (m.mesh_index e_from).isSome = true ∧
    ∀ c ∈ m.connectivity e_from, ¬ holds_relation m e_to local_id c) ∧
  (inv = true →
    fwd = true ∧ m.tracks_back_relation (m.entity_rank e_to) (m.entity_rank e_from) = true ∧
    (m.mesh_index e_to).isSome = true ∧
    ∀ c ∈ m.connectivity e_to, ¬ holds_relation m e_from local_id c) ∧
  (fwd = true → inv = false →
    m.tracks_back_relation (m.entity_rank e_to) (m.entity_rank e_from) = true →
    prt = false ∧
    ((∃ c ∈ m.connectivity e_to, holds_relation m e_from local_id c) ∨
      (m.mesh_index e_to).isSome = false)) ∧
  (prt = true → fwd = false → ∃ c ∈ m.connectivity e_from, holds_relation m e_to local_id c)

/-- The part list `del` that destroy_relation computes: the parts induced by the
relation being deleted that no kept relation of `e_to` induces. -/
def destroy_relation_removed (m : BulkData) (e_from e_to : Entity) (local_id : RelationIdentifier) :
    List PartOrdinal :=
  destroy_relation_del m e_from e_to local_id (destroy_relation_keep m e_from e_to local_id)

/-- The entity `e_to` is not shared: the condition of BulkDataRelation.cpp line 199. -/
def not_shared (m : BulkData) (e_to : Entity) : Prop :=
  m.m_parallel_size < 2 ∨ (m.entity_comm_sharing (m.entity_key e_to)).isEmpty = true

/-- The mesh `m'` that destroy_relation leaves, told by three flags: `chk`, both
checks passed; `prt`, parts were removed from `e_to`; `fwd`, the table of `e_from`
held the relation. With `chk` the positions holding the relation are gone from the
table of `e_from`, with `fwd` also the mirrored positions from the table of `e_to`. -/
def destroy_relation_view (m m' : BulkData) (e_from e_to : Entity) (local_id : RelationIdentifier)
    (chk prt fwd : Bool) : Prop :=
  Frame m m' ∧
  (∀ x, m'.connectivity x =
    if chk = true ∧ x = e_from then
      (m.connectivity e_from).filter (fun c => !relation_hit m e_to local_id c)
    else if fwd = true ∧ x = e_to then
      (m.connectivity e_to).filter (fun c => !relation_hit m e_from local_id c)
    else m.connectivity x) ∧
  (∀ x, m'.bucket_parts x =
    if prt = true ∧ x = e_to ∧ e_to < m.m_mesh_indexes.length then
      (m.bucket_parts e_to).filter
        (fun p => !((destroy_relation_removed m e_from e_to local_id).contains p))
    else m.bucket_parts x) ∧
  (∀ x, (m'.mesh_index x).isSome =
    ((m.mesh_index x).isSome || (prt && decide (x = e_to ∧ e_to < m.m_mesh_indexes.length))))

/-- What the flags of `destroy_relation_view` tell about the call. -/
def destroy_relation_facts (m : BulkData) (e_from e_to : Entity) (local_id : RelationIdentifier)
    (out : Outcome Bool) (chk prt fwd : Bool) : Prop :=
  (chk = true ↔
    (m.m_sync_state ≠ BulkDataSyncState.SYNCHRONIZED ∧
      m.entity_rank e_to < m.entity_rank e_from ∧ m.is_valid e_from = true ∧
      m.is_valid e_to = true)) ∧
  (chk = false → out.isError = true ∧ prt = false ∧ fwd = false) ∧
  (prt = true ↔
    (chk = true ∧ not_shared m e_to ∧ destroy_relation_removed m e_from e_to local_id ≠ [])) ∧
  (fwd = true ↔ (chk = true ∧ ∃ c ∈ m.connectivity e_from, holds_relation m e_to local_id c)) ∧
  (chk = true → (fwd = true → ∃ c ∈ m.connectivity e_to, holds_relation m e_from local_id c) →
    out = Outcome.ok fwd) ∧
  (chk = true → fwd = true → (¬ ∃ c ∈ m.connectivity e_to, holds_relation m e_from local_id c) →
    out.isError = true)

/-- Section 4.3 of the specification: the relation of an entity `x` to entities of
rank `rank_to` induces part `p` when `x` belongs to `p` and `p` declares induction
for that rank pair. -/
def induces_part (m : BulkData) (x : Entity) (rank_to : EntityRank) (p : PartOrdinal) : Prop :=
  p ∈ m.bucket_parts x ∧ m.m_mesh_meta_data.induces p (m.entity_rank x) rank_to = true

/-- A position `c` of the connectivity of `e_to` is one of its other relations from
a higher-rank entity: it lies in a table for a rank of the mesh above rank(e_to) and
is not the position (e_from, local_id) being deleted. -/
def kept_relation (m : BulkData) (e_from e_to : Entity) (local_id : RelationIdentifier)
    (c : ConnEntry) : Prop :=
  c ∈ m.connectivity e_to ∧ m.entity_rank e_to < c.rank ∧
    c.rank < m.m_mesh_meta_data.entity_rank_count ∧ ¬ (c.entity = e_from ∧ c.ordinal = local_id)

/-- Whether back-relations are tracked between entities of two ranks: the test of
declare_relation applied to the lower and the higher of the two. -/
def tracked_pair (m : BulkData) (r1 r2 : EntityRank) : Bool :=
  m.tracks_back_relation (min r1 r2) (max r1 r2)

/-- The position that mirrors the position `c` of entity `a`: it stands in the table
of `c.entity` for rank(a) and holds (a, ordinal, permutation). -/
def mirror (m : BulkData) (a : Entity) (c : ConnEntry) : ConnEntry :=
  ⟨m.entity_rank a, a, c.ordinal, c.permutation⟩

/-- The invariant of the reachable meshes. The per-entity vectors are aligned; the
offsets on the free list are distinct, lie inside the vectors and are in state
Deleted; an entity is in a bucket exactly when it is valid; a valid entity has a
rank of the mesh; the entity map sends keys to valid entities that carry that key;
and every position on a tracked rank pair points to an entity of the rank of its
table whose connectivity holds the mirrored position. -/
structure WellFormed (m : BulkData) : Prop where
  aligned_indexes : m.m_mesh_indexes.length = m.m_entity_states.length
  aligned_keys : m.m_entity_keys.length = m.m_entity_states.length
  free_deleted : ∀ o ∈ m.m_deleted_entities,
    o < m.m_entity_states.length ∧ m.state o = EntityState.Deleted
  free_nodup : m.m_deleted_entities.Nodup
  slot_iff_valid : ∀ e : Entity, (m.mesh_index e).isSome = m.is_valid e
  rank_bound : ∀ e : Entity, m.is_valid e = true →
    m.entity_rank e < m.m_mesh_meta_data.entity_rank_count
  repo_valid : ∀ p ∈ m.m_entity_repo, m.entity_key p.2 = p.1 ∧ m.is_valid p.2 = true
  mirrored : ∀ (a : Entity) (c : ConnEntry), c ∈ m.connectivity a →
    c.rank ≠ m.entity_rank a → m.tracked_pair (m.entity_rank a) c.rank = true →
    m.entity_rank c.entity = c.rank ∧ m.mirror a c ∈ m.connectivity c.entity

/-- Relation symmetry: for entities `e_from`, `e_to` with rank(e_to) < rank(e_from)
on a rank pair whose back-relations are tracked, `e_from` lists (e_to, ordinal,
permutation) among its relations to rank(e_to) exactly when `e_to` lists (e_from,
ordinal, permutation) among its relations to rank(e_from). -/
def relations_symmetric (m : BulkData) : Prop :=
  ∀ (e_from e_to : Entity) (ordinal : ConnectivityOrdinal) (permut : Permutation),
    m.entity_rank e_to < m.entity_rank e_from →
    m.tracks_back_relation (m.entity_rank e_to) (m.entity_rank e_from) = true →
    ((∃ c ∈ m.begin_entities e_from (m.entity_rank e_to),
        c.entity = e_to ∧ c.ordinal = ordinal ∧ c.permutation = permut) ↔
      (∃ c ∈ m.begin_entities e_to (m.entity_rank e_from),
        c.entity = e_from ∧ c.ordinal = ordinal ∧ c.permutation = permut))

/-- The meshes reachable from the constructor through modification_begin,
declare_entity, declare_relation (both overloads), destroy_relation and
destroy_entity; a call that throws leaves a reachable mesh too. -/
inductive Reachable : BulkData → Prop where
  | construct (meta : MetaData) (cmap : ConnectivityMap) (parallel_size parallel_rank : Nat)
      (consistent assertions : Bool) :
      Reachable (construct meta cmap parallel_size parallel_rank consistent assertions)
  | modification_begin (m : BulkData) : Reachable m → Reachable m.modification_begin.2
  | declare_entity (m : BulkData) (ent_rank : EntityRank) (ent_id : EntityId)
      (parts : List PartOrdinal) :
      Reachable m → Reachable (m.declare_entity ent_rank ent_id parts).2
  | declare_relation (m : BulkData) (e_from e_to : Entity) (local_id : RelationIdentifier)
      (permut : Permutation) :
      Reachable m → Reachable (m.declare_relation e_from e_to local_id permut).2
  | declare_relation_vector (m : BulkData) (entity : Entity) (rel : List Relation) :
      Reachable m → Reachable (m.declare_relation_vector entity rel).2
  | destroy_relation (m : BulkData) (e_from e_to : Entity) (local_id : RelationIdentifier) :
      Reachable m → Reachable (m.destroy_relation e_from e_to local_id).2
  | destroy_entity (m : BulkData) (entity : Entity) :
      Reachable m → Reachable (m.destroy_entity entity).2

/-- A position that destroy_entity can delete through destroy_relation: its target
is valid and has the rank of the table the position stands in. -/
def deletable (m : BulkData) (c : ConnEntry) : Prop :=
  m.is_valid c.entity = true ∧ m.entity_rank c.entity = c.rank

/-- No position of the table of `entity` for `irank` at index `k` or above is
deletable. -/
def none_deletable_from (m : BulkData) (entity : Entity) (irank : EntityRank) (k : Nat) : Prop :=
  ∀ (i : Nat) (c : ConnEntry), k ≤ i → (m.begin_entities entity irank).get? i = some c →
    ¬ deletable m c

/-- A position the flood of `modified` follows from `x`: it stands in a table of `x`
for a rank of the mesh above the rank of `x`. -/
def flood_edge (m : BulkData) (x : Entity) (c : ConnEntry) : Prop :=
  c ∈ m.connectivity x ∧ m.entity_rank x < c.rank ∧
    c.rank < m.m_mesh_meta_data.entity_rank_count

/-- The number of entity slots in state Unchanged. -/
def unchanged_count (m : BulkData) : Nat :=
  m.m_entity_states.count EntityState.Unchanged

/-- What a flood of `modified` does to a mesh: connectivity, keys and all the rest of
`Frame` stay; a state either stays or goes from Unchanged to Modified; and for every
entity the flood has turned to Modified, the targets of the positions the flood
follows from it are not Unchanged any more. -/
structure Flooded (m m' : BulkData) : Prop where
  frame : Frame m m'
  indexes : m'.m_mesh_indexes = m.m_mesh_indexes
  mono : ∀ x : Entity, m'.state x = m.state x ∨
    (m.state x = EntityState.Unchanged ∧ m'.state x = EntityState.Modified)
  closed : ∀ (x : Entity) (c : ConnEntry), m.state x = EntityState.Unchanged →
    m'.state x = EntityState.Modified → flood_edge m x c →
    m'.state c.entity ≠ EntityState.Unchanged
  count : unchanged_count m' ≤ unchanged_count m

/-- The invariant of the local offsets. The per-entity vectors are aligned and not
empty; slot 0 holds the invalid key and the state Deleted; the entity map sends
keys to valid entities that carry that key; and the offsets on the free list and on
the list of offsets deleted in the current cycle are distinct, are not 0, lie inside
the vectors and are in state Deleted. -/
structure OffsetsConsistent (m : BulkData) : Prop where
  aligned_indexes : m.m_mesh_indexes.length = m.m_entity_states.length
  aligned_keys : m.m_entity_keys.length = m.m_entity_states.length
  nonempty : 0 < m.m_entity_states.length
  reserved_state : m.state 0 = EntityState.Deleted
  reserved_key : m.entity_key 0 = EntityKey.invalid_key
  repo_valid : ∀ p ∈ m.m_entity_repo, m.entity_key p.2 = p.1 ∧ m.is_valid p.2 = true
  free_deleted : ∀ o ∈ m.m_deleted_entities ++ m.m_deleted_entities_current_modification_cycle,
    o < m.m_entity_states.length ∧ m.state o = EntityState.Deleted
  free_nonzero : ∀ o ∈ m.m_deleted_entities ++ m.m_deleted_entities_current_modification_cycle,
    o ≠ 0
  free_nodup : (m.m_deleted_entities ++ m.m_deleted_entities_current_modification_cycle).Nodup

/-- The meshes reachable from the constructor through modification_begin,
modification_end, update_deleted_entities_container, generate_next_local_offset,
declare_entity, declare_relation (both overloads), destroy_relation and
destroy_entity; a call that throws leaves a reachable mesh too. -/
inductive ReachableOffsets : BulkData → Prop where
  | construct (meta : MetaData) (cmap : ConnectivityMap) (parallel_size parallel_rank : Nat)
      (consistent assertions : Bool) :
      ReachableOffsets (construct meta cmap parallel_size parallel_rank consistent assertions)
  | modification_begin (m : BulkData) : ReachableOffsets m → ReachableOffsets m.modification_begin.2
  | modification_end (m : BulkData) : ReachableOffsets m → ReachableOffsets m.modification_end
  | update_deleted_entities_container (m : BulkData) :
      ReachableOffsets m → ReachableOffsets m.update_deleted_entities_container
  | generate_next_local_offset (m : BulkData) :
      ReachableOffsets m → ReachableOffsets m.generate_next_local_offset.2
  | declare_entity (m : BulkData) (ent_rank : EntityRank) (ent_id : EntityId)
      (parts : List PartOrdinal) :
      ReachableOffsets m → ReachableOffsets (m.declare_entity ent_rank ent_id parts).2
  | declare_relation (m : BulkData) (e_from e_to : Entity) (local_id : RelationIdentifier)
      (permut : Permutation) :
      ReachableOffsets m → ReachableOffsets (m.declare_relation e_from e_to local_id permut).2
  | declare_relation_vector (m : BulkData) (entity : Entity) (rel : List Relation) :
      ReachableOffsets m → ReachableOffsets (m.declare_relation_vector entity rel).2
  | destroy_relation (m : BulkData) (e_from e_to : Entity) (local_id : RelationIdentifier) :
      ReachableOffsets m → ReachableOffsets (m.destroy_relation e_from e_to local_id).2
  | destroy_entity (m : BulkData) (entity : Entity) :
      ReachableOffsets m → ReachableOffsets (m.destroy_entity entity).2

/-- The invariant of the entity states. An entity in a bucket is valid; a valid
entity has an entry in the entity map, whose keys are distinct; and the flood of
`modified` has run from every entity that is not Unchanged: the targets of the
positions the flood follows from it are not Unchanged either. -/
structure Propagated (m : BulkData) : Prop where
  slot_valid : ∀ e : Entity, (m.mesh_index e).isSome = true → m.is_valid e = true
  in_repo : ∀ e : Entity, m.is_valid e = true → ∃ p ∈ m.m_entity_repo, p.2 = e
  keys_nodup : (m.m_entity_repo.map Prod.fst).Nodup
  closed : ∀ (x : Entity) (c : ConnEntry), flood_edge m x c →
    m.state x ≠ EntityState.Unchanged → m.state c.entity ≠ EntityState.Unchanged

/-- The meshes reachable from the constructor, over any number of modification
cycles, through modification_begin, modification_end,
update_deleted_entities_container, declare_entity, declare_relation (both
overloads), destroy_relation and destroy_entity; a call that throws leaves a
reachable mesh too. -/
inductive ReachableCycles : BulkData → Prop where
  | construct (meta : MetaData) (cmap : ConnectivityMap) (parallel_size parallel_rank : Nat)
      (consistent assertions : Bool) :
      ReachableCycles (construct meta cmap parallel_size parallel_rank consistent assertions)
  | modification_begin (m : BulkData) : ReachableCycles m → ReachableCycles m.modification_begin.2
  | modification_end (m : BulkData) : ReachableCycles m → ReachableCycles m.modification_end
  | update_deleted_entities_container (m : BulkData) :
      ReachableCycles m → ReachableCycles m.update_deleted_entities_container
  | declare_entity (m : BulkData) (ent_rank : EntityRank) (ent_id : EntityId)
      (parts : List PartOrdinal) :
      ReachableCycles m → ReachableCycles (m.declare_entity ent_rank ent_id parts).2
  | declare_relation (m : BulkData) (e_from e_to : Entity) (local_id : RelationIdentifier)
      (permut : Permutation) :
      ReachableCycles m → ReachableCycles (m.declare_relation e_from e_to local_id permut).2
  | declare_relation_vector (m : BulkData) (entity : Entity) (rel : List Relation) :
      ReachableCycles m → ReachableCycles (m.declare_relation_vector entity rel).2
  | destroy_relation (m : BulkData) (e_from e_to : Entity) (local_id : RelationIdentifier) :
      ReachableCycles m → ReachableCycles (m.destroy_relation e_from e_to local_id).2
  | destroy_entity (m : BulkData) (entity : Entity) :
      ReachableCycles m → ReachableCycles (m.destroy_entity entity).2

/-- Entity `x` has a relation to `y` of a higher rank: `y` is the target of a
position in a table of `x` for a rank of the mesh above the rank of `x`. -/
def higher_relation (m : BulkData) (x y : Entity) : Prop :=
  ∃ c : ConnEntry, flood_edge m x c ∧ c.entity = y

/-- Entity `y` is reached from `x` by following, any number of times, relations to
entities of higher rank. -/
inductive reaches_upward (m : BulkData) : Entity → Entity → Prop where
  | refl (x : Entity) : reaches_upward m x x
  | step (x y z : Entity) : reaches_upward m x y → higher_relation m y z → reaches_upward m x z

/-- The meshes that a mesh `start` can become without a call of
update_deleted_entities_container: through modification_begin, modification_end,
generate_next_local_offset, declare_entity, declare_relation (both overloads),
destroy_relation and destroy_entity. -/
inductive WithinCycle (start : BulkData) : BulkData → Prop where
  | start : WithinCycle start start
  | modification_begin (m : BulkData) : WithinCycle start m → WithinCycle start m.modification_begin.2
  | modification_end (m : BulkData) : WithinCycle start m → WithinCycle start m.modification_end
  | generate_next_local_offset (m : BulkData) :
      WithinCycle start m → WithinCycle start m.generate_next_local_offset.2
  | declare_entity (m : BulkData) (ent_rank : EntityRank) (ent_id : EntityId)
      (parts : List PartOrdinal) :
      WithinCycle start m → WithinCycle start (m.declare_entity ent_rank ent_id parts).2
  | declare_relation (m : BulkData) (e_from e_to : Entity) (local_id : RelationIdentifier)
      (permut : Permutation) :
      WithinCycle start m → WithinCycle start (m.declare_relation e_from e_to local_id permut).2
  | declare_relation_vector (m : BulkData) (entity : Entity) (rel : List Relation) :
      WithinCycle start m → WithinCycle start (m.declare_relation_vector entity rel).2
  | destroy_relation (m : BulkData) (e_from e_to : Entity) (local_id : RelationIdentifier) :
      WithinCycle start m → WithinCycle start (m.destroy_relation e_from e_to local_id).2
  | destroy_entity (m : BulkData) (entity : Entity) :
      WithinCycle start m → WithinCycle start (m.destroy_entity entity).2

/-- The offset `e` is held back: it is on the list of offsets deleted in the current
cycle, not on the free list, and inside the per-entity vectors. -/
def held_back (m : BulkData) (e : Entity) : Prop :=
  e ∈ m.m_deleted_entities_current_modification_cycle ∧ e ∉ m.m_deleted_entities ∧
    e < m.m_mesh_indexes.length

/-- The comm list is sorted by key, without two entries of one key. -/
def comm_list_sorted (l : List EntityCommListInfo) : Prop :=
  l.Pairwise (fun a b => key_less a.key b.key = true)

/-! ## Field data

The field-data members of BulkData and the six callbacks that maintain them
(BulkData.cpp 771-951). The callbacks read and write only these members, the field
set and the rank count of the metadata, and the bytes the data pointers point to;
they are kept in a structure of their own, next to the entity members above.

* A pointer `unsigned char*` is `Option Nat`: `none` is the null pointer, `some a` the
  address `a`. The memory is a function from addresses to bytes.
* Addresses and the values of type `size_t` (capacities, `total_field_data_size`,
  `current_field_offset`, `bytes_to_delete`, the loop index of the initialization)
  are natural numbers. A product that the source forms in 32 bits is reduced modulo
  2^32 (`wrap32`): the byte size in `unsigned num_bytes_per_entity` (BulkData.cpp
  787, 797), the slot offsets `dst_size * dst_bucket_ord`, `src_size *
  src_bucket_ord` (861-863) and `bucket_ord * num_bytes_per_entity` (883, 880),
  formed from an `int` and an `unsigned`, and `field_data.m_size * capacity`
  (896) with `unsigned capacity`. The products with the `size_t` capacity or index
  (804, 824, 830, 834) are formed in `size_t`.
* The struct FieldMetaData is declared outside the sources; `m_size` holds the value
  of `num_bytes_per_entity` stored at line 800, and an `int` local that reads it
  holds that value.
* `m_field_meta_data[m_num_fields * rank + i][bucket_id]` is the record of field `i`
  for the bucket `bucket_id` of rank `rank`. Reading a vector past its end is
  undefined in the source; the model reads a default there and writes nothing.
-/

/-- FieldBase::Restriction as the callbacks read it: `dimension()` and `stride(i)`. -/
structure Restriction where
  dimension : Nat
  stride : Nat → Nat

/-- A field of the field set, as the callbacks read it: `data_traits().stride_of`,
`rank()`, `number_of_states()`, the bytes `get_initial_value()` points to (`none`
for a null pointer) and the restriction that the lookup gives for a rank and a part
signature. -/
structure FieldBase where
  stride_of : Nat
  rank : Nat
  number_of_states : Nat
  initial_value : Option (Nat → Nat)
  restrictions : EntityRank → List PartOrdinal → Restriction

/-- The record of one field for one bucket: the byte size per entity, the pointer to
the strides of the restriction (kept as the strides it points to) and the pointer
to the field's slice of the bucket's allocation. -/
structure FieldMetaData where
  m_size : Nat
  m_stride : Option (Nat → Nat)
  m_data : Option Nat

/-- The field-data members of BulkData: `m_num_fields`, `m_field_meta_data` and
`m_field_raw_data`; what the callbacks read from the metadata (`get_fields()` and
`entity_rank_count()`); the memory; and the allocator behind
`field_data_allocator()`: `heap_top` is the first address it has not handed out,
`allocations` and `deallocations` record the calls of `allocate` and `deallocate`.
`assertions_enabled` tells whether `ThrowAssertMsg` is compiled in. -/
structure FieldData where
  field_set : List FieldBase
  entity_rank_count : Nat
  assertions_enabled : Bool
  m_num_fields : Int
  m_field_meta_data : List (List FieldMetaData)
  m_field_raw_data : List (List (Option Nat))
  memory : Nat → Nat
  heap_top : Nat
  allocations : List (Nat × Nat)
  deallocations : List (Option Nat × Nat)

/-- The record `{0, NULL, NULL}`. -/
def FieldMetaData.null : FieldMetaData := ⟨0, none, none⟩

/-- A field without restrictions: what the model reads past the end of the field
set. -/
def FieldBase.null : FieldBase := ⟨0, 0, 0, none, fun _ _ => ⟨0, fun _ => 0⟩⟩

/-- The address a pointer holds; the null pointer is address 0. -/
def address (p : Option Nat) : Nat := p.getD 0

/-- The assignment `v[i] = f(v[i])` on a vector: nothing is written past the end. -/
def modify_at {α : Type} (v : List α) (i : Nat) (f : α → α) : List α :=
  match v.get? i with
  | some a => v.set i (f a)
  | none => v

/-- The result of `std::vector::resize(n)` with `d` for the new elements. -/
def vector_resize {α : Type} (v : List α) (n : Nat) (d : α) : List α :=
  v.take n ++ List.replicate (n - v.length) d

/-- The result of `std::memcpy(dst, src, n)` on the memory, `src` being bytes outside
the field data. -/
def memcpy (memory : Nat → Nat) (dst : Nat) (src : Nat → Nat) (n : Nat) : Nat → Nat :=
  fun a => if dst ≤ a ∧ a < dst + n then src (a - dst) else memory a

/-- The result of `std::memset(dst, value, n)` on the memory. -/
def memset (memory : Nat → Nat) (dst : Nat) (value : Nat) (n : Nat) : Nat → Nat :=
  fun a => if dst ≤ a ∧ a < dst + n then value else memory a

/-- The result of `std::swap(a, b)` on two bytes of the memory. -/
def swap_bytes (memory : Nat → Nat) (a b : Nat) : Nat → Nat :=
  fun x => if x = a then memory b else if x = b then memory a else memory x

/-- The result of `std::swap_ranges(first1, last1, first2)`: the bytes are exchanged
one after the other, from the first to the last. -/
def swap_ranges (memory : Nat → Nat) (first1 last1 first2 : Nat) : Nat → Nat :=
  (List.range (last1 - first1)).foldl (fun mem k => swap_bytes mem (first1 + k) (first2 + k))
    memory

/-- The record `m_field_meta_data[outer_idx][bucket_id]`. -/
def field_meta_data_at (fd : FieldData) (outer_idx bucket_id : Nat) : FieldMetaData :=
  (fd.m_field_meta_data.getD outer_idx []).getD bucket_id FieldMetaData.null

/-- The record of field `i` for a bucket:
`m_field_meta_data[m_num_fields * rank + i][bucket_id]`. -/
def field_meta_data (fd : FieldData) (rank : EntityRank) (i bucket_id : Nat) : FieldMetaData :=
  field_meta_data_at fd (fd.m_num_fields.toNat * rank + i) bucket_id

/-- The pointer `m_field_raw_data[rank][bucket_id]`. -/
def field_raw_data (fd : FieldData) (rank : EntityRank) (bucket_id : Nat) : Option Nat :=
  (fd.m_field_raw_data.getD rank []).getD bucket_id none

/-- The number of buckets of a rank that the callbacks have been told of,
`m_field_raw_data[rank].size()`. -/
def bucket_count (fd : FieldData) (rank : EntityRank) : Nat :=
  (fd.m_field_raw_data.getD rank []).length

/-- Modelled from the spec: find_restriction (FindRestriction.hpp is not among the
sources). Section 6 of the specification: the field restriction lookup, given
(field, rank, part signature), is supplied by the metadata layer. -/
def find_restriction (field : FieldBase) (rank : EntityRank) (parts : List PartOrdinal) :
    Restriction :=
  field.restrictions rank parts

/-- Modelled from the spec: the `allocate` of the allocator behind
field_data_allocator() (its code is not among the sources). Section 4.2 of the
specification: a bucket's field data is one allocation of the bytes asked for; the
block handed out overlaps no block handed out before. -/
def allocate (fd : FieldData) (bytes : Nat) : Nat × FieldData :=
  (fd.heap_top,
    { fd with
      heap_top := fd.heap_top + bytes
      allocations := fd.allocations ++ [(fd.heap_top, bytes)] })

/-- Modelled from the spec: the `deallocate` of the allocator behind
field_data_allocator() (its code is not among the sources). Section 4.2 of the
specification: on bucket destruction the backing allocation is freed; the call is
recorded with the pointer and the byte count handed back. -/
def deallocate (fd : FieldData) (p : Option Nat) (bytes : Nat) : FieldData :=
  { fd with deallocations := fd.deallocations ++ [(p, bytes)] }

/-- The value of a product formed in 32-bit unsigned arithmetic: the product of the
two operands reduced modulo 2^32. -/
def wrap32 (n : Nat) : Nat := n % 4294967296

/-- The field-data members as the constructor BulkData::BulkData leaves them
(BulkData.cpp 141, 153-154): `m_num_fields(-1)`, `m_field_meta_data()` and
`m_field_raw_data(mesh_meta_data.entity_rank_count())`. -/
def construct_field_data (field_set : List FieldBase) (entity_rank_count : Nat)
    (assertions : Bool) (memory : Nat → Nat) (heap_top : Nat) : FieldData :=
  { field_set := field_set
    entity_rank_count := entity_rank_count
    assertions_enabled := assertions
    m_num_fields := -1
    m_field_meta_data := []
    m_field_raw_data := List.replicate entity_rank_count []
    memory := memory
    heap_top := heap_top
    allocations := []
    deallocations := [] }

/-- One pass of the sizing loop of new_bucket_callback (BulkData.cpp 783-809) for the
field `i`; the second component is `total_field_data_size`. -/
def new_bucket_size_field (rank : EntityRank) (parts : List PartOrdinal) (capacity : Nat)
    (st : FieldData × Nat) (i : Nat) : FieldData × Nat :=
  let fd := st.1
  let total_field_data_size := st.2
  let field := fd.field_set.getD i FieldBase.null
  let restriction := find_restriction field rank parts
  let sized : FieldMetaData × Nat :=
    if restriction.dimension > 0 then
      let type_stride := field.stride_of
      let field_rank := field.rank
      let num_bytes_per_entity :=
        wrap32 (type_stride * (if field_rank ≠ 0 then restriction.stride (field_rank - 1) else 1))
      if num_bytes_per_entity > 0 then
        (⟨num_bytes_per_entity, some restriction.stride, none⟩,
          total_field_data_size + num_bytes_per_entity * capacity)
      else (FieldMetaData.null, total_field_data_size)
    else (FieldMetaData.null, total_field_data_size)
  ({ fd with
      m_field_meta_data :=
        modify_at fd.m_field_meta_data (fd.m_num_fields.toNat * rank + i)
          (fun v => v ++ [sized.1]) },
    sized.2)

/-- One pass of the loop of new_bucket_callback that sets the data pointers and
initializes the field data (BulkData.cpp 818-837) for the field `i`; the second
component is `current_field_offset`. -/
def new_bucket_init_field (rank : EntityRank) (capacity : Nat) (all_data : Nat)
    (st : FieldData × Nat) (i : Nat) : FieldData × Nat :=
  let fd := st.1
  let current_field_offset := st.2
  let outer_idx := fd.m_num_fields.toNat * rank + i
  let back := (fd.m_field_meta_data.getD outer_idx []).length - 1
  let field_meta_data := field_meta_data_at fd outer_idx back
  let field := fd.field_set.getD i FieldBase.null
  if field_meta_data.m_size > 0 then
    let m_data := all_data + current_field_offset
    let memory :=
      match field.initial_value with
      | some init_val =>
        (List.range capacity).foldl
          (fun mem j => memcpy mem (m_data + j * field_meta_data.m_size) init_val
            field_meta_data.m_size)
          fd.memory
      | none => memset fd.memory m_data 0 (capacity * field_meta_data.m_size)
    ({ fd with
        m_field_meta_data :=
          modify_at fd.m_field_meta_data outer_idx
            (fun v => v.set back { field_meta_data with m_data := some m_data })
        memory := memory },
      current_field_offset + field_meta_data.m_size * capacity)
  else st

/-- The head of new_bucket_callback (BulkData.cpp 775-779): the number of fields is
set, and the vector of records sized, when that has not been done yet. -/
def new_bucket_num_fields (fd : FieldData) : FieldData :=
  if fd.m_num_fields = -1 then
    { fd with
      m_num_fields := (fd.field_set.length : Int)
      m_field_meta_data :=
        vector_resize fd.m_field_meta_data (fd.field_set.length * fd.entity_rank_count) [] }
  else fd

/-- BulkData::new_bucket_callback (BulkData.cpp 771-842). -/
def new_bucket_callback (fd : FieldData) (rank : EntityRank) (parts : List PartOrdinal)
    (capacity : Nat) : FieldData :=
  let fd1 := new_bucket_num_fields fd
  let sized :=
    (List.range fd1.m_num_fields.toNat).foldl (new_bucket_size_field rank parts capacity) (fd1, 0)
  let fd2 := sized.1
  let total_field_data_size := sized.2
  if total_field_data_size > 0 then
    let allocated := allocate fd2 total_field_data_size
    let all_data := allocated.1
    let fd3 : FieldData :=
      { allocated.2 with
        m_field_raw_data :=
          modify_at allocated.2.m_field_raw_data rank (fun v => v ++ [some all_data]) }
    ((List.range fd3.m_num_fields.toNat).foldl (new_bucket_init_field rank capacity all_data)
      (fd3, 0)).1
  else
    { fd2 with
      m_field_raw_data := modify_at fd2.m_field_raw_data rank (fun v => v ++ [none]) }

/-- One pass of the loop of copy_entity_fields_callback (BulkData.cpp 847-865) for
the field `i`. -/
def copy_entity_fields_field (dst_rank : EntityRank) (dst_bucket_id dst_bucket_ord : Nat)
    (src_rank : EntityRank) (src_bucket_id src_bucket_ord : Nat) (fd : FieldData) (i : Nat) :
    Outcome Unit × FieldData :=
  let src_size := (field_meta_data fd src_rank i src_bucket_id).m_size
  if src_size = 0 then (.ok (), fd)
  else
    let src := address (field_meta_data fd src_rank i src_bucket_id).m_data
    let dst_size := (field_meta_data fd dst_rank i dst_bucket_id).m_size
    if dst_size ≠ 0 then
      let dst := address (field_meta_data fd dst_rank i dst_bucket_id).m_data
      if fd.assertions_enabled = true ∧ ¬ dst_size = src_size then
        (.error "Incompatible field sizes", fd)
      else
        (.ok (),
          { fd with
            memory :=
              swap_ranges fd.memory (dst + wrap32 (dst_size * dst_bucket_ord))
                (dst + wrap32 (dst_size * dst_bucket_ord) + dst_size)
                (src + wrap32 (src_size * src_bucket_ord)) })
    else (.ok (), fd)

/-- The loop of copy_entity_fields_callback over the fields still to visit; it stops
at the first throw. -/
def copy_entity_fields_loop (dst_rank : EntityRank) (dst_bucket_id dst_bucket_ord : Nat)
    (src_rank : EntityRank) (src_bucket_id src_bucket_ord : Nat) :
    List Nat → FieldData → Outcome Unit × FieldData
  | [], fd => (.ok (), fd)
  | i :: rest, fd =>
    match copy_entity_fields_field dst_rank dst_bucket_id dst_bucket_ord src_rank src_bucket_id
        src_bucket_ord fd i with
    | (.error msg, fd1) => (.error msg, fd1)
    | (.ok _, fd1) =>
      copy_entity_fields_loop dst_rank dst_bucket_id dst_bucket_ord src_rank src_bucket_id
        src_bucket_ord rest fd1

/-- BulkData::copy_entity_fields_callback (BulkData.cpp 844-866). -/
def copy_entity_fields_callback (fd : FieldData) (dst_rank : EntityRank)
    (dst_bucket_id dst_bucket_ord : Nat) (src_rank : EntityRank)
    (src_bucket_id src_bucket_ord : Nat) : Outcome Unit × FieldData :=
  copy_entity_fields_loop dst_rank dst_bucket_id dst_bucket_ord src_rank src_bucket_id
    src_bucket_ord (List.range fd.m_num_fields.toNat) fd

/-- One pass of the loop of remove_entity_callback (BulkData.cpp 871-886) for the
field `i`. -/
def remove_entity_field (rank : EntityRank) (bucket_id bucket_ord : Nat) (fd : FieldData)
    (i : Nat) : FieldData :=
  let field := fd.field_set.getD i FieldBase.null
  let field_meta_data := field_meta_data fd rank i bucket_id
  let num_bytes_per_entity := field_meta_data.m_size
  if num_bytes_per_entity > 0 then
    match field.initial_value with
    | some init_val =>
      { fd with
        memory :=
          memcpy fd.memory
            (address field_meta_data.m_data + wrap32 (bucket_ord * num_bytes_per_entity))
            init_val num_bytes_per_entity }
    | none =>
      { fd with
        memory :=
          memset fd.memory
            (address field_meta_data.m_data + wrap32 (bucket_ord * num_bytes_per_entity))
            0 num_bytes_per_entity }
  else fd

/-- BulkData::remove_entity_callback (BulkData.cpp 868-887). -/
def remove_entity_callback (fd : FieldData) (rank : EntityRank) (bucket_id bucket_ord : Nat) :
    FieldData :=
  (List.range fd.m_num_fields.toNat).foldl (remove_entity_field rank bucket_id bucket_ord) fd

/-- One pass of the loop of destroy_bucket_callback (BulkData.cpp 893-900) for the
field `i`; the second component is `bytes_to_delete`. -/
def destroy_bucket_field (rank : EntityRank) (bucket_id capacity : Nat) (st : FieldData × Nat)
    (i : Nat) : FieldData × Nat :=
  let fd := st.1
  let bytes_to_delete := st.2
  let field_data := field_meta_data fd rank i bucket_id
  if field_data.m_data ≠ none then
    ({ fd with
        m_field_meta_data :=
          modify_at fd.m_field_meta_data (fd.m_num_fields.toNat * rank + i)
            (fun v => modify_at v bucket_id (fun r => { r with m_size := 0, m_data := none })) },
      bytes_to_delete + wrap32 (field_data.m_size * capacity))
  else st

/-- BulkData::destroy_bucket_callback (BulkData.cpp 889-904). -/
def destroy_bucket_callback (fd : FieldData) (rank : EntityRank) (bucket_id capacity : Nat) :
    FieldData :=
  if field_raw_data fd rank bucket_id ≠ none then
    let freed :=
      (List.range fd.m_num_fields.toNat).foldl (destroy_bucket_field rank bucket_id capacity)
        (fd, 0)
    let fd1 := deallocate freed.1 (field_raw_data freed.1 rank bucket_id) freed.2
    { fd1 with
      m_field_raw_data :=
        modify_at fd1.m_field_raw_data rank (fun v => modify_at v bucket_id (fun _ => none)) }
  else fd

/-- The assignment `m_field_meta_data[outer_idx][b].m_data = p`. -/
def set_field_data (fd : FieldData) (outer_idx b : Nat) (p : Option Nat) : FieldData :=
  { fd with
    m_field_meta_data :=
      modify_at fd.m_field_meta_data outer_idx
        (fun v => modify_at v b (fun r => { r with m_data := p })) }

/-- The rotation of update_field_data_states for one bucket of one multi-state field
(BulkData.cpp 921-925): `data_last` goes through the states 1 to `num_state - 1`,
exchanged with the pointer of each, and ends in state 0. -/
def rotate_field_data (fd : FieldData) (outer_idx num_state b : Nat) : FieldData :=
  let data_last := (field_meta_data_at fd outer_idx b).m_data
  let swapped :=
    (List.range' 1 (num_state - 1)).foldl
      (fun (st : FieldData × Option Nat) s =>
        (set_field_data st.1 (outer_idx + s) b st.2, (field_meta_data_at st.1 (outer_idx + s) b).m_data))
      (fd, data_last)
  set_field_data swapped.1 outer_idx b swapped.2

/-- The loop of update_field_data_states over the buckets of one multi-state field
(BulkData.cpp 919-927). -/
def update_field_data_states_buckets (fd : FieldData) (outer_idx num_state : Nat) : FieldData :=
  (List.range (fd.m_field_meta_data.getD outer_idx []).length).foldl
    (fun fd1 b =>
      if (field_meta_data_at fd1 outer_idx b).m_size > 0 then
        rotate_field_data fd1 outer_idx num_state b
      else fd1)
    fd

/-- The loop of update_field_data_states over the fields of one rank (BulkData.cpp
912-929), `i` advancing by the number of states of the field it stands on. The
first argument bounds the passes; `none` is a loop that does not come to an end. -/
def update_field_data_states_fields (r : Nat) : Nat → Nat → FieldData → Option FieldData
  | 0, _, _ => none
  | fuel + 1, i, fd =>
    if i < fd.m_num_fields.toNat then
      let field := fd.field_set.getD i FieldBase.null
      let outer_idx := fd.m_num_fields.toNat * r + i
      let num_state := field.number_of_states
      let fd1 :=
        if num_state > 1 then update_field_data_states_buckets fd outer_idx num_state else fd
      update_field_data_states_fields r fuel (i + num_state) fd1
    else some fd

/-- The loop of update_field_data_states over the ranks (BulkData.cpp 911-930). A
pass over the fields that advances takes at most `m_num_fields` steps and one more
test. -/
def update_field_data_states_ranks : List Nat → FieldData → Option FieldData
  | [], fd => some fd
  | r :: rest, fd =>
    match update_field_data_states_fields r (fd.m_num_fields.toNat + 1) 0 fd with
    | some fd1 => update_field_data_states_ranks rest fd1
    | none => none

/-- Modelled from the spec: BulkData::internal_update_fast_field_data (its body is not
among the sources). It refreshes the cached pointers of the fast field access, which
are no part of the field-data members here. -/
def internal_update_fast_field_data (fd : FieldData) (_skip_onestate_fields : Bool) : FieldData :=
  fd

/-- BulkData::update_field_data_states (BulkData.cpp 906-932); `none` when a loop
over the fields does not come to an end. -/
def update_field_data_states (fd : FieldData) : Option FieldData :=
  match update_field_data_states_ranks (List.range fd.entity_rank_count) fd with
  | some fd1 => some (internal_update_fast_field_data fd1 true)
  | none => none

/-- One pass of the loop of reorder_buckets_callback over the fields (BulkData.cpp
942-950). -/
def reorder_buckets_field (rank : EntityRank) (id_map : List Nat) (fd : FieldData) (i : Nat) :
    FieldData :=
  let outer_idx := fd.m_num_fields.toNat * rank + i
  let new_fields := id_map.map (fun k => field_meta_data_at fd outer_idx k)
  { fd with m_field_meta_data := modify_at fd.m_field_meta_data outer_idx (fun _ => new_fields) }

/-- BulkData::reorder_buckets_callback (BulkData.cpp 934-951). -/
def reorder_buckets_callback (fd : FieldData) (rank : EntityRank) (id_map : List Nat) :
    FieldData :=
  let field_raw_data := id_map.map (fun k => field_raw_data fd rank k)
  let fd1 : FieldData :=
    { fd with m_field_raw_data := modify_at fd.m_field_raw_data rank (fun _ => field_raw_data) }
  (List.range fd1.m_num_fields.toNat).foldl (reorder_buckets_field rank id_map) fd1

/-- The value of `num_bytes_per_entity` at the end of a pass of the sizing loop
(BulkData.cpp 787-799) for the field `i` on a rank and a part signature. -/
def num_bytes_per_entity (fd : FieldData) (rank : EntityRank) (parts : List PartOrdinal)
    (i : Nat) : Nat :=
  let field := fd.field_set.getD i FieldBase.null
  let restriction := find_restriction field rank parts
  if restriction.dimension > 0 then
    wrap32 (field.stride_of * (if field.rank ≠ 0 then restriction.stride (field.rank - 1) else 1))
  else 0

/-- The record that a pass of the sizing loop appends for the field `i`. -/
def sized_record (fd : FieldData) (rank : EntityRank) (parts : List PartOrdinal) (i : Nat) :
    FieldMetaData :=
  if num_bytes_per_entity fd rank parts i > 0 then
    ⟨num_bytes_per_entity fd rank parts i,
      some (find_restriction (fd.field_set.getD i FieldBase.null) rank parts).stride, none⟩
  else FieldMetaData.null

/-- The value of `current_field_offset` before the pass for the field `n`: the bytes
of the slices of the fields before it, `sz i` being the byte size per entity of
field `i`. -/
def slice_offset (sz : Nat → Nat) (capacity : Nat) : Nat → Nat
  | 0 => 0
  | n + 1 => slice_offset sz capacity n + sz n * capacity

/-- The value of `bytes_to_delete` after the passes of destroy_bucket_callback for
the fields before `n` (BulkData.cpp 892-896): the sum of the 32-bit products
`m_size * capacity`, `sz i` being the size that the pass for field `i` multiplies. -/
def freed_bytes (sz : Nat → Nat) (capacity : Nat) : Nat → Nat
  | 0 => 0
  | n + 1 => freed_bytes sz capacity n + wrap32 (sz n * capacity)

/-- The byte at offset `k` that the callbacks write into a slot of a field when they
initialize or reset it: the byte of the initial value, or zero when
`get_initial_value()` is null (BulkData.cpp 827-835, 878-884). -/
def initial_byte (field : FieldBase) (k : Nat) : Nat :=
  match field.initial_value with
  | some init_val => init_val k
  | none => 0

/-- The record of the field `i` for a bucket that new_bucket_callback has just been
told of: the size of the sizing loop, the strides of the restriction, and the slice
of the allocation, if one was made (`nf` is the number of fields). -/
def new_bucket_record (fd : FieldData) (rank : EntityRank) (parts : List PartOrdinal)
    (capacity nf i : Nat) : FieldMetaData :=
  if num_bytes_per_entity fd rank parts i > 0 then
    ⟨num_bytes_per_entity fd rank parts i,
      some (find_restriction (fd.field_set.getD i FieldBase.null) rank parts).stride,
      if slice_offset (num_bytes_per_entity fd rank parts) capacity nf > 0 then
        some (fd.heap_top + slice_offset (num_bytes_per_entity fd rank parts) capacity i)
      else none⟩
  else FieldMetaData.null

/-- The shape of the field-data members: the number of fields is unset or that of
the field set, there is a vector of records for every rank and field and a vector
of raw pointers for every rank, the vectors of a rank have an element for every
bucket of the rank, and there is no bucket as long as the number of fields is unset. -/
structure FieldsShaped (fd : FieldData) : Prop where
  num_fields : fd.m_num_fields = -1 ∨ fd.m_num_fields = (fd.field_set.length : Int)
  meta_length : fd.m_field_meta_data.length = fd.m_num_fields.toNat * fd.entity_rank_count
  raw_length : fd.m_field_raw_data.length = fd.entity_rank_count
  buckets : ∀ r i, r < fd.entity_rank_count → i < fd.m_num_fields.toNat →
    (fd.m_field_meta_data.getD (fd.m_num_fields.toNat * r + i) []).length = bucket_count fd r
  no_buckets : fd.m_num_fields = -1 → ∀ r, bucket_count fd r = 0

/-- A coordinate field: three doubles on every node (rank 0) in the universal part
0, no initial value. -/
def scenario_coordinates : FieldBase :=
  { stride_of := 8
    rank := 1
    number_of_states := 1
    initial_value := none
    restrictions := fun rank parts =>
      if rank = 0 ∧ 0 ∈ parts then ⟨3, fun _ => 3⟩ else ⟨0, fun _ => 0⟩ }

/-- A scalar field of two states: one double on every node in part 10, with an
initial value whose first byte is 7. -/
def scenario_temperature : FieldBase :=
  { stride_of := 8
    rank := 0
    number_of_states := 2
    initial_value := some (fun k => if k = 0 then 7 else 0)
    restrictions := fun rank parts =>
      if rank = 0 ∧ 10 ∈ parts then ⟨1, fun _ => 1⟩ else ⟨0, fun _ => 0⟩ }

/-- A field set: the coordinates and the two states of the temperature. -/
def scenario_fields : List FieldBase :=
  [scenario_coordinates, scenario_temperature, scenario_temperature]

/-- The field-data members out of the constructor, for four ranks; every byte of the
memory is 255 and the allocator starts at address 1000. -/
def scenario_field_data : FieldData :=
  construct_field_data scenario_fields 4 true (fun _ => 255) 1000

/-- The field data after a bucket of nodes in the parts 0, 1 and 10, of capacity 2,
was created: bucket 0 of rank 0. -/
def scenario_one_bucket : FieldData :=
  new_bucket_callback scenario_field_data 0 [0, 1, 10] 2

/-- The field data after a second bucket of nodes, in the parts 0 and 1 only, was
created: bucket 1 of rank 0, in which the temperature does not exist. -/
def scenario_two_buckets : FieldData :=
  new_bucket_callback scenario_one_bucket 0 [0, 1] 2

/-- A field of 8-byte scalars with 2^29 + 1 scalars on every node: 2^32 + 8 bytes
per entity. -/
def scenario_oversized : FieldBase :=
  { stride_of := 8
    rank := 1
    number_of_states := 1
    initial_value := none
    restrictions := fun rank _ =>
      if rank = 0 then ⟨536870913, fun _ => 536870913⟩ else ⟨0, fun _ => 0⟩ }

/-- The field-data members out of the constructor for the oversized field alone. -/
def scenario_oversized_data : FieldData :=
  construct_field_data [scenario_oversized] 4 true (fun _ => 0) 1000

/-- A field of 2097152 doubles on every node, no initial value: 16777216 bytes per
entity. -/
def scenario_large : FieldBase :=
  { stride_of := 8
    rank := 1
    number_of_states := 1
    initial_value := none
    restrictions := fun rank _ =>
      if rank = 0 then ⟨2097152, fun _ => 2097152⟩ else ⟨0, fun _ => 0⟩ }

/-- The field data with the large field alone after a bucket of 512 nodes was
created: one allocation of 512 * 16777216 = 2^33 bytes at address 1000. -/
def scenario_large_bucket : FieldData :=
  new_bucket_callback (construct_field_data [scenario_large] 4 true (fun _ => 255) 1000) 0 [0] 512

/-- The first byte of the slot `ord` of a record, `m_data + m_size * ord`, as
new_bucket_callback lays the slots out (BulkData.cpp 830). -/
def slot_address (r : FieldMetaData) (ord : Nat) : Nat :=
  address r.m_data + r.m_size * ord

/-- The pointer that copy_entity_fields_callback and remove_entity_callback form for
the slot `ord` of a record (BulkData.cpp 861-863, 880, 883): `m_data` plus the
32-bit product of the size and the ordinal. -/
def slot_pointer (r : FieldMetaData) (ord : Nat) : Nat :=
  address r.m_data + wrap32 (r.m_size * ord)

/-- The byte at address `x` lies in one of the two slots of the field `i` that
copy_entity_fields_callback is called for: the field has a size in the source and in
the destination bucket, and `x` lies in the slot `dst_bucket_ord` of the destination
bucket or in the bytes of the slot `src_bucket_ord` of the source bucket, as many as
the destination size. -/
def copy_field_writes (fd : FieldData) (dst_rank : EntityRank)
    (dst_bucket_id dst_bucket_ord : Nat) (src_rank : EntityRank)
    (src_bucket_id src_bucket_ord : Nat) (i x : Nat) : Prop :=
  (field_meta_data fd src_rank i src_bucket_id).m_size ≠ 0 ∧
  (field_meta_data fd dst_rank i dst_bucket_id).m_size ≠ 0 ∧
  ((slot_address (field_meta_data fd dst_rank i dst_bucket_id) dst_bucket_ord ≤ x ∧
      x < slot_address (field_meta_data fd dst_rank i dst_bucket_id) dst_bucket_ord
        + (field_meta_data fd dst_rank i dst_bucket_id).m_size) ∨
    (slot_address (field_meta_data fd src_rank i src_bucket_id) src_bucket_ord ≤ x ∧
      x < slot_address (field_meta_data fd src_rank i src_bucket_id) src_bucket_ord
        + (field_meta_data fd dst_rank i dst_bucket_id).m_size))

/-- The pass of copy_entity_fields_callback for the field `i` writes the byte at
address `x`: the field has a size in the source and in the destination bucket, and
`x` lies in one of the two ranges handed to `std::swap_ranges` (BulkData.cpp
861-863), both as long as the destination size. -/
def copy_field_touches (fd : FieldData) (dst_rank : EntityRank)
    (dst_bucket_id dst_bucket_ord : Nat) (src_rank : EntityRank)
    (src_bucket_id src_bucket_ord : Nat) (i x : Nat) : Prop :=
  (field_meta_data fd src_rank i src_bucket_id).m_size ≠ 0 ∧
  (field_meta_data fd dst_rank i dst_bucket_id).m_size ≠ 0 ∧
  ((slot_pointer (field_meta_data fd dst_rank i dst_bucket_id) dst_bucket_ord ≤ x ∧
      x < slot_pointer (field_meta_data fd dst_rank i dst_bucket_id) dst_bucket_ord
        + (field_meta_data fd dst_rank i dst_bucket_id).m_size) ∨
    (slot_pointer (field_meta_data fd src_rank i src_bucket_id) src_bucket_ord ≤ x ∧
      x < slot_pointer (field_meta_data fd src_rank i src_bucket_id) src_bucket_ord
        + (field_meta_data fd dst_rank i dst_bucket_id).m_size))

/-- The bytes after the pass of copy_entity_fields_callback for the field `i`, when
the pass does not throw: the two ranges handed to `std::swap_ranges` are exchanged
if the field has a size in the source and in the destination bucket. The records are
read from `fd`. -/
def copy_field_bytes (fd : FieldData) (dst_rank : EntityRank)
    (dst_bucket_id dst_bucket_ord : Nat) (src_rank : EntityRank)
    (src_bucket_id src_bucket_ord : Nat) (mem : Nat → Nat) (i : Nat) : Nat → Nat :=
  if (field_meta_data fd src_rank i src_bucket_id).m_size = 0 ∨
      (field_meta_data fd dst_rank i dst_bucket_id).m_size = 0 then mem
  else
    swap_ranges mem (slot_pointer (field_meta_data fd dst_rank i dst_bucket_id) dst_bucket_ord)
      (slot_pointer (field_meta_data fd dst_rank i dst_bucket_id) dst_bucket_ord
        + (field_meta_data fd dst_rank i dst_bucket_id).m_size)
      (slot_pointer (field_meta_data fd src_rank i src_bucket_id) src_bucket_ord)

/-- The sizes of the field `i` in the source and in the destination bucket are both
non-zero and differ: the case that the check of copy_entity_fields_callback
rejects (BulkData.cpp 849-859). -/
def copy_field_mismatch (fd : FieldData) (dst_rank : EntityRank) (dst_bucket_id : Nat)
    (src_rank : EntityRank) (src_bucket_id : Nat) (i : Nat) : Prop :=
  (field_meta_data fd src_rank i src_bucket_id).m_size ≠ 0 ∧
  (field_meta_data fd dst_rank i dst_bucket_id).m_size ≠ 0 ∧
  (field_meta_data fd dst_rank i dst_bucket_id).m_size
    ≠ (field_meta_data fd src_rank i src_bucket_id).m_size

/-- The one-bucket field data after the application wrote the byte 42 at the start
of the coordinates of slot 0 (address 1000). -/
def scenario_written : FieldData :=
  { scenario_one_bucket with
    memory := fun a => if a = 1000 then 42 else scenario_one_bucket.memory a }

/-- The large bucket after the application wrote the byte 42 at the start of slot 1
(address 1000 + 16777216). -/
def scenario_large_written : FieldData :=
  { scenario_large_bucket with
    memory := fun a => if a = 16778216 then 42 else scenario_large_bucket.memory a }

/-- The large bucket after the application wrote the byte 42 at the start of slot 256
(address 1000 + 2^32) and the byte 43 at the start of slot 0 (address 1000). -/
def scenario_large_removal : FieldData :=
  { scenario_large_bucket with
    memory := fun a =>
      if a = 4294968296 then 42 else if a = 1000 then 43 else scenario_large_bucket.memory a }

/-- A field whose size depends on the part signature: three doubles per node in part
10, two doubles per node elsewhere. -/
def scenario_varying : FieldBase :=
  { stride_of := 8
    rank := 1
    number_of_states := 1
    initial_value := none
    restrictions := fun rank parts =>
      if rank = 0 ∧ 10 ∈ parts then ⟨3, fun _ => 3⟩
      else if rank = 0 then ⟨2, fun _ => 2⟩ else ⟨0, fun _ => 0⟩ }

/-- Field data with the field of varying size and two buckets of nodes of capacity
1: bucket 0 in the parts 0 and 10 (size 24), bucket 1 in part 0 (size 16). -/
def scenario_mismatched : FieldData :=
  new_bucket_callback
    (new_bucket_callback (construct_field_data [scenario_varying] 4 true (fun _ => 0) 1000)
      0 [0, 10] 1)
    0 [0] 1

/-- The byte at address `x` lies in the slot of the field `i` that
remove_entity_callback is called for: the field has a size in the bucket and `x`
lies in the slot `bucket_ord`. -/
def remove_field_writes (fd : FieldData) (rank : EntityRank) (bucket_id bucket_ord : Nat)
    (i x : Nat) : Prop :=
  0 < (field_meta_data fd rank i bucket_id).m_size ∧
  slot_address (field_meta_data fd rank i bucket_id) bucket_ord ≤ x ∧
  x < slot_address (field_meta_data fd rank i bucket_id) bucket_ord
    + (field_meta_data fd rank i bucket_id).m_size

/-- The pass of remove_entity_callback for the field `i` writes the byte at address
`x`: the field has a size in the bucket and `x` lies in the range handed to
`std::memcpy` or `std::memset` (BulkData.cpp 876-884). -/
def remove_field_touches (fd : FieldData) (rank : EntityRank) (bucket_id bucket_ord : Nat)
    (i x : Nat) : Prop :=
  0 < (field_meta_data fd rank i bucket_id).m_size ∧
  slot_pointer (field_meta_data fd rank i bucket_id) bucket_ord ≤ x ∧
  x < slot_pointer (field_meta_data fd rank i bucket_id) bucket_ord
    + (field_meta_data fd rank i bucket_id).m_size

/-- The bytes after the pass of remove_entity_callback for the field `i`; the
records are read from `fd`. -/
def remove_field_bytes (fd : FieldData) (rank : EntityRank) (bucket_id bucket_ord : Nat)
    (mem : Nat → Nat) (i : Nat) : Nat → Nat :=
  if 0 < (field_meta_data fd rank i bucket_id).m_size then
    fun x =>
      if slot_pointer (field_meta_data fd rank i bucket_id) bucket_ord ≤ x ∧
          x < slot_pointer (field_meta_data fd rank i bucket_id) bucket_ord
            + (field_meta_data fd rank i bucket_id).m_size then
        initial_byte (fd.field_set.getD i FieldBase.null)
          (x - slot_pointer (field_meta_data fd rank i bucket_id) bucket_ord)
      else mem x
  else mem

/-! ## Lookups over the comm-info run of a key -/

/-- A ghosting, as far as the lookups use it: its ordinal. -/
structure Ghosting where
  ordinal : Nat
deriving DecidableEq, Repr

/-- Modelled from the spec: the order of EntityCommInfo (Types.hpp is not among the
sources). Section 2 of the specification: the entries of a key are (ghost ordinal,
process) pairs; they are ordered by ghost ordinal, then by process. -/
def comm_info_less (a b : EntityCommInfo) : Bool :=
  decide (a.ghost_id < b.ghost_id) || (decide (a.ghost_id = b.ghost_id) && decide (a.proc < b.proc))

/-- The bisection of `std::lower_bound` over a comm-info run, comparing entries with
`value`: `first` and `count` delimit the range still searched. -/
def comm_info_lower_bound_go (l : List EntityCommInfo) (value : EntityCommInfo) :
    Nat → Nat → Nat → Nat
  | 0, first, _ => first
  | fuel + 1, first, count =>
    if count = 0 then first
    else
      let step := count / 2
      let it := first + step
      match l.get? it with
      | some info =>
        if comm_info_less info value then
          comm_info_lower_bound_go l value fuel (it + 1) (count - (step + 1))
        else comm_info_lower_bound_go l value fuel first step
      | none => first

/-- The position `std::lower_bound(ec.begin(), ec.end(), tmp)` returns. -/
def comm_info_lower_bound (l : List EntityCommInfo) (value : EntityCommInfo) : Nat :=
  comm_info_lower_bound_go l value (l.length + 1) 0 l.length

/-- BulkData::in_ghost (BulkData.cpp 716-726). -/
def in_ghost (m : BulkData) (ghost : Ghosting) (key : EntityKey) (proc : Nat) : Bool :=
  let tmp : EntityCommInfo := ⟨ghost.ordinal, proc⟩
  let ec := m.entity_comm key
  let i := comm_info_lower_bound ec tmp
  decide (i ≠ ec.length) &&
    (match ec.get? i with
     | some info => decide (tmp = info)
     | none => false)

/-- The linear scan of a key's comm-info run for the pair (ghost ordinal, process),
as section 4.5 of the specification words the lookup. -/
def in_ghost_linear_scan (m : BulkData) (ghost : Ghosting) (key : EntityKey) (proc : Nat) :
    Bool :=
  (m.entity_comm key).any (fun info => info.ghost_id == ghost.ordinal && info.proc == proc)

/-- A comm-info run sorted by (ghost ordinal, process): no entry is less than an
entry before it. -/
def comm_info_sorted (l : List EntityCommInfo) : Prop :=
  l.Pairwise (fun a b => comm_info_less b a = false)

/-- The call `procs.clear()`. -/
def vector_clear (_procs : List Nat) : List Nat := []

/-- The call `std::sort(procs.begin(), procs.end())` on process ranks: the vector is
put in ascending order. -/
def std_sort (procs : List Nat) : List Nat :=
  procs.insertionSort (fun a b => a ≤ b)

/-- The pass of `std::unique` after the first element: an element equal to the last
one kept is dropped. -/
def std_unique_go (last : Nat) : List Nat → List Nat
  | [] => []
  | b :: rest => if last = b then std_unique_go last rest else b :: std_unique_go b rest

/-- The calls `std::unique(procs.begin(), procs.end())` and `procs.erase(i, procs.end())`
together: of every group of consecutive equal elements the first is kept. -/
def std_unique : List Nat → List Nat
  | [] => []
  | a :: rest => a :: std_unique_go a rest

/-- BulkData::comm_procs(EntityKey, std::vector<int> &) (BulkData.cpp 728-738); the
result is the vector `procs` after the call. -/
def comm_procs (m : BulkData) (key : EntityKey) (procs : List Nat) : List Nat :=
  let procs1 := vector_clear procs
  let procs2 := (m.entity_comm key).foldl (fun acc ec => acc ++ [ec.proc]) procs1
  let procs3 := std_sort procs2
  std_unique procs3

/-- The two-entity mesh on three processes with a comm-info run for the node: it is
shared with process 2 and ghosted, in ghosting 1, to processes 1 and 2. -/
def scenario_ghosted : BulkData :=
  { scenario_related with
    m_parallel_size := 3
    m_entity_comm_map := [(⟨0, 1⟩, [⟨0, 2⟩, ⟨1, 1⟩, ⟨1, 2⟩])] }

end BulkData

end StkMesh

/-! ## Tpetra::Details::computeOffsetsFromCounts

A shallow embedding of `tpetra/core/src/Tpetra_Details_computeOffsets.hpp`. A
Kokkos::View of integers is a list; its entries are unbounded integers, as the
function "makes no attempt to check for overflow". The function returns its result
next to the array `ptr` it leaves behind. -/

namespace Tpetra

namespace Details

/-- The reduction operator ComputeOffsetsFromCounts::operator()
(Tpetra_Details_computeOffsets.hpp 113-123), with the members `counts_` and `size_`
of the functor; it returns the array `offsets_` and the value of `update` it leaves. -/
def ComputeOffsetsFromCounts_call (counts_ : List Int) (size_ : Nat) (i : Nat)
    (offsets_ : List Int) (update : Int) (finalPass : Bool) : List Int × Int :=
  let curVal : Int := if i < size_ then counts_.getD i 0 else 0
  let offsets1 := if finalPass then offsets_.set i update else offsets_
  (offsets1, update + (if i < size_ then curVal else 0))

/-- Kokkos::parallel_scan over the range [0, n) with a total that starts at 0, in its
sequential meaning: the functor is called for every index in ascending order with
the sum of the contributions of the indexes before it, in the final pass (the
passes that are not final write nothing). It returns the array and the total. -/
def parallel_scan (n : Nat) (functor : Nat → List Int → Int → Bool → List Int × Int)
    (offsets : List Int) : List Int × Int :=
  (List.range n).foldl (fun st i => functor i st.1 st.2 true) (offsets, 0)

/-- ComputeOffsetsFromCounts::run (Tpetra_Details_computeOffsets.hpp 125-141). -/
def ComputeOffsetsFromCounts_run (offsets : List Int) (counts : List Int) : List Int × Int :=
  let numCounts := counts.length
  parallel_scan (numCounts + 1) (ComputeOffsetsFromCounts_call counts numCounts) offsets

/-- The function computeOffsetsFromCounts (Tpetra_Details_computeOffsets.hpp
267-345): the value returned, or the exception, next to the array `ptr` after the
call. The copy of `counts` to the memory space of `ptr` has the entries of `counts`. -/
def computeOffsetsFromCounts (ptr : List Int) (counts : List Int) :
    StkMesh.Outcome Int × List Int :=
  let numOffsets := ptr.length
  let numCounts := counts.length
  if numOffsets ≠ 0 then
    if numCounts ≥ numOffsets then
      (.error "Tpetra::Details::computeOffsetsFromCounts: counts.size() >= ptr.size()", ptr)
    else
      let r := ComputeOffsetsFromCounts_run ptr counts
      (.ok r.2, r.1)
  else (.ok 0, ptr)

end Details

end Tpetra

namespace StkMesh

namespace BulkData

/-! ## The states of a field in the field set -/

/-- The index in the field set at which the loop of update_field_data_states
(BulkData.cpp 912-916) stands in its pass number `k`: it starts at 0 and advances by
the number of states of the field it stands on. -/
def state_group (fs : List FieldBase) : Nat → Nat
  | 0 => 0
  | k + 1 => state_group fs k + (fs.getD (state_group fs k) FieldBase.null).number_of_states

/-- Modelled from the spec: the field set as the metadata builds it (MetaData.cpp
and FieldBase.hpp are not among the sources). Section 4.2 of the specification: a
multi-state field has N state-buffers; the N states stand in the field set one after
the other, the first of them telling the number N >= 1, and all of them inside the
field set. -/
structure FieldStatesGrouped (fs : List FieldBase) : Prop where
  positive : ∀ k, state_group fs k < fs.length →
    1 ≤ (fs.getD (state_group fs k) FieldBase.null).number_of_states
  inside : ∀ k, state_group fs k < fs.length → state_group fs (k + 1) ≤ fs.length

/-- The mesh `fd1` differs from `fd` in data pointers of field records only: every
other member is the same, the vectors of records have the same lengths, and a record
differs in its `m_data` at most. -/
structure PointersMoved (fd fd1 : FieldData) : Prop where
  members : fd1 = { fd with m_field_meta_data := fd1.m_field_meta_data }
  length : fd1.m_field_meta_data.length = fd.m_field_meta_data.length
  inner : ∀ o, (fd1.m_field_meta_data.getD o []).length = (fd.m_field_meta_data.getD o []).length
  record : ∀ o b, field_meta_data_at fd1 o b
    = { field_meta_data_at fd o b with m_data := (field_meta_data_at fd1 o b).m_data }

/-- What the rotation of update_field_data_states has done, from `fd` to `fd1`, to
the records of one bucket `b` for the `num_state` states of a field whose first
state has the index `o` in `m_field_meta_data`: if the field has more than one state
and a size in the bucket, the first state has the former pointer of the last state
and every other state the former pointer of the state before it; otherwise the
records are as they were. -/
def group_rotated (fd fd1 : FieldData) (o num_state b : Nat) : Prop :=
  ((1 < num_state ∧ 0 < (field_meta_data_at fd o b).m_size) →
    (field_meta_data_at fd1 o b).m_data = (field_meta_data_at fd (o + num_state - 1) b).m_data ∧
    ∀ s, 1 ≤ s → s < num_state →
      (field_meta_data_at fd1 (o + s) b).m_data = (field_meta_data_at fd (o + s - 1) b).m_data) ∧
  (¬ (1 < num_state ∧ 0 < (field_meta_data_at fd o b).m_size) →
    ∀ s, s < num_state → field_meta_data_at fd1 (o + s) b = field_meta_data_at fd (o + s) b)

/-- The field data after two buckets were created and the states were rotated once
(the value is the one update_field_data_states returns). -/
def scenario_rotated : FieldData :=
  (update_field_data_states scenario_two_buckets).getD scenario_two_buckets

/-- The size that the pass of destroy_bucket_callback for the field `i` multiplies
with the capacity and adds to `bytes_to_delete` (BulkData.cpp 894-896): `m_size` if
the record has a data pointer, nothing otherwise. -/
def freed_size (fd : FieldData) (rank : EntityRank) (bucket_id i : Nat) : Nat :=
  if (field_meta_data fd rank i bucket_id).m_data ≠ none then
    (field_meta_data fd rank i bucket_id).m_size
  else 0

/-- Modelled from the spec: the states of a field share the restrictions of the field
(FieldBase.hpp and MetaData.cpp are not among the sources; section 4.2 of the
specification speaks of the N state-buffers of one field), so they have the same
byte size per entity on every rank and part signature. -/
def states_same_size (fd : FieldData) : Prop :=
  ∀ k, state_group fd.field_set k < fd.field_set.length →
    ∀ s, s < (fd.field_set.getD (state_group fd.field_set k) FieldBase.null).number_of_states →
      ∀ (rank : EntityRank) (parts : List PartOrdinal),
        num_bytes_per_entity fd rank parts (state_group fd.field_set k + s)
          = num_bytes_per_entity fd rank parts (state_group fd.field_set k)

/-- The invariant of the field-data members. They have the shape of `FieldsShaped`
and the field set that of `FieldStatesGrouped` and `states_same_size`; a record of
size 0 has a null pointer; in a bucket with a raw pointer every record with a size
has a data pointer, in a bucket without one no record has a data pointer; and the
records of the states of a field have the same size in every bucket. -/
structure FieldsConsistent (fd : FieldData) : Prop where
  shaped : FieldsShaped fd
  grouped : FieldStatesGrouped fd.field_set
  same_size : states_same_size fd
  null_of_zero : ∀ r i b, r < fd.entity_rank_count → i < fd.m_num_fields.toNat →
    (field_meta_data fd r i b).m_size = 0 → (field_meta_data fd r i b).m_data = none
  backed : ∀ r i b, r < fd.entity_rank_count → i < fd.m_num_fields.toNat →
    field_raw_data fd r b ≠ none → 0 < (field_meta_data fd r i b).m_size →
    (field_meta_data fd r i b).m_data ≠ none
  unbacked : ∀ r i b, r < fd.entity_rank_count → i < fd.m_num_fields.toNat →
    field_raw_data fd r b = none → (field_meta_data fd r i b).m_data = none
  sizes : ∀ r k s b, r < fd.entity_rank_count →
    state_group fd.field_set k < fd.m_num_fields.toNat →
    s < (fd.field_set.getD (state_group fd.field_set k) FieldBase.null).number_of_states →
    (field_meta_data fd r (state_group fd.field_set k + s) b).m_size
      = (field_meta_data fd r (state_group fd.field_set k) b).m_size

/-- The field-data members reachable from the constructor, with a field set as the
metadata builds it, through new_bucket_callback, copy_entity_fields_callback,
remove_entity_callback, destroy_bucket_callback, update_field_data_states and
reorder_buckets_callback; new_bucket_callback and reorder_buckets_callback are called
with a rank of the mesh, reorder_buckets_callback with a map to bucket ids of the
rank, and a call that throws leaves reachable members too. -/
inductive ReachableFields : FieldData → Prop where
  | construct (field_set : List FieldBase) (entity_rank_count : Nat) (assertions : Bool)
      (memory : Nat → Nat) (heap_top : Nat) :
      FieldStatesGrouped field_set →
      states_same_size (construct_field_data field_set entity_rank_count assertions memory heap_top) →
      ReachableFields (construct_field_data field_set entity_rank_count assertions memory heap_top)
  | new_bucket_callback (fd : FieldData) (rank : EntityRank) (parts : List PartOrdinal)
      (capacity : Nat) :
      ReachableFields fd → rank < fd.entity_rank_count →
      ReachableFields (new_bucket_callback fd rank parts capacity)
  | copy_entity_fields_callback (fd : FieldData) (dst_rank : EntityRank)
      (dst_bucket_id dst_bucket_ord : Nat) (src_rank : EntityRank)
      (src_bucket_id src_bucket_ord : Nat) :
      ReachableFields fd →
      ReachableFields (copy_entity_fields_callback fd dst_rank dst_bucket_id dst_bucket_ord
        src_rank src_bucket_id src_bucket_ord).2
  | remove_entity_callback (fd : FieldData) (rank : EntityRank) (bucket_id bucket_ord : Nat) :
      ReachableFields fd → ReachableFields (remove_entity_callback fd rank bucket_id bucket_ord)
  | destroy_bucket_callback (fd : FieldData) (rank : EntityRank) (bucket_id capacity : Nat) :
      ReachableFields fd → ReachableFields (destroy_bucket_callback fd rank bucket_id capacity)
  | update_field_data_states (fd fd1 : FieldData) :
      ReachableFields fd → update_field_data_states fd = some fd1 → ReachableFields fd1
  | reorder_buckets_callback (fd : FieldData) (rank : EntityRank) (id_map : List Nat) :
      ReachableFields fd → rank < fd.entity_rank_count →
      (∀ k ∈ id_map, k < bucket_count fd rank) →
      ReachableFields (reorder_buckets_callback fd rank id_map)

/-- A number of calls of update_field_data_states one after the other. -/
def update_field_data_states_times : Nat → FieldData → Option FieldData
  | 0, fd => some fd
  | n + 1, fd =>
    match update_field_data_states fd with
    | some fd1 => update_field_data_states_times n fd1
    | none => none

/-! ## Lists -/

theorem getD_set_same {α : Type} (l : List α) (i : Nat) (a d : α) (h : i < l.length) :
    (l.set i a).getD i d = a := by
  simp [List.getD_eq_getElem?_getD, List.getElem?_set, h]

theorem getD_set_other {α : Type} (l : List α) (i j : Nat) (a d : α) (h : i ≠ j) :
    (l.set i a).getD j d = l.getD j d := by
  simp [List.getD_eq_getElem?_getD, List.getElem?_set, h]

theorem getD_of_length_le {α : Type} (l : List α) (i : Nat) (d : α) (h : l.length ≤ i) :
    l.getD i d = d := by
  simp [List.getD_eq_getElem?_getD, List.getElem?_eq_none h]

/-! ## The modification cycle -/

theorem reset_entity_states_length (repo : List (EntityKey × Entity)) (states : List EntityState) :
    (reset_entity_states repo states).length = states.length := by
  induction repo generalizing states with
  | nil => rfl
  | cons p rest ih => simp [reset_entity_states, List.foldl_cons] at ih ⊢; rw [ih]; simp

theorem reset_entity_states_getD (repo : List (EntityKey × Entity)) (states : List EntityState)
    (e : Nat) (d : EntityState) :
    (reset_entity_states repo states).getD e d =
      if (∃ p ∈ repo, p.2 = e) ∧ e < states.length then EntityState.Unchanged
      else states.getD e d := by
  induction repo generalizing states with
  | nil => simp [reset_entity_states]
  | cons p rest ih =>
    have h := ih (states.set p.2 EntityState.Unchanged)
    simp only [reset_entity_states, List.foldl_cons] at h ⊢
    rw [h, List.length_set]
    by_cases hlt : e < states.length
    · by_cases hp : p.2 = e
      · subst hp
        simp [hlt, getD_set_same]
      · by_cases hr : ∃ q ∈ rest, q.2 = e
        · have : ∃ q ∈ p :: rest, q.2 = e := by
            obtain ⟨q, hq, he⟩ := hr
            exact ⟨q, List.mem_cons_of_mem _ hq, he⟩
          simp [hlt, hr, this]
        · have : ¬ ∃ q ∈ p :: rest, q.2 = e := by
            rintro ⟨q, hq, he⟩
            rcases List.mem_cons.1 hq with rfl | hq
            · exact hp he
            · exact hr ⟨q, hq, he⟩
          simp only [hr, this, false_and, if_false]
          exact getD_set_other _ _ _ _ _ hp
    · have h1 : states.length ≤ e := Nat.le_of_not_lt hlt
      simp only [hlt, and_false, if_false]
      rw [getD_of_length_le _ _ _ h1, getD_of_length_le _ _ _ (by simpa using h1)]

/-- C1: on a mesh that is not finalized and already MODIFIABLE, modification_begin
returns false and leaves the sync counter, the sync state, the metadata-verified
flag and the state of every entity as they were. -/
theorem C1_modification_begin_modifiable_returns_false (m : BulkData)
    (hfin : m.m_mesh_finalized = false)
    (hmod : m.m_sync_state = BulkDataSyncState.MODIFIABLE) :
    m.modification_begin.1 = Outcome.ok false ∧
    m.modification_begin.2.m_sync_count = m.m_sync_count ∧
    m.modification_begin.2.m_sync_state = m.m_sync_state ∧
    m.modification_begin.2.m_meta_data_verified = m.m_meta_data_verified ∧
    m.modification_begin.2.m_entity_states = m.m_entity_states ∧
    ∀ e : Entity, m.modification_begin.2.state e = m.state e := by
  unfold modification_begin
  by_cases h0 : m.m_sync_count = 0 <;> simp [hfin, hmod, h0, state]

theorem C1_witness :
    scenario_begun.m_mesh_finalized = false ∧
    scenario_begun.m_sync_state = BulkDataSyncState.MODIFIABLE ∧
    scenario_begun.modification_begin.1 = Outcome.ok false ∧
    scenario_begun.modification_begin.2.m_sync_count = scenario_begun.m_sync_count :=
  ⟨by decide, by decide,
    (C1_modification_begin_modifiable_returns_false scenario_begun (by decide) (by decide)).1,
    (C1_modification_begin_modifiable_returns_false scenario_begun (by decide) (by decide)).2.1⟩

/-- C2: on a mesh that is not finalized, is SYNCHRONIZED and has its metadata
verified, modification_begin returns true, adds exactly one to the sync counter,
sets the state of every entity held in the entity repository to Unchanged (the
repository itself is not changed) and leaves the mesh MODIFIABLE. -/
theorem C2_modification_begin_next_cycle (m : BulkData)
    (hfin : m.m_mesh_finalized = false)
    (hsync : m.m_sync_state = BulkDataSyncState.SYNCHRONIZED)
    (hver : m.m_meta_data_verified = true) :
    m.modification_begin.1 = Outcome.ok true ∧
    m.modification_begin.2.m_sync_count = m.m_sync_count + 1 ∧
    m.modification_begin.2.m_entity_repo = m.m_entity_repo ∧
    (∀ p ∈ m.m_entity_repo, p.2 < m.m_entity_states.length →
      m.modification_begin.2.state p.2 = EntityState.Unchanged) ∧
    m.modification_begin.2.m_sync_state = BulkDataSyncState.MODIFIABLE := by
  unfold modification_begin
  by_cases h0 : m.m_sync_count = 0
  · simp [hfin, hsync, hver, h0, state, reset_entity_states_getD]
    intro a b hab hlt
    rw [← List.getD_eq_getElem?_getD, reset_entity_states_getD, if_pos ⟨⟨(a, b), hab, rfl⟩, hlt⟩]
  · simp [hfin, hsync, hver, h0, state, reset_entity_states_getD]
    intro a b hab hlt
    rw [← List.getD_eq_getElem?_getD, reset_entity_states_getD, if_pos ⟨⟨(a, b), hab, rfl⟩, hlt⟩]

theorem C2_witness :
    scenario_synchronized.m_mesh_finalized = false ∧
    scenario_synchronized.m_sync_state = BulkDataSyncState.SYNCHRONIZED ∧
    scenario_synchronized.m_meta_data_verified = true ∧
    scenario_synchronized.modification_begin.1 = Outcome.ok true ∧
    scenario_synchronized.modification_begin.2.m_sync_count = scenario_synchronized.m_sync_count + 1 :=
  ⟨by decide, by decide, by decide,
    (C2_modification_begin_next_cycle scenario_synchronized (by decide) (by decide) (by decide)).1,
    (C2_modification_begin_next_cycle scenario_synchronized (by decide) (by decide) (by decide)).2.1⟩

/-- C4: on a finalized mesh modification_begin throws, whatever the sync state, and
the mesh it leaves is the mesh it was given: sync state, sync counter and every
entity state are unchanged. -/
theorem C4_modification_begin_finalized_fails (m : BulkData)
    (hfin : m.m_mesh_finalized = true) :
    m.modification_begin.1.isError = true ∧
    m.modification_begin.2 = m ∧
    m.modification_begin.2.m_sync_state = m.m_sync_state ∧
    m.modification_begin.2.m_sync_count = m.m_sync_count ∧
    ∀ e : Entity, m.modification_begin.2.state e = m.state e := by
  unfold modification_begin
  simp [hfin, Outcome.isError]

theorem C4_witness :
    scenario_finalized.m_mesh_finalized = true ∧
    scenario_finalized.modification_begin.1.isError = true ∧
    scenario_finalized.modification_begin.2 = scenario_finalized :=
  ⟨by decide, (C4_modification_begin_finalized_fails scenario_finalized (by decide)).1,
    (C4_modification_begin_finalized_fails scenario_finalized (by decide)).2.1⟩

/-- C3 (counterexample): on a fresh mesh the first modification_begin returns true;
a node is then declared (state Created) and, with no modification_end in between,
modification_begin is called again: it returns false, and the node, which the
repository holds, is still Created, so not every entity state was reset to
Unchanged. Called directly after the first call, the second call returns false as
well. -/
theorem C3_counterexample :
    scenario_fresh.modification_begin.1 = Outcome.ok true ∧
    scenario_begun.modification_begin.1 = Outcome.ok false ∧
    (scenario_begun.declare_entity 0 1 []).1 = Outcome.ok 1 ∧
    (scenario_begun.declare_entity 0 1 []).2.modification_begin.1 = Outcome.ok false ∧
    ¬ (∀ p ∈ (scenario_begun.declare_entity 0 1 []).2.modification_begin.2.m_entity_repo,
        (scenario_begun.declare_entity 0 1 []).2.modification_begin.2.state p.2
          = EntityState.Unchanged) := by
  refine ⟨by decide, by decide, by decide, by decide, ?_⟩
  intro h
  have h1 := h (⟨0, 1⟩, 1) (by decide)
  exact absurd h1 (by decide)

/-- C3 (amended): on a freshly constructed mesh that is serial or whose metadata
passes the parallel consistency check, the first modification_begin returns true,
resets no entity state and leaves the mesh MODIFIABLE and not finalized; the second
call in a row returns false and resets no entity state, and so does
modification_begin on every mesh that is still MODIFIABLE and not finalized. -/
theorem C3_modification_begin_twice (meta : MetaData) (cmap : ConnectivityMap)
    (parallel_size parallel_rank : Nat) (consistent assertions : Bool)
    (hcons : parallel_size ≤ 1 ∨ consistent = true) :
    (construct meta cmap parallel_size parallel_rank consistent assertions).modification_begin.1
      = Outcome.ok true ∧
    (construct meta cmap parallel_size parallel_rank consistent assertions).modification_begin.2.m_entity_states
      = (construct meta cmap parallel_size parallel_rank consistent assertions).m_entity_states ∧
    (construct meta cmap parallel_size parallel_rank consistent assertions).modification_begin.2.m_sync_state
      = BulkDataSyncState.MODIFIABLE ∧
    (construct meta cmap parallel_size parallel_rank consistent assertions).modification_begin.2.m_mesh_finalized
      = false ∧
    (construct meta cmap parallel_size parallel_rank consistent assertions).modification_begin.2.modification_begin.1
      = Outcome.ok false ∧
    (construct meta cmap parallel_size parallel_rank consistent assertions).modification_begin.2.modification_begin.2.m_entity_states
      = (construct meta cmap parallel_size parallel_rank consistent assertions).m_entity_states ∧
    ∀ m : BulkData, m.m_sync_state = BulkDataSyncState.MODIFIABLE → m.m_mesh_finalized = false →
      m.modification_begin.1 = Outcome.ok false ∧
      m.modification_begin.2.m_entity_states = m.m_entity_states := by
  have hgen : ∀ m : BulkData, m.m_sync_state = BulkDataSyncState.MODIFIABLE →
      m.m_mesh_finalized = false →
      m.modification_begin.1 = Outcome.ok false ∧
      m.modification_begin.2.m_entity_states = m.m_entity_states := by
    intro m hmod hfin
    unfold modification_begin
    by_cases h0 : m.m_sync_count = 0 <;> simp [hfin, hmod, h0]
  have hfirst :
      (construct meta cmap parallel_size parallel_rank consistent assertions).modification_begin.1
        = Outcome.ok true ∧
      (construct meta cmap parallel_size parallel_rank consistent assertions).modification_begin.2.m_entity_states
        = (construct meta cmap parallel_size parallel_rank consistent assertions).m_entity_states ∧
      (construct meta cmap parallel_size parallel_rank consistent assertions).modification_begin.2.m_sync_state
        = BulkDataSyncState.MODIFIABLE ∧
      (construct meta cmap parallel_size parallel_rank consistent assertions).modification_begin.2.m_mesh_finalized
        = false := by
    rcases hcons with hser | hcon
    · have hnot : ¬ 1 < parallel_size := Nat.not_lt.2 hser
      by_cases hc : meta.is_commit = true <;>
        simp [modification_begin, construct, initialize_arrays, require_metadata_committed, hnot, hc]
    · by_cases hc : meta.is_commit = true <;>
        simp [modification_begin, construct, initialize_arrays, require_metadata_committed, hcon, hc]
  obtain ⟨h1, h2, h3, h4⟩ := hfirst
  refine ⟨h1, h2, h3, h4, (hgen _ h3 h4).1, ?_, hgen⟩
  rw [(hgen _ h3 h4).2, h2]

theorem C3_witness :
    ((1 : Nat) ≤ 1 ∨ true = true) ∧
    scenario_fresh.modification_begin.1 = Outcome.ok true ∧
    scenario_fresh.modification_begin.2.modification_begin.1 = Outcome.ok false :=
  ⟨Or.inl (Nat.le_refl 1),
    (C3_modification_begin_twice scenario_meta scenario_map 1 0 true true (Or.inl (Nat.le_refl 1))).1,
    (C3_modification_begin_twice scenario_meta scenario_map 1 0 true true
      (Or.inl (Nat.le_refl 1))).2.2.2.2.1⟩

/-! ## Wrong state and invalid relations -/

theorem require_ok_to_modify_synchronized (m : BulkData)
    (h : m.m_sync_state = BulkDataSyncState.SYNCHRONIZED) :
    m.require_ok_to_modify = Outcome.error "NOT in the ok-to-modify state" := by
  simp [require_ok_to_modify, h]

theorem require_ok_to_modify_modifiable (m : BulkData)
    (h : m.m_sync_state = BulkDataSyncState.MODIFIABLE) :
    m.require_ok_to_modify = Outcome.ok () := by
  simp [require_ok_to_modify, h]

/-- C5: while the mesh is SYNCHRONIZED, declare_entity (both overloads),
destroy_entity, declare_relation (both overloads), destroy_relation and
change_entity_id throw for every argument, and the entity map and the four
per-entity vectors (entities, relations, part memberships, repository entries,
per-entity slots) are left as they were. -/
theorem C5_synchronized_mesh_rejects_mutation (m : BulkData)
    (hsync : m.m_sync_state = BulkDataSyncState.SYNCHRONIZED) :
    (∀ (ent_rank : EntityRank) (ent_id : EntityId) (parts : List PartOrdinal),
      (m.declare_entity ent_rank ent_id parts).1.isError = true ∧
      same_entities m (m.declare_entity ent_rank ent_id parts).2) ∧
    (∀ (ent_rank : EntityRank) (ent_id : EntityId),
      (m.declare_entity_universal ent_rank ent_id).1.isError = true ∧
      same_entities m (m.declare_entity_universal ent_rank ent_id).2) ∧
    (∀ entity : Entity,
      (m.destroy_entity entity).1.isError = true ∧ same_entities m (m.destroy_entity entity).2) ∧
    (∀ (e_from e_to : Entity) (local_id : RelationIdentifier) (permut : Permutation),
      (m.declare_relation e_from e_to local_id permut).1.isError = true ∧
      same_entities m (m.declare_relation e_from e_to local_id permut).2) ∧
    (∀ (entity : Entity) (rel : List Relation),
      (m.declare_relation_vector entity rel).1.isError = true ∧
      same_entities m (m.declare_relation_vector entity rel).2) ∧
    (∀ (e_from e_to : Entity) (local_id : RelationIdentifier),
      (m.destroy_relation e_from e_to local_id).1.isError = true ∧
      same_entities m (m.destroy_relation e_from e_to local_id).2) ∧
    (∀ (id : EntityId) (entity : Entity),
      (m.change_entity_id id entity).1.isError = true ∧
      same_entities m (m.change_entity_id id entity).2) := by
  have hreq := require_ok_to_modify_synchronized m hsync
  have hreq0 : (m.set_check_invalid_rels false).require_ok_to_modify
      = Outcome.error "NOT in the ok-to-modify state" := by
    simp [require_ok_to_modify, set_check_invalid_rels, hsync]
  have hde : ∀ (ent_rank : EntityRank) (ent_id : EntityId) (parts : List PartOrdinal),
      (m.declare_entity ent_rank ent_id parts).1.isError = true ∧
      same_entities m (m.declare_entity ent_rank ent_id parts).2 := by
    intro ent_rank ent_id parts
    simp only [declare_entity, hreq0]
    simp [Outcome.isError, same_entities, set_check_invalid_rels]
  refine ⟨hde, fun r i => hde r i _, ?_, ?_, ?_, ?_, ?_⟩
  · intro entity
    simp only [destroy_entity, hreq]
    simp [Outcome.isError, same_entities]
  · intro e_from e_to local_id permut
    simp only [declare_relation, hreq]
    simp [Outcome.isError, same_entities]
  · intro entity rel
    simp only [declare_relation_vector, hreq]
    simp [Outcome.isError, same_entities]
  · intro e_from e_to local_id
    simp only [destroy_relation, hreq]
    simp [Outcome.isError, same_entities]
  · intro id entity
    simp only [change_entity_id, hreq]
    by_cases ha : m.assertions_enabled = true ∧ m.m_parallel_size ≠ 1
    · simp [ha, Outcome.isError, same_entities]
    · rw [if_neg ha]
      simp [Outcome.isError, same_entities]

theorem C5_witness :
    scenario_synchronized.m_sync_state = BulkDataSyncState.SYNCHRONIZED ∧
    (scenario_synchronized.declare_relation 1 2 0 0).1.isError = true ∧
    same_entities scenario_synchronized (scenario_synchronized.destroy_entity 2).2 :=
  ⟨by decide,
    ((C5_synchronized_mesh_rejects_mutation scenario_synchronized (by decide)).2.2.2.1 1 2 0 0).1,
    ((C5_synchronized_mesh_rejects_mutation scenario_synchronized (by decide)).2.2.1 2).2⟩

theorem require_valid_relation_isError (action : String) (m : BulkData) (e_from e_to : Entity) :
    (require_valid_relation action m e_from e_to).isError = true ↔
      (m.entity_rank e_from ≤ m.entity_rank e_to ∨ m.is_valid e_from = false ∨
        m.is_valid e_to = false) := by
  unfold require_valid_relation
  by_cases h1 : m.entity_rank e_from ≤ m.entity_rank e_to <;>
    cases h2 : m.is_valid e_from <;> cases h3 : m.is_valid e_to <;>
    simp [h1, Outcome.isError]

theorem require_valid_relation_ok (action : String) (m : BulkData) (e_from e_to : Entity)
    (h : require_valid_relation action m e_from e_to = Outcome.ok ()) :
    m.entity_rank e_to < m.entity_rank e_from ∧ m.is_valid e_from = true ∧
      m.is_valid e_to = true := by
  have hne : ¬ (require_valid_relation action m e_from e_to).isError = true := by
    rw [h]; simp [Outcome.isError]
  rw [require_valid_relation_isError] at hne
  push_neg at hne
  obtain ⟨h1, h2, h3⟩ := hne
  exact ⟨h1, by simpa using h2, by simpa using h3⟩

theorem outcome_unit_cases (o : Outcome Unit) : o = Outcome.ok () ∨ ∃ msg, o = Outcome.error msg := by
  cases o with
  | ok u => exact Or.inl rfl
  | error msg => exact Or.inr ⟨msg, rfl⟩

/-- C6: require_valid_relation throws exactly when rank(from) ≤ rank(to), or `from`
is not valid, or `to` is not valid; on a MODIFIABLE mesh a declare_relation or
destroy_relation whose arguments violate the check throws and leaves the whole mesh,
hence every relation, part membership and entity state, as it was. -/
theorem C6_require_valid_relation (action : String) (m : BulkData) (e_from e_to : Entity)
    (local_id : RelationIdentifier) (permut : Permutation) :
    ((require_valid_relation action m e_from e_to).isError = true ↔
      (m.entity_rank e_from ≤ m.entity_rank e_to ∨ m.is_valid e_from = false ∨
        m.is_valid e_to = false)) ∧
    (m.m_sync_state = BulkDataSyncState.MODIFIABLE →
      (m.entity_rank e_from ≤ m.entity_rank e_to ∨ m.is_valid e_from = false ∨
        m.is_valid e_to = false) →
      (m.declare_relation e_from e_to local_id permut).1.isError = true ∧
      (m.declare_relation e_from e_to local_id permut).2 = m ∧
      (m.destroy_relation e_from e_to local_id).1.isError = true ∧
      (m.destroy_relation e_from e_to local_id).2 = m) := by
  refine ⟨require_valid_relation_isError action m e_from e_to, ?_⟩
  intro hmod hbad
  have hreq := require_ok_to_modify_modifiable m hmod
  have hd : ∃ msg, require_valid_relation "declare" m e_from e_to = Outcome.error msg := by
    rcases outcome_unit_cases (require_valid_relation "declare" m e_from e_to) with h | h
    · have := (require_valid_relation_isError "declare" m e_from e_to).2 hbad
      rw [h] at this
      simp [Outcome.isError] at this
    · exact h
  have hx : ∃ msg, require_valid_relation "destroy" m e_from e_to = Outcome.error msg := by
    rcases outcome_unit_cases (require_valid_relation "destroy" m e_from e_to) with h | h
    · have := (require_valid_relation_isError "destroy" m e_from e_to).2 hbad
      rw [h] at this
      simp [Outcome.isError] at this
    · exact h
  obtain ⟨msg1, hd⟩ := hd
  obtain ⟨msg2, hx⟩ := hx
  simp only [declare_relation, destroy_relation, hreq, hd, hx]
  simp [Outcome.isError]

theorem C6_witness :
    scenario_two_entities.m_sync_state = BulkDataSyncState.MODIFIABLE ∧
    (scenario_two_entities.entity_rank 2 ≤ scenario_two_entities.entity_rank 1 ∨
      scenario_two_entities.is_valid 2 = false ∨ scenario_two_entities.is_valid 1 = false) ∧
    (scenario_two_entities.declare_relation 2 1 0 0).1.isError = true ∧
    (scenario_two_entities.declare_relation 2 1 0 0).2 = scenario_two_entities :=
  ⟨by decide, Or.inl (by decide),
    ((C6_require_valid_relation "declare" scenario_two_entities 2 1 0 0).2
      (by decide) (Or.inl (by decide))).1,
    ((C6_require_valid_relation "declare" scenario_two_entities 2 1 0 0).2
      (by decide) (Or.inl (by decide))).2.1⟩


theorem Frame.refl (m : BulkData) : Frame m m :=
  ⟨rfl, rfl, rfl, rfl, rfl, rfl, rfl, rfl, rfl, rfl, rfl, rfl, rfl, rfl, fun _ => Iff.rfl⟩

theorem Frame.trans {a b c : BulkData} (h1 : Frame a b) (h2 : Frame b c) : Frame a c :=
  ⟨h2.keys.trans h1.keys, h2.meta.trans h1.meta, h2.cmap.trans h1.cmap, h2.repo.trans h1.repo,
    h2.deleted.trans h1.deleted, h2.deleted_cycle.trans h1.deleted_cycle,
    h2.comm_map.trans h1.comm_map, h2.comm_list.trans h1.comm_list,
    h2.sync_state.trans h1.sync_state, h2.sync_count.trans h1.sync_count,
    h2.parallel_size.trans h1.parallel_size, h2.parallel_rank.trans h1.parallel_rank,
    h2.indexes_length.trans h1.indexes_length, h2.states_length.trans h1.states_length,
    fun e => (h2.deleted_iff e).trans (h1.deleted_iff e)⟩

theorem Frame.entity_key {m m' : BulkData} (h : Frame m m') (e : Entity) :
    m'.entity_key e = m.entity_key e := by
  simp only [BulkData.entity_key, h.keys]

theorem Frame.entity_rank {m m' : BulkData} (h : Frame m m') (e : Entity) :
    m'.entity_rank e = m.entity_rank e := by
  simp only [BulkData.entity_rank, h.entity_key]

theorem Frame.is_valid {m m' : BulkData} (h : Frame m m') (e : Entity) :
    m'.is_valid e = m.is_valid e := by
  have hd := h.deleted_iff e
  simp only [BulkData.is_valid, h.states_length]
  by_cases h1 : m.state e = EntityState.Deleted
  · simp [h1, hd.2 h1]
  · have h2 : ¬ m'.state e = EntityState.Deleted := fun h3 => h1 (hd.1 h3)
    simp [h1, h2]

theorem Frame.tracks_back_relation {m m' : BulkData} (h : Frame m m') (a b : EntityRank) :
    m'.tracks_back_relation a b = m.tracks_back_relation a b := by
  simp only [BulkData.tracks_back_relation, h.cmap]

theorem Frame.require_ok_to_modify {m m' : BulkData} (h : Frame m m') :
    m'.require_ok_to_modify = m.require_ok_to_modify := by
  simp only [BulkData.require_ok_to_modify, h.sync_state]

theorem mesh_index_set (m : BulkData) (e x : Entity) (v : Option MeshIndex) :
    (m.set_mesh_index e v).mesh_index x =
      if x = e ∧ e < m.m_mesh_indexes.length then v else m.mesh_index x := by
  unfold mesh_index set_mesh_index
  by_cases hx : x = e
  · subst hx
    by_cases hl : x < m.m_mesh_indexes.length
    · simp only [hl, and_self, if_true]
      exact getD_set_same _ _ _ _ hl
    · simp only [hl, and_false, if_false]
      rw [getD_of_length_le _ _ _ (by simpa using hl), getD_of_length_le _ _ _ (Nat.le_of_not_lt hl)]
  · simp only [hx, false_and, if_false]
    exact getD_set_other _ _ _ _ _ (fun h => hx h.symm)

theorem mesh_index_none_of_length_le (m : BulkData) (e : Entity)
    (h : m.m_mesh_indexes.length ≤ e) : m.mesh_index e = none :=
  getD_of_length_le _ _ _ h

/-- Two meshes have the same bucket slots. -/
theorem accessors_of_indexes_eq {m m' : BulkData} (h : m'.m_mesh_indexes = m.m_mesh_indexes)
    (e : Entity) :
    m'.mesh_index e = m.mesh_index e ∧ m'.bucket_parts e = m.bucket_parts e ∧
      m'.connectivity e = m.connectivity e := by
  simp only [mesh_index, bucket_parts, connectivity, h, and_self]


/-! ## Parts: membership -/

theorem mem_insert_ordinal (v : List PartOrdinal) (ord q : PartOrdinal) :
    q ∈ insert_ordinal v ord ↔ q = ord ∨ q ∈ v := by
  unfold insert_ordinal
  by_cases h : ord ∈ v
  · simp only [h, if_true]
    constructor
    · exact fun hq => Or.inr hq
    · rintro (rfl | hq)
      · exact h
      · exact hq
  · simp only [h, if_false, List.mem_orderedInsert]

theorem mem_foldl_insert_ordinal (add v : List PartOrdinal) (q : PartOrdinal) :
    q ∈ add.foldl insert_ordinal v ↔ q ∈ v ∨ q ∈ add := by
  induction add generalizing v with
  | nil => simp
  | cons a rest ih =>
    simp only [List.foldl_cons, ih, mem_insert_ordinal, List.mem_cons]
    tauto

/-! ## What the primitive steps change -/

theorem set_synchronized_count_frame (m : BulkData) (e : Entity) (n : Nat) :
    Frame m (m.set_synchronized_count e n) ∧
      (m.set_synchronized_count e n).m_mesh_indexes = m.m_mesh_indexes :=
  ⟨⟨rfl, rfl, rfl, rfl, rfl, rfl, rfl, rfl, rfl, rfl, rfl, rfl, rfl, rfl, fun _ => Iff.rfl⟩, rfl⟩

theorem state_set_state (m : BulkData) (e x : Entity) (s : EntityState) :
    (m.set_state e s).state x =
      if x = e ∧ e < m.m_entity_states.length then s else m.state x := by
  unfold state set_state
  by_cases hx : x = e
  · subst hx
    by_cases hl : x < m.m_entity_states.length
    · simp only [hl, and_self, if_true]
      exact getD_set_same _ _ _ _ hl
    · simp only [hl, and_false, if_false]
      rw [getD_of_length_le _ _ _ (by simpa using hl), getD_of_length_le _ _ _ (Nat.le_of_not_lt hl)]
  · simp only [hx, false_and, if_false]
    exact getD_set_other _ _ _ _ _ (fun h => hx h.symm)

theorem set_state_modified_frame (m : BulkData) (e : Entity)
    (h : m.state e = EntityState.Unchanged) :
    Frame m (m.set_state e EntityState.Modified) ∧
      (m.set_state e EntityState.Modified).m_mesh_indexes = m.m_mesh_indexes := by
  refine ⟨⟨rfl, rfl, rfl, rfl, rfl, rfl, rfl, rfl, rfl, rfl, rfl, rfl, rfl, ?_, ?_⟩, rfl⟩
  · simp [set_state]
  · intro x
    rw [state_set_state]
    by_cases hx : x = e ∧ e < m.m_entity_states.length
    · rw [if_pos hx, hx.1, h]
      constructor <;> intro h2 <;> exact absurd h2 (by decide)
    · rw [if_neg hx]

theorem foldl_preserves {α : Type} (P : BulkData → Prop) (f : BulkData → α → BulkData)
    (hstep : ∀ acc a, P acc → P (f acc a)) (l : List α) (init : BulkData) (h0 : P init) :
    P (l.foldl f init) := by
  induction l generalizing init with
  | nil => exact h0
  | cons a rest ih => exact ih _ (hstep _ _ h0)

theorem modified_fuel_frame (fuel : Nat) (m : BulkData) (entity : Entity) :
    Frame m (modified_fuel fuel m entity) ∧
      (modified_fuel fuel m entity).m_mesh_indexes = m.m_mesh_indexes := by
  induction fuel generalizing m entity with
  | zero => exact ⟨Frame.refl m, rfl⟩
  | succ fuel ih =>
    unfold modified_fuel
    by_cases hs : m.state entity = EntityState.Unchanged
    · rw [if_neg (not_not.2 hs)]
      have h1 := set_state_modified_frame m entity hs
      apply foldl_preserves (fun acc => Frame m acc ∧ acc.m_mesh_indexes = m.m_mesh_indexes)
      · intro acc irank hacc
        apply foldl_preserves (fun acc => Frame m acc ∧ acc.m_mesh_indexes = m.m_mesh_indexes)
        · intro acc2 c hacc2
          by_cases hc : acc2.state c.entity = EntityState.Unchanged
          · simp only [hc, if_true]
            have h3 := ih acc2 c.entity
            exact ⟨hacc2.1.trans h3.1, h3.2.trans hacc2.2⟩
          · simp only [hc, if_false]
            exact hacc2
        · exact hacc
      · exact h1
    · rw [if_pos hs]
      exact ⟨Frame.refl m, rfl⟩

theorem modified_frame (m : BulkData) (entity : Entity) :
    Frame m (m.modified entity) ∧ (m.modified entity).m_mesh_indexes = m.m_mesh_indexes :=
  modified_fuel_frame _ m entity


theorem set_mesh_index_frame (m : BulkData) (e : Entity) (v : Option MeshIndex) :
    Frame m (m.set_mesh_index e v) :=
  ⟨rfl, rfl, rfl, rfl, rfl, rfl, rfl, rfl, rfl, rfl, rfl, rfl, by simp [set_mesh_index], rfl,
    fun _ => Iff.rfl⟩

theorem lt_length_of_mesh_index_some (m : BulkData) (e : Entity) (idx : MeshIndex)
    (h : m.mesh_index e = some idx) : e < m.m_mesh_indexes.length := by
  by_contra hlt
  rw [mesh_index_none_of_length_le m e (Nat.le_of_not_lt hlt)] at h
  exact Option.noConfusion h

/-- The mesh after the connectivity of one bucket slot is replaced. -/
theorem slot_connectivity_update (m : BulkData) (e : Entity) (idx : MeshIndex)
    (h : m.mesh_index e = some idx) (conn : List ConnEntry) :
    Frame m (m.set_mesh_index e (some { idx with connectivity := conn })) ∧
    (∀ x, (m.set_mesh_index e (some { idx with connectivity := conn })).bucket_parts x
        = m.bucket_parts x) ∧
    (∀ x, ((m.set_mesh_index e (some { idx with connectivity := conn })).mesh_index x).isSome
        = (m.mesh_index x).isSome) ∧
    (∀ x, (m.set_mesh_index e (some { idx with connectivity := conn })).connectivity x
        = if x = e then conn else m.connectivity x) := by
  have hlt := lt_length_of_mesh_index_some m e idx h
  refine ⟨set_mesh_index_frame m _ _, ?_, ?_, ?_⟩
  · intro x
    unfold bucket_parts
    rw [mesh_index_set]
    by_cases hx : x = e
    · subst hx
      simp [hlt, h]
    · simp [hx]
  · intro x
    rw [mesh_index_set]
    by_cases hx : x = e
    · subst hx
      simp [hlt, h]
    · simp [hx]
  · intro x
    unfold connectivity
    rw [mesh_index_set]
    by_cases hx : x = e
    · subst hx
      simp [hlt]
    · simp [hx]

theorem connectivity_of_mesh_index_some (m : BulkData) (e : Entity) (idx : MeshIndex)
    (h : m.mesh_index e = some idx) : m.connectivity e = idx.connectivity := by
  simp [connectivity, h]

theorem bucket_declare_relation_cases (m : BulkData) (e e_to : Entity)
    (ordinal : ConnectivityOrdinal) (permut : Permutation) :
    ((bucket_declare_relation m e e_to ordinal permut).1 ≠ Outcome.ok true ∧
      (bucket_declare_relation m e e_to ordinal permut).2 = m) ∨
    ((bucket_declare_relation m e e_to ordinal permut).1 = Outcome.ok true ∧
      (m.mesh_index e).isSome = true ∧
      (∀ c ∈ m.connectivity e, ¬ holds_relation m e_to ordinal c) ∧
      Frame m (bucket_declare_relation m e e_to ordinal permut).2 ∧
      (∀ x, (bucket_declare_relation m e e_to ordinal permut).2.bucket_parts x = m.bucket_parts x) ∧
      (∀ x, ((bucket_declare_relation m e e_to ordinal permut).2.mesh_index x).isSome
        = (m.mesh_index x).isSome) ∧
      (∀ x, (bucket_declare_relation m e e_to ordinal permut).2.connectivity x
        = if x = e then m.connectivity e ++ [declared_entry m e_to ordinal permut]
          else m.connectivity x)) := by
  unfold bucket_declare_relation
  by_cases h1 : ((m.begin_entities e (m.entity_rank e_to)).any
      (fun c => c.entity == e_to && c.ordinal == ordinal)) = true
  · left
    rw [if_pos h1]
    exact ⟨by simp, rfl⟩
  · rw [if_neg h1]
    by_cases h2 : (decide (m.entity_rank e_to < m.entity_rank e) &&
        (m.begin_entities e (m.entity_rank e_to)).any (fun c => c.ordinal == ordinal)) = true
    · left
      rw [if_pos h2]
      exact ⟨by simp, rfl⟩
    · rw [if_neg h2]
      cases hidx : m.mesh_index e with
      | none =>
        left
        exact ⟨by simp, rfl⟩
      | some idx =>
        right
        have hconn := connectivity_of_mesh_index_some m e idx hidx
        have hu := slot_connectivity_update m e idx hidx
          (idx.connectivity ++ [⟨m.entity_rank e_to, e_to, ordinal, permut⟩])
        refine ⟨rfl, rfl, ?_, hu.1, hu.2.1, hu.2.2.1, ?_⟩
        · intro c hc hcc
          apply h1
          simp only [List.any_eq_true, begin_entities, List.mem_filter]
          exact ⟨c, ⟨hc, by simp [hcc.1]⟩, by simp [hcc.2.1, hcc.2.2]⟩
        · intro x
          have := hu.2.2.2 x
          rw [hconn]
          exact this

theorem bucket_declare_relation_ok_false (m : BulkData) (e e_to : Entity)
    (ordinal : ConnectivityOrdinal) (permut : Permutation)
    (h : (bucket_declare_relation m e e_to ordinal permut).1 = Outcome.ok false) :
    ∃ c ∈ m.connectivity e, holds_relation m e_to ordinal c := by
  unfold bucket_declare_relation at h
  by_cases h1 : ((m.begin_entities e (m.entity_rank e_to)).any
      (fun c => c.entity == e_to && c.ordinal == ordinal)) = true
  · simp only [List.any_eq_true, begin_entities, List.mem_filter] at h1
    obtain ⟨c, ⟨hc, hr⟩, hh⟩ := h1
    refine ⟨c, hc, ?_⟩
    simp only [Bool.and_eq_true, beq_iff_eq] at hh hr
    exact ⟨hr, hh.1, hh.2⟩
  · rw [if_neg h1] at h
    by_cases h2 : (decide (m.entity_rank e_to < m.entity_rank e) &&
        (m.begin_entities e (m.entity_rank e_to)).any (fun c => c.ordinal == ordinal)) = true
    · rw [if_pos h2] at h
      exact absurd h (by simp)
    · rw [if_neg h2] at h
      cases hidx : m.mesh_index e with
      | none => rw [hidx] at h; exact absurd h (by simp)
      | some idx => rw [hidx] at h; exact absurd h (by simp)

/-- Without a bucket slot Bucket::declare_relation cannot report a new edge; with
one, and no position holding the relation, it does unless the relation is
degenerate. -/
theorem bucket_declare_relation_back (m : BulkData) (e e_to : Entity)
    (ordinal : ConnectivityOrdinal) (permut : Permutation)
    (hslot : (m.mesh_index e).isSome = true)
    (hrank : m.entity_rank e ≤ m.entity_rank e_to)
    (hnew : ∀ c ∈ m.connectivity e, ¬ holds_relation m e_to ordinal c) :
    (bucket_declare_relation m e e_to ordinal permut).1 = Outcome.ok true := by
  unfold bucket_declare_relation
  have h1 : ¬ ((m.begin_entities e (m.entity_rank e_to)).any
      (fun c => c.entity == e_to && c.ordinal == ordinal)) = true := by
    intro h1
    simp only [List.any_eq_true, begin_entities, List.mem_filter] at h1
    obtain ⟨c, ⟨hc, hr⟩, hh⟩ := h1
    simp only [Bool.and_eq_true, beq_iff_eq] at hh hr
    exact hnew c hc ⟨hr, hh.1, hh.2⟩
  rw [if_neg h1]
  have h2 : ¬ (decide (m.entity_rank e_to < m.entity_rank e) &&
        (m.begin_entities e (m.entity_rank e_to)).any (fun c => c.ordinal == ordinal)) = true := by
    simp only [Bool.and_eq_true, decide_eq_true_eq, not_and]
    intro hlt
    exact absurd hlt (Nat.not_lt.2 hrank)
  rw [if_neg h2]
  cases hidx : m.mesh_index e with
  | none => rw [hidx] at hslot; exact absurd hslot (by simp)
  | some idx => rfl


theorem relation_hit_iff (m : BulkData) (e_to : Entity) (ordinal : ConnectivityOrdinal)
    (c : ConnEntry) : relation_hit m e_to ordinal c = true ↔ holds_relation m e_to ordinal c := by
  simp [relation_hit, holds_relation, and_assoc]

theorem Frame.relation_hit {m m' : BulkData} (h : Frame m m') (e_to : Entity)
    (ordinal : ConnectivityOrdinal) (c : ConnEntry) :
    m'.relation_hit e_to ordinal c = m.relation_hit e_to ordinal c := by
  simp only [BulkData.relation_hit, h.entity_rank]

theorem filter_eq_self_of_not_any {α : Type} (l : List α) (p : α → Bool)
    (h : l.any p = false) : l.filter (fun c => !p c) = l := by
  rw [List.filter_eq_self]
  intro a ha
  have : p a = false := by
    by_contra hp
    have hp2 : p a = true := by simpa using hp
    have : l.any p = true := List.any_eq_true.2 ⟨a, ha, hp2⟩
    rw [h] at this
    exact Bool.noConfusion this
  simp [this]

theorem bucket_destroy_relation_spec (m : BulkData) (e e_to : Entity)
    (ordinal : ConnectivityOrdinal) :
    Frame m (bucket_destroy_relation m e e_to ordinal).2 ∧
    (∀ x, (bucket_destroy_relation m e e_to ordinal).2.bucket_parts x = m.bucket_parts x) ∧
    (∀ x, ((bucket_destroy_relation m e e_to ordinal).2.mesh_index x).isSome
        = (m.mesh_index x).isSome) ∧
    (∀ x, (bucket_destroy_relation m e e_to ordinal).2.connectivity x
        = if x = e then (m.connectivity e).filter (fun c => !relation_hit m e_to ordinal c)
          else m.connectivity x) ∧
    ((bucket_destroy_relation m e e_to ordinal).1 = true ↔
      ∃ c ∈ m.connectivity e, holds_relation m e_to ordinal c) := by
  unfold bucket_destroy_relation
  cases hidx : m.mesh_index e with
  | none =>
    have hconn : m.connectivity e = [] := by simp [connectivity, hidx]
    refine ⟨Frame.refl m, fun _ => rfl, fun _ => rfl, ?_, ?_⟩
    · intro x
      by_cases hx : x = e
      · subst hx; simp [hconn]
      · simp [hx]
    · simp [hconn]
  | some idx =>
    have hconn := connectivity_of_mesh_index_some m e idx hidx
    by_cases hany : idx.connectivity.any (relation_hit m e_to ordinal) = true
    · dsimp only
      rw [if_pos hany]
      have hu := slot_connectivity_update m e idx hidx
        (idx.connectivity.filter (fun c => !relation_hit m e_to ordinal c))
      refine ⟨hu.1, hu.2.1, hu.2.2.1, ?_, ?_⟩
      · intro x
        rw [hconn]
        exact hu.2.2.2 x
      · rw [hconn]
        simp only [true_iff]
        obtain ⟨c, hc, hh⟩ := List.any_eq_true.1 hany
        exact ⟨c, hc, (relation_hit_iff m e_to ordinal c).1 hh⟩
    · have hany2 : idx.connectivity.any (relation_hit m e_to ordinal) = false := by
        simpa using hany
      dsimp only
      rw [if_neg hany]
      refine ⟨Frame.refl m, fun _ => rfl, fun _ => rfl, ?_, ?_⟩
      · intro x
        by_cases hx : x = e
        · subst hx
          simp only [if_true]
          rw [hconn, filter_eq_self_of_not_any _ _ hany2]
        · simp [hx]
      · rw [hconn]
        constructor
        · intro h; exact absurd h (by simp)
        · rintro ⟨c, hc, hh⟩
          have : idx.connectivity.any (relation_hit m e_to ordinal) = true :=
            List.any_eq_true.2 ⟨c, hc, (relation_hit_iff m e_to ordinal c).2 hh⟩
          rw [hany2] at this
          exact Bool.noConfusion this

theorem internal_change_entity_parts_spec (m : BulkData) (e : Entity)
    (add_parts remove_parts : List PartOrdinal) :
    Frame m (m.internal_change_entity_parts e add_parts remove_parts) ∧
    (∀ x, (m.internal_change_entity_parts e add_parts remove_parts).connectivity x
        = m.connectivity x) ∧
    (∀ x, (m.internal_change_entity_parts e add_parts remove_parts).bucket_parts x
        = if x = e ∧ e < m.m_mesh_indexes.length then
            add_parts.foldl insert_ordinal
              ((m.bucket_parts e).filter (fun p => !(remove_parts.contains p)))
          else m.bucket_parts x) ∧
    (∀ x, ((m.internal_change_entity_parts e add_parts remove_parts).mesh_index x).isSome
        = ((m.mesh_index x).isSome || decide (x = e ∧ e < m.m_mesh_indexes.length))) := by
  unfold internal_change_entity_parts
  cases hidx : m.mesh_index e with
  | none =>
    simp only
    refine ⟨set_mesh_index_frame m _ _, ?_, ?_, ?_⟩
    · intro x
      unfold connectivity
      rw [mesh_index_set]
      by_cases hx : x = e ∧ e < m.m_mesh_indexes.length
      · rw [if_pos hx, hx.1, hidx]
      · rw [if_neg hx]
    · intro x
      unfold bucket_parts
      rw [mesh_index_set]
      by_cases hx : x = e ∧ e < m.m_mesh_indexes.length
      · rw [if_pos hx, if_pos hx, hidx]
      · rw [if_neg hx, if_neg hx]
    · intro x
      rw [mesh_index_set]
      by_cases hx : x = e ∧ e < m.m_mesh_indexes.length
      · rw [if_pos hx]; simp [hx]
      · rw [if_neg hx]; simp [hx]
  | some idx =>
    simp only
    have hlt := lt_length_of_mesh_index_some m e idx hidx
    refine ⟨set_mesh_index_frame m _ _, ?_, ?_, ?_⟩
    · intro x
      unfold connectivity
      rw [mesh_index_set]
      by_cases hx : x = e ∧ e < m.m_mesh_indexes.length
      · rw [if_pos hx, hx.1, hidx]
      · rw [if_neg hx]
    · intro x
      unfold bucket_parts
      rw [mesh_index_set]
      by_cases hx : x = e ∧ e < m.m_mesh_indexes.length
      · rw [if_pos hx, if_pos hx, hidx]
      · rw [if_neg hx, if_neg hx]
    · intro x
      rw [mesh_index_set]
      by_cases hx : x = e ∧ e < m.m_mesh_indexes.length
      · rw [if_pos hx]; simp [hx]
      · rw [if_neg hx]; simp [hx]


theorem internal_declare_relation_cases (m : BulkData) (e e_to : Entity)
    (local_id : RelationIdentifier) (sync_count : Nat) (back : Bool) (permut : Permutation) :
    ((internal_declare_relation m e e_to local_id sync_count back permut).1 ≠ Outcome.ok true ∧
      (internal_declare_relation m e e_to local_id sync_count back permut).2 = m ∧
      (internal_declare_relation m e e_to local_id sync_count back permut).1
        = (bucket_declare_relation m e e_to local_id permut).1) ∨
    ((internal_declare_relation m e e_to local_id sync_count back permut).1 = Outcome.ok true ∧
      (m.mesh_index e).isSome = true ∧
      (∀ c ∈ m.connectivity e, ¬ holds_relation m e_to local_id c) ∧
      Frame m (internal_declare_relation m e e_to local_id sync_count back permut).2 ∧
      (∀ x, (internal_declare_relation m e e_to local_id sync_count back permut).2.bucket_parts x
        = m.bucket_parts x) ∧
      (∀ x, ((internal_declare_relation m e e_to local_id sync_count back permut).2.mesh_index x).isSome
        = (m.mesh_index x).isSome) ∧
      (∀ x, (internal_declare_relation m e e_to local_id sync_count back permut).2.connectivity x
        = if x = e then m.connectivity e ++ [declared_entry m e_to local_id permut]
          else m.connectivity x)) := by
  unfold internal_declare_relation
  rcases bucket_declare_relation_cases m e e_to local_id permut with h | h
  · left
    obtain ⟨h1, h2⟩ := h
    cases hr : bucket_declare_relation m e e_to local_id permut with
    | mk o m1 =>
      rw [hr] at h1 h2
      cases o with
      | error msg => exact ⟨by simp, h2, rfl⟩
      | ok b =>
        cases b with
        | true => exact absurd rfl h1
        | false => exact ⟨by simp, h2, rfl⟩
  · right
    obtain ⟨h1, h2, h3, h4, h5, h6, h7⟩ := h
    cases hr : bucket_declare_relation m e e_to local_id permut with
    | mk o m1 =>
      rw [hr] at h1 h4 h5 h6 h7
      simp only at h1
      subst h1
      have hs := set_synchronized_count_frame m1 e sync_count
      have ha := fun x => accessors_of_indexes_eq hs.2 x
      refine ⟨rfl, h2, h3, h4.trans hs.1, ?_, ?_, ?_⟩
      · intro x; exact ((ha x).2.1).trans (h5 x)
      · intro x
        show ((m1.set_synchronized_count e sync_count).mesh_index x).isSome = _
        rw [(ha x).1]; exact h6 x
      · intro x; exact ((ha x).2.2).trans (h7 x)


theorem induced_part_membership_congr (m m' : BulkData) (e_from : Entity)
    (omit_parts : List PartOrdinal) (rank_to : EntityRank) (id : RelationIdentifier)
    (acc : List PartOrdinal) (sup : Bool)
    (hmeta : m'.m_mesh_meta_data = m.m_mesh_meta_data)
    (hparts : m'.bucket_parts e_from = m.bucket_parts e_from)
    (hrank : m'.entity_rank e_from = m.entity_rank e_from) :
    induced_part_membership m' e_from omit_parts rank_to id acc sup
      = induced_part_membership m e_from omit_parts rank_to id acc sup := by
  simp only [induced_part_membership, hmeta, hparts, hrank]

theorem filter_not_contains_nil (l : List PartOrdinal) :
    l.filter (fun p => !(([] : List PartOrdinal).contains p)) = l := by
  simp

/-- The tail of declare_relation: the flood of `modified` and the induced parts. -/
theorem declare_relation_finish (m m2 : BulkData) (e_from e_to : Entity)
    (local_id : RelationIdentifier) (permut : Permutation) (fwd inv caused : Bool)
    (hframe : Frame m m2)
    (hconn : ∀ x, m2.connectivity x =
      m.connectivity x
        ++ (if fwd = true ∧ x = e_from then [declared_entry m e_to local_id permut] else [])
        ++ (if inv = true ∧ x = e_to then [declared_entry m e_from local_id permut] else []))
    (hparts : ∀ x, m2.bucket_parts x = m.bucket_parts x)
    (hsome : ∀ x, (m2.mesh_index x).isSome = (m.mesh_index x).isSome) :
    declare_relation_view m
      (internal_change_entity_parts
        (if caused = true then (m2.modified e_to).modified e_from else m2) e_to
        (induced_part_membership
          (if caused = true then (m2.modified e_to).modified e_from else m2) e_from []
          ((if caused = true then (m2.modified e_to).modified e_from else m2).entity_rank e_to)
          local_id [] true) [])
      e_from e_to local_id permut fwd inv true := by
  have h3 : Frame m2 (if caused = true then (m2.modified e_to).modified e_from else m2) ∧
      (if caused = true then (m2.modified e_to).modified e_from else m2).m_mesh_indexes
        = m2.m_mesh_indexes := by
    by_cases hc : caused = true
    · rw [if_pos hc]
      have ha := modified_frame m2 e_to
      have hb := modified_frame (m2.modified e_to) e_from
      exact ⟨ha.1.trans hb.1, hb.2.trans ha.2⟩
    · rw [if_neg hc]
      exact ⟨Frame.refl m2, rfl⟩
  generalize (if caused = true then (m2.modified e_to).modified e_from else m2) = m3 at h3 ⊢
  obtain ⟨hf3, hi3⟩ := h3
  have hacc := fun x => accessors_of_indexes_eq hi3 x
  have hfm : Frame m m3 := hframe.trans hf3
  have hind : induced_part_membership m3 e_from [] (m3.entity_rank e_to) local_id [] true
      = induced_part_membership m e_from [] (m.entity_rank e_to) local_id [] true := by
    rw [hfm.entity_rank e_to]
    exact induced_part_membership_congr m m3 e_from [] _ _ [] true hfm.meta
      (((hacc e_from).2.1).trans (hparts e_from)) (hfm.entity_rank e_from)
  rw [hind]
  have hs := internal_change_entity_parts_spec m3 e_to
    (induced_part_membership m e_from [] (m.entity_rank e_to) local_id [] true) []
  obtain ⟨hs1, hs2, hs3, hs4⟩ := hs
  have hlen : m3.m_mesh_indexes.length = m.m_mesh_indexes.length := hfm.indexes_length
  refine ⟨hfm.trans hs1, ?_, ?_, ?_⟩
  · intro x
    rw [hs2 x, (hacc x).2.2, hconn x]
  · intro x
    rw [hs3 x, hlen, filter_not_contains_nil, (hacc e_to).2.1, hparts e_to, (hacc x).2.1, hparts x]
    simp
  · intro x
    rw [hs4 x, hlen, (hacc x).1, hsome x]
    simp


theorem declare_relation_view_refl (m : BulkData) (e_from e_to : Entity)
    (local_id : RelationIdentifier) (permut : Permutation) :
    declare_relation_view m m e_from e_to local_id permut false false false := by
  refine ⟨Frame.refl m, ?_, ?_, ?_⟩ <;> intro x <;> simp

theorem require_ok_to_modify_ok (m : BulkData) (h : m.require_ok_to_modify = Outcome.ok ()) :
    m.m_sync_state ≠ BulkDataSyncState.SYNCHRONIZED := by
  intro hs
  rw [require_ok_to_modify_synchronized m hs] at h
  exact Outcome.noConfusion h

theorem holds_relation_frame {m m' : BulkData} (h : Frame m m') (e_to : Entity)
    (ordinal : ConnectivityOrdinal) (c : ConnEntry) :
    holds_relation m' e_to ordinal c ↔ holds_relation m e_to ordinal c := by
  simp only [holds_relation, h.entity_rank]

theorem declared_entry_frame {m m' : BulkData} (h : Frame m m') (e_to : Entity)
    (ordinal : ConnectivityOrdinal) (permut : Permutation) :
    declared_entry m' e_to ordinal permut = declared_entry m e_to ordinal permut := by
  simp only [declared_entry, h.entity_rank]

theorem declare_relation_outcome (m : BulkData) (e_from e_to : Entity)
    (local_id : RelationIdentifier) (permut : Permutation) :
    ∃ fwd inv prt : Bool,
      declare_relation_view m (m.declare_relation e_from e_to local_id permut).2
        e_from e_to local_id permut fwd inv prt ∧
      declare_relation_facts m e_from e_to local_id
        (m.declare_relation e_from e_to local_id permut).1 fwd inv prt := by
  unfold declare_relation
  cases hreq : m.require_ok_to_modify with
  | error msg =>
    exact ⟨false, false, false, declare_relation_view_refl m e_from e_to local_id permut,
      by simp [declare_relation_facts]⟩
  | ok u =>
    cases u
    have hmod := require_ok_to_modify_ok m hreq
    cases hval : require_valid_relation "declare" m e_from e_to with
    | error msg =>
      exact ⟨false, false, false, declare_relation_view_refl m e_from e_to local_id permut,
        by simp [declare_relation_facts]⟩
    | ok u =>
      cases u
      obtain ⟨hrank, hvf, hvt⟩ := require_valid_relation_ok "declare" m e_from e_to hval
      have hne : e_from ≠ e_to := by
        intro h; rw [h] at hrank; exact Nat.lt_irrefl _ hrank
      dsimp only
      rcases internal_declare_relation_cases m e_from e_to local_id m.m_sync_count false permut
        with h | h
      · obtain ⟨h1, h2, h3⟩ := h
        cases hr : internal_declare_relation m e_from e_to local_id m.m_sync_count false permut with
        | mk o m1 =>
          rw [hr] at h1 h2 h3
          dsimp only at h1 h2 h3
          subst h2
          cases o with
          | error msg =>
            exact ⟨false, false, false, declare_relation_view_refl m1 e_from e_to local_id permut,
              by simp [declare_relation_facts]⟩
          | ok b =>
            cases b with
            | true => exact absurd rfl h1
            | false =>
              have hheld := bucket_declare_relation_ok_false m1 e_from e_to local_id permut h3.symm
              refine ⟨false, false, true, ?_, ?_⟩
              · have := declare_relation_finish m1 m1 e_from e_to local_id permut false false false
                  (Frame.refl m1) (by intro x; simp) (fun _ => rfl) (fun _ => rfl)
                simpa using this
              · unfold declare_relation_facts
                refine ⟨by simp, fun _ => ⟨hmod, hrank, hvf, hvt⟩, by simp, by simp, by simp,
                  fun _ _ => hheld⟩
      · obtain ⟨h1, hslot, hnew, hf1, hp1, hs1, hc1⟩ := h
        cases hr : internal_declare_relation m e_from e_to local_id m.m_sync_count false permut with
        | mk o m1 =>
          rw [hr] at h1 hf1 hp1 hs1 hc1
          dsimp only at h1 hf1 hp1 hs1 hc1
          subst h1
          dsimp only
          rw [if_pos rfl]
          have htr : m1.tracks_back_relation (m1.entity_rank e_to) (m1.entity_rank e_from)
              = m.tracks_back_relation (m.entity_rank e_to) (m.entity_rank e_from) := by
            rw [hf1.tracks_back_relation, hf1.entity_rank, hf1.entity_rank]
          by_cases htrack : m.tracks_back_relation (m.entity_rank e_to) (m.entity_rank e_from) = true
          · rw [if_pos (htr.trans htrack)]
            rcases internal_declare_relation_cases m1 e_to e_from local_id m1.m_sync_count true permut
              with h | h
            · obtain ⟨g1, g2, g3⟩ := h
              have hwhy : (∃ c ∈ m.connectivity e_to, holds_relation m e_from local_id c) ∨
                  (m.mesh_index e_to).isSome = false := by
                by_contra hcon
                have hno : ∀ c ∈ m.connectivity e_to, ¬ holds_relation m e_from local_id c :=
                  fun c hc hh => hcon (Or.inl ⟨c, hc, hh⟩)
                have hsome : (m.mesh_index e_to).isSome = true := by
                  cases hsm : (m.mesh_index e_to).isSome with
                  | true => rfl
                  | false => exact absurd (Or.inr hsm) hcon
                have hsome1 : (m1.mesh_index e_to).isSome = true := by
                  rw [hs1 e_to]; exact hsome
                have hno1 : ∀ c ∈ m1.connectivity e_to, ¬ holds_relation m1 e_from local_id c := by
                  intro c hc
                  rw [hc1 e_to, if_neg (fun h => hne h.symm)] at hc
                  rw [holds_relation_frame hf1]
                  exact hno c hc
                have hle : m1.entity_rank e_to ≤ m1.entity_rank e_from := by
                  rw [hf1.entity_rank, hf1.entity_rank]; exact Nat.le_of_lt hrank
                have := bucket_declare_relation_back m1 e_to e_from local_id permut hsome1 hle hno1
                rw [← g3] at this
                exact g1 this
              cases hr2 : internal_declare_relation m1 e_to e_from local_id m1.m_sync_count true permut with
              | mk o2 m2 =>
                rw [hr2] at g1 g2
                dsimp only at g1 g2
                subst g2
                have hview : declare_relation_view m m2 e_from e_to local_id permut true false false := by
                  refine ⟨hf1, ?_, ?_, ?_⟩
                  · intro x
                    rw [hc1 x]
                    by_cases hx : x = e_from <;> simp [hx]
                  · intro x; rw [hp1 x]; simp
                  · intro x; rw [hs1 x]; simp
                have hfacts : ∀ out : Outcome Unit, out ≠ Outcome.ok () →
                    declare_relation_facts m e_from e_to local_id out true false false := by
                  intro out hout
                  unfold declare_relation_facts
                  refine ⟨by simp [hout], fun _ => ⟨hmod, hrank, hvf, hvt⟩, fun _ => ⟨hslot, hnew⟩,
                    by simp, fun _ _ _ => ⟨rfl, hwhy⟩, by simp⟩
                cases o2 with
                | error msg => exact ⟨true, false, false, hview, hfacts _ (by simp)⟩
                | ok b =>
                  cases b with
                  | true => exact absurd rfl g1
                  | false => exact ⟨true, false, false, hview, hfacts _ (by simp)⟩
            · obtain ⟨g1, gslot, gnew, gf, gp, gs, gc⟩ := h
              cases hr2 : internal_declare_relation m1 e_to e_from local_id m1.m_sync_count true permut with
              | mk o2 m2 =>
                rw [hr2] at g1 gf gp gs gc
                dsimp only at g1 gf gp gs gc
                subst g1
                dsimp only
                refine ⟨true, true, true, ?_, ?_⟩
                · have := declare_relation_finish m m2 e_from e_to local_id permut true true true
                    (hf1.trans gf) ?_ (fun x => (gp x).trans (hp1 x)) (fun x => (gs x).trans (hs1 x))
                  · simpa using this
                  · intro x
                    rw [gc x, hc1 e_to, hc1 x, declared_entry_frame hf1]
                    by_cases hx : x = e_to
                    · subst hx
                      simp [hne.symm]
                    · by_cases hx2 : x = e_from
                      · subst hx2
                        simp [hne]
                      · simp [hx, hx2]
                · unfold declare_relation_facts
                  refine ⟨by simp, fun _ => ⟨hmod, hrank, hvf, hvt⟩, fun _ => ⟨hslot, hnew⟩,
                    fun _ => ⟨rfl, htrack, ?_, ?_⟩, by simp, by simp⟩
                  · rw [← hs1 e_to]; exact gslot
                  · intro c hc
                    rw [← holds_relation_frame hf1]
                    apply gnew c
                    rw [hc1 e_to, if_neg (fun h => hne h.symm)]
                    exact hc
          · rw [if_neg (fun h => htrack (htr.symm.trans h))]
            dsimp only
            refine ⟨true, false, true, ?_, ?_⟩
            · have := declare_relation_finish m m1 e_from e_to local_id permut true false true
                hf1 ?_ hp1 hs1
              · simpa using this
              · intro x
                rw [hc1 x]
                by_cases hx : x = e_from <;> simp [hx]
            · unfold declare_relation_facts
              refine ⟨by simp, fun _ => ⟨hmod, hrank, hvf, hvt⟩, fun _ => ⟨hslot, hnew⟩,
                by simp, fun _ _ h => absurd h htrack, by simp⟩


theorem lt_length_of_is_valid (m : BulkData) (e : Entity) (h : m.is_valid e = true) :
    e < m.m_entity_states.length := by
  simp only [is_valid, Bool.and_eq_true, decide_eq_true_eq] at h
  exact h.1

theorem mem_begin_entities (m : BulkData) (e : Entity) (irank : EntityRank) (c : ConnEntry) :
    c ∈ m.begin_entities e irank ↔ c ∈ m.connectivity e ∧ c.rank = irank := by
  simp [begin_entities, List.mem_filter]

/-- C8 (counterexample): on a connectivity map whose rank pairs are forward-only,
declare_relation(element, node, 0) succeeds and the node has no back-relation to
the element: its table for the element rank is empty. -/
theorem C8_counterexample :
    (scenario_two_entities_forward_only.declare_relation 1 2 0 0).1 = Outcome.ok () ∧
    scenario_two_entities_forward_only.entity_rank 2 < scenario_two_entities_forward_only.entity_rank 1 ∧
    (scenario_two_entities_forward_only.declare_relation 1 2 0 0).2.begin_entities 2
      ((scenario_two_entities_forward_only.declare_relation 1 2 0 0).2.entity_rank 1) = [] := by
  decide

/-- C8 (amended): after a successful declare_relation(from, to, ordinal,
permutation), which implies rank(from) > rank(to), on a mesh whose per-entity
vectors are aligned, `to` is a member of every part computed by
induced_part_membership for `from`, rank(to) and the ordinal; and when the rank
pair tracks back-relations and `from` did not hold the relation without its mirror,
the table of `to` for rank(from) holds (from, ordinal). -/
theorem C8_declare_relation_induces_and_mirrors (m : BulkData) (e_from e_to : Entity)
    (local_id : RelationIdentifier) (permut : Permutation)
    (hok : (m.declare_relation e_from e_to local_id permut).1 = Outcome.ok ())
    (halign : m.m_mesh_indexes.length = m.m_entity_states.length) :
    m.entity_rank e_to < m.entity_rank e_from ∧
    (∀ p ∈ induced_part_membership m e_from [] (m.entity_rank e_to) local_id [] true,
      p ∈ (m.declare_relation e_from e_to local_id permut).2.bucket_parts e_to) ∧
    (m.tracks_back_relation (m.entity_rank e_to) (m.entity_rank e_from) = true →
      ((∃ c ∈ m.connectivity e_from, holds_relation m e_to local_id c) →
        ∃ c ∈ m.connectivity e_to, holds_relation m e_from local_id c) →
      ∃ c ∈ (m.declare_relation e_from e_to local_id permut).2.begin_entities e_to
          ((m.declare_relation e_from e_to local_id permut).2.entity_rank e_from),
        c.entity = e_from ∧ c.ordinal = local_id) := by
  obtain ⟨fwd, inv, prt, hview, hfacts⟩ := declare_relation_outcome m e_from e_to local_id permut
  obtain ⟨hf, hconn, hparts, hsome⟩ := hview
  obtain ⟨f1, f2, f3, f4, f5, f6⟩ := hfacts
  have hprt : prt = true := f1.1 hok
  obtain ⟨hmod, hrank, hvf, hvt⟩ := f2 (Or.inr hprt)
  have hlt : e_to < m.m_mesh_indexes.length := by
    rw [halign]; exact lt_length_of_is_valid m e_to hvt
  refine ⟨hrank, ?_, ?_⟩
  · intro p hp
    rw [hparts e_to, if_pos ⟨hprt, rfl, hlt⟩, mem_foldl_insert_ordinal]
    exact Or.inr hp
  · intro htrack hsym
    have hmirror : ∃ c ∈ (m.declare_relation e_from e_to local_id permut).2.connectivity e_to,
        holds_relation m e_from local_id c := by
      cases hfw : fwd with
      | false =>
        obtain ⟨c, hc, hh⟩ := hsym (f6 hprt hfw)
        exact ⟨c, by rw [hconn e_to]; simp [hc], hh⟩
      | true =>
        cases hiv : inv with
        | false =>
          have := (f5 hfw hiv htrack).1
          rw [hprt] at this
          exact Bool.noConfusion this
        | true =>
          refine ⟨declared_entry m e_from local_id permut, ?_, ?_⟩
          · rw [hconn e_to]; simp [hiv]
          · exact ⟨rfl, rfl, rfl⟩
    obtain ⟨c, hc, hh⟩ := hmirror
    refine ⟨c, ?_, hh.2.1, hh.2.2⟩
    rw [mem_begin_entities, hf.entity_rank]
    exact ⟨hc, hh.1⟩

theorem C8_witness :
    (scenario_two_entities.declare_relation 1 2 0 0).1 = Outcome.ok () ∧
    scenario_two_entities.m_mesh_indexes.length = scenario_two_entities.m_entity_states.length ∧
    scenario_two_entities.tracks_back_relation (scenario_two_entities.entity_rank 2)
      (scenario_two_entities.entity_rank 1) = true ∧
    scenario_two_entities.connectivity 1 = [] ∧
    scenario_two_entities.entity_rank 2 < scenario_two_entities.entity_rank 1 ∧
    (∀ p ∈ induced_part_membership scenario_two_entities 1 []
        (scenario_two_entities.entity_rank 2) 0 [] true,
      p ∈ (scenario_two_entities.declare_relation 1 2 0 0).2.bucket_parts 2) ∧
    (∃ c ∈ (scenario_two_entities.declare_relation 1 2 0 0).2.begin_entities 2
        ((scenario_two_entities.declare_relation 1 2 0 0).2.entity_rank 1),
      c.entity = 1 ∧ c.ordinal = 0) :=
  have hconn : scenario_two_entities.connectivity 1 = [] := by decide
  ⟨by decide, by decide, by decide, hconn,
    (C8_declare_relation_induces_and_mirrors scenario_two_entities 1 2 0 0
      (by decide) (by decide)).1,
    (C8_declare_relation_induces_and_mirrors scenario_two_entities 1 2 0 0
      (by decide) (by decide)).2.1,
    (C8_declare_relation_induces_and_mirrors scenario_two_entities 1 2 0 0
      (by decide) (by decide)).2.2 (by decide)
      (fun h => by
        obtain ⟨c, hc, _⟩ := h
        rw [hconn] at hc
        exact absurd hc (List.not_mem_nil c))⟩

/-- C9: declare_relation(from, to, ...) removes no part from any entity, whatever
its outcome: every part an entity had it still has, so the part set of `to` after
the call contains its part set before; the part set of `from`, and of every entity
other than `to`, is unchanged. -/
theorem C9_declare_relation_keeps_parts (m : BulkData) (e_from e_to : Entity)
    (local_id : RelationIdentifier) (permut : Permutation) :
    (∀ (e : Entity) (p : PartOrdinal), p ∈ m.bucket_parts e →
      p ∈ (m.declare_relation e_from e_to local_id permut).2.bucket_parts e) ∧
    (m.declare_relation e_from e_to local_id permut).2.bucket_parts e_from = m.bucket_parts e_from ∧
    (∀ e : Entity, e ≠ e_to →
      (m.declare_relation e_from e_to local_id permut).2.bucket_parts e = m.bucket_parts e) := by
  obtain ⟨fwd, inv, prt, hview, hfacts⟩ := declare_relation_outcome m e_from e_to local_id permut
  obtain ⟨hf, hconn, hparts, hsome⟩ := hview
  obtain ⟨f1, f2, f3, f4, f5, f6⟩ := hfacts
  have hother : ∀ e : Entity, e ≠ e_to →
      (m.declare_relation e_from e_to local_id permut).2.bucket_parts e = m.bucket_parts e := by
    intro e he
    rw [hparts e, if_neg (fun h => he h.2.1)]
  refine ⟨?_, ?_, hother⟩
  · intro e p hp
    rw [hparts e]
    by_cases hc : prt = true ∧ e = e_to ∧ e_to < m.m_mesh_indexes.length
    · rw [if_pos hc, mem_foldl_insert_ordinal]
      left
      rw [← hc.2.1]; exact hp
    · rw [if_neg hc]; exact hp
  · by_cases hne : e_from = e_to
    · rw [hparts e_from, if_neg]
      intro hc
      have := (f2 (Or.inr hc.1)).2.1
      rw [hne] at this
      exact Nat.lt_irrefl _ this
    · exact hother e_from hne


theorem check_flag_frame (m : BulkData) (b : Bool) :
    Frame m (m.set_check_invalid_rels b) ∧
      (m.set_check_invalid_rels b).m_mesh_indexes = m.m_mesh_indexes :=
  ⟨⟨rfl, rfl, rfl, rfl, rfl, rfl, rfl, rfl, rfl, rfl, rfl, rfl, rfl, rfl, fun _ => Iff.rfl⟩, rfl⟩

theorem relation_hit_frame_fun {m m' : BulkData} (h : Frame m m') (e_to : Entity)
    (ordinal : ConnectivityOrdinal) :
    (fun c => !m'.relation_hit e_to ordinal c) = (fun c => !m.relation_hit e_to ordinal c) := by
  funext c
  rw [h.relation_hit]

/-- A view of destroy_relation carries over to a mesh with the same bucket slots. -/
theorem destroy_relation_view_transport (m a b : BulkData) (e_from e_to : Entity)
    (local_id : RelationIdentifier) (chk prt fwd : Bool)
    (hv : destroy_relation_view m a e_from e_to local_id chk prt fwd)
    (hf : Frame a b) (hi : b.m_mesh_indexes = a.m_mesh_indexes) :
    destroy_relation_view m b e_from e_to local_id chk prt fwd := by
  obtain ⟨h1, h2, h3, h4⟩ := hv
  have hacc := fun x => accessors_of_indexes_eq hi x
  refine ⟨h1.trans hf, ?_, ?_, ?_⟩
  · intro x; rw [(hacc x).2.2]; exact h2 x
  · intro x; rw [(hacc x).2.1]; exact h3 x
  · intro x; rw [(hacc x).1]; exact h4 x

theorem destroy_relation_view_refl (m : BulkData) (e_from e_to : Entity)
    (local_id : RelationIdentifier) :
    destroy_relation_view m m e_from e_to local_id false false false := by
  refine ⟨Frame.refl m, ?_, ?_, ?_⟩ <;> intro x <;> simp

theorem destroy_relation_parts_spec (m : BulkData) (e_from e_to : Entity)
    (local_id : RelationIdentifier) :
    ∃ prt : Bool,
      (prt = true ↔ (not_shared m e_to ∧ destroy_relation_removed m e_from e_to local_id ≠ [])) ∧
      destroy_relation_view m
        (destroy_relation_parts (m.set_check_invalid_rels false) e_from e_to local_id)
        e_from e_to local_id false prt false := by
  have hcf := check_flag_frame m false
  have hbase : destroy_relation_view m (m.set_check_invalid_rels false)
      e_from e_to local_id false false false :=
    destroy_relation_view_transport m m _ e_from e_to local_id false false false
      (destroy_relation_view_refl m e_from e_to local_id) hcf.1 hcf.2
  have hsh_eq : ((m.set_check_invalid_rels false).m_parallel_size < 2 ∨
      ((m.set_check_invalid_rels false).entity_comm_sharing
        ((m.set_check_invalid_rels false).entity_key e_to)).isEmpty = true) = not_shared m e_to := rfl
  have hdel_eq : destroy_relation_del (m.set_check_invalid_rels false) e_from e_to local_id
      (destroy_relation_keep (m.set_check_invalid_rels false) e_from e_to local_id)
        = destroy_relation_removed m e_from e_to local_id := rfl
  unfold destroy_relation_parts
  try dsimp only
  rw [hdel_eq]
  by_cases hsh : not_shared m e_to
  · rw [if_pos (by rw [hsh_eq]; exact hsh)]
    cases hd : destroy_relation_removed m e_from e_to local_id with
    | nil =>
      refine ⟨false, by simp, ?_⟩
      simpa using hbase
    | cons a l =>
      refine ⟨true, by simp [hsh], ?_⟩
      have hs := internal_change_entity_parts_spec (m.set_check_invalid_rels false)
        e_to [] (a :: l)
      obtain ⟨hs1, hs2, hs3, hs4⟩ := hs
      have : (!(a :: l).isEmpty) = true := rfl
      rw [if_pos this]
      refine ⟨hcf.1.trans hs1, ?_, ?_, ?_⟩
      · intro x
        have := hs2 x
        simp only [Bool.false_eq_true, false_and, if_false]
        exact this
      · intro x
        have := hs3 x
        simp only [List.foldl_nil] at this
        rw [hd]
        simp only [true_and]
        exact this
      · intro x
        have := hs4 x
        simpa using this
  · rw [if_neg (by rw [hsh_eq]; exact hsh)]
    exact ⟨false, by simp [hsh], hbase⟩

theorem destroy_relation_outcome (m : BulkData) (e_from e_to : Entity)
    (local_id : RelationIdentifier) :
    ∃ chk prt fwd : Bool,
      destroy_relation_view m (m.destroy_relation e_from e_to local_id).2
        e_from e_to local_id chk prt fwd ∧
      destroy_relation_facts m e_from e_to local_id
        (m.destroy_relation e_from e_to local_id).1 chk prt fwd := by
  unfold destroy_relation
  cases hreq : m.require_ok_to_modify with
  | error msg =>
    refine ⟨false, false, false, destroy_relation_view_refl m e_from e_to local_id, ?_⟩
    unfold destroy_relation_facts
    refine ⟨?_, fun _ => ⟨rfl, rfl, rfl⟩, by simp, by simp, by simp, by simp⟩
    constructor
    · intro h; exact Bool.noConfusion h
    · intro h
      exfalso
      have : m.require_ok_to_modify = Outcome.ok () := by
        simp [require_ok_to_modify, h.1]
      rw [hreq] at this
      exact Outcome.noConfusion this
  | ok u =>
    cases u
    have hmod := require_ok_to_modify_ok m hreq
    cases hval : require_valid_relation "destroy" m e_from e_to with
    | error msg =>
      refine ⟨false, false, false, destroy_relation_view_refl m e_from e_to local_id, ?_⟩
      unfold destroy_relation_facts
      refine ⟨?_, fun _ => ⟨rfl, rfl, rfl⟩, by simp, by simp, by simp, by simp⟩
      constructor
      · intro h; exact Bool.noConfusion h
      · intro h
        exfalso
        have hne : ¬ (require_valid_relation "destroy" m e_from e_to).isError = true := by
          rw [require_valid_relation_isError]
          push_neg
          exact ⟨h.2.1, by simp [h.2.2.1], by simp [h.2.2.2]⟩
        rw [hval] at hne
        exact hne rfl
    | ok u =>
      cases u
      obtain ⟨hrank, hvf, hvt⟩ := require_valid_relation_ok "destroy" m e_from e_to hval
      have hne : e_from ≠ e_to := by
        intro h; rw [h] at hrank; exact Nat.lt_irrefl _ hrank
      have hchk : (true = true ↔
          (m.m_sync_state ≠ BulkDataSyncState.SYNCHRONIZED ∧
            m.entity_rank e_to < m.entity_rank e_from ∧ m.is_valid e_from = true ∧
            m.is_valid e_to = true)) := ⟨fun _ => ⟨hmod, hrank, hvf, hvt⟩, fun _ => rfl⟩
      try dsimp only
      -- the parts step
      obtain ⟨prt, hprt, hm2⟩ := destroy_relation_parts_spec m e_from e_to local_id
      generalize destroy_relation_parts (m.set_check_invalid_rels false) e_from e_to local_id
        = m2 at hm2 ⊢
      obtain ⟨hf2, hc2, hp2, hs2⟩ := hm2
      have hc2' : ∀ x, m2.connectivity x = m.connectivity x := by
        intro x; have := hc2 x; simpa using this
      -- the forward removal
      have hfw := bucket_destroy_relation_spec m2 e_from e_to local_id
      cases hr : bucket_destroy_relation m2 e_from e_to local_id with
      | mk caused m3 =>
        rw [hr] at hfw
        obtain ⟨hf3, hp3, hs3, hc3, hcaused⟩ := hfw
        dsimp only at hf3 hp3 hs3 hc3 hcaused ⊢
        rw [relation_hit_frame_fun hf2] at hc3
        have hcaused' : caused = true ↔ ∃ c ∈ m.connectivity e_from, holds_relation m e_to local_id c := by
          rw [hcaused, hc2' e_from]
          constructor
          · rintro ⟨c, hc, hh⟩; exact ⟨c, hc, (holds_relation_frame hf2 _ _ _).1 hh⟩
          · rintro ⟨c, hc, hh⟩; exact ⟨c, hc, (holds_relation_frame hf2 _ _ _).2 hh⟩
        have hv3 : destroy_relation_view m m3 e_from e_to local_id true prt false := by
          refine ⟨hf2.trans hf3, ?_, ?_, ?_⟩
          · intro x
            rw [hc3 x, hc2' e_from, hc2' x]
            by_cases hx : x = e_from <;> simp [hx]
          · intro x; rw [hp3 x]; exact hp2 x
          · intro x; rw [hs3 x]; exact hs2 x
        cases caused with
        | false =>
          try dsimp only
          have hnone : ¬ ∃ c ∈ m.connectivity e_from, holds_relation m e_to local_id c := by
            intro h; have := hcaused'.2 h; exact Bool.noConfusion this
          have hcf := check_flag_frame m3 true
          refine ⟨true, prt, false,
            destroy_relation_view_transport m m3 _ e_from e_to local_id true prt false hv3 hcf.1 hcf.2,
            ?_⟩
          unfold destroy_relation_facts
          refine ⟨hchk, by simp, ?_, ?_, fun _ _ => rfl, by simp⟩
          · rw [hprt]; simp
          · constructor
            · intro h; exact Bool.noConfusion h
            · intro h; exact absurd h.2 hnone
        | true =>
          try dsimp only
          rw [if_pos rfl]
          have hsome : ∃ c ∈ m.connectivity e_from, holds_relation m e_to local_id c := hcaused'.1 rfl
          have hinv := bucket_destroy_relation_spec m3 e_to e_from local_id
          cases hr2 : bucket_destroy_relation m3 e_to e_from local_id with
          | mk caused_inv m4 =>
            rw [hr2] at hinv
            obtain ⟨hf4, hp4, hs4, hc4, hcinv⟩ := hinv
            dsimp only at hf4 hp4 hs4 hc4 hcinv ⊢
            rw [relation_hit_frame_fun (hf2.trans hf3)] at hc4
            have hc3to : m3.connectivity e_to = m.connectivity e_to := by
              rw [hc3 e_to, if_neg (fun h => hne h.symm), hc2' e_to]
            have hcinv' : caused_inv = true ↔
                ∃ c ∈ m.connectivity e_to, holds_relation m e_from local_id c := by
              rw [hcinv, hc3to]
              constructor
              · rintro ⟨c, hc, hh⟩; exact ⟨c, hc, (holds_relation_frame (hf2.trans hf3) _ _ _).1 hh⟩
              · rintro ⟨c, hc, hh⟩; exact ⟨c, hc, (holds_relation_frame (hf2.trans hf3) _ _ _).2 hh⟩
            have hv4 : destroy_relation_view m m4 e_from e_to local_id true prt true := by
              refine ⟨(hf2.trans hf3).trans hf4, ?_, ?_, ?_⟩
              · intro x
                rw [hc4 x, hc3to, hc3 x, hc2' e_from, hc2' x]
                have hne2 : ¬ e_to = e_from := fun h => hne h.symm
                by_cases hx : x = e_from
                · subst hx
                  simp [hne]
                · by_cases hx2 : x = e_to
                  · rw [hx2]; simp [hne2]
                  · simp [hx, hx2]
              · intro x; rw [hp4 x, hp3 x]; exact hp2 x
              · intro x; rw [hs4 x, hs3 x]; exact hs2 x
            have hfacts : ∀ out : Outcome Bool,
                ((∃ c ∈ m.connectivity e_to, holds_relation m e_from local_id c) →
                  out = Outcome.ok true) →
                ((¬ ∃ c ∈ m.connectivity e_to, holds_relation m e_from local_id c) →
                  out.isError = true) →
                destroy_relation_facts m e_from e_to local_id out true prt true := by
              intro out h1 h2
              unfold destroy_relation_facts
              refine ⟨hchk, by simp, ?_, ?_, fun _ h => h1 (h rfl), fun _ _ h => h2 h⟩
              · rw [hprt]; simp
              · exact ⟨fun _ => ⟨rfl, hsome⟩, fun _ => rfl⟩
            cases caused_inv with
            | false =>
              try dsimp only
              have hno : ¬ ∃ c ∈ m.connectivity e_to, holds_relation m e_from local_id c := by
                intro h; have := hcinv'.2 h; exact Bool.noConfusion this
              exact ⟨true, prt, true, hv4, hfacts _ (fun h => absurd h hno) (fun _ => rfl)⟩
            | true =>
              try dsimp only
              have ha := modified_frame m4 e_to
              have hb := modified_frame (m4.modified e_to) e_from
              have hcf := check_flag_frame ((m4.modified e_to).modified e_from) true
              refine ⟨true, prt, true, ?_, hfacts _ (fun _ => rfl) (fun h => absurd (hcinv'.1 rfl) h)⟩
              exact destroy_relation_view_transport m m4 _ e_from e_to local_id true prt true hv4
                ((ha.1.trans hb.1).trans hcf.1) (hcf.2.trans (hb.2.trans ha.2))


theorem mem_foldl_cond_insert (l : List PartOrdinal) (cond : PartOrdinal → Bool)
    (acc : List PartOrdinal) (q : PartOrdinal) :
    q ∈ l.foldl (fun acc p => if cond p = true then insert_ordinal acc p else acc) acc ↔
      q ∈ acc ∨ (q ∈ l ∧ cond q = true) := by
  induction l generalizing acc with
  | nil => simp
  | cons a rest ih =>
    rw [List.foldl_cons, ih]
    by_cases ha : cond a = true
    · rw [if_pos ha, mem_insert_ordinal]
      constructor
      · rintro ((rfl | h) | ⟨h1, h2⟩)
        · exact Or.inr ⟨List.mem_cons_self _ _, ha⟩
        · exact Or.inl h
        · exact Or.inr ⟨List.mem_cons_of_mem _ h1, h2⟩
      · rintro (h | ⟨h1, h2⟩)
        · exact Or.inl (Or.inr h)
        · rcases List.mem_cons.1 h1 with rfl | h1
          · exact Or.inl (Or.inl rfl)
          · exact Or.inr ⟨h1, h2⟩
    · rw [if_neg ha]
      constructor
      · rintro (h | ⟨h1, h2⟩)
        · exact Or.inl h
        · exact Or.inr ⟨List.mem_cons_of_mem _ h1, h2⟩
      · rintro (h | ⟨h1, h2⟩)
        · exact Or.inl h
        · rcases List.mem_cons.1 h1 with rfl | h1
          · exact absurd h2 ha
          · exact Or.inr ⟨h1, h2⟩

/-- Without supersets, induced_part_membership adds to the accumulator exactly the
parts that the relation of `e_from` induces and that are not omitted. -/
theorem mem_induced_part_membership (m : BulkData) (e_from : Entity)
    (omit_parts : List PartOrdinal) (rank_to : EntityRank) (id : RelationIdentifier)
    (acc : List PartOrdinal) (q : PartOrdinal) :
    q ∈ induced_part_membership m e_from omit_parts rank_to id acc false ↔
      q ∈ acc ∨ (induces_part m e_from rank_to q ∧ q ∉ omit_parts) := by
  have h := mem_foldl_cond_insert (m.bucket_parts e_from)
    (fun p => m.m_mesh_meta_data.induces p (m.entity_rank e_from) rank_to
      && !(omit_parts.contains p)) acc q
  have heq : induced_part_membership m e_from omit_parts rank_to id acc false =
      (m.bucket_parts e_from).foldl (fun acc p =>
        if (m.m_mesh_meta_data.induces p (m.entity_rank e_from) rank_to
          && !(omit_parts.contains p)) = true then insert_ordinal acc p else acc) acc := by
    unfold induced_part_membership
    simp only [Bool.false_eq_true, if_false]
  rw [heq, h]
  unfold induces_part
  simp only [Bool.and_eq_true, Bool.not_eq_true', List.contains_eq_any_beq, List.any_eq_false,
    beq_iff_eq]
  constructor
  · rintro (h1 | ⟨h1, h2, h3⟩)
    · exact Or.inl h1
    · exact Or.inr ⟨⟨h1, h2⟩, fun hq => h3 q hq rfl⟩
  · rintro (h1 | ⟨⟨h1, h2⟩, h3⟩)
    · exact Or.inl h1
    · exact Or.inr ⟨h1, h2, fun x hx hxq => h3 (by rw [hxq]; exact hx)⟩

theorem mem_foldl_union {α : Type} (g : α → List PartOrdinal → List PartOrdinal)
    (S : α → PartOrdinal → Prop)
    (hg : ∀ a acc q, q ∈ g a acc ↔ q ∈ acc ∨ S a q) (l : List α) (acc : List PartOrdinal)
    (q : PartOrdinal) :
    q ∈ l.foldl (fun acc a => g a acc) acc ↔ q ∈ acc ∨ ∃ a ∈ l, S a q := by
  induction l generalizing acc with
  | nil => simp
  | cons a rest ih =>
    rw [List.foldl_cons, ih, hg]
    constructor
    · rintro ((h | h) | ⟨b, hb, hs⟩)
      · exact Or.inl h
      · exact Or.inr ⟨a, List.mem_cons_self _ _, h⟩
      · exact Or.inr ⟨b, List.mem_cons_of_mem _ hb, hs⟩
    · rintro (h | ⟨b, hb, hs⟩)
      · exact Or.inl (Or.inl h)
      · rcases List.mem_cons.1 hb with rfl | hb
        · exact Or.inl (Or.inr hs)
        · exact Or.inr ⟨b, hb, hs⟩


/-- The list `keep` of destroy_relation holds exactly the parts induced on `e_to` by
one of its other relations from a higher-rank entity. -/
theorem mem_destroy_relation_keep (m : BulkData) (e_from e_to : Entity)
    (local_id : RelationIdentifier) (q : PartOrdinal) :
    q ∈ destroy_relation_keep m e_from e_to local_id ↔
      ∃ c, kept_relation m e_from e_to local_id c ∧
        induces_part m c.entity (m.entity_rank e_to) q := by
  have hinner : ∀ (irank : EntityRank) (c : ConnEntry) (acc : List PartOrdinal) (q : PartOrdinal),
      q ∈ (if m.entity_rank e_to < irank then
            if (!(c.entity == e_from && c.ordinal == local_id)) = true then
              induced_part_membership m c.entity [] (m.entity_rank e_to) c.ordinal acc false
            else acc
          else acc) ↔
        q ∈ acc ∨ (m.entity_rank e_to < irank ∧ ¬ (c.entity = e_from ∧ c.ordinal = local_id) ∧
          induces_part m c.entity (m.entity_rank e_to) q) := by
    intro irank c acc q
    by_cases h1 : m.entity_rank e_to < irank
    · rw [if_pos h1]
      by_cases h2 : c.entity = e_from ∧ c.ordinal = local_id
      · have : (!(c.entity == e_from && c.ordinal == local_id)) = false := by
          simp [h2.1, h2.2]
        rw [this]
        simp [h2]
      · have : (!(c.entity == e_from && c.ordinal == local_id)) = true := by
          simp only [Bool.not_eq_true', Bool.and_eq_false_iff, beq_eq_false_iff_ne, ne_eq]
          by_cases h3 : c.entity = e_from
          · exact Or.inr (fun h4 => h2 ⟨h3, h4⟩)
          · exact Or.inl h3
        rw [if_pos this, mem_induced_part_membership]
        simp [h1, h2]
    · rw [if_neg h1]
      simp [h1]
  have houter : ∀ (irank : EntityRank) (acc : List PartOrdinal) (q : PartOrdinal),
      q ∈ (m.begin_entities e_to irank).foldl
          (fun keep2 c =>
            if m.entity_rank e_to < irank then
              if (!(c.entity == e_from && c.ordinal == local_id)) = true then
                induced_part_membership m c.entity [] (m.entity_rank e_to) c.ordinal keep2 false
              else keep2
            else keep2) acc ↔
        q ∈ acc ∨ ∃ c ∈ m.begin_entities e_to irank,
          (m.entity_rank e_to < irank ∧ ¬ (c.entity = e_from ∧ c.ordinal = local_id) ∧
            induces_part m c.entity (m.entity_rank e_to) q) := by
    intro irank acc q
    exact mem_foldl_union
      (fun c keep2 =>
        if m.entity_rank e_to < irank then
          if (!(c.entity == e_from && c.ordinal == local_id)) = true then
            induced_part_membership m c.entity [] (m.entity_rank e_to) c.ordinal keep2 false
          else keep2
        else keep2)
      (fun c q => m.entity_rank e_to < irank ∧ ¬ (c.entity = e_from ∧ c.ordinal = local_id) ∧
        induces_part m c.entity (m.entity_rank e_to) q)
      (fun c acc q => hinner irank c acc q) _ acc q
  have hall := mem_foldl_union
    (fun irank keep =>
      (m.begin_entities e_to irank).foldl
        (fun keep2 c =>
          if m.entity_rank e_to < irank then
            if (!(c.entity == e_from && c.ordinal == local_id)) = true then
              induced_part_membership m c.entity [] (m.entity_rank e_to) c.ordinal keep2 false
            else keep2
          else keep2) keep)
    (fun irank q => ∃ c ∈ m.begin_entities e_to irank,
      (m.entity_rank e_to < irank ∧ ¬ (c.entity = e_from ∧ c.ordinal = local_id) ∧
        induces_part m c.entity (m.entity_rank e_to) q))
    (fun irank acc q => houter irank acc q)
    (List.range m.m_mesh_meta_data.entity_rank_count) [] q
  have hdef : destroy_relation_keep m e_from e_to local_id =
      (List.range m.m_mesh_meta_data.entity_rank_count).foldl
        (fun keep irank =>
          (m.begin_entities e_to irank).foldl
            (fun keep2 c =>
              if m.entity_rank e_to < irank then
                if (!(c.entity == e_from && c.ordinal == local_id)) = true then
                  induced_part_membership m c.entity [] (m.entity_rank e_to) c.ordinal keep2 false
                else keep2
              else keep2) keep) [] := rfl
  rw [hdef, hall]
  simp only [List.not_mem_nil, false_or, List.mem_range, mem_begin_entities]
  unfold kept_relation
  constructor
  · rintro ⟨irank, hlt, c, ⟨hc, hr⟩, h1, h2, h3⟩
    exact ⟨c, ⟨hc, by rw [hr]; exact h1, by rw [hr]; exact hlt, h2⟩, h3⟩
  · rintro ⟨c, ⟨hc, h1, hlt, h2⟩, h3⟩
    exact ⟨c.rank, hlt, c, ⟨hc, rfl⟩, h1, h2, h3⟩

/-- The list `del` of destroy_relation: if a table of `e_from` for a rank of the mesh
holds (e_to, local_id), the parts induced by that relation that are not in `keep`. -/
theorem mem_destroy_relation_del (m : BulkData) (e_from e_to : Entity)
    (local_id : RelationIdentifier) (keep : List PartOrdinal) (q : PartOrdinal) :
    q ∈ destroy_relation_del m e_from e_to local_id keep ↔
      (∃ c ∈ m.connectivity e_from, c.rank < m.m_mesh_meta_data.entity_rank_count ∧
        c.entity = e_to ∧ c.ordinal = local_id) ∧
      induces_part m e_from (m.entity_rank e_to) q ∧ q ∉ keep := by
  have hg : ∀ (irank : EntityRank) (acc : List PartOrdinal) (q : PartOrdinal),
      q ∈ (match (m.begin_entities e_from irank).find?
              (fun c => c.entity == e_to && c.ordinal == local_id) with
          | some c => induced_part_membership m e_from keep (m.entity_rank e_to) c.ordinal acc false
          | none => acc) ↔
        q ∈ acc ∨ ((∃ c ∈ m.begin_entities e_from irank, c.entity = e_to ∧ c.ordinal = local_id) ∧
          induces_part m e_from (m.entity_rank e_to) q ∧ q ∉ keep) := by
    intro irank acc q
    cases hfind : (m.begin_entities e_from irank).find?
        (fun c => c.entity == e_to && c.ordinal == local_id) with
    | none =>
      have hnone : ¬ ∃ c ∈ m.begin_entities e_from irank, c.entity = e_to ∧ c.ordinal = local_id := by
        rintro ⟨c, hc, h1, h2⟩
        have := List.find?_eq_none.1 hfind c hc
        simp [h1, h2] at this
      simp [hnone]
    | some c =>
      have hc := List.mem_of_find?_eq_some hfind
      have hp := List.find?_some hfind
      simp only [Bool.and_eq_true, beq_iff_eq] at hp
      have hex : ∃ c ∈ m.begin_entities e_from irank, c.entity = e_to ∧ c.ordinal = local_id :=
        ⟨c, hc, hp⟩
      simp only [mem_induced_part_membership, hex, true_and]
  have hall := mem_foldl_union
    (fun irank del =>
      match (m.begin_entities e_from irank).find?
          (fun c => c.entity == e_to && c.ordinal == local_id) with
      | some c => induced_part_membership m e_from keep (m.entity_rank e_to) c.ordinal del false
      | none => del)
    (fun irank q => (∃ c ∈ m.begin_entities e_from irank, c.entity = e_to ∧ c.ordinal = local_id) ∧
      induces_part m e_from (m.entity_rank e_to) q ∧ q ∉ keep)
    hg (List.range m.m_mesh_meta_data.entity_rank_count) [] q
  have hdef : destroy_relation_del m e_from e_to local_id keep =
      (List.range m.m_mesh_meta_data.entity_rank_count).foldl
        (fun del irank =>
          match (m.begin_entities e_from irank).find?
              (fun c => c.entity == e_to && c.ordinal == local_id) with
          | some c => induced_part_membership m e_from keep (m.entity_rank e_to) c.ordinal del false
          | none => del) [] := rfl
  rw [hdef, hall]
  simp only [List.not_mem_nil, false_or, List.mem_range, mem_begin_entities]
  constructor
  · rintro ⟨irank, hlt, ⟨c, ⟨hc, hr⟩, h1, h2⟩, h3⟩
    exact ⟨⟨c, hc, by rw [hr]; exact hlt, h1, h2⟩, h3⟩
  · rintro ⟨⟨c, hc, hlt, h1, h2⟩, h3⟩
    exact ⟨c.rank, hlt, ⟨c, ⟨hc, rfl⟩, h1, h2⟩, h3⟩


theorem bucket_parts_of_length_le (m : BulkData) (e : Entity)
    (h : m.m_mesh_indexes.length ≤ e) : m.bucket_parts e = [] := by
  simp [bucket_parts, mesh_index_none_of_length_le m e h]

/-- The part set of `e_to` after destroy_relation on an entity that is not shared:
its part set before, without the parts of `del`. -/
theorem destroy_relation_parts_not_shared (m : BulkData) (e_from e_to : Entity)
    (local_id : RelationIdentifier)
    (hmod : m.m_sync_state = BulkDataSyncState.MODIFIABLE)
    (hvf : m.is_valid e_from = true) (hvt : m.is_valid e_to = true)
    (hrank : m.entity_rank e_to < m.entity_rank e_from)
    (hunshared : not_shared m e_to) :
    (∀ p, p ∈ (m.destroy_relation e_from e_to local_id).2.bucket_parts e_to ↔
      (p ∈ m.bucket_parts e_to ∧ p ∉ destroy_relation_removed m e_from e_to local_id)) ∧
    (∀ e, e ≠ e_to → (m.destroy_relation e_from e_to local_id).2.bucket_parts e = m.bucket_parts e) := by
  obtain ⟨chk, prt, fwd, hview, hfacts⟩ := destroy_relation_outcome m e_from e_to local_id
  obtain ⟨hf, hconn, hparts, hsome⟩ := hview
  obtain ⟨f1, f2, f3, f4, f5, f6⟩ := hfacts
  have hchk : chk = true := f1.2 ⟨by rw [hmod]; decide, hrank, hvf, hvt⟩
  refine ⟨?_, ?_⟩
  · intro p
    rw [hparts e_to]
    by_cases hprt : prt = true
    · by_cases hlt : e_to < m.m_mesh_indexes.length
      · rw [if_pos ⟨hprt, rfl, hlt⟩]
        simp [List.mem_filter]
      · rw [if_neg (fun h => hlt h.2.2), bucket_parts_of_length_le m e_to (Nat.le_of_not_lt hlt)]
        simp
    · rw [if_neg (fun h => hprt h.1)]
      have hempty : destroy_relation_removed m e_from e_to local_id = [] := by
        by_contra hne
        exact hprt (f3.2 ⟨hchk, hunshared, hne⟩)
      rw [hempty]
      simp
  · intro e he
    rw [hparts e, if_neg (fun h => he h.2.1)]

/-- C10: let `to` be not shared (serial mesh, or empty sharing list) and let `from`
hold the relation (to, ordinal), both entities valid on a MODIFIABLE mesh with
rank(to) < rank(from) and rank(to) a rank of the mesh. After destroy_relation the
parts of `to` are exactly its parts before without those that the destroyed relation
induces and none of its other relations from higher-rank entities induces. So a
part of `to` induced by a surviving relation is still held, a part that the
destroyed relation does not induce is not removed, and no other entity changes
parts. "Induces" is the relation of section 4.3: the higher-rank entity belongs to
the part and the part declares induction for the rank pair. -/
theorem C10_destroy_relation_removes_exactly_induced (m : BulkData) (e_from e_to : Entity)
    (local_id : RelationIdentifier)
    (hmod : m.m_sync_state = BulkDataSyncState.MODIFIABLE)
    (hvf : m.is_valid e_from = true) (hvt : m.is_valid e_to = true)
    (hrank : m.entity_rank e_to < m.entity_rank e_from)
    (hcount : m.entity_rank e_to < m.m_mesh_meta_data.entity_rank_count)
    (hunshared : not_shared m e_to)
    (hexists : ∃ c ∈ m.connectivity e_from, holds_relation m e_to local_id c) :
    (∀ p, p ∈ (m.destroy_relation e_from e_to local_id).2.bucket_parts e_to ↔
      (p ∈ m.bucket_parts e_to ∧
        ¬ (induces_part m e_from (m.entity_rank e_to) p ∧
            ¬ ∃ c, kept_relation m e_from e_to local_id c ∧
              induces_part m c.entity (m.entity_rank e_to) p))) ∧
    (∀ p, p ∈ m.bucket_parts e_to →
      (∃ c, kept_relation m e_from e_to local_id c ∧
        induces_part m c.entity (m.entity_rank e_to) p) →
      p ∈ (m.destroy_relation e_from e_to local_id).2.bucket_parts e_to) ∧
    (∀ p, p ∈ m.bucket_parts e_to → ¬ induces_part m e_from (m.entity_rank e_to) p →
      p ∈ (m.destroy_relation e_from e_to local_id).2.bucket_parts e_to) ∧
    (∀ e, e ≠ e_to →
      (m.destroy_relation e_from e_to local_id).2.bucket_parts e = m.bucket_parts e) := by
  obtain ⟨h1, h2⟩ := destroy_relation_parts_not_shared m e_from e_to local_id hmod hvf hvt hrank
    hunshared
  have hheld : ∃ c ∈ m.connectivity e_from, c.rank < m.m_mesh_meta_data.entity_rank_count ∧
      c.entity = e_to ∧ c.ordinal = local_id := by
    obtain ⟨c, hc, hr, he, ho⟩ := hexists
    exact ⟨c, hc, by rw [hr]; exact hcount, he, ho⟩
  have hrem : ∀ p, p ∈ destroy_relation_removed m e_from e_to local_id ↔
      (induces_part m e_from (m.entity_rank e_to) p ∧
        ¬ ∃ c, kept_relation m e_from e_to local_id c ∧
          induces_part m c.entity (m.entity_rank e_to) p) := by
    intro p
    unfold destroy_relation_removed
    rw [mem_destroy_relation_del, mem_destroy_relation_keep]
    constructor
    · rintro ⟨_, h3, h4⟩; exact ⟨h3, h4⟩
    · rintro ⟨h3, h4⟩; exact ⟨hheld, h3, h4⟩
  have hmain : ∀ p, p ∈ (m.destroy_relation e_from e_to local_id).2.bucket_parts e_to ↔
      (p ∈ m.bucket_parts e_to ∧
        ¬ (induces_part m e_from (m.entity_rank e_to) p ∧
            ¬ ∃ c, kept_relation m e_from e_to local_id c ∧
              induces_part m c.entity (m.entity_rank e_to) p)) := by
    intro p
    rw [h1 p, hrem p]
  refine ⟨hmain, ?_, ?_, h2⟩
  · intro p hp hkept
    exact (hmain p).2 ⟨hp, fun h => h.2 hkept⟩
  · intro p hp hnot
    exact (hmain p).2 ⟨hp, fun h => hnot h.1⟩

theorem C10_witness :
    scenario_related.m_sync_state = BulkDataSyncState.MODIFIABLE ∧
    scenario_related.is_valid 1 = true ∧ scenario_related.is_valid 2 = true ∧
    scenario_related.entity_rank 2 < scenario_related.entity_rank 1 ∧
    (∀ p, p ∈ scenario_related.bucket_parts 2 →
      ¬ induces_part scenario_related 1 (scenario_related.entity_rank 2) p →
      p ∈ (scenario_related.destroy_relation 1 2 0).2.bucket_parts 2) :=
  ⟨by decide, by decide, by decide, by decide,
    (C10_destroy_relation_removes_exactly_induced scenario_related 1 2 0
      (by decide) (by decide) (by decide) (by decide) (by decide) (Or.inl (by decide))
      ⟨⟨0, 2, 0, 0⟩, by decide, by decide, by decide, by decide⟩).2.2.1⟩

/-- In the example the destroyed relation is the only one that induces part 10 on
the node: part 10 is removed, the locally owned part 1 and part 9 stay. -/
theorem destroy_relation_example :
    scenario_related.bucket_parts 2 = [1, 9, 10] ∧
    (scenario_related.destroy_relation 1 2 0).1 = Outcome.ok true ∧
    (scenario_related.destroy_relation 1 2 0).2.bucket_parts 2 = [1, 9] := by
  decide


theorem Frame.tracked_pair {m m' : BulkData} (h : Frame m m') (a b : EntityRank) :
    m'.tracked_pair a b = m.tracked_pair a b := by
  simp only [BulkData.tracked_pair, h.tracks_back_relation]

theorem Frame.mirror {m m' : BulkData} (h : Frame m m') (a : Entity) (c : ConnEntry) :
    m'.mirror a c = m.mirror a c := by
  simp only [BulkData.mirror, h.entity_rank]

theorem tracked_pair_of_lt (m : BulkData) (lo hi : EntityRank) (h : lo < hi) :
    m.tracked_pair hi lo = m.tracks_back_relation lo hi ∧
    m.tracked_pair lo hi = m.tracks_back_relation lo hi := by
  unfold tracked_pair
  rw [Nat.min_eq_right (Nat.le_of_lt h), Nat.max_eq_left (Nat.le_of_lt h),
    Nat.min_eq_left (Nat.le_of_lt h), Nat.max_eq_right (Nat.le_of_lt h)]
  exact ⟨rfl, rfl⟩

/-- The invariant carries over a step that keeps the frame and the set of entities in
buckets, once the mirrored positions are accounted for. -/
theorem wellformed_of_frame {m m' : BulkData} (hwf : WellFormed m) (hf : Frame m m')
    (hsome : ∀ x, (m'.mesh_index x).isSome = (m.mesh_index x).isSome)
    (hmir : ∀ (a : Entity) (c : ConnEntry), c ∈ m'.connectivity a →
      c.rank ≠ m.entity_rank a → m.tracked_pair (m.entity_rank a) c.rank = true →
      m.entity_rank c.entity = c.rank ∧ m.mirror a c ∈ m'.connectivity c.entity) :
    WellFormed m' := by
  refine ⟨?_, ?_, ?_, ?_, ?_, ?_, ?_, ?_⟩
  · rw [hf.indexes_length, hf.states_length]; exact hwf.aligned_indexes
  · rw [hf.keys, hf.states_length]; exact hwf.aligned_keys
  · intro o ho
    rw [hf.deleted] at ho
    rw [hf.states_length]
    exact ⟨(hwf.free_deleted o ho).1, (hf.deleted_iff o).2 (hwf.free_deleted o ho).2⟩
  · rw [hf.deleted]; exact hwf.free_nodup
  · intro e; rw [hsome e, hf.is_valid e]; exact hwf.slot_iff_valid e
  · intro e he
    rw [hf.entity_rank, hf.meta]
    exact hwf.rank_bound e (by rw [← hf.is_valid e]; exact he)
  · intro p hp
    rw [hf.repo] at hp
    rw [hf.entity_key, hf.is_valid]
    exact hwf.repo_valid p hp
  · intro a c hc hr ht
    rw [hf.entity_rank] at hr ht ⊢
    rw [hf.tracked_pair] at ht
    rw [hf.mirror]
    exact hmir a c hc hr ht

/-- A step that keeps the frame and every bucket slot keeps the invariant. -/
theorem wellformed_of_indexes_eq {m m' : BulkData} (hwf : WellFormed m) (hf : Frame m m')
    (hi : m'.m_mesh_indexes = m.m_mesh_indexes) : WellFormed m' := by
  have hacc := fun x => accessors_of_indexes_eq hi x
  apply wellformed_of_frame hwf hf
  · intro x; rw [(hacc x).1]
  · intro a c hc hr ht
    rw [(hacc a).2.2] at hc
    rw [(hacc c.entity).2.2]
    exact hwf.mirrored a c hc hr ht

theorem declare_relation_wellformed (m : BulkData) (e_from e_to : Entity)
    (local_id : RelationIdentifier) (permut : Permutation) (hwf : WellFormed m) :
    WellFormed (m.declare_relation e_from e_to local_id permut).2 := by
  obtain ⟨fwd, inv, prt, hview, hfacts⟩ := declare_relation_outcome m e_from e_to local_id permut
  obtain ⟨hf, hconn, hparts, hsome⟩ := hview
  obtain ⟨f1, f2, f3, f4, f5, f6⟩ := hfacts
  apply wellformed_of_frame hwf hf
  · intro x
    rw [hsome x]
    by_cases hp : prt = true ∧ x = e_to
    · have hv := (f2 (Or.inr hp.1)).2.2.2
      rw [hp.2, hwf.slot_iff_valid e_to, hv]
      rfl
    · cases hprt : prt with
      | false => simp
      | true =>
        have hx : ¬ x = e_to := fun h => hp ⟨hprt, h⟩
        simp [hx]
  · intro a c hc hr ht
    rw [hconn a] at hc
    have hold : ∀ (a : Entity) (c : ConnEntry), c ∈ m.connectivity a →
        c.rank ≠ m.entity_rank a → m.tracked_pair (m.entity_rank a) c.rank = true →
        m.entity_rank c.entity = c.rank ∧
          m.mirror a c ∈ (m.declare_relation e_from e_to local_id permut).2.connectivity c.entity := by
      intro a c hc hr ht
      obtain ⟨h1, h2⟩ := hwf.mirrored a c hc hr ht
      refine ⟨h1, ?_⟩
      rw [hconn c.entity]
      simp [h2]
    rcases List.mem_append.1 hc with hc | hc
    · rcases List.mem_append.1 hc with hc | hc
      · exact hold a c hc hr ht
      · -- the forward position
        by_cases hfa : fwd = true ∧ a = e_from
        · rw [if_pos hfa] at hc
          have hce : c = declared_entry m e_to local_id permut := by simpa using hc
          obtain ⟨hmod, hrank, hvf, hvt⟩ := f2 (Or.inl hfa.1)
          have htrack : m.tracks_back_relation (m.entity_rank e_to) (m.entity_rank e_from) = true := by
            rw [hfa.2, hce] at ht
            rw [← (tracked_pair_of_lt m _ _ hrank).1]
            exact ht
          have hinv : inv = true := by
            cases hiv : inv with
            | true => rfl
            | false =>
              exfalso
              obtain ⟨_, hwhy⟩ := f5 hfa.1 hiv htrack
              rcases hwhy with ⟨c2, hc2, hh2⟩ | hnone
              · have hr2 : c2.rank ≠ m.entity_rank e_to := by
                  rw [hh2.1]; exact Nat.ne_of_gt hrank
                have ht2 : m.tracked_pair (m.entity_rank e_to) c2.rank = true := by
                  rw [hh2.1, (tracked_pair_of_lt m _ _ hrank).2]; exact htrack
                obtain ⟨_, hm2⟩ := hwf.mirrored e_to c2 hc2 hr2 ht2
                rw [hh2.2.1] at hm2
                exact (f3 hfa.1).2 _ hm2 ⟨rfl, rfl, hh2.2.2⟩
              · rw [hwf.slot_iff_valid e_to, hvt] at hnone
                exact Bool.noConfusion hnone
          rw [hce]
          refine ⟨rfl, ?_⟩
          rw [hconn, hfa.2]
          show m.mirror e_from (declared_entry m e_to local_id permut) ∈ _
          have : m.mirror e_from (declared_entry m e_to local_id permut)
              = declared_entry m e_from local_id permut := rfl
          rw [this]
          have hee : (declared_entry m e_to local_id permut).entity = e_to := rfl
          rw [hee]
          simp [hinv]
        · rw [if_neg hfa] at hc
          exact absurd hc (List.not_mem_nil _)
    · -- the mirrored position
      by_cases hia : inv = true ∧ a = e_to
      · rw [if_pos hia] at hc
        have hce : c = declared_entry m e_from local_id permut := by simpa using hc
        obtain ⟨hfw, htrack, hslot, hnew⟩ := f4 hia.1
        rw [hce]
        refine ⟨rfl, ?_⟩
        rw [hconn, hia.2]
        have : m.mirror e_to (declared_entry m e_from local_id permut)
            = declared_entry m e_to local_id permut := rfl
        rw [this]
        have hee : (declared_entry m e_from local_id permut).entity = e_from := rfl
        rw [hee]
        simp [hfw]
      · rw [if_neg hia] at hc
        exact absurd hc (List.not_mem_nil _)


theorem destroy_relation_wellformed (m : BulkData) (e_from e_to : Entity)
    (local_id : RelationIdentifier) (hwf : WellFormed m) :
    WellFormed (m.destroy_relation e_from e_to local_id).2 := by
  obtain ⟨chk, prt, fwd, hview, hfacts⟩ := destroy_relation_outcome m e_from e_to local_id
  obtain ⟨hf, hconn, hparts, hsome⟩ := hview
  obtain ⟨f1, f2, f3, f4, f5, f6⟩ := hfacts
  have hsub : ∀ (x : Entity) (c : ConnEntry),
      c ∈ (m.destroy_relation e_from e_to local_id).2.connectivity x → c ∈ m.connectivity x := by
    intro x c hc
    rw [hconn x] at hc
    by_cases h1 : chk = true ∧ x = e_from
    · rw [if_pos h1] at hc
      rw [h1.2]
      exact (List.mem_filter.1 hc).1
    · rw [if_neg h1] at hc
      by_cases h2 : fwd = true ∧ x = e_to
      · rw [if_pos h2] at hc
        rw [h2.2]
        exact (List.mem_filter.1 hc).1
      · rw [if_neg h2] at hc
        exact hc
  apply wellformed_of_frame hwf hf
  · intro x
    rw [hsome x]
    by_cases hp : prt = true ∧ x = e_to
    · have hv := (f1.1 (f3.1 hp.1).1).2.2.2
      rw [hp.2, hwf.slot_iff_valid e_to, hv]
      rfl
    · cases hprt : prt with
      | false => simp
      | true =>
        have hx : ¬ x = e_to := fun h => hp ⟨hprt, h⟩
        simp [hx]
  · intro a c hc hr ht
    have hc0 := hsub a c hc
    obtain ⟨h1, h2⟩ := hwf.mirrored a c hc0 hr ht
    refine ⟨h1, ?_⟩
    rw [hconn c.entity]
    by_cases hA : chk = true ∧ c.entity = e_from
    · rw [if_pos hA]
      rw [hA.2] at h2
      refine List.mem_filter.2 ⟨h2, ?_⟩
      -- the mirror is not the deleted forward position
      by_contra hhit
      have hhit2 : relation_hit m e_to local_id (m.mirror a c) = true := by simpa using hhit
      have hh := (relation_hit_iff m e_to local_id _).1 hhit2
      obtain ⟨hh1, hh2, hh3⟩ := hh
      have ha : a = e_to := hh2
      have hord : c.ordinal = local_id := hh3
      have hholds : holds_relation m e_from local_id c := ⟨by rw [← h1, hA.2], hA.2, hord⟩
      have hfwd : fwd = true := f4.2 ⟨hA.1, m.mirror a c, h2, ⟨hh1, hh2, hh3⟩⟩
      rw [hconn a, ha] at hc
      have hne : ¬ (chk = true ∧ e_to = e_from) := by
        rintro ⟨_, h⟩
        have := (f1.1 hA.1).2.1
        rw [h] at this
        exact Nat.lt_irrefl _ this
      rw [if_neg hne, if_pos ⟨hfwd, rfl⟩] at hc
      have := (List.mem_filter.1 hc).2
      rw [(relation_hit_iff m e_from local_id c).2 hholds] at this
      exact Bool.noConfusion this
    · rw [if_neg hA]
      by_cases hB : fwd = true ∧ c.entity = e_to
      · rw [if_pos hB]
        rw [hB.2] at h2
        refine List.mem_filter.2 ⟨h2, ?_⟩
        by_contra hhit
        have hhit2 : relation_hit m e_from local_id (m.mirror a c) = true := by simpa using hhit
        have hh := (relation_hit_iff m e_from local_id _).1 hhit2
        obtain ⟨hh1, hh2, hh3⟩ := hh
        have ha : a = e_from := hh2
        have hord : c.ordinal = local_id := hh3
        have hholds : holds_relation m e_to local_id c := ⟨by rw [← h1, hB.2], hB.2, hord⟩
        have hchk : chk = true := (f4.1 hB.1).1
        rw [hconn a, ha, if_pos ⟨hchk, rfl⟩] at hc
        have := (List.mem_filter.1 hc).2
        rw [(relation_hit_iff m e_to local_id c).2 hholds] at this
        exact Bool.noConfusion this
      · rw [if_neg hB]
        exact h2

theorem declare_relation_loop_wellformed (entity : Entity) (erank : EntityRank)
    (rel : List Relation) (m : BulkData) (hwf : WellFormed m) :
    WellFormed (declare_relation_loop entity erank rel m).2 := by
  induction rel generalizing m with
  | nil => exact hwf
  | cons i rest ih =>
    unfold declare_relation_loop
    dsimp only
    by_cases h1 : m.entity_rank i.entity < erank
    · rw [if_pos h1]
      have hw := declare_relation_wellformed m entity i.entity i.relation_ordinal i.orientation hwf
      cases hr : m.declare_relation entity i.entity i.relation_ordinal i.orientation with
      | mk o m1 =>
        rw [hr] at hw
        cases o with
        | error msg => exact hw
        | ok u => exact ih m1 hw
    · rw [if_neg h1]
      by_cases h2 : erank < m.entity_rank i.entity
      · rw [if_pos h2]
        have hw := declare_relation_wellformed m i.entity entity i.relation_ordinal i.orientation hwf
        cases hr : m.declare_relation i.entity entity i.relation_ordinal i.orientation with
        | mk o m1 =>
          rw [hr] at hw
          cases o with
          | error msg => exact hw
          | ok u => exact ih m1 hw
      · rw [if_neg h2]
        exact hwf

theorem declare_relation_vector_wellformed (m : BulkData) (entity : Entity) (rel : List Relation)
    (hwf : WellFormed m) : WellFormed (m.declare_relation_vector entity rel).2 := by
  unfold declare_relation_vector
  cases hreq : m.require_ok_to_modify with
  | error msg => exact hwf
  | ok u => exact declare_relation_loop_wellformed entity _ rel m hwf


theorem is_valid_congr {m m' : BulkData}
    (hlen : m'.m_entity_states.length = m.m_entity_states.length)
    (hdel : ∀ e : Entity, m'.state e = EntityState.Deleted ↔ m.state e = EntityState.Deleted)
    (e : Entity) : m'.is_valid e = m.is_valid e := by
  have hd := hdel e
  simp only [BulkData.is_valid, hlen]
  by_cases h1 : m.state e = EntityState.Deleted
  · simp [h1, hd.2 h1]
  · have h2 : ¬ m'.state e = EntityState.Deleted := fun h3 => h1 (hd.1 h3)
    simp [h1, h2]

/-- The invariant carries over to a mesh with the same bucket slots, keys, entity
map, free list, connectivity map and rank count whose state vector marks the same
slots as deleted. -/
theorem wellformed_of_same_shape {m m' : BulkData} (hwf : WellFormed m)
    (hidx : m'.m_mesh_indexes = m.m_mesh_indexes)
    (hkeys : m'.m_entity_keys = m.m_entity_keys)
    (hrepo : m'.m_entity_repo = m.m_entity_repo)
    (hfree : m'.m_deleted_entities = m.m_deleted_entities)
    (hcmap : m'.m_connectivity_map = m.m_connectivity_map)
    (hcount : m'.m_mesh_meta_data.entity_rank_count = m.m_mesh_meta_data.entity_rank_count)
    (hlen : m'.m_entity_states.length = m.m_entity_states.length)
    (hdel : ∀ e : Entity, m'.state e = EntityState.Deleted ↔ m.state e = EntityState.Deleted) :
    WellFormed m' := by
  have hacc := fun x => accessors_of_indexes_eq hidx x
  have hval := is_valid_congr hlen hdel
  have hkey : ∀ e, m'.entity_key e = m.entity_key e := by
    intro e; simp only [BulkData.entity_key, hkeys]
  have hrank : ∀ e, m'.entity_rank e = m.entity_rank e := by
    intro e; simp only [BulkData.entity_rank, hkey]
  have htr : ∀ a b, m'.tracked_pair a b = m.tracked_pair a b := by
    intro a b; simp only [BulkData.tracked_pair, BulkData.tracks_back_relation, hcmap]
  refine ⟨?_, ?_, ?_, ?_, ?_, ?_, ?_, ?_⟩
  · rw [hidx, hlen]; exact hwf.aligned_indexes
  · rw [hkeys, hlen]; exact hwf.aligned_keys
  · intro o ho
    rw [hfree] at ho
    rw [hlen, hdel o]
    exact hwf.free_deleted o ho
  · rw [hfree]; exact hwf.free_nodup
  · intro e; rw [(hacc e).1, hval e]; exact hwf.slot_iff_valid e
  · intro e he
    rw [hrank, hcount]
    exact hwf.rank_bound e (by rw [← hval e]; exact he)
  · intro p hp
    rw [hrepo] at hp
    rw [hkey, hval]
    exact hwf.repo_valid p hp
  · intro a c hc hr ht
    rw [hrank] at hr ht ⊢
    rw [htr] at ht
    rw [(hacc a).2.2] at hc
    rw [(hacc c.entity).2.2]
    have : m'.mirror a c = m.mirror a c := by simp only [BulkData.mirror, hrank]
    rw [this]
    exact hwf.mirrored a c hc hr ht

theorem construct_wellformed (meta : MetaData) (cmap : ConnectivityMap)
    (parallel_size parallel_rank : Nat) (consistent assertions : Bool) :
    WellFormed (construct meta cmap parallel_size parallel_rank consistent assertions) := by
  have hidx : ∀ e, (construct meta cmap parallel_size parallel_rank consistent assertions).mesh_index e
      = none := by
    intro e
    cases e with
    | zero => rfl
    | succ n => rfl
  have hval : ∀ e, (construct meta cmap parallel_size parallel_rank consistent assertions).is_valid e
      = false := by
    intro e
    cases e with
    | zero => rfl
    | succ n =>
      simp [is_valid, construct, initialize_arrays]
  have hconn : ∀ e, (construct meta cmap parallel_size parallel_rank consistent assertions).connectivity e
      = [] := by
    intro e
    simp [connectivity, hidx e]
  refine ⟨rfl, rfl, ?_, List.nodup_nil, ?_, ?_, ?_, ?_⟩
  · intro o ho; exact absurd ho (List.not_mem_nil _)
  · intro e; rw [hidx e, hval e]; rfl
  · intro e he; rw [hval e] at he; exact Bool.noConfusion he
  · intro p hp; exact absurd hp (List.not_mem_nil _)
  · intro a c hc
    rw [hconn a] at hc
    exact absurd hc (List.not_mem_nil _)

theorem modification_begin_wellformed (m : BulkData) (hwf : WellFormed m) :
    WellFormed m.modification_begin.2 := by
  have hreset : ∀ e : Entity,
      (reset_entity_states m.m_entity_repo m.m_entity_states).getD e EntityState.Deleted
          = EntityState.Deleted ↔ m.state e = EntityState.Deleted := by
    intro e
    rw [reset_entity_states_getD]
    by_cases h : (∃ p ∈ m.m_entity_repo, p.2 = e) ∧ e < m.m_entity_states.length
    · rw [if_pos h]
      obtain ⟨⟨p, hp, he⟩, _⟩ := h
      have hv := (hwf.repo_valid p hp).2
      rw [he] at hv
      simp only [BulkData.is_valid, Bool.and_eq_true, decide_eq_true_eq] at hv
      constructor
      · intro h2; exact absurd h2 (by decide)
      · intro h2; exact absurd h2 hv.2
    · rw [if_neg h]; rfl
  unfold modification_begin
  by_cases hfin : m.m_mesh_finalized ≠ false
  · rw [if_pos hfin]; exact hwf
  · rw [if_neg hfin]
    have h1 : WellFormed (if (m.m_sync_count == 0) = true then
        { m with m_mesh_meta_data := { m.m_mesh_meta_data with mesh_set_on_fields := true } }
        else m) := by
      by_cases h0 : (m.m_sync_count == 0) = true
      · rw [if_pos h0]
        exact wellformed_of_same_shape hwf rfl rfl rfl rfl rfl rfl rfl (fun _ => Iff.rfl)
      · rw [if_neg h0]; exact hwf
    have hrepo1 : (if (m.m_sync_count == 0) = true then
        { m with m_mesh_meta_data := { m.m_mesh_meta_data with mesh_set_on_fields := true } }
        else m).m_entity_repo = m.m_entity_repo := by
      by_cases h0 : (m.m_sync_count == 0) = true
      · rw [if_pos h0]
      · rw [if_neg h0]
    have hst1 : (if (m.m_sync_count == 0) = true then
        { m with m_mesh_meta_data := { m.m_mesh_meta_data with mesh_set_on_fields := true } }
        else m).m_entity_states = m.m_entity_states := by
      by_cases h0 : (m.m_sync_count == 0) = true
      · rw [if_pos h0]
      · rw [if_neg h0]
    generalize (if (m.m_sync_count == 0) = true then
        { m with m_mesh_meta_data := { m.m_mesh_meta_data with mesh_set_on_fields := true } }
        else m) = m1 at h1 hrepo1 hst1 ⊢
    dsimp only
    by_cases hmodi : m1.m_sync_state = BulkDataSyncState.MODIFIABLE ∧ m1.m_mesh_finalized = false
    · rw [if_pos hmodi]; exact h1
    · rw [if_neg hmodi]
      have hcommit : WellFormed m1.require_metadata_committed := by
        unfold require_metadata_committed
        by_cases hc : (!m1.m_mesh_meta_data.is_commit) = true
        · rw [if_pos hc]
          exact wellformed_of_same_shape h1 rfl rfl rfl rfl rfl rfl rfl (fun _ => Iff.rfl)
        · rw [if_neg hc]; exact h1
      by_cases hver : (!m1.m_meta_data_verified) = true
      · rw [if_pos hver]
        by_cases hpar : 1 < m1.require_metadata_committed.m_parallel_size ∧
            m1.require_metadata_committed.parallel_consistent = false
        · rw [if_pos hpar]; exact hcommit
        · rw [if_neg hpar]
          exact wellformed_of_same_shape hcommit rfl rfl rfl rfl rfl rfl rfl (fun _ => Iff.rfl)
      · rw [if_neg hver]
        dsimp only
        refine wellformed_of_same_shape h1 rfl rfl rfl rfl rfl rfl ?_ ?_
        · exact reset_entity_states_length _ _
        · intro e
          show (reset_entity_states m1.m_entity_repo m1.m_entity_states).getD e EntityState.Deleted
            = EntityState.Deleted ↔ m1.state e = EntityState.Deleted
          have hs1 : m1.state e = m.state e := by simp only [BulkData.state, hst1]
          rw [hrepo1, hst1, hs1]
          exact hreset e


theorem getD_append_singleton {α : Type} (l : List α) (a d : α) (x : Nat) :
    (l ++ [a]).getD x d = if x = l.length then a else l.getD x d := by
  by_cases h1 : x < l.length
  · have hne : x ≠ l.length := Nat.ne_of_lt h1
    simp [List.getD_eq_getElem?_getD, List.getElem?_append_left h1, hne]
  · by_cases h2 : x = l.length
    · subst h2
      simp [List.getD_eq_getElem?_getD]
    · have h3 : l.length < x := by omega
      rw [if_neg h2, getD_of_length_le _ _ _ (by simp; omega),
        getD_of_length_le _ _ _ (Nat.le_of_not_lt h1)]

theorem set_parallel_owner_rank_spec (m : BulkData) (e : Entity) (owner : Nat) :
    Frame m (m.set_parallel_owner_rank e owner) ∧
    (∀ x, (m.set_parallel_owner_rank e owner).connectivity x = m.connectivity x) ∧
    (∀ x, ((m.set_parallel_owner_rank e owner).mesh_index x).isSome = (m.mesh_index x).isSome) ∧
    (∀ x, (m.set_parallel_owner_rank e owner).bucket_parts x = m.bucket_parts x) := by
  unfold set_parallel_owner_rank
  cases hidx : m.mesh_index e with
  | none => exact ⟨Frame.refl m, fun _ => rfl, fun _ => rfl, fun _ => rfl⟩
  | some idx =>
    dsimp only
    have hlt := lt_length_of_mesh_index_some m e idx hidx
    refine ⟨set_mesh_index_frame m _ _, ?_, ?_, ?_⟩
    · intro x
      unfold connectivity
      rw [mesh_index_set]
      by_cases hx : x = e ∧ e < m.m_mesh_indexes.length
      · rw [if_pos hx, hx.1, hidx]
      · rw [if_neg hx]
    · intro x
      rw [mesh_index_set]
      by_cases hx : x = e ∧ e < m.m_mesh_indexes.length
      · rw [if_pos hx, hx.1, hidx]; rfl
      · rw [if_neg hx]
    · intro x
      unfold bucket_parts
      rw [mesh_index_set]
      by_cases hx : x = e ∧ e < m.m_mesh_indexes.length
      · rw [if_pos hx, hx.1, hidx]
      · rw [if_neg hx]

/-- The invariant is kept when the parts of a valid entity change. -/
theorem internal_change_entity_parts_wellformed (m : BulkData) (e : Entity)
    (add_parts remove_parts : List PartOrdinal) (hwf : WellFormed m)
    (hv : m.is_valid e = true) :
    WellFormed (m.internal_change_entity_parts e add_parts remove_parts) := by
  obtain ⟨h1, h2, h3, h4⟩ := internal_change_entity_parts_spec m e add_parts remove_parts
  apply wellformed_of_frame hwf h1
  · intro x
    rw [h4 x]
    by_cases hx : x = e
    · rw [hx, hwf.slot_iff_valid e, hv]; rfl
    · simp [hx]
  · intro a c hc hr ht
    rw [h2 a] at hc
    rw [h2 c.entity]
    exact hwf.mirrored a c hc hr ht

/-- With an empty free list generate_next_local_offset returns the length of the
per-entity vectors and appends one slot to each. -/
theorem generate_next_local_offset_fresh (m : BulkData) (h : m.m_deleted_entities = []) :
    m.generate_next_local_offset.1 = m.m_mesh_indexes.length ∧
    m.generate_next_local_offset.2.m_mesh_indexes = m.m_mesh_indexes ++ [none] ∧
    m.generate_next_local_offset.2.m_entity_keys = m.m_entity_keys ++ [EntityKey.invalid_key] ∧
    m.generate_next_local_offset.2.m_entity_states = m.m_entity_states ++ [EntityState.Created] ∧
    m.generate_next_local_offset.2.m_entity_repo = m.m_entity_repo ∧
    m.generate_next_local_offset.2.m_deleted_entities = [] ∧
    m.generate_next_local_offset.2.m_connectivity_map = m.m_connectivity_map ∧
    m.generate_next_local_offset.2.m_mesh_meta_data = m.m_mesh_meta_data := by
  unfold generate_next_local_offset
  rw [h]
  dsimp only
  rw [if_pos rfl]
  exact ⟨rfl, rfl, rfl, rfl, rfl, h, rfl, rfl⟩


theorem connectivity_nil_of_not_valid (m : BulkData) (hwf : WellFormed m) (e : Entity)
    (h : m.is_valid e = false) : m.connectivity e = [] := by
  have := hwf.slot_iff_valid e
  rw [h] at this
  unfold connectivity
  cases hidx : m.mesh_index e with
  | none => rfl
  | some idx => rw [hidx] at this; exact Bool.noConfusion this

theorem is_valid_of_mem_connectivity (m : BulkData) (hwf : WellFormed m) (e : Entity)
    (c : ConnEntry) (h : c ∈ m.connectivity e) : m.is_valid e = true := by
  cases hv : m.is_valid e with
  | true => rfl
  | false =>
    rw [connectivity_nil_of_not_valid m hwf e hv] at h
    exact absurd h (List.not_mem_nil _)

theorem not_valid_of_length_le (m : BulkData) (e : Entity) (h : m.m_entity_states.length ≤ e) :
    m.is_valid e = false := by
  simp only [is_valid, Bool.and_eq_false_iff, decide_eq_false_iff_not]
  exact Or.inl (Nat.not_lt.2 h)

theorem not_valid_of_state_deleted (m : BulkData) (e : Entity)
    (h : m.state e = EntityState.Deleted) : m.is_valid e = false := by
  simp [BulkData.is_valid, h]

theorem is_valid_iff (m : BulkData) (e : Entity) :
    m.is_valid e = true ↔ e < m.m_entity_states.length ∧ m.state e ≠ EntityState.Deleted := by
  simp [BulkData.is_valid]

theorem getD_set {α : Type} (l : List α) (o x : Nat) (a d : α) (ho : o < l.length) :
    (l.set o a).getD x d = if x = o then a else l.getD x d := by
  by_cases hx : x = o
  · rw [if_pos hx, hx]; exact getD_set_same _ _ _ _ ho
  · rw [if_neg hx]; exact getD_set_other _ _ _ _ _ (fun h => hx h.symm)

theorem is_valid_of_states {m m' : BulkData} (o : Nat)
    (ho : o < m'.m_entity_states.length)
    (hlen : m.m_entity_states.length ≤ m'.m_entity_states.length)
    (hlen2 : m'.m_entity_states.length ≤ m.m_entity_states.length ∨
      (m'.m_entity_states.length = m.m_entity_states.length + 1 ∧ o = m.m_entity_states.length))
    (hst : ∀ x, m'.state x = if x = o then EntityState.Created else m.state x) (x : Entity) :
    m'.is_valid x = (m.is_valid x || decide (x = o)) := by
  by_cases hx : x = o
  · subst hx
    have : m'.is_valid x = true := by
      rw [is_valid_iff]
      refine ⟨ho, ?_⟩
      rw [hst x, if_pos rfl]; decide
    rw [this]; simp
  · have hd : decide (x = o) = false := decide_eq_false hx
    rw [hd, Bool.or_false]
    cases hv : m.is_valid x with
    | true =>
      rw [is_valid_iff] at hv ⊢
      refine ⟨Nat.lt_of_lt_of_le hv.1 hlen, ?_⟩
      rw [hst x, if_neg hx]; exact hv.2
    | false =>
      cases hv2 : m'.is_valid x with
      | false => rfl
      | true =>
        exfalso
        rw [is_valid_iff] at hv2
        rw [hst x, if_neg hx] at hv2
        have hlt : x < m.m_entity_states.length := by
          rcases hlen2 with h | h
          · exact Nat.lt_of_lt_of_le hv2.1 h
          · obtain ⟨h1, h2⟩ := h
            have h3 : x < m.m_entity_states.length + 1 := by rw [← h1]; exact hv2.1
            have h4 : x ≠ m.m_entity_states.length := by rw [← h2]; exact hx
            exact Nat.lt_of_le_of_ne (Nat.lt_succ_iff.1 h3) h4
        have : m.is_valid x = true := (is_valid_iff m x).2 ⟨hlt, hv2.2⟩
        rw [hv] at this
        exact Bool.noConfusion this

theorem generate_next_local_offset_cases (m : BulkData) :
    (m.m_deleted_entities = [] ∧
      m.generate_next_local_offset = (m.m_mesh_indexes.length,
        { m with
          m_mesh_indexes := m.m_mesh_indexes ++ [none]
          m_entity_keys := m.m_entity_keys ++ [EntityKey.invalid_key]
          m_entity_states := m.m_entity_states ++ [EntityState.Created]
          m_entity_sync_counts := m.m_entity_sync_counts ++ [0] })) ∨
    (∃ o rest, m.m_deleted_entities = o :: rest ∧ o = m.m_mesh_indexes.length ∧
      m.generate_next_local_offset = (o,
        { m with
          m_deleted_entities := rest
          m_mesh_indexes := m.m_mesh_indexes ++ [none]
          m_entity_keys := m.m_entity_keys ++ [EntityKey.invalid_key]
          m_entity_states := m.m_entity_states ++ [EntityState.Created]
          m_entity_sync_counts := m.m_entity_sync_counts ++ [0] })) ∨
    (∃ o rest, m.m_deleted_entities = o :: rest ∧ o ≠ m.m_mesh_indexes.length ∧
      m.generate_next_local_offset = (o,
        { m with
          m_deleted_entities := rest
          m_mesh_indexes := m.m_mesh_indexes.set o none
          m_entity_keys := m.m_entity_keys.set o EntityKey.invalid_key
          m_entity_states := m.m_entity_states.set o EntityState.Created
          m_entity_sync_counts := m.m_entity_sync_counts.set o 0 })) := by
  unfold generate_next_local_offset
  cases hfree : m.m_deleted_entities with
  | nil =>
    left
    refine ⟨rfl, ?_⟩
    dsimp only
    rw [if_pos rfl]
    cases m
    simp only at hfree
    subst hfree
    rfl
  | cons o rest =>
    right
    dsimp only
    by_cases ho : o = m.m_mesh_indexes.length
    · left
      refine ⟨o, rest, rfl, ho, ?_⟩
      rw [if_pos ho]
    · right
      refine ⟨o, rest, rfl, ho, ?_⟩
      rw [if_neg ho]

/-- The invariant is kept when one entity is created at an offset that held no valid
entity, at the end of the per-entity vectors or at a recycled slot, and put in a
bucket with no relations. -/
theorem wellformed_of_new_entity {m m' : BulkData} (hwf : WellFormed m) (key : EntityKey)
    (o : Entity) (hnew : m.is_valid o = false)
    (hlen_idx : m'.m_mesh_indexes.length = m'.m_entity_states.length)
    (hlen_keys : m'.m_entity_keys.length = m'.m_entity_states.length)
    (hfree : ∀ x ∈ m'.m_deleted_entities,
      x < m'.m_entity_states.length ∧ m'.state x = EntityState.Deleted)
    (hnodup : m'.m_deleted_entities.Nodup)
    (hcmap : m'.m_connectivity_map = m.m_connectivity_map)
    (hcount : m'.m_mesh_meta_data.entity_rank_count = m.m_mesh_meta_data.entity_rank_count)
    (hconn : ∀ x, m'.connectivity x = m.connectivity x)
    (hsome : ∀ x, (m'.mesh_index x).isSome = ((m.mesh_index x).isSome || decide (x = o)))
    (hvalid : ∀ x, m'.is_valid x = (m.is_valid x || decide (x = o)))
    (hkey : ∀ x, m'.entity_key x = if x = o then key else m.entity_key x)
    (hrank : key.rank < m.m_mesh_meta_data.entity_rank_count)
    (hrepo : ∀ p ∈ m'.m_entity_repo, p ∈ m.m_entity_repo ∨ p = (key, o)) :
    WellFormed m' := by
  have hold : ∀ x, m.is_valid x = true → x ≠ o := by
    intro x hv hx
    rw [hx, hnew] at hv
    exact Bool.noConfusion hv
  have hrk : ∀ x, m.is_valid x = true → m'.entity_rank x = m.entity_rank x := by
    intro x hv
    simp only [BulkData.entity_rank, hkey x, if_neg (hold x hv)]
  have htr : ∀ a b, m'.tracked_pair a b = m.tracked_pair a b := by
    intro a b; simp only [BulkData.tracked_pair, BulkData.tracks_back_relation, hcmap]
  refine ⟨hlen_idx, hlen_keys, hfree, hnodup, ?_, ?_, ?_, ?_⟩
  · intro e; rw [hsome e, hvalid e, hwf.slot_iff_valid e]
  · intro e he
    rw [hcount]
    by_cases hx : e = o
    · simp only [BulkData.entity_rank, hkey e, if_pos hx]
      exact hrank
    · have hv : m.is_valid e = true := by
        rw [hvalid e] at he
        simpa [hx] using he
      rw [hrk e hv]
      exact hwf.rank_bound e hv
  · intro p hp
    rcases hrepo p hp with h | h
    · obtain ⟨h1, h2⟩ := hwf.repo_valid p h
      refine ⟨?_, ?_⟩
      · rw [hkey p.2, if_neg (hold p.2 h2)]; exact h1
      · rw [hvalid p.2, h2]; rfl
    · rw [h]
      refine ⟨?_, ?_⟩
      · rw [hkey]; simp
      · rw [hvalid]; simp
  · intro a c hc hr ht
    rw [hconn a] at hc
    have hva := is_valid_of_mem_connectivity m hwf a c hc
    rw [hrk a hva] at hr ht
    rw [htr] at ht
    obtain ⟨h1, h2⟩ := hwf.mirrored a c hc hr ht
    have hvc := is_valid_of_mem_connectivity m hwf c.entity _ h2
    rw [hrk c.entity hvc, hconn c.entity]
    refine ⟨h1, ?_⟩
    have : m'.mirror a c = m.mirror a c := by simp only [BulkData.mirror, hrk a hva]
    rw [this]
    exact h2


theorem require_good_rank_and_id_ok (m : BulkData) (ent_rank : EntityRank) (ent_id : EntityId)
    (h : m.require_good_rank_and_id ent_rank ent_id = Outcome.ok ()) :
    ent_rank < m.m_mesh_meta_data.entity_rank_count := by
  unfold require_good_rank_and_id at h
  dsimp only at h
  by_cases hlt : ent_rank < m.m_mesh_meta_data.entity_rank_count
  · exact hlt
  · simp [hlt] at h

/-- What generate_next_local_offset does on a mesh that satisfies the invariant: the
offset it returns held no valid entity, the slot is inside the vectors afterwards
and holds the null mesh index, the invalid key and the state Created, the other
slots are as they were, and the free list lost its first offset. -/
theorem generate_next_local_offset_recycles (m : BulkData) (hwf : WellFormed m) :
    m.is_valid m.generate_next_local_offset.1 = false ∧
    m.generate_next_local_offset.1 < m.generate_next_local_offset.2.m_entity_states.length ∧
    m.generate_next_local_offset.2.m_mesh_indexes.length
      = m.generate_next_local_offset.2.m_entity_states.length ∧
    m.generate_next_local_offset.2.m_entity_keys.length
      = m.generate_next_local_offset.2.m_entity_states.length ∧
    (∀ x ∈ m.generate_next_local_offset.2.m_deleted_entities,
      x < m.generate_next_local_offset.2.m_entity_states.length ∧
      m.generate_next_local_offset.2.state x = EntityState.Deleted) ∧
    m.generate_next_local_offset.2.m_deleted_entities.Nodup ∧
    m.generate_next_local_offset.2.m_entity_repo = m.m_entity_repo ∧
    m.generate_next_local_offset.2.m_connectivity_map = m.m_connectivity_map ∧
    m.generate_next_local_offset.2.m_mesh_meta_data = m.m_mesh_meta_data ∧
    (∀ x, m.generate_next_local_offset.2.mesh_index x = m.mesh_index x) ∧
    (∀ x, m.generate_next_local_offset.2.is_valid x
      = (m.is_valid x || decide (x = m.generate_next_local_offset.1))) ∧
    (∀ x, m.generate_next_local_offset.2.entity_key x
      = if x = m.generate_next_local_offset.1 then EntityKey.invalid_key else m.entity_key x) := by
  have hai := hwf.aligned_indexes
  have hak := hwf.aligned_keys
  rcases generate_next_local_offset_cases m with hc | hc | hc
  · obtain ⟨hnil, hr⟩ := hc
    rw [hr]
    dsimp only
    have hst : ∀ x, (m.m_entity_states ++ [EntityState.Created]).getD x EntityState.Deleted
        = if x = m.m_mesh_indexes.length then EntityState.Created else m.state x := by
      intro x; rw [getD_append_singleton, hai]; rfl
    refine ⟨?_, ?_, ?_, ?_, ?_, ?_, rfl, rfl, rfl, ?_, ?_, ?_⟩
    · exact not_valid_of_length_le m _ (by rw [hai])
    · show m.m_mesh_indexes.length < (m.m_entity_states ++ [EntityState.Created]).length
      simp [hai]
    · show (m.m_mesh_indexes ++ [none]).length = (m.m_entity_states ++ [EntityState.Created]).length
      simp [hai]
    · show (m.m_entity_keys ++ [EntityKey.invalid_key]).length
        = (m.m_entity_states ++ [EntityState.Created]).length
      simp [hak]
    · intro x hx
      have hx2 : x ∈ m.m_deleted_entities := hx
      rw [hnil] at hx2
      exact absurd hx2 (List.not_mem_nil _)
    · show m.m_deleted_entities.Nodup
      exact hwf.free_nodup
    · intro x
      show (m.m_mesh_indexes ++ [none]).getD x none = m.mesh_index x
      rw [getD_append_singleton]
      by_cases hx : x = m.m_mesh_indexes.length
      · rw [if_pos hx, hx]
        exact (mesh_index_none_of_length_le m _ (Nat.le_refl _)).symm
      · rw [if_neg hx]; rfl
    · intro x
      apply is_valid_of_states (m.m_mesh_indexes.length)
      · show m.m_mesh_indexes.length < (m.m_entity_states ++ [EntityState.Created]).length
        simp [hai]
      · show m.m_entity_states.length ≤ (m.m_entity_states ++ [EntityState.Created]).length
        simp
      · right
        exact ⟨by show (m.m_entity_states ++ [EntityState.Created]).length = _; simp, hai⟩
      · exact hst
    · intro x
      show (m.m_entity_keys ++ [EntityKey.invalid_key]).getD x EntityKey.invalid_key = _
      rw [getD_append_singleton, hak, hai]; rfl
  · obtain ⟨o, rest, hcons, ho, _⟩ := hc
    have := (hwf.free_deleted o (by rw [hcons]; simp)).1
    omega
  · obtain ⟨o, rest, hcons, ho, hr⟩ := hc
    have hmem : o ∈ m.m_deleted_entities := by rw [hcons]; simp
    obtain ⟨hlt, hdel⟩ := hwf.free_deleted o hmem
    have hnd : (o :: rest).Nodup := by rw [← hcons]; exact hwf.free_nodup
    have hinv : m.is_valid o = false := not_valid_of_state_deleted m o hdel
    rw [hr]
    dsimp only
    have hst : ∀ x, (m.m_entity_states.set o EntityState.Created).getD x EntityState.Deleted
        = if x = o then EntityState.Created else m.state x := by
      intro x; rw [getD_set _ _ _ _ _ hlt]; rfl
    refine ⟨hinv, ?_, ?_, ?_, ?_, ?_, rfl, rfl, rfl, ?_, ?_, ?_⟩
    · show o < (m.m_entity_states.set o EntityState.Created).length
      simp [hlt]
    · show (m.m_mesh_indexes.set o none).length = (m.m_entity_states.set o EntityState.Created).length
      simp [hai]
    · show (m.m_entity_keys.set o EntityKey.invalid_key).length
        = (m.m_entity_states.set o EntityState.Created).length
      simp [hak]
    · intro x hx
      have hx2 : x ∈ rest := hx
      have hxm : x ∈ m.m_deleted_entities := by rw [hcons]; exact List.mem_cons_of_mem _ hx2
      obtain ⟨h1, h2⟩ := hwf.free_deleted x hxm
      have hne : x ≠ o := by
        intro h
        rw [h] at hx2
        exact (List.nodup_cons.1 hnd).1 hx2
      refine ⟨?_, ?_⟩
      · show x < (m.m_entity_states.set o EntityState.Created).length
        simp [h1]
      · show (m.m_entity_states.set o EntityState.Created).getD x EntityState.Deleted = _
        rw [hst x, if_neg hne]; exact h2
    · show rest.Nodup
      exact (List.nodup_cons.1 hnd).2
    · intro x
      show (m.m_mesh_indexes.set o none).getD x none = m.mesh_index x
      rw [getD_set _ _ _ _ _ (by omega)]
      by_cases hx : x = o
      · rw [if_pos hx, hx]
        have h1 := hwf.slot_iff_valid o
        rw [hinv] at h1
        cases hmi : m.mesh_index o with
        | none => rfl
        | some v => rw [hmi] at h1; exact Bool.noConfusion h1
      · rw [if_neg hx]; rfl
    · intro x
      apply is_valid_of_states o
      · show o < (m.m_entity_states.set o EntityState.Created).length
        simp [hlt]
      · show m.m_entity_states.length ≤ (m.m_entity_states.set o EntityState.Created).length
        simp
      · left
        show (m.m_entity_states.set o EntityState.Created).length ≤ _
        simp
      · exact hst
    · intro x
      show (m.m_entity_keys.set o EntityKey.invalid_key).getD x EntityKey.invalid_key = _
      rw [getD_set _ _ _ _ _ (by omega)]; rfl

/-- The mesh that EntityRepository::internal_create_entity leaves when it allocates:
the offset of the new entity held no valid entity and is a slot of the per-entity
vectors, at their end or recycled from the free list; the slot holds the null mesh
index, the new key and the state Created, and the key is entered in the entity
map. -/
theorem internal_create_entity_allocates (m : BulkData) (key : EntityKey) (hwf : WellFormed m)
    (h : (m.internal_create_entity key).1.2 = true) :
    m.is_valid (m.internal_create_entity key).1.1 = false ∧
    (m.internal_create_entity key).1.1 < (m.internal_create_entity key).2.m_mesh_indexes.length ∧
    (m.internal_create_entity key).2.m_mesh_indexes.length
      = (m.internal_create_entity key).2.m_entity_states.length ∧
    (m.internal_create_entity key).2.m_entity_keys.length
      = (m.internal_create_entity key).2.m_entity_states.length ∧
    (∀ x ∈ (m.internal_create_entity key).2.m_deleted_entities,
      x < (m.internal_create_entity key).2.m_entity_states.length ∧
      (m.internal_create_entity key).2.state x = EntityState.Deleted) ∧
    (m.internal_create_entity key).2.m_deleted_entities.Nodup ∧
    (m.internal_create_entity key).2.m_connectivity_map = m.m_connectivity_map ∧
    (m.internal_create_entity key).2.m_mesh_meta_data = m.m_mesh_meta_data ∧
    (∀ x, (m.internal_create_entity key).2.mesh_index x = m.mesh_index x) ∧
    (∀ x, (m.internal_create_entity key).2.is_valid x
      = (m.is_valid x || decide (x = (m.internal_create_entity key).1.1))) ∧
    (∀ x, (m.internal_create_entity key).2.entity_key x
      = if x = (m.internal_create_entity key).1.1 then key else m.entity_key x) ∧
    (∀ p ∈ (m.internal_create_entity key).2.m_entity_repo,
      p ∈ m.m_entity_repo ∨ p = (key, (m.internal_create_entity key).1.1)) := by
  obtain ⟨g1, g2, g3, g4, g5, g6, g7, g8, g9, g10, g11, g12⟩ :=
    generate_next_local_offset_recycles m hwf
  have hshape : (m.internal_create_entity key).1.2 = true →
      m.internal_create_entity key =
        ((m.generate_next_local_offset.1, true),
          { m.generate_next_local_offset.2.set_entity_key m.generate_next_local_offset.1 key with
            m_entity_repo :=
              (m.generate_next_local_offset.2.set_entity_key
                m.generate_next_local_offset.1 key).m_entity_repo.filter
                  (fun p => !(p.1 == key)) ++ [(key, m.generate_next_local_offset.1)] }) := by
    intro h
    unfold internal_create_entity at h ⊢
    dsimp only at h ⊢
    cases hget : m.get_entity key with
    | none => rfl
    | some e =>
      rw [hget] at h
      dsimp only at h ⊢
      by_cases hv : m.is_valid e = true
      · rw [if_pos hv] at h
        exact Bool.noConfusion h
      · rw [if_neg hv]
  rw [hshape h]
  dsimp only
  generalize m.generate_next_local_offset.1 = o at g1 g2 g3 g4 g5 g6 g7 g8 g9 g10 g11 g12 ⊢
  generalize m.generate_next_local_offset.2 = g at g1 g2 g3 g4 g5 g6 g7 g8 g9 g10 g11 g12 ⊢
  have hkl : (g.m_entity_keys.set o key).length = g.m_entity_states.length := by
    rw [List.length_set]; exact g4
  refine ⟨g1, ?_, g3, hkl, g5, g6, g8, g9, g10, g11, ?_, ?_⟩
  · show o < g.m_mesh_indexes.length
    rw [g3]; exact g2
  · intro x
    show (g.m_entity_keys.set o key).getD x EntityKey.invalid_key = _
    rw [getD_set _ _ _ _ _ (by rw [g4]; exact g2)]
    by_cases hx : x = o
    · rw [if_pos hx, if_pos hx]
    · rw [if_neg hx, if_neg hx]
      have := g12 x
      rw [if_neg hx] at this
      exact this
  · intro p hp
    have hp2 : p ∈ (g.m_entity_repo).filter (fun p => !(p.1 == key)) ++ [(key, o)] := hp
    rw [g7] at hp2
    rcases List.mem_append.1 hp2 with h1 | h1
    · exact Or.inl (List.mem_filter.1 h1).1
    · exact Or.inr (by simpa using h1)


theorem internal_create_entity_existing (m : BulkData) (key : EntityKey)
    (h : (m.internal_create_entity key).1.2 = false) :
    (m.internal_create_entity key).2 = m ∧
      m.is_valid (m.internal_create_entity key).1.1 = true := by
  unfold internal_create_entity at h ⊢
  dsimp only at h ⊢
  cases hget : m.get_entity key with
  | none =>
    rw [hget] at h
    exact Bool.noConfusion h
  | some e =>
    rw [hget] at h
    dsimp only at h ⊢
    by_cases hv : m.is_valid e = true
    · rw [if_pos hv]
      exact ⟨rfl, hv⟩
    · rw [if_neg hv] at h
      exact Bool.noConfusion h

theorem change_entity_parts_spec (m : BulkData) (e : Entity)
    (add_parts remove_parts : List PartOrdinal) :
    Frame m (m.change_entity_parts e add_parts remove_parts) ∧
    (∀ x, (m.change_entity_parts e add_parts remove_parts).connectivity x = m.connectivity x) ∧
    (∀ x, ((m.change_entity_parts e add_parts remove_parts).mesh_index x).isSome
        = ((m.mesh_index x).isSome || decide (x = e ∧ e < m.m_mesh_indexes.length))) := by
  unfold change_entity_parts
  obtain ⟨h1, h2, _, h4⟩ := internal_change_entity_parts_spec m e
    (add_parts.foldl (fun acc p =>
      (m.m_mesh_meta_data.supersets p).foldl insert_ordinal (insert_ordinal acc p)) [])
    remove_parts
  exact ⟨h1, h2, h4⟩

theorem declare_entity_wellformed (m : BulkData) (ent_rank : EntityRank) (ent_id : EntityId)
    (parts : List PartOrdinal) (hwf : WellFormed m) :
    WellFormed (m.declare_entity ent_rank ent_id parts).2 := by
  have hcf := check_flag_frame m false
  have hwf0 : WellFormed (m.set_check_invalid_rels false) :=
    wellformed_of_indexes_eq hwf hcf.1 hcf.2
  unfold declare_entity
  dsimp only
  generalize m.set_check_invalid_rels false = m0 at hwf0 ⊢
  cases hreq : m0.require_ok_to_modify with
  | error msg => exact hwf0
  | ok u =>
    dsimp only
    cases hgood : m0.require_good_rank_and_id ent_rank ent_id with
    | error msg => exact hwf0
    | ok u =>
      cases u
      dsimp only
      have hrk := require_good_rank_and_id_ok m0 ent_rank ent_id hgood
      cases hcreated : (m0.internal_create_entity ⟨ent_rank, ent_id⟩).1.2 with
      | false =>
        obtain ⟨hsame, hvalid⟩ := internal_create_entity_existing m0 ⟨ent_rank, ent_id⟩ hcreated
        rw [hsame]
        generalize (m0.internal_create_entity ⟨ent_rank, ent_id⟩).1.1 = e at hvalid ⊢
        simp only [Bool.not_false, if_true, Bool.false_eq_true, if_false]
        cases hown : m0.require_entity_owner e m0.m_parallel_rank with
        | error msg => exact hwf0
        | ok u =>
          dsimp only
          obtain ⟨c1, c2, c3⟩ := change_entity_parts_spec m0 e
            (parts ++ [m0.m_mesh_meta_data.locally_owned_part]) []
          have hcf2 := check_flag_frame (m0.change_entity_parts e
            (parts ++ [m0.m_mesh_meta_data.locally_owned_part]) []) true
          have hacc := fun x => accessors_of_indexes_eq hcf2.2 x
          apply wellformed_of_frame hwf0 (c1.trans hcf2.1)
          · intro x
            rw [(hacc x).1, c3 x]
            by_cases hx : x = e
            · rw [hx, hwf0.slot_iff_valid e, hvalid]; rfl
            · simp [hx]
          · intro a c hc hr ht
            rw [(hacc a).2.2, c2 a] at hc
            rw [(hacc c.entity).2.2, c2 c.entity]
            exact hwf0.mirrored a c hc hr ht
      | true =>
        obtain ⟨a1, a2, a3, a4, a5, a6, a7, a8, a9, a10, a11, a12⟩ :=
          internal_create_entity_allocates m0 ⟨ent_rank, ent_id⟩ hwf0 hcreated
        simp only [Bool.not_true, Bool.false_eq_true, if_false, if_true]
        generalize (m0.internal_create_entity ⟨ent_rank, ent_id⟩).1.1 = o
          at a1 a2 a3 a4 a5 a6 a7 a8 a9 a10 a11 a12 ⊢
        generalize (m0.internal_create_entity ⟨ent_rank, ent_id⟩).2 = m1
          at a2 a3 a4 a5 a6 a7 a8 a9 a10 a11 a12 ⊢
        obtain ⟨c1, c2, c3⟩ := change_entity_parts_spec m1 o
          (parts ++ [m1.m_mesh_meta_data.locally_owned_part]) []
        generalize m1.change_entity_parts o
          (parts ++ [m1.m_mesh_meta_data.locally_owned_part]) [] = m2 at c1 c2 c3 ⊢
        obtain ⟨o1, o2, o3, _⟩ := set_parallel_owner_rank_spec m2 o m2.m_parallel_rank
        generalize m2.set_parallel_owner_rank o m2.m_parallel_rank = m3 at o1 o2 o3 ⊢
        have s := set_synchronized_count_frame m3 o m2.m_sync_count
        generalize m3.set_synchronized_count o m2.m_sync_count = m4 at s ⊢
        have hcf2 := check_flag_frame m4 true
        generalize m4.set_check_invalid_rels true = m5 at hcf2 ⊢
        have hf15 : Frame m1 m5 := ((c1.trans o1).trans s.1).trans hcf2.1
        have hi45 : m5.m_mesh_indexes = m3.m_mesh_indexes := hcf2.2.trans s.2
        have hacc := fun x => accessors_of_indexes_eq hi45 x
        have hconn1 : ∀ x, m1.connectivity x = m0.connectivity x := by
          intro x; simp only [BulkData.connectivity, a9 x]
        refine wellformed_of_new_entity hwf0 ⟨ent_rank, ent_id⟩ o a1 ?_ ?_ ?_ ?_ ?_ ?_ ?_ ?_ ?_ ?_
          hrk ?_
        · rw [hf15.indexes_length, hf15.states_length]; exact a3
        · rw [hf15.keys, hf15.states_length]; exact a4
        · intro x hx
          rw [hf15.deleted] at hx
          rw [hf15.states_length]
          exact ⟨(a5 x hx).1, (hf15.deleted_iff x).2 (a5 x hx).2⟩
        · rw [hf15.deleted]; exact a6
        · rw [hf15.cmap]; exact a7
        · rw [hf15.meta, a8]
        · intro x
          rw [(hacc x).2.2, o2 x, c2 x, hconn1 x]
        · intro x
          rw [(hacc x).1, o3 x, c3 x, a9 x]
          by_cases hx : x = o <;> simp [hx, a2]
        · intro x
          rw [hf15.is_valid x]; exact a10 x
        · intro x
          rw [hf15.entity_key x]; exact a11 x
        · intro p hp
          rw [hf15.repo] at hp
          exact a12 p hp


theorem getElem?_filter_origin {α : Type} (p : α → Bool) (l : List α) (i : Nat) (x : α)
    (h : (l.filter p)[i]? = some x) : ∃ i', i ≤ i' ∧ l[i']? = some x ∧ p x = true := by
  induction l generalizing i with
  | nil => simp at h
  | cons a rest ih =>
    by_cases hp : p a = true
    · rw [List.filter_cons_of_pos hp] at h
      cases i with
      | zero =>
        simp only [List.getElem?_cons_zero, Option.some.injEq] at h
        exact ⟨0, Nat.le_refl _, by simp [h], by rw [← h]; exact hp⟩
      | succ n =>
        simp only [List.getElem?_cons_succ] at h
        obtain ⟨i', h1, h2, h3⟩ := ih n h
        exact ⟨i' + 1, Nat.succ_le_succ h1, by simpa using h2, h3⟩
    · rw [List.filter_cons_of_neg hp] at h
      obtain ⟨i', h1, h2, h3⟩ := ih i h
      exact ⟨i' + 1, Nat.le_succ_of_le h1, by simpa using h2, h3⟩

theorem Frame.deletable {m m' : BulkData} (h : Frame m m') (c : ConnEntry) :
    deletable m' c ↔ deletable m c := by
  simp only [BulkData.deletable, h.is_valid, h.entity_rank]

/-- What destroy_relation does to connectivity: it only removes positions, and a
call that returns normally leaves in the connectivity of `e_from` exactly the
positions that do not hold the relation. -/
theorem destroy_relation_connectivity (m : BulkData) (e_from e_to : Entity)
    (local_id : RelationIdentifier) :
    Frame m (m.destroy_relation e_from e_to local_id).2 ∧
    (∀ (x : Entity) (c : ConnEntry),
      c ∈ (m.destroy_relation e_from e_to local_id).2.connectivity x → c ∈ m.connectivity x) ∧
    ((m.destroy_relation e_from e_to local_id).1.isError = false →
      (m.destroy_relation e_from e_to local_id).2.connectivity e_from
        = (m.connectivity e_from).filter (fun c => !relation_hit m e_to local_id c)) := by
  obtain ⟨chk, prt, fwd, hview, hfacts⟩ := destroy_relation_outcome m e_from e_to local_id
  obtain ⟨hf, hconn, hparts, hsome⟩ := hview
  obtain ⟨f1, f2, f3, f4, f5, f6⟩ := hfacts
  refine ⟨hf, ?_, ?_⟩
  · intro x c hc
    rw [hconn x] at hc
    by_cases h1 : chk = true ∧ x = e_from
    · rw [if_pos h1] at hc
      rw [h1.2]
      exact (List.mem_filter.1 hc).1
    · rw [if_neg h1] at hc
      by_cases h2 : fwd = true ∧ x = e_to
      · rw [if_pos h2] at hc
        rw [h2.2]
        exact (List.mem_filter.1 hc).1
      · rw [if_neg h2] at hc
        exact hc
  · intro hok
    have hchk : chk = true := by
      cases hc : chk with
      | true => rfl
      | false =>
        have := (f2 hc).1
        rw [hok] at this
        exact Bool.noConfusion this
    rw [hconn e_from, if_pos ⟨hchk, rfl⟩]

theorem begin_entities_filter (m m' : BulkData) (entity : Entity) (irank : EntityRank)
    (p : ConnEntry → Bool)
    (h : m'.connectivity entity = (m.connectivity entity).filter p) :
    m'.begin_entities entity irank = (m.begin_entities entity irank).filter p := by
  unfold begin_entities
  rw [h, List.filter_filter, List.filter_filter]
  congr 1
  funext c
  exact Bool.and_comm _ _

theorem destroy_entity_relations_of_rank_spec (entity : Entity) (irank : EntityRank) (j : Nat)
    (m : BulkData) (hwf : WellFormed m) :
    WellFormed (destroy_entity_relations_of_rank entity irank j m).2 ∧
    Frame m (destroy_entity_relations_of_rank entity irank j m).2 ∧
    (∀ (x : Entity) (c : ConnEntry),
      c ∈ (destroy_entity_relations_of_rank entity irank j m).2.connectivity x →
        c ∈ m.connectivity x) ∧
    ((destroy_entity_relations_of_rank entity irank j m).1 = Outcome.ok () →
      none_deletable_from m entity irank j →
      none_deletable_from (destroy_entity_relations_of_rank entity irank j m).2 entity irank 0) := by
  induction j generalizing m with
  | zero =>
    unfold destroy_entity_relations_of_rank
    exact ⟨hwf, Frame.refl m, fun _ _ h => h, fun _ h => h⟩
  | succ j ih =>
    unfold destroy_entity_relations_of_rank
    cases hget : (m.begin_entities entity irank).get? j with
    | none =>
      dsimp only
      obtain ⟨i1, i2, i3, i4⟩ := ih m hwf
      refine ⟨i1, i2, i3, fun hok hnd => i4 hok ?_⟩
      intro i c hi hc
      by_cases hij : i = j
      · rw [hij, hget] at hc
        exact Option.noConfusion hc
      · exact hnd i c (by omega) hc
    | some c0 =>
      dsimp only
      by_cases hv : m.is_valid c0.entity = true
      · rw [if_pos hv]
        have hd := destroy_relation_connectivity m entity c0.entity c0.ordinal
        have hw := destroy_relation_wellformed m entity c0.entity c0.ordinal hwf
        cases hr : m.destroy_relation entity c0.entity c0.ordinal with
        | mk o m1 =>
          rw [hr] at hd hw
          obtain ⟨d1, d2, d3⟩ := hd
          dsimp only at d1 d2 d3 hw
          cases o with
          | error msg =>
            dsimp only
            exact ⟨hw, d1, d2, fun h => Outcome.noConfusion h⟩
          | ok b =>
            dsimp only
            obtain ⟨i1, i2, i3, i4⟩ := ih m1 hw
            refine ⟨i1, d1.trans i2, fun x c h => d2 x c (i3 x c h), fun hok hnd => i4 hok ?_⟩
            have htab := begin_entities_filter m m1 entity irank _ (d3 rfl)
            intro i c hi hc
            rw [htab, List.get?_eq_getElem?] at hc
            obtain ⟨i', h1, h2, h3⟩ := getElem?_filter_origin _ _ i c hc
            rw [d1.deletable]
            by_cases hij : i' = j
            · -- the position just visited: it survived, so its target has another rank
              rw [hij, ← List.get?_eq_getElem?, hget] at h2
              have hcc : c0 = c := Option.some.inj h2
              rw [← hcc] at h3 ⊢
              intro hdel
              have hhit : relation_hit m c0.entity c0.ordinal c0 = true :=
                (relation_hit_iff m c0.entity c0.ordinal c0).2 ⟨hdel.2.symm, rfl, rfl⟩
              rw [hhit] at h3
              exact Bool.noConfusion h3
            · exact hnd i' c (by omega) (by rw [List.get?_eq_getElem?]; exact h2)
      · rw [if_neg hv]
        obtain ⟨i1, i2, i3, i4⟩ := ih m hwf
        refine ⟨i1, i2, i3, fun hok hnd => i4 hok ?_⟩
        intro i c hi hc
        by_cases hij : i = j
        · rw [hij, hget] at hc
          have hcc : c0 = c := Option.some.inj hc
          rw [← hcc]
          intro hdel
          exact hv hdel.1
        · exact hnd i c (by omega) hc


theorem destroy_entity_relations_spec (entity : Entity) (ranks : List EntityRank)
    (m : BulkData) (hwf : WellFormed m) :
    WellFormed (destroy_entity_relations entity ranks m).2 ∧
    Frame m (destroy_entity_relations entity ranks m).2 ∧
    (∀ (x : Entity) (c : ConnEntry),
      c ∈ (destroy_entity_relations entity ranks m).2.connectivity x → c ∈ m.connectivity x) ∧
    ((destroy_entity_relations entity ranks m).1 = Outcome.ok () →
      ∀ irank ∈ ranks, ∀ c ∈ (destroy_entity_relations entity ranks m).2.begin_entities entity irank,
        ¬ deletable (destroy_entity_relations entity ranks m).2 c) := by
  induction ranks generalizing m with
  | nil =>
    unfold destroy_entity_relations
    exact ⟨hwf, Frame.refl m, fun _ _ h => h, fun _ irank h => absurd h (List.not_mem_nil _)⟩
  | cons irank rest ih =>
    unfold destroy_entity_relations
    have hin := destroy_entity_relations_of_rank_spec entity irank
      (m.num_connectivity entity irank) m hwf
    cases hr : destroy_entity_relations_of_rank entity irank (m.num_connectivity entity irank) m with
    | mk o m1 =>
      rw [hr] at hin
      obtain ⟨n1, n2, n3, n4⟩ := hin
      dsimp only at n1 n2 n3 n4
      cases o with
      | error msg =>
        dsimp only
        exact ⟨n1, n2, n3, fun h => Outcome.noConfusion h⟩
      | ok u =>
        dsimp only
        obtain ⟨i1, i2, i3, i4⟩ := ih m1 n1
        refine ⟨i1, n2.trans i2, fun x c h => n3 x c (i3 x c h), ?_⟩
        intro hok irank' hmem c hc
        rcases List.mem_cons.1 hmem with hh | hh
        · -- the table visited first
          have hvac : none_deletable_from m entity irank (m.num_connectivity entity irank) := by
            intro i c hi hget
            exfalso
            rw [List.get?_eq_getElem?] at hget
            have hlt := (List.getElem?_eq_some.1 hget).1
            unfold num_connectivity at hi
            omega
          have h0 := n4 rfl hvac
          rw [hh] at hc
          rw [mem_begin_entities] at hc
          have hc1 : c ∈ m1.begin_entities entity irank := by
            rw [mem_begin_entities]
            exact ⟨i3 entity c hc.1, hc.2⟩
          obtain ⟨i, hi⟩ := List.mem_iff_get?.1 hc1
          rw [i2.deletable]
          exact h0 i c (Nat.zero_le _) hi
        · exact i4 hok irank' hh c hc

/-- The invariant is kept when an entity that no other entity lists on a tracked rank
pair leaves its bucket and becomes invalid. -/
theorem wellformed_of_removed_entity {m m' : BulkData} (hwf : WellFormed m) (entity : Entity)
    (hlen_idx : m'.m_mesh_indexes.length = m.m_mesh_indexes.length)
    (hlen_st : m'.m_entity_states.length = m.m_entity_states.length)
    (hkeys : m'.m_entity_keys = m.m_entity_keys)
    (hfree : m'.m_deleted_entities = m.m_deleted_entities)
    (hcmap : m'.m_connectivity_map = m.m_connectivity_map)
    (hcount : m'.m_mesh_meta_data.entity_rank_count = m.m_mesh_meta_data.entity_rank_count)
    (hconn : ∀ x, m'.connectivity x = if x = entity then [] else m.connectivity x)
    (hsome : ∀ x, (m'.mesh_index x).isSome = ((m.mesh_index x).isSome && !decide (x = entity)))
    (hvalid : ∀ x, m'.is_valid x = (m.is_valid x && !decide (x = entity)))
    (hrepo : ∀ p ∈ m'.m_entity_repo, p ∈ m.m_entity_repo ∧ p.1 ≠ m.entity_key entity)
    (hno : ∀ (a : Entity) (c : ConnEntry), c ∈ m.connectivity a → a ≠ entity →
      c.rank ≠ m.entity_rank a → m.tracked_pair (m.entity_rank a) c.rank = true →
      c.entity ≠ entity) :
    WellFormed m' := by
  have hkey : ∀ e, m'.entity_key e = m.entity_key e := by
    intro e; simp only [BulkData.entity_key, hkeys]
  have hrank : ∀ e, m'.entity_rank e = m.entity_rank e := by
    intro e; simp only [BulkData.entity_rank, hkey]
  have htr : ∀ a b, m'.tracked_pair a b = m.tracked_pair a b := by
    intro a b; simp only [BulkData.tracked_pair, BulkData.tracks_back_relation, hcmap]
  refine ⟨?_, ?_, ?_, ?_, ?_, ?_, ?_, ?_⟩
  · rw [hlen_idx, hlen_st]; exact hwf.aligned_indexes
  · rw [hkeys, hlen_st]; exact hwf.aligned_keys
  · intro o ho
    rw [hfree] at ho
    obtain ⟨h1, h2⟩ := hwf.free_deleted o ho
    have hv : m'.is_valid o = false := by
      rw [hvalid o, not_valid_of_state_deleted m o h2]; rfl
    rw [hlen_st]
    refine ⟨h1, ?_⟩
    by_cases hd : m'.state o = EntityState.Deleted
    · exact hd
    · have : m'.is_valid o = true := (is_valid_iff m' o).2 ⟨by rw [hlen_st]; exact h1, hd⟩
      rw [hv] at this
      exact Bool.noConfusion this
  · rw [hfree]; exact hwf.free_nodup
  · intro e; rw [hsome e, hvalid e, hwf.slot_iff_valid e]
  · intro e he
    rw [hvalid e] at he
    rw [hrank, hcount]
    exact hwf.rank_bound e (by
      cases hv : m.is_valid e with
      | true => rfl
      | false => rw [hv] at he; exact Bool.noConfusion he)
  · intro p hp
    obtain ⟨h1, h2⟩ := hrepo p hp
    obtain ⟨h3, h4⟩ := hwf.repo_valid p h1
    refine ⟨by rw [hkey]; exact h3, ?_⟩
    have hne : p.2 ≠ entity := by
      intro h
      rw [h] at h3
      exact h2 h3.symm
    rw [hvalid, h4]
    simp [hne]
  · intro a c hc hr ht
    rw [hconn a] at hc
    by_cases ha : a = entity
    · rw [if_pos ha] at hc
      exact absurd hc (List.not_mem_nil _)
    · rw [if_neg ha] at hc
      rw [hrank] at hr ht ⊢
      rw [htr] at ht
      obtain ⟨h1, h2⟩ := hwf.mirrored a c hc hr ht
      have hce := hno a c hc ha hr ht
      rw [hconn c.entity, if_neg hce]
      have : m'.mirror a c = m.mirror a c := by simp only [BulkData.mirror, hrank]
      rw [this]
      exact ⟨h1, h2⟩


theorem invalidate_comm_list_entity_eq (m : BulkData) (key : EntityKey) :
    ∃ l, m.invalidate_comm_list_entity key = { m with m_entity_comm_list := l } := by
  unfold invalidate_comm_list_entity
  dsimp only
  cases hget : m.m_entity_comm_list.get? (comm_list_lower_bound m.m_entity_comm_list key) with
  | none => exact ⟨m.m_entity_comm_list, rfl⟩
  | some info =>
    dsimp only
    by_cases hk : info.key = key
    · rw [if_pos hk]; exact ⟨_, rfl⟩
    · rw [if_neg hk]; exact ⟨m.m_entity_comm_list, rfl⟩

theorem is_valid_set_deleted (m m' : BulkData) (entity : Entity)
    (h : m'.m_entity_states = m.m_entity_states.set entity EntityState.Deleted) (x : Entity) :
    m'.is_valid x = (m.is_valid x && !decide (x = entity)) := by
  unfold BulkData.is_valid BulkData.state
  rw [h, List.length_set]
  by_cases hx : x = entity
  · rw [hx]
    by_cases hlt : entity < m.m_entity_states.length
    · rw [getD_set_same _ _ _ _ hlt]; simp
    · simp [hlt]
  · rw [getD_set_other _ _ _ _ _ (fun h => hx h.symm)]
    simp [hx]

theorem destroy_entity_remove_fields (m : BulkData) (entity : Entity) :
    (m.destroy_entity_remove entity).m_mesh_indexes = m.m_mesh_indexes.set entity none ∧
    (m.destroy_entity_remove entity).m_entity_states
      = m.m_entity_states.set entity EntityState.Deleted ∧
    (m.destroy_entity_remove entity).m_entity_keys = m.m_entity_keys ∧
    (m.destroy_entity_remove entity).m_deleted_entities = m.m_deleted_entities ∧
    (m.destroy_entity_remove entity).m_connectivity_map = m.m_connectivity_map ∧
    (m.destroy_entity_remove entity).m_mesh_meta_data = m.m_mesh_meta_data ∧
    (m.destroy_entity_remove entity).m_entity_repo
      = m.m_entity_repo.filter (fun p => !(p.1 == m.entity_key entity)) ∧
    (m.destroy_entity_remove entity).m_deleted_entities_current_modification_cycle
      = entity :: m.m_deleted_entities_current_modification_cycle := by
  obtain ⟨cl, hcl⟩ := invalidate_comm_list_entity_eq m (m.entity_key entity)
  unfold destroy_entity_remove
  rw [hcl]
  exact ⟨rfl, rfl, rfl, rfl, rfl, rfl, rfl, rfl⟩

theorem lt_range_end (a r cnt : Nat) (h2 : a < cnt) :
    a < r + 1 + (cnt - (r + 1)) := by
  omega

theorem destroy_entity_wellformed (m : BulkData) (entity : Entity) (hwf : WellFormed m) :
    WellFormed (m.destroy_entity entity).2 := by
  unfold destroy_entity
  cases hreq : m.require_ok_to_modify with
  | error msg => exact hwf
  | ok u =>
    dsimp only
    have hcf := check_flag_frame m false
    have hwf0 : WellFormed (m.set_check_invalid_rels false) :=
      wellformed_of_indexes_eq hwf hcf.1 hcf.2
    generalize m.set_check_invalid_rels false = m0 at hwf0 ⊢
    have hback : WellFormed (m0.set_check_invalid_rels true) :=
      wellformed_of_indexes_eq hwf0 (check_flag_frame m0 true).1 (check_flag_frame m0 true).2
    by_cases hv : (!m0.is_valid entity) = true
    · rw [if_pos hv]; exact hback
    · rw [if_neg hv]
      have hvalid0 : m0.is_valid entity = true := by simpa using hv
      by_cases hhigh : (List.range' (m0.entity_rank entity + 1)
          (m0.m_mesh_meta_data.entity_rank_count - (m0.entity_rank entity + 1))).any
            (fun irank => decide (0 < m0.num_connectivity entity irank)) = true
      · rw [if_pos hhigh]; exact hback
      · rw [if_neg hhigh]
        have hloop := destroy_entity_relations_spec entity
          (List.range m0.m_mesh_meta_data.entity_rank_count).reverse m0 hwf0
        cases hr : destroy_entity_relations entity
            (List.range m0.m_mesh_meta_data.entity_rank_count).reverse m0 with
        | mk o m1 =>
          rw [hr] at hloop
          obtain ⟨l1, l2, l3, l4⟩ := hloop
          dsimp only at l1 l2 l3 l4
          cases o with
          | error msg => exact l1
          | ok u =>
            dsimp only
            have hnd := l4 rfl
            have hvalid1 : m1.is_valid entity = true := by rw [l2.is_valid]; exact hvalid0
            have hlt : entity < m1.m_mesh_indexes.length := by
              rw [l1.aligned_indexes]; exact lt_length_of_is_valid m1 entity hvalid1
            obtain ⟨r1, r2, r3, r4, r5, r6, r7, _⟩ := destroy_entity_remove_fields m1 entity
            refine wellformed_of_removed_entity l1 entity ?_ ?_ r3 r4 r5 ?_ ?_ ?_ ?_ ?_ ?_
            · rw [r1]; simp
            · rw [r2]; simp
            · rw [r6]
            · intro x
              have hm' : (m1.destroy_entity_remove entity).m_mesh_indexes
                  = (m1.set_mesh_index entity none).m_mesh_indexes := r1
              rw [(accessors_of_indexes_eq hm' x).2.2]
              unfold connectivity
              rw [mesh_index_set]
              by_cases hx : x = entity
              · rw [if_pos ⟨hx, hlt⟩, if_pos hx]
              · rw [if_neg (fun h => hx h.1), if_neg hx]
            · intro x
              have hm' : (m1.destroy_entity_remove entity).m_mesh_indexes
                  = (m1.set_mesh_index entity none).m_mesh_indexes := r1
              rw [(accessors_of_indexes_eq hm' x).1, mesh_index_set]
              by_cases hx : x = entity
              · rw [if_pos ⟨hx, hlt⟩]; simp [hx]
              · rw [if_neg (fun h => hx h.1)]; simp [hx]
            · intro x
              exact is_valid_set_deleted m1 _ entity r2 x
            · intro p hp
              rw [r7] at hp
              obtain ⟨h1, h2⟩ := List.mem_filter.1 hp
              refine ⟨h1, ?_⟩
              intro heq
              rw [heq] at h2
              simp at h2
            · intro a c hc ha hrk htr hce
              obtain ⟨h1, h2⟩ := l1.mirrored a c hc hrk htr
              rw [hce] at h1 h2
              have hva := is_valid_of_mem_connectivity m1 l1 a c hc
              have hmr : (m1.mirror a c).rank = m1.entity_rank a := rfl
              have hme : (m1.mirror a c).entity = a := rfl
              have hcount1 : m1.m_mesh_meta_data.entity_rank_count
                  = m0.m_mesh_meta_data.entity_rank_count := by rw [l2.meta]
              rcases Nat.lt_or_gt_of_ne (fun h => hrk (h1.symm.trans h.symm)) with hlow | hhi
              · -- `a` has lower rank: the loop deleted the position of `entity` to `a`
                have hbound : m1.entity_rank a < m0.m_mesh_meta_data.entity_rank_count := by
                  rw [← hcount1]
                  exact Nat.lt_trans hlow (l1.rank_bound entity hvalid1)
                have hmem : m1.entity_rank a ∈ (List.range m0.m_mesh_meta_data.entity_rank_count).reverse := by
                  rw [List.mem_reverse, List.mem_range]; exact hbound
                refine hnd (m1.entity_rank a) hmem (m1.mirror a c) ?_ ⟨?_, ?_⟩
                · rw [mem_begin_entities]; exact ⟨h2, hmr⟩
                · rw [hme]; exact hva
                · rw [hme, hmr]
              · -- `a` has higher rank: `entity` had no relation to a higher rank
                apply hhigh
                rw [List.any_eq_true]
                refine ⟨m1.entity_rank a, ?_, ?_⟩
                · rw [List.mem_range'_1]
                  have hb := l1.rank_bound a hva
                  rw [hcount1] at hb
                  have he := l2.entity_rank entity
                  have hh : m1.entity_rank entity < m1.entity_rank a := hhi
                  rw [he] at hh
                  have hre := hwf0.rank_bound entity hvalid0
                  exact ⟨hh, lt_range_end _ _ _ hb⟩
                · have hin : m1.mirror a c ∈ m0.begin_entities entity (m1.entity_rank a) := by
                    rw [mem_begin_entities]
                    exact ⟨l3 entity _ h2, hmr⟩
                  have hpos : 0 < m0.num_connectivity entity (m1.entity_rank a) :=
                    List.length_pos_of_mem hin
                  exact decide_eq_true hpos


/-- Every reachable mesh satisfies the invariant. -/
theorem reachable_wellformed (m : BulkData) (h : Reachable m) : WellFormed m := by
  induction h with
  | construct meta cmap parallel_size parallel_rank consistent assertions =>
    exact construct_wellformed meta cmap parallel_size parallel_rank consistent assertions
  | modification_begin m _ ih => exact modification_begin_wellformed m ih
  | declare_entity m ent_rank ent_id parts _ ih =>
    exact declare_entity_wellformed m ent_rank ent_id parts ih
  | declare_relation m e_from e_to local_id permut _ ih =>
    exact declare_relation_wellformed m e_from e_to local_id permut ih
  | declare_relation_vector m entity rel _ ih =>
    exact declare_relation_vector_wellformed m entity rel ih
  | destroy_relation m e_from e_to local_id _ ih =>
    exact destroy_relation_wellformed m e_from e_to local_id ih
  | destroy_entity m entity _ ih => exact destroy_entity_wellformed m entity ih

/-- The invariant gives relation symmetry. -/
theorem relations_symmetric_of_wellformed (m : BulkData) (hwf : WellFormed m) :
    relations_symmetric m := by
  intro e_from e_to ordinal permut hrank htrack
  obtain ⟨t1, t2⟩ := tracked_pair_of_lt m _ _ hrank
  constructor
  · rintro ⟨c, hc, h1, h2, h3⟩
    rw [mem_begin_entities] at hc
    have hr : c.rank ≠ m.entity_rank e_from := by rw [hc.2]; exact Nat.ne_of_lt hrank
    have ht : m.tracked_pair (m.entity_rank e_from) c.rank = true := by
      rw [hc.2, t1]; exact htrack
    obtain ⟨_, hm⟩ := hwf.mirrored e_from c hc.1 hr ht
    rw [h1] at hm
    exact ⟨m.mirror e_from c, by rw [mem_begin_entities]; exact ⟨hm, rfl⟩, rfl, h2, h3⟩
  · rintro ⟨c, hc, h1, h2, h3⟩
    rw [mem_begin_entities] at hc
    have hr : c.rank ≠ m.entity_rank e_to := by rw [hc.2]; exact Nat.ne_of_gt hrank
    have ht : m.tracked_pair (m.entity_rank e_to) c.rank = true := by
      rw [hc.2, t2]; exact htrack
    obtain ⟨_, hm⟩ := hwf.mirrored e_to c hc.1 hr ht
    rw [h1] at hm
    exact ⟨m.mirror e_to c, by rw [mem_begin_entities]; exact ⟨hm, rfl⟩, rfl, h2, h3⟩

/-- C7: relation symmetry is an invariant. In every mesh reachable from the
constructor through modification_begin, declare_entity, declare_relation (both
overloads), destroy_relation and destroy_entity, calls that throw included, and for
every rank pair whose back-relations are tracked, `from` lists (to, ordinal,
permutation) among its relations to rank(to) if and only if `to` lists (from,
ordinal, permutation) among its relations to rank(from): the forward edge and its
mirror are present together and absent together. -/
theorem C7_relation_symmetry_invariant (m : BulkData) (h : Reachable m) :
    relations_symmetric m :=
  relations_symmetric_of_wellformed m (reachable_wellformed m h)

theorem scenario_related_reachable : Reachable scenario_related :=
  Reachable.declare_relation _ 1 2 0 0
    (Reachable.declare_entity _ 0 1 []
      (Reachable.declare_entity _ 3 1 [10]
        (Reachable.modification_begin _
          (Reachable.construct scenario_meta scenario_map 1 0 true true))))

theorem C7_witness :
    Reachable scenario_related ∧
    ((∃ c ∈ scenario_related.begin_entities 1 (scenario_related.entity_rank 2),
        c.entity = 2 ∧ c.ordinal = 0 ∧ c.permutation = 0) ↔
      (∃ c ∈ scenario_related.begin_entities 2 (scenario_related.entity_rank 1),
        c.entity = 1 ∧ c.ordinal = 0 ∧ c.permutation = 0)) :=
  ⟨scenario_related_reachable,
    C7_relation_symmetry_invariant scenario_related scenario_related_reachable 1 2 0 0
      (by decide) (by decide)⟩

/-- In the example both positions are there after declare_relation and both are gone
after destroy_relation. -/
theorem relation_symmetry_example :
    scenario_related.connectivity 1 = [⟨0, 2, 0, 0⟩] ∧
    scenario_related.connectivity 2 = [⟨3, 1, 0, 0⟩] ∧
    (scenario_related.destroy_relation 1 2 0).2.connectivity 1 = [] ∧
    (scenario_related.destroy_relation 1 2 0).2.connectivity 2 = [] := by
  decide

/-! ## Destroying a relation: shared targets and relations not held -/

/-- C11: on a mesh of two or more processes, when `to` has a non-empty sharing list,
destroy_relation(from, to, ordinal) leaves the part membership of `to`, and of every
other entity, as it was, whatever the outcome of the call and whether or not `from`
held the relation. -/
theorem C11_destroy_relation_shared_keeps_parts (m : BulkData) (e_from e_to : Entity)
    (local_id : RelationIdentifier)
    (hpar : 2 ≤ m.m_parallel_size)
    (hshared : (m.entity_comm_sharing (m.entity_key e_to)).isEmpty = false) :
    (m.destroy_relation e_from e_to local_id).2.bucket_parts e_to = m.bucket_parts e_to ∧
    (∀ e : Entity, (m.destroy_relation e_from e_to local_id).2.bucket_parts e = m.bucket_parts e) := by
  obtain ⟨chk, prt, fwd, hview, hfacts⟩ := destroy_relation_outcome m e_from e_to local_id
  obtain ⟨_, _, hparts, _⟩ := hview
  obtain ⟨_, _, f3, _, _, _⟩ := hfacts
  have hprt : ¬ prt = true := by
    intro h
    rcases (f3.1 h).2.1 with h1 | h1
    · omega
    · rw [hshared] at h1; exact Bool.noConfusion h1
  have hall : ∀ e : Entity,
      (m.destroy_relation e_from e_to local_id).2.bucket_parts e = m.bucket_parts e := by
    intro e
    rw [hparts e, if_neg (fun h => hprt h.1)]
  exact ⟨hall e_to, hall⟩

theorem C11_witness :
    2 ≤ scenario_shared.m_parallel_size ∧
    (scenario_shared.entity_comm_sharing (scenario_shared.entity_key 2)).isEmpty = false ∧
    (scenario_shared.destroy_relation 1 2 0).1 = Outcome.ok true ∧
    scenario_shared.bucket_parts 2 = [1, 9, 10] ∧
    (scenario_shared.destroy_relation 1 2 0).2.bucket_parts 2 = scenario_shared.bucket_parts 2 :=
  ⟨by decide, by decide, by decide, by decide,
    (C11_destroy_relation_shared_keeps_parts scenario_shared 1 2 0 (by decide) (by decide)).1⟩

theorem foldl_fixed {α β : Type} (f : β → α → β) (l : List α) (b : β)
    (h : ∀ a, f b a = b) : l.foldl f b = b := by
  induction l with
  | nil => rfl
  | cons a rest ih => rw [List.foldl_cons, h a, ih]

theorem destroy_relation_del_nil (m : BulkData) (e_from e_to : Entity)
    (local_id : RelationIdentifier) (keep : List PartOrdinal)
    (hnone : ∀ c ∈ m.connectivity e_from, ¬ (c.entity = e_to ∧ c.ordinal = local_id)) :
    destroy_relation_del m e_from e_to local_id keep = [] := by
  unfold destroy_relation_del
  apply foldl_fixed
  intro irank
  have hfind : (m.begin_entities e_from irank).find?
      (fun c => c.entity == e_to && c.ordinal == local_id) = none := by
    rw [List.find?_eq_none]
    intro c hc
    have hc2 := ((mem_begin_entities m e_from irank c).1 hc).1
    have := hnone c hc2
    simpa using this
  rw [hfind]

/-- C12: on a MODIFIABLE mesh, for valid entities with rank(from) > rank(to), when no
table of `from` holds a position (to, ordinal), destroy_relation(from, to, ordinal)
returns false without an error and leaves the mesh as it was but for the flag
m_check_invalid_rels, which it leaves set: all connectivity, all part memberships
and all entity states are unchanged. -/
theorem C12_destroy_relation_not_held_returns_false (m : BulkData) (e_from e_to : Entity)
    (local_id : RelationIdentifier)
    (hmod : m.m_sync_state = BulkDataSyncState.MODIFIABLE)
    (hvf : m.is_valid e_from = true) (hvt : m.is_valid e_to = true)
    (hrank : m.entity_rank e_to < m.entity_rank e_from)
    (hnone : ∀ c ∈ m.connectivity e_from, ¬ (c.entity = e_to ∧ c.ordinal = local_id)) :
    (m.destroy_relation e_from e_to local_id).1 = Outcome.ok false ∧
    (m.destroy_relation e_from e_to local_id).2 = m.set_check_invalid_rels true ∧
    (∀ x : Entity, (m.destroy_relation e_from e_to local_id).2.connectivity x = m.connectivity x) ∧
    (∀ x : Entity, (m.destroy_relation e_from e_to local_id).2.bucket_parts x = m.bucket_parts x) ∧
    (∀ x : Entity, (m.destroy_relation e_from e_to local_id).2.state x = m.state x) := by
  have hres : m.destroy_relation e_from e_to local_id
      = (Outcome.ok false, m.set_check_invalid_rels true) := by
    have hok : m.require_ok_to_modify = Outcome.ok () := by
      simp [require_ok_to_modify, hmod]
    have hval : require_valid_relation "destroy" m e_from e_to = Outcome.ok () := by
      simp [require_valid_relation, hvf, hvt, Nat.not_le.2 hrank]
    have hconn1 : (m.set_check_invalid_rels false).connectivity e_from = m.connectivity e_from :=
      rfl
    have hparts : destroy_relation_parts (m.set_check_invalid_rels false) e_from e_to local_id
        = m.set_check_invalid_rels false := by
      unfold destroy_relation_parts
      dsimp only
      rw [destroy_relation_del_nil _ _ _ _ _ (by rw [hconn1]; exact hnone)]
      simp
    have hany : ∀ idx : MeshIndex, (m.set_check_invalid_rels false).mesh_index e_from = some idx →
        idx.connectivity.any (relation_hit (m.set_check_invalid_rels false) e_to local_id) = false := by
      intro idx hidx
      rw [Bool.eq_false_iff]
      intro hany
      rw [List.any_eq_true] at hany
      obtain ⟨c, hc, hhit⟩ := hany
      have hh := (relation_hit_iff _ e_to local_id c).1 hhit
      have hc2 : c ∈ m.connectivity e_from := by
        rw [← hconn1, connectivity_of_mesh_index_some _ _ _ hidx]; exact hc
      exact hnone c hc2 ⟨hh.2.1, hh.2.2⟩
    have hbucket : bucket_destroy_relation (m.set_check_invalid_rels false) e_from e_to local_id
        = (false, m.set_check_invalid_rels false) := by
      unfold bucket_destroy_relation
      cases hidx : (m.set_check_invalid_rels false).mesh_index e_from with
      | none => rfl
      | some idx =>
        dsimp only
        rw [hany idx hidx]
        rfl
    unfold destroy_relation
    rw [hok]
    dsimp only
    rw [hval]
    dsimp only
    rw [hparts, hbucket]
    rfl
  rw [hres]
  exact ⟨rfl, rfl, fun _ => rfl, fun _ => rfl, fun _ => rfl⟩

theorem C12_witness :
    scenario_two_entities.m_sync_state = BulkDataSyncState.MODIFIABLE ∧
    scenario_two_entities.is_valid 1 = true ∧ scenario_two_entities.is_valid 2 = true ∧
    scenario_two_entities.entity_rank 2 < scenario_two_entities.entity_rank 1 ∧
    scenario_two_entities.connectivity 1 = [] ∧
    (scenario_two_entities.destroy_relation 1 2 0).1 = Outcome.ok false ∧
    (scenario_two_entities.destroy_relation 1 2 0).2
      = scenario_two_entities.set_check_invalid_rels true :=
  have hconn : scenario_two_entities.connectivity 1 = [] := by decide
  ⟨by decide, by decide, by decide, by decide, hconn,
    (C12_destroy_relation_not_held_returns_false scenario_two_entities 1 2 0
      (by decide) (by decide) (by decide) (by decide)
      (fun c hc => by rw [hconn] at hc; exact absurd hc (List.not_mem_nil c))).1,
    (C12_destroy_relation_not_held_returns_false scenario_two_entities 1 2 0
      (by decide) (by decide) (by decide) (by decide)
      (fun c hc => by rw [hconn] at hc; exact absurd hc (List.not_mem_nil c))).2.1⟩

/-! ## The flood of `modified` -/

theorem flood_edge_congr {m m' : BulkData} (hf : Frame m m')
    (hi : m'.m_mesh_indexes = m.m_mesh_indexes) (x : Entity) (c : ConnEntry) :
    flood_edge m' x c ↔ flood_edge m x c := by
  unfold flood_edge
  rw [(accessors_of_indexes_eq hi x).2.2, hf.entity_rank, hf.meta]

theorem flooded_refl (m : BulkData) : Flooded m m :=
  ⟨Frame.refl m, rfl, fun _ => Or.inl rfl,
    fun x _ h1 h2 _ => by rw [h1] at h2; exact absurd h2 (by decide), Nat.le_refl _⟩

theorem Flooded.state_ne {m m' : BulkData} (h : Flooded m m') (x : Entity)
    (hx : m.state x ≠ EntityState.Unchanged) : m'.state x ≠ EntityState.Unchanged := by
  rcases h.mono x with h1 | h1
  · rw [h1]; exact hx
  · exact absurd h1.1 hx

theorem flooded_trans {m a b : BulkData} (h1 : Flooded m a) (h2 : Flooded a b) : Flooded m b := by
  refine ⟨h1.frame.trans h2.frame, h2.indexes.trans h1.indexes, ?_, ?_,
    Nat.le_trans h2.count h1.count⟩
  · intro x
    rcases h1.mono x with ha | ha
    · rcases h2.mono x with hb | hb
      · left; rw [hb, ha]
      · right; exact ⟨by rw [← ha]; exact hb.1, hb.2⟩
    · rcases h2.mono x with hb | hb
      · right; exact ⟨ha.1, by rw [hb]; exact ha.2⟩
      · right; exact ⟨ha.1, hb.2⟩
  · intro x c hx hb hedge
    by_cases ha : a.state x = EntityState.Unchanged
    · exact h2.closed x c ha hb ((flood_edge_congr h1.frame h1.indexes x c).2 hedge)
    · have ha2 : a.state x = EntityState.Modified := by
        rcases h1.mono x with h | h
        · rw [h] at ha; exact absurd hx ha
        · exact h.2
      exact h2.state_ne _ (h1.closed x c hx ha2 hedge)

theorem count_set_of_getD (l : List EntityState) (e : Nat)
    (h : l.getD e EntityState.Deleted = EntityState.Unchanged) :
    (l.set e EntityState.Modified).count EntityState.Unchanged + 1
      = l.count EntityState.Unchanged := by
  induction l generalizing e with
  | nil => simp at h
  | cons a rest ih =>
    cases e with
    | zero =>
      simp only [List.getD_cons_zero] at h
      subst h
      simp [List.count_cons]
    | succ e =>
      simp only [List.getD_cons_succ] at h
      have := ih e h
      simp only [List.set_cons_succ, List.count_cons]
      omega

theorem lt_length_of_state_unchanged (m : BulkData) (e : Entity)
    (h : m.state e = EntityState.Unchanged) : e < m.m_entity_states.length := by
  by_contra hlt
  unfold state at h
  rw [getD_of_length_le _ _ _ (Nat.le_of_not_lt hlt)] at h
  exact absurd h (by decide)

theorem unchanged_count_le_length (m : BulkData) :
    unchanged_count m ≤ m.m_entity_states.length :=
  List.count_le_length _ _

theorem flood_fold (fuel : Nat)
    (ih : ∀ (m : BulkData) (e : Entity), unchanged_count m < fuel →
      Flooded m (modified_fuel fuel m e) ∧
        (modified_fuel fuel m e).state e ≠ EntityState.Unchanged)
    (l : List ConnEntry) (acc : BulkData) (hacc : unchanged_count acc < fuel) :
    Flooded acc (l.foldl
      (fun acc2 c =>
        if acc2.state c.entity = EntityState.Unchanged then modified_fuel fuel acc2 c.entity
        else acc2) acc) ∧
    ∀ c ∈ l, (l.foldl
      (fun acc2 c =>
        if acc2.state c.entity = EntityState.Unchanged then modified_fuel fuel acc2 c.entity
        else acc2) acc).state c.entity ≠ EntityState.Unchanged := by
  induction l generalizing acc with
  | nil => exact ⟨flooded_refl acc, fun c hc => absurd hc (List.not_mem_nil c)⟩
  | cons c rest ihl =>
    rw [List.foldl_cons]
    have hstep : Flooded acc
        (if acc.state c.entity = EntityState.Unchanged then modified_fuel fuel acc c.entity
          else acc) ∧
        (if acc.state c.entity = EntityState.Unchanged then modified_fuel fuel acc c.entity
          else acc).state c.entity ≠ EntityState.Unchanged := by
      by_cases hc : acc.state c.entity = EntityState.Unchanged
      · rw [if_pos hc]; exact ih acc c.entity hacc
      · rw [if_neg hc]; exact ⟨flooded_refl acc, hc⟩
    have hrest := ihl _ (Nat.lt_of_le_of_lt hstep.1.count hacc)
    refine ⟨flooded_trans hstep.1 hrest.1, ?_⟩
    intro c2 hc2
    rcases List.mem_cons.1 hc2 with h | h
    · rw [h]; exact hrest.1.state_ne _ hstep.2
    · exact hrest.2 c2 h

theorem flood_fold_ranks (fuel : Nat)
    (ih : ∀ (m : BulkData) (e : Entity), unchanged_count m < fuel →
      Flooded m (modified_fuel fuel m e) ∧
        (modified_fuel fuel m e).state e ≠ EntityState.Unchanged)
    (table : EntityRank → List ConnEntry) (ranks : List EntityRank) (acc : BulkData)
    (hacc : unchanged_count acc < fuel) :
    Flooded acc (ranks.foldl
      (fun acc irank => (table irank).foldl
        (fun acc2 c =>
          if acc2.state c.entity = EntityState.Unchanged then modified_fuel fuel acc2 c.entity
          else acc2) acc) acc) ∧
    ∀ irank ∈ ranks, ∀ c ∈ table irank, (ranks.foldl
      (fun acc irank => (table irank).foldl
        (fun acc2 c =>
          if acc2.state c.entity = EntityState.Unchanged then modified_fuel fuel acc2 c.entity
          else acc2) acc) acc).state c.entity ≠ EntityState.Unchanged := by
  induction ranks generalizing acc with
  | nil => exact ⟨flooded_refl acc, fun r hr => absurd hr (List.not_mem_nil r)⟩
  | cons r rest ihl =>
    rw [List.foldl_cons]
    have hstep := flood_fold fuel ih (table r) acc hacc
    have hrest := ihl _ (Nat.lt_of_le_of_lt hstep.1.count hacc)
    refine ⟨flooded_trans hstep.1 hrest.1, ?_⟩
    intro r2 hr2 c hc
    rcases List.mem_cons.1 hr2 with h | h
    · subst h; exact hrest.1.state_ne _ (hstep.2 c hc)
    · exact hrest.2 r2 h c hc

theorem modified_fuel_flooded (fuel : Nat) (m : BulkData) (e : Entity)
    (hfuel : unchanged_count m < fuel) :
    Flooded m (modified_fuel fuel m e) ∧
      (modified_fuel fuel m e).state e ≠ EntityState.Unchanged := by
  induction fuel generalizing m e with
  | zero => exact absurd hfuel (Nat.not_lt_zero _)
  | succ fuel ih =>
    unfold modified_fuel
    by_cases hs : m.state e = EntityState.Unchanged
    · rw [if_neg (not_not.2 hs)]
      have hlt := lt_length_of_state_unchanged m e hs
      have hframe := set_state_modified_frame m e hs
      have hstate : ∀ x, (m.set_state e EntityState.Modified).state x
          = if x = e then EntityState.Modified else m.state x := by
        intro x
        rw [state_set_state]
        by_cases hx : x = e
        · rw [if_pos ⟨hx, hlt⟩, if_pos hx]
        · rw [if_neg (fun h => hx h.1), if_neg hx]
      have hcount : unchanged_count (m.set_state e EntityState.Modified) + 1
          = unchanged_count m := count_set_of_getD m.m_entity_states e hs
      have hacc : unchanged_count (m.set_state e EntityState.Modified) < fuel := by omega
      have hfold := flood_fold_ranks fuel (fun m e h => ih m e h)
        (fun irank => (m.set_state e EntityState.Modified).begin_entities e irank)
        (((List.range (m.set_state e EntityState.Modified).m_mesh_meta_data.entity_rank_count).reverse).filter
          (fun irank => decide ((m.set_state e EntityState.Modified).entity_rank e < irank)))
        (m.set_state e EntityState.Modified) hacc
      dsimp only
      obtain ⟨hfl, hvis⟩ := hfold
      have hself : ∀ r : BulkData, Flooded (m.set_state e EntityState.Modified) r →
          r.state e = EntityState.Modified := by
        intro r hr
        rcases hr.mono e with h | h
        · rw [h, hstate e, if_pos rfl]
        · exact h.2
      refine ⟨⟨hframe.1.trans hfl.frame, hfl.indexes.trans hframe.2, ?_, ?_, ?_⟩, ?_⟩
      · intro x
        by_cases hx : x = e
        · right; rw [hx]; exact ⟨hs, hself _ hfl⟩
        · rcases hfl.mono x with h | h
          · left; rw [h, hstate x, if_neg hx]
          · right; rw [hstate x, if_neg hx] at h; exact h
      · intro x c hx hmod hedge
        by_cases hxe : x = e
        · subst hxe
          obtain ⟨hc, hr1, hr2⟩ := hedge
          apply hvis c.rank
          · rw [List.mem_filter, List.mem_reverse, List.mem_range]
            exact ⟨hr2, by simpa using hr1⟩
          · exact (mem_begin_entities _ _ _ _).2 ⟨hc, rfl⟩
        · have hx1 : (m.set_state e EntityState.Modified).state x = EntityState.Unchanged := by
            rw [hstate x, if_neg hxe]; exact hx
          exact hfl.closed x c hx1 hmod ((flood_edge_congr hframe.1 hframe.2 x c).2 hedge)
      · exact Nat.le_trans hfl.count (by omega)
      · rw [hself _ hfl]; decide
    · rw [if_pos hs]
      exact ⟨flooded_refl m, hs⟩

theorem modified_flooded (m : BulkData) (e : Entity) :
    Flooded m (m.modified e) ∧ (m.modified e).state e ≠ EntityState.Unchanged :=
  modified_fuel_flooded _ m e (Nat.lt_succ_of_le (unchanged_count_le_length m))

/-! ## Entity states through the relation operations -/

theorem state_congr {m m' : BulkData} (h : m'.m_entity_states = m.m_entity_states) (x : Entity) :
    m'.state x = m.state x := by
  unfold state; rw [h]

theorem internal_change_entity_parts_states (m : BulkData) (e : Entity)
    (add_parts remove_parts : List PartOrdinal) :
    (m.internal_change_entity_parts e add_parts remove_parts).m_entity_states
      = m.m_entity_states := by
  unfold internal_change_entity_parts
  dsimp only
  cases m.mesh_index e <;> rfl

theorem bucket_declare_relation_states (m : BulkData) (e e_to : Entity)
    (ordinal : ConnectivityOrdinal) (permut : Permutation) :
    (bucket_declare_relation m e e_to ordinal permut).2.m_entity_states = m.m_entity_states := by
  unfold bucket_declare_relation
  dsimp only
  split
  · rfl
  · split
    · rfl
    · cases m.mesh_index e <;> rfl

theorem internal_declare_relation_states (m : BulkData) (e e_to : Entity)
    (local_id : RelationIdentifier) (sync_count : Nat) (back : Bool) (permut : Permutation) :
    (internal_declare_relation m e e_to local_id sync_count back permut).2.m_entity_states
      = m.m_entity_states := by
  have h := bucket_declare_relation_states m e e_to local_id permut
  unfold internal_declare_relation
  cases hb : bucket_declare_relation m e e_to local_id permut with
  | mk o m1 =>
    rw [hb] at h
    cases o with
    | error msg => exact h
    | ok caused =>
      cases caused
      · exact h
      · exact h

theorem bucket_destroy_relation_states (m : BulkData) (e e_to : Entity)
    (ordinal : ConnectivityOrdinal) :
    (bucket_destroy_relation m e e_to ordinal).2.m_entity_states = m.m_entity_states := by
  unfold bucket_destroy_relation
  cases m.mesh_index e with
  | none => rfl
  | some idx =>
    dsimp only
    split <;> rfl

theorem destroy_relation_parts_states (m : BulkData) (e_from e_to : Entity)
    (local_id : RelationIdentifier) :
    (destroy_relation_parts m e_from e_to local_id).m_entity_states = m.m_entity_states := by
  unfold destroy_relation_parts
  dsimp only
  split
  · split
    · exact internal_change_entity_parts_states _ _ _ _
    · rfl
  · rfl

theorem internal_declare_relation_frame (m : BulkData) (e e_to : Entity)
    (local_id : RelationIdentifier) (sync_count : Nat) (back : Bool) (permut : Permutation) :
    Frame m (internal_declare_relation m e e_to local_id sync_count back permut).2 := by
  rcases internal_declare_relation_cases m e e_to local_id sync_count back permut with h | h
  · rw [h.2.1]; exact Frame.refl m
  · exact h.2.2.2.1

theorem internal_declare_relation_entries (m : BulkData) (e e_to : Entity)
    (local_id : RelationIdentifier) (sync_count : Nat) (back : Bool) (permut : Permutation)
    (x : Entity) (c : ConnEntry)
    (hc : c ∈ (internal_declare_relation m e e_to local_id sync_count back permut).2.connectivity x) :
    c ∈ m.connectivity x ∨
      ((internal_declare_relation m e e_to local_id sync_count back permut).1 = Outcome.ok true ∧
        x = e ∧ c = declared_entry m e_to local_id permut) := by
  rcases internal_declare_relation_cases m e e_to local_id sync_count back permut with h | h
  · rw [h.2.1] at hc; exact Or.inl hc
  · obtain ⟨h1, _, _, _, _, _, hconn⟩ := h
    rw [hconn x] at hc
    by_cases hx : x = e
    · rw [if_pos hx, List.mem_append, List.mem_singleton] at hc
      rcases hc with hc | hc
      · left; rw [hx]; exact hc
      · exact Or.inr ⟨h1, hx, hc⟩
    · rw [if_neg hx] at hc; exact Or.inl hc

/-- The states that declare_relation leaves are those of the two floods, run on the
mesh `m2` that holds the new positions, when the call added the forward position
and did not throw, and the states it was given otherwise; a position of `m2` that
`m` did not hold stands in a table for a lower rank, or the floods were run and it
points to `e_from`. -/
theorem declare_relation_flood (m : BulkData) (e_from e_to : Entity)
    (local_id : RelationIdentifier) (permut : Permutation) :
    ∃ (m2 : BulkData) (caused : Bool),
      m2.m_entity_states = m.m_entity_states ∧ Frame m m2 ∧
      (∀ x, (m.declare_relation e_from e_to local_id permut).2.connectivity x = m2.connectivity x) ∧
      (m.declare_relation e_from e_to local_id permut).2.m_entity_states
        = (if caused = true then (m2.modified e_to).modified e_from else m2).m_entity_states ∧
      ((m.declare_relation e_from e_to local_id permut).1 = Outcome.ok () →
        (∀ c ∈ m.connectivity e_from, ¬ holds_relation m e_to local_id c) → caused = true) ∧
      (∀ (x : Entity) (c : ConnEntry), c ∈ m2.connectivity x →
        c ∈ m.connectivity x ∨ c.rank < m.entity_rank x ∨ (caused = true ∧ c.entity = e_from)) := by
  unfold declare_relation
  cases hreq : m.require_ok_to_modify with
  | error msg =>
    exact ⟨m, false, rfl, Frame.refl m, fun _ => rfl, rfl, by simp, fun x c hc => Or.inl hc⟩
  | ok u =>
    cases u
    cases hval : require_valid_relation "declare" m e_from e_to with
    | error msg =>
      exact ⟨m, false, rfl, Frame.refl m, fun _ => rfl, rfl, by simp, fun x c hc => Or.inl hc⟩
    | ok u =>
      cases u
      obtain ⟨hrank, hvf, hvt⟩ := require_valid_relation_ok "declare" m e_from e_to hval
      dsimp only
      have hs1 := internal_declare_relation_states m e_from e_to local_id m.m_sync_count false permut
      have hf1 := internal_declare_relation_frame m e_from e_to local_id m.m_sync_count false permut
      have he1 := internal_declare_relation_entries m e_from e_to local_id m.m_sync_count false permut
      have hcase := internal_declare_relation_cases m e_from e_to local_id m.m_sync_count false permut
      cases hr : internal_declare_relation m e_from e_to local_id m.m_sync_count false permut with
      | mk o m1 =>
        rw [hr] at hs1 hf1 he1 hcase
        dsimp only at hs1 hf1 he1 hcase
        have hent1 : ∀ (x : Entity) (c : ConnEntry), c ∈ m1.connectivity x →
            c ∈ m.connectivity x ∨ c.rank < m.entity_rank x := by
          intro x c hc
          rcases he1 x c hc with h | h
          · exact Or.inl h
          · right
            rw [h.2.1, h.2.2]
            exact hrank
        cases o with
        | error msg =>
          exact ⟨m1, false, hs1, hf1, fun _ => rfl, rfl, by simp,
            fun x c hc => (hent1 x c hc).elim Or.inl (fun h => Or.inr (Or.inl h))⟩
        | ok caused_fwd =>
          cases caused_fwd with
          | false =>
            dsimp only
            refine ⟨m1, false, hs1, hf1, ?_, ?_, ?_,
              fun x c hc => (hent1 x c hc).elim Or.inl (fun h => Or.inr (Or.inl h))⟩
            · intro x
              exact (internal_change_entity_parts_spec _ _ _ _).2.1 x
            · exact internal_change_entity_parts_states _ _ _ _
            · intro _ hnew
              exfalso
              rcases hcase with h | h
              · obtain ⟨c, hc, hh⟩ := bucket_declare_relation_ok_false m e_from e_to local_id permut
                  h.2.2.symm
                exact hnew c hc hh
              · exact absurd h.1 (by simp)
          | true =>
            dsimp only
            rw [if_pos rfl]
            have hfinish : ∀ m2 : BulkData, m2.m_entity_states = m.m_entity_states → Frame m m2 →
                (∀ (x : Entity) (c : ConnEntry), c ∈ m2.connectivity x →
                  c ∈ m.connectivity x ∨ c.rank < m.entity_rank x ∨ c.entity = e_from) →
                ∃ (m2' : BulkData) (caused : Bool),
                  m2'.m_entity_states = m.m_entity_states ∧ Frame m m2' ∧
                  (∀ x, (internal_change_entity_parts ((m2.modified e_to).modified e_from) e_to
                      (induced_part_membership ((m2.modified e_to).modified e_from) e_from []
                        (((m2.modified e_to).modified e_from).entity_rank e_to) local_id [] true)
                      []).connectivity x = m2'.connectivity x) ∧
                  (internal_change_entity_parts ((m2.modified e_to).modified e_from) e_to
                      (induced_part_membership ((m2.modified e_to).modified e_from) e_from []
                        (((m2.modified e_to).modified e_from).entity_rank e_to) local_id [] true)
                      []).m_entity_states
                    = (if caused = true then (m2'.modified e_to).modified e_from
                        else m2').m_entity_states ∧
                  ((Outcome.ok () : Outcome Unit) = Outcome.ok () →
                    (∀ c ∈ m.connectivity e_from, ¬ holds_relation m e_to local_id c) →
                    caused = true) ∧
                  (∀ (x : Entity) (c : ConnEntry), c ∈ m2'.connectivity x →
                    c ∈ m.connectivity x ∨ c.rank < m.entity_rank x ∨
                      (caused = true ∧ c.entity = e_from)) := by
              intro m2 hs2 hf2 hent2
              refine ⟨m2, true, hs2, hf2, ?_, ?_, fun _ _ => rfl, ?_⟩
              · intro x
                rw [(internal_change_entity_parts_spec _ _ _ _).2.1 x]
                rw [(accessors_of_indexes_eq (modified_frame _ e_from).2 x).2.2,
                  (accessors_of_indexes_eq (modified_frame _ e_to).2 x).2.2]
              · rw [internal_change_entity_parts_states, if_pos rfl]
              · intro x c hc
                rcases hent2 x c hc with h | h | h
                · exact Or.inl h
                · exact Or.inr (Or.inl h)
                · exact Or.inr (Or.inr ⟨rfl, h⟩)
            by_cases htrack : m1.tracks_back_relation (m1.entity_rank e_to) (m1.entity_rank e_from)
                = true
            · rw [if_pos htrack]
              have hs2 := internal_declare_relation_states m1 e_to e_from local_id m1.m_sync_count
                true permut
              have hf2 := internal_declare_relation_frame m1 e_to e_from local_id m1.m_sync_count
                true permut
              have he2 := internal_declare_relation_entries m1 e_to e_from local_id m1.m_sync_count
                true permut
              cases hr2 : internal_declare_relation m1 e_to e_from local_id m1.m_sync_count true
                  permut with
              | mk o2 m2 =>
                rw [hr2] at hs2 hf2 he2
                dsimp only at hs2 hf2 he2
                have hent2 : ∀ (x : Entity) (c : ConnEntry), c ∈ m2.connectivity x →
                    c ∈ m.connectivity x ∨ c.rank < m.entity_rank x ∨
                      (o2 = Outcome.ok true ∧ c.entity = e_from) := by
                  intro x c hc
                  rcases he2 x c hc with h | h
                  · rcases hent1 x c h with h3 | h3
                    · exact Or.inl h3
                    · exact Or.inr (Or.inl h3)
                  · right; right
                    refine ⟨h.1, ?_⟩
                    rw [h.2.2]; rfl
                cases o2 with
                | error msg =>
                  refine ⟨m2, false, hs2.trans hs1, hf1.trans hf2, fun _ => rfl, rfl, by simp, ?_⟩
                  intro x c hc
                  rcases hent2 x c hc with h | h | h
                  · exact Or.inl h
                  · exact Or.inr (Or.inl h)
                  · exact absurd h.1 (by simp)
                | ok caused_inv =>
                  cases caused_inv with
                  | false =>
                    refine ⟨m2, false, hs2.trans hs1, hf1.trans hf2, fun _ => rfl, rfl, by simp, ?_⟩
                    intro x c hc
                    rcases hent2 x c hc with h | h | h
                    · exact Or.inl h
                    · exact Or.inr (Or.inl h)
                    · exact absurd h.1 (by simp)
                  | true =>
                    dsimp only
                    apply hfinish m2 (hs2.trans hs1) (hf1.trans hf2)
                    intro x c hc
                    rcases hent2 x c hc with h | h | h
                    · exact Or.inl h
                    · exact Or.inr (Or.inl h)
                    · exact Or.inr (Or.inr h.2)
            · rw [if_neg htrack]
              dsimp only
              apply hfinish m1 hs1 hf1
              intro x c hc
              rcases hent1 x c hc with h | h
              · exact Or.inl h
              · exact Or.inr (Or.inl h)

theorem bucket_destroy_relation_entries (m : BulkData) (e e_to : Entity)
    (ordinal : ConnectivityOrdinal) (x : Entity) (c : ConnEntry)
    (hc : c ∈ (bucket_destroy_relation m e e_to ordinal).2.connectivity x) :
    c ∈ m.connectivity x := by
  rw [(bucket_destroy_relation_spec m e e_to ordinal).2.2.2.1 x] at hc
  by_cases hx : x = e
  · rw [if_pos hx] at hc
    rw [hx]
    exact (List.mem_filter.1 hc).1
  · rw [if_neg hx] at hc; exact hc

/-- The states that destroy_relation leaves are those of the two floods, run on the
mesh `m4` without the positions, when the call removed the forward position and did
not throw, and the states it was given otherwise; `m4` holds no position that `m`
did not hold. -/
theorem destroy_relation_flood (m : BulkData) (e_from e_to : Entity)
    (local_id : RelationIdentifier) :
    ∃ (m4 : BulkData) (fwd : Bool),
      m4.m_entity_states = m.m_entity_states ∧ Frame m m4 ∧
      (∀ x, (m.destroy_relation e_from e_to local_id).2.connectivity x = m4.connectivity x) ∧
      (m.destroy_relation e_from e_to local_id).2.m_entity_states
        = (if fwd = true then (m4.modified e_to).modified e_from else m4).m_entity_states ∧
      ((m.destroy_relation e_from e_to local_id).1 = Outcome.ok true → fwd = true) ∧
      (∀ (x : Entity) (c : ConnEntry), c ∈ m4.connectivity x → c ∈ m.connectivity x) := by
  unfold destroy_relation
  cases hreq : m.require_ok_to_modify with
  | error msg =>
    exact ⟨m, false, rfl, Frame.refl m, fun _ => rfl, rfl, by simp, fun x c hc => hc⟩
  | ok u =>
    cases u
    cases hval : require_valid_relation "destroy" m e_from e_to with
    | error msg =>
      exact ⟨m, false, rfl, Frame.refl m, fun _ => rfl, rfl, by simp, fun x c hc => hc⟩
    | ok u =>
      cases u
      dsimp only
      obtain ⟨prt, _, hview⟩ := destroy_relation_parts_spec m e_from e_to local_id
      obtain ⟨hf2, hc2, _, _⟩ := hview
      have hs2 : (destroy_relation_parts (m.set_check_invalid_rels false) e_from e_to
          local_id).m_entity_states = m.m_entity_states :=
        destroy_relation_parts_states _ _ _ _
      have hc2' : ∀ x, (destroy_relation_parts (m.set_check_invalid_rels false) e_from e_to
          local_id).connectivity x = m.connectivity x := by
        intro x
        have := hc2 x
        simpa using this
      generalize destroy_relation_parts (m.set_check_invalid_rels false) e_from e_to local_id = m2
        at hf2 hs2 hc2'
      have hs3 := bucket_destroy_relation_states m2 e_from e_to local_id
      have hf3 := (bucket_destroy_relation_spec m2 e_from e_to local_id).1
      have he3 := bucket_destroy_relation_entries m2 e_from e_to local_id
      cases hb : bucket_destroy_relation m2 e_from e_to local_id with
      | mk fwd m3 =>
        rw [hb] at hs3 hf3 he3
        dsimp only at hs3 hf3 he3
        have hent3 : ∀ (x : Entity) (c : ConnEntry), c ∈ m3.connectivity x → c ∈ m.connectivity x := by
          intro x c hc
          rw [← hc2' x]; exact he3 x c hc
        cases fwd with
        | false =>
          dsimp only
          refine ⟨m3, false, hs3.trans hs2, hf2.trans hf3, fun _ => rfl, rfl, by simp, hent3⟩
        | true =>
          dsimp only
          rw [if_pos rfl]
          have hs4 := bucket_destroy_relation_states m3 e_to e_from local_id
          have hf4 := (bucket_destroy_relation_spec m3 e_to e_from local_id).1
          have he4 := bucket_destroy_relation_entries m3 e_to e_from local_id
          cases hb2 : bucket_destroy_relation m3 e_to e_from local_id with
          | mk inv m4 =>
            rw [hb2] at hs4 hf4 he4
            dsimp only at hs4 hf4 he4
            have hent4 : ∀ (x : Entity) (c : ConnEntry), c ∈ m4.connectivity x →
                c ∈ m.connectivity x := fun x c hc => hent3 x c (he4 x c hc)
            cases inv with
            | false =>
              dsimp only
              refine ⟨m4, false, hs4.trans (hs3.trans hs2), (hf2.trans hf3).trans hf4,
                fun _ => rfl, rfl, by simp, hent4⟩
            | true =>
              dsimp only
              refine ⟨m4, true, hs4.trans (hs3.trans hs2), (hf2.trans hf3).trans hf4, ?_, ?_,
                fun _ => rfl, hent4⟩
              · intro x
                show ((m4.modified e_to).modified e_from).connectivity x = m4.connectivity x
                rw [(accessors_of_indexes_eq (modified_frame _ e_from).2 x).2.2,
                  (accessors_of_indexes_eq (modified_frame _ e_to).2 x).2.2]
              · rfl

/-! ## Local offsets: allocation and recycling -/

theorem getElem?_append_singleton_ne {α : Type} (l : List α) (a : α) (x : Nat)
    (hx : x ≠ l.length) : (l ++ [a])[x]? = l[x]? := by
  by_cases hlt : x < l.length
  · exact List.getElem?_append_left hlt
  · have h1 : l.length < x := by omega
    rw [List.getElem?_eq_none (by simp; omega), List.getElem?_eq_none (by omega)]

theorem getElem?_append_singleton_self {α : Type} (l : List α) (a : α) :
    (l ++ [a])[l.length]? = some a := by
  simp

theorem getElem?_set_ne {α : Type} (l : List α) (a : α) (o x : Nat) (hx : x ≠ o) :
    (l.set o a)[x]? = l[x]? := by
  rw [List.getElem?_set]
  rw [if_neg (fun h => hx h.symm)]

theorem getElem?_set_self {α : Type} (l : List α) (a : α) (o : Nat) (ho : o < l.length) :
    (l.set o a)[o]? = some a := by
  rw [List.getElem?_set]
  simp [ho]

/-- C18: let the four per-entity arrays have one length and let every offset on the
free list lie inside them (as in every reachable mesh). If the free list is not
empty, generate_next_local_offset returns its front element and removes it, and
the four lengths stay; if it is empty, the call returns the array length and each
of the four arrays is one longer. In both cases the slot at the returned offset
holds the null mesh index, the invalid key, state Created and sync count 0, every
other slot of the four arrays is unchanged, and so are the entity map and the
list of offsets deleted in the current cycle. -/
theorem C18_generate_next_local_offset (m : BulkData)
    (hkeys : m.m_entity_keys.length = m.m_mesh_indexes.length)
    (hstates : m.m_entity_states.length = m.m_mesh_indexes.length)
    (hcounts : m.m_entity_sync_counts.length = m.m_mesh_indexes.length)
    (hfree : ∀ o ∈ m.m_deleted_entities, o < m.m_mesh_indexes.length) :
    (∀ o rest, m.m_deleted_entities = o :: rest →
      m.generate_next_local_offset.1 = o ∧
      m.generate_next_local_offset.2.m_deleted_entities = rest ∧
      m.generate_next_local_offset.2.m_mesh_indexes.length = m.m_mesh_indexes.length ∧
      m.generate_next_local_offset.2.m_entity_keys.length = m.m_entity_keys.length ∧
      m.generate_next_local_offset.2.m_entity_states.length = m.m_entity_states.length ∧
      m.generate_next_local_offset.2.m_entity_sync_counts.length
        = m.m_entity_sync_counts.length) ∧
    (m.m_deleted_entities = [] →
      m.generate_next_local_offset.1 = m.m_mesh_indexes.length ∧
      m.generate_next_local_offset.2.m_deleted_entities = [] ∧
      m.generate_next_local_offset.2.m_mesh_indexes.length = m.m_mesh_indexes.length + 1 ∧
      m.generate_next_local_offset.2.m_entity_keys.length = m.m_entity_keys.length + 1 ∧
      m.generate_next_local_offset.2.m_entity_states.length = m.m_entity_states.length + 1 ∧
      m.generate_next_local_offset.2.m_entity_sync_counts.length
        = m.m_entity_sync_counts.length + 1) ∧
    (m.generate_next_local_offset.2.m_mesh_indexes[m.generate_next_local_offset.1]? = some none ∧
      m.generate_next_local_offset.2.m_entity_keys[m.generate_next_local_offset.1]?
        = some EntityKey.invalid_key ∧
      m.generate_next_local_offset.2.m_entity_states[m.generate_next_local_offset.1]?
        = some EntityState.Created ∧
      m.generate_next_local_offset.2.m_entity_sync_counts[m.generate_next_local_offset.1]?
        = some 0) ∧
    (∀ x : Nat, x ≠ m.generate_next_local_offset.1 →
      m.generate_next_local_offset.2.m_mesh_indexes[x]? = m.m_mesh_indexes[x]? ∧
      m.generate_next_local_offset.2.m_entity_keys[x]? = m.m_entity_keys[x]? ∧
      m.generate_next_local_offset.2.m_entity_states[x]? = m.m_entity_states[x]? ∧
      m.generate_next_local_offset.2.m_entity_sync_counts[x]? = m.m_entity_sync_counts[x]?) ∧
    m.generate_next_local_offset.2.m_entity_repo = m.m_entity_repo ∧
    m.generate_next_local_offset.2.m_deleted_entities_current_modification_cycle
      = m.m_deleted_entities_current_modification_cycle := by
  rcases generate_next_local_offset_cases m with h | h | h
  · obtain ⟨hnil, hr⟩ := h
    rw [hr]
    dsimp only
    refine ⟨?_, ?_, ?_, ?_, rfl, rfl⟩
    · intro o rest ho
      rw [hnil] at ho
      exact List.noConfusion ho
    · intro _
      exact ⟨rfl, hnil, by simp, by simp, by simp, by simp⟩
    · refine ⟨getElem?_append_singleton_self _ _, ?_, ?_, ?_⟩
      · rw [← hkeys]; exact getElem?_append_singleton_self _ _
      · rw [← hstates]; exact getElem?_append_singleton_self _ _
      · rw [← hcounts]; exact getElem?_append_singleton_self _ _
    · intro x hx
      exact ⟨getElem?_append_singleton_ne _ _ _ hx,
        getElem?_append_singleton_ne _ _ _ (by rw [hkeys]; exact hx),
        getElem?_append_singleton_ne _ _ _ (by rw [hstates]; exact hx),
        getElem?_append_singleton_ne _ _ _ (by rw [hcounts]; exact hx)⟩
  · obtain ⟨o, rest, hcons, ho, _⟩ := h
    have := hfree o (by rw [hcons]; exact List.mem_cons_self _ _)
    omega
  · obtain ⟨o, rest, hcons, ho, hr⟩ := h
    have hlt := hfree o (by rw [hcons]; exact List.mem_cons_self _ _)
    rw [hr]
    dsimp only
    refine ⟨?_, ?_, ?_, ?_, rfl, rfl⟩
    · intro o2 rest2 ho2
      rw [hcons] at ho2
      injection ho2 with h1 h2
      subst h1; subst h2
      exact ⟨rfl, rfl, by simp, by simp, by simp, by simp⟩
    · intro hnil
      rw [hcons] at hnil
      exact List.noConfusion hnil
    · exact ⟨getElem?_set_self _ _ _ hlt, getElem?_set_self _ _ _ (by omega),
        getElem?_set_self _ _ _ (by omega), getElem?_set_self _ _ _ (by omega)⟩
    · intro x hx
      exact ⟨getElem?_set_ne _ _ _ _ hx, getElem?_set_ne _ _ _ _ hx,
        getElem?_set_ne _ _ _ _ hx, getElem?_set_ne _ _ _ _ hx⟩

theorem modification_begin_shape (m : BulkData) :
    m.modification_begin.2.m_mesh_indexes = m.m_mesh_indexes ∧
    m.modification_begin.2.m_entity_keys = m.m_entity_keys ∧
    m.modification_begin.2.m_entity_repo = m.m_entity_repo ∧
    m.modification_begin.2.m_deleted_entities = m.m_deleted_entities ∧
    m.modification_begin.2.m_deleted_entities_current_modification_cycle
      = m.m_deleted_entities_current_modification_cycle ∧
    m.modification_begin.2.m_connectivity_map = m.m_connectivity_map ∧
    m.modification_begin.2.m_mesh_meta_data.entity_rank_count
      = m.m_mesh_meta_data.entity_rank_count ∧
    m.modification_begin.2.m_entity_comm_list = m.m_entity_comm_list ∧
    (m.modification_begin.2.m_entity_states = m.m_entity_states ∨
      m.modification_begin.2.m_entity_states
        = reset_entity_states m.m_entity_repo m.m_entity_states) := by
  unfold modification_begin require_metadata_committed
  dsimp only
  split_ifs <;> exact ⟨rfl, rfl, rfl, rfl, rfl, rfl, rfl, rfl, by first | exact Or.inl rfl | exact Or.inr rfl⟩

/-! ## The invariant of the local offsets -/

theorem entity_key_congr {m m' : BulkData} (h : m'.m_entity_keys = m.m_entity_keys) (x : Entity) :
    m'.entity_key x = m.entity_key x := by
  unfold entity_key; rw [h]

theorem offsets_consistent_of_same_shape {m m' : BulkData} (h : OffsetsConsistent m)
    (hidx : m'.m_mesh_indexes.length = m.m_mesh_indexes.length)
    (hkeys : m'.m_entity_keys = m.m_entity_keys)
    (hrepo : m'.m_entity_repo = m.m_entity_repo)
    (hfree : m'.m_deleted_entities = m.m_deleted_entities)
    (hcycle : m'.m_deleted_entities_current_modification_cycle
      = m.m_deleted_entities_current_modification_cycle)
    (hlen : m'.m_entity_states.length = m.m_entity_states.length)
    (hdel : ∀ e : Entity, m'.state e = EntityState.Deleted ↔ m.state e = EntityState.Deleted) :
    OffsetsConsistent m' := by
  have hval := is_valid_congr hlen hdel
  have hkey := entity_key_congr hkeys
  refine ⟨?_, ?_, ?_, ?_, ?_, ?_, ?_, ?_, ?_⟩
  · rw [hidx, hlen]; exact h.aligned_indexes
  · rw [hkeys, hlen]; exact h.aligned_keys
  · rw [hlen]; exact h.nonempty
  · exact (hdel 0).2 h.reserved_state
  · rw [hkey]; exact h.reserved_key
  · intro p hp
    rw [hrepo] at hp
    rw [hkey, hval]
    exact h.repo_valid p hp
  · intro o ho
    rw [hfree, hcycle] at ho
    rw [hlen]
    exact ⟨(h.free_deleted o ho).1, (hdel o).2 (h.free_deleted o ho).2⟩
  · intro o ho
    rw [hfree, hcycle] at ho
    exact h.free_nonzero o ho
  · rw [hfree, hcycle]; exact h.free_nodup

theorem offsets_consistent_of_frame {m m' : BulkData} (h : OffsetsConsistent m)
    (hf : Frame m m') : OffsetsConsistent m' :=
  offsets_consistent_of_same_shape h hf.indexes_length hf.keys hf.repo hf.deleted hf.deleted_cycle
    hf.states_length hf.deleted_iff

theorem construct_offsets_consistent (meta : MetaData) (cmap : ConnectivityMap)
    (parallel_size parallel_rank : Nat) (consistent assertions : Bool) :
    OffsetsConsistent (construct meta cmap parallel_size parallel_rank consistent assertions) := by
  refine ⟨rfl, rfl, Nat.zero_lt_one, rfl, rfl, ?_, ?_, ?_, List.nodup_nil⟩
  · intro p hp; exact absurd hp (List.not_mem_nil _)
  · intro o ho; exact absurd ho (List.not_mem_nil _)
  · intro o ho; exact absurd ho (List.not_mem_nil _)

theorem reset_deleted_iff (m : BulkData)
    (hrepo : ∀ p ∈ m.m_entity_repo, m.is_valid p.2 = true) (e : Entity) :
    (reset_entity_states m.m_entity_repo m.m_entity_states).getD e EntityState.Deleted
        = EntityState.Deleted ↔ m.state e = EntityState.Deleted := by
  rw [reset_entity_states_getD]
  by_cases h : (∃ p ∈ m.m_entity_repo, p.2 = e) ∧ e < m.m_entity_states.length
  · rw [if_pos h]
    obtain ⟨⟨p, hp, he⟩, _⟩ := h
    have hv := hrepo p hp
    rw [he] at hv
    have hv2 := ((is_valid_iff m e).1 hv).2
    constructor
    · intro h2; exact absurd h2 (by decide)
    · intro h2; exact absurd h2 hv2
  · rw [if_neg h]; rfl

theorem modification_begin_offsets_consistent (m : BulkData) (h : OffsetsConsistent m) :
    OffsetsConsistent m.modification_begin.2 := by
  obtain ⟨h1, h2, h3, h4, h5, _, _, _, h9⟩ := modification_begin_shape m
  rcases h9 with hs | hs
  · exact offsets_consistent_of_same_shape h (by rw [h1]) h2 h3 h4 h5 (by rw [hs])
      (fun e => by rw [state_congr hs])
  · refine offsets_consistent_of_same_shape h (by rw [h1]) h2 h3 h4 h5 ?_ ?_
    · rw [hs]; exact reset_entity_states_length _ _
    · intro e
      unfold BulkData.state at *
      rw [hs]
      exact reset_deleted_iff m (fun p hp => (h.repo_valid p hp).2) e

theorem modification_end_offsets_consistent (m : BulkData) (h : OffsetsConsistent m) :
    OffsetsConsistent m.modification_end :=
  offsets_consistent_of_same_shape h rfl rfl rfl rfl rfl rfl (fun _ => Iff.rfl)

theorem foldl_cons_eq_reverse_append {α : Type} (l acc : List α) :
    l.foldl (fun acc o => o :: acc) acc = l.reverse ++ acc := by
  induction l generalizing acc with
  | nil => rfl
  | cons a rest ih => rw [List.foldl_cons, ih]; simp

theorem update_deleted_entities_container_lists (m : BulkData) :
    m.update_deleted_entities_container.m_deleted_entities
      = m.m_deleted_entities_current_modification_cycle.reverse ++ m.m_deleted_entities ∧
    m.update_deleted_entities_container.m_deleted_entities_current_modification_cycle = [] := by
  unfold update_deleted_entities_container
  exact ⟨foldl_cons_eq_reverse_append _ _, rfl⟩

theorem update_deleted_entities_container_offsets_consistent (m : BulkData)
    (h : OffsetsConsistent m) : OffsetsConsistent m.update_deleted_entities_container := by
  obtain ⟨hl1, hl2⟩ := update_deleted_entities_container_lists m
  have hmem : ∀ o, o ∈ m.update_deleted_entities_container.m_deleted_entities ++
      m.update_deleted_entities_container.m_deleted_entities_current_modification_cycle →
      o ∈ m.m_deleted_entities ++ m.m_deleted_entities_current_modification_cycle := by
    intro o ho
    rw [hl1, hl2] at ho
    simp only [List.append_nil, List.mem_append, List.mem_reverse] at ho
    rw [List.mem_append]
    tauto
  refine ⟨h.aligned_indexes, h.aligned_keys, h.nonempty, h.reserved_state, h.reserved_key,
    h.repo_valid, ?_, ?_, ?_⟩
  · intro o ho; exact h.free_deleted o (hmem o ho)
  · intro o ho; exact h.free_nonzero o (hmem o ho)
  · rw [hl1, hl2, List.append_nil]
    have hn := h.free_nodup
    rw [List.nodup_append] at hn ⊢
    refine ⟨List.nodup_reverse.2 hn.2.1, hn.1, ?_⟩
    intro a ha hb
    exact hn.2.2 hb (List.mem_reverse.1 ha)

/-- What generate_next_local_offset does on a mesh with consistent offsets. -/
theorem generate_next_local_offset_spec (m : BulkData) (h : OffsetsConsistent m) :
    m.is_valid m.generate_next_local_offset.1 = false ∧
    m.generate_next_local_offset.1 ≠ 0 ∧
    (m.generate_next_local_offset.1 ∈ m.m_deleted_entities ∨
      (m.m_deleted_entities = [] ∧
        m.generate_next_local_offset.1 = m.m_entity_states.length)) ∧
    m.generate_next_local_offset.1 < m.generate_next_local_offset.2.m_entity_states.length ∧
    m.m_entity_states.length ≤ m.generate_next_local_offset.2.m_entity_states.length ∧
    m.generate_next_local_offset.2.m_mesh_indexes.length
      = m.generate_next_local_offset.2.m_entity_states.length ∧
    m.generate_next_local_offset.2.m_entity_keys.length
      = m.generate_next_local_offset.2.m_entity_states.length ∧
    (∀ x, m.generate_next_local_offset.2.state x
      = if x = m.generate_next_local_offset.1 then EntityState.Created else m.state x) ∧
    (∀ x, m.generate_next_local_offset.2.entity_key x
      = if x = m.generate_next_local_offset.1 then EntityKey.invalid_key else m.entity_key x) ∧
    (∀ x, m.generate_next_local_offset.2.mesh_index x
      = if x = m.generate_next_local_offset.1 then none else m.mesh_index x) ∧
    (∀ x, m.generate_next_local_offset.2.is_valid x
      = (m.is_valid x || decide (x = m.generate_next_local_offset.1))) ∧
    (∃ idx keys states counts, m.generate_next_local_offset.2 =
      { m with
        m_deleted_entities := m.m_deleted_entities.tail
        m_mesh_indexes := idx
        m_entity_keys := keys
        m_entity_states := states
        m_entity_sync_counts := counts }) := by
  have hai := h.aligned_indexes
  have hak := h.aligned_keys
  rcases generate_next_local_offset_cases m with hc | hc | hc
  · obtain ⟨hnil, hr⟩ := hc
    rw [hr]
    dsimp only
    have hst : ∀ x, (m.m_entity_states ++ [EntityState.Created]).getD x EntityState.Deleted
        = if x = m.m_mesh_indexes.length then EntityState.Created else m.state x := by
      intro x; rw [getD_append_singleton, hai]; rfl
    refine ⟨?_, ?_, Or.inr ⟨hnil, hai⟩, ?_, ?_, ?_, ?_, hst, ?_, ?_, ?_, ?_⟩
    · exact not_valid_of_length_le m _ (by rw [hai])
    · rw [hai]; exact Nat.pos_iff_ne_zero.1 h.nonempty
    · show m.m_mesh_indexes.length < (m.m_entity_states ++ [EntityState.Created]).length
      simp [hai]
    · show m.m_entity_states.length ≤ (m.m_entity_states ++ [EntityState.Created]).length
      simp
    · show (m.m_mesh_indexes ++ [none]).length = (m.m_entity_states ++ [EntityState.Created]).length
      simp [hai]
    · show (m.m_entity_keys ++ [EntityKey.invalid_key]).length
        = (m.m_entity_states ++ [EntityState.Created]).length
      simp [hak]
    · intro x
      show (m.m_entity_keys ++ [EntityKey.invalid_key]).getD x EntityKey.invalid_key = _
      rw [getD_append_singleton, hak, hai]; rfl
    · intro x
      show (m.m_mesh_indexes ++ [none]).getD x none = _
      rw [getD_append_singleton]; rfl
    · intro x
      apply is_valid_of_states (m.m_mesh_indexes.length)
      · show m.m_mesh_indexes.length < (m.m_entity_states ++ [EntityState.Created]).length
        simp [hai]
      · show m.m_entity_states.length ≤ (m.m_entity_states ++ [EntityState.Created]).length
        simp
      · right
        exact ⟨by show (m.m_entity_states ++ [EntityState.Created]).length = _; simp, hai⟩
      · exact hst
    · exact ⟨_, _, _, _, by rw [hnil]; rfl⟩
  · obtain ⟨o, rest, hcons, ho, _⟩ := hc
    have := (h.free_deleted o (by rw [hcons]; simp)).1
    omega
  · obtain ⟨o, rest, hcons, ho, hr⟩ := hc
    have hmem : o ∈ m.m_deleted_entities ++ m.m_deleted_entities_current_modification_cycle := by
      rw [hcons]; simp
    obtain ⟨hlt, hdel⟩ := h.free_deleted o hmem
    rw [hr]
    dsimp only
    have hst : ∀ x, (m.m_entity_states.set o EntityState.Created).getD x EntityState.Deleted
        = if x = o then EntityState.Created else m.state x := by
      intro x; rw [getD_set _ _ _ _ _ hlt]; rfl
    refine ⟨not_valid_of_state_deleted m o hdel, h.free_nonzero o hmem,
      Or.inl (by rw [hcons]; simp), ?_, ?_, ?_, ?_, hst, ?_, ?_, ?_, ?_⟩
    · show o < (m.m_entity_states.set o EntityState.Created).length
      simp [hlt]
    · show m.m_entity_states.length ≤ (m.m_entity_states.set o EntityState.Created).length
      simp
    · show (m.m_mesh_indexes.set o none).length = (m.m_entity_states.set o EntityState.Created).length
      simp [hai]
    · show (m.m_entity_keys.set o EntityKey.invalid_key).length
        = (m.m_entity_states.set o EntityState.Created).length
      simp [hak]
    · intro x
      show (m.m_entity_keys.set o EntityKey.invalid_key).getD x EntityKey.invalid_key = _
      rw [getD_set _ _ _ _ _ (by omega)]; rfl
    · intro x
      show (m.m_mesh_indexes.set o none).getD x none = _
      rw [getD_set _ _ _ _ _ (by omega)]; rfl
    · intro x
      apply is_valid_of_states o
      · show o < (m.m_entity_states.set o EntityState.Created).length
        simp [hlt]
      · show m.m_entity_states.length ≤ (m.m_entity_states.set o EntityState.Created).length
        simp
      · left
        show (m.m_entity_states.set o EntityState.Created).length ≤ _
        simp
      · exact hst
    · exact ⟨_, _, _, _, by rw [hcons]; rfl⟩

theorem generate_next_local_offset_offsets_consistent (m : BulkData) (h : OffsetsConsistent m) :
    OffsetsConsistent m.generate_next_local_offset.2 := by
  obtain ⟨hinv, hne0, hwhere, hlt, hle, hai, hak, hst, hkey, _, hval, hshape⟩ :=
    generate_next_local_offset_spec m h
  obtain ⟨idx, keys, states, counts, hshape⟩ := hshape
  have hrepo : m.generate_next_local_offset.2.m_entity_repo = m.m_entity_repo := by
    rw [hshape]
  have hfree : m.generate_next_local_offset.2.m_deleted_entities = m.m_deleted_entities.tail := by
    rw [hshape]
  have hcycle : m.generate_next_local_offset.2.m_deleted_entities_current_modification_cycle
      = m.m_deleted_entities_current_modification_cycle := by
    rw [hshape]
  have hsub : ∀ o, o ∈ m.generate_next_local_offset.2.m_deleted_entities ++
      m.generate_next_local_offset.2.m_deleted_entities_current_modification_cycle →
      o ∈ m.m_deleted_entities ++ m.m_deleted_entities_current_modification_cycle := by
    intro o ho
    rw [hfree, hcycle] at ho
    rcases List.mem_append.1 ho with h1 | h1
    · exact List.mem_append_left _ (List.mem_of_mem_tail h1)
    · exact List.mem_append_right _ h1
  have hnot : ∀ o, o ∈ m.generate_next_local_offset.2.m_deleted_entities ++
      m.generate_next_local_offset.2.m_deleted_entities_current_modification_cycle →
      o ≠ m.generate_next_local_offset.1 := by
    intro o ho heq
    rw [hfree, hcycle] at ho
    rcases hwhere with hw | hw
    · cases hl : m.m_deleted_entities with
      | nil => rw [hl] at hw; exact absurd hw (List.not_mem_nil _)
      | cons a rest =>
        have hn := h.free_nodup
        rw [hl, List.cons_append, List.nodup_cons] at hn
        rw [hl] at ho
        have ha : m.generate_next_local_offset.1 = a := by
          rcases generate_next_local_offset_cases m with hc | hc | hc
          · rw [hc.1] at hl; exact List.noConfusion hl
          · obtain ⟨o2, rest2, hcons, _, hr⟩ := hc
            rw [hr]; rw [hcons] at hl; injection hl
          · obtain ⟨o2, rest2, hcons, _, hr⟩ := hc
            rw [hr]; rw [hcons] at hl; injection hl
        rw [heq, ha] at ho
        exact hn.1 ho
    · have := (h.free_deleted o (hsub o (by rw [hfree, hcycle]; exact ho))).1
      rw [heq, hw.2] at this
      exact Nat.lt_irrefl _ this
  refine ⟨hai, hak, Nat.lt_of_lt_of_le h.nonempty hle, ?_, ?_, ?_, ?_, ?_, ?_⟩
  · rw [hst 0, if_neg (fun h0 => hne0 h0.symm)]; exact h.reserved_state
  · rw [hkey 0, if_neg (fun h0 => hne0 h0.symm)]; exact h.reserved_key
  · intro p hp
    rw [hrepo] at hp
    obtain ⟨hk, hv⟩ := h.repo_valid p hp
    have hpne : p.2 ≠ m.generate_next_local_offset.1 := by
      intro heq; rw [heq, hinv] at hv; exact Bool.noConfusion hv
    rw [hkey p.2, if_neg hpne, hval p.2, hv]
    exact ⟨hk, rfl⟩
  · intro o ho
    have h1 := h.free_deleted o (hsub o ho)
    refine ⟨Nat.lt_of_lt_of_le h1.1 hle, ?_⟩
    rw [hst o, if_neg (hnot o ho)]
    exact h1.2
  · intro o ho; exact h.free_nonzero o (hsub o ho)
  · rw [hfree, hcycle]
    have hn := h.free_nodup
    exact hn.sublist ((List.tail_sublist _).append_right _)

/-! ## The ways through declare_entity and destroy_entity -/

/-- The ways through declare_entity: a check throws and the mesh is the given one
with the flag cleared; or the key is already declared and the parts are added to
that entity; or a new entity is allocated, put into its parts, and given its owner
and sync count. -/
theorem declare_entity_cases (m : BulkData) (ent_rank : EntityRank) (ent_id : EntityId)
    (parts : List PartOrdinal) :
    ((m.declare_entity ent_rank ent_id parts).1.isError = true ∧
      (m.declare_entity ent_rank ent_id parts).2 = m.set_check_invalid_rels false) ∨
    (∃ e : Entity,
      ((m.set_check_invalid_rels false).internal_create_entity ⟨ent_rank, ent_id⟩).1 = (e, false) ∧
      ((m.set_check_invalid_rels false).internal_create_entity ⟨ent_rank, ent_id⟩).2
        = m.set_check_invalid_rels false ∧
      m.is_valid e = true ∧
      m.declare_entity ent_rank ent_id parts = (Outcome.ok e,
        ((m.set_check_invalid_rels false).change_entity_parts e
          (parts ++ [m.m_mesh_meta_data.locally_owned_part]) []).set_check_invalid_rels true)) ∨
    (((m.set_check_invalid_rels false).internal_create_entity ⟨ent_rank, ent_id⟩).1.2 = true ∧
      m.m_sync_state ≠ BulkDataSyncState.SYNCHRONIZED ∧
      ent_rank < m.m_mesh_meta_data.entity_rank_count ∧
      m.declare_entity ent_rank ent_id parts =
        (Outcome.ok ((m.set_check_invalid_rels false).internal_create_entity ⟨ent_rank, ent_id⟩).1.1,
          ((((((m.set_check_invalid_rels false).internal_create_entity
              ⟨ent_rank, ent_id⟩).2.change_entity_parts
            ((m.set_check_invalid_rels false).internal_create_entity ⟨ent_rank, ent_id⟩).1.1
            (parts ++ [((m.set_check_invalid_rels false).internal_create_entity
              ⟨ent_rank, ent_id⟩).2.m_mesh_meta_data.locally_owned_part]) []).set_parallel_owner_rank
            ((m.set_check_invalid_rels false).internal_create_entity ⟨ent_rank, ent_id⟩).1.1
            ((((m.set_check_invalid_rels false).internal_create_entity
              ⟨ent_rank, ent_id⟩).2.change_entity_parts
            ((m.set_check_invalid_rels false).internal_create_entity ⟨ent_rank, ent_id⟩).1.1
            (parts ++ [((m.set_check_invalid_rels false).internal_create_entity
              ⟨ent_rank, ent_id⟩).2.m_mesh_meta_data.locally_owned_part]) []).m_parallel_rank)).set_synchronized_count
            ((m.set_check_invalid_rels false).internal_create_entity ⟨ent_rank, ent_id⟩).1.1
            ((((m.set_check_invalid_rels false).internal_create_entity
              ⟨ent_rank, ent_id⟩).2.change_entity_parts
            ((m.set_check_invalid_rels false).internal_create_entity ⟨ent_rank, ent_id⟩).1.1
            (parts ++ [((m.set_check_invalid_rels false).internal_create_entity
              ⟨ent_rank, ent_id⟩).2.m_mesh_meta_data.locally_owned_part]) []).m_sync_count)).set_check_invalid_rels
            true))) := by
  unfold declare_entity
  dsimp only
  cases hreq : (m.set_check_invalid_rels false).require_ok_to_modify with
  | error msg => exact Or.inl ⟨rfl, rfl⟩
  | ok u =>
    dsimp only
    have hmod : m.m_sync_state ≠ BulkDataSyncState.SYNCHRONIZED :=
      require_ok_to_modify_ok (m.set_check_invalid_rels false) hreq
    cases hgood : (m.set_check_invalid_rels false).require_good_rank_and_id ent_rank ent_id with
    | error msg => exact Or.inl ⟨rfl, rfl⟩
    | ok u =>
      cases u
      dsimp only
      have hrk : ent_rank < m.m_mesh_meta_data.entity_rank_count :=
        require_good_rank_and_id_ok (m.set_check_invalid_rels false) ent_rank ent_id hgood
      cases hcreated : ((m.set_check_invalid_rels false).internal_create_entity
          ⟨ent_rank, ent_id⟩).1.2 with
      | false =>
        obtain ⟨hsame, hvalid⟩ := internal_create_entity_existing (m.set_check_invalid_rels false)
          ⟨ent_rank, ent_id⟩ hcreated
        simp only [Bool.not_false, if_true, Bool.false_eq_true, if_false]
        rw [hsame]
        cases hown : (m.set_check_invalid_rels false).require_entity_owner
            ((m.set_check_invalid_rels false).internal_create_entity ⟨ent_rank, ent_id⟩).1.1
            (m.set_check_invalid_rels false).m_parallel_rank with
        | error msg => exact Or.inl ⟨rfl, rfl⟩
        | ok u =>
          right; left
          exact ⟨_, Prod.ext rfl hcreated, rfl, hvalid, rfl⟩
      | true =>
        right; right
        refine ⟨rfl, hmod, hrk, ?_⟩
        simp only [Bool.not_true, Bool.false_eq_true, if_false, if_true]

theorem destroy_entity_relations_of_rank_frame (entity : Entity) (irank : EntityRank) (j : Nat)
    (m : BulkData) :
    Frame m (destroy_entity_relations_of_rank entity irank j m).2 ∧
    (∀ (x : Entity) (c : ConnEntry),
      c ∈ (destroy_entity_relations_of_rank entity irank j m).2.connectivity x →
        c ∈ m.connectivity x) := by
  induction j generalizing m with
  | zero =>
    unfold destroy_entity_relations_of_rank
    exact ⟨Frame.refl m, fun _ _ h => h⟩
  | succ j ih =>
    unfold destroy_entity_relations_of_rank
    cases hget : (m.begin_entities entity irank).get? j with
    | none => exact ih m
    | some c0 =>
      dsimp only
      by_cases hv : m.is_valid c0.entity = true
      · rw [if_pos hv]
        have hd := destroy_relation_connectivity m entity c0.entity c0.ordinal
        cases hr : m.destroy_relation entity c0.entity c0.ordinal with
        | mk o m1 =>
          rw [hr] at hd
          obtain ⟨d1, d2, _⟩ := hd
          dsimp only at d1 d2
          cases o with
          | error msg => exact ⟨d1, d2⟩
          | ok b =>
            dsimp only
            obtain ⟨i1, i2⟩ := ih m1
            exact ⟨d1.trans i1, fun x c h => d2 x c (i2 x c h)⟩
      · rw [if_neg hv]
        exact ih m

theorem destroy_entity_relations_frame (entity : Entity) (ranks : List EntityRank)
    (m : BulkData) :
    Frame m (destroy_entity_relations entity ranks m).2 ∧
    (∀ (x : Entity) (c : ConnEntry),
      c ∈ (destroy_entity_relations entity ranks m).2.connectivity x → c ∈ m.connectivity x) := by
  induction ranks generalizing m with
  | nil =>
    unfold destroy_entity_relations
    exact ⟨Frame.refl m, fun _ _ h => h⟩
  | cons irank rest ih =>
    unfold destroy_entity_relations
    have hin := destroy_entity_relations_of_rank_frame entity irank
      (m.num_connectivity entity irank) m
    cases hr : destroy_entity_relations_of_rank entity irank (m.num_connectivity entity irank) m with
    | mk o m1 =>
      rw [hr] at hin
      obtain ⟨n1, n2⟩ := hin
      dsimp only at n1 n2
      cases o with
      | error msg => exact ⟨n1, n2⟩
      | ok u =>
        dsimp only
        obtain ⟨i1, i2⟩ := ih m1
        exact ⟨n1.trans i1, fun x c h => n2 x c (i2 x c h)⟩

theorem lt_of_range_end (a r cnt : Nat) (h1 : r + 1 ≤ a) (h2 : a < r + 1 + (cnt - (r + 1))) :
    a < cnt := by
  omega

/-- The ways through destroy_entity: the mesh is not modifiable and the call throws;
the entity is invalid or has a relation to a higher rank and the call returns
false; destroying a relation throws; or every relation is destroyed and the entity
removed. -/
theorem destroy_entity_cases (m : BulkData) (entity : Entity) :
    (m.m_sync_state = BulkDataSyncState.SYNCHRONIZED ∧
      (m.destroy_entity entity).1.isError = true ∧ (m.destroy_entity entity).2 = m) ∨
    (m.m_sync_state ≠ BulkDataSyncState.SYNCHRONIZED ∧
      (m.is_valid entity = false ∨
        ∃ irank, m.entity_rank entity < irank ∧ irank < m.m_mesh_meta_data.entity_rank_count ∧
          0 < m.num_connectivity entity irank) ∧
      m.destroy_entity entity = (Outcome.ok false, m.set_check_invalid_rels true)) ∨
    (m.m_sync_state ≠ BulkDataSyncState.SYNCHRONIZED ∧ m.is_valid entity = true ∧
      (∀ irank, m.entity_rank entity < irank → irank < m.m_mesh_meta_data.entity_rank_count →
        m.num_connectivity entity irank = 0) ∧
      (destroy_entity_relations entity (List.range m.m_mesh_meta_data.entity_rank_count).reverse
        (m.set_check_invalid_rels false)).1.isError = true ∧
      (m.destroy_entity entity).1.isError = true ∧
      (m.destroy_entity entity).2 = (destroy_entity_relations entity
        (List.range m.m_mesh_meta_data.entity_rank_count).reverse
        (m.set_check_invalid_rels false)).2) ∨
    (m.m_sync_state ≠ BulkDataSyncState.SYNCHRONIZED ∧ m.is_valid entity = true ∧
      (∀ irank, m.entity_rank entity < irank → irank < m.m_mesh_meta_data.entity_rank_count →
        m.num_connectivity entity irank = 0) ∧
      (destroy_entity_relations entity (List.range m.m_mesh_meta_data.entity_rank_count).reverse
        (m.set_check_invalid_rels false)).1 = Outcome.ok () ∧
      m.destroy_entity entity = (Outcome.ok true,
        (destroy_entity_relations entity (List.range m.m_mesh_meta_data.entity_rank_count).reverse
          (m.set_check_invalid_rels false)).2.destroy_entity_remove entity)) := by
  unfold destroy_entity
  cases hreq : m.require_ok_to_modify with
  | error msg =>
    left
    refine ⟨?_, rfl, rfl⟩
    by_contra hne
    unfold require_ok_to_modify at hreq
    rw [if_pos hne] at hreq
    exact Outcome.noConfusion hreq
  | ok u =>
    right
    have hmod := require_ok_to_modify_ok m hreq
    dsimp only
    have hany : ((List.range' (m.entity_rank entity + 1)
        (m.m_mesh_meta_data.entity_rank_count - (m.entity_rank entity + 1))).any
        (fun irank => decide (0 < m.num_connectivity entity irank)) = true) ↔
        ∃ irank, m.entity_rank entity < irank ∧ irank < m.m_mesh_meta_data.entity_rank_count ∧
          0 < m.num_connectivity entity irank := by
      rw [List.any_eq_true]
      constructor
      · rintro ⟨irank, hmem, hpos⟩
        rw [List.mem_range'_1] at hmem
        refine ⟨irank, hmem.1, ?_, by simpa using hpos⟩
        exact lt_of_range_end _ _ _ hmem.1 hmem.2
      · rintro ⟨irank, h1, h2, h3⟩
        refine ⟨irank, ?_, decide_eq_true h3⟩
        rw [List.mem_range'_1]
        exact ⟨h1, lt_range_end _ _ _ h2⟩
    by_cases hv : (!(m.set_check_invalid_rels false).is_valid entity) = true
    · rw [if_pos hv]
      left
      refine ⟨hmod, Or.inl ?_, rfl⟩
      have : (m.set_check_invalid_rels false).is_valid entity = m.is_valid entity := rfl
      rw [this] at hv
      simpa using hv
    · rw [if_neg hv]
      have hvalid : m.is_valid entity = true := by
        have : (m.set_check_invalid_rels false).is_valid entity = m.is_valid entity := rfl
        rw [this] at hv
        simpa using hv
      by_cases hhigh : (List.range' ((m.set_check_invalid_rels false).entity_rank entity + 1)
          ((m.set_check_invalid_rels false).m_mesh_meta_data.entity_rank_count
            - ((m.set_check_invalid_rels false).entity_rank entity + 1))).any
          (fun irank => decide (0 < (m.set_check_invalid_rels false).num_connectivity entity irank))
            = true
      · rw [if_pos hhigh]
        left
        exact ⟨hmod, Or.inr (hany.1 hhigh), rfl⟩
      · rw [if_neg hhigh]
        right
        have hnone : ∀ irank, m.entity_rank entity < irank →
            irank < m.m_mesh_meta_data.entity_rank_count →
            m.num_connectivity entity irank = 0 := by
          intro irank h1 h2
          by_contra h3
          exact hhigh (hany.2 ⟨irank, h1, h2, Nat.pos_of_ne_zero h3⟩)
        cases hr : destroy_entity_relations entity
            (List.range (m.set_check_invalid_rels false).m_mesh_meta_data.entity_rank_count).reverse
            (m.set_check_invalid_rels false) with
        | mk o m1 =>
          have hr2 : destroy_entity_relations entity
              (List.range m.m_mesh_meta_data.entity_rank_count).reverse
              (m.set_check_invalid_rels false) = (o, m1) := hr
          rw [hr2]
          cases o with
          | error msg =>
            left
            exact ⟨hmod, hvalid, hnone, rfl, rfl, rfl⟩
          | ok u =>
            right
            exact ⟨hmod, hvalid, hnone, rfl, rfl⟩

theorem get_entity_none_of_allocated (m : BulkData) (key : EntityKey) (h : OffsetsConsistent m)
    (hc : (m.internal_create_entity key).1.2 = true) :
    m.get_entity key = none ∧ ∀ p ∈ m.m_entity_repo, p.1 ≠ key := by
  have hnone : m.get_entity key = none := by
    cases hget : m.get_entity key with
    | none => rfl
    | some e =>
      exfalso
      unfold get_entity at hget
      cases hfind : m.m_entity_repo.find? (fun p => p.1 == key) with
      | none => rw [hfind] at hget; exact Option.noConfusion hget
      | some p =>
        rw [hfind] at hget
        have hp := List.mem_of_find?_eq_some hfind
        have hv := (h.repo_valid p hp).2
        have he : p.2 = e := Option.some.inj hget
        rw [he] at hv
        unfold internal_create_entity at hc
        unfold get_entity at hc
        rw [hfind] at hc
        dsimp only [Option.map] at hc
        rw [he, if_pos hv] at hc
        exact Bool.noConfusion hc
  refine ⟨hnone, ?_⟩
  intro p hp heq
  unfold get_entity at hnone
  cases hfind : m.m_entity_repo.find? (fun p => p.1 == key) with
  | none =>
    rw [List.find?_eq_none] at hfind
    have := hfind p hp
    simp [heq] at this
  | some q => rw [hfind] at hnone; exact Option.noConfusion hnone

/-- What internal_create_entity does on a mesh with consistent offsets when it
allocates: the offset comes from generate_next_local_offset, was not valid, and now
holds the key, the state Created and the null mesh index; the entity map has the
new entry; every other slot is unchanged. -/
theorem internal_create_entity_spec (m : BulkData) (key : EntityKey) (h : OffsetsConsistent m)
    (hc : (m.internal_create_entity key).1.2 = true) :
    (m.internal_create_entity key).1.1 = m.generate_next_local_offset.1 ∧
    m.is_valid (m.internal_create_entity key).1.1 = false ∧
    (m.internal_create_entity key).1.1 ≠ 0 ∧
    OffsetsConsistent (m.internal_create_entity key).2 ∧
    (∀ x, (m.internal_create_entity key).2.state x
      = if x = (m.internal_create_entity key).1.1 then EntityState.Created else m.state x) ∧
    (∀ x, (m.internal_create_entity key).2.entity_key x
      = if x = (m.internal_create_entity key).1.1 then key else m.entity_key x) ∧
    (∀ x, (m.internal_create_entity key).2.mesh_index x
      = if x = (m.internal_create_entity key).1.1 then none else m.mesh_index x) ∧
    (∀ x, (m.internal_create_entity key).2.is_valid x
      = (m.is_valid x || decide (x = (m.internal_create_entity key).1.1))) ∧
    (m.internal_create_entity key).2.m_entity_repo
      = m.m_entity_repo ++ [(key, (m.internal_create_entity key).1.1)] ∧
    (m.internal_create_entity key).2.m_deleted_entities = m.m_deleted_entities.tail ∧
    (∃ idx keys states counts repo, (m.internal_create_entity key).2 =
      { m with
        m_deleted_entities := m.m_deleted_entities.tail
        m_mesh_indexes := idx
        m_entity_keys := keys
        m_entity_states := states
        m_entity_sync_counts := counts
        m_entity_repo := repo }) := by
  obtain ⟨hnone, hfresh⟩ := get_entity_none_of_allocated m key h hc
  obtain ⟨hinv, hne0, hwhere, hlt, hle, hai, hak, hst, hkey, hidx, hval, hshape⟩ :=
    generate_next_local_offset_spec m h
  have hg := generate_next_local_offset_offsets_consistent m h
  obtain ⟨idx, keys, states, counts, hshape⟩ := hshape
  have hfilter : m.m_entity_repo.filter (fun p => !(p.1 == key)) = m.m_entity_repo := by
    rw [List.filter_eq_self]
    intro p hp
    have := hfresh p hp
    simp [this]
  have hres : m.internal_create_entity key =
      ((m.generate_next_local_offset.1, true),
        { m.generate_next_local_offset.2.set_entity_key m.generate_next_local_offset.1 key with
          m_entity_repo := m.m_entity_repo ++ [(key, m.generate_next_local_offset.1)] }) := by
    unfold internal_create_entity
    rw [hnone]
    dsimp only
    have hrepo : (m.generate_next_local_offset.2.set_entity_key
        m.generate_next_local_offset.1 key).m_entity_repo = m.m_entity_repo := by
      show m.generate_next_local_offset.2.m_entity_repo = m.m_entity_repo
      rw [hshape]
    rw [hrepo, hfilter]
  rw [hres]
  dsimp only
  generalize m.generate_next_local_offset.1 = o at *
  generalize m.generate_next_local_offset.2 = g at *
  have hltk : o < g.m_entity_keys.length := by rw [hak]; exact hlt
  have hkey' : ∀ x, ({ g.set_entity_key o key with
      m_entity_repo := m.m_entity_repo ++ [(key, o)] } : BulkData).entity_key x
      = if x = o then key else m.entity_key x := by
    intro x
    show (g.m_entity_keys.set o key).getD x EntityKey.invalid_key = _
    rw [getD_set _ _ _ _ _ hltk]
    by_cases hx : x = o
    · rw [if_pos hx, if_pos hx]
    · rw [if_neg hx, if_neg hx]
      have := hkey x
      rw [if_neg hx] at this
      exact this
  have hval' : ∀ x, ({ g.set_entity_key o key with
      m_entity_repo := m.m_entity_repo ++ [(key, o)] } : BulkData).is_valid x
      = (m.is_valid x || decide (x = o)) := fun x => hval x
  refine ⟨rfl, hinv, hne0, ?_, hst, hkey', hidx, hval', rfl, ?_, ?_⟩
  · refine ⟨hg.aligned_indexes, ?_, hg.nonempty, hg.reserved_state, ?_, ?_, hg.free_deleted,
      hg.free_nonzero, hg.free_nodup⟩
    · show (g.m_entity_keys.set o key).length = g.m_entity_states.length
      rw [List.length_set]; exact hak
    · rw [hkey' 0, if_neg (fun h0 => hne0 h0.symm)]; exact h.reserved_key
    · intro p hp
      have hp2 : p ∈ m.m_entity_repo ++ [(key, o)] := hp
      rcases List.mem_append.1 hp2 with h1 | h1
      · obtain ⟨hk, hv⟩ := h.repo_valid p h1
        have hpne : p.2 ≠ o := by
          intro heq; rw [heq, hinv] at hv; exact Bool.noConfusion hv
        rw [hkey' p.2, if_neg hpne, hval' p.2, hv]
        exact ⟨hk, rfl⟩
      · have hpe : p = (key, o) := by simpa using h1
        rw [hpe]
        dsimp only
        rw [hkey' o, if_pos rfl, hval' o]
        simp
  · show g.m_deleted_entities = _
    rw [hshape]
  · refine ⟨idx, keys.set o key, states, counts, m.m_entity_repo ++ [(key, o)], ?_⟩
    rw [hshape]
    rfl

theorem declare_entity_offsets_consistent (m : BulkData) (ent_rank : EntityRank)
    (ent_id : EntityId) (parts : List PartOrdinal) (h : OffsetsConsistent m) :
    OffsetsConsistent (m.declare_entity ent_rank ent_id parts).2 := by
  have h0 : OffsetsConsistent (m.set_check_invalid_rels false) :=
    offsets_consistent_of_frame h (check_flag_frame m false).1
  rcases declare_entity_cases m ent_rank ent_id parts with hc | hc | hc
  · rw [hc.2]; exact h0
  · obtain ⟨e, _, _, _, hr⟩ := hc
    rw [hr]
    exact offsets_consistent_of_frame h0
      ((change_entity_parts_spec _ _ _ _).1.trans (check_flag_frame _ true).1)
  · obtain ⟨hcr, _, _, hr⟩ := hc
    rw [hr]
    have h1 := (internal_create_entity_spec _ ⟨ent_rank, ent_id⟩ h0 hcr).2.2.2.1
    exact offsets_consistent_of_frame h1
      ((((change_entity_parts_spec _ _ _ _).1.trans (set_parallel_owner_rank_spec _ _ _).1).trans
        (set_synchronized_count_frame _ _ _).1).trans (check_flag_frame _ true).1)

theorem state_set_deleted (m m' : BulkData) (entity : Entity)
    (h : m'.m_entity_states = m.m_entity_states.set entity EntityState.Deleted) (x : Entity) :
    m'.state x = if x = entity then EntityState.Deleted else m.state x := by
  unfold BulkData.state
  rw [h]
  by_cases hx : x = entity
  · rw [if_pos hx, hx]
    by_cases hlt : entity < m.m_entity_states.length
    · exact getD_set_same _ _ _ _ hlt
    · exact getD_of_length_le _ _ _ (by rw [List.length_set]; exact Nat.le_of_not_lt hlt)
  · rw [if_neg hx]
    exact getD_set_other _ _ _ _ _ (fun h => hx h.symm)

theorem destroy_entity_remove_offsets_consistent (m : BulkData) (entity : Entity)
    (h : OffsetsConsistent m) (hv : m.is_valid entity = true) :
    OffsetsConsistent (m.destroy_entity_remove entity) := by
  obtain ⟨r1, r2, r3, r4, _, _, r7, r8⟩ := destroy_entity_remove_fields m entity
  have hst := state_set_deleted m _ entity r2
  have hval := is_valid_set_deleted m _ entity r2
  have hkey := entity_key_congr r3
  obtain ⟨hlt, hnd⟩ := (is_valid_iff m entity).1 hv
  have hne0 : entity ≠ 0 := by
    intro h0; rw [h0] at hnd; exact hnd h.reserved_state
  have hnotin : entity ∉ m.m_deleted_entities ++ m.m_deleted_entities_current_modification_cycle :=
    fun hin => hnd (h.free_deleted entity hin).2
  have hmem : ∀ o, o ∈ (m.destroy_entity_remove entity).m_deleted_entities ++
      (m.destroy_entity_remove entity).m_deleted_entities_current_modification_cycle →
      o = entity ∨ o ∈ m.m_deleted_entities ++ m.m_deleted_entities_current_modification_cycle := by
    intro o ho
    rw [r4, r8] at ho
    simp only [List.mem_append, List.mem_cons] at ho ⊢
    tauto
  refine ⟨?_, ?_, ?_, ?_, ?_, ?_, ?_, ?_, ?_⟩
  · rw [r1, r2, List.length_set, List.length_set]; exact h.aligned_indexes
  · rw [r3, r2, List.length_set]; exact h.aligned_keys
  · rw [r2, List.length_set]; exact h.nonempty
  · rw [hst 0, if_neg (fun h0 => hne0 h0.symm)]; exact h.reserved_state
  · rw [hkey]; exact h.reserved_key
  · intro p hp
    rw [r7] at hp
    obtain ⟨h1, h2⟩ := List.mem_filter.1 hp
    obtain ⟨hk, hvp⟩ := h.repo_valid p h1
    have hpne : p.2 ≠ entity := by
      intro heq
      rw [heq] at hk
      rw [hk] at h2
      simp at h2
    rw [hkey, hval, hvp]
    exact ⟨hk, by simp [hpne]⟩
  · intro o ho
    rw [r2, List.length_set]
    rcases hmem o ho with h1 | h1
    · rw [h1, hst entity, if_pos rfl]; exact ⟨hlt, rfl⟩
    · refine ⟨(h.free_deleted o h1).1, ?_⟩
      rw [hst o]
      by_cases hx : o = entity
      · rw [if_pos hx]
      · rw [if_neg hx]; exact (h.free_deleted o h1).2
  · intro o ho
    rcases hmem o ho with h1 | h1
    · rw [h1]; exact hne0
    · exact h.free_nonzero o h1
  · rw [r4, r8, List.nodup_middle, List.nodup_cons]
    exact ⟨hnotin, h.free_nodup⟩

theorem destroy_entity_offsets_consistent (m : BulkData) (entity : Entity)
    (h : OffsetsConsistent m) : OffsetsConsistent (m.destroy_entity entity).2 := by
  have hloop : Frame m (destroy_entity_relations entity
      (List.range m.m_mesh_meta_data.entity_rank_count).reverse
      (m.set_check_invalid_rels false)).2 :=
    (check_flag_frame m false).1.trans (destroy_entity_relations_frame _ _ _).1
  rcases destroy_entity_cases m entity with hc | hc | hc | hc
  · rw [hc.2.2]; exact h
  · rw [hc.2.2]; exact offsets_consistent_of_frame h (check_flag_frame m true).1
  · rw [hc.2.2.2.2.2]
    exact offsets_consistent_of_frame h hloop
  · obtain ⟨_, hv, _, _, hr⟩ := hc
    rw [hr]
    apply destroy_entity_remove_offsets_consistent _ _ (offsets_consistent_of_frame h hloop)
    rw [hloop.is_valid]; exact hv

theorem declare_relation_frame (m : BulkData) (e_from e_to : Entity)
    (local_id : RelationIdentifier) (permut : Permutation) :
    Frame m (m.declare_relation e_from e_to local_id permut).2 := by
  obtain ⟨_, _, _, hview, _⟩ := declare_relation_outcome m e_from e_to local_id permut
  exact hview.1

theorem declare_relation_loop_frame (entity : Entity) (erank : EntityRank)
    (rel : List Relation) (m : BulkData) :
    Frame m (declare_relation_loop entity erank rel m).2 := by
  induction rel generalizing m with
  | nil => exact Frame.refl m
  | cons i rest ih =>
    unfold declare_relation_loop
    dsimp only
    split
    · have hd := declare_relation_frame m entity i.entity i.relation_ordinal i.orientation
      cases hr : m.declare_relation entity i.entity i.relation_ordinal i.orientation with
      | mk o m1 =>
        rw [hr] at hd
        cases o with
        | error msg => exact hd
        | ok u => exact hd.trans (ih m1)
    · split
      · have hd := declare_relation_frame m i.entity entity i.relation_ordinal i.orientation
        cases hr : m.declare_relation i.entity entity i.relation_ordinal i.orientation with
        | mk o m1 =>
          rw [hr] at hd
          cases o with
          | error msg => exact hd
          | ok u => exact hd.trans (ih m1)
      · exact Frame.refl m

theorem declare_relation_vector_frame (m : BulkData) (entity : Entity) (rel : List Relation) :
    Frame m (m.declare_relation_vector entity rel).2 := by
  unfold declare_relation_vector
  cases m.require_ok_to_modify with
  | error msg => exact Frame.refl m
  | ok u => exact declare_relation_loop_frame _ _ _ _

/-- Every reachable mesh has consistent offsets. -/
theorem reachable_offsets_consistent (m : BulkData) (h : ReachableOffsets m) :
    OffsetsConsistent m := by
  induction h with
  | construct meta cmap parallel_size parallel_rank consistent assertions =>
    exact construct_offsets_consistent _ _ _ _ _ _
  | modification_begin m _ ih => exact modification_begin_offsets_consistent m ih
  | modification_end m _ ih => exact modification_end_offsets_consistent m ih
  | update_deleted_entities_container m _ ih =>
    exact update_deleted_entities_container_offsets_consistent m ih
  | generate_next_local_offset m _ ih => exact generate_next_local_offset_offsets_consistent m ih
  | declare_entity m ent_rank ent_id parts _ ih =>
    exact declare_entity_offsets_consistent m ent_rank ent_id parts ih
  | declare_relation m e_from e_to local_id permut _ ih =>
    exact offsets_consistent_of_frame ih (declare_relation_frame _ _ _ _ _)
  | declare_relation_vector m entity rel _ ih =>
    exact offsets_consistent_of_frame ih (declare_relation_vector_frame _ _ _)
  | destroy_relation m e_from e_to local_id _ ih =>
    exact offsets_consistent_of_frame ih (destroy_relation_connectivity _ _ _ _).1
  | destroy_entity m entity _ ih => exact destroy_entity_offsets_consistent m entity ih

/-! ## The states of the endpoints -/

theorem flood_both (m : BulkData) (a b : Entity) :
    Flooded m ((m.modified a).modified b) ∧
    ((m.modified a).modified b).state a ≠ EntityState.Unchanged ∧
    ((m.modified a).modified b).state b ≠ EntityState.Unchanged := by
  obtain ⟨h1, h2⟩ := modified_flooded m a
  obtain ⟨h3, h4⟩ := modified_flooded (m.modified a) b
  exact ⟨flooded_trans h1 h3, h3.state_ne a h2, h4⟩

theorem Flooded.state_of_marked {m m' : BulkData} (h : Flooded m m') (x : Entity)
    (hx : m'.state x ≠ EntityState.Unchanged) :
    m'.state x = if m.state x = EntityState.Unchanged then EntityState.Modified
      else m.state x := by
  rcases h.mono x with h1 | h1
  · rw [h1] at hx
    rw [if_neg hx, h1]
  · rw [if_pos h1.1, h1.2]

/-- C13 (counterexample): the element and the node of the example are declared in
the running cycle, so both are Created; declare_relation adds the new edge between
them and returns normally, and afterwards both are still Created, not Modified. -/
theorem C13_counterexample :
    scenario_two_entities.connectivity 1 = [] ∧
    (scenario_two_entities.declare_relation 1 2 0 0).1 = Outcome.ok () ∧
    (scenario_two_entities.declare_relation 1 2 0 0).2.connectivity 1 = [⟨0, 2, 0, 0⟩] ∧
    (scenario_two_entities.declare_relation 1 2 0 0).2.state 1 = EntityState.Created ∧
    (scenario_two_entities.declare_relation 1 2 0 0).2.state 2 = EntityState.Created := by
  decide

/-- C13 (amended): after a declare_relation that returns normally and adds an edge
that `from` did not hold, and after a destroy_relation that returns true, an
endpoint that was Unchanged is Modified and an endpoint in any other state (Created
or Modified) keeps that state; so neither `from` nor `to` is Unchanged. -/
theorem C13_endpoints_marked (m : BulkData) (e_from e_to : Entity)
    (local_id : RelationIdentifier) (permut : Permutation) :
    ((m.declare_relation e_from e_to local_id permut).1 = Outcome.ok () →
      (∀ c ∈ m.connectivity e_from, ¬ holds_relation m e_to local_id c) →
      ∀ x : Entity, x = e_from ∨ x = e_to →
        (m.declare_relation e_from e_to local_id permut).2.state x ≠ EntityState.Unchanged ∧
        (m.declare_relation e_from e_to local_id permut).2.state x
          = if m.state x = EntityState.Unchanged then EntityState.Modified else m.state x) ∧
    ((m.destroy_relation e_from e_to local_id).1 = Outcome.ok true →
      ∀ x : Entity, x = e_from ∨ x = e_to →
        (m.destroy_relation e_from e_to local_id).2.state x ≠ EntityState.Unchanged ∧
        (m.destroy_relation e_from e_to local_id).2.state x
          = if m.state x = EntityState.Unchanged then EntityState.Modified else m.state x) := by
  constructor
  · intro hok hnew x hx
    obtain ⟨m2, caused, hs2, _, _, hst, hcaused, _⟩ := declare_relation_flood m e_from e_to
      local_id permut
    have hc := hcaused hok hnew
    rw [hc, if_pos rfl] at hst
    obtain ⟨hfl, hto, hfrom⟩ := flood_both m2 e_to e_from
    have hne : ((m2.modified e_to).modified e_from).state x ≠ EntityState.Unchanged := by
      rcases hx with hx | hx
      · rw [hx]; exact hfrom
      · rw [hx]; exact hto
    rw [state_congr hst x, ← state_congr hs2 x]
    exact ⟨hne, hfl.state_of_marked x hne⟩
  · intro hok x hx
    obtain ⟨m4, fwd, hs4, _, _, hst, hfwd, _⟩ := destroy_relation_flood m e_from e_to local_id
    have hc := hfwd hok
    rw [hc, if_pos rfl] at hst
    obtain ⟨hfl, hto, hfrom⟩ := flood_both m4 e_to e_from
    have hne : ((m4.modified e_to).modified e_from).state x ≠ EntityState.Unchanged := by
      rcases hx with hx | hx
      · rw [hx]; exact hfrom
      · rw [hx]; exact hto
    rw [state_congr hst x, ← state_congr hs4 x]
    exact ⟨hne, hfl.state_of_marked x hne⟩

theorem C13_witness :
    (scenario_second_cycle.declare_relation 1 2 0 0).1 = Outcome.ok () ∧
    scenario_second_cycle.connectivity 1 = [] ∧
    scenario_second_cycle.state 1 = EntityState.Unchanged ∧
    scenario_second_cycle.state 2 = EntityState.Unchanged ∧
    (scenario_second_cycle.declare_relation 1 2 0 0).2.state 1 = EntityState.Modified ∧
    (scenario_second_cycle.declare_relation 1 2 0 0).2.state 2 = EntityState.Modified ∧
    (scenario_related.destroy_relation 1 2 0).1 = Outcome.ok true ∧
    (scenario_related.destroy_relation 1 2 0).2.state 2 ≠ EntityState.Unchanged :=
  have hconn : scenario_second_cycle.connectivity 1 = [] := by decide
  have hnew : ∀ c ∈ scenario_second_cycle.connectivity 1,
      ¬ holds_relation scenario_second_cycle 2 0 c := by
    intro c hc; rw [hconn] at hc; exact absurd hc (List.not_mem_nil c)
  have h1 : scenario_second_cycle.state 1 = EntityState.Unchanged := by decide
  have h2 : scenario_second_cycle.state 2 = EntityState.Unchanged := by decide
  ⟨by decide, hconn, h1, h2,
    by
      have h := ((C13_endpoints_marked scenario_second_cycle 1 2 0 0).1 (by decide) hnew 1
        (Or.inl rfl)).2
      rw [h1, if_pos rfl] at h
      exact h,
    by
      have h := ((C13_endpoints_marked scenario_second_cycle 1 2 0 0).1 (by decide) hnew 2
        (Or.inr rfl)).2
      rw [h2, if_pos rfl] at h
      exact h,
    by decide,
    ((C13_endpoints_marked scenario_related 1 2 0 0).2 (by decide) 2 (Or.inr rfl)).1⟩

/-! ## The invariant of the entity states -/

theorem flood_edge_of_same {m m' : BulkData}
    (hconn : ∀ x, m'.connectivity x = m.connectivity x)
    (hkeys : m'.m_entity_keys = m.m_entity_keys)
    (hcount : m'.m_mesh_meta_data.entity_rank_count = m.m_mesh_meta_data.entity_rank_count)
    (x : Entity) (c : ConnEntry) : flood_edge m' x c ↔ flood_edge m x c := by
  unfold flood_edge entity_rank
  rw [hconn x, entity_key_congr hkeys, hcount]

theorem propagated_of_same_shape {m m' : BulkData} (h : Propagated m)
    (hidx : m'.m_mesh_indexes = m.m_mesh_indexes)
    (hkeys : m'.m_entity_keys = m.m_entity_keys)
    (hrepo : m'.m_entity_repo = m.m_entity_repo)
    (hcount : m'.m_mesh_meta_data.entity_rank_count = m.m_mesh_meta_data.entity_rank_count)
    (hstates : m'.m_entity_states = m.m_entity_states) : Propagated m' := by
  have hacc := fun x => accessors_of_indexes_eq hidx x
  have hval : ∀ e, m'.is_valid e = m.is_valid e := by
    intro e; unfold BulkData.is_valid BulkData.state; rw [hstates]
  have hst := state_congr hstates
  refine ⟨?_, ?_, ?_, ?_⟩
  · intro e he
    rw [(hacc e).1] at he
    rw [hval]; exact h.slot_valid e he
  · intro e he
    rw [hval] at he
    rw [hrepo]; exact h.in_repo e he
  · rw [hrepo]; exact h.keys_nodup
  · intro x c hedge hx
    rw [flood_edge_of_same (fun x => (hacc x).2.2) hkeys hcount] at hedge
    rw [hst] at hx ⊢
    exact h.closed x c hedge hx

theorem construct_propagated (meta : MetaData) (cmap : ConnectivityMap)
    (parallel_size parallel_rank : Nat) (consistent assertions : Bool) :
    Propagated (construct meta cmap parallel_size parallel_rank consistent assertions) := by
  have hidx : ∀ e, (construct meta cmap parallel_size parallel_rank consistent assertions).mesh_index e
      = none := by
    intro e
    cases e with
    | zero => rfl
    | succ n => rfl
  have hval : ∀ e, (construct meta cmap parallel_size parallel_rank consistent assertions).is_valid e
      = false := by
    intro e
    cases e with
    | zero => rfl
    | succ n =>
      simp [is_valid, construct, initialize_arrays]
  refine ⟨?_, ?_, List.nodup_nil, ?_⟩
  · intro e he; rw [hidx e] at he; exact Bool.noConfusion he
  · intro e he; rw [hval e] at he; exact Bool.noConfusion he
  · intro x c hedge
    have hc := hedge.1
    unfold connectivity at hc
    rw [hidx x] at hc
    exact absurd hc (List.not_mem_nil _)

theorem mesh_index_some_of_mem_connectivity (m : BulkData) (x : Entity) (c : ConnEntry)
    (h : c ∈ m.connectivity x) : (m.mesh_index x).isSome = true := by
  unfold connectivity at h
  cases hx : m.mesh_index x with
  | none => rw [hx] at h; exact absurd h (List.not_mem_nil _)
  | some idx => rfl

theorem modification_begin_propagated (m : BulkData) (ho : OffsetsConsistent m)
    (h : Propagated m) : Propagated m.modification_begin.2 := by
  obtain ⟨h1, h2, h3, _, _, _, h7, _, h9⟩ := modification_begin_shape m
  rcases h9 with hs | hs
  · exact propagated_of_same_shape h h1 h2 h3 h7 hs
  · have hacc := fun x => accessors_of_indexes_eq h1 x
    have hdel : ∀ e : Entity, m.modification_begin.2.state e = EntityState.Deleted ↔
        m.state e = EntityState.Deleted := by
      intro e
      unfold BulkData.state at *
      rw [hs]
      exact reset_deleted_iff m (fun p hp => (ho.repo_valid p hp).2) e
    have hlen : m.modification_begin.2.m_entity_states.length = m.m_entity_states.length := by
      rw [hs]; exact reset_entity_states_length _ _
    have hval := is_valid_congr hlen hdel
    refine ⟨?_, ?_, ?_, ?_⟩
    · intro e he
      rw [(hacc e).1] at he
      rw [hval]; exact h.slot_valid e he
    · intro e he
      rw [hval] at he
      rw [h3]; exact h.in_repo e he
    · rw [h3]; exact h.keys_nodup
    · intro x c hedge hx
      exfalso
      apply hx
      have hc : c ∈ m.connectivity x := by rw [← (hacc x).2.2]; exact hedge.1
      have hv := h.slot_valid x (mesh_index_some_of_mem_connectivity m x c hc)
      have hin := h.in_repo x hv
      unfold BulkData.state
      rw [hs, reset_entity_states_getD, if_pos ⟨hin, lt_length_of_is_valid m x hv⟩]

theorem modification_end_propagated (m : BulkData) (h : Propagated m) :
    Propagated m.modification_end :=
  propagated_of_same_shape h rfl rfl rfl rfl rfl

theorem update_deleted_entities_container_propagated (m : BulkData) (h : Propagated m) :
    Propagated m.update_deleted_entities_container :=
  propagated_of_same_shape h rfl rfl rfl rfl rfl

theorem declare_relation_propagated (m : BulkData) (e_from e_to : Entity)
    (local_id : RelationIdentifier) (permut : Permutation) (h : Propagated m) :
    Propagated (m.declare_relation e_from e_to local_id permut).2 := by
  obtain ⟨fwd, inv, prt, hview, hfacts⟩ := declare_relation_outcome m e_from e_to local_id permut
  obtain ⟨hf, _, _, hsome⟩ := hview
  obtain ⟨_, f2, _, _, _, _⟩ := hfacts
  obtain ⟨m2, caused, hs2, hf2, hc2, hst, _, hent⟩ := declare_relation_flood m e_from e_to
    local_id permut
  refine ⟨?_, ?_, ?_, ?_⟩
  · intro e he
    rw [hsome e] at he
    rw [hf.is_valid]
    cases hm : (m.mesh_index e).isSome with
    | true => exact h.slot_valid e hm
    | false =>
      rw [hm, Bool.false_or, Bool.and_eq_true, decide_eq_true_eq] at he
      rw [he.2.1]
      exact (f2 (Or.inr he.1)).2.2.2
  · intro e he
    rw [hf.is_valid] at he
    rw [hf.repo]; exact h.in_repo e he
  · rw [hf.repo]; exact h.keys_nodup
  · intro x c hedge hx
    obtain ⟨hc, hr1, hr2⟩ := hedge
    rw [hc2 x] at hc
    rw [hf.entity_rank] at hr1
    rw [hf.meta] at hr2
    rw [state_congr hst] at hx ⊢
    have hold : c ∈ m.connectivity x → m.state x ≠ EntityState.Unchanged →
        m.state c.entity ≠ EntityState.Unchanged :=
      fun h1 h2 => h.closed x c ⟨h1, hr1, hr2⟩ h2
    cases caused with
    | false =>
      simp only [Bool.false_eq_true, if_false] at hx ⊢
      rw [state_congr hs2] at hx ⊢
      rcases hent x c hc with h1 | h1 | h1
      · exact hold h1 hx
      · exact absurd h1 (Nat.lt_asymm hr1)
      · exact absurd h1.1 (by simp)
    | true =>
      simp only [if_true] at hx ⊢
      obtain ⟨hfl, _, hfrom⟩ := flood_both m2 e_to e_from
      by_cases hx2 : m2.state x = EntityState.Unchanged
      · have hmod : ((m2.modified e_to).modified e_from).state x = EntityState.Modified := by
          rcases hfl.mono x with h1 | h1
          · rw [h1] at hx; exact absurd hx2 hx
          · exact h1.2
        apply hfl.closed x c hx2 hmod
        refine ⟨hc, ?_, ?_⟩
        · rw [hf2.entity_rank]; exact hr1
        · rw [hf2.meta]; exact hr2
      · rcases hent x c hc with h1 | h1 | h1
        · apply hfl.state_ne
          rw [state_congr hs2] at hx2 ⊢
          exact hold h1 hx2
        · exact absurd h1 (Nat.lt_asymm hr1)
        · rw [h1.2]; exact hfrom

theorem destroy_relation_propagated (m : BulkData) (e_from e_to : Entity)
    (local_id : RelationIdentifier) (h : Propagated m) :
    Propagated (m.destroy_relation e_from e_to local_id).2 := by
  obtain ⟨chk, prt, fwd, hview, hfacts⟩ := destroy_relation_outcome m e_from e_to local_id
  obtain ⟨hf, _, _, hsome⟩ := hview
  obtain ⟨f1, _, f3, _, _, _⟩ := hfacts
  obtain ⟨m4, caused, hs4, hf4, hc4, hst, _, hent⟩ := destroy_relation_flood m e_from e_to local_id
  refine ⟨?_, ?_, ?_, ?_⟩
  · intro e he
    rw [hsome e] at he
    rw [hf.is_valid]
    cases hm : (m.mesh_index e).isSome with
    | true => exact h.slot_valid e hm
    | false =>
      rw [hm, Bool.false_or, Bool.and_eq_true, decide_eq_true_eq] at he
      rw [he.2.1]
      exact (f1.1 (f3.1 he.1).1).2.2.2
  · intro e he
    rw [hf.is_valid] at he
    rw [hf.repo]; exact h.in_repo e he
  · rw [hf.repo]; exact h.keys_nodup
  · intro x c hedge hx
    obtain ⟨hc, hr1, hr2⟩ := hedge
    rw [hc4 x] at hc
    rw [hf.entity_rank] at hr1
    rw [hf.meta] at hr2
    rw [state_congr hst] at hx ⊢
    have hold : m.state x ≠ EntityState.Unchanged → m.state c.entity ≠ EntityState.Unchanged :=
      fun h2 => h.closed x c ⟨hent x c hc, hr1, hr2⟩ h2
    cases caused with
    | false =>
      simp only [Bool.false_eq_true, if_false] at hx ⊢
      rw [state_congr hs4] at hx ⊢
      exact hold hx
    | true =>
      simp only [if_true] at hx ⊢
      obtain ⟨hfl, _, _⟩ := flood_both m4 e_to e_from
      by_cases hx2 : m4.state x = EntityState.Unchanged
      · have hmod : ((m4.modified e_to).modified e_from).state x = EntityState.Modified := by
          rcases hfl.mono x with h1 | h1
          · rw [h1] at hx; exact absurd hx2 hx
          · exact h1.2
        apply hfl.closed x c hx2 hmod
        refine ⟨hc, ?_, ?_⟩
        · rw [hf4.entity_rank]; exact hr1
        · rw [hf4.meta]; exact hr2
      · apply hfl.state_ne
        rw [state_congr hs4] at hx2 ⊢
        exact hold hx2

theorem declare_relation_loop_propagated (entity : Entity) (erank : EntityRank)
    (rel : List Relation) (m : BulkData) (h : Propagated m) :
    Propagated (declare_relation_loop entity erank rel m).2 := by
  induction rel generalizing m with
  | nil => exact h
  | cons i rest ih =>
    unfold declare_relation_loop
    dsimp only
    split
    · have hd := declare_relation_propagated m entity i.entity i.relation_ordinal i.orientation h
      cases hr : m.declare_relation entity i.entity i.relation_ordinal i.orientation with
      | mk o m1 =>
        rw [hr] at hd
        cases o with
        | error msg => exact hd
        | ok u => exact ih m1 hd
    · split
      · have hd := declare_relation_propagated m i.entity entity i.relation_ordinal i.orientation h
        cases hr : m.declare_relation i.entity entity i.relation_ordinal i.orientation with
        | mk o m1 =>
          rw [hr] at hd
          cases o with
          | error msg => exact hd
          | ok u => exact ih m1 hd
      · exact h

theorem declare_relation_vector_propagated (m : BulkData) (entity : Entity) (rel : List Relation)
    (h : Propagated m) : Propagated (m.declare_relation_vector entity rel).2 := by
  unfold declare_relation_vector
  cases m.require_ok_to_modify with
  | error msg => exact h
  | ok u => exact declare_relation_loop_propagated _ _ _ _ h

theorem change_entity_parts_states (m : BulkData) (e : Entity)
    (add_parts remove_parts : List PartOrdinal) :
    (m.change_entity_parts e add_parts remove_parts).m_entity_states = m.m_entity_states := by
  unfold change_entity_parts
  exact internal_change_entity_parts_states _ _ _ _

theorem set_parallel_owner_rank_states (m : BulkData) (e : Entity) (owner : Nat) :
    (m.set_parallel_owner_rank e owner).m_entity_states = m.m_entity_states := by
  unfold set_parallel_owner_rank
  cases m.mesh_index e <;> rfl

/-- The invariant of the states carries over to a mesh with the same connectivity,
keys, entity map, rank count and states in which only valid entities are in a
bucket. -/
theorem propagated_of_same_relations {m m' : BulkData} (h : Propagated m) (hf : Frame m m')
    (hconn : ∀ x, m'.connectivity x = m.connectivity x)
    (hstates : m'.m_entity_states = m.m_entity_states)
    (hsome : ∀ x, (m'.mesh_index x).isSome = true → m.is_valid x = true) : Propagated m' := by
  refine ⟨?_, ?_, ?_, ?_⟩
  · intro e he
    rw [hf.is_valid]; exact hsome e he
  · intro e he
    rw [hf.is_valid] at he
    rw [hf.repo]; exact h.in_repo e he
  · rw [hf.repo]; exact h.keys_nodup
  · intro x c hedge hx
    rw [flood_edge_of_same hconn hf.keys (by rw [hf.meta])] at hedge
    rw [state_congr hstates] at hx ⊢
    exact h.closed x c hedge hx

theorem declare_entity_propagated (m : BulkData) (ent_rank : EntityRank)
    (ent_id : EntityId) (parts : List PartOrdinal) (ho : OffsetsConsistent m)
    (h : Propagated m) : Propagated (m.declare_entity ent_rank ent_id parts).2 := by
  have ho0 : OffsetsConsistent (m.set_check_invalid_rels false) :=
    offsets_consistent_of_frame ho (check_flag_frame m false).1
  have h0 : Propagated (m.set_check_invalid_rels false) :=
    propagated_of_same_shape h rfl rfl rfl rfl rfl
  rcases declare_entity_cases m ent_rank ent_id parts with hc | hc | hc
  · rw [hc.2]; exact h0
  · obtain ⟨e, _, _, hv, hr⟩ := hc
    rw [hr]
    obtain ⟨c1, c2, c3⟩ := change_entity_parts_spec (m.set_check_invalid_rels false) e
      (parts ++ [m.m_mesh_meta_data.locally_owned_part]) []
    refine propagated_of_same_relations h0 (c1.trans (check_flag_frame _ true).1) ?_ ?_ ?_
    · intro x; exact c2 x
    · exact change_entity_parts_states _ _ _ _
    · intro x hx
      have hx2 : ((m.set_check_invalid_rels false).change_entity_parts e
          (parts ++ [m.m_mesh_meta_data.locally_owned_part]) []).mesh_index x = _ := rfl
      have hx3 := c3 x
      cases hm : ((m.set_check_invalid_rels false).mesh_index x).isSome with
      | true => exact h0.slot_valid x hm
      | false =>
        rw [hm, Bool.false_or] at hx3
        have hx4 : decide (x = e ∧ e < (m.set_check_invalid_rels false).m_mesh_indexes.length)
            = true := by
          rw [← hx3]; exact hx
        rw [decide_eq_true_eq] at hx4
        rw [hx4.1]; exact hv
  · obtain ⟨hcr, _, _, hr⟩ := hc
    rw [hr]
    obtain ⟨_, hinv, hne0, ho1, hst, hkey, hidx, hval, hrepo, _, hshape⟩ :=
      internal_create_entity_spec _ ⟨ent_rank, ent_id⟩ ho0 hcr
    obtain ⟨_, hfresh⟩ := get_entity_none_of_allocated _ ⟨ent_rank, ent_id⟩ ho0 hcr
    obtain ⟨idx, keys, states, counts, repo, hshape⟩ := hshape
    have hcount1 : ((m.set_check_invalid_rels false).internal_create_entity
        ⟨ent_rank, ent_id⟩).2.m_mesh_meta_data.entity_rank_count
        = (m.set_check_invalid_rels false).m_mesh_meta_data.entity_rank_count := by
      rw [hshape]
    generalize ((m.set_check_invalid_rels false).internal_create_entity ⟨ent_rank, ent_id⟩).1.1
      = o at *
    generalize ((m.set_check_invalid_rels false).internal_create_entity ⟨ent_rank, ent_id⟩).2
      = m1 at *
    generalize m.set_check_invalid_rels false = m0 at *
    obtain ⟨c1, c2, c3⟩ := change_entity_parts_spec m1 o
      (parts ++ [m1.m_mesh_meta_data.locally_owned_part]) []
    have cs := change_entity_parts_states m1 o (parts ++ [m1.m_mesh_meta_data.locally_owned_part]) []
    generalize m1.change_entity_parts o (parts ++ [m1.m_mesh_meta_data.locally_owned_part]) []
      = m2 at c1 c2 c3 cs ⊢
    obtain ⟨o1, o2, o3, _⟩ := set_parallel_owner_rank_spec m2 o m2.m_parallel_rank
    have os := set_parallel_owner_rank_states m2 o m2.m_parallel_rank
    generalize m2.set_parallel_owner_rank o m2.m_parallel_rank = m3 at o1 o2 o3 os ⊢
    have s := set_synchronized_count_frame m3 o m2.m_sync_count
    have ss : (m3.set_synchronized_count o m2.m_sync_count).m_entity_states = m3.m_entity_states :=
      rfl
    generalize m3.set_synchronized_count o m2.m_sync_count = m4 at s ss ⊢
    have hcf2 := check_flag_frame m4 true
    have fs : (m4.set_check_invalid_rels true).m_entity_states = m4.m_entity_states := rfl
    generalize m4.set_check_invalid_rels true = m5 at hcf2 fs ⊢
    have hf15 : Frame m1 m5 := ((c1.trans o1).trans s.1).trans hcf2.1
    have hi45 : m5.m_mesh_indexes = m3.m_mesh_indexes := hcf2.2.trans s.2
    have hacc := fun x => accessors_of_indexes_eq hi45 x
    have hst5 : ∀ x, m5.state x = if x = o then EntityState.Created else m0.state x := by
      intro x
      rw [state_congr (fs.trans (ss.trans (os.trans cs))) x]
      exact hst x
    have hconn5 : ∀ x, m5.connectivity x = if x = o then [] else m0.connectivity x := by
      intro x
      rw [(hacc x).2.2, o2 x, c2 x]
      unfold connectivity
      rw [hidx x]
      by_cases hx : x = o
      · rw [if_pos hx, if_pos hx]
      · rw [if_neg hx, if_neg hx]
    have hval5 : ∀ x, m5.is_valid x = (m0.is_valid x || decide (x = o)) := by
      intro x; rw [hf15.is_valid]; exact hval x
    have hrepo5 : m5.m_entity_repo = m0.m_entity_repo ++ [(⟨ent_rank, ent_id⟩, o)] := by
      rw [hf15.repo]; exact hrepo
    refine ⟨?_, ?_, ?_, ?_⟩
    · intro e he
      rw [(hacc e).1, o3 e, c3 e, hidx e] at he
      rw [hval5 e]
      by_cases hx : e = o
      · simp [hx]
      · rw [if_neg hx] at he
        have hd : decide (e = o ∧ o < m1.m_mesh_indexes.length) = false :=
          decide_eq_false (fun h => hx h.1)
        rw [hd, Bool.or_false] at he
        rw [h0.slot_valid e he]; rfl
    · intro e he
      rw [hval5 e] at he
      rw [hrepo5]
      by_cases hx : e = o
      · exact ⟨(⟨ent_rank, ent_id⟩, o), by simp, hx.symm⟩
      · have hd : decide (e = o) = false := decide_eq_false hx
        rw [hd, Bool.or_false] at he
        obtain ⟨p, hp, hpe⟩ := h0.in_repo e he
        exact ⟨p, List.mem_append_left _ hp, hpe⟩
    · rw [hrepo5, List.map_append, List.nodup_append]
      refine ⟨h0.keys_nodup, by simp, ?_⟩
      intro k hk1 hk2
      rw [List.mem_map] at hk1
      obtain ⟨p, hp, hpk⟩ := hk1
      have hk3 : k = ⟨ent_rank, ent_id⟩ := by simpa using hk2
      exact hfresh p hp (hpk.trans hk3)
    · intro x c hedge hx
      obtain ⟨hc, hr1, hr2⟩ := hedge
      rw [hconn5 x] at hc
      by_cases hxo : x = o
      · rw [if_pos hxo] at hc; exact absurd hc (List.not_mem_nil _)
      · rw [if_neg hxo] at hc
        rw [hst5 x, if_neg hxo] at hx
        have hrank : m5.entity_rank x = m0.entity_rank x := by
          unfold entity_rank
          rw [hf15.entity_key, hkey x, if_neg hxo]
        rw [hrank] at hr1
        rw [hf15.meta, hcount1] at hr2
        have := h0.closed x c ⟨hc, hr1, hr2⟩ hx
        rw [hst5 c.entity]
        by_cases hco : c.entity = o
        · rw [if_pos hco]; decide
        · rw [if_neg hco]; exact this

theorem destroy_entity_relations_of_rank_propagated (entity : Entity) (irank : EntityRank)
    (j : Nat) (m : BulkData) (h : Propagated m) :
    Propagated (destroy_entity_relations_of_rank entity irank j m).2 := by
  induction j generalizing m with
  | zero =>
    unfold destroy_entity_relations_of_rank
    exact h
  | succ j ih =>
    unfold destroy_entity_relations_of_rank
    cases hget : (m.begin_entities entity irank).get? j with
    | none => exact ih m h
    | some c0 =>
      dsimp only
      by_cases hv : m.is_valid c0.entity = true
      · rw [if_pos hv]
        have hd := destroy_relation_propagated m entity c0.entity c0.ordinal h
        cases hr : m.destroy_relation entity c0.entity c0.ordinal with
        | mk o m1 =>
          rw [hr] at hd
          cases o with
          | error msg => exact hd
          | ok b => exact ih m1 hd
      · rw [if_neg hv]
        exact ih m h

theorem destroy_entity_relations_propagated (entity : Entity) (ranks : List EntityRank)
    (m : BulkData) (h : Propagated m) :
    Propagated (destroy_entity_relations entity ranks m).2 := by
  induction ranks generalizing m with
  | nil =>
    unfold destroy_entity_relations
    exact h
  | cons irank rest ih =>
    unfold destroy_entity_relations
    have hin := destroy_entity_relations_of_rank_propagated entity irank
      (m.num_connectivity entity irank) m h
    cases hr : destroy_entity_relations_of_rank entity irank (m.num_connectivity entity irank) m with
    | mk o m1 =>
      rw [hr] at hin
      cases o with
      | error msg => exact hin
      | ok u => exact ih m1 hin

theorem destroy_entity_remove_connectivity (m : BulkData) (entity : Entity)
    (hlt : entity < m.m_mesh_indexes.length) (x : Entity) :
    (m.destroy_entity_remove entity).connectivity x
      = if x = entity then [] else m.connectivity x := by
  have r1 := (destroy_entity_remove_fields m entity).1
  have hm' : (m.destroy_entity_remove entity).m_mesh_indexes
      = (m.set_mesh_index entity none).m_mesh_indexes := r1
  rw [(accessors_of_indexes_eq hm' x).2.2]
  unfold connectivity
  rw [mesh_index_set]
  by_cases hx : x = entity
  · rw [if_pos ⟨hx, hlt⟩, if_pos hx]
  · rw [if_neg (fun h => hx h.1), if_neg hx]

theorem destroy_entity_remove_mesh_index (m : BulkData) (entity : Entity) (x : Entity) :
    (m.destroy_entity_remove entity).mesh_index x
      = if x = entity ∧ entity < m.m_mesh_indexes.length then none else m.mesh_index x := by
  have r1 := (destroy_entity_remove_fields m entity).1
  have hm' : (m.destroy_entity_remove entity).m_mesh_indexes
      = (m.set_mesh_index entity none).m_mesh_indexes := r1
  rw [(accessors_of_indexes_eq hm' x).1, mesh_index_set]

theorem destroy_entity_remove_propagated (m : BulkData) (entity : Entity)
    (ho : OffsetsConsistent m) (h : Propagated m) (hv : m.is_valid entity = true) :
    Propagated (m.destroy_entity_remove entity) := by
  obtain ⟨r1, r2, r3, r4, _, r6, r7, r8⟩ := destroy_entity_remove_fields m entity
  have hst := state_set_deleted m _ entity r2
  have hval := is_valid_set_deleted m _ entity r2
  have hkey := entity_key_congr r3
  have hlt : entity < m.m_mesh_indexes.length := by
    rw [ho.aligned_indexes]; exact lt_length_of_is_valid m entity hv
  have hconn := destroy_entity_remove_connectivity m entity hlt
  have hidx := destroy_entity_remove_mesh_index m entity
  refine ⟨?_, ?_, ?_, ?_⟩
  · intro e he
    rw [hidx e] at he
    by_cases hx : e = entity
    · rw [if_pos ⟨hx, hlt⟩] at he; exact Bool.noConfusion he
    · rw [if_neg (fun h => hx h.1)] at he
      rw [hval e, h.slot_valid e he]
      simp [hx]
  · intro e he
    rw [hval e, Bool.and_eq_true] at he
    have hx : e ≠ entity := by simpa using he.2
    obtain ⟨p, hp, hpe⟩ := h.in_repo e he.1
    obtain ⟨q, hq, hqe⟩ := h.in_repo entity hv
    refine ⟨p, ?_, hpe⟩
    rw [r7, List.mem_filter]
    refine ⟨hp, ?_⟩
    have hpk := (ho.repo_valid p hp).1
    have hqk := (ho.repo_valid q hq).1
    rw [hqe] at hqk
    have hne : p.1 ≠ m.entity_key entity := by
      intro heq
      have hpq : p = q := List.inj_on_of_nodup_map h.keys_nodup hp hq (heq.trans hqk)
      rw [hpq, hqe] at hpe
      exact hx hpe.symm
    simp [hne]
  · rw [r7]
    exact h.keys_nodup.sublist ((List.filter_sublist _).map _)
  · intro x c hedge hx
    obtain ⟨hc, hr1, hr2⟩ := hedge
    rw [hconn x] at hc
    by_cases hxe : x = entity
    · rw [if_pos hxe] at hc; exact absurd hc (List.not_mem_nil _)
    · rw [if_neg hxe] at hc
      rw [hst x, if_neg hxe] at hx
      unfold entity_rank at hr1
      rw [hkey] at hr1
      rw [r6] at hr2
      have := h.closed x c ⟨hc, hr1, hr2⟩ hx
      rw [hst c.entity]
      by_cases hce : c.entity = entity
      · rw [if_pos hce]; decide
      · rw [if_neg hce]; exact this

theorem destroy_entity_propagated (m : BulkData) (entity : Entity)
    (ho : OffsetsConsistent m) (h : Propagated m) :
    Propagated (m.destroy_entity entity).2 := by
  have hloop : Frame m (destroy_entity_relations entity
      (List.range m.m_mesh_meta_data.entity_rank_count).reverse
      (m.set_check_invalid_rels false)).2 :=
    (check_flag_frame m false).1.trans (destroy_entity_relations_frame _ _ _).1
  have h0 : Propagated (m.set_check_invalid_rels false) :=
    propagated_of_same_shape h rfl rfl rfl rfl rfl
  have hl := destroy_entity_relations_propagated entity
    (List.range m.m_mesh_meta_data.entity_rank_count).reverse _ h0
  rcases destroy_entity_cases m entity with hc | hc | hc | hc
  · rw [hc.2.2]; exact h
  · rw [hc.2.2]; exact propagated_of_same_shape h rfl rfl rfl rfl rfl
  · rw [hc.2.2.2.2.2]; exact hl
  · obtain ⟨_, hv, _, _, hr⟩ := hc
    rw [hr]
    apply destroy_entity_remove_propagated _ _ (offsets_consistent_of_frame ho hloop) hl
    rw [hloop.is_valid]; exact hv

theorem reachable_cycles_offsets (m : BulkData) (h : ReachableCycles m) : ReachableOffsets m := by
  induction h with
  | construct meta cmap parallel_size parallel_rank consistent assertions =>
    exact ReachableOffsets.construct _ _ _ _ _ _
  | modification_begin m _ ih => exact ReachableOffsets.modification_begin m ih
  | modification_end m _ ih => exact ReachableOffsets.modification_end m ih
  | update_deleted_entities_container m _ ih =>
    exact ReachableOffsets.update_deleted_entities_container m ih
  | declare_entity m ent_rank ent_id parts _ ih =>
    exact ReachableOffsets.declare_entity m ent_rank ent_id parts ih
  | declare_relation m e_from e_to local_id permut _ ih =>
    exact ReachableOffsets.declare_relation m e_from e_to local_id permut ih
  | declare_relation_vector m entity rel _ ih =>
    exact ReachableOffsets.declare_relation_vector m entity rel ih
  | destroy_relation m e_from e_to local_id _ ih =>
    exact ReachableOffsets.destroy_relation m e_from e_to local_id ih
  | destroy_entity m entity _ ih => exact ReachableOffsets.destroy_entity m entity ih

/-- In every reachable mesh the flood of `modified` has run from every entity that
is not Unchanged. -/
theorem reachable_propagated (m : BulkData) (h : ReachableCycles m) : Propagated m := by
  induction h with
  | construct meta cmap parallel_size parallel_rank consistent assertions =>
    exact construct_propagated _ _ _ _ _ _
  | modification_begin m hm ih =>
    exact modification_begin_propagated m
      (reachable_offsets_consistent m (reachable_cycles_offsets m hm)) ih
  | modification_end m _ ih => exact modification_end_propagated m ih
  | update_deleted_entities_container m _ ih =>
    exact update_deleted_entities_container_propagated m ih
  | declare_entity m ent_rank ent_id parts hm ih =>
    exact declare_entity_propagated m ent_rank ent_id parts
      (reachable_offsets_consistent m (reachable_cycles_offsets m hm)) ih
  | declare_relation m e_from e_to local_id permut _ ih =>
    exact declare_relation_propagated m e_from e_to local_id permut ih
  | declare_relation_vector m entity rel _ ih =>
    exact declare_relation_vector_propagated m entity rel ih
  | destroy_relation m e_from e_to local_id _ ih =>
    exact destroy_relation_propagated m e_from e_to local_id ih
  | destroy_entity m entity hm ih =>
    exact destroy_entity_propagated m entity
      (reachable_offsets_consistent m (reachable_cycles_offsets m hm)) ih

theorem reaches_upward_marked (m : BulkData) (h : Propagated m) (x y : Entity)
    (hr : reaches_upward m x y) (hx : m.state x ≠ EntityState.Unchanged) :
    m.state y ≠ EntityState.Unchanged := by
  induction hr with
  | refl => exact hx
  | step y z _ hyz ih =>
    obtain ⟨c, hedge, hc⟩ := hyz
    rw [← hc]
    exact h.closed y c hedge ih

theorem declare_relation_endpoints (m : BulkData) (e_from e_to : Entity)
    (local_id : RelationIdentifier) (permut : Permutation)
    (hok : (m.declare_relation e_from e_to local_id permut).1 = Outcome.ok ())
    (hnew : ∀ c ∈ m.connectivity e_from, ¬ holds_relation m e_to local_id c) :
    (m.declare_relation e_from e_to local_id permut).2.state e_from ≠ EntityState.Unchanged ∧
    (m.declare_relation e_from e_to local_id permut).2.state e_to ≠ EntityState.Unchanged := by
  obtain ⟨m2, caused, _, _, _, hst, hcaused, _⟩ := declare_relation_flood m e_from e_to
    local_id permut
  have hc := hcaused hok hnew
  rw [hc, if_pos rfl] at hst
  obtain ⟨_, hto, hfrom⟩ := flood_both m2 e_to e_from
  rw [state_congr hst, state_congr hst]
  exact ⟨hfrom, hto⟩

theorem destroy_relation_endpoints (m : BulkData) (e_from e_to : Entity)
    (local_id : RelationIdentifier)
    (hok : (m.destroy_relation e_from e_to local_id).1 = Outcome.ok true) :
    (m.destroy_relation e_from e_to local_id).2.state e_from ≠ EntityState.Unchanged ∧
    (m.destroy_relation e_from e_to local_id).2.state e_to ≠ EntityState.Unchanged := by
  obtain ⟨m4, fwd, _, _, _, hst, hfwd, _⟩ := destroy_relation_flood m e_from e_to local_id
  have hc := hfwd hok
  rw [hc, if_pos rfl] at hst
  obtain ⟨_, hto, hfrom⟩ := flood_both m4 e_to e_from
  rw [state_congr hst, state_congr hst]
  exact ⟨hfrom, hto⟩

/-- C14: in a reachable mesh, after a declare_relation that returns normally and
adds an edge that `from` did not hold, and after a destroy_relation that returns
true, every entity reached from `from` or from `to` by following, any number of
times, relations to a higher rank (the positions in the tables of an entity for the
ranks of the mesh above its own) has a state other than Unchanged. -/
theorem C14_state_change_propagates_upward (m : BulkData) (h : ReachableCycles m)
    (e_from e_to : Entity) (local_id : RelationIdentifier) (permut : Permutation) :
    ((m.declare_relation e_from e_to local_id permut).1 = Outcome.ok () →
      (∀ c ∈ m.connectivity e_from, ¬ holds_relation m e_to local_id c) →
      ∀ y : Entity,
        (reaches_upward (m.declare_relation e_from e_to local_id permut).2 e_from y ∨
          reaches_upward (m.declare_relation e_from e_to local_id permut).2 e_to y) →
        (m.declare_relation e_from e_to local_id permut).2.state y ≠ EntityState.Unchanged) ∧
    ((m.destroy_relation e_from e_to local_id).1 = Outcome.ok true →
      ∀ y : Entity,
        (reaches_upward (m.destroy_relation e_from e_to local_id).2 e_from y ∨
          reaches_upward (m.destroy_relation e_from e_to local_id).2 e_to y) →
        (m.destroy_relation e_from e_to local_id).2.state y ≠ EntityState.Unchanged) := by
  constructor
  · intro hok hnew y hy
    have hp := reachable_propagated _ (ReachableCycles.declare_relation m e_from e_to local_id
      permut h)
    obtain ⟨h1, h2⟩ := declare_relation_endpoints m e_from e_to local_id permut hok hnew
    rcases hy with hy | hy
    · exact reaches_upward_marked _ hp _ _ hy h1
    · exact reaches_upward_marked _ hp _ _ hy h2
  · intro hok y hy
    have hp := reachable_propagated _ (ReachableCycles.destroy_relation m e_from e_to local_id h)
    obtain ⟨h1, h2⟩ := destroy_relation_endpoints m e_from e_to local_id hok
    rcases hy with hy | hy
    · exact reaches_upward_marked _ hp _ _ hy h1
    · exact reaches_upward_marked _ hp _ _ hy h2

theorem scenario_chain_reachable : ReachableCycles scenario_chain :=
  ReachableCycles.modification_begin _ (ReachableCycles.modification_end _
    (ReachableCycles.declare_relation _ 1 2 0 0
      (ReachableCycles.declare_entity _ 0 1 []
        (ReachableCycles.declare_entity _ 2 1 []
          (ReachableCycles.declare_entity _ 3 1 [10]
            (ReachableCycles.modification_begin _
              (ReachableCycles.construct scenario_meta scenario_map 1 0 true true)))))))

theorem C14_witness :
    ReachableCycles scenario_chain ∧
    (scenario_chain.declare_relation 2 3 0 0).1 = Outcome.ok () ∧
    scenario_chain.connectivity 2 = [⟨3, 1, 0, 0⟩] ∧
    scenario_chain.state 1 = EntityState.Unchanged ∧
    reaches_upward (scenario_chain.declare_relation 2 3 0 0).2 3 1 ∧
    (scenario_chain.declare_relation 2 3 0 0).2.state 1 ≠ EntityState.Unchanged :=
  have hconn : scenario_chain.connectivity 2 = [⟨3, 1, 0, 0⟩] := by decide
  have hnew : ∀ c ∈ scenario_chain.connectivity 2, ¬ holds_relation scenario_chain 3 0 c := by
    intro c hc hh
    rw [hconn, List.mem_singleton] at hc
    rw [hc] at hh
    exact absurd hh.2.1 (by decide)
  have hconn2 : (scenario_chain.declare_relation 2 3 0 0).2.connectivity 2
      = [⟨3, 1, 0, 0⟩, ⟨0, 3, 0, 0⟩] := by decide
  have hconn3 : (scenario_chain.declare_relation 2 3 0 0).2.connectivity 3
      = [⟨2, 2, 0, 0⟩] := by decide
  have hreach : reaches_upward (scenario_chain.declare_relation 2 3 0 0).2 3 1 :=
    reaches_upward.step 3 2 1
      (reaches_upward.step 3 3 2 (reaches_upward.refl 3)
        ⟨⟨2, 2, 0, 0⟩, ⟨by rw [hconn3]; simp, by decide, by decide⟩, rfl⟩)
      ⟨⟨3, 1, 0, 0⟩, ⟨by rw [hconn2]; simp, by decide, by decide⟩, rfl⟩
  ⟨scenario_chain_reachable, by decide, hconn, by decide, hreach,
    (C14_state_change_propagates_upward scenario_chain scenario_chain_reachable 2 3 0 0).1
      (by decide) hnew 1 (Or.inr hreach)⟩

/-! ## Destroying an entity -/

/-- C15: on a MODIFIABLE mesh, when the entity is invalid or holds a position in one
of its tables for a rank of the mesh above its own (a relation to an entity of
higher rank), destroy_entity returns false without an error and leaves the mesh as
it was but for the flag m_check_invalid_rels, which it leaves set: entity states,
relations and parts, the entity map, the comm list and comm map, the free list and
the list of offsets deleted in the current cycle are all unchanged. -/
theorem C15_destroy_entity_refused (m : BulkData) (entity : Entity)
    (hmod : m.m_sync_state = BulkDataSyncState.MODIFIABLE)
    (hwhy : m.is_valid entity = false ∨
      ∃ c ∈ m.connectivity entity, m.entity_rank entity < c.rank ∧
        c.rank < m.m_mesh_meta_data.entity_rank_count) :
    (m.destroy_entity entity).1 = Outcome.ok false ∧
    (m.destroy_entity entity).2 = m.set_check_invalid_rels true ∧
    same_entities m (m.destroy_entity entity).2 ∧
    (m.destroy_entity entity).2.m_entity_comm_list = m.m_entity_comm_list ∧
    (m.destroy_entity entity).2.m_entity_comm_map = m.m_entity_comm_map ∧
    (m.destroy_entity entity).2.m_deleted_entities = m.m_deleted_entities ∧
    (m.destroy_entity entity).2.m_deleted_entities_current_modification_cycle
      = m.m_deleted_entities_current_modification_cycle := by
  have hres : m.destroy_entity entity = (Outcome.ok false, m.set_check_invalid_rels true) := by
    rcases destroy_entity_cases m entity with hc | hc | hc | hc
    · rw [hmod] at hc; exact absurd hc.1 (by decide)
    · exact hc.2.2
    · exfalso
      obtain ⟨_, hv, hnone, _⟩ := hc
      rcases hwhy with h1 | ⟨c, hc1, hc2, hc3⟩
      · rw [hv] at h1; exact Bool.noConfusion h1
      · have hmem : c ∈ m.begin_entities entity c.rank :=
          (mem_begin_entities m entity c.rank c).2 ⟨hc1, rfl⟩
        have hpos : 0 < m.num_connectivity entity c.rank := List.length_pos_of_mem hmem
        rw [hnone c.rank hc2 hc3] at hpos
        exact Nat.lt_irrefl _ hpos
    · exfalso
      obtain ⟨_, hv, hnone, _⟩ := hc
      rcases hwhy with h1 | ⟨c, hc1, hc2, hc3⟩
      · rw [hv] at h1; exact Bool.noConfusion h1
      · have hmem : c ∈ m.begin_entities entity c.rank :=
          (mem_begin_entities m entity c.rank c).2 ⟨hc1, rfl⟩
        have hpos : 0 < m.num_connectivity entity c.rank := List.length_pos_of_mem hmem
        rw [hnone c.rank hc2 hc3] at hpos
        exact Nat.lt_irrefl _ hpos
  rw [hres]
  exact ⟨rfl, rfl, ⟨rfl, rfl, rfl, rfl, rfl⟩, rfl, rfl, rfl, rfl⟩

theorem C15_witness :
    scenario_related.m_sync_state = BulkDataSyncState.MODIFIABLE ∧
    scenario_related.is_valid 2 = true ∧
    scenario_related.connectivity 2 = [⟨3, 1, 0, 0⟩] ∧
    (scenario_related.destroy_entity 2).1 = Outcome.ok false ∧
    (scenario_related.destroy_entity 2).2 = scenario_related ∧
    scenario_related.is_valid 0 = false ∧
    (scenario_related.destroy_entity 0).1 = Outcome.ok false :=
  have hconn : scenario_related.connectivity 2 = [⟨3, 1, 0, 0⟩] := by decide
  ⟨by decide, by decide, hconn,
    (C15_destroy_entity_refused scenario_related 2 (by decide)
      (Or.inr ⟨⟨3, 1, 0, 0⟩, by rw [hconn]; simp, by decide, by decide⟩)).1,
    (C15_destroy_entity_refused scenario_related 2 (by decide)
      (Or.inr ⟨⟨3, 1, 0, 0⟩, by rw [hconn]; simp, by decide, by decide⟩)).2.1,
    by decide,
    (C15_destroy_entity_refused scenario_related 0 (by decide) (Or.inl (by decide))).1⟩

/-- C16 (counterexample): on the forward-only map the node holds no back-relation
to the element, so destroy_entity of the node returns true; afterwards the node is
invalid and the element still holds its relation to the node. -/
theorem C16_counterexample :
    scenario_related_forward_only.connectivity 1 = [⟨0, 2, 0, 0⟩] ∧
    scenario_related_forward_only.connectivity 2 = [] ∧
    (scenario_related_forward_only.destroy_entity 2).1 = Outcome.ok true ∧
    (scenario_related_forward_only.destroy_entity 2).2.is_valid 2 = false ∧
    (scenario_related_forward_only.destroy_entity 2).2.connectivity 1 = [⟨0, 2, 0, 0⟩] := by
  decide

theorem reachable_offsets_of_reachable (m : BulkData) (h : Reachable m) : ReachableOffsets m := by
  induction h with
  | construct meta cmap parallel_size parallel_rank consistent assertions =>
    exact ReachableOffsets.construct _ _ _ _ _ _
  | modification_begin m _ ih => exact ReachableOffsets.modification_begin m ih
  | declare_entity m ent_rank ent_id parts _ ih =>
    exact ReachableOffsets.declare_entity m ent_rank ent_id parts ih
  | declare_relation m e_from e_to local_id permut _ ih =>
    exact ReachableOffsets.declare_relation m e_from e_to local_id permut ih
  | declare_relation_vector m entity rel _ ih =>
    exact ReachableOffsets.declare_relation_vector m entity rel ih
  | destroy_relation m e_from e_to local_id _ ih =>
    exact ReachableOffsets.destroy_relation m e_from e_to local_id ih
  | destroy_entity m entity _ ih => exact ReachableOffsets.destroy_entity m entity ih

theorem get_entity_filter_none (repo : List (EntityKey × Entity)) (key : EntityKey) :
    (repo.filter (fun p => !(p.1 == key))).find? (fun p => p.1 == key) = none := by
  rw [List.find?_eq_none]
  intro p hp
  have := (List.mem_filter.1 hp).2
  simpa using this

theorem modification_end_wellformed (m : BulkData) (hwf : WellFormed m) :
    WellFormed m.modification_end :=
  wellformed_of_same_shape hwf rfl rfl rfl rfl rfl rfl rfl (fun _ => Iff.rfl)

/-- The invariant is kept when the offsets deleted in the current cycle are moved to
the free list: they are distinct, lie inside the vectors and are in state Deleted. -/
theorem update_deleted_entities_container_wellformed (m : BulkData) (hwf : WellFormed m)
    (ho : OffsetsConsistent m) : WellFormed m.update_deleted_entities_container := by
  obtain ⟨_, hl2⟩ := update_deleted_entities_container_lists m
  have ho2 := update_deleted_entities_container_offsets_consistent m ho
  refine ⟨hwf.aligned_indexes, hwf.aligned_keys, ?_, ?_, hwf.slot_iff_valid, hwf.rank_bound,
    hwf.repo_valid, hwf.mirrored⟩
  · intro o hmem
    exact ho2.free_deleted o (List.mem_append_left _ hmem)
  · have hn := ho2.free_nodup
    rw [hl2, List.append_nil] at hn
    exact hn

/-- Every mesh reachable over any number of modification cycles satisfies the
invariant, also after offsets were freed and recycled. -/
theorem reachable_cycles_wellformed (m : BulkData) (h : ReachableCycles m) : WellFormed m := by
  induction h with
  | construct meta cmap parallel_size parallel_rank consistent assertions =>
    exact construct_wellformed meta cmap parallel_size parallel_rank consistent assertions
  | modification_begin m _ ih => exact modification_begin_wellformed m ih
  | modification_end m _ ih => exact modification_end_wellformed m ih
  | update_deleted_entities_container m hm ih =>
    exact update_deleted_entities_container_wellformed m ih
      (reachable_offsets_consistent m (reachable_cycles_offsets m hm))
  | declare_entity m ent_rank ent_id parts _ ih =>
    exact declare_entity_wellformed m ent_rank ent_id parts ih
  | declare_relation m e_from e_to local_id permut _ ih =>
    exact declare_relation_wellformed m e_from e_to local_id permut ih
  | declare_relation_vector m entity rel _ ih =>
    exact declare_relation_vector_wellformed m entity rel ih
  | destroy_relation m e_from e_to local_id _ ih =>
    exact destroy_relation_wellformed m e_from e_to local_id ih
  | destroy_entity m entity _ ih => exact destroy_entity_wellformed m entity ih

/-- What a destroy_entity that returns true leaves, on a mesh that satisfies the two
invariants. -/
theorem destroy_entity_removes (m : BulkData) (entity : Entity)
    (hwf : WellFormed m) (ho : OffsetsConsistent m)
    (hok : (m.destroy_entity entity).1 = Outcome.ok true) :
    (m.destroy_entity entity).2.get_entity (m.entity_key entity) = none ∧
    (m.destroy_entity entity).2.m_entity_states[entity]? = some EntityState.Deleted ∧
    (m.destroy_entity entity).2.is_valid entity = false ∧
    (m.destroy_entity entity).2.connectivity entity = [] ∧
    (∀ (a : Entity) (c : ConnEntry), c ∈ (m.destroy_entity entity).2.connectivity a →
      c.rank ≠ (m.destroy_entity entity).2.entity_rank a →
      (m.destroy_entity entity).2.tracked_pair ((m.destroy_entity entity).2.entity_rank a) c.rank
        = true →
      c.entity ≠ entity) ∧
    (m.destroy_entity entity).2.m_deleted_entities_current_modification_cycle
      = entity :: m.m_deleted_entities_current_modification_cycle ∧
    entity ∉ m.m_deleted_entities_current_modification_cycle ∧
    (m.destroy_entity entity).2.m_deleted_entities_current_modification_cycle.count entity = 1 := by
  have hwf' := destroy_entity_wellformed m entity hwf
  have hloop : Frame m (destroy_entity_relations entity
      (List.range m.m_mesh_meta_data.entity_rank_count).reverse
      (m.set_check_invalid_rels false)).2 :=
    (check_flag_frame m false).1.trans (destroy_entity_relations_frame _ _ _).1
  rcases destroy_entity_cases m entity with hc | hc | hc | hc
  · rw [hok] at hc; exact absurd hc.2.1 (by decide)
  · rw [hc.2.2] at hok; exact absurd hok (by simp)
  · rw [hok] at hc; exact absurd hc.2.2.2.2.1 (by decide)
  · obtain ⟨_, hv, _, _, hr⟩ := hc
    rw [hr] at hwf' ⊢
    dsimp only at hwf' ⊢
    generalize (destroy_entity_relations entity
      (List.range m.m_mesh_meta_data.entity_rank_count).reverse
      (m.set_check_invalid_rels false)).2 = m1 at hloop hwf' ⊢
    have ho1 := offsets_consistent_of_frame ho hloop
    have hv1 : m1.is_valid entity = true := by rw [hloop.is_valid]; exact hv
    obtain ⟨r1, r2, r3, r4, _, r6, r7, r8⟩ := destroy_entity_remove_fields m1 entity
    have hlts : entity < m1.m_entity_states.length := lt_length_of_is_valid m1 entity hv1
    have hlt : entity < m1.m_mesh_indexes.length := by rw [ho1.aligned_indexes]; exact hlts
    have hconn := destroy_entity_remove_connectivity m1 entity hlt
    have hnotin : entity ∉ m.m_deleted_entities_current_modification_cycle := by
      intro hin
      have := (ho.free_deleted entity (List.mem_append_right _ hin)).2
      exact ((is_valid_iff m entity).1 hv).2 this
    refine ⟨?_, ?_, ?_, ?_, ?_, ?_, hnotin, ?_⟩
    · unfold get_entity
      rw [r7, ← hloop.entity_key, get_entity_filter_none]
      rfl
    · rw [r2]
      exact getElem?_set_self _ _ _ hlts
    · rw [is_valid_set_deleted m1 _ entity r2]
      simp
    · rw [hconn entity, if_pos rfl]
    · intro a c hc hr1 htr hce
      have := (hwf'.mirrored a c hc hr1 htr).2
      rw [hce, hconn entity, if_pos rfl] at this
      exact absurd this (List.not_mem_nil _)
    · rw [r8, hloop.deleted_cycle]
    · rw [r8, hloop.deleted_cycle, List.count_cons_self, List.count_eq_zero.2 hnotin]

/-- C16 (amended): let the mesh be reachable from the constructor, over any number of
modification cycles, through modification_begin, modification_end,
update_deleted_entities_container, declare_entity, declare_relation,
destroy_relation and destroy_entity. When destroy_entity(e) returns true, afterwards
the entity map has no entity for the key of e, the state stored at the offset of e
is Deleted, e holds no relation at all, no entity holds a relation to e in a table
for another rank on a rank pair whose back-relations are tracked, and the offset of
e, which was not on the list of offsets deleted in the current cycle, has been put
at its front, so that it occurs there exactly once. -/
theorem C16_destroy_entity_removes (m : BulkData) (entity : Entity)
    (h : ReachableCycles m)
    (hok : (m.destroy_entity entity).1 = Outcome.ok true) :
    (m.destroy_entity entity).2.get_entity (m.entity_key entity) = none ∧
    (m.destroy_entity entity).2.m_entity_states[entity]? = some EntityState.Deleted ∧
    (m.destroy_entity entity).2.is_valid entity = false ∧
    (m.destroy_entity entity).2.connectivity entity = [] ∧
    (∀ (a : Entity) (c : ConnEntry), c ∈ (m.destroy_entity entity).2.connectivity a →
      c.rank ≠ (m.destroy_entity entity).2.entity_rank a →
      (m.destroy_entity entity).2.tracked_pair ((m.destroy_entity entity).2.entity_rank a) c.rank
        = true →
      c.entity ≠ entity) ∧
    (m.destroy_entity entity).2.m_deleted_entities_current_modification_cycle
      = entity :: m.m_deleted_entities_current_modification_cycle ∧
    entity ∉ m.m_deleted_entities_current_modification_cycle ∧
    (m.destroy_entity entity).2.m_deleted_entities_current_modification_cycle.count entity = 1 :=
  destroy_entity_removes m entity (reachable_cycles_wellformed m h)
    (reachable_offsets_consistent m (reachable_cycles_offsets m h)) hok

/-- The mesh in which the node was destroyed, its offset freed and recycled for a
face, and the element is joined to the face: it is reachable, and destroy_entity of
the element returns true. -/
theorem C16_witness :
    ReachableCycles scenario_recycled_related ∧
    scenario_recycling.m_deleted_entities = [2] ∧
    scenario_recycled_related.entity_key 2 = ⟨2, 7⟩ ∧
    scenario_recycled_related.connectivity 1 = [⟨2, 2, 0, 0⟩] ∧
    (scenario_recycled_related.destroy_entity 1).1 = Outcome.ok true ∧
    (scenario_recycled_related.destroy_entity 1).2.get_entity
      (scenario_recycled_related.entity_key 1) = none ∧
    (scenario_recycled_related.destroy_entity 1).2.connectivity 1 = [] ∧
    (scenario_recycled_related.destroy_entity 1).2.m_deleted_entities_current_modification_cycle
      = 1 :: scenario_recycled_related.m_deleted_entities_current_modification_cycle :=
  have hr : ReachableCycles scenario_recycled_related :=
    ReachableCycles.declare_relation _ 1 2 0 0
      (ReachableCycles.declare_entity _ 2 7 []
        (ReachableCycles.update_deleted_entities_container _
          (ReachableCycles.destroy_entity _ 2
            (ReachableCycles.declare_entity _ 0 1 []
              (ReachableCycles.declare_entity _ 3 1 [10]
                (ReachableCycles.modification_begin _
                  (ReachableCycles.construct scenario_meta scenario_map 1 0 true true)))))))
  ⟨hr, by decide, by decide, by decide, by decide,
    (C16_destroy_entity_removes scenario_recycled_related 1 hr (by decide)).1,
    (C16_destroy_entity_removes scenario_recycled_related 1 hr (by decide)).2.2.2.1,
    (C16_destroy_entity_removes scenario_recycled_related 1 hr (by decide)).2.2.2.2.2.1⟩

/-! ## Freed offsets -/

theorem C18_witness :
    scenario_recycling.m_entity_keys.length = scenario_recycling.m_mesh_indexes.length ∧
    scenario_recycling.m_entity_states.length = scenario_recycling.m_mesh_indexes.length ∧
    scenario_recycling.m_entity_sync_counts.length = scenario_recycling.m_mesh_indexes.length ∧
    scenario_recycling.m_deleted_entities = [2] ∧
    scenario_recycling.generate_next_local_offset.1 = 2 ∧
    scenario_recycling.generate_next_local_offset.2.m_deleted_entities = [] ∧
    scenario_recycling.generate_next_local_offset.2.m_entity_states[
      scenario_recycling.generate_next_local_offset.1]? = some EntityState.Created ∧
    scenario_begun.m_deleted_entities = [] ∧
    scenario_begun.generate_next_local_offset.1 = scenario_begun.m_mesh_indexes.length :=
  have hfree : scenario_recycling.m_deleted_entities = [2] := by decide
  have hlt : ∀ o ∈ scenario_recycling.m_deleted_entities,
      o < scenario_recycling.m_mesh_indexes.length := by
    intro o ho
    rw [hfree, List.mem_singleton] at ho
    rw [ho]; decide
  have hfree2 : scenario_begun.m_deleted_entities = [] := by decide
  have hlt2 : ∀ o ∈ scenario_begun.m_deleted_entities, o < scenario_begun.m_mesh_indexes.length := by
    intro o ho
    rw [hfree2] at ho
    exact absurd ho (List.not_mem_nil _)
  ⟨by decide, by decide, by decide, hfree,
    ((C18_generate_next_local_offset scenario_recycling (by decide) (by decide) (by decide)
      hlt).1 2 [] hfree).1,
    ((C18_generate_next_local_offset scenario_recycling (by decide) (by decide) (by decide)
      hlt).1 2 [] hfree).2.1,
    (C18_generate_next_local_offset scenario_recycling (by decide) (by decide) (by decide)
      hlt).2.2.1.2.2.1,
    hfree2,
    ((C18_generate_next_local_offset scenario_begun (by decide) (by decide) (by decide)
      hlt2).2.1 hfree2).1⟩

theorem within_cycle_reachable (start m : BulkData) (hs : ReachableOffsets start)
    (h : WithinCycle start m) : ReachableOffsets m := by
  induction h with
  | start => exact hs
  | modification_begin m _ ih => exact ReachableOffsets.modification_begin m ih
  | modification_end m _ ih => exact ReachableOffsets.modification_end m ih
  | generate_next_local_offset m _ ih => exact ReachableOffsets.generate_next_local_offset m ih
  | declare_entity m ent_rank ent_id parts _ ih =>
    exact ReachableOffsets.declare_entity m ent_rank ent_id parts ih
  | declare_relation m e_from e_to local_id permut _ ih =>
    exact ReachableOffsets.declare_relation m e_from e_to local_id permut ih
  | declare_relation_vector m entity rel _ ih =>
    exact ReachableOffsets.declare_relation_vector m entity rel ih
  | destroy_relation m e_from e_to local_id _ ih =>
    exact ReachableOffsets.destroy_relation m e_from e_to local_id ih
  | destroy_entity m entity _ ih => exact ReachableOffsets.destroy_entity m entity ih

theorem held_back_of_frame {m m' : BulkData} (e : Entity) (hf : Frame m m')
    (h : held_back m e) : held_back m' e := by
  unfold held_back at *
  rw [hf.deleted_cycle, hf.deleted, hf.indexes_length]
  exact h

theorem generate_next_local_offset_held_back (m : BulkData) (e : Entity) (h : held_back m e) :
    m.generate_next_local_offset.1 ≠ e ∧ held_back m.generate_next_local_offset.2 e := by
  obtain ⟨h1, h2, h3⟩ := h
  rcases generate_next_local_offset_cases m with hc | hc | hc
  · obtain ⟨_, hr⟩ := hc
    rw [hr]
    refine ⟨fun heq => ?_, h1, h2, ?_⟩
    · have h4 : m.m_mesh_indexes.length = e := heq
      rw [h4] at h3
      exact Nat.lt_irrefl _ h3
    · show e < (m.m_mesh_indexes ++ [none]).length
      rw [List.length_append]
      exact Nat.lt_of_lt_of_le h3 (Nat.le_add_right _ _)
  · obtain ⟨o, rest, hcons, _, hr⟩ := hc
    rw [hr]
    have hne : o ≠ e := by
      intro heq; apply h2; rw [hcons, heq]; exact List.mem_cons_self _ _
    refine ⟨hne, h1, ?_, ?_⟩
    · intro hin; apply h2; rw [hcons]; exact List.mem_cons_of_mem _ hin
    · show e < (m.m_mesh_indexes ++ [none]).length
      rw [List.length_append]
      exact Nat.lt_of_lt_of_le h3 (Nat.le_add_right _ _)
  · obtain ⟨o, rest, hcons, _, hr⟩ := hc
    rw [hr]
    have hne : o ≠ e := by
      intro heq; apply h2; rw [hcons, heq]; exact List.mem_cons_self _ _
    refine ⟨hne, h1, ?_, ?_⟩
    · intro hin; apply h2; rw [hcons]; exact List.mem_cons_of_mem _ hin
    · show e < (m.m_mesh_indexes.set o none).length
      rw [List.length_set]
      exact h3

theorem internal_create_entity_allocated (m : BulkData) (key : EntityKey)
    (h : OffsetsConsistent m) (hc : (m.internal_create_entity key).1.2 = true) :
    (m.internal_create_entity key).2.m_deleted_entities_current_modification_cycle
      = m.generate_next_local_offset.2.m_deleted_entities_current_modification_cycle ∧
    (m.internal_create_entity key).2.m_deleted_entities
      = m.generate_next_local_offset.2.m_deleted_entities ∧
    (m.internal_create_entity key).2.m_mesh_indexes
      = m.generate_next_local_offset.2.m_mesh_indexes := by
  obtain ⟨hnone, _⟩ := get_entity_none_of_allocated m key h hc
  unfold internal_create_entity
  rw [hnone]
  exact ⟨rfl, rfl, rfl⟩

theorem declare_entity_held_back (m : BulkData) (ent_rank : EntityRank) (ent_id : EntityId)
    (parts : List PartOrdinal) (e : Entity) (ho : OffsetsConsistent m) (h : held_back m e) :
    held_back (m.declare_entity ent_rank ent_id parts).2 e ∧
    ∀ x, (m.declare_entity ent_rank ent_id parts).1 = Outcome.ok x → x ≠ e := by
  have ho0 : OffsetsConsistent (m.set_check_invalid_rels false) :=
    offsets_consistent_of_frame ho (check_flag_frame m false).1
  have h0 : held_back (m.set_check_invalid_rels false) e :=
    held_back_of_frame e (check_flag_frame m false).1 h
  have hdel : m.state e = EntityState.Deleted :=
    (ho.free_deleted e (List.mem_append_right _ h.1)).2
  rcases declare_entity_cases m ent_rank ent_id parts with hc | hc | hc
  · rw [hc.2]
    refine ⟨h0, ?_⟩
    intro x hx
    rw [hx] at hc
    exact Bool.noConfusion hc.1
  · obtain ⟨x0, _, _, hv, hr⟩ := hc
    rw [hr]
    refine ⟨held_back_of_frame e
      ((change_entity_parts_spec _ _ _ _).1.trans (check_flag_frame _ true).1) h0, ?_⟩
    intro x hx heq
    have hx0 : x0 = x := by injection hx
    rw [hx0, heq] at hv
    exact ((is_valid_iff m e).1 hv).2 hdel
  · obtain ⟨hcr, _, _, hr⟩ := hc
    rw [hr]
    obtain ⟨hgen, _, _, _, _, _, _, _, _, _, _⟩ :=
      internal_create_entity_spec _ ⟨ent_rank, ent_id⟩ ho0 hcr
    obtain ⟨g1, g2⟩ := generate_next_local_offset_held_back _ e h0
    obtain ⟨a1, a2, a3⟩ := internal_create_entity_allocated _ ⟨ent_rank, ent_id⟩ ho0 hcr
    have h1 : held_back ((m.set_check_invalid_rels false).internal_create_entity
        ⟨ent_rank, ent_id⟩).2 e := by
      unfold held_back
      rw [a1, a2, a3]
      exact g2
    refine ⟨held_back_of_frame e
      ((((change_entity_parts_spec _ _ _ _).1.trans (set_parallel_owner_rank_spec _ _ _).1).trans
        (set_synchronized_count_frame _ _ _).1).trans (check_flag_frame _ true).1) h1, ?_⟩
    intro x hx heq
    have hx0 : ((m.set_check_invalid_rels false).internal_create_entity
        ⟨ent_rank, ent_id⟩).1.1 = x := by injection hx
    rw [hgen, heq] at hx0
    exact g1 hx0

theorem destroy_entity_held_back (m : BulkData) (entity e : Entity) (h : held_back m e) :
    held_back (m.destroy_entity entity).2 e := by
  have hloop : Frame m (destroy_entity_relations entity
      (List.range m.m_mesh_meta_data.entity_rank_count).reverse
      (m.set_check_invalid_rels false)).2 :=
    (check_flag_frame m false).1.trans (destroy_entity_relations_frame _ _ _).1
  rcases destroy_entity_cases m entity with hc | hc | hc | hc
  · rw [hc.2.2]; exact h
  · rw [hc.2.2]; exact held_back_of_frame e (check_flag_frame m true).1 h
  · rw [hc.2.2.2.2.2]; exact held_back_of_frame e hloop h
  · obtain ⟨_, _, _, _, hr⟩ := hc
    rw [hr]
    obtain ⟨h1, h2, h3⟩ := held_back_of_frame e hloop h
    obtain ⟨r1, _, _, r4, _, _, _, r8⟩ := destroy_entity_remove_fields (destroy_entity_relations entity
      (List.range m.m_mesh_meta_data.entity_rank_count).reverse
      (m.set_check_invalid_rels false)).2 entity
    refine ⟨?_, ?_, ?_⟩
    · rw [r8]; exact List.mem_cons_of_mem _ h1
    · rw [r4]; exact h2
    · rw [r1, List.length_set]; exact h3

theorem modification_begin_held_back (m : BulkData) (e : Entity) (h : held_back m e) :
    held_back m.modification_begin.2 e := by
  obtain ⟨h1, _, _, h4, h5, _⟩ := modification_begin_shape m
  unfold held_back
  rw [h1, h4, h5]
  exact h

theorem within_cycle_held_back (start m : BulkData) (e : Entity) (hs : ReachableOffsets start)
    (h0 : held_back start e) (h : WithinCycle start m) : held_back m e := by
  induction h with
  | start => exact h0
  | modification_begin m _ ih => exact modification_begin_held_back m e ih
  | modification_end m _ ih => exact ih
  | generate_next_local_offset m _ ih => exact (generate_next_local_offset_held_back m e ih).2
  | declare_entity m ent_rank ent_id parts hm ih =>
    exact (declare_entity_held_back m ent_rank ent_id parts e
      (reachable_offsets_consistent m (within_cycle_reachable start m hs hm)) ih).1
  | declare_relation m e_from e_to local_id permut _ ih =>
    exact held_back_of_frame e (declare_relation_frame _ _ _ _ _) ih
  | declare_relation_vector m entity rel _ ih =>
    exact held_back_of_frame e (declare_relation_vector_frame _ _ _) ih
  | destroy_relation m e_from e_to local_id _ ih =>
    exact held_back_of_frame e (destroy_relation_connectivity _ _ _ _).1 ih
  | destroy_entity m entity _ ih => exact destroy_entity_held_back m entity e ih

theorem destroy_entity_holds_back (m : BulkData) (e : Entity) (ho : OffsetsConsistent m)
    (hok : (m.destroy_entity e).1 = Outcome.ok true) : held_back (m.destroy_entity e).2 e := by
  have hloop : Frame m (destroy_entity_relations e
      (List.range m.m_mesh_meta_data.entity_rank_count).reverse
      (m.set_check_invalid_rels false)).2 :=
    (check_flag_frame m false).1.trans (destroy_entity_relations_frame _ _ _).1
  rcases destroy_entity_cases m e with hc | hc | hc | hc
  · rw [hok] at hc; exact absurd hc.2.1 (by decide)
  · rw [hc.2.2] at hok; exact absurd hok (by simp)
  · rw [hok] at hc; exact absurd hc.2.2.2.2.1 (by decide)
  · obtain ⟨_, hv, _, _, hr⟩ := hc
    rw [hr]
    obtain ⟨r1, _, _, r4, _, _, _, r8⟩ := destroy_entity_remove_fields (destroy_entity_relations e
      (List.range m.m_mesh_meta_data.entity_rank_count).reverse
      (m.set_check_invalid_rels false)).2 e
    obtain ⟨hlt, hnd⟩ := (is_valid_iff m e).1 hv
    refine ⟨?_, ?_, ?_⟩
    · rw [r8]; exact List.mem_cons_self _ _
    · rw [r4, hloop.deleted]
      intro hin
      exact hnd (ho.free_deleted e (List.mem_append_left _ hin)).2
    · rw [r1, List.length_set, hloop.indexes_length, ho.aligned_indexes]
      exact hlt

/-- C17: let destroy_entity(e) return true on a reachable mesh. In every mesh that
follows without a call of update_deleted_entities_container, the offset of e is on
the list of offsets deleted in the current cycle and not on the free list,
generate_next_local_offset does not return it and declare_entity does not return
it either, and a call of update_deleted_entities_container puts it on the free
list. On every mesh, update_deleted_entities_container leaves the current-cycle list
empty and the free list holding exactly the offsets of the two lists before. -/
theorem C17_freed_offset_not_reused_in_cycle (m : BulkData) (e : Entity)
    (h : ReachableOffsets m) (hok : (m.destroy_entity e).1 = Outcome.ok true) :
    (∀ m' : BulkData, WithinCycle (m.destroy_entity e).2 m' →
      e ∈ m'.m_deleted_entities_current_modification_cycle ∧
      e ∉ m'.m_deleted_entities ∧
      m'.generate_next_local_offset.1 ≠ e ∧
      (∀ (ent_rank : EntityRank) (ent_id : EntityId) (parts : List PartOrdinal) (x : Entity),
        (m'.declare_entity ent_rank ent_id parts).1 = Outcome.ok x → x ≠ e) ∧
      e ∈ m'.update_deleted_entities_container.m_deleted_entities) ∧
    (∀ m0 : BulkData,
      m0.update_deleted_entities_container.m_deleted_entities_current_modification_cycle = [] ∧
      ∀ o : Nat, o ∈ m0.update_deleted_entities_container.m_deleted_entities ↔
        (o ∈ m0.m_deleted_entities_current_modification_cycle ∨ o ∈ m0.m_deleted_entities)) := by
  have hupd : ∀ m0 : BulkData,
      m0.update_deleted_entities_container.m_deleted_entities_current_modification_cycle = [] ∧
      ∀ o : Nat, o ∈ m0.update_deleted_entities_container.m_deleted_entities ↔
        (o ∈ m0.m_deleted_entities_current_modification_cycle ∨ o ∈ m0.m_deleted_entities) := by
    intro m0
    obtain ⟨h1, h2⟩ := update_deleted_entities_container_lists m0
    refine ⟨h2, ?_⟩
    intro o
    rw [h1, List.mem_append, List.mem_reverse]
  refine ⟨?_, hupd⟩
  intro m' hm'
  have hs := ReachableOffsets.destroy_entity m e h
  have h0 := destroy_entity_holds_back m e (reachable_offsets_consistent m h) hok
  have hb := within_cycle_held_back _ m' e hs h0 hm'
  have ho' := reachable_offsets_consistent m' (within_cycle_reachable _ m' hs hm')
  refine ⟨hb.1, hb.2.1, (generate_next_local_offset_held_back m' e hb).1, ?_, ?_⟩
  · intro ent_rank ent_id parts
    exact (declare_entity_held_back m' ent_rank ent_id parts e ho' hb).2
  · exact ((hupd m').2 e).2 (Or.inl hb.1)

theorem scenario_two_entities_reachable_offsets : ReachableOffsets scenario_two_entities :=
  ReachableOffsets.declare_entity _ 0 1 []
    (ReachableOffsets.declare_entity _ 3 1 [10]
      (ReachableOffsets.modification_begin _
        (ReachableOffsets.construct scenario_meta scenario_map 1 0 true true)))

theorem C17_witness :
    ReachableOffsets scenario_two_entities ∧
    (scenario_two_entities.destroy_entity 2).1 = Outcome.ok true ∧
    WithinCycle (scenario_two_entities.destroy_entity 2).2
      ((scenario_two_entities.destroy_entity 2).2.declare_entity 0 7 []).2 ∧
    ((scenario_two_entities.destroy_entity 2).2.declare_entity 0 7 []).1 = Outcome.ok 3 ∧
    ((scenario_two_entities.destroy_entity 2).2.declare_entity 0 7 []).2.generate_next_local_offset.1
      ≠ 2 ∧
    2 ∈ ((scenario_two_entities.destroy_entity 2).2.declare_entity 0 7
      []).2.update_deleted_entities_container.m_deleted_entities :=
  have hw : WithinCycle (scenario_two_entities.destroy_entity 2).2
      ((scenario_two_entities.destroy_entity 2).2.declare_entity 0 7 []).2 :=
    WithinCycle.declare_entity _ 0 7 [] WithinCycle.start
  ⟨scenario_two_entities_reachable_offsets, by decide, hw, by decide,
    ((C17_freed_offset_not_reused_in_cycle scenario_two_entities 2
      scenario_two_entities_reachable_offsets (by decide)).1 _ hw).2.2.1,
    ((C17_freed_offset_not_reused_in_cycle scenario_two_entities 2
      scenario_two_entities_reachable_offsets (by decide)).1 _ hw).2.2.2.2⟩

/-! ## Offset 0 -/

/-- C19: in every mesh reachable from the constructor through modification_begin,
modification_end, declare_entity, destroy_entity, update_deleted_entities_container,
generate_next_local_offset and the relation operations, slot 0 holds the invalid key
and the state Deleted, so that offset 0 is not a valid entity; offset 0 is neither
on the free list nor on the list of offsets deleted in the current cycle; and
generate_next_local_offset does not return 0. -/
theorem C19_offset_zero_reserved (m : BulkData) (h : ReachableOffsets m) :
    m.m_entity_keys[0]? = some EntityKey.invalid_key ∧
    m.m_entity_states[0]? = some EntityState.Deleted ∧
    m.is_valid 0 = false ∧
    0 ∉ m.m_deleted_entities ∧
    0 ∉ m.m_deleted_entities_current_modification_cycle ∧
    m.generate_next_local_offset.1 ≠ 0 := by
  have ho := reachable_offsets_consistent m h
  have hk0 : 0 < m.m_entity_keys.length := by rw [ho.aligned_keys]; exact ho.nonempty
  refine ⟨?_, ?_, not_valid_of_state_deleted m 0 ho.reserved_state, ?_, ?_,
    (generate_next_local_offset_spec m ho).2.1⟩
  · have h1 := ho.reserved_key
    unfold entity_key at h1
    rw [List.getD_eq_getElem?_getD, List.getElem?_eq_getElem hk0] at h1
    rw [List.getElem?_eq_getElem hk0]
    exact congrArg some h1
  · have h1 := ho.reserved_state
    unfold state at h1
    rw [List.getD_eq_getElem?_getD, List.getElem?_eq_getElem ho.nonempty] at h1
    rw [List.getElem?_eq_getElem ho.nonempty]
    exact congrArg some h1
  · intro hin; exact ho.free_nonzero 0 (List.mem_append_left _ hin) rfl
  · intro hin; exact ho.free_nonzero 0 (List.mem_append_right _ hin) rfl

theorem scenario_recycling_reachable : ReachableOffsets scenario_recycling :=
  ReachableOffsets.update_deleted_entities_container _
    (ReachableOffsets.destroy_entity _ 2 scenario_two_entities_reachable_offsets)

theorem C19_witness :
    ReachableOffsets scenario_recycling ∧
    scenario_recycling.m_deleted_entities = [2] ∧
    scenario_recycling.m_entity_keys[0]? = some EntityKey.invalid_key ∧
    scenario_recycling.m_entity_states[0]? = some EntityState.Deleted ∧
    scenario_recycling.generate_next_local_offset.1 ≠ 0 :=
  ⟨scenario_recycling_reachable, by decide,
    (C19_offset_zero_reserved scenario_recycling scenario_recycling_reachable).1,
    (C19_offset_zero_reserved scenario_recycling scenario_recycling_reachable).2.1,
    (C19_offset_zero_reserved scenario_recycling scenario_recycling_reachable).2.2.2.2.2⟩

/-! ## The comm list on entity destruction -/

theorem key_less_trans (a b c : EntityKey) (h1 : key_less a b = true)
    (h2 : key_less b c = true) : key_less a c = true := by
  unfold key_less at *
  simp only [Bool.or_eq_true, Bool.and_eq_true, decide_eq_true_eq] at *
  rcases h1 with h1 | ⟨h1, h1'⟩ <;> rcases h2 with h2 | ⟨h2, h2'⟩
  · left; exact Nat.lt_trans h1 h2
  · left; rw [← h2]; exact h1
  · left; rw [h1]; exact h2
  · right; exact ⟨h1.trans h2, Nat.lt_trans h1' h2'⟩

theorem key_less_irrefl (a : EntityKey) : key_less a a = false := by
  unfold key_less
  simp

theorem sorted_getElem?_lt (l : List EntityCommListInfo) (hs : comm_list_sorted l)
    (i j : Nat) (a b : EntityCommListInfo) (hij : i < j)
    (ha : l[i]? = some a) (hb : l[j]? = some b) : key_less a.key b.key = true := by
  obtain ⟨hi, hai⟩ := List.getElem?_eq_some.1 ha
  obtain ⟨hj, hbj⟩ := List.getElem?_eq_some.1 hb
  have := List.pairwise_iff_getElem.1 hs i j hi hj hij
  rw [hai, hbj] at this
  exact this

/-- The bisection returns the first position whose key is not less than `key`. -/
theorem comm_list_lower_bound_go_spec (l : List EntityCommListInfo) (key : EntityKey)
    (hs : comm_list_sorted l) (fuel : Nat) :
    ∀ (first count : Nat), count < fuel → first + count ≤ l.length →
      (∀ (i : Nat) (info : EntityCommListInfo), i < first → l[i]? = some info →
        key_less info.key key = true) →
      (∀ (i : Nat) (info : EntityCommListInfo), first + count ≤ i → l[i]? = some info →
        key_less info.key key = false) →
      (∀ (i : Nat) (info : EntityCommListInfo),
        i < comm_list_lower_bound_go l key fuel first count → l[i]? = some info →
        key_less info.key key = true) ∧
      (∀ (i : Nat) (info : EntityCommListInfo),
        comm_list_lower_bound_go l key fuel first count ≤ i → l[i]? = some info →
        key_less info.key key = false) := by
  induction fuel with
  | zero => intro first count h; exact absurd h (Nat.not_lt_zero _)
  | succ fuel ih =>
    intro first count hfuel hlen hlow hhigh
    unfold comm_list_lower_bound_go
    by_cases hc : count = 0
    · rw [if_pos hc]
      subst hc
      exact ⟨hlow, fun i info hi => hhigh i info (by simpa using hi)⟩
    · rw [if_neg hc]
      dsimp only
      have hstep : count / 2 < count := Nat.div_lt_self (Nat.pos_of_ne_zero hc) (by decide)
      have hit : first + count / 2 < l.length := by omega
      have hget : l.get? (first + count / 2) = some (l[first + count / 2]) := by
        rw [List.get?_eq_getElem?]
        exact List.getElem?_eq_getElem hit
      have hget2 : l[first + count / 2]? = some (l[first + count / 2]) :=
        List.getElem?_eq_getElem hit
      rw [hget]
      dsimp only
      by_cases hless : key_less (l[first + count / 2]).key key = true
      · rw [if_pos hless]
        apply ih (first + count / 2 + 1) (count - (count / 2 + 1)) (by omega) (by omega)
        · intro i info hi hinfo
          by_cases h1 : i < first
          · exact hlow i info h1 hinfo
          · by_cases h2 : i = first + count / 2
            · rw [h2, hget2] at hinfo
              rw [← Option.some.inj hinfo]
              exact hless
            · exact key_less_trans _ _ _
                (sorted_getElem?_lt l hs i (first + count / 2) info _ (by omega) hinfo hget2) hless
        · intro i info hi hinfo
          exact hhigh i info (by omega) hinfo
      · rw [if_neg hless]
        apply ih first (count / 2) (by omega) (by omega) hlow
        intro i info hi hinfo
        by_cases h2 : i = first + count / 2
        · rw [h2, hget2] at hinfo
          rw [← Option.some.inj hinfo]
          simpa using hless
        · cases hk : key_less info.key key with
          | false => rfl
          | true =>
            exfalso
            apply hless
            exact key_less_trans _ _ _
              (sorted_getElem?_lt l hs (first + count / 2) i _ info (by omega) hget2 hinfo) hk

theorem comm_list_lower_bound_spec (l : List EntityCommListInfo) (key : EntityKey)
    (hs : comm_list_sorted l) :
    (∀ (i : Nat) (info : EntityCommListInfo), i < comm_list_lower_bound l key →
      l[i]? = some info → key_less info.key key = true) ∧
    (∀ (i : Nat) (info : EntityCommListInfo), comm_list_lower_bound l key ≤ i →
      l[i]? = some info → key_less info.key key = false) := by
  unfold comm_list_lower_bound
  apply comm_list_lower_bound_go_spec l key hs (l.length + 1) 0 l.length (Nat.lt_succ_self _)
    (by omega)
  · intro i info hi; exact absurd hi (Nat.not_lt_zero _)
  · intro i info hi hinfo
    have := (List.getElem?_eq_some.1 hinfo).1
    omega

/-- On a sorted comm list, the step that invalidates the handle sets the entity
reference of the entry of the key, if there is one, to the invalid entity and
leaves every other entry as it is. -/
theorem invalidate_comm_list_entity_spec (m : BulkData) (key : EntityKey)
    (hs : comm_list_sorted m.m_entity_comm_list) (i : Nat) (info : EntityCommListInfo)
    (hinfo : m.m_entity_comm_list[i]? = some info) :
    (m.invalidate_comm_list_entity key).m_entity_comm_list[i]?
      = some (if info.key = key then { info with entity := 0 } else info) := by
  obtain ⟨hlow, hhigh⟩ := comm_list_lower_bound_spec m.m_entity_comm_list key hs
  have hat : info.key = key → i = comm_list_lower_bound m.m_entity_comm_list key := by
    intro hk
    have hnl : key_less info.key key = false := by rw [hk]; exact key_less_irrefl key
    have h1 : comm_list_lower_bound m.m_entity_comm_list key ≤ i := by
      by_contra hlt
      have := hlow i info (Nat.lt_of_not_le hlt) hinfo
      rw [hnl] at this
      exact Bool.noConfusion this
    by_contra hne
    have hlt : comm_list_lower_bound m.m_entity_comm_list key < i := by omega
    have hlen := (List.getElem?_eq_some.1 hinfo).1
    have hlb : comm_list_lower_bound m.m_entity_comm_list key < m.m_entity_comm_list.length := by
      omega
    have hget := List.getElem?_eq_getElem hlb
    have h2 := sorted_getElem?_lt _ hs _ i _ info hlt hget hinfo
    have h3 := hhigh _ _ (Nat.le_refl _) hget
    rw [hk] at h2
    rw [h3] at h2
    exact Bool.noConfusion h2
  unfold invalidate_comm_list_entity
  dsimp only
  cases hlb : m.m_entity_comm_list.get? (comm_list_lower_bound m.m_entity_comm_list key) with
  | none =>
    dsimp only
    rw [hinfo]
    by_cases hk : info.key = key
    · exfalso
      have := hat hk
      rw [List.get?_eq_getElem?, ← this, hinfo] at hlb
      exact Option.noConfusion hlb
    · rw [if_neg hk]
  | some info0 =>
    dsimp only
    rw [List.get?_eq_getElem?] at hlb
    by_cases hk0 : info0.key = key
    · rw [if_pos hk0]
      show (m.m_entity_comm_list.set _ _)[i]? = _
      by_cases hi : i = comm_list_lower_bound m.m_entity_comm_list key
      · rw [← hi] at hlb ⊢
        rw [hinfo] at hlb
        have : info = info0 := Option.some.inj hlb
        rw [this, if_pos hk0]
        exact getElem?_set_self _ _ _ (List.getElem?_eq_some.1 hinfo).1
      · rw [getElem?_set_ne _ _ _ _ hi, hinfo]
        rw [if_neg (fun hk => hi (hat hk))]
    · rw [if_neg hk0, hinfo]
      by_cases hk : info.key = key
      · exfalso
        have := hat hk
        rw [← this, hinfo] at hlb
        have : info = info0 := Option.some.inj hlb
        rw [this] at hk
        exact hk0 hk
      · rw [if_neg hk]

theorem destroy_entity_remove_comm_list (m : BulkData) (entity : Entity) :
    (m.destroy_entity_remove entity).m_entity_comm_list
      = (m.invalidate_comm_list_entity (m.entity_key entity)).m_entity_comm_list := rfl

theorem list_ext_of_getElem?_map {α β : Type} (l l' : List α) (f : α → β)
    (h : ∀ (i : Nat) (a : α), l[i]? = some a → ∃ a', l'[i]? = some a' ∧ f a' = f a)
    (hlen : l'.length = l.length) : l'.map f = l.map f := by
  apply List.ext_getElem?
  intro i
  rw [List.getElem?_map, List.getElem?_map]
  cases hl : l[i]? with
  | none =>
    have : l.length ≤ i := List.getElem?_eq_none_iff.1 hl
    rw [List.getElem?_eq_none (by omega)]
  | some a =>
    obtain ⟨a', ha', hf⟩ := h i a hl
    rw [ha']
    simp [hf]

/-- C20: let the comm list be sorted by key. A destroy_entity(e) that returns true
leaves the length of the comm list and the key and owner of every entry as they
were, so the list stays sorted; the entry whose key is the key of e, if there is
one, has its entity reference set to the invalid entity (offset 0), and every other
entry is unchanged. -/
theorem C20_destroy_entity_comm_list_in_place (m : BulkData) (entity : Entity)
    (hsorted : comm_list_sorted m.m_entity_comm_list)
    (hok : (m.destroy_entity entity).1 = Outcome.ok true) :
    (m.destroy_entity entity).2.m_entity_comm_list.length = m.m_entity_comm_list.length ∧
    (m.destroy_entity entity).2.m_entity_comm_list.map (fun info => info.key)
      = m.m_entity_comm_list.map (fun info => info.key) ∧
    (m.destroy_entity entity).2.m_entity_comm_list.map (fun info => info.owner)
      = m.m_entity_comm_list.map (fun info => info.owner) ∧
    comm_list_sorted (m.destroy_entity entity).2.m_entity_comm_list ∧
    (∀ (i : Nat) (info : EntityCommListInfo), m.m_entity_comm_list[i]? = some info →
      (m.destroy_entity entity).2.m_entity_comm_list[i]?
        = some (if info.key = m.entity_key entity then { info with entity := 0 } else info)) := by
  have hloop : Frame m (destroy_entity_relations entity
      (List.range m.m_mesh_meta_data.entity_rank_count).reverse
      (m.set_check_invalid_rels false)).2 :=
    (check_flag_frame m false).1.trans (destroy_entity_relations_frame _ _ _).1
  rcases destroy_entity_cases m entity with hc | hc | hc | hc
  · rw [hok] at hc; exact absurd hc.2.1 (by decide)
  · rw [hc.2.2] at hok; exact absurd hok (by simp)
  · rw [hok] at hc; exact absurd hc.2.2.2.2.1 (by decide)
  · obtain ⟨_, _, _, _, hr⟩ := hc
    rw [hr]
    dsimp only
    generalize (destroy_entity_relations entity
      (List.range m.m_mesh_meta_data.entity_rank_count).reverse
      (m.set_check_invalid_rels false)).2 = m1 at hloop ⊢
    have hs1 : comm_list_sorted m1.m_entity_comm_list := by rw [hloop.comm_list]; exact hsorted
    have hentry : ∀ (i : Nat) (info : EntityCommListInfo), m.m_entity_comm_list[i]? = some info →
        (m1.destroy_entity_remove entity).m_entity_comm_list[i]?
          = some (if info.key = m.entity_key entity then { info with entity := 0 } else info) := by
      intro i info hinfo
      rw [destroy_entity_remove_comm_list, ← hloop.entity_key]
      apply invalidate_comm_list_entity_spec m1 _ hs1
      rw [hloop.comm_list]; exact hinfo
    have hlen : (m1.destroy_entity_remove entity).m_entity_comm_list.length
        = m.m_entity_comm_list.length := by
      rw [destroy_entity_remove_comm_list]
      unfold invalidate_comm_list_entity
      dsimp only
      cases m1.m_entity_comm_list.get? (comm_list_lower_bound m1.m_entity_comm_list
          (m1.entity_key entity)) with
      | none => exact congrArg List.length hloop.comm_list
      | some info0 =>
        dsimp only
        split
        · show (m1.m_entity_comm_list.set _ _).length = _
          rw [List.length_set, hloop.comm_list]
        · exact congrArg List.length hloop.comm_list
    have hkeys : (m1.destroy_entity_remove entity).m_entity_comm_list.map (fun info => info.key)
        = m.m_entity_comm_list.map (fun info => info.key) := by
      apply list_ext_of_getElem?_map _ _ _ _ hlen
      intro i info hinfo
      refine ⟨_, hentry i info hinfo, ?_⟩
      split <;> rfl
    have howners : (m1.destroy_entity_remove entity).m_entity_comm_list.map
        (fun info => info.owner) = m.m_entity_comm_list.map (fun info => info.owner) := by
      apply list_ext_of_getElem?_map _ _ _ _ hlen
      intro i info hinfo
      refine ⟨_, hentry i info hinfo, ?_⟩
      split <;> rfl
    refine ⟨hlen, hkeys, howners, ?_, hentry⟩
    unfold comm_list_sorted at hsorted ⊢
    have h1 : (m.m_entity_comm_list.map (fun info => info.key)).Pairwise
        (fun a b => key_less a b = true) := List.pairwise_map.2 hsorted
    rw [← hkeys] at h1
    exact List.pairwise_map.1 h1

theorem C20_witness :
    comm_list_sorted scenario_with_comm_list.m_entity_comm_list ∧
    (scenario_with_comm_list.destroy_entity 1).1 = Outcome.ok true ∧
    scenario_with_comm_list.entity_key 1 = ⟨3, 1⟩ ∧
    (scenario_with_comm_list.destroy_entity 1).2.m_entity_comm_list[1]?
      = some ⟨⟨3, 1⟩, 0, 0⟩ ∧
    (scenario_with_comm_list.destroy_entity 1).2.m_entity_comm_list[0]?
      = some ⟨⟨0, 1⟩, 0, 2⟩ :=
  have hs : comm_list_sorted scenario_with_comm_list.m_entity_comm_list := by
    unfold comm_list_sorted
    decide
  ⟨hs, by decide, by decide,
    (C20_destroy_entity_comm_list_in_place scenario_with_comm_list 1 hs (by decide)).2.2.2.2 1
      ⟨⟨3, 1⟩, 0, 1⟩ (by decide),
    (C20_destroy_entity_comm_list_in_place scenario_with_comm_list 1 hs (by decide)).2.2.2.2 0
      ⟨⟨0, 1⟩, 0, 2⟩ (by decide)⟩

/-! ## The sync count array keeps the length of the mesh index array -/

theorem modified_fuel_counts (fuel : Nat) (m : BulkData) (entity : Entity) :
    (modified_fuel fuel m entity).m_entity_sync_counts = m.m_entity_sync_counts := by
  induction fuel generalizing m entity with
  | zero => rfl
  | succ fuel ih =>
    unfold modified_fuel
    by_cases hs : m.state entity = EntityState.Unchanged
    · rw [if_neg (not_not.2 hs)]
      apply foldl_preserves (fun acc => acc.m_entity_sync_counts = m.m_entity_sync_counts)
      · intro acc irank hacc
        apply foldl_preserves (fun acc => acc.m_entity_sync_counts = m.m_entity_sync_counts)
        · intro acc2 c hacc2
          by_cases hc : acc2.state c.entity = EntityState.Unchanged
          · simp only [hc, if_true]
            exact (ih acc2 c.entity).trans hacc2
          · simp only [hc, if_false]
            exact hacc2
        · exact hacc
      · rfl
    · rw [if_pos hs]

theorem modified_counts (m : BulkData) (entity : Entity) :
    (m.modified entity).m_entity_sync_counts = m.m_entity_sync_counts :=
  modified_fuel_counts _ m entity

theorem internal_change_entity_parts_counts (m : BulkData) (e : Entity)
    (add_parts remove_parts : List PartOrdinal) :
    (m.internal_change_entity_parts e add_parts remove_parts).m_entity_sync_counts
      = m.m_entity_sync_counts := by
  unfold internal_change_entity_parts
  dsimp only
  cases m.mesh_index e <;> rfl

theorem internal_declare_relation_counts (m : BulkData) (e e_to : Entity)
    (local_id : RelationIdentifier) (sync_count : Nat) (back : Bool) (permut : Permutation) :
    (internal_declare_relation m e e_to local_id sync_count back permut).2.m_entity_sync_counts.length
      = m.m_entity_sync_counts.length := by
  have hb : (bucket_declare_relation m e e_to local_id permut).2.m_entity_sync_counts
      = m.m_entity_sync_counts := by
    unfold bucket_declare_relation
    dsimp only
    split
    · rfl
    · split
      · rfl
      · cases m.mesh_index e <;> rfl
  unfold internal_declare_relation
  cases hbr : bucket_declare_relation m e e_to local_id permut with
  | mk o m1 =>
    rw [hbr] at hb
    dsimp only at hb
    cases o with
    | error msg => exact congrArg List.length hb
    | ok caused =>
      cases caused
      · exact congrArg List.length hb
      · show (m1.m_entity_sync_counts.set e sync_count).length = _
        rw [List.length_set, hb]

theorem bucket_destroy_relation_counts (m : BulkData) (e e_to : Entity)
    (ordinal : ConnectivityOrdinal) :
    (bucket_destroy_relation m e e_to ordinal).2.m_entity_sync_counts = m.m_entity_sync_counts := by
  unfold bucket_destroy_relation
  cases m.mesh_index e with
  | none => rfl
  | some idx =>
    dsimp only
    split <;> rfl

theorem destroy_relation_parts_counts (m : BulkData) (e_from e_to : Entity)
    (local_id : RelationIdentifier) :
    (destroy_relation_parts m e_from e_to local_id).m_entity_sync_counts
      = m.m_entity_sync_counts := by
  unfold destroy_relation_parts
  dsimp only
  split
  · split
    · exact internal_change_entity_parts_counts _ _ _ _
    · rfl
  · rfl

theorem declare_relation_counts (m : BulkData) (e_from e_to : Entity)
    (local_id : RelationIdentifier) (permut : Permutation) :
    (m.declare_relation e_from e_to local_id permut).2.m_entity_sync_counts.length
      = m.m_entity_sync_counts.length := by
  unfold declare_relation
  cases m.require_ok_to_modify with
  | error msg => rfl
  | ok u =>
    cases require_valid_relation "declare" m e_from e_to with
    | error msg => rfl
    | ok u =>
      dsimp only
      have h1 := internal_declare_relation_counts m e_from e_to local_id m.m_sync_count false permut
      cases hr : internal_declare_relation m e_from e_to local_id m.m_sync_count false permut with
      | mk o m1 =>
        rw [hr] at h1
        dsimp only at h1
        have hfin : ∀ m3 : BulkData,
            m3.m_entity_sync_counts.length = m.m_entity_sync_counts.length →
            ∀ add : List PartOrdinal,
            (internal_change_entity_parts m3 e_to add []).m_entity_sync_counts.length
              = m.m_entity_sync_counts.length := by
          intro m3 h3 add
          rw [internal_change_entity_parts_counts]; exact h3
        have hflood : ∀ m2 : BulkData,
            m2.m_entity_sync_counts.length = m.m_entity_sync_counts.length →
            ((m2.modified e_to).modified e_from).m_entity_sync_counts.length
              = m.m_entity_sync_counts.length := by
          intro m2 h2
          rw [modified_counts, modified_counts]; exact h2
        cases o with
        | error msg => exact h1
        | ok caused_fwd =>
          cases caused_fwd with
          | false => exact hfin m1 h1 _
          | true =>
            dsimp only
            rw [if_pos rfl]
            by_cases htrack : m1.tracks_back_relation (m1.entity_rank e_to) (m1.entity_rank e_from)
                = true
            · rw [if_pos htrack]
              have h2 := internal_declare_relation_counts m1 e_to e_from local_id m1.m_sync_count
                true permut
              cases hr2 : internal_declare_relation m1 e_to e_from local_id m1.m_sync_count true
                  permut with
              | mk o2 m2 =>
                rw [hr2] at h2
                dsimp only at h2
                cases o2 with
                | error msg => exact h2.trans h1
                | ok caused_inv =>
                  cases caused_inv with
                  | false => exact h2.trans h1
                  | true => exact hfin _ (hflood m2 (h2.trans h1)) _
            · rw [if_neg htrack]
              exact hfin _ (hflood m1 h1) _

theorem destroy_relation_counts (m : BulkData) (e_from e_to : Entity)
    (local_id : RelationIdentifier) :
    (m.destroy_relation e_from e_to local_id).2.m_entity_sync_counts = m.m_entity_sync_counts := by
  unfold destroy_relation
  cases m.require_ok_to_modify with
  | error msg => rfl
  | ok u =>
    cases require_valid_relation "destroy" m e_from e_to with
    | error msg => rfl
    | ok u =>
      dsimp only
      have h2 : (destroy_relation_parts (m.set_check_invalid_rels false) e_from e_to
          local_id).m_entity_sync_counts = m.m_entity_sync_counts :=
        destroy_relation_parts_counts _ _ _ _
      generalize destroy_relation_parts (m.set_check_invalid_rels false) e_from e_to local_id = m2
        at h2
      have h3 := bucket_destroy_relation_counts m2 e_from e_to local_id
      cases hb : bucket_destroy_relation m2 e_from e_to local_id with
      | mk fwd m3 =>
        rw [hb] at h3
        dsimp only at h3
        cases fwd with
        | false => exact h3.trans h2
        | true =>
          dsimp only
          rw [if_pos rfl]
          have h4 := bucket_destroy_relation_counts m3 e_to e_from local_id
          cases hb2 : bucket_destroy_relation m3 e_to e_from local_id with
          | mk inv m4 =>
            rw [hb2] at h4
            dsimp only at h4
            cases inv with
            | false => exact h4.trans (h3.trans h2)
            | true =>
              show ((m4.modified e_to).modified e_from).m_entity_sync_counts = _
              rw [modified_counts, modified_counts]
              exact h4.trans (h3.trans h2)

theorem declare_relation_loop_counts (entity : Entity) (erank : EntityRank)
    (rel : List Relation) (m : BulkData) :
    (declare_relation_loop entity erank rel m).2.m_entity_sync_counts.length
      = m.m_entity_sync_counts.length := by
  induction rel generalizing m with
  | nil => rfl
  | cons i rest ih =>
    unfold declare_relation_loop
    dsimp only
    split
    · have hd := declare_relation_counts m entity i.entity i.relation_ordinal i.orientation
      cases hr : m.declare_relation entity i.entity i.relation_ordinal i.orientation with
      | mk o m1 =>
        rw [hr] at hd
        cases o with
        | error msg => exact hd
        | ok u => exact (ih m1).trans hd
    · split
      · have hd := declare_relation_counts m i.entity entity i.relation_ordinal i.orientation
        cases hr : m.declare_relation i.entity entity i.relation_ordinal i.orientation with
        | mk o m1 =>
          rw [hr] at hd
          cases o with
          | error msg => exact hd
          | ok u => exact (ih m1).trans hd
      · rfl

theorem destroy_entity_relations_of_rank_counts (entity : Entity) (irank : EntityRank) (j : Nat)
    (m : BulkData) :
    (destroy_entity_relations_of_rank entity irank j m).2.m_entity_sync_counts
      = m.m_entity_sync_counts := by
  induction j generalizing m with
  | zero =>
    unfold destroy_entity_relations_of_rank
    rfl
  | succ j ih =>
    unfold destroy_entity_relations_of_rank
    cases hget : (m.begin_entities entity irank).get? j with
    | none => exact ih m
    | some c0 =>
      dsimp only
      by_cases hv : m.is_valid c0.entity = true
      · rw [if_pos hv]
        have hd := destroy_relation_counts m entity c0.entity c0.ordinal
        cases hr : m.destroy_relation entity c0.entity c0.ordinal with
        | mk o m1 =>
          rw [hr] at hd
          cases o with
          | error msg => exact hd
          | ok b => exact (ih m1).trans hd
      · rw [if_neg hv]
        exact ih m

theorem destroy_entity_relations_counts (entity : Entity) (ranks : List EntityRank)
    (m : BulkData) :
    (destroy_entity_relations entity ranks m).2.m_entity_sync_counts = m.m_entity_sync_counts := by
  induction ranks generalizing m with
  | nil =>
    unfold destroy_entity_relations
    rfl
  | cons irank rest ih =>
    unfold destroy_entity_relations
    have hin := destroy_entity_relations_of_rank_counts entity irank
      (m.num_connectivity entity irank) m
    cases hr : destroy_entity_relations_of_rank entity irank (m.num_connectivity entity irank) m with
    | mk o m1 =>
      rw [hr] at hin
      cases o with
      | error msg => exact hin
      | ok u => exact (ih m1).trans hin

theorem destroy_entity_counts (m : BulkData) (entity : Entity) :
    (m.destroy_entity entity).2.m_entity_sync_counts = m.m_entity_sync_counts ∧
    (m.destroy_entity entity).2.m_mesh_indexes.length = m.m_mesh_indexes.length := by
  have hloop : Frame m (destroy_entity_relations entity
      (List.range m.m_mesh_meta_data.entity_rank_count).reverse
      (m.set_check_invalid_rels false)).2 :=
    (check_flag_frame m false).1.trans (destroy_entity_relations_frame _ _ _).1
  have hl := destroy_entity_relations_counts entity
    (List.range m.m_mesh_meta_data.entity_rank_count).reverse (m.set_check_invalid_rels false)
  rcases destroy_entity_cases m entity with hc | hc | hc | hc
  · rw [hc.2.2]; exact ⟨rfl, rfl⟩
  · rw [hc.2.2]; exact ⟨rfl, rfl⟩
  · rw [hc.2.2.2.2.2]; exact ⟨hl, hloop.indexes_length⟩
  · rw [hc.2.2.2.2]
    dsimp only
    obtain ⟨cl, hcl⟩ := invalidate_comm_list_entity_eq (destroy_entity_relations entity
      (List.range m.m_mesh_meta_data.entity_rank_count).reverse
      (m.set_check_invalid_rels false)).2 ((destroy_entity_relations entity
      (List.range m.m_mesh_meta_data.entity_rank_count).reverse
      (m.set_check_invalid_rels false)).2.entity_key entity)
    refine ⟨?_, ?_⟩
    · unfold destroy_entity_remove
      rw [hcl]
      exact hl
    · rw [(destroy_entity_remove_fields _ entity).1, List.length_set]
      exact hloop.indexes_length

theorem generate_next_local_offset_counts (m : BulkData)
    (h : m.m_entity_sync_counts.length = m.m_mesh_indexes.length) :
    m.generate_next_local_offset.2.m_entity_sync_counts.length
      = m.generate_next_local_offset.2.m_mesh_indexes.length := by
  rcases generate_next_local_offset_cases m with hc | hc | hc
  · rw [hc.2]
    show (m.m_entity_sync_counts ++ [0]).length = (m.m_mesh_indexes ++ [none]).length
    rw [List.length_append, List.length_append, h]; rfl
  · obtain ⟨o, rest, _, _, hr⟩ := hc
    rw [hr]
    show (m.m_entity_sync_counts ++ [0]).length = (m.m_mesh_indexes ++ [none]).length
    rw [List.length_append, List.length_append, h]; rfl
  · obtain ⟨o, rest, _, _, hr⟩ := hc
    rw [hr]
    show (m.m_entity_sync_counts.set o 0).length = (m.m_mesh_indexes.set o none).length
    rw [List.length_set, List.length_set, h]

theorem internal_create_entity_counts (m : BulkData) (key : EntityKey)
    (h : m.m_entity_sync_counts.length = m.m_mesh_indexes.length) :
    (m.internal_create_entity key).2.m_entity_sync_counts.length
      = (m.internal_create_entity key).2.m_mesh_indexes.length := by
  have hg := generate_next_local_offset_counts m h
  unfold internal_create_entity
  dsimp only
  cases m.get_entity key with
  | none => exact hg
  | some e =>
    dsimp only
    split
    · exact h
    · exact hg

theorem change_entity_parts_counts (m : BulkData) (e : Entity)
    (add_parts remove_parts : List PartOrdinal) :
    (m.change_entity_parts e add_parts remove_parts).m_entity_sync_counts
      = m.m_entity_sync_counts := by
  unfold change_entity_parts
  exact internal_change_entity_parts_counts _ _ _ _

theorem set_parallel_owner_rank_counts (m : BulkData) (e : Entity) (owner : Nat) :
    (m.set_parallel_owner_rank e owner).m_entity_sync_counts = m.m_entity_sync_counts := by
  unfold set_parallel_owner_rank
  cases m.mesh_index e <;> rfl

theorem declare_entity_counts (m : BulkData) (ent_rank : EntityRank) (ent_id : EntityId)
    (parts : List PartOrdinal) (h : m.m_entity_sync_counts.length = m.m_mesh_indexes.length) :
    (m.declare_entity ent_rank ent_id parts).2.m_entity_sync_counts.length
      = (m.declare_entity ent_rank ent_id parts).2.m_mesh_indexes.length := by
  rcases declare_entity_cases m ent_rank ent_id parts with hc | hc | hc
  · rw [hc.2]; exact h
  · obtain ⟨e, _, _, _, hr⟩ := hc
    rw [hr]
    show ((m.set_check_invalid_rels false).change_entity_parts e _ []).m_entity_sync_counts.length
      = ((m.set_check_invalid_rels false).change_entity_parts e _ []).m_mesh_indexes.length
    rw [change_entity_parts_counts, (change_entity_parts_spec _ _ _ _).1.indexes_length]
    exact h
  · obtain ⟨_, _, _, hr⟩ := hc
    rw [hr]
    have h1 := internal_create_entity_counts (m.set_check_invalid_rels false) ⟨ent_rank, ent_id⟩ h
    generalize ((m.set_check_invalid_rels false).internal_create_entity ⟨ent_rank, ent_id⟩).1.1
      = o at *
    generalize ((m.set_check_invalid_rels false).internal_create_entity ⟨ent_rank, ent_id⟩).2
      = m1 at *
    dsimp only
    have c1 := (change_entity_parts_spec m1 o
      (parts ++ [m1.m_mesh_meta_data.locally_owned_part]) []).1
    have cc := change_entity_parts_counts m1 o (parts ++ [m1.m_mesh_meta_data.locally_owned_part]) []
    generalize m1.change_entity_parts o (parts ++ [m1.m_mesh_meta_data.locally_owned_part]) []
      = m2 at c1 cc ⊢
    have o1 := (set_parallel_owner_rank_spec m2 o m2.m_parallel_rank).1
    have oc := set_parallel_owner_rank_counts m2 o m2.m_parallel_rank
    generalize m2.set_parallel_owner_rank o m2.m_parallel_rank = m3 at o1 oc ⊢
    show (m3.m_entity_sync_counts.set o m2.m_sync_count).length = m3.m_mesh_indexes.length
    rw [List.length_set, oc, cc, o1.indexes_length, c1.indexes_length]
    exact h1

theorem modification_begin_counts (m : BulkData) :
    m.modification_begin.2.m_entity_sync_counts = m.m_entity_sync_counts := by
  unfold modification_begin require_metadata_committed
  dsimp only
  split_ifs <;> rfl

/-- In every reachable mesh the sync count array is as long as the mesh index
array. -/
theorem reachable_counts_aligned (m : BulkData) (h : ReachableOffsets m) :
    m.m_entity_sync_counts.length = m.m_mesh_indexes.length := by
  induction h with
  | construct meta cmap parallel_size parallel_rank consistent assertions => rfl
  | modification_begin m _ ih =>
    rw [modification_begin_counts, (modification_begin_shape m).1]; exact ih
  | modification_end m _ ih => exact ih
  | update_deleted_entities_container m _ ih => exact ih
  | generate_next_local_offset m _ ih => exact generate_next_local_offset_counts m ih
  | declare_entity m ent_rank ent_id parts _ ih =>
    exact declare_entity_counts m ent_rank ent_id parts ih
  | declare_relation m e_from e_to local_id permut _ ih =>
    rw [declare_relation_counts, (declare_relation_frame _ _ _ _ _).indexes_length]; exact ih
  | declare_relation_vector m entity rel _ ih =>
    rw [(declare_relation_vector_frame _ _ _).indexes_length]
    unfold declare_relation_vector
    cases m.require_ok_to_modify with
    | error msg => exact ih
    | ok u => exact (declare_relation_loop_counts _ _ _ _).trans ih
  | destroy_relation m e_from e_to local_id _ ih =>
    rw [destroy_relation_counts, (destroy_relation_connectivity _ _ _ _).1.indexes_length]
    exact ih
  | destroy_entity m entity _ ih =>
    rw [(destroy_entity_counts m entity).1, (destroy_entity_counts m entity).2]; exact ih


/-- Every reachable mesh meets the conditions under which generate_next_local_offset
was described: the four per-entity arrays have one length and the free offsets lie
inside them. -/
theorem reachable_arrays_aligned (m : BulkData) (h : ReachableOffsets m) :
    m.m_entity_keys.length = m.m_mesh_indexes.length ∧
    m.m_entity_states.length = m.m_mesh_indexes.length ∧
    m.m_entity_sync_counts.length = m.m_mesh_indexes.length ∧
    ∀ o ∈ m.m_deleted_entities, o < m.m_mesh_indexes.length := by
  have ho := reachable_offsets_consistent m h
  refine ⟨ho.aligned_keys.trans ho.aligned_indexes.symm, ho.aligned_indexes.symm,
    reachable_counts_aligned m h, ?_⟩
  intro o hin
  rw [ho.aligned_indexes]
  exact (ho.free_deleted o (List.mem_append_left _ hin)).1
/-! ## Declaring an entity -/

theorem declare_entity_creates (m : BulkData) (ent_rank : EntityRank) (ent_id : EntityId)
    (parts : List PartOrdinal)
    (hmod : m.m_sync_state = BulkDataSyncState.MODIFIABLE)
    (hgood : m.require_good_rank_and_id ent_rank ent_id = Outcome.ok ())
    (hc : ((m.set_check_invalid_rels false).internal_create_entity ⟨ent_rank, ent_id⟩).1.2 = true) :
    m.declare_entity ent_rank ent_id parts =
      (Outcome.ok ((m.set_check_invalid_rels false).internal_create_entity ⟨ent_rank, ent_id⟩).1.1,
        ((((((m.set_check_invalid_rels false).internal_create_entity
              ⟨ent_rank, ent_id⟩).2.change_entity_parts
            ((m.set_check_invalid_rels false).internal_create_entity ⟨ent_rank, ent_id⟩).1.1
            (parts ++ [((m.set_check_invalid_rels false).internal_create_entity
              ⟨ent_rank, ent_id⟩).2.m_mesh_meta_data.locally_owned_part]) []).set_parallel_owner_rank
            ((m.set_check_invalid_rels false).internal_create_entity ⟨ent_rank, ent_id⟩).1.1
            ((((m.set_check_invalid_rels false).internal_create_entity
              ⟨ent_rank, ent_id⟩).2.change_entity_parts
            ((m.set_check_invalid_rels false).internal_create_entity ⟨ent_rank, ent_id⟩).1.1
            (parts ++ [((m.set_check_invalid_rels false).internal_create_entity
              ⟨ent_rank, ent_id⟩).2.m_mesh_meta_data.locally_owned_part]) []).m_parallel_rank)).set_synchronized_count
            ((m.set_check_invalid_rels false).internal_create_entity ⟨ent_rank, ent_id⟩).1.1
            ((((m.set_check_invalid_rels false).internal_create_entity
              ⟨ent_rank, ent_id⟩).2.change_entity_parts
            ((m.set_check_invalid_rels false).internal_create_entity ⟨ent_rank, ent_id⟩).1.1
            (parts ++ [((m.set_check_invalid_rels false).internal_create_entity
              ⟨ent_rank, ent_id⟩).2.m_mesh_meta_data.locally_owned_part]) []).m_sync_count)).set_check_invalid_rels
          true)) := by
  have hok : (m.set_check_invalid_rels false).require_ok_to_modify = Outcome.ok () := by
    unfold require_ok_to_modify set_check_invalid_rels
    simp only [hmod]
    rfl
  have hg : (m.set_check_invalid_rels false).require_good_rank_and_id ent_rank ent_id
      = Outcome.ok () := hgood
  unfold declare_entity
  simp only [hok, hg, hc, Bool.not_true, Bool.false_eq_true, if_false, if_true]
theorem internal_create_entity_creates (m : BulkData) (key : EntityKey)
    (hnew : ∀ e, m.get_entity key = some e → m.is_valid e = false) :
    (m.internal_create_entity key).1.2 = true := by
  unfold internal_create_entity
  cases hg : m.get_entity key with
  | none => rfl
  | some e =>
    simp only [hnew e hg, Bool.false_eq_true, if_false]

theorem get_entity_append_new (repo : List (EntityKey × Entity)) (key : EntityKey) (e : Entity)
    (h : ∀ p ∈ repo, p.1 ≠ key) :
    ((repo ++ [(key, e)]).find? (fun p => p.1 == key)).map (fun p => p.2) = some e := by
  induction repo with
  | nil => simp
  | cons a rest ih =>
    have ha : (a.1 == key) = false := by
      simpa using h a (List.mem_cons_self _ _)
    rw [List.cons_append, List.find?_cons, ha]
    exact ih (fun p hp => h p (List.mem_cons_of_mem _ hp))

theorem mem_add_all_acc (supersets : PartOrdinal → List PartOrdinal) (add acc : List PartOrdinal)
    (q : PartOrdinal) (h : q ∈ acc ∨ q ∈ add) :
    q ∈ add.foldl
      (fun acc p => (supersets p).foldl insert_ordinal (insert_ordinal acc p)) acc := by
  induction add generalizing acc with
  | nil =>
    rcases h with h | h
    · exact h
    · exact absurd h (List.not_mem_nil _)
  | cons a rest ih =>
    rw [List.foldl_cons]
    apply ih
    rcases h with h | h
    · left
      rw [mem_foldl_insert_ordinal, mem_insert_ordinal]
      exact Or.inl (Or.inr h)
    · rcases List.mem_cons.1 h with h | h
      · left
        rw [mem_foldl_insert_ordinal, mem_insert_ordinal]
        exact Or.inl (Or.inl h)
      · exact Or.inr h

theorem mem_add_all (supersets : PartOrdinal → List PartOrdinal) (add : List PartOrdinal)
    (q : PartOrdinal) (h : q ∈ add) :
    q ∈ add.foldl
      (fun acc p => (supersets p).foldl insert_ordinal (insert_ordinal acc p)) [] :=
  mem_add_all_acc supersets add [] q (Or.inr h)

/-- C21: on a MODIFIABLE mesh, for a valid rank and id whose key has no active
entity, declare_entity returns a valid entity e; looking up the key in the
repository yields e, the parallel owner of e is the local process rank, the sync
count of e is the sync counter of the mesh, and e is a member of the locally-owned
part and of every part in `parts`. -/
theorem C21_declare_entity_new (m : BulkData) (ent_rank : EntityRank) (ent_id : EntityId)
    (parts : List PartOrdinal)
    (hcons : OffsetsConsistent m)
    (hcounts : m.m_entity_sync_counts.length = m.m_mesh_indexes.length)
    (hmod : m.m_sync_state = BulkDataSyncState.MODIFIABLE)
    (hgood : m.require_good_rank_and_id ent_rank ent_id = Outcome.ok ())
    (hnew : ∀ e, m.get_entity ⟨ent_rank, ent_id⟩ = some e → m.is_valid e = false) :
    ∃ e : Entity, (m.declare_entity ent_rank ent_id parts).1 = Outcome.ok e ∧
      (m.declare_entity ent_rank ent_id parts).2.is_valid e = true ∧
      (m.declare_entity ent_rank ent_id parts).2.get_entity ⟨ent_rank, ent_id⟩ = some e ∧
      (m.declare_entity ent_rank ent_id parts).2.parallel_owner_rank e = m.m_parallel_rank ∧
      (m.declare_entity ent_rank ent_id parts).2.synchronized_count e = m.m_sync_count ∧
      m.m_mesh_meta_data.locally_owned_part
        ∈ (m.declare_entity ent_rank ent_id parts).2.bucket_parts e ∧
      ∀ p ∈ parts, p ∈ (m.declare_entity ent_rank ent_id parts).2.bucket_parts e := by
  have h0 : OffsetsConsistent (m.set_check_invalid_rels false) :=
    offsets_consistent_of_frame hcons (check_flag_frame m false).1
  have hc := internal_create_entity_creates (m.set_check_invalid_rels false) ⟨ent_rank, ent_id⟩ hnew
  have hres := declare_entity_creates m ent_rank ent_id parts hmod hgood hc
  obtain ⟨_, _, _, h1, hst, _, hmi, hval, hrepo, _, idx, keys, states, counts, repo, hshape⟩ :=
    internal_create_entity_spec _ ⟨ent_rank, ent_id⟩ h0 hc
  have hfresh := (get_entity_none_of_allocated _ ⟨ent_rank, ent_id⟩ h0 hc).2
  have hcnt := internal_create_entity_counts (m.set_check_invalid_rels false) ⟨ent_rank, ent_id⟩
    hcounts
  generalize hr : (m.set_check_invalid_rels false).internal_create_entity ⟨ent_rank, ent_id⟩ = r
    at hres h1 hst hmi hval hrepo hshape hcnt
  obtain ⟨⟨e, created⟩, m1⟩ := r
  simp only at hres h1 hst hmi hval hrepo hshape hcnt
  have hve : m1.is_valid e = true := by rw [hval e]; simp
  have hlt : e < m1.m_mesh_indexes.length := by
    rw [h1.aligned_indexes]; exact ((is_valid_iff m1 e).1 hve).1
  have hmeta : m1.m_mesh_meta_data = m.m_mesh_meta_data := by rw [hshape]; rfl
  have hrank : m1.m_parallel_rank = m.m_parallel_rank := by rw [hshape]; rfl
  have hsync : m1.m_sync_count = m.m_sync_count := by rw [hshape]; rfl
  have hF1 := (change_entity_parts_spec m1 e
    (parts ++ [m1.m_mesh_meta_data.locally_owned_part]) []).1
  -- the bucket slot that change_entity_parts creates for the new entity
  have hparts : ∀ q, q ∈ parts ++ [m.m_mesh_meta_data.locally_owned_part] →
      q ∈ (m1.change_entity_parts e (parts ++ [m1.m_mesh_meta_data.locally_owned_part])
        []).bucket_parts e := by
    intro q hq
    unfold change_entity_parts
    rw [(internal_change_entity_parts_spec m1 e _ []).2.2.1 e, if_pos ⟨rfl, hlt⟩,
      mem_foldl_insert_ordinal]
    right
    rw [hmeta]
    exact mem_add_all _ _ q hq
  have hsome : ((m1.change_entity_parts e (parts ++ [m1.m_mesh_meta_data.locally_owned_part])
      []).mesh_index e).isSome = true := by
    rw [(change_entity_parts_spec m1 e _ []).2.2 e]
    simp [hlt]
  generalize hA : m1.change_entity_parts e (parts ++ [m1.m_mesh_meta_data.locally_owned_part]) []
    = mA at hres hF1 hparts hsome
  have hltA : e < mA.m_mesh_indexes.length := by rw [hF1.indexes_length]; exact hlt
  have hB := set_parallel_owner_rank_spec mA e mA.m_parallel_rank
  have howner : (mA.set_parallel_owner_rank e mA.m_parallel_rank).parallel_owner_rank e
      = mA.m_parallel_rank := by
    cases hidx : mA.mesh_index e with
    | none => rw [hidx] at hsome; exact absurd hsome (by decide)
    | some idx =>
      unfold set_parallel_owner_rank parallel_owner_rank
      simp only [hidx]
      rw [mesh_index_set, if_pos ⟨rfl, hltA⟩]
  have hcntB : (mA.set_parallel_owner_rank e mA.m_parallel_rank).m_entity_sync_counts
      = m1.m_entity_sync_counts := by
    rw [set_parallel_owner_rank_counts, ← hA, change_entity_parts_counts]
  generalize hBm : mA.set_parallel_owner_rank e mA.m_parallel_rank = mB
    at hres hB howner hcntB
  have hF : Frame m1 ((mB.set_synchronized_count e mA.m_sync_count).set_check_invalid_rels true) :=
    ((hF1.trans hB.1).trans (set_synchronized_count_frame _ _ _).1).trans (check_flag_frame _ true).1
  refine ⟨e, by rw [hres], ?_, ?_, ?_, ?_, ?_, ?_⟩
  all_goals rw [hres]
  · show ((mB.set_synchronized_count e mA.m_sync_count).set_check_invalid_rels true).is_valid e = true
    rw [is_valid_congr hF.states_length hF.deleted_iff e]
    exact hve
  · show (((mB.set_synchronized_count e mA.m_sync_count).set_check_invalid_rels true).m_entity_repo.find?
      (fun p => p.1 == (⟨ent_rank, ent_id⟩ : EntityKey))).map (fun p => p.2) = some e
    rw [hF.repo, hrepo]
    exact get_entity_append_new _ _ _ hfresh
  · show mB.parallel_owner_rank e = m.m_parallel_rank
    rw [howner, hF1.parallel_rank, hrank]
  · show (mB.m_entity_sync_counts.set e mA.m_sync_count).getD e 0 = m.m_sync_count
    rw [getD_set_same _ _ _ _ (by rw [hcntB, hcnt]; exact hlt), hF1.sync_count, hsync]
  · show m.m_mesh_meta_data.locally_owned_part ∈ mB.bucket_parts e
    rw [hB.2.2.2 e]
    exact hparts _ (List.mem_append_right _ (List.mem_singleton_self _))
  · intro p hp
    show p ∈ mB.bucket_parts e
    rw [hB.2.2.2 e]
    exact hparts _ (List.mem_append_left _ hp)

theorem C21_witness :
    OffsetsConsistent scenario_recycling ∧
    scenario_recycling.m_entity_sync_counts.length = scenario_recycling.m_mesh_indexes.length ∧
    scenario_recycling.m_sync_state = BulkDataSyncState.MODIFIABLE ∧
    scenario_recycling.require_good_rank_and_id 0 7 = Outcome.ok () ∧
    scenario_recycling.get_entity ⟨0, 7⟩ = none ∧
    ∃ e : Entity, (scenario_recycling.declare_entity 0 7 [10]).1 = Outcome.ok e ∧
      (scenario_recycling.declare_entity 0 7 [10]).2.is_valid e = true ∧
      (scenario_recycling.declare_entity 0 7 [10]).2.get_entity ⟨0, 7⟩ = some e ∧
      (scenario_recycling.declare_entity 0 7 [10]).2.parallel_owner_rank e
        = scenario_recycling.m_parallel_rank ∧
      (scenario_recycling.declare_entity 0 7 [10]).2.synchronized_count e
        = scenario_recycling.m_sync_count ∧
      scenario_recycling.m_mesh_meta_data.locally_owned_part
        ∈ (scenario_recycling.declare_entity 0 7 [10]).2.bucket_parts e ∧
      ∀ p ∈ [10], p ∈ (scenario_recycling.declare_entity 0 7 [10]).2.bucket_parts e :=
  have ho := reachable_offsets_consistent scenario_recycling scenario_recycling_reachable
  have hnone : scenario_recycling.get_entity ⟨0, 7⟩ = none := by decide
  ⟨ho, by decide, by decide, by decide, hnone,
    C21_declare_entity_new scenario_recycling 0 7 [10] ho (by decide) (by decide) (by decide)
      (fun e he => by rw [hnone] at he; exact Option.noConfusion he)⟩

theorem internal_change_entity_parts_owner (m : BulkData) (e : Entity)
    (add_parts remove_parts : List PartOrdinal) (x : Entity) :
    (m.internal_change_entity_parts e add_parts remove_parts).parallel_owner_rank x
      = m.parallel_owner_rank x := by
  unfold internal_change_entity_parts
  cases hidx : m.mesh_index e with
  | none =>
    simp only
    unfold parallel_owner_rank
    rw [mesh_index_set]
    by_cases hx : x = e ∧ e < m.m_mesh_indexes.length
    · rw [if_pos hx, hx.1, hidx]
    · rw [if_neg hx]
  | some idx =>
    simp only
    unfold parallel_owner_rank
    rw [mesh_index_set]
    by_cases hx : x = e ∧ e < m.m_mesh_indexes.length
    · rw [if_pos hx, hx.1, hidx]
    · rw [if_neg hx]

theorem change_entity_parts_owner (m : BulkData) (e : Entity)
    (add_parts remove_parts : List PartOrdinal) (x : Entity) :
    (m.change_entity_parts e add_parts remove_parts).parallel_owner_rank x
      = m.parallel_owner_rank x := by
  unfold change_entity_parts
  exact internal_change_entity_parts_owner m e _ _ x

theorem internal_create_entity_of_active (m : BulkData) (key : EntityKey) (e : Entity)
    (hget : m.get_entity key = some e) (hval : m.is_valid e = true) :
    m.internal_create_entity key = ((e, false), m) := by
  unfold internal_create_entity
  simp only [hget, hval, if_true]

/-- What declare_entity does for a key that has an active entity. -/
theorem declare_entity_of_active (m : BulkData) (ent_rank : EntityRank) (ent_id : EntityId)
    (parts : List PartOrdinal) (e : Entity)
    (hmod : m.m_sync_state = BulkDataSyncState.MODIFIABLE)
    (hgood : m.require_good_rank_and_id ent_rank ent_id = Outcome.ok ())
    (hget : m.get_entity ⟨ent_rank, ent_id⟩ = some e)
    (hval : m.is_valid e = true) :
    ((1 < m.m_parallel_size ∧ (m.mesh_index e).isSome = true ∧
        m.parallel_owner_rank e ≠ m.m_parallel_rank) →
      (m.declare_entity ent_rank ent_id parts).1.isError = true ∧
      (m.declare_entity ent_rank ent_id parts).2 = m.set_check_invalid_rels false) ∧
    (¬ (1 < m.m_parallel_size ∧ (m.mesh_index e).isSome = true ∧
        m.parallel_owner_rank e ≠ m.m_parallel_rank) →
      (m.declare_entity ent_rank ent_id parts).1 = Outcome.ok e ∧
      (m.declare_entity ent_rank ent_id parts).2.m_mesh_indexes.length
        = m.m_mesh_indexes.length ∧
      (m.declare_entity ent_rank ent_id parts).2.m_entity_keys = m.m_entity_keys ∧
      (m.declare_entity ent_rank ent_id parts).2.m_entity_states = m.m_entity_states ∧
      (m.declare_entity ent_rank ent_id parts).2.m_entity_sync_counts = m.m_entity_sync_counts ∧
      (m.declare_entity ent_rank ent_id parts).2.m_deleted_entities = m.m_deleted_entities ∧
      (m.declare_entity ent_rank ent_id parts).2.m_entity_repo = m.m_entity_repo ∧
      (m.declare_entity ent_rank ent_id parts).2.parallel_owner_rank e
        = m.parallel_owner_rank e ∧
      (m.declare_entity ent_rank ent_id parts).2.synchronized_count e
        = m.synchronized_count e) := by
  have hok : (m.set_check_invalid_rels false).require_ok_to_modify = Outcome.ok () := by
    unfold require_ok_to_modify set_check_invalid_rels
    simp only [hmod]
    rfl
  have hg : (m.set_check_invalid_rels false).require_good_rank_and_id ent_rank ent_id
      = Outcome.ok () := hgood
  have hcr := internal_create_entity_of_active (m.set_check_invalid_rels false)
    ⟨ent_rank, ent_id⟩ e hget hval
  constructor
  · rintro ⟨hsize, hsome, howner⟩
    have hown : (m.set_check_invalid_rels false).require_entity_owner e
        (m.set_check_invalid_rels false).m_parallel_rank
        = Outcome.error "Entity owner is not the expected owner" := by
      unfold require_entity_owner
      have h1 : 1 < (m.set_check_invalid_rels false).m_parallel_size ∧
          ((m.set_check_invalid_rels false).mesh_index e).isSome = true := ⟨hsize, hsome⟩
      have h2 : (m.set_check_invalid_rels false).m_parallel_rank
          ≠ (m.set_check_invalid_rels false).parallel_owner_rank e := fun h => howner h.symm
      simp only [h1, and_self, if_true, h2, ne_eq, not_false_eq_true, decide_True, Bool.not_true,
        Bool.false_eq_true, if_false]
    unfold declare_entity
    simp only [hok, hg, hcr, Bool.not_false, if_true, hown]
    exact ⟨rfl, trivial⟩
  · intro hno
    have hown : (m.set_check_invalid_rels false).require_entity_owner e
        (m.set_check_invalid_rels false).m_parallel_rank = Outcome.ok () := by
      unfold require_entity_owner
      by_cases h1 : 1 < (m.set_check_invalid_rels false).m_parallel_size ∧
          ((m.set_check_invalid_rels false).mesh_index e).isSome = true
      · have h2 : (m.set_check_invalid_rels false).m_parallel_rank
            = (m.set_check_invalid_rels false).parallel_owner_rank e := by
          by_contra h3
          exact hno ⟨h1.1, h1.2, fun h => h3 h.symm⟩
        simp only [h1, and_self, if_true, h2, ne_eq, not_true_eq_false, decide_False,
          Bool.not_false]
      · rw [if_neg h1]
    have hres : m.declare_entity ent_rank ent_id parts = (Outcome.ok e,
        ((m.set_check_invalid_rels false).change_entity_parts e
          (parts ++ [m.m_mesh_meta_data.locally_owned_part]) []).set_check_invalid_rels true) := by
      unfold declare_entity
      simp only [hok, hg, hcr, Bool.not_false, if_true, hown, Bool.false_eq_true, if_false]
      rfl
    have hF := ((check_flag_frame m false).1.trans (change_entity_parts_spec
      (m.set_check_invalid_rels false) e (parts ++ [m.m_mesh_meta_data.locally_owned_part])
      []).1).trans (check_flag_frame _ true).1
    rw [hres]
    refine ⟨rfl, hF.indexes_length, hF.keys, ?_, ?_, hF.deleted, hF.repo, ?_, ?_⟩
    · exact change_entity_parts_states _ _ _ _
    · exact change_entity_parts_counts _ _ _ _
    · exact change_entity_parts_owner _ _ _ _ _
    · show (((m.set_check_invalid_rels false).change_entity_parts e
        (parts ++ [m.m_mesh_meta_data.locally_owned_part]) []).m_entity_sync_counts).getD e 0
        = m.m_entity_sync_counts.getD e 0
      rw [change_entity_parts_counts]
      rfl

/-- C22: for a key that has an active entity e, declare_entity on a MODIFIABLE mesh
with a valid rank and id fails with an error when the mesh runs on more than one
process and e, in its bucket, is owned by a process other than the local one, and
then leaves the entities as they were; otherwise it returns e itself, allocates no
local offset (the per-entity vectors keep their lengths, the free list and the
repository are unchanged), and leaves the owner and the sync count of e as they
were. -/
theorem C22_declare_entity_existing (m : BulkData) (ent_rank : EntityRank) (ent_id : EntityId)
    (parts : List PartOrdinal) (e : Entity)
    (hmod : m.m_sync_state = BulkDataSyncState.MODIFIABLE)
    (hgood : m.require_good_rank_and_id ent_rank ent_id = Outcome.ok ())
    (hget : m.get_entity ⟨ent_rank, ent_id⟩ = some e)
    (hval : m.is_valid e = true) :
    ((1 < m.m_parallel_size ∧ (m.mesh_index e).isSome = true ∧
        m.parallel_owner_rank e ≠ m.m_parallel_rank) →
      (m.declare_entity ent_rank ent_id parts).1.isError = true ∧
      (m.declare_entity ent_rank ent_id parts).2 = m.set_check_invalid_rels false) ∧
    (¬ (1 < m.m_parallel_size ∧ (m.mesh_index e).isSome = true ∧
        m.parallel_owner_rank e ≠ m.m_parallel_rank) →
      (m.declare_entity ent_rank ent_id parts).1 = Outcome.ok e ∧
      (m.declare_entity ent_rank ent_id parts).2.m_mesh_indexes.length
        = m.m_mesh_indexes.length ∧
      (m.declare_entity ent_rank ent_id parts).2.m_entity_keys = m.m_entity_keys ∧
      (m.declare_entity ent_rank ent_id parts).2.m_entity_states = m.m_entity_states ∧
      (m.declare_entity ent_rank ent_id parts).2.m_entity_sync_counts = m.m_entity_sync_counts ∧
      (m.declare_entity ent_rank ent_id parts).2.m_deleted_entities = m.m_deleted_entities ∧
      (m.declare_entity ent_rank ent_id parts).2.m_entity_repo = m.m_entity_repo ∧
      (m.declare_entity ent_rank ent_id parts).2.parallel_owner_rank e
        = m.parallel_owner_rank e ∧
      (m.declare_entity ent_rank ent_id parts).2.synchronized_count e
        = m.synchronized_count e) :=
  declare_entity_of_active m ent_rank ent_id parts e hmod hgood hget hval

theorem C22_witness :
    scenario_owned_elsewhere.m_sync_state = BulkDataSyncState.MODIFIABLE ∧
    scenario_owned_elsewhere.get_entity ⟨0, 1⟩ = some 2 ∧
    scenario_owned_elsewhere.is_valid 2 = true ∧
    scenario_owned_elsewhere.parallel_owner_rank 2 = 1 ∧
    scenario_owned_elsewhere.m_parallel_rank = 0 ∧
    (scenario_owned_elsewhere.declare_entity 0 1 []).1.isError = true ∧
    scenario_owned_elsewhere.get_entity ⟨3, 1⟩ = some 1 ∧
    scenario_owned_elsewhere.parallel_owner_rank 1 = 0 ∧
    (scenario_owned_elsewhere.declare_entity 3 1 []).1 = Outcome.ok 1 ∧
    (scenario_owned_elsewhere.declare_entity 3 1 []).2.m_mesh_indexes.length
      = scenario_owned_elsewhere.m_mesh_indexes.length ∧
    (scenario_owned_elsewhere.declare_entity 3 1 []).2.parallel_owner_rank 1
      = scenario_owned_elsewhere.parallel_owner_rank 1 :=
  have h1 := (C22_declare_entity_existing scenario_owned_elsewhere 0 1 [] 2 (by decide)
    (by decide) (by decide) (by decide)).1 ⟨by decide, by decide, by decide⟩
  have h2 := (C22_declare_entity_existing scenario_owned_elsewhere 3 1 [] 1 (by decide)
    (by decide) (by decide) (by decide)).2 (fun h => h.2.2 (by decide))
  ⟨by decide, by decide, by decide, by decide, by decide, h1.1, by decide, by decide,
    h2.1, h2.2.1, h2.2.2.2.2.2.2.2.1⟩

/-! ## The check on rank and id -/

theorem require_good_rank_and_id_cases (m : BulkData) (ent_rank : EntityRank)
    (ent_id : EntityId) :
    ((m.m_mesh_meta_data.entity_rank_count ≤ ent_rank ∨
        (ent_rank = MetaData.FACE_RANK ∧ m.m_mesh_meta_data.spatial_dimension = 2)) ∧
      m.require_good_rank_and_id ent_rank ent_id = Outcome.error "Bad key rank") ∨
    (¬ (m.m_mesh_meta_data.entity_rank_count ≤ ent_rank ∨
        (ent_rank = MetaData.FACE_RANK ∧ m.m_mesh_meta_data.spatial_dimension = 2)) ∧
      ent_id < 1 ∧ m.require_good_rank_and_id ent_rank ent_id = Outcome.error "Bad id") ∨
    (¬ (m.m_mesh_meta_data.entity_rank_count ≤ ent_rank ∨
        (ent_rank = MetaData.FACE_RANK ∧ m.m_mesh_meta_data.spatial_dimension = 2)) ∧
      ¬ ent_id < 1 ∧ m.require_good_rank_and_id ent_rank ent_id = Outcome.ok ()) := by
  unfold require_good_rank_and_id EntityKey.is_valid_id
  by_cases h1 : ent_rank < m.m_mesh_meta_data.entity_rank_count
  · by_cases h2 : ent_rank = MetaData.FACE_RANK ∧ m.m_mesh_meta_data.spatial_dimension = 2
    · left
      refine ⟨Or.inr h2, ?_⟩
      simp [h1, h2.1, h2.2]
    · right
      have hnb : ¬ (m.m_mesh_meta_data.entity_rank_count ≤ ent_rank ∨
          (ent_rank = MetaData.FACE_RANK ∧ m.m_mesh_meta_data.spatial_dimension = 2)) := by
        rintro (h | h)
        · exact absurd h1 (Nat.not_lt.2 h)
        · exact h2 h
      have h2' : (decide (ent_rank = MetaData.FACE_RANK) &&
          decide (m.m_mesh_meta_data.spatial_dimension = 2)) = false := by
        rw [Bool.and_eq_false_iff]
        by_cases h3 : ent_rank = MetaData.FACE_RANK
        · right
          exact decide_eq_false (fun h4 => h2 ⟨h3, h4⟩)
        · left
          exact decide_eq_false h3
      by_cases h3 : ent_id < 1
      · left
        refine ⟨hnb, h3, ?_⟩
        have h4 : ¬ 1 ≤ ent_id := Nat.not_le.2 h3
        simp [h1, h2', h4]
      · right
        refine ⟨hnb, h3, ?_⟩
        have h4 : 1 ≤ ent_id := Nat.not_lt.1 h3
        simp [h1, h2', h4]
  · left
    refine ⟨Or.inl (Nat.not_lt.1 h1), ?_⟩
    simp [h1]

theorem declare_entity_error_mesh (m : BulkData) (ent_rank : EntityRank) (ent_id : EntityId)
    (parts : List PartOrdinal) (h : (m.declare_entity ent_rank ent_id parts).1.isError = true) :
    (m.declare_entity ent_rank ent_id parts).2 = m.set_check_invalid_rels false := by
  rcases declare_entity_cases m ent_rank ent_id parts with hc | hc | hc
  · exact hc.2
  · obtain ⟨e, _, _, _, hr⟩ := hc
    rw [hr] at h
    exact Bool.noConfusion h
  · obtain ⟨_, _, _, hr⟩ := hc
    rw [hr] at h
    exact Bool.noConfusion h

/-- A failing require_good_rank_and_id makes declare_entity fail with the same error. -/
theorem declare_entity_bad_rank_or_id (m : BulkData) (ent_rank : EntityRank) (ent_id : EntityId)
    (parts : List PartOrdinal) (msg : String)
    (hmod : m.m_sync_state = BulkDataSyncState.MODIFIABLE)
    (h : m.require_good_rank_and_id ent_rank ent_id = Outcome.error msg) :
    (m.declare_entity ent_rank ent_id parts).1 = Outcome.error msg := by
  have hok : (m.set_check_invalid_rels false).require_ok_to_modify = Outcome.ok () := by
    unfold require_ok_to_modify set_check_invalid_rels
    simp only [hmod]
    rfl
  have hg : (m.set_check_invalid_rels false).require_good_rank_and_id ent_rank ent_id
      = Outcome.error msg := h
  unfold declare_entity
  simp only [hok, hg]

/-- With a good rank and id, declare_entity on a MODIFIABLE mesh fails only on an
active entity of the key that is owned elsewhere. -/
theorem declare_entity_error_of_good (m : BulkData) (ent_rank : EntityRank) (ent_id : EntityId)
    (parts : List PartOrdinal)
    (hmod : m.m_sync_state = BulkDataSyncState.MODIFIABLE)
    (hgood : m.require_good_rank_and_id ent_rank ent_id = Outcome.ok ())
    (h : (m.declare_entity ent_rank ent_id parts).1.isError = true) :
    ∃ e : Entity, m.get_entity ⟨ent_rank, ent_id⟩ = some e ∧ m.is_valid e = true ∧
      1 < m.m_parallel_size ∧ (m.mesh_index e).isSome = true ∧
      m.parallel_owner_rank e ≠ m.m_parallel_rank := by
  cases hget : m.get_entity ⟨ent_rank, ent_id⟩ with
  | none =>
    have hc := internal_create_entity_creates (m.set_check_invalid_rels false) ⟨ent_rank, ent_id⟩
      (fun e he => by
        have he' : m.get_entity ⟨ent_rank, ent_id⟩ = some e := he
        rw [hget] at he'
        exact Option.noConfusion he')
    rw [declare_entity_creates m ent_rank ent_id parts hmod hgood hc] at h
    exact Bool.noConfusion h
  | some e =>
    cases hval : m.is_valid e with
    | false =>
      have hc := internal_create_entity_creates (m.set_check_invalid_rels false)
        ⟨ent_rank, ent_id⟩ (fun x hx => by
          have hx' : m.get_entity ⟨ent_rank, ent_id⟩ = some x := hx
          rw [hget] at hx'
          rw [← Option.some.inj hx']
          exact hval)
      rw [declare_entity_creates m ent_rank ent_id parts hmod hgood hc] at h
      exact Bool.noConfusion h
    | true =>
      refine ⟨e, rfl, hval, ?_⟩
      by_contra hno
      have hres := (declare_entity_of_active m ent_rank ent_id parts e hmod hgood hget hval).2
        hno
      rw [hres.1] at h
      exact Bool.noConfusion h

/-- The check on the rank and id at the head of change_entity_id: in serial, on a
MODIFIABLE mesh, change_entity_id returns what require_good_rank_and_id returns for
the rank of the entity and the new id. -/
theorem change_entity_id_outcome (m : BulkData) (id : EntityId) (entity : Entity)
    (hmod : m.m_sync_state = BulkDataSyncState.MODIFIABLE)
    (hserial : m.m_parallel_size = 1) :
    (m.change_entity_id id entity).1 = m.require_good_rank_and_id (m.entity_rank entity) id ∧
    ((m.change_entity_id id entity).1.isError = true → (m.change_entity_id id entity).2 = m) := by
  have hok : m.require_ok_to_modify = Outcome.ok () := by
    unfold require_ok_to_modify
    simp only [hmod]
    rfl
  unfold change_entity_id
  have hs : ¬ (m.assertions_enabled = true ∧ m.m_parallel_size ≠ 1) := fun h => h.2 hserial
  rw [if_neg hs]
  simp only [hok]
  cases hg : m.require_good_rank_and_id (m.entity_rank entity) id with
  | ok u => exact ⟨rfl, fun h => Bool.noConfusion h⟩
  | error msg => exact ⟨rfl, fun _ => rfl⟩

theorem C23_counterexample :
    scenario_owned_elsewhere.m_sync_state = BulkDataSyncState.MODIFIABLE ∧
    ¬ (scenario_owned_elsewhere.m_mesh_meta_data.entity_rank_count ≤ 0 ∨
        ((0 : EntityRank) = MetaData.FACE_RANK ∧
          scenario_owned_elsewhere.m_mesh_meta_data.spatial_dimension = 2) ∨
        (1 : EntityId) < 1) ∧
    scenario_owned_elsewhere.require_good_rank_and_id 0 1 = Outcome.ok () ∧
    (scenario_owned_elsewhere.declare_entity 0 1 []).1
      = Outcome.error "Entity owner is not the expected owner" := by
  decide

/-- C23 (amended): require_good_rank_and_id(rank, id) raises an error if and only if
rank >= the rank count of the mesh, or rank is the face rank in a mesh of spatial
dimension 2, or id < 1, and a bad rank is reported whatever the id. On a MODIFIABLE
mesh declare_entity raises that same error whenever the check fails; it fails with a
good rank and id only on an active entity of the key that is owned by another
process; and a failing declare_entity creates no entity: it leaves the mesh as it
was, the flag m_check_invalid_rels apart. On a serial MODIFIABLE mesh
change_entity_id raises an error if and only if the check fails for the rank of the
entity and the new id, and then leaves the mesh as it was. -/
theorem C23_good_rank_and_id (m : BulkData) (ent_rank : EntityRank) (ent_id : EntityId)
    (parts : List PartOrdinal) (entity : Entity) :
    ((m.require_good_rank_and_id ent_rank ent_id).isError = true ↔
      (m.m_mesh_meta_data.entity_rank_count ≤ ent_rank ∨
        (ent_rank = MetaData.FACE_RANK ∧ m.m_mesh_meta_data.spatial_dimension = 2) ∨
        ent_id < 1)) ∧
    ((m.m_mesh_meta_data.entity_rank_count ≤ ent_rank ∨
        (ent_rank = MetaData.FACE_RANK ∧ m.m_mesh_meta_data.spatial_dimension = 2)) →
      m.require_good_rank_and_id ent_rank ent_id = Outcome.error "Bad key rank") ∧
    (m.m_sync_state = BulkDataSyncState.MODIFIABLE →
      (∀ msg : String, m.require_good_rank_and_id ent_rank ent_id = Outcome.error msg →
        (m.declare_entity ent_rank ent_id parts).1 = Outcome.error msg) ∧
      ((m.declare_entity ent_rank ent_id parts).1.isError = true →
        (m.require_good_rank_and_id ent_rank ent_id).isError = true ∨
        ∃ e : Entity, m.get_entity ⟨ent_rank, ent_id⟩ = some e ∧ m.is_valid e = true ∧
          1 < m.m_parallel_size ∧ (m.mesh_index e).isSome = true ∧
          m.parallel_owner_rank e ≠ m.m_parallel_rank) ∧
      (m.m_parallel_size = 1 →
        ((m.change_entity_id ent_id entity).1.isError = true ↔
          (m.m_mesh_meta_data.entity_rank_count ≤ m.entity_rank entity ∨
            (m.entity_rank entity = MetaData.FACE_RANK ∧
              m.m_mesh_meta_data.spatial_dimension = 2) ∨
            ent_id < 1)) ∧
        ((m.change_entity_id ent_id entity).1.isError = true →
          (m.change_entity_id ent_id entity).2 = m))) ∧
    ((m.declare_entity ent_rank ent_id parts).1.isError = true →
      (m.declare_entity ent_rank ent_id parts).2 = m.set_check_invalid_rels false ∧
      same_entities m (m.declare_entity ent_rank ent_id parts).2) := by
  have hiff : ∀ (r : EntityRank) (i : EntityId),
      ((m.require_good_rank_and_id r i).isError = true ↔
        (m.m_mesh_meta_data.entity_rank_count ≤ r ∨
          (r = MetaData.FACE_RANK ∧ m.m_mesh_meta_data.spatial_dimension = 2) ∨ i < 1)) := by
    intro r i
    rcases require_good_rank_and_id_cases m r i with ⟨hb, hr⟩ | ⟨hb, hi, hr⟩ | ⟨hb, hi, hr⟩
    · rw [hr]
      refine ⟨fun _ => ?_, fun _ => rfl⟩
      rcases hb with hb | hb
      · exact Or.inl hb
      · exact Or.inr (Or.inl hb)
    · rw [hr]
      exact ⟨fun _ => Or.inr (Or.inr hi), fun _ => rfl⟩
    · rw [hr]
      refine ⟨fun h => Bool.noConfusion h, ?_⟩
      rintro (h | h | h)
      · exact absurd (Or.inl h) hb
      · exact absurd (Or.inr h) hb
      · exact absurd h hi
  refine ⟨hiff ent_rank ent_id, ?_, ?_, ?_⟩
  · intro hb
    rcases require_good_rank_and_id_cases m ent_rank ent_id with ⟨_, hr⟩ | ⟨hnb, _, _⟩ | ⟨hnb, _, _⟩
    · exact hr
    · exact absurd hb hnb
    · exact absurd hb hnb
  · intro hmod
    refine ⟨?_, ?_, ?_⟩
    · intro msg hg
      exact declare_entity_bad_rank_or_id m ent_rank ent_id parts msg hmod hg
    · intro herr
      cases hg : m.require_good_rank_and_id ent_rank ent_id with
      | ok u =>
        right
        exact declare_entity_error_of_good m ent_rank ent_id parts hmod hg herr
      | error msg => left; rfl
    · intro hserial
      have hc := change_entity_id_outcome m ent_id entity hmod hserial
      refine ⟨?_, hc.2⟩
      rw [hc.1]
      exact hiff _ _
  · intro herr
    have hm := declare_entity_error_mesh m ent_rank ent_id parts herr
    refine ⟨hm, ?_⟩
    rw [hm]
    exact ⟨rfl, rfl, rfl, rfl, rfl⟩

theorem C23_witness :
    scenario_begun.m_sync_state = BulkDataSyncState.MODIFIABLE ∧
    scenario_begun.m_mesh_meta_data.entity_rank_count ≤ 7 ∧
    scenario_begun.require_good_rank_and_id 7 0 = Outcome.error "Bad key rank" ∧
    (scenario_begun.declare_entity 7 0 []).1 = Outcome.error "Bad key rank" ∧
    same_entities scenario_begun (scenario_begun.declare_entity 7 0 []).2 ∧
    scenario_planar.m_sync_state = BulkDataSyncState.MODIFIABLE ∧
    scenario_planar.m_mesh_meta_data.spatial_dimension = 2 ∧
    (scenario_planar.require_good_rank_and_id MetaData.FACE_RANK 1).isError = true ∧
    scenario_two_entities.m_parallel_size = 1 ∧
    (scenario_two_entities.change_entity_id 0 2).1.isError = true ∧
    (scenario_two_entities.change_entity_id 0 2).2 = scenario_two_entities :=
  have h1 := C23_good_rank_and_id scenario_begun 7 0 [] 0
  have hbad : scenario_begun.require_good_rank_and_id 7 0 = Outcome.error "Bad key rank" :=
    h1.2.1 (Or.inl (by decide))
  have hdecl : (scenario_begun.declare_entity 7 0 []).1 = Outcome.error "Bad key rank" :=
    (h1.2.2.1 (by decide)).1 _ hbad
  have h2 := C23_good_rank_and_id scenario_planar MetaData.FACE_RANK 1 [] 0
  have h3 := ((C23_good_rank_and_id scenario_two_entities 0 0 [] 2).2.2.1 (by decide)).2.2
    (by decide)
  have hch : (scenario_two_entities.change_entity_id 0 2).1.isError = true :=
    h3.1.2 (Or.inr (Or.inr (by decide)))
  ⟨by decide, by decide, hbad, hdecl, (h1.2.2.2 (by rw [hdecl]; rfl)).2, by decide, by decide,
    h2.1.2 (Or.inr (Or.inl ⟨rfl, by decide⟩)), by decide, hch, h3.2 hch⟩

/-! ## Field data: vectors and memory -/

theorem modify_at_length {α : Type} (v : List α) (i : Nat) (f : α → α) :
    (modify_at v i f).length = v.length := by
  unfold modify_at
  cases v.get? i with
  | none => rfl
  | some a => simp

theorem modify_at_getD {α : Type} (v : List α) (i k : Nat) (f : α → α) (d : α) :
    (modify_at v i f).getD k d = if k = i ∧ i < v.length then f (v.getD i d) else v.getD k d := by
  unfold modify_at
  by_cases hi : i < v.length
  · have hget : v.get? i = some (v.getD i d) := by
      rw [List.getD_eq_getElem?_getD, List.get?_eq_getElem?, List.getElem?_eq_getElem hi]
      rfl
    rw [hget]
    simp only
    by_cases hk : k = i
    · rw [if_pos ⟨hk, hi⟩, hk]
      exact getD_set_same _ _ _ _ hi
    · rw [if_neg (fun h => hk h.1)]
      exact getD_set_other _ _ _ _ _ (fun h => hk h.symm)
  · have hget : v.get? i = none := by
      rw [List.get?_eq_getElem?]
      exact List.getElem?_eq_none (Nat.le_of_not_lt hi)
    rw [hget, if_neg (fun h => hi h.2)]

theorem modify_at_of_length_le {α : Type} (v : List α) (i : Nat) (f : α → α)
    (h : v.length ≤ i) : modify_at v i f = v := by
  unfold modify_at
  have hget : v.get? i = none := by
    rw [List.get?_eq_getElem?]
    exact List.getElem?_eq_none h
  rw [hget]

theorem getD_append_singleton_length {α : Type} (v : List α) (a d : α) :
    (v ++ [a]).getD v.length d = a := by
  simp [List.getD_eq_getElem?_getD]

theorem getD_append_singleton_of_ne {α : Type} (v : List α) (a d : α) (k : Nat)
    (h : k ≠ v.length) : (v ++ [a]).getD k d = v.getD k d := by
  rw [List.getD_eq_getElem?_getD, List.getD_eq_getElem?_getD]
  by_cases hk : k < v.length
  · rw [List.getElem?_append_left hk]
  · have hgt : v.length < k := Nat.lt_of_le_of_ne (Nat.le_of_not_lt hk) (fun h2 => h h2.symm)
    rw [List.getElem?_eq_none (by simp; omega), List.getElem?_eq_none (by omega)]

/-- The index blocks of two ranks do not meet. -/
theorem block_unique (nf r r' i : Nat) (hi : i < nf) (h1 : nf * r' ≤ nf * r + i)
    (h2 : nf * r + i < nf * r' + nf) : r = r' := by
  rcases Nat.lt_trichotomy r r' with h | h | h
  · exfalso
    have h3 : nf * (r + 1) ≤ nf * r' := Nat.mul_le_mul_left nf h
    rw [Nat.mul_add, Nat.mul_one] at h3
    omega
  · exact h
  · exfalso
    have h3 : nf * (r' + 1) ≤ nf * r := Nat.mul_le_mul_left nf h
    rw [Nat.mul_add, Nat.mul_one] at h3
    omega

theorem flat_index_inj (nf r r' i i' : Nat) (hi : i < nf) (hi' : i' < nf)
    (h : nf * r + i = nf * r' + i') : r = r' ∧ i = i' := by
  have hr : r = r' := block_unique nf r r' i hi (by omega) (by omega)
  subst hr
  exact ⟨rfl, by omega⟩

theorem flat_index_lt (nf rc r i : Nat) (hr : r < rc) (hi : i < nf) : nf * r + i < nf * rc := by
  have h3 : nf * (r + 1) ≤ nf * rc := Nat.mul_le_mul_left nf hr
  rw [Nat.mul_add, Nat.mul_one] at h3
  omega

theorem memcpy_apply (memory : Nat → Nat) (dst : Nat) (src : Nat → Nat) (n a : Nat) :
    memcpy memory dst src n a = if dst ≤ a ∧ a < dst + n then src (a - dst) else memory a := rfl

theorem memset_apply (memory : Nat → Nat) (dst value n a : Nat) :
    memset memory dst value n a = if dst ≤ a ∧ a < dst + n then value else memory a := rfl

/-- The loop that copies the initial value into every slot of a slice. -/
theorem init_slots_spec (memory : Nat → Nat) (p s : Nat) (v : Nat → Nat) (n : Nat) :
    (∀ j k, j < n → k < s →
      ((List.range n).foldl (fun mem j => memcpy mem (p + j * s) v s) memory) (p + j * s + k)
        = v k) ∧
    (∀ a, a < p ∨ p + n * s ≤ a →
      ((List.range n).foldl (fun mem j => memcpy mem (p + j * s) v s) memory) a = memory a) := by
  induction n with
  | zero =>
    refine ⟨fun j k hj _ => absurd hj (Nat.not_lt_zero _), fun a _ => rfl⟩
  | succ n ih =>
    rw [List.range_succ, List.foldl_append]
    simp only [List.foldl_cons, List.foldl_nil]
    constructor
    · intro j k hj hk
      rw [memcpy_apply]
      by_cases hjn : j = n
      · subst hjn
        rw [if_pos ⟨by omega, by omega⟩]
        congr 1
        omega
      · have hlt : j < n := by omega
        have hle : (j + 1) * s ≤ n * s := Nat.mul_le_mul_right s hlt
        rw [Nat.add_mul, Nat.one_mul] at hle
        rw [if_neg (by omega)]
        exact ih.1 j k hlt hk
    · intro a ha
      rw [memcpy_apply]
      have hs : (n + 1) * s = n * s + s := by rw [Nat.add_mul, Nat.one_mul]
      rw [if_neg (by omega)]
      exact ih.2 a (by omega)

/-! ## Field data: the new bucket -/

theorem new_bucket_size_field_eq (rank : EntityRank) (parts : List PartOrdinal) (capacity : Nat)
    (st : FieldData × Nat) (i : Nat) :
    new_bucket_size_field rank parts capacity st i =
      ({ st.1 with
          m_field_meta_data :=
            modify_at st.1.m_field_meta_data (st.1.m_num_fields.toNat * rank + i)
              (fun v => v ++ [sized_record st.1 rank parts i]) },
        st.2 + num_bytes_per_entity st.1 rank parts i * capacity) := by
  unfold new_bucket_size_field sized_record num_bytes_per_entity
  simp only
  by_cases hd : (find_restriction (st.1.field_set.getD i FieldBase.null) rank parts).dimension > 0
  · simp only [hd, if_true]
    by_cases hn : wrap32 ((st.1.field_set.getD i FieldBase.null).stride_of *
        (if (st.1.field_set.getD i FieldBase.null).rank ≠ 0 then
          (find_restriction (st.1.field_set.getD i FieldBase.null) rank parts).stride
            ((st.1.field_set.getD i FieldBase.null).rank - 1) else 1)) > 0
    · simp only [hn, if_true]
    · simp only [hn, if_false]
      have h0 : wrap32 ((st.1.field_set.getD i FieldBase.null).stride_of *
        (if (st.1.field_set.getD i FieldBase.null).rank ≠ 0 then
          (find_restriction (st.1.field_set.getD i FieldBase.null) rank parts).stride
            ((st.1.field_set.getD i FieldBase.null).rank - 1) else 1)) = 0 := by omega
      rw [h0, Nat.zero_mul, Nat.add_zero]
  · simp only [hd, if_false, Nat.lt_irrefl, Nat.zero_mul, Nat.add_zero]

/-- The sizing loop after `n` passes: the records of the fields before `n` are
appended to their vectors, and `total_field_data_size` is the sum of their bytes. -/
theorem sizing_loop_spec (fd : FieldData) (rank : EntityRank) (parts : List PartOrdinal)
    (capacity : Nat) (n : Nat) :
    ∃ M : List (List FieldMetaData),
      (List.range n).foldl (new_bucket_size_field rank parts capacity) (fd, 0)
        = ({ fd with m_field_meta_data := M },
            slice_offset (num_bytes_per_entity fd rank parts) capacity n) ∧
      M.length = fd.m_field_meta_data.length ∧
      ∀ k, M.getD k [] =
        if fd.m_num_fields.toNat * rank ≤ k ∧ k < fd.m_num_fields.toNat * rank + n ∧
            k < fd.m_field_meta_data.length then
          fd.m_field_meta_data.getD k [] ++ [sized_record fd rank parts (k - fd.m_num_fields.toNat * rank)]
        else fd.m_field_meta_data.getD k [] := by
  induction n with
  | zero =>
    refine ⟨fd.m_field_meta_data, rfl, rfl, fun k => ?_⟩
    rw [if_neg (by omega)]
  | succ n ih =>
    obtain ⟨M, hfold, hlen, hget⟩ := ih
    rw [List.range_succ, List.foldl_append, hfold]
    simp only [List.foldl_cons, List.foldl_nil]
    rw [new_bucket_size_field_eq]
    refine ⟨modify_at M (fd.m_num_fields.toNat * rank + n)
      (fun v => v ++ [sized_record fd rank parts n]), rfl, ?_, fun k => ?_⟩
    · rw [modify_at_length, hlen]
    · rw [modify_at_getD, hlen]
      by_cases hk : k = fd.m_num_fields.toNat * rank + n ∧
          fd.m_num_fields.toNat * rank + n < fd.m_field_meta_data.length
      · rw [if_pos hk, hget, if_neg (by omega), if_pos (by omega)]
        rw [hk.1]
        congr 3
        omega
      · rw [if_neg hk, hget]
        by_cases h1 : fd.m_num_fields.toNat * rank ≤ k ∧ k < fd.m_num_fields.toNat * rank + n ∧
            k < fd.m_field_meta_data.length
        · rw [if_pos h1, if_pos (by omega)]
        · rw [if_neg h1, if_neg]
          intro h2
          apply hk
          constructor
          · by_contra h3
            exact h1 ⟨h2.1, by omega, h2.2.2⟩
          · by_contra h3
            exact h1 ⟨h2.1, by omega, h2.2.2⟩

theorem slice_offset_mono (sz : Nat → Nat) (capacity : Nat) (i n : Nat) (h : i ≤ n) :
    slice_offset sz capacity i ≤ slice_offset sz capacity n := by
  induction n with
  | zero =>
    have : i = 0 := by omega
    rw [this]
  | succ n ih =>
    by_cases hi : i = n + 1
    · rw [hi]
    · have := ih (by omega)
      show slice_offset sz capacity i ≤ slice_offset sz capacity n + sz n * capacity
      omega

/-- The initialization of one slice: every slot holds the initial bytes, and no byte
outside the slice is written. -/
theorem init_write_spec (memory : Nat → Nat) (field : FieldBase) (p s capacity : Nat) :
    (∀ j k, j < capacity → k < s →
      (match field.initial_value with
        | some init_val =>
          (List.range capacity).foldl (fun mem j => memcpy mem (p + j * s) init_val s) memory
        | none => memset memory p 0 (capacity * s)) (p + j * s + k) = initial_byte field k) ∧
    (∀ a, a < p ∨ p + capacity * s ≤ a →
      (match field.initial_value with
        | some init_val =>
          (List.range capacity).foldl (fun mem j => memcpy mem (p + j * s) init_val s) memory
        | none => memset memory p 0 (capacity * s)) a = memory a) := by
  unfold initial_byte
  cases field.initial_value with
  | some init_val =>
    exact init_slots_spec memory p s init_val capacity
  | none =>
    simp only
    constructor
    · intro j k hj hk
      rw [memset_apply]
      have hle : (j + 1) * s ≤ capacity * s := Nat.mul_le_mul_right s hj
      rw [Nat.add_mul, Nat.one_mul] at hle
      rw [if_pos ⟨by omega, by omega⟩]
    · intro a ha
      rw [memset_apply, if_neg (by omega)]

/-- The loop that sets the data pointers after `n` passes, on a mesh in which the
last record of the vector of field `i` has size `sz i`: the fields before `n` that
have a size got their slice, one behind the other from `all_data` on, and the slots
of those slices hold the initial bytes; no byte outside these slices is written. -/
theorem init_loop_spec (fd : FieldData) (rank : EntityRank) (capacity all_data : Nat)
    (sz : Nat → Nat) (N : Nat)
    (hlast : ∀ i, i < N → (field_meta_data_at fd (fd.m_num_fields.toNat * rank + i)
      ((fd.m_field_meta_data.getD (fd.m_num_fields.toNat * rank + i) []).length - 1)).m_size = sz i)
    (n : Nat) (hn : n ≤ N) :
    ∃ (M : List (List FieldMetaData)) (mem : Nat → Nat),
      (List.range n).foldl (new_bucket_init_field rank capacity all_data) (fd, 0)
        = ({ fd with m_field_meta_data := M, memory := mem }, slice_offset sz capacity n) ∧
      M.length = fd.m_field_meta_data.length ∧
      (∀ k, M.getD k [] =
        if fd.m_num_fields.toNat * rank ≤ k ∧ k < fd.m_num_fields.toNat * rank + n ∧
            sz (k - fd.m_num_fields.toNat * rank) > 0 then
          (fd.m_field_meta_data.getD k []).set ((fd.m_field_meta_data.getD k []).length - 1)
            { field_meta_data_at fd k ((fd.m_field_meta_data.getD k []).length - 1) with
              m_data := some (all_data + slice_offset sz capacity (k - fd.m_num_fields.toNat * rank)) }
        else fd.m_field_meta_data.getD k []) ∧
      (∀ i j k, i < n → 0 < sz i → j < capacity → k < sz i →
        mem (all_data + slice_offset sz capacity i + j * sz i + k)
          = initial_byte (fd.field_set.getD i FieldBase.null) k) ∧
      (∀ a, a < all_data ∨ all_data + slice_offset sz capacity n ≤ a → mem a = fd.memory a) := by
  induction n with
  | zero =>
    refine ⟨fd.m_field_meta_data, fd.memory, rfl, rfl, fun k => ?_, ?_, fun a _ => rfl⟩
    · rw [if_neg (by omega)]
    · intro i j k hi
      exact absurd hi (Nat.not_lt_zero _)
  | succ n ih =>
    obtain ⟨M, mem, hfold, hlen, hget, hinit, hframe⟩ := ih (by omega)
    rw [List.range_succ, List.foldl_append, hfold]
    simp only [List.foldl_cons, List.foldl_nil]
    have hMn : M.getD (fd.m_num_fields.toNat * rank + n) []
        = fd.m_field_meta_data.getD (fd.m_num_fields.toNat * rank + n) [] := by
      rw [hget, if_neg (by omega)]
    have hrec : field_meta_data_at { fd with m_field_meta_data := M, memory := mem }
        (fd.m_num_fields.toNat * rank + n)
        ((fd.m_field_meta_data.getD (fd.m_num_fields.toNat * rank + n) []).length - 1)
        = field_meta_data_at fd (fd.m_num_fields.toNat * rank + n)
          ((fd.m_field_meta_data.getD (fd.m_num_fields.toNat * rank + n) []).length - 1) := by
      unfold field_meta_data_at
      simp only [hMn]
    have hsz := hlast n (by omega)
    unfold new_bucket_init_field
    simp only [hMn, hrec]
    by_cases hpos : sz n > 0
    · rw [hsz]
      simp only [hpos, if_true]
      have hw := init_write_spec mem (fd.field_set.getD n FieldBase.null)
        (all_data + slice_offset sz capacity n) (sz n) capacity
      refine ⟨_, _, rfl, ?_, fun k => ?_, ?_, ?_⟩
      · rw [modify_at_length, hlen]
      · rw [modify_at_getD, hlen]
        by_cases hk : k = fd.m_num_fields.toNat * rank + n ∧
            fd.m_num_fields.toNat * rank + n < fd.m_field_meta_data.length
        · rw [if_pos hk, hMn, hk.1]
          have hsub : fd.m_num_fields.toNat * rank + n - fd.m_num_fields.toNat * rank = n := by
            omega
          rw [if_pos ⟨by omega, by omega, by rw [hsub]; exact hpos⟩, hsub, hsz]
        · rw [if_neg hk, hget]
          by_cases h1 : fd.m_num_fields.toNat * rank ≤ k ∧
              k < fd.m_num_fields.toNat * rank + n ∧ sz (k - fd.m_num_fields.toNat * rank) > 0
          · rw [if_pos h1, if_pos ⟨h1.1, by omega, h1.2.2⟩]
          · rw [if_neg h1]
            by_cases h2 : fd.m_num_fields.toNat * rank ≤ k ∧
                k < fd.m_num_fields.toNat * rank + (n + 1) ∧
                sz (k - fd.m_num_fields.toNat * rank) > 0
            · -- k is the index of field n, whose vector is past the end: nothing was written
              have hkn : k = fd.m_num_fields.toNat * rank + n := by
                by_contra h3
                exact h1 ⟨h2.1, by omega, h2.2.2⟩
              have hout : fd.m_field_meta_data.length ≤ k := by
                by_contra h3
                exact hk ⟨hkn, by omega⟩
              exfalso
              have hnull : field_meta_data_at fd (fd.m_num_fields.toNat * rank + n)
                  ((fd.m_field_meta_data.getD (fd.m_num_fields.toNat * rank + n) []).length - 1)
                  = FieldMetaData.null := by
                unfold field_meta_data_at
                rw [getD_of_length_le fd.m_field_meta_data _ [] (by omega)]
                rfl
              rw [hnull] at hsz
              have : sz n = 0 := hsz.symm
              omega
            · rw [if_neg h2]
      · intro i j k hi hsi hj hk
        by_cases hin : i = n
        · subst hin
          exact hw.1 j k hj hk
        · have hlt : i < n := by omega
          have hmono := slice_offset_mono sz capacity (i + 1) n hlt
          have hle : (j + 1) * sz i ≤ capacity * sz i := Nat.mul_le_mul_right _ hj
          rw [Nat.add_mul, Nat.one_mul] at hle
          have hoff : slice_offset sz capacity (i + 1)
              = slice_offset sz capacity i + sz i * capacity := rfl
          rw [Nat.mul_comm (sz i) capacity] at hoff
          rw [hw.2 _ (Or.inl (by omega))]
          exact hinit i j k hlt hsi hj hk
      · intro a ha
        have hoff : slice_offset sz capacity (n + 1)
            = slice_offset sz capacity n + sz n * capacity := rfl
        rw [Nat.mul_comm (sz n) capacity] at hoff
        rw [hw.2 a (by omega)]
        exact hframe a (by omega)
    · have h0 : sz n = 0 := by omega
      rw [hsz]
      simp only [h0, Nat.lt_irrefl, if_false]
      refine ⟨M, mem, ?_, hlen, fun k => ?_, ?_, ?_⟩
      · show _ = (_, slice_offset sz capacity n + sz n * capacity)
        rw [h0, Nat.zero_mul, Nat.add_zero]
      · rw [hget]
        by_cases h1 : fd.m_num_fields.toNat * rank ≤ k ∧
            k < fd.m_num_fields.toNat * rank + n ∧ sz (k - fd.m_num_fields.toNat * rank) > 0
        · rw [if_pos h1, if_pos ⟨h1.1, by omega, h1.2.2⟩]
        · rw [if_neg h1, if_neg]
          intro h2
          by_cases hkn : k = fd.m_num_fields.toNat * rank + n
          · have hsub : k - fd.m_num_fields.toNat * rank = n := by omega
            rw [hsub, h0] at h2
            exact absurd h2.2.2 (Nat.lt_irrefl 0)
          · exact h1 ⟨h2.1, by omega, h2.2.2⟩
      · intro i j k hi hsi hj hk
        by_cases hin : i = n
        · subst hin
          omega
        · exact hinit i j k (by omega) hsi hj hk
      · intro a ha
        have hoff : slice_offset sz capacity (n + 1)
            = slice_offset sz capacity n + sz n * capacity := rfl
        rw [h0, Nat.zero_mul, Nat.add_zero] at hoff
        exact hframe a (by omega)

theorem new_bucket_num_fields_of_set (fd : FieldData) (h : fd.m_num_fields ≠ -1) :
    new_bucket_num_fields fd = fd := by
  unfold new_bucket_num_fields
  rw [if_neg h]

theorem set_append_singleton {α : Type} (v : List α) (a b : α) :
    (v ++ [a]).set v.length b = v ++ [b] := by
  induction v with
  | nil => rfl
  | cons x rest ih =>
    show x :: ((rest ++ [a]).set rest.length b) = x :: (rest ++ [b])
    rw [ih]

/-- What new_bucket_callback does once the number of fields is set: every vector of
records of the rank gets the record of the new bucket, the vector of raw pointers of
the rank gets the pointer to the allocation, the slots of the slices hold the
initial bytes, and no byte outside the allocation is written. -/
theorem new_bucket_core (fd : FieldData) (rank : EntityRank) (parts : List PartOrdinal)
    (capacity : Nat) (hs : FieldsShaped fd) (hnf : fd.m_num_fields ≠ -1)
    (hr : rank < fd.entity_rank_count) :
    ∃ (M : List (List FieldMetaData)) (mem : Nat → Nat),
      new_bucket_callback fd rank parts capacity =
        { fd with
          m_field_meta_data := M
          memory := mem
          m_field_raw_data :=
            modify_at fd.m_field_raw_data rank (fun v => v ++
              [if slice_offset (num_bytes_per_entity fd rank parts) capacity fd.m_num_fields.toNat > 0
                then some fd.heap_top else none])
          heap_top := fd.heap_top
            + slice_offset (num_bytes_per_entity fd rank parts) capacity fd.m_num_fields.toNat
          allocations :=
            if slice_offset (num_bytes_per_entity fd rank parts) capacity fd.m_num_fields.toNat > 0
            then fd.allocations ++ [(fd.heap_top,
              slice_offset (num_bytes_per_entity fd rank parts) capacity fd.m_num_fields.toNat)]
            else fd.allocations } ∧
      M.length = fd.m_field_meta_data.length ∧
      (∀ k, M.getD k [] =
        if fd.m_num_fields.toNat * rank ≤ k ∧ k < fd.m_num_fields.toNat * rank + fd.m_num_fields.toNat
        then fd.m_field_meta_data.getD k [] ++
          [new_bucket_record fd rank parts capacity fd.m_num_fields.toNat
            (k - fd.m_num_fields.toNat * rank)]
        else fd.m_field_meta_data.getD k []) ∧
      (∀ i j k, i < fd.m_num_fields.toNat → 0 < num_bytes_per_entity fd rank parts i →
        j < capacity → k < num_bytes_per_entity fd rank parts i →
        mem (fd.heap_top + slice_offset (num_bytes_per_entity fd rank parts) capacity i
            + j * num_bytes_per_entity fd rank parts i + k)
          = initial_byte (fd.field_set.getD i FieldBase.null) k) ∧
      (∀ a, a < fd.heap_top ∨ fd.heap_top
          + slice_offset (num_bytes_per_entity fd rank parts) capacity fd.m_num_fields.toNat ≤ a →
        mem a = fd.memory a) := by
  have hin : ∀ k, k < fd.m_num_fields.toNat * rank + fd.m_num_fields.toNat →
      k < fd.m_field_meta_data.length := by
    intro k hk
    rw [hs.meta_length]
    have h3 : fd.m_num_fields.toNat * (rank + 1) ≤ fd.m_num_fields.toNat * fd.entity_rank_count :=
      Nat.mul_le_mul_left _ hr
    rw [Nat.mul_add, Nat.mul_one] at h3
    omega
  obtain ⟨M, hfold, hlen, hget⟩ := sizing_loop_spec fd rank parts capacity fd.m_num_fields.toNat
  unfold new_bucket_callback
  simp only [new_bucket_num_fields_of_set fd hnf, hfold]
  by_cases ht : slice_offset (num_bytes_per_entity fd rank parts) capacity fd.m_num_fields.toNat > 0
  · simp only [ht, if_true]
    unfold allocate
    simp only
    have hlast : ∀ i, i < fd.m_num_fields.toNat →
        (field_meta_data_at
          ({ fd with
            m_field_meta_data := M
            heap_top := fd.heap_top
              + slice_offset (num_bytes_per_entity fd rank parts) capacity fd.m_num_fields.toNat
            allocations := fd.allocations ++ [(fd.heap_top,
              slice_offset (num_bytes_per_entity fd rank parts) capacity fd.m_num_fields.toNat)]
            m_field_raw_data := modify_at fd.m_field_raw_data rank
              (fun v => v ++ [some fd.heap_top]) } : FieldData)
          (fd.m_num_fields.toNat * rank + i)
          ((M.getD (fd.m_num_fields.toNat * rank + i) []).length - 1)).m_size
          = num_bytes_per_entity fd rank parts i := by
      intro i hi
      unfold field_meta_data_at
      simp only
      rw [hget, if_pos ⟨by omega, by omega, hin _ (by omega)⟩]
      rw [List.length_append, List.length_singleton, Nat.add_sub_cancel,
        getD_append_singleton_length]
      have hsub : fd.m_num_fields.toNat * rank + i - fd.m_num_fields.toNat * rank = i := by omega
      rw [hsub]
      unfold sized_record
      by_cases hp : num_bytes_per_entity fd rank parts i > 0
      · rw [if_pos hp]
      · rw [if_neg hp]
        show 0 = _
        omega
    obtain ⟨M2, mem, hfold2, hlen2, hget2, hinit, hframe⟩ :=
      init_loop_spec _ rank capacity fd.heap_top (num_bytes_per_entity fd rank parts)
        fd.m_num_fields.toNat hlast fd.m_num_fields.toNat (Nat.le_refl _)
    refine ⟨M2, mem, ?_, ?_, fun k => ?_, hinit, hframe⟩
    · rw [hfold2]
    · rw [hlen2]
      exact hlen
    · rw [hget2]
      simp only
      by_cases hb : fd.m_num_fields.toNat * rank ≤ k ∧
          k < fd.m_num_fields.toNat * rank + fd.m_num_fields.toNat
      · rw [if_pos hb]
        have hM : M.getD k [] = fd.m_field_meta_data.getD k [] ++
            [sized_record fd rank parts (k - fd.m_num_fields.toNat * rank)] := by
          rw [hget, if_pos ⟨hb.1, hb.2, hin k hb.2⟩]
        by_cases hp : num_bytes_per_entity fd rank parts (k - fd.m_num_fields.toNat * rank) > 0
        · rw [if_pos ⟨hb.1, hb.2, hp⟩]
          unfold field_meta_data_at
          simp only [hM, List.length_append, List.length_singleton, Nat.add_sub_cancel,
            getD_append_singleton_length]
          rw [set_append_singleton]
          unfold sized_record new_bucket_record
          rw [if_pos hp, if_pos hp, if_pos ht]
        · rw [if_neg (fun h => hp h.2.2), hM]
          unfold sized_record new_bucket_record
          rw [if_neg hp, if_neg hp]
      · rw [if_neg (fun h => hb ⟨h.1, h.2.1⟩), if_neg hb, hget,
          if_neg (fun h => hb ⟨h.1, h.2.1⟩)]
  · simp only [ht, if_false]
    have h0 : slice_offset (num_bytes_per_entity fd rank parts) capacity fd.m_num_fields.toNat = 0 := by
      omega
    refine ⟨M, fd.memory, ?_, hlen, fun k => ?_, ?_, fun _ _ => rfl⟩
    · rw [h0]
      rfl
    · rw [hget]
      by_cases hb : fd.m_num_fields.toNat * rank ≤ k ∧
          k < fd.m_num_fields.toNat * rank + fd.m_num_fields.toNat
      · rw [if_pos ⟨hb.1, hb.2, hin k hb.2⟩, if_pos hb]
        unfold sized_record new_bucket_record
        by_cases hp : num_bytes_per_entity fd rank parts (k - fd.m_num_fields.toNat * rank) > 0
        · rw [if_pos hp, if_pos hp, if_neg ht]
        · rw [if_neg hp, if_neg hp]
      · rw [if_neg (fun h => hb ⟨h.1, h.2.1⟩), if_neg hb]
    · intro i j k hi hsz hj hk
      exfalso
      have hmono := slice_offset_mono (num_bytes_per_entity fd rank parts) capacity (i + 1)
        fd.m_num_fields.toNat hi
      have hoff : slice_offset (num_bytes_per_entity fd rank parts) capacity (i + 1)
          = slice_offset (num_bytes_per_entity fd rank parts) capacity i
            + num_bytes_per_entity fd rank parts i * capacity := rfl
      have hpos : 0 < num_bytes_per_entity fd rank parts i * capacity :=
        Nat.mul_pos hsz (by omega)
      omega

theorem toNat_num_fields_of_set (fd : FieldData) (hs : FieldsShaped fd)
    (hnf : fd.m_num_fields ≠ -1) : fd.m_num_fields.toNat = fd.field_set.length := by
  rcases hs.num_fields with h | h
  · exact absurd h hnf
  · rw [h]
    exact Int.toNat_natCast _

/-- The accessors after new_bucket_callback, on a mesh whose number of fields is set. -/
theorem new_bucket_spec_of_set (fd : FieldData) (rank : EntityRank) (parts : List PartOrdinal)
    (capacity : Nat) (hs : FieldsShaped fd) (hnf : fd.m_num_fields ≠ -1)
    (hr : rank < fd.entity_rank_count) :
    ((new_bucket_callback fd rank parts capacity).field_set = fd.field_set ∧
      (new_bucket_callback fd rank parts capacity).entity_rank_count = fd.entity_rank_count ∧
      (new_bucket_callback fd rank parts capacity).assertions_enabled = fd.assertions_enabled ∧
      (new_bucket_callback fd rank parts capacity).m_num_fields = fd.m_num_fields ∧
      (new_bucket_callback fd rank parts capacity).deallocations = fd.deallocations) ∧
    FieldsShaped (new_bucket_callback fd rank parts capacity) ∧
    (∀ r, bucket_count (new_bucket_callback fd rank parts capacity) r
      = if r = rank then bucket_count fd rank + 1 else bucket_count fd r) ∧
    (∀ r x, field_raw_data (new_bucket_callback fd rank parts capacity) r x
      = if r = rank ∧ x = bucket_count fd rank then
          (if slice_offset (num_bytes_per_entity fd rank parts) capacity fd.m_num_fields.toNat > 0
            then some fd.heap_top else none)
        else field_raw_data fd r x) ∧
    (∀ r i x, i < fd.m_num_fields.toNat →
      field_meta_data (new_bucket_callback fd rank parts capacity) r i x
      = if r = rank ∧ x = bucket_count fd rank then
          new_bucket_record fd rank parts capacity fd.m_num_fields.toNat i
        else field_meta_data fd r i x) ∧
    (∀ i j k, i < fd.m_num_fields.toNat → 0 < num_bytes_per_entity fd rank parts i →
      j < capacity → k < num_bytes_per_entity fd rank parts i →
      (new_bucket_callback fd rank parts capacity).memory
          (fd.heap_top + slice_offset (num_bytes_per_entity fd rank parts) capacity i
            + j * num_bytes_per_entity fd rank parts i + k)
        = initial_byte (fd.field_set.getD i FieldBase.null) k) ∧
    (∀ a, a < fd.heap_top ∨ fd.heap_top
        + slice_offset (num_bytes_per_entity fd rank parts) capacity fd.m_num_fields.toNat ≤ a →
      (new_bucket_callback fd rank parts capacity).memory a = fd.memory a) ∧
    (new_bucket_callback fd rank parts capacity).heap_top = fd.heap_top
      + slice_offset (num_bytes_per_entity fd rank parts) capacity fd.m_num_fields.toNat ∧
    (new_bucket_callback fd rank parts capacity).allocations =
      (if slice_offset (num_bytes_per_entity fd rank parts) capacity fd.m_num_fields.toNat > 0
        then fd.allocations ++ [(fd.heap_top,
          slice_offset (num_bytes_per_entity fd rank parts) capacity fd.m_num_fields.toNat)]
        else fd.allocations) := by
  obtain ⟨M, mem, hres, hlen, hget, hinit, hframe⟩ :=
    new_bucket_core fd rank parts capacity hs hnf hr
  have hrl : rank < fd.m_field_raw_data.length := by rw [hs.raw_length]; exact hr
  have hraw : ∀ r, (modify_at fd.m_field_raw_data rank (fun v => v ++
      [if slice_offset (num_bytes_per_entity fd rank parts) capacity fd.m_num_fields.toNat > 0
        then some fd.heap_top else none])).getD r []
      = if r = rank then fd.m_field_raw_data.getD rank [] ++
          [if slice_offset (num_bytes_per_entity fd rank parts) capacity fd.m_num_fields.toNat > 0
            then some fd.heap_top else none]
        else fd.m_field_raw_data.getD r [] := by
    intro r
    rw [modify_at_getD]
    by_cases h : r = rank
    · rw [if_pos ⟨h, hrl⟩, if_pos h]
    · rw [if_neg (fun h2 => h h2.1), if_neg h]
  have hcount : ∀ r, bucket_count (new_bucket_callback fd rank parts capacity) r
      = if r = rank then bucket_count fd rank + 1 else bucket_count fd r := by
    intro r
    rw [hres]
    unfold bucket_count
    simp only [hraw]
    by_cases h : r = rank
    · rw [if_pos h, if_pos h, List.length_append, List.length_singleton]
    · rw [if_neg h, if_neg h]
  have hvec : ∀ r i, r < fd.entity_rank_count → i < fd.m_num_fields.toNat →
      M.getD (fd.m_num_fields.toNat * r + i) [] =
        if r = rank then fd.m_field_meta_data.getD (fd.m_num_fields.toNat * r + i) [] ++
          [new_bucket_record fd rank parts capacity fd.m_num_fields.toNat i]
        else fd.m_field_meta_data.getD (fd.m_num_fields.toNat * r + i) [] := by
    intro r i _ hi
    rw [hget]
    by_cases h : r = rank
    · subst h
      rw [if_pos ⟨by omega, by omega⟩, if_pos rfl]
      have hsub : fd.m_num_fields.toNat * r + i - fd.m_num_fields.toNat * r = i := by omega
      rw [hsub]
    · rw [if_neg h, if_neg]
      intro hb
      exact h (block_unique _ r rank i hi hb.1 hb.2)
  refine ⟨?_, ?_, hcount, ?_, ?_, ?_, ?_, ?_, ?_⟩
  · rw [hres]
    exact ⟨rfl, rfl, rfl, rfl, rfl⟩
  · refine ⟨?_, ?_, ?_, ?_, fun h => absurd (by rw [hres] at h; exact h) hnf⟩
    · rw [hres]
      exact hs.num_fields
    · rw [hres]
      show M.length = _
      rw [hlen]
      exact hs.meta_length
    · rw [hres]
      show (modify_at _ _ _).length = _
      rw [modify_at_length]
      exact hs.raw_length
    · intro r i hr2 hi
      rw [hcount r]
      have hr3 : r < fd.entity_rank_count := by rw [hres] at hr2; exact hr2
      have hi3 : i < fd.m_num_fields.toNat := by rw [hres] at hi; exact hi
      have hv := hvec r i hr3 hi3
      have hold := hs.buckets r i hr3 hi3
      rw [hres]
      show (M.getD (fd.m_num_fields.toNat * r + i) []).length = _
      rw [hv]
      by_cases h : r = rank
      · rw [if_pos h, if_pos h, List.length_append, List.length_singleton, hold, h]
      · rw [if_neg h, if_neg h, hold]
  · intro r x
    rw [hres]
    unfold field_raw_data
    simp only [hraw]
    generalize (if slice_offset (num_bytes_per_entity fd rank parts) capacity
      fd.m_num_fields.toNat > 0 then some fd.heap_top else none) = p
    by_cases h : r = rank
    · subst h
      rw [if_pos (rfl : r = r)]
      by_cases hx : x = bucket_count fd r
      · rw [if_pos ⟨rfl, hx⟩, hx]
        exact getD_append_singleton_length _ _ _
      · rw [if_neg (fun h2 => hx h2.2)]
        exact getD_append_singleton_of_ne _ _ _ _ hx
    · rw [if_neg h, if_neg (fun h2 => h h2.1)]
  · intro r i x hi
    by_cases hr2 : r < fd.entity_rank_count
    · have hv := hvec r i hr2 hi
      have hold := hs.buckets r i hr2 hi
      rw [hres]
      unfold field_meta_data field_meta_data_at
      simp only [hv]
      by_cases h : r = rank
      · subst h
        rw [if_pos rfl]
        by_cases hx : x = bucket_count fd r
        · rw [if_pos ⟨rfl, hx⟩, hx, ← hold]
          exact getD_append_singleton_length _ _ _
        · rw [if_neg (fun h2 => hx h2.2)]
          exact getD_append_singleton_of_ne _ _ _ _ (by rw [hold]; exact hx)
      · rw [if_neg h, if_neg (fun h2 => h h2.1)]
    · have hne : r ≠ rank := fun h => hr2 (h ▸ hr)
      rw [if_neg (fun h2 => hne h2.1), hres]
      unfold field_meta_data field_meta_data_at
      simp only
      rw [hget, if_neg]
      intro hb
      exact hne (block_unique _ r rank i hi hb.1 hb.2)
  · intro i j k hi hsz hj hk
    rw [hres]
    exact hinit i j k hi hsz hj hk
  · intro a ha
    rw [hres]
    exact hframe a ha
  · rw [hres]
  · rw [hres]

theorem getD_replicate_nil {α : Type} (n k : Nat) :
    (List.replicate n ([] : List α)).getD k [] = [] := by
  rw [List.getD_eq_getElem?_getD]
  by_cases h : k < n
  · rw [List.getElem?_replicate, if_pos h]
    rfl
  · rw [List.getElem?_eq_none (by rw [List.length_replicate]; omega)]
    rfl

/-- The head of new_bucket_callback on a mesh whose number of fields is not set: the
vector of records gets an empty vector for every rank and field. -/
theorem new_bucket_num_fields_of_unset (fd : FieldData) (hs : FieldsShaped fd)
    (h : fd.m_num_fields = -1) :
    new_bucket_num_fields fd =
      { fd with
        m_num_fields := (fd.field_set.length : Int)
        m_field_meta_data := List.replicate (fd.field_set.length * fd.entity_rank_count) [] } := by
  have hnil : fd.m_field_meta_data = [] := by
    have hl := hs.meta_length
    rw [h] at hl
    exact List.length_eq_zero.1 (by rw [hl]; simp)
  unfold new_bucket_num_fields
  rw [if_pos h, hnil]
  unfold vector_resize
  simp

theorem new_bucket_num_fields_shaped (fd : FieldData) (hs : FieldsShaped fd) :
    FieldsShaped (new_bucket_num_fields fd) ∧ (new_bucket_num_fields fd).m_num_fields ≠ -1 ∧
    (new_bucket_num_fields fd).m_num_fields.toNat = fd.field_set.length := by
  by_cases h : fd.m_num_fields = -1
  · rw [new_bucket_num_fields_of_unset fd hs h]
    have hne : (fd.field_set.length : Int) ≠ -1 := by omega
    refine ⟨⟨Or.inr rfl, ?_, hs.raw_length, ?_, ?_⟩, hne, Int.toNat_natCast _⟩
    · show (List.replicate _ _).length = (fd.field_set.length : Int).toNat * fd.entity_rank_count
      rw [List.length_replicate, Int.toNat_natCast]
    · intro r i hr hi
      show ((List.replicate _ _).getD _ []).length = (fd.m_field_raw_data.getD r []).length
      rw [getD_replicate_nil]
      exact (hs.no_buckets h r).symm
    · intro h2
      exact absurd h2 hne
  · rw [new_bucket_num_fields_of_set fd h]
    exact ⟨hs, h, toNat_num_fields_of_set fd hs h⟩

theorem new_bucket_num_fields_frame (fd : FieldData) (hs : FieldsShaped fd) :
    (new_bucket_num_fields fd).field_set = fd.field_set ∧
    (new_bucket_num_fields fd).entity_rank_count = fd.entity_rank_count ∧
    (new_bucket_num_fields fd).assertions_enabled = fd.assertions_enabled ∧
    (new_bucket_num_fields fd).m_field_raw_data = fd.m_field_raw_data ∧
    (new_bucket_num_fields fd).memory = fd.memory ∧
    (new_bucket_num_fields fd).heap_top = fd.heap_top ∧
    (new_bucket_num_fields fd).allocations = fd.allocations ∧
    (new_bucket_num_fields fd).deallocations = fd.deallocations ∧
    (∀ r i x, field_meta_data (new_bucket_num_fields fd) r i x = field_meta_data fd r i x) := by
  by_cases h : fd.m_num_fields = -1
  · rw [new_bucket_num_fields_of_unset fd hs h]
    refine ⟨rfl, rfl, rfl, rfl, rfl, rfl, rfl, rfl, fun r i x => ?_⟩
    have hnil : fd.m_field_meta_data = [] := by
      have hl := hs.meta_length
      rw [h] at hl
      exact List.length_eq_zero.1 (by rw [hl]; simp)
    unfold field_meta_data field_meta_data_at
    simp only [hnil, getD_replicate_nil]
    rfl
  · rw [new_bucket_num_fields_of_set fd h]
    exact ⟨rfl, rfl, rfl, rfl, rfl, rfl, rfl, rfl, fun _ _ _ => rfl⟩

theorem num_bytes_per_entity_congr {fd fd1 : FieldData} (h : fd1.field_set = fd.field_set) :
    num_bytes_per_entity fd1 = num_bytes_per_entity fd := by
  funext rank parts i
  unfold num_bytes_per_entity
  rw [h]

theorem new_bucket_record_congr {fd fd1 : FieldData} (h : fd1.field_set = fd.field_set)
    (hh : fd1.heap_top = fd.heap_top) :
    new_bucket_record fd1 = new_bucket_record fd := by
  funext rank parts capacity nf i
  unfold new_bucket_record
  rw [num_bytes_per_entity_congr h, h, hh]

theorem bucket_count_congr {fd fd1 : FieldData} (h : fd1.m_field_raw_data = fd.m_field_raw_data) :
    bucket_count fd1 = bucket_count fd := by
  funext r
  unfold bucket_count
  rw [h]

theorem field_raw_data_congr {fd fd1 : FieldData}
    (h : fd1.m_field_raw_data = fd.m_field_raw_data) :
    field_raw_data fd1 = field_raw_data fd := by
  funext r x
  unfold field_raw_data
  rw [h]

theorem new_bucket_callback_of_num_fields (fd : FieldData) (rank : EntityRank)
    (parts : List PartOrdinal) (capacity : Nat) (hs : FieldsShaped fd) :
    new_bucket_callback fd rank parts capacity
      = new_bucket_callback (new_bucket_num_fields fd) rank parts capacity := by
  have h := (new_bucket_num_fields_shaped fd hs).2.1
  show _ = new_bucket_callback (new_bucket_num_fields fd) rank parts capacity
  conv_rhs => unfold new_bucket_callback
  rw [new_bucket_num_fields_of_set _ h]
  rfl

/-- The accessors after new_bucket_callback: the new bucket is the bucket
`bucket_count fd rank` of its rank; field `i` has the record `new_bucket_record` for
it; the allocation is made at `heap_top` when there is a byte to allocate; the slots
of the slices hold the initial bytes; nothing else changes. -/
theorem new_bucket_callback_spec (fd : FieldData) (rank : EntityRank) (parts : List PartOrdinal)
    (capacity : Nat) (hs : FieldsShaped fd) (hr : rank < fd.entity_rank_count) :
    ((new_bucket_callback fd rank parts capacity).field_set = fd.field_set ∧
      (new_bucket_callback fd rank parts capacity).entity_rank_count = fd.entity_rank_count ∧
      (new_bucket_callback fd rank parts capacity).assertions_enabled = fd.assertions_enabled ∧
      (new_bucket_callback fd rank parts capacity).m_num_fields = (fd.field_set.length : Int) ∧
      (new_bucket_callback fd rank parts capacity).deallocations = fd.deallocations) ∧
    FieldsShaped (new_bucket_callback fd rank parts capacity) ∧
    (∀ r, bucket_count (new_bucket_callback fd rank parts capacity) r
      = if r = rank then bucket_count fd rank + 1 else bucket_count fd r) ∧
    (∀ r x, field_raw_data (new_bucket_callback fd rank parts capacity) r x
      = if r = rank ∧ x = bucket_count fd rank then
          (if slice_offset (num_bytes_per_entity fd rank parts) capacity fd.field_set.length > 0
            then some fd.heap_top else none)
        else field_raw_data fd r x) ∧
    (∀ r i x, i < fd.field_set.length →
      field_meta_data (new_bucket_callback fd rank parts capacity) r i x
      = if r = rank ∧ x = bucket_count fd rank then
          new_bucket_record fd rank parts capacity fd.field_set.length i
        else field_meta_data fd r i x) ∧
    (∀ i j k, i < fd.field_set.length → 0 < num_bytes_per_entity fd rank parts i →
      j < capacity → k < num_bytes_per_entity fd rank parts i →
      (new_bucket_callback fd rank parts capacity).memory
          (fd.heap_top + slice_offset (num_bytes_per_entity fd rank parts) capacity i
            + j * num_bytes_per_entity fd rank parts i + k)
        = initial_byte (fd.field_set.getD i FieldBase.null) k) ∧
    (∀ a, a < fd.heap_top ∨ fd.heap_top
        + slice_offset (num_bytes_per_entity fd rank parts) capacity fd.field_set.length ≤ a →
      (new_bucket_callback fd rank parts capacity).memory a = fd.memory a) ∧
    (new_bucket_callback fd rank parts capacity).heap_top = fd.heap_top
      + slice_offset (num_bytes_per_entity fd rank parts) capacity fd.field_set.length ∧
    (new_bucket_callback fd rank parts capacity).allocations =
      (if slice_offset (num_bytes_per_entity fd rank parts) capacity fd.field_set.length > 0
        then fd.allocations ++ [(fd.heap_top,
          slice_offset (num_bytes_per_entity fd rank parts) capacity fd.field_set.length)]
        else fd.allocations) := by
  obtain ⟨hs1, hne, hnat⟩ := new_bucket_num_fields_shaped fd hs
  obtain ⟨hfs, hrc, has, hraw, hmem, hheap, halloc, hdealloc, hrec⟩ :=
    new_bucket_num_fields_frame fd hs
  have hspec := new_bucket_spec_of_set (new_bucket_num_fields fd) rank parts capacity hs1 hne
    (by rw [hrc]; exact hr)
  rw [← new_bucket_callback_of_num_fields fd rank parts capacity hs, hnat,
    num_bytes_per_entity_congr hfs, new_bucket_record_congr hfs hheap, bucket_count_congr hraw,
    field_raw_data_congr hraw, hfs, hrc, has, hmem, hheap, halloc, hdealloc] at hspec
  obtain ⟨h1, h2, h3, h4, h5, h6, h7, h8, h9⟩ := hspec
  refine ⟨⟨h1.1, h1.2.1, h1.2.2.1, ?_, h1.2.2.2.2⟩, h2, h3, h4, ?_, h6, h7, h8, h9⟩
  · rw [h1.2.2.2.1]
    rcases hs1.num_fields with h | h
    · exact absurd h hne
    · rw [h, hfs]
  · intro r i x hi
    rw [h5 r i x hi, hrec]

theorem construct_field_data_shaped (field_set : List FieldBase) (entity_rank_count : Nat)
    (assertions : Bool) (memory : Nat → Nat) (heap_top : Nat) :
    FieldsShaped (construct_field_data field_set entity_rank_count assertions memory heap_top) := by
  refine ⟨Or.inl rfl, ?_, ?_, ?_, ?_⟩
  · show ([] : List (List FieldMetaData)).length = (-1 : Int).toNat * entity_rank_count
    simp
  · show (List.replicate entity_rank_count ([] : List (Option Nat))).length = entity_rank_count
    exact List.length_replicate _ _
  · intro r i _ hi
    exact absurd hi (Nat.not_lt_zero _)
  · intro _ r
    show ((List.replicate entity_rank_count ([] : List (Option Nat))).getD r []).length = 0
    rw [getD_replicate_nil]
    rfl

theorem getD_of_get?_eq_some {α : Type} (l : List α) (i : Nat) (a d : α)
    (h : l.get? i = some a) : l.getD i d = a ∧ i < l.length := by
  rw [List.get?_eq_getElem?] at h
  constructor
  · rw [List.getD_eq_getElem?_getD, h]
    rfl
  · by_contra hlt
    rw [List.getElem?_eq_none (Nat.le_of_not_lt hlt)] at h
    exact Option.noConfusion h

theorem wrap32_of_lt (n : Nat) (h : n < 4294967296) : wrap32 n = n :=
  Nat.mod_eq_of_lt h

theorem wrap32_lt (n : Nat) : wrap32 n < 4294967296 :=
  Nat.mod_lt n (by decide)

/-- C24 (counterexample): for a field of 8-byte scalars with 2^29 + 1 scalars per
entity, stride × dimension is 2^32 + 8 bytes; the product is formed in 32 bits and
the size recorded for the new bucket is 8. -/
theorem C24_counterexample :
    scenario_oversized_data.field_set.get? 0 = some scenario_oversized ∧
    0 < (find_restriction scenario_oversized 0 [0]).dimension ∧
    scenario_oversized.stride_of * (find_restriction scenario_oversized 0 [0]).stride 0
      = 4294967304 ∧
    (field_meta_data (new_bucket_callback scenario_oversized_data 0 [0] 1) 0 0
      (bucket_count scenario_oversized_data 0)).m_size = 8 ∧
    (field_meta_data (new_bucket_callback scenario_oversized_data 0 [0] 1) 0 0
      (bucket_count scenario_oversized_data 0)).m_size
      ≠ scenario_oversized.stride_of * (find_restriction scenario_oversized 0 [0]).stride 0 :=
  ⟨rfl, by decide, by decide, by decide, by decide⟩

/-- C24 (amended): after new_bucket_callback(rank, part signature, capacity) the new
bucket is the bucket `bucket_count fd rank` of its rank, and for every field F of
the field set whose product stride × dimension is below 2^32, the per-entity byte
size recorded for F and the new bucket is stride × dimension when the restriction
that the lookup gives for F on that rank and part signature exists (its dimension()
is positive), and 0 otherwise: the stride is the byte stride
`data_traits().stride_of` of F and the dimension is the number of scalars per entity
that the restriction gives for the array rank of F, `stride(rank - 1)`, or 1 for a
field of array rank 0. So a field of non-zero size in the bucket has a restriction
that exists, and its size is that product. -/
theorem C24_new_bucket_byte_size (fd : FieldData) (rank : EntityRank) (parts : List PartOrdinal)
    (capacity i : Nat) (field : FieldBase)
    (hs : FieldsShaped fd) (hr : rank < fd.entity_rank_count)
    (hfield : fd.field_set.get? i = some field)
    (hfit : field.stride_of *
        (if field.rank ≠ 0 then (find_restriction field rank parts).stride (field.rank - 1)
          else 1) < 4294967296) :
    bucket_count (new_bucket_callback fd rank parts capacity) rank = bucket_count fd rank + 1 ∧
    (field_meta_data (new_bucket_callback fd rank parts capacity) rank i
        (bucket_count fd rank)).m_size
      = (if 0 < (find_restriction field rank parts).dimension then
          field.stride_of *
            (if field.rank ≠ 0 then (find_restriction field rank parts).stride (field.rank - 1)
              else 1)
        else 0) ∧
    ((field_meta_data (new_bucket_callback fd rank parts capacity) rank i
        (bucket_count fd rank)).m_size ≠ 0 →
      0 < (find_restriction field rank parts).dimension ∧
      (field_meta_data (new_bucket_callback fd rank parts capacity) rank i
          (bucket_count fd rank)).m_size
        = field.stride_of *
            (if field.rank ≠ 0 then (find_restriction field rank parts).stride (field.rank - 1)
              else 1)) := by
  obtain ⟨hget, hi⟩ := getD_of_get?_eq_some _ _ _ FieldBase.null hfield
  obtain ⟨_, _, hcount, _, hrec, _⟩ := new_bucket_callback_spec fd rank parts capacity hs hr
  have hsize : (field_meta_data (new_bucket_callback fd rank parts capacity) rank i
      (bucket_count fd rank)).m_size
      = (if 0 < (find_restriction field rank parts).dimension then
          field.stride_of *
            (if field.rank ≠ 0 then (find_restriction field rank parts).stride (field.rank - 1)
              else 1)
        else 0) := by
    rw [hrec rank i _ hi, if_pos ⟨rfl, rfl⟩]
    unfold new_bucket_record
    have hnb : num_bytes_per_entity fd rank parts i
        = (if 0 < (find_restriction field rank parts).dimension then
            field.stride_of *
              (if field.rank ≠ 0 then (find_restriction field rank parts).stride (field.rank - 1)
                else 1)
          else 0) := by
      unfold num_bytes_per_entity
      simp only [hget]
      rw [wrap32_of_lt _ hfit]
    by_cases hp : num_bytes_per_entity fd rank parts i > 0
    · rw [if_pos hp]
      exact hnb
    · rw [if_neg hp, ← hnb]
      show 0 = _
      omega
  refine ⟨?_, hsize, fun hne => ?_⟩
  · rw [hcount rank, if_pos rfl]
  · rw [hsize] at hne ⊢
    by_cases hd : 0 < (find_restriction field rank parts).dimension
    · rw [if_pos hd]
      exact ⟨hd, rfl⟩
    · rw [if_neg hd] at hne
      exact absurd rfl hne

theorem C24_witness :
    FieldsShaped scenario_field_data ∧
    scenario_field_data.field_set.get? 0 = some scenario_coordinates ∧
    bucket_count scenario_field_data 0 = 0 ∧
    bucket_count scenario_one_bucket 0 = 1 ∧
    (find_restriction scenario_coordinates 0 [0, 1, 10]).dimension = 3 ∧
    (field_meta_data scenario_one_bucket 0 0 0).m_size = 8 * 3 :=
  have hs : FieldsShaped scenario_field_data := construct_field_data_shaped _ _ _ _ _
  have h := C24_new_bucket_byte_size scenario_field_data 0 [0, 1, 10] 2 0 scenario_coordinates hs
    (by decide) rfl (by decide)
  ⟨hs, rfl, by decide, h.1, by decide, (h.2.2 (by rw [h.2.1]; decide)).2⟩

theorem slice_offset_pos (sz : Nat → Nat) (capacity i n : Nat) (hi : i < n) (hsz : 0 < sz i)
    (hc : 0 < capacity) : 0 < slice_offset sz capacity n := by
  have hmono := slice_offset_mono sz capacity (i + 1) n hi
  have hoff : slice_offset sz capacity (i + 1) = slice_offset sz capacity i + sz i * capacity := rfl
  have hpos : 0 < sz i * capacity := Nat.mul_pos hsz hc
  omega

/-- C25: after new_bucket_callback(rank, part signature, capacity), for every field
with a non-zero per-entity size s in the new bucket, the field has a slice (a data
pointer that is not null) when the capacity is positive, and each of the `capacity`
slots of that slice, the bytes [j*s, (j+1)*s) for j < capacity, holds the bytes of
the field's declared initial value, or zero bytes when the field declares none. -/
theorem C25_new_bucket_initialized (fd : FieldData) (rank : EntityRank)
    (parts : List PartOrdinal) (capacity i : Nat) (field : FieldBase)
    (hs : FieldsShaped fd) (hr : rank < fd.entity_rank_count)
    (hfield : fd.field_set.get? i = some field)
    (hsize : 0 < (field_meta_data (new_bucket_callback fd rank parts capacity) rank i
      (bucket_count fd rank)).m_size) :
    (0 < capacity →
      (field_meta_data (new_bucket_callback fd rank parts capacity) rank i
        (bucket_count fd rank)).m_data ≠ none) ∧
    ∀ j k, j < capacity →
      k < (field_meta_data (new_bucket_callback fd rank parts capacity) rank i
        (bucket_count fd rank)).m_size →
      (new_bucket_callback fd rank parts capacity).memory
        (address (field_meta_data (new_bucket_callback fd rank parts capacity) rank i
            (bucket_count fd rank)).m_data
          + j * (field_meta_data (new_bucket_callback fd rank parts capacity) rank i
            (bucket_count fd rank)).m_size + k)
        = (match field.initial_value with
          | some init_val => init_val k
          | none => 0) := by
  obtain ⟨hget, hi⟩ := getD_of_get?_eq_some _ _ _ FieldBase.null hfield
  obtain ⟨_, _, _, _, hrec, hinit, _⟩ := new_bucket_callback_spec fd rank parts capacity hs hr
  have hrec2 := hrec rank i (bucket_count fd rank) hi
  rw [if_pos ⟨rfl, rfl⟩] at hrec2
  rw [hrec2] at hsize ⊢
  unfold new_bucket_record at hsize ⊢
  by_cases hp : num_bytes_per_entity fd rank parts i > 0
  · rw [if_pos hp] at hsize ⊢
    simp only
    constructor
    · intro hc
      rw [if_pos (slice_offset_pos _ capacity i _ hi hp hc)]
      exact fun h => Option.noConfusion h
    · intro j k hj hk
      have hc : 0 < capacity := by omega
      rw [if_pos (slice_offset_pos _ capacity i _ hi hp hc)]
      have h := hinit i j k hi hp hj hk
      rw [hget] at h
      exact h
  · rw [if_neg hp] at hsize
    exact absurd hsize (Nat.lt_irrefl 0)

theorem C25_witness :
    FieldsShaped scenario_field_data ∧
    scenario_field_data.field_set.get? 1 = some scenario_temperature ∧
    (field_meta_data scenario_one_bucket 0 1 0).m_size = 8 ∧
    (field_meta_data scenario_one_bucket 0 1 0).m_data = some 1048 ∧
    scenario_field_data.memory 1056 = 255 ∧
    scenario_one_bucket.memory (1048 + 1 * 8 + 0) = 7 ∧
    scenario_one_bucket.memory (1048 + 1 * 8 + 1) = 0 :=
  have hs : FieldsShaped scenario_field_data := construct_field_data_shaped _ _ _ _ _
  have h := C25_new_bucket_initialized scenario_field_data 0 [0, 1, 10] 2 1 scenario_temperature
    hs (by decide) rfl (by decide)
  ⟨hs, rfl, by decide, by decide, by decide, h.2 1 0 (by decide) (by decide),
    h.2 1 1 (by decide) (by decide)⟩

/-! ## Field data: the callbacks that write bytes only -/

theorem copy_entity_fields_field_frame (dst_rank : EntityRank) (dst_bucket_id dst_bucket_ord : Nat)
    (src_rank : EntityRank) (src_bucket_id src_bucket_ord : Nat) (fd : FieldData) (i : Nat) :
    ∃ mem : Nat → Nat,
      (copy_entity_fields_field dst_rank dst_bucket_id dst_bucket_ord src_rank src_bucket_id
        src_bucket_ord fd i).2 = { fd with memory := mem } := by
  unfold copy_entity_fields_field
  simp only
  split
  · exact ⟨fd.memory, rfl⟩
  · split
    · split
      · exact ⟨fd.memory, rfl⟩
      · exact ⟨_, rfl⟩
    · exact ⟨fd.memory, rfl⟩

theorem copy_entity_fields_loop_frame (dst_rank : EntityRank) (dst_bucket_id dst_bucket_ord : Nat)
    (src_rank : EntityRank) (src_bucket_id src_bucket_ord : Nat) (l : List Nat) (fd : FieldData) :
    ∃ mem : Nat → Nat,
      (copy_entity_fields_loop dst_rank dst_bucket_id dst_bucket_ord src_rank src_bucket_id
        src_bucket_ord l fd).2 = { fd with memory := mem } := by
  induction l generalizing fd with
  | nil => exact ⟨fd.memory, rfl⟩
  | cons i rest ih =>
    obtain ⟨mem1, h1⟩ := copy_entity_fields_field_frame dst_rank dst_bucket_id dst_bucket_ord
      src_rank src_bucket_id src_bucket_ord fd i
    unfold copy_entity_fields_loop
    generalize hstep : copy_entity_fields_field dst_rank dst_bucket_id dst_bucket_ord src_rank
      src_bucket_id src_bucket_ord fd i = step at h1
    obtain ⟨out, fd1⟩ := step
    simp only at h1
    cases out with
    | error msg => exact ⟨mem1, h1⟩
    | ok u =>
      simp only
      obtain ⟨mem2, h2⟩ := ih fd1
      rw [h2, h1]
      exact ⟨mem2, rfl⟩

/-- copy_entity_fields_callback writes bytes only. -/
theorem copy_entity_fields_callback_frame (fd : FieldData) (dst_rank : EntityRank)
    (dst_bucket_id dst_bucket_ord : Nat) (src_rank : EntityRank)
    (src_bucket_id src_bucket_ord : Nat) :
    ∃ mem : Nat → Nat,
      (copy_entity_fields_callback fd dst_rank dst_bucket_id dst_bucket_ord src_rank src_bucket_id
        src_bucket_ord).2 = { fd with memory := mem } :=
  copy_entity_fields_loop_frame _ _ _ _ _ _ _ fd

theorem remove_entity_field_frame (rank : EntityRank) (bucket_id bucket_ord : Nat)
    (fd : FieldData) (i : Nat) :
    ∃ mem : Nat → Nat, remove_entity_field rank bucket_id bucket_ord fd i = { fd with memory := mem } := by
  unfold remove_entity_field
  simp only
  split
  · split
    · exact ⟨_, rfl⟩
    · exact ⟨_, rfl⟩
  · exact ⟨fd.memory, rfl⟩

/-- remove_entity_callback writes bytes only. -/
theorem remove_entity_callback_frame (fd : FieldData) (rank : EntityRank)
    (bucket_id bucket_ord : Nat) :
    ∃ mem : Nat → Nat, remove_entity_callback fd rank bucket_id bucket_ord = { fd with memory := mem } := by
  unfold remove_entity_callback
  generalize List.range fd.m_num_fields.toNat = l
  have hgen : ∀ (l : List Nat) (fd1 : FieldData),
      ∃ mem : Nat → Nat, l.foldl (remove_entity_field rank bucket_id bucket_ord) fd1
        = { fd1 with memory := mem } := by
    intro l
    induction l with
    | nil => exact fun fd1 => ⟨fd1.memory, rfl⟩
    | cons i rest ih =>
      intro fd1
      obtain ⟨mem1, h1⟩ := remove_entity_field_frame rank bucket_id bucket_ord fd1 i
      rw [List.foldl_cons, h1]
      obtain ⟨mem2, h2⟩ := ih { fd1 with memory := mem1 }
      rw [h2]
      exact ⟨mem2, rfl⟩
  exact hgen l fd

/-! ## Field data: copying the fields of an entity -/

theorem swap_bytes_apply (memory : Nat → Nat) (a b x : Nat) :
    swap_bytes memory a b x = if x = a then memory b else if x = b then memory a else memory x :=
  rfl

/-- swap_ranges writes the two ranges only. -/
theorem swap_ranges_frame (memory : Nat → Nat) (a b n x : Nat)
    (h1 : x < a ∨ a + n ≤ x) (h2 : x < b ∨ b + n ≤ x) :
    swap_ranges memory a (a + n) b x = memory x := by
  unfold swap_ranges
  rw [Nat.add_sub_cancel_left]
  induction n with
  | zero => rfl
  | succ n ih =>
    rw [List.range_succ, List.foldl_append]
    simp only [List.foldl_cons, List.foldl_nil]
    rw [swap_bytes_apply, if_neg (by omega), if_neg (by omega)]
    exact ih (by omega) (by omega)

/-- swap_ranges on two ranges that do not meet exchanges their bytes. -/
theorem swap_ranges_disjoint (memory : Nat → Nat) (a b n : Nat) (h : a + n ≤ b ∨ b + n ≤ a)
    (k : Nat) (hk : k < n) :
    swap_ranges memory a (a + n) b (a + k) = memory (b + k) ∧
    swap_ranges memory a (a + n) b (b + k) = memory (a + k) := by
  unfold swap_ranges
  rw [Nat.add_sub_cancel_left]
  have hgen : ∀ m, m ≤ n →
      (∀ x, ((List.range m).foldl (fun mem k => swap_bytes mem (a + k) (b + k)) memory) x
        = if a ≤ x ∧ x < a + m then memory (b + (x - a))
          else if b ≤ x ∧ x < b + m then memory (a + (x - b)) else memory x) := by
    intro m
    induction m with
    | zero =>
      intro _ x
      rw [if_neg (by omega), if_neg (by omega)]
      rfl
    | succ m ih =>
      intro hm x
      rw [List.range_succ, List.foldl_append]
      simp only [List.foldl_cons, List.foldl_nil]
      rw [swap_bytes_apply]
      have ihm := ih (by omega)
      by_cases hxa : x = a + m
      · rw [if_pos hxa, ihm (b + m), if_neg (by omega), if_neg (by omega),
          if_pos ⟨by omega, by omega⟩]
        congr 1
        omega
      · rw [if_neg hxa]
        by_cases hxb : x = b + m
        · rw [if_pos hxb, ihm (a + m), if_neg (by omega), if_neg (by omega), if_neg (by omega),
            if_pos ⟨by omega, by omega⟩]
          congr 1
          omega
        · rw [if_neg hxb, ihm x]
          by_cases h1 : a ≤ x ∧ x < a + m
          · rw [if_pos h1, if_pos ⟨h1.1, by omega⟩]
          · rw [if_neg h1]
            by_cases h2 : b ≤ x ∧ x < b + m
            · rw [if_pos h2, if_neg (by omega), if_pos ⟨h2.1, by omega⟩]
            · rw [if_neg h2, if_neg (by omega), if_neg (by omega)]
  have hn := hgen n (Nat.le_refl n)
  constructor
  · rw [hn (a + k), if_pos ⟨by omega, by omega⟩]
    congr 1
    omega
  · rw [hn (b + k), if_neg (by omega), if_pos ⟨by omega, by omega⟩]
    congr 1
    omega

/-- swap_ranges of a range with itself changes nothing. -/
theorem swap_ranges_self (memory : Nat → Nat) (a n : Nat) :
    swap_ranges memory a (a + n) a = memory := by
  unfold swap_ranges
  rw [Nat.add_sub_cancel_left]
  induction n with
  | zero => rfl
  | succ n ih =>
    rw [List.range_succ, List.foldl_append]
    simp only [List.foldl_cons, List.foldl_nil]
    rw [ih]
    funext x
    rw [swap_bytes_apply]
    by_cases hx : x = a + n
    · rw [if_pos hx, hx]
    · rw [if_neg hx, if_neg hx]

theorem field_meta_data_of_memory (fd : FieldData) (mem : Nat → Nat) (r : EntityRank)
    (i x : Nat) :
    field_meta_data { fd with memory := mem } r i x = field_meta_data fd r i x := rfl

/-- One pass of copy_entity_fields_callback, on a mesh that differs from `fd` in its
bytes only. -/
theorem copy_entity_fields_field_eq (fd : FieldData) (dst_rank : EntityRank)
    (dst_bucket_id dst_bucket_ord : Nat) (src_rank : EntityRank)
    (src_bucket_id src_bucket_ord : Nat) (mem : Nat → Nat) (i : Nat) :
    ((fd.assertions_enabled = true ∧
        copy_field_mismatch fd dst_rank dst_bucket_id src_rank src_bucket_id i) →
      copy_entity_fields_field dst_rank dst_bucket_id dst_bucket_ord src_rank src_bucket_id
        src_bucket_ord { fd with memory := mem } i
        = (Outcome.error "Incompatible field sizes", { fd with memory := mem })) ∧
    (¬ (fd.assertions_enabled = true ∧
        copy_field_mismatch fd dst_rank dst_bucket_id src_rank src_bucket_id i) →
      copy_entity_fields_field dst_rank dst_bucket_id dst_bucket_ord src_rank src_bucket_id
        src_bucket_ord { fd with memory := mem } i
        = (Outcome.ok (),
          { fd with
            memory := copy_field_bytes fd dst_rank dst_bucket_id dst_bucket_ord src_rank
              src_bucket_id src_bucket_ord mem i })) := by
  unfold copy_entity_fields_field copy_field_mismatch copy_field_bytes slot_pointer
  simp only [field_meta_data_of_memory]
  by_cases hs : (field_meta_data fd src_rank i src_bucket_id).m_size = 0
  · simp only [hs, if_true, ne_eq, not_true_eq_false, false_and, and_false, true_or,
      false_implies, not_false_eq_true, true_implies, and_self]
  · simp only [hs, if_false, ne_eq, not_false_eq_true, true_and, false_or]
    by_cases hd : (field_meta_data fd dst_rank i dst_bucket_id).m_size = 0
    · simp only [hd, not_true_eq_false, if_false, false_and, and_false, if_true,
        false_implies, not_false_eq_true, true_implies, and_self]
    · simp only [hd, not_false_eq_true, if_true, true_and, if_false]
      constructor
      · intro he
        rw [if_pos he]
      · intro he
        rw [if_neg he]

/-- The loop of copy_entity_fields_callback: it throws if and only if assertions are
compiled in and a field it visits has two non-zero sizes that differ; when it does
not throw, the bytes are those after the passes of the fields, in order, and nothing
else has changed. -/
theorem copy_entity_fields_loop_spec (fd : FieldData) (dst_rank : EntityRank)
    (dst_bucket_id dst_bucket_ord : Nat) (src_rank : EntityRank)
    (src_bucket_id src_bucket_ord : Nat) (l : List Nat) (mem : Nat → Nat) :
    ((copy_entity_fields_loop dst_rank dst_bucket_id dst_bucket_ord src_rank src_bucket_id
        src_bucket_ord l { fd with memory := mem }).1.isError = true ↔
      (fd.assertions_enabled = true ∧
        ∃ i ∈ l, copy_field_mismatch fd dst_rank dst_bucket_id src_rank src_bucket_id i)) ∧
    ((copy_entity_fields_loop dst_rank dst_bucket_id dst_bucket_ord src_rank src_bucket_id
        src_bucket_ord l { fd with memory := mem }).1.isError = false →
      copy_entity_fields_loop dst_rank dst_bucket_id dst_bucket_ord src_rank src_bucket_id
        src_bucket_ord l { fd with memory := mem } =
        (Outcome.ok (),
          { fd with
            memory := l.foldl (copy_field_bytes fd dst_rank dst_bucket_id dst_bucket_ord
              src_rank src_bucket_id src_bucket_ord) mem })) := by
  induction l generalizing mem with
  | nil =>
    refine ⟨⟨fun h => Bool.noConfusion h, fun h => ?_⟩, fun _ => rfl⟩
    obtain ⟨_, i, hi, _⟩ := h
    exact absurd hi (List.not_mem_nil _)
  | cons i rest ih =>
    unfold copy_entity_fields_loop
    have hstep := copy_entity_fields_field_eq fd dst_rank dst_bucket_id dst_bucket_ord src_rank
      src_bucket_id src_bucket_ord mem i
    by_cases he : fd.assertions_enabled = true ∧
        copy_field_mismatch fd dst_rank dst_bucket_id src_rank src_bucket_id i
    · rw [hstep.1 he]
      simp only
      refine ⟨⟨fun _ => ⟨he.1, i, List.mem_cons_self _ _, he.2⟩, fun _ => rfl⟩, fun h => ?_⟩
      exact Bool.noConfusion h
    · rw [hstep.2 he]
      simp only
      have ih2 := ih (copy_field_bytes fd dst_rank dst_bucket_id dst_bucket_ord src_rank
        src_bucket_id src_bucket_ord mem i)
      refine ⟨⟨fun h => ?_, fun h => ?_⟩, fun h => ?_⟩
      · obtain ⟨ha, j, hj, hm⟩ := ih2.1.1 h
        exact ⟨ha, j, List.mem_cons_of_mem _ hj, hm⟩
      · obtain ⟨ha, j, hj, hm⟩ := h
        rcases List.mem_cons.1 hj with hji | hji
        · exact absurd ⟨ha, hji ▸ hm⟩ he
        · exact ih2.1.2 ⟨ha, j, hji, hm⟩
      · rw [ih2.2 h]
        rfl

theorem isError_eq_false_of_ok {α : Type} (o : Outcome α) (a : α) (h : o = Outcome.ok a) :
    o.isError = false := by
  rw [h]
  rfl

/-- A byte that no pass writes is left alone by the passes. -/
theorem copy_field_bytes_frame (fd : FieldData) (dst_rank : EntityRank)
    (dst_bucket_id dst_bucket_ord : Nat) (src_rank : EntityRank)
    (src_bucket_id src_bucket_ord : Nat) (l : List Nat) (mem : Nat → Nat) (x : Nat)
    (h : ∀ i ∈ l, ¬ copy_field_touches fd dst_rank dst_bucket_id dst_bucket_ord src_rank
      src_bucket_id src_bucket_ord i x) :
    l.foldl (copy_field_bytes fd dst_rank dst_bucket_id dst_bucket_ord src_rank src_bucket_id
      src_bucket_ord) mem x = mem x := by
  induction l generalizing mem with
  | nil => rfl
  | cons i rest ih =>
    rw [List.foldl_cons, ih _ (fun j hj => h j (List.mem_cons_of_mem _ hj))]
    have hi := h i (List.mem_cons_self _ _)
    unfold copy_field_bytes
    by_cases hz : (field_meta_data fd src_rank i src_bucket_id).m_size = 0 ∨
        (field_meta_data fd dst_rank i dst_bucket_id).m_size = 0
    · rw [if_pos hz]
    · rw [if_neg hz]
      unfold copy_field_touches at hi
      have hs : (field_meta_data fd src_rank i src_bucket_id).m_size ≠ 0 := fun h0 => hz (Or.inl h0)
      have hd : (field_meta_data fd dst_rank i dst_bucket_id).m_size ≠ 0 := fun h0 => hz (Or.inr h0)
      have hout := fun hw => hi ⟨hs, hd, hw⟩
      apply swap_ranges_frame
      · by_contra hc
        exact hout (Or.inl (by omega))
      · by_contra hc
        exact hout (Or.inr (by omega))

theorem range_split_add (i m : Nat) :
    List.range (i + (m + 1)) = List.range i ++ i :: List.range' (i + 1) m := by
  rw [List.range_eq_range', List.range_eq_range', Nat.add_comm i (m + 1),
    ← List.range'_append_1 0 i (m + 1), List.range'_succ, Nat.zero_add]

theorem range_split (i n : Nat) (h : i < n) :
    List.range n = List.range i ++ i :: List.range' (i + 1) (n - (i + 1)) := by
  have h1 : n = i + ((n - (i + 1)) + 1) := by omega
  have h2 := range_split_add i (n - (i + 1))
  rw [← h1] at h2
  exact h2

/-- The bytes of the two slots of one field after all passes of
copy_entity_fields_callback, when no other pass writes them: the destination slot
holds the bytes the source slot held, and if the two slots do not meet the source
slot holds the bytes the destination slot held. -/
theorem copy_field_bytes_exchange (fd : FieldData) (dst_rank : EntityRank)
    (dst_bucket_id dst_bucket_ord : Nat) (src_rank : EntityRank)
    (src_bucket_id src_bucket_ord : Nat) (n i s : Nat) (mem : Nat → Nat)
    (hi : i < n)
    (hsrc : (field_meta_data fd src_rank i src_bucket_id).m_size = s)
    (hdst : (field_meta_data fd dst_rank i dst_bucket_id).m_size = s)
    (hs : s ≠ 0)
    (hsep : ∀ j, j < n → j ≠ i → ∀ k, k < s →
      ¬ copy_field_touches fd dst_rank dst_bucket_id dst_bucket_ord src_rank src_bucket_id
          src_bucket_ord j
          (slot_pointer (field_meta_data fd dst_rank i dst_bucket_id) dst_bucket_ord + k) ∧
      ¬ copy_field_touches fd dst_rank dst_bucket_id dst_bucket_ord src_rank src_bucket_id
          src_bucket_ord j
          (slot_pointer (field_meta_data fd src_rank i src_bucket_id) src_bucket_ord + k)) :
    (slot_pointer (field_meta_data fd dst_rank i dst_bucket_id) dst_bucket_ord
        = slot_pointer (field_meta_data fd src_rank i src_bucket_id) src_bucket_ord →
      ∀ k, k < s →
        (List.range n).foldl (copy_field_bytes fd dst_rank dst_bucket_id dst_bucket_ord src_rank
          src_bucket_id src_bucket_ord) mem
          (slot_pointer (field_meta_data fd dst_rank i dst_bucket_id) dst_bucket_ord + k)
        = mem (slot_pointer (field_meta_data fd src_rank i src_bucket_id) src_bucket_ord + k)) ∧
    ((slot_pointer (field_meta_data fd dst_rank i dst_bucket_id) dst_bucket_ord + s
          ≤ slot_pointer (field_meta_data fd src_rank i src_bucket_id) src_bucket_ord ∨
        slot_pointer (field_meta_data fd src_rank i src_bucket_id) src_bucket_ord + s
          ≤ slot_pointer (field_meta_data fd dst_rank i dst_bucket_id) dst_bucket_ord) →
      ∀ k, k < s →
        (List.range n).foldl (copy_field_bytes fd dst_rank dst_bucket_id dst_bucket_ord src_rank
          src_bucket_id src_bucket_ord) mem
          (slot_pointer (field_meta_data fd dst_rank i dst_bucket_id) dst_bucket_ord + k)
        = mem (slot_pointer (field_meta_data fd src_rank i src_bucket_id) src_bucket_ord + k) ∧
        (List.range n).foldl (copy_field_bytes fd dst_rank dst_bucket_id dst_bucket_ord src_rank
          src_bucket_id src_bucket_ord) mem
          (slot_pointer (field_meta_data fd src_rank i src_bucket_id) src_bucket_ord + k)
        = mem (slot_pointer (field_meta_data fd dst_rank i dst_bucket_id) dst_bucket_ord + k)) := by
  generalize hD : slot_pointer (field_meta_data fd dst_rank i dst_bucket_id) dst_bucket_ord = D
    at hsep ⊢
  generalize hS : slot_pointer (field_meta_data fd src_rank i src_bucket_id) src_bucket_ord = S
    at hsep ⊢
  rw [range_split i n hi, List.foldl_append, List.foldl_cons]
  have hbefore : ∀ x, (∀ j, j < n → j ≠ i →
      ¬ copy_field_touches fd dst_rank dst_bucket_id dst_bucket_ord src_rank src_bucket_id
        src_bucket_ord j x) →
      (List.range i).foldl (copy_field_bytes fd dst_rank dst_bucket_id dst_bucket_ord src_rank
        src_bucket_id src_bucket_ord) mem x = mem x := by
    intro x hx
    apply copy_field_bytes_frame
    intro j hj
    have hji : j < i := List.mem_range.1 hj
    exact hx j (by omega) (by omega)
  have hafter : ∀ (m2 : Nat → Nat) x, (∀ j, j < n → j ≠ i →
      ¬ copy_field_touches fd dst_rank dst_bucket_id dst_bucket_ord src_rank src_bucket_id
        src_bucket_ord j x) →
      (List.range' (i + 1) (n - (i + 1))).foldl (copy_field_bytes fd dst_rank dst_bucket_id
        dst_bucket_ord src_rank src_bucket_id src_bucket_ord) m2 x = m2 x := by
    intro m2 x hx
    apply copy_field_bytes_frame
    intro j hj
    have hji := List.mem_range'_1.1 hj
    exact hx j (by omega) (by omega)
  have hstep : ∀ m1 : Nat → Nat,
      copy_field_bytes fd dst_rank dst_bucket_id dst_bucket_ord src_rank src_bucket_id
        src_bucket_ord m1 i = swap_ranges m1 D (D + s) S := by
    intro m1
    unfold copy_field_bytes
    rw [hsrc, hdst, if_neg (by omega), hD, hS]
  rw [hstep]
  constructor
  · intro heq k hk
    rw [hafter _ _ (fun j hj hne => (hsep j hj hne k hk).1), ← heq, swap_ranges_self, heq,
      hbefore _ (fun j hj hne => (hsep j hj hne k hk).2)]
  · intro hdis k hk
    have hsw := swap_ranges_disjoint
      ((List.range i).foldl (copy_field_bytes fd dst_rank dst_bucket_id dst_bucket_ord src_rank
        src_bucket_id src_bucket_ord) mem) D S s hdis k hk
    constructor
    · rw [hafter _ _ (fun j hj hne => (hsep j hj hne k hk).1), hsw.1,
        hbefore _ (fun j hj hne => (hsep j hj hne k hk).2)]
    · rw [hafter _ _ (fun j hj hne => (hsep j hj hne k hk).2), hsw.2,
        hbefore _ (fun j hj hne => (hsep j hj hne k hk).1)]

/-- A byte that no pass writes is left alone by copy_entity_fields_callback, whether
it throws or not. -/
theorem copy_entity_fields_loop_bytes (fd : FieldData) (dst_rank : EntityRank)
    (dst_bucket_id dst_bucket_ord : Nat) (src_rank : EntityRank)
    (src_bucket_id src_bucket_ord : Nat) (l : List Nat) (mem : Nat → Nat) (x : Nat)
    (h : ∀ i ∈ l, ¬ copy_field_touches fd dst_rank dst_bucket_id dst_bucket_ord src_rank
      src_bucket_id src_bucket_ord i x) :
    (copy_entity_fields_loop dst_rank dst_bucket_id dst_bucket_ord src_rank src_bucket_id
      src_bucket_ord l { fd with memory := mem }).2.memory x = mem x := by
  induction l generalizing mem with
  | nil => rfl
  | cons i rest ih =>
    unfold copy_entity_fields_loop
    have hstep := copy_entity_fields_field_eq fd dst_rank dst_bucket_id dst_bucket_ord src_rank
      src_bucket_id src_bucket_ord mem i
    by_cases he : fd.assertions_enabled = true ∧
        copy_field_mismatch fd dst_rank dst_bucket_id src_rank src_bucket_id i
    · rw [hstep.1 he]
    · rw [hstep.2 he]
      simp only
      rw [ih _ (fun j hj => h j (List.mem_cons_of_mem _ hj))]
      exact copy_field_bytes_frame fd dst_rank dst_bucket_id dst_bucket_ord src_rank src_bucket_id
        src_bucket_ord [i] mem x (fun j hj => by
          rw [List.mem_singleton] at hj
          rw [hj]
          exact h i (List.mem_cons_self _ _))

theorem copy_entity_fields_callback_ok (fd : FieldData) (dst_rank : EntityRank)
    (dst_bucket_id dst_bucket_ord : Nat) (src_rank : EntityRank)
    (src_bucket_id src_bucket_ord : Nat)
    (hok : (copy_entity_fields_callback fd dst_rank dst_bucket_id dst_bucket_ord src_rank
      src_bucket_id src_bucket_ord).1 = Outcome.ok ()) :
    (copy_entity_fields_callback fd dst_rank dst_bucket_id dst_bucket_ord src_rank src_bucket_id
      src_bucket_ord).2.memory
      = (List.range fd.m_num_fields.toNat).foldl (copy_field_bytes fd dst_rank dst_bucket_id
          dst_bucket_ord src_rank src_bucket_id src_bucket_ord) fd.memory := by
  have hspec := (copy_entity_fields_loop_spec fd dst_rank dst_bucket_id dst_bucket_ord src_rank
    src_bucket_id src_bucket_ord (List.range fd.m_num_fields.toNat) fd.memory).2
    (isError_eq_false_of_ok _ _ hok)
  show (copy_entity_fields_loop dst_rank dst_bucket_id dst_bucket_ord src_rank src_bucket_id
    src_bucket_ord (List.range fd.m_num_fields.toNat) { fd with memory := fd.memory }).2.memory = _
  rw [hspec]

/-- After a copy_entity_fields_callback that returns, for a field with the same
non-zero size s in the source and the destination bucket, the s bytes at the pointer
formed for the destination slot are the s bytes that stood at the pointer formed for
the source slot, when the two ranges are one range or do not meet and the pass of no
other field writes a byte of them. -/
theorem copy_entity_fields_ranges (fd : FieldData) (dst_rank : EntityRank)
    (dst_bucket_id dst_bucket_ord : Nat) (src_rank : EntityRank)
    (src_bucket_id src_bucket_ord : Nat) (i s : Nat)
    (hok : (copy_entity_fields_callback fd dst_rank dst_bucket_id dst_bucket_ord src_rank
      src_bucket_id src_bucket_ord).1 = Outcome.ok ())
    (hi : i < fd.m_num_fields.toNat)
    (hsrc : (field_meta_data fd src_rank i src_bucket_id).m_size = s)
    (hdst : (field_meta_data fd dst_rank i dst_bucket_id).m_size = s)
    (hs : s ≠ 0)
    (hslots : slot_pointer (field_meta_data fd dst_rank i dst_bucket_id) dst_bucket_ord
        = slot_pointer (field_meta_data fd src_rank i src_bucket_id) src_bucket_ord ∨
      slot_pointer (field_meta_data fd dst_rank i dst_bucket_id) dst_bucket_ord + s
        ≤ slot_pointer (field_meta_data fd src_rank i src_bucket_id) src_bucket_ord ∨
      slot_pointer (field_meta_data fd src_rank i src_bucket_id) src_bucket_ord + s
        ≤ slot_pointer (field_meta_data fd dst_rank i dst_bucket_id) dst_bucket_ord)
    (hsep : ∀ j, j < fd.m_num_fields.toNat → j ≠ i → ∀ k, k < s →
      ¬ copy_field_touches fd dst_rank dst_bucket_id dst_bucket_ord src_rank src_bucket_id
          src_bucket_ord j
          (slot_pointer (field_meta_data fd dst_rank i dst_bucket_id) dst_bucket_ord + k) ∧
      ¬ copy_field_touches fd dst_rank dst_bucket_id dst_bucket_ord src_rank src_bucket_id
          src_bucket_ord j
          (slot_pointer (field_meta_data fd src_rank i src_bucket_id) src_bucket_ord + k)) :
    ∀ k, k < s →
      (copy_entity_fields_callback fd dst_rank dst_bucket_id dst_bucket_ord src_rank
        src_bucket_id src_bucket_ord).2.memory
        (slot_pointer (field_meta_data fd dst_rank i dst_bucket_id) dst_bucket_ord + k)
      = fd.memory
        (slot_pointer (field_meta_data fd src_rank i src_bucket_id) src_bucket_ord + k) := by
  intro k hk
  rw [copy_entity_fields_callback_ok fd _ _ _ _ _ _ hok]
  have hex := copy_field_bytes_exchange fd dst_rank dst_bucket_id dst_bucket_ord src_rank
    src_bucket_id src_bucket_ord fd.m_num_fields.toNat i s fd.memory hi hsrc hdst hs hsep
  rcases hslots with h | h
  · exact hex.1 h k hk
  · exact (hex.2 h k hk).1

theorem slot_pointer_eq (r : FieldMetaData) (ord : Nat) (h : r.m_size * ord < 4294967296) :
    slot_pointer r ord = slot_address r ord := by
  unfold slot_pointer slot_address
  rw [wrap32_of_lt _ h]

theorem copy_field_touches_iff (fd : FieldData) (dst_rank : EntityRank)
    (dst_bucket_id dst_bucket_ord : Nat) (src_rank : EntityRank)
    (src_bucket_id src_bucket_ord : Nat) (i x : Nat)
    (hd : (field_meta_data fd dst_rank i dst_bucket_id).m_size * dst_bucket_ord < 4294967296)
    (hs : (field_meta_data fd src_rank i src_bucket_id).m_size * src_bucket_ord < 4294967296) :
    copy_field_touches fd dst_rank dst_bucket_id dst_bucket_ord src_rank src_bucket_id
        src_bucket_ord i x ↔
      copy_field_writes fd dst_rank dst_bucket_id dst_bucket_ord src_rank src_bucket_id
        src_bucket_ord i x := by
  unfold copy_field_touches copy_field_writes
  rw [slot_pointer_eq _ _ hd, slot_pointer_eq _ _ hs]

/-- With every slot offset size × ordinal of the call below 2^32: after a
copy_entity_fields_callback(dst_rank, dst_bucket, dst_ord, src_rank, src_bucket,
src_ord) that returns, for every field that has the same non-zero per-entity size s
in the source and the destination bucket, the s bytes of the destination slot
dst_ord equal the s bytes that the source slot src_ord held before the call. The
slots are laid out apart: the two slots of the field are the same slot or do not
meet, and the pass of no other field writes a byte of them. -/
theorem copy_entity_fields_in_range (fd : FieldData) (dst_rank : EntityRank)
    (dst_bucket_id dst_bucket_ord : Nat) (src_rank : EntityRank)
    (src_bucket_id src_bucket_ord : Nat) (i s : Nat)
    (hfit : ∀ j, j < fd.m_num_fields.toNat →
      (field_meta_data fd dst_rank j dst_bucket_id).m_size * dst_bucket_ord < 4294967296 ∧
      (field_meta_data fd src_rank j src_bucket_id).m_size * src_bucket_ord < 4294967296)
    (hok : (copy_entity_fields_callback fd dst_rank dst_bucket_id dst_bucket_ord src_rank
      src_bucket_id src_bucket_ord).1 = Outcome.ok ())
    (hi : i < fd.m_num_fields.toNat)
    (hsrc : (field_meta_data fd src_rank i src_bucket_id).m_size = s)
    (hdst : (field_meta_data fd dst_rank i dst_bucket_id).m_size = s)
    (hs : s ≠ 0)
    (hslots : slot_address (field_meta_data fd dst_rank i dst_bucket_id) dst_bucket_ord
        = slot_address (field_meta_data fd src_rank i src_bucket_id) src_bucket_ord ∨
      slot_address (field_meta_data fd dst_rank i dst_bucket_id) dst_bucket_ord + s
        ≤ slot_address (field_meta_data fd src_rank i src_bucket_id) src_bucket_ord ∨
      slot_address (field_meta_data fd src_rank i src_bucket_id) src_bucket_ord + s
        ≤ slot_address (field_meta_data fd dst_rank i dst_bucket_id) dst_bucket_ord)
    (hsep : ∀ j, j < fd.m_num_fields.toNat → j ≠ i → ∀ k, k < s →
      ¬ copy_field_writes fd dst_rank dst_bucket_id dst_bucket_ord src_rank src_bucket_id
          src_bucket_ord j
          (slot_address (field_meta_data fd dst_rank i dst_bucket_id) dst_bucket_ord + k) ∧
      ¬ copy_field_writes fd dst_rank dst_bucket_id dst_bucket_ord src_rank src_bucket_id
          src_bucket_ord j
          (slot_address (field_meta_data fd src_rank i src_bucket_id) src_bucket_ord + k)) :
    ∀ k, k < s →
      (copy_entity_fields_callback fd dst_rank dst_bucket_id dst_bucket_ord src_rank
        src_bucket_id src_bucket_ord).2.memory
        (slot_address (field_meta_data fd dst_rank i dst_bucket_id) dst_bucket_ord + k)
      = fd.memory
        (slot_address (field_meta_data fd src_rank i src_bucket_id) src_bucket_ord + k) := by
  have hpd := slot_pointer_eq (field_meta_data fd dst_rank i dst_bucket_id) dst_bucket_ord
    (hfit i hi).1
  have hps := slot_pointer_eq (field_meta_data fd src_rank i src_bucket_id) src_bucket_ord
    (hfit i hi).2
  rw [← hpd, ← hps] at hslots hsep ⊢
  refine copy_entity_fields_ranges fd dst_rank dst_bucket_id dst_bucket_ord src_rank
    src_bucket_id src_bucket_ord i s hok hi hsrc hdst hs hslots (fun j hj hne k hk => ?_)
  rw [copy_field_touches_iff _ _ _ _ _ _ _ _ _ (hfit j hj).1 (hfit j hj).2,
    copy_field_touches_iff _ _ _ _ _ _ _ _ _ (hfit j hj).1 (hfit j hj).2]
  exact hsep j hj hne k hk

theorem scenario_written_fit (j : Nat) (hj : j < scenario_written.m_num_fields.toNat) :
    (field_meta_data scenario_written 0 j 0).m_size * 1 < 4294967296 ∧
    (field_meta_data scenario_written 0 j 0).m_size * 0 < 4294967296 := by
  have hn : scenario_written.m_num_fields.toNat = 3 := by decide
  rw [hn] at hj
  have hcases : j = 0 ∨ j = 1 ∨ j = 2 := by omega
  rcases hcases with rfl | rfl | rfl <;> decide

theorem scenario_written_separate (j : Nat) (hj : j < scenario_written.m_num_fields.toNat)
    (hne : j ≠ 0) (k : Nat) (hk : k < 24) :
    ¬ copy_field_writes scenario_written 0 0 1 0 0 0 j
        (slot_address (field_meta_data scenario_written 0 0 0) 1 + k) ∧
    ¬ copy_field_writes scenario_written 0 0 1 0 0 0 j
        (slot_address (field_meta_data scenario_written 0 0 0) 0 + k) := by
  have hn : scenario_written.m_num_fields.toNat = 3 := by decide
  have h0 : slot_address (field_meta_data scenario_written 0 0 0) 0 = 1000 := by decide
  have h1 : slot_address (field_meta_data scenario_written 0 0 0) 1 = 1024 := by decide
  have a0 : slot_address (field_meta_data scenario_written 0 1 0) 0 = 1048 := by decide
  have a1 : slot_address (field_meta_data scenario_written 0 1 0) 1 = 1056 := by decide
  have b0 : slot_address (field_meta_data scenario_written 0 2 0) 0 = 1064 := by decide
  have b1 : slot_address (field_meta_data scenario_written 0 2 0) 1 = 1072 := by decide
  have sa : (field_meta_data scenario_written 0 1 0).m_size = 8 := by decide
  have sb : (field_meta_data scenario_written 0 2 0).m_size = 8 := by decide
  rw [hn] at hj
  have hcases : j = 1 ∨ j = 2 := by omega
  unfold copy_field_writes
  rcases hcases with rfl | rfl
  · rw [h0, h1, a0, a1, sa]
    constructor
    · rintro ⟨_, _, h | h⟩ <;> omega
    · rintro ⟨_, _, h | h⟩ <;> omega
  · rw [h0, h1, b0, b1, sb]
    constructor
    · rintro ⟨_, _, h | h⟩ <;> omega
    · rintro ⟨_, _, h | h⟩ <;> omega

/-- The copy of slot 0 to slot 1 of the coordinates in the one-bucket field data. -/
theorem copy_entity_fields_example :
    (copy_entity_fields_callback scenario_written 0 0 1 0 0 0).1 = Outcome.ok () ∧
    (field_meta_data scenario_written 0 0 0).m_size = 24 ∧
    slot_address (field_meta_data scenario_written 0 0 0) 0 = 1000 ∧
    slot_address (field_meta_data scenario_written 0 0 0) 1 = 1024 ∧
    scenario_written.memory 1000 = 42 ∧
    scenario_written.memory 1024 = 0 ∧
    (copy_entity_fields_callback scenario_written 0 0 1 0 0 0).2.memory (1024 + 0) = 42 :=
  ⟨by decide, by decide, by decide, by decide, by decide, by decide,
    copy_entity_fields_in_range scenario_written 0 0 1 0 0 0 0 24 scenario_written_fit
      (by decide) (by decide) (by decide)
      (by decide) (by decide) (Or.inr (Or.inr (by decide))) scenario_written_separate 0
      (by decide)⟩


theorem C28_counterexample :
    scenario_two_buckets.assertions_enabled = true ∧
    (1 : Nat) < scenario_two_buckets.m_num_fields.toNat ∧
    (field_meta_data scenario_two_buckets 0 1 0).m_size = 8 ∧
    (field_meta_data scenario_two_buckets 0 1 1).m_size = 0 ∧
    (copy_entity_fields_callback scenario_two_buckets 0 1 0 0 0 0).1 = Outcome.ok () := by
  decide

/-- C28 (amended): copy_entity_fields_callback fails with the internal-consistency
error if and only if assertions are compiled in and, for some field, the per-entity
byte sizes in the source and in the destination bucket are both non-zero and differ.
A field of size zero in the source or in the destination bucket is passed over
without an error, and so is every difference when assertions are compiled out. -/
theorem C28_copy_size_mismatch (fd : FieldData) (dst_rank : EntityRank)
    (dst_bucket_id dst_bucket_ord : Nat) (src_rank : EntityRank)
    (src_bucket_id src_bucket_ord : Nat) :
    ((copy_entity_fields_callback fd dst_rank dst_bucket_id dst_bucket_ord src_rank src_bucket_id
        src_bucket_ord).1.isError = true ↔
      (fd.assertions_enabled = true ∧
        ∃ i, i < fd.m_num_fields.toNat ∧
          (field_meta_data fd src_rank i src_bucket_id).m_size ≠ 0 ∧
          (field_meta_data fd dst_rank i dst_bucket_id).m_size ≠ 0 ∧
          (field_meta_data fd dst_rank i dst_bucket_id).m_size
            ≠ (field_meta_data fd src_rank i src_bucket_id).m_size)) ∧
    ((copy_entity_fields_callback fd dst_rank dst_bucket_id dst_bucket_ord src_rank src_bucket_id
        src_bucket_ord).1.isError = true →
      (copy_entity_fields_callback fd dst_rank dst_bucket_id dst_bucket_ord src_rank src_bucket_id
        src_bucket_ord).1 = Outcome.error "Incompatible field sizes") := by
  have hspec := (copy_entity_fields_loop_spec fd dst_rank dst_bucket_id dst_bucket_ord src_rank
    src_bucket_id src_bucket_ord (List.range fd.m_num_fields.toNat) fd.memory).1
  have hcb : copy_entity_fields_callback fd dst_rank dst_bucket_id dst_bucket_ord src_rank
      src_bucket_id src_bucket_ord
      = copy_entity_fields_loop dst_rank dst_bucket_id dst_bucket_ord src_rank src_bucket_id
        src_bucket_ord (List.range fd.m_num_fields.toNat) { fd with memory := fd.memory } := rfl
  rw [hcb]
  constructor
  · rw [hspec]
    constructor
    · rintro ⟨ha, i, hi, hm⟩
      exact ⟨ha, i, List.mem_range.1 hi, hm⟩
    · rintro ⟨ha, i, hi, hm⟩
      exact ⟨ha, i, List.mem_range.2 hi, hm⟩
  · generalize List.range fd.m_num_fields.toNat = l
    generalize fd.memory = mem
    induction l generalizing mem with
    | nil => exact fun h => Bool.noConfusion h
    | cons i rest ih =>
      unfold copy_entity_fields_loop
      have hstep := copy_entity_fields_field_eq fd dst_rank dst_bucket_id dst_bucket_ord src_rank
        src_bucket_id src_bucket_ord mem i
      by_cases he : fd.assertions_enabled = true ∧
          copy_field_mismatch fd dst_rank dst_bucket_id src_rank src_bucket_id i
      · rw [hstep.1 he]
        exact fun _ => rfl
      · rw [hstep.2 he]
        exact ih _

theorem C28_witness :
    scenario_mismatched.assertions_enabled = true ∧
    (field_meta_data scenario_mismatched 0 0 0).m_size = 24 ∧
    (field_meta_data scenario_mismatched 0 0 1).m_size = 16 ∧
    (copy_entity_fields_callback scenario_mismatched 0 1 0 0 0 0).1
      = Outcome.error "Incompatible field sizes" :=
  have herr : (copy_entity_fields_callback scenario_mismatched 0 1 0 0 0 0).1.isError = true :=
    (C28_copy_size_mismatch scenario_mismatched 0 1 0 0 0 0).1.2
      ⟨by decide, 0, by decide, by decide, by decide, by decide⟩
  ⟨by decide, by decide, by decide,
    (C28_copy_size_mismatch scenario_mismatched 0 1 0 0 0 0).2 herr⟩

theorem remove_entity_field_eq (fd : FieldData) (rank : EntityRank) (bucket_id bucket_ord : Nat)
    (mem : Nat → Nat) (i : Nat) :
    remove_entity_field rank bucket_id bucket_ord { fd with memory := mem } i
      = { fd with memory := remove_field_bytes fd rank bucket_id bucket_ord mem i } := by
  unfold remove_entity_field remove_field_bytes slot_pointer initial_byte
  simp only [field_meta_data_of_memory]
  by_cases hs : 0 < (field_meta_data fd rank i bucket_id).m_size
  · have hs2 : (field_meta_data fd rank i bucket_id).m_size > 0 := hs
    simp only [hs, hs2, if_true]
    rw [Nat.mul_comm bucket_ord]
    cases (fd.field_set.getD i FieldBase.null).initial_value with
    | some init_val => rfl
    | none => rfl
  · have hs2 : ¬ (field_meta_data fd rank i bucket_id).m_size > 0 := hs
    simp only [hs, hs2, if_false]

theorem remove_entity_callback_eq (fd : FieldData) (rank : EntityRank)
    (bucket_id bucket_ord : Nat) :
    remove_entity_callback fd rank bucket_id bucket_ord
      = { fd with
          memory := (List.range fd.m_num_fields.toNat).foldl
            (remove_field_bytes fd rank bucket_id bucket_ord) fd.memory } := by
  unfold remove_entity_callback
  generalize List.range fd.m_num_fields.toNat = l
  have hgen : ∀ (l : List Nat) (mem : Nat → Nat),
      l.foldl (remove_entity_field rank bucket_id bucket_ord) { fd with memory := mem }
        = { fd with memory := l.foldl (remove_field_bytes fd rank bucket_id bucket_ord) mem } := by
    intro l
    induction l with
    | nil => exact fun _ => rfl
    | cons i rest ih =>
      intro mem
      rw [List.foldl_cons, List.foldl_cons, remove_entity_field_eq, ih]
  exact hgen l fd.memory

theorem remove_field_bytes_frame (fd : FieldData) (rank : EntityRank) (bucket_id bucket_ord : Nat)
    (l : List Nat) (mem : Nat → Nat) (x : Nat)
    (h : ∀ i ∈ l, ¬ remove_field_touches fd rank bucket_id bucket_ord i x) :
    l.foldl (remove_field_bytes fd rank bucket_id bucket_ord) mem x = mem x := by
  induction l generalizing mem with
  | nil => rfl
  | cons i rest ih =>
    rw [List.foldl_cons, ih _ (fun j hj => h j (List.mem_cons_of_mem _ hj))]
    have hi := h i (List.mem_cons_self _ _)
    unfold remove_field_touches at hi
    unfold remove_field_bytes
    by_cases hs : 0 < (field_meta_data fd rank i bucket_id).m_size
    · rw [if_pos hs]
      exact if_neg (fun hx => hi ⟨hs, hx.1, hx.2⟩)
    · rw [if_neg hs]

/-- What remove_entity_callback writes: it changes no record and no pointer; a byte
outside the ranges it hands to memcpy or memset is the same after the call as
before; and for every field with a non-zero size in the bucket the range formed for
the slot holds the bytes of the field's initial value, or zero when it declares
none, when the pass of no other field writes a byte of the range. -/
theorem remove_entity_resets_range (fd : FieldData) (rank : EntityRank)
    (bucket_id bucket_ord : Nat) :
    (∃ mem : Nat → Nat,
      remove_entity_callback fd rank bucket_id bucket_ord = { fd with memory := mem }) ∧
    (∀ x, (∀ j, j < fd.m_num_fields.toNat →
        ¬ remove_field_touches fd rank bucket_id bucket_ord j x) →
      (remove_entity_callback fd rank bucket_id bucket_ord).memory x = fd.memory x) ∧
    (∀ i field, fd.field_set.get? i = some field → i < fd.m_num_fields.toNat →
      0 < (field_meta_data fd rank i bucket_id).m_size →
      (∀ j, j < fd.m_num_fields.toNat → j ≠ i →
        ∀ k, k < (field_meta_data fd rank i bucket_id).m_size →
          ¬ remove_field_touches fd rank bucket_id bucket_ord j
            (slot_pointer (field_meta_data fd rank i bucket_id) bucket_ord + k)) →
      ∀ k, k < (field_meta_data fd rank i bucket_id).m_size →
        (remove_entity_callback fd rank bucket_id bucket_ord).memory
          (slot_pointer (field_meta_data fd rank i bucket_id) bucket_ord + k)
        = (match field.initial_value with
          | some init_val => init_val k
          | none => 0)) := by
  rw [remove_entity_callback_eq]
  refine ⟨⟨_, rfl⟩, ?_, ?_⟩
  · intro x hx
    exact remove_field_bytes_frame fd rank bucket_id bucket_ord _ fd.memory x
      (fun j hj => hx j (List.mem_range.1 hj))
  · intro i field hfield hi hs hsep k hk
    obtain ⟨hget, _⟩ := getD_of_get?_eq_some _ _ _ FieldBase.null hfield
    show (List.range fd.m_num_fields.toNat).foldl
      (remove_field_bytes fd rank bucket_id bucket_ord) fd.memory _ = _
    rw [range_split i _ hi, List.foldl_append, List.foldl_cons]
    rw [remove_field_bytes_frame fd rank bucket_id bucket_ord _ _ _ (fun j hj => by
      have hj2 := List.mem_range'_1.1 hj
      exact hsep j (by omega) (by omega) k hk)]
    unfold remove_field_bytes
    rw [if_pos hs]
    show (if _ then _ else _) = _
    rw [if_pos ⟨by omega, by omega⟩, hget, Nat.add_sub_cancel_left]
    rfl

theorem remove_field_touches_iff (fd : FieldData) (rank : EntityRank)
    (bucket_id bucket_ord : Nat) (i x : Nat)
    (h : (field_meta_data fd rank i bucket_id).m_size * bucket_ord < 4294967296) :
    remove_field_touches fd rank bucket_id bucket_ord i x ↔
      remove_field_writes fd rank bucket_id bucket_ord i x := by
  unfold remove_field_touches remove_field_writes
  rw [slot_pointer_eq _ _ h]

/-- With every slot offset size × ord of the call below 2^32:
remove_entity_callback(rank, bucket, ord) changes no record and no pointer (all
field sizes and pointers are unchanged); a byte outside the slots `ord` of the
fields that have a size in the bucket is the same after the call as before; and for
every field with a non-zero per-entity size s in the bucket, the s bytes of the slot
`ord` hold the bytes of the field's initial value, or zero when it declares none.
The slots are laid out apart: the pass of no other field writes a byte of the
slot. -/
theorem remove_entity_resets_slot_in_range (fd : FieldData) (rank : EntityRank)
    (bucket_id bucket_ord : Nat)
    (hfit : ∀ j, j < fd.m_num_fields.toNat →
      (field_meta_data fd rank j bucket_id).m_size * bucket_ord < 4294967296) :
    (∃ mem : Nat → Nat,
      remove_entity_callback fd rank bucket_id bucket_ord = { fd with memory := mem }) ∧
    (∀ x, (∀ j, j < fd.m_num_fields.toNat →
        ¬ remove_field_writes fd rank bucket_id bucket_ord j x) →
      (remove_entity_callback fd rank bucket_id bucket_ord).memory x = fd.memory x) ∧
    (∀ i field, fd.field_set.get? i = some field → i < fd.m_num_fields.toNat →
      0 < (field_meta_data fd rank i bucket_id).m_size →
      (∀ j, j < fd.m_num_fields.toNat → j ≠ i →
        ∀ k, k < (field_meta_data fd rank i bucket_id).m_size →
          ¬ remove_field_writes fd rank bucket_id bucket_ord j
            (slot_address (field_meta_data fd rank i bucket_id) bucket_ord + k)) →
      ∀ k, k < (field_meta_data fd rank i bucket_id).m_size →
        (remove_entity_callback fd rank bucket_id bucket_ord).memory
          (slot_address (field_meta_data fd rank i bucket_id) bucket_ord + k)
        = (match field.initial_value with
          | some init_val => init_val k
          | none => 0)) := by
  obtain ⟨h1, h2, h3⟩ := remove_entity_resets_range fd rank bucket_id bucket_ord
  refine ⟨h1, fun x hx => h2 x (fun j hj hw =>
    hx j hj ((remove_field_touches_iff fd rank bucket_id bucket_ord j x (hfit j hj)).1 hw)), ?_⟩
  intro i field hfield hi hs hsep k hk
  rw [← slot_pointer_eq _ _ (hfit i hi)] at hsep ⊢
  exact h3 i field hfield hi hs (fun j hj hne k hk hw =>
    hsep j hj hne k hk ((remove_field_touches_iff fd rank bucket_id bucket_ord j _
      (hfit j hj)).1 hw)) k hk

/-- The removal of slot 0 in the one-bucket field data. -/
theorem remove_entity_example :
    scenario_written.field_set.get? 0 = some scenario_coordinates ∧
    (field_meta_data scenario_written 0 0 0).m_size = 24 ∧
    slot_address (field_meta_data scenario_written 0 0 0) 0 = 1000 ∧
    scenario_written.memory 1000 = 42 ∧
    (remove_entity_callback scenario_written 0 0 0).memory (1000 + 0) = 0 ∧
    (field_meta_data (remove_entity_callback scenario_written 0 0 0) 0 0 0).m_size = 24 :=
  have hsep : ∀ j, j < scenario_written.m_num_fields.toNat → j ≠ 0 →
      ∀ k, k < (field_meta_data scenario_written 0 0 0).m_size →
        ¬ remove_field_writes scenario_written 0 0 0 j
          (slot_address (field_meta_data scenario_written 0 0 0) 0 + k) := by
    intro j hj hne k hk
    have hn : scenario_written.m_num_fields.toNat = 3 := by decide
    have hs : (field_meta_data scenario_written 0 0 0).m_size = 24 := by decide
    have h0 : slot_address (field_meta_data scenario_written 0 0 0) 0 = 1000 := by decide
    have a0 : slot_address (field_meta_data scenario_written 0 1 0) 0 = 1048 := by decide
    have b0 : slot_address (field_meta_data scenario_written 0 2 0) 0 = 1064 := by decide
    rw [hn] at hj
    rw [hs] at hk
    have hcases : j = 1 ∨ j = 2 := by omega
    unfold remove_field_writes
    rcases hcases with rfl | rfl
    · rw [h0, a0]
      rintro ⟨_, h1, _⟩
      omega
    · rw [h0, b0]
      rintro ⟨_, h1, _⟩
      omega
  ⟨rfl, by decide, by decide, by decide,
    (remove_entity_resets_slot_in_range scenario_written 0 0 0
      (fun j hj => (scenario_written_fit j hj).2)).2.2 0 scenario_coordinates rfl
      (by decide) (by decide) hsep 0 (by decide),
    by decide⟩

/-! ## Field data: the slices of a new bucket -/

theorem slice_offset_congr (f g : Nat → Nat) (capacity n : Nat) (h : ∀ i, i < n → f i = g i) :
    slice_offset f capacity n = slice_offset g capacity n := by
  induction n with
  | zero => rfl
  | succ n ih =>
    show slice_offset f capacity n + f n * capacity = slice_offset g capacity n + g n * capacity
    rw [ih (fun i hi => h i (by omega)), h n (by omega)]

theorem slice_offset_zero (f : Nat → Nat) (capacity n : Nat) (h : ∀ i, i < n → f i = 0) :
    slice_offset f capacity n = 0 := by
  induction n with
  | zero => rfl
  | succ n ih =>
    show slice_offset f capacity n + f n * capacity = 0
    rw [ih (fun i hi => h i (by omega)), h n (by omega), Nat.zero_mul]

/-- Every offset below the end of the slices lies in the slice of a field. -/
theorem slice_offset_cover (f : Nat → Nat) (capacity n o : Nat)
    (h : o < slice_offset f capacity n) :
    ∃ i, i < n ∧ slice_offset f capacity i ≤ o ∧ o < slice_offset f capacity i + f i * capacity := by
  induction n with
  | zero => exact absurd h (Nat.not_lt_zero _)
  | succ n ih =>
    by_cases ho : o < slice_offset f capacity n
    · obtain ⟨i, hi, h1, h2⟩ := ih ho
      exact ⟨i, by omega, h1, h2⟩
    · exact ⟨n, by omega, by omega, h⟩

theorem new_bucket_record_size (fd : FieldData) (rank : EntityRank) (parts : List PartOrdinal)
    (capacity nf i : Nat) :
    (new_bucket_record fd rank parts capacity nf i).m_size = num_bytes_per_entity fd rank parts i := by
  unfold new_bucket_record
  by_cases hp : num_bytes_per_entity fd rank parts i > 0
  · rw [if_pos hp]
  · rw [if_neg hp]
    show 0 = _
    omega

/-- C38: the field slices of a new bucket tile its single allocation. After
new_bucket_callback(rank, parts, capacity) with capacity > 0, `size i` being the
per-entity size recorded for field i and the new bucket, and `slice_offset size
capacity i` the sum over j < i of size j * capacity: if some field has a non-zero
size, one allocation of `slice_offset size capacity n` bytes (n the number of
fields) is made, the raw-data pointer of the bucket points to it, and the slice of
every field i of non-zero size starts at byte offset `slice_offset size capacity i`
of it; the slice of a field ends where the slices of the later fields begin and
before the end of the allocation, and every byte of the allocation lies in the slice
of a field. If no field has a non-zero size, no allocation is made and the raw-data
pointer of the bucket is null. -/
theorem C38_new_bucket_slices_tile (fd : FieldData) (rank : EntityRank)
    (parts : List PartOrdinal) (capacity : Nat)
    (hs : FieldsShaped fd) (hr : rank < fd.entity_rank_count) (hc : 0 < capacity) :
    ((∃ i, i < fd.field_set.length ∧
        (field_meta_data (new_bucket_callback fd rank parts capacity) rank i
          (bucket_count fd rank)).m_size ≠ 0) →
      (new_bucket_callback fd rank parts capacity).allocations
        = fd.allocations ++ [(fd.heap_top,
            slice_offset (fun i => (field_meta_data (new_bucket_callback fd rank parts capacity)
              rank i (bucket_count fd rank)).m_size) capacity fd.field_set.length)] ∧
      field_raw_data (new_bucket_callback fd rank parts capacity) rank (bucket_count fd rank)
        = some fd.heap_top ∧
      (∀ i, i < fd.field_set.length →
        (field_meta_data (new_bucket_callback fd rank parts capacity) rank i
          (bucket_count fd rank)).m_size ≠ 0 →
        (field_meta_data (new_bucket_callback fd rank parts capacity) rank i
          (bucket_count fd rank)).m_data
          = some (fd.heap_top
            + slice_offset (fun i => (field_meta_data (new_bucket_callback fd rank parts capacity)
              rank i (bucket_count fd rank)).m_size) capacity i))) ∧
    (∀ i j, i < j → j ≤ fd.field_set.length →
      slice_offset (fun i => (field_meta_data (new_bucket_callback fd rank parts capacity)
          rank i (bucket_count fd rank)).m_size) capacity i
        + (field_meta_data (new_bucket_callback fd rank parts capacity) rank i
          (bucket_count fd rank)).m_size * capacity
      ≤ slice_offset (fun i => (field_meta_data (new_bucket_callback fd rank parts capacity)
          rank i (bucket_count fd rank)).m_size) capacity j) ∧
    (∀ o, o < slice_offset (fun i => (field_meta_data (new_bucket_callback fd rank parts capacity)
          rank i (bucket_count fd rank)).m_size) capacity fd.field_set.length →
      ∃ i, i < fd.field_set.length ∧
        (field_meta_data (new_bucket_callback fd rank parts capacity) rank i
          (bucket_count fd rank)).m_size ≠ 0 ∧
        slice_offset (fun i => (field_meta_data (new_bucket_callback fd rank parts capacity)
          rank i (bucket_count fd rank)).m_size) capacity i ≤ o ∧
        o < slice_offset (fun i => (field_meta_data (new_bucket_callback fd rank parts capacity)
            rank i (bucket_count fd rank)).m_size) capacity i
          + (field_meta_data (new_bucket_callback fd rank parts capacity) rank i
            (bucket_count fd rank)).m_size * capacity) ∧
    ((∀ i, i < fd.field_set.length →
        (field_meta_data (new_bucket_callback fd rank parts capacity) rank i
          (bucket_count fd rank)).m_size = 0) →
      (new_bucket_callback fd rank parts capacity).allocations = fd.allocations ∧
      field_raw_data (new_bucket_callback fd rank parts capacity) rank (bucket_count fd rank)
        = none) := by
  obtain ⟨_, _, _, hraw, hrec, _, _, _, halloc⟩ :=
    new_bucket_callback_spec fd rank parts capacity hs hr
  have hsize : ∀ i, i < fd.field_set.length →
      (field_meta_data (new_bucket_callback fd rank parts capacity) rank i
        (bucket_count fd rank)).m_size = num_bytes_per_entity fd rank parts i := by
    intro i hi
    rw [hrec rank i _ hi, if_pos ⟨rfl, rfl⟩, new_bucket_record_size]
  have hoff : ∀ n, n ≤ fd.field_set.length →
      slice_offset (fun i => (field_meta_data (new_bucket_callback fd rank parts capacity)
        rank i (bucket_count fd rank)).m_size) capacity n
      = slice_offset (num_bytes_per_entity fd rank parts) capacity n :=
    fun n hn => slice_offset_congr _ _ capacity n (fun i hi => hsize i (by omega))
  have hraw2 := hraw rank (bucket_count fd rank)
  rw [if_pos ⟨rfl, rfl⟩] at hraw2
  refine ⟨?_, ?_, ?_, ?_⟩
  · rintro ⟨i, hi, hne⟩
    have hpos : 0 < num_bytes_per_entity fd rank parts i := by
      rw [hsize i hi] at hne
      omega
    have htot := slice_offset_pos (num_bytes_per_entity fd rank parts) capacity i _ hi hpos hc
    rw [halloc, hraw2, if_pos htot, if_pos htot, hoff _ (Nat.le_refl _)]
    refine ⟨rfl, rfl, fun j hj hnej => ?_⟩
    rw [hoff j (by omega), hrec rank j _ hj, if_pos ⟨rfl, rfl⟩]
    rw [hsize j hj] at hnej
    unfold new_bucket_record
    rw [if_pos (by omega), if_pos htot]
  · intro i j hij hj
    have hmono := slice_offset_mono (fun i => (field_meta_data
      (new_bucket_callback fd rank parts capacity) rank i (bucket_count fd rank)).m_size)
      capacity (i + 1) j hij
    exact hmono
  · intro o ho
    obtain ⟨i, hi, h1, h2⟩ := slice_offset_cover _ capacity _ o ho
    refine ⟨i, hi, ?_, h1, h2⟩
    intro h0
    rw [h0, Nat.zero_mul] at h2
    omega
  · intro hall
    have hz : slice_offset (num_bytes_per_entity fd rank parts) capacity fd.field_set.length = 0 := by
      apply slice_offset_zero
      intro i hi
      rw [← hsize i hi]
      exact hall i hi
    rw [halloc, hraw2, hz]
    exact ⟨rfl, rfl⟩

theorem C38_witness :
    FieldsShaped scenario_field_data ∧
    scenario_one_bucket.allocations = [(1000, 80)] ∧
    field_raw_data scenario_one_bucket 0 0 = some 1000 ∧
    (field_meta_data scenario_one_bucket 0 0 0).m_data = some (1000 + 0) ∧
    (field_meta_data scenario_one_bucket 0 1 0).m_data = some (1000 + 48) ∧
    (field_meta_data scenario_one_bucket 0 2 0).m_data = some (1000 + 64) :=
  have hs : FieldsShaped scenario_field_data := construct_field_data_shaped _ _ _ _ _
  have h := (C38_new_bucket_slices_tile scenario_field_data 0 [0, 1, 10] 2 hs (by decide)
    (by decide)).1 ⟨0, by decide, by decide⟩
  ⟨hs, h.1, h.2.1, h.2.2 0 (by decide) (by decide), h.2.2 1 (by decide) (by decide),
    h.2.2 2 (by decide) (by decide)⟩


/-! ## Field data: reordering the buckets of a rank -/

theorem modify_at_const_getD {α : Type} (v : List α) (i k : Nat) (a d : α) :
    (modify_at v i (fun _ => a)).getD k d = if k = i ∧ i < v.length then a else v.getD k d :=
  modify_at_getD v i k (fun _ => a) d

/-- The loop of reorder_buckets_callback over the fields after `n` passes. -/
theorem reorder_loop_spec (fd : FieldData) (rank : EntityRank) (id_map : List Nat) (n : Nat) :
    ∃ M : List (List FieldMetaData),
      (List.range n).foldl (reorder_buckets_field rank id_map) fd
        = { fd with m_field_meta_data := M } ∧
      M.length = fd.m_field_meta_data.length ∧
      ∀ k, M.getD k [] =
        if fd.m_num_fields.toNat * rank ≤ k ∧ k < fd.m_num_fields.toNat * rank + n ∧
            k < fd.m_field_meta_data.length then
          id_map.map (fun x => field_meta_data_at fd k x)
        else fd.m_field_meta_data.getD k [] := by
  induction n with
  | zero =>
    refine ⟨fd.m_field_meta_data, rfl, rfl, fun k => ?_⟩
    rw [if_neg (by omega)]
  | succ n ih =>
    obtain ⟨M, hfold, hlen, hget⟩ := ih
    rw [List.range_succ, List.foldl_append, hfold]
    simp only [List.foldl_cons, List.foldl_nil]
    unfold reorder_buckets_field
    simp only
    refine ⟨_, rfl, ?_, fun k => ?_⟩
    · rw [modify_at_length, hlen]
    · rw [modify_at_const_getD, hlen]
      by_cases hk : k = fd.m_num_fields.toNat * rank + n ∧
          fd.m_num_fields.toNat * rank + n < fd.m_field_meta_data.length
      · rw [if_pos hk, if_pos (by omega)]
        have hMn : M.getD (fd.m_num_fields.toNat * rank + n) []
            = fd.m_field_meta_data.getD (fd.m_num_fields.toNat * rank + n) [] := by
          rw [hget, if_neg (by omega)]
        unfold field_meta_data_at
        simp only [hMn, hk.1]
      · rw [if_neg hk, hget]
        by_cases h1 : fd.m_num_fields.toNat * rank ≤ k ∧ k < fd.m_num_fields.toNat * rank + n ∧
            k < fd.m_field_meta_data.length
        · rw [if_pos h1, if_pos (by omega)]
        · rw [if_neg h1, if_neg]
          intro h2
          apply hk
          constructor
          · by_contra h3
            exact h1 ⟨h2.1, by omega, h2.2.2⟩
          · by_contra h3
            exact h1 ⟨h2.1, by omega, h2.2.2⟩

theorem getD_map {α β : Type} (l : List α) (f : α → β) (x : Nat) (a : α) (d : β) :
    (l.map f).getD x d = if x < l.length then f (l.getD x a) else d := by
  rw [List.getD_eq_getElem?_getD, List.getD_eq_getElem?_getD, List.getElem?_map]
  by_cases h : x < l.length
  · rw [if_pos h, List.getElem?_eq_getElem h]
    rfl
  · rw [if_neg h, List.getElem?_eq_none (Nat.le_of_not_lt h)]
    rfl

/-- The accessors after reorder_buckets_callback. -/
theorem reorder_buckets_callback_spec (fd : FieldData) (rank : EntityRank) (id_map : List Nat)
    (hs : FieldsShaped fd) (hr : rank < fd.entity_rank_count) :
    (∃ (M : List (List FieldMetaData)) (R : List (List (Option Nat))),
      reorder_buckets_callback fd rank id_map
        = { fd with m_field_meta_data := M, m_field_raw_data := R } ∧
      M.length = fd.m_field_meta_data.length ∧ R.length = fd.m_field_raw_data.length ∧
      ∀ i, i < fd.m_num_fields.toNat →
        M.getD (fd.m_num_fields.toNat * rank + i) []
          = id_map.map (fun x => field_meta_data fd rank i x)) ∧
    (∀ r, bucket_count (reorder_buckets_callback fd rank id_map) r
      = if r = rank then id_map.length else bucket_count fd r) ∧
    (∀ r x, field_raw_data (reorder_buckets_callback fd rank id_map) r x
      = if r = rank then
          (if x < id_map.length then field_raw_data fd rank (id_map.getD x 0) else none)
        else field_raw_data fd r x) ∧
    (∀ r i x, i < fd.m_num_fields.toNat →
      field_meta_data (reorder_buckets_callback fd rank id_map) r i x
      = if r = rank then
          (if x < id_map.length then field_meta_data fd rank i (id_map.getD x 0)
            else FieldMetaData.null)
        else field_meta_data fd r i x) := by
  have hrl : rank < fd.m_field_raw_data.length := by rw [hs.raw_length]; exact hr
  obtain ⟨M, hfold, hlen0, hget0⟩ := reorder_loop_spec
    ({ fd with
      m_field_raw_data := (modify_at fd.m_field_raw_data rank
        (fun _ => id_map.map (fun k => field_raw_data fd rank k))) } : FieldData)
    rank id_map fd.m_num_fields.toNat
  have hlen : M.length = fd.m_field_meta_data.length := hlen0
  have hget : ∀ k, M.getD k [] =
      if fd.m_num_fields.toNat * rank ≤ k ∧
          k < fd.m_num_fields.toNat * rank + fd.m_num_fields.toNat ∧
          k < fd.m_field_meta_data.length then
        id_map.map (fun x => field_meta_data_at fd k x)
      else fd.m_field_meta_data.getD k [] := hget0
  clear hget0 hlen0
  have hres : reorder_buckets_callback fd rank id_map
      = { fd with
          m_field_meta_data := M
          m_field_raw_data := (modify_at fd.m_field_raw_data rank
            (fun _ => id_map.map (fun k => field_raw_data fd rank k))) } := by
    unfold reorder_buckets_callback
    exact hfold
  have hin : ∀ i, i < fd.m_num_fields.toNat →
      fd.m_num_fields.toNat * rank + i < fd.m_field_meta_data.length := by
    intro i hi
    rw [hs.meta_length]
    exact flat_index_lt _ _ _ _ hr hi
  have hvec : ∀ r i, i < fd.m_num_fields.toNat →
      M.getD (fd.m_num_fields.toNat * r + i) [] =
        if r = rank then id_map.map (fun x => field_meta_data fd rank i x)
        else fd.m_field_meta_data.getD (fd.m_num_fields.toNat * r + i) [] := by
    intro r i hi
    rw [hget]
    by_cases h : r = rank
    · subst h
      rw [if_pos ⟨by omega, by omega, hin i hi⟩, if_pos rfl]
      rfl
    · rw [if_neg h, if_neg]
      intro hb
      exact h (block_unique _ r rank i hi hb.1 hb.2.1)
  have hraw : ∀ r, (modify_at fd.m_field_raw_data rank
      (fun _ => id_map.map (fun k => field_raw_data fd rank k))).getD r []
      = if r = rank then id_map.map (fun k => field_raw_data fd rank k)
        else fd.m_field_raw_data.getD r [] := by
    intro r
    rw [modify_at_const_getD]
    by_cases h : r = rank
    · rw [if_pos ⟨h, hrl⟩, if_pos h]
    · rw [if_neg (fun h2 => h h2.1), if_neg h]
  refine ⟨⟨M, _, hres, hlen, modify_at_length _ _ _, fun i hi => ?_⟩, ?_, ?_, ?_⟩
  · rw [hvec rank i hi, if_pos rfl]
  · intro r
    rw [hres]
    show ((modify_at fd.m_field_raw_data rank
      (fun _ => id_map.map (fun k => field_raw_data fd rank k))).getD r []).length = _
    rw [hraw r]
    by_cases h : r = rank
    · rw [if_pos h, if_pos h, List.length_map]
    · rw [if_neg h, if_neg h]
      rfl
  · intro r x
    rw [hres]
    show ((modify_at fd.m_field_raw_data rank
      (fun _ => id_map.map (fun k => field_raw_data fd rank k))).getD r []).getD x none = _
    rw [hraw r]
    by_cases h : r = rank
    · rw [if_pos h, if_pos h]
      exact getD_map id_map _ x 0 none
    · rw [if_neg h, if_neg h]
      rfl
  · intro r i x hi
    rw [hres]
    show (M.getD (fd.m_num_fields.toNat * r + i) []).getD x FieldMetaData.null = _
    rw [hvec r i hi]
    by_cases h : r = rank
    · rw [if_pos h, if_pos h]
      exact getD_map id_map _ x 0 FieldMetaData.null
    · rw [if_neg h, if_neg h]
      rfl

theorem map_getD_range {α : Type} (l : List α) (d : α) :
    (List.range l.length).map (fun k => l.getD k d) = l := by
  apply List.ext_getElem
  · simp
  · intro n h1 h2
    simp [List.getD_eq_getElem?_getD, List.getElem?_eq_getElem h2]

/-- C32: reorder_buckets_callback(rank, id_map) carries the bookkeeping over the
renumbering. Afterwards the rank has id_map.size() buckets, and for every
m < id_map.size() and every field the raw-data pointer and the field record (size,
stride, pointer) of the bucket m are those that the bucket id_map[m] had before; the
bytes, the allocator and every member but the two vectors are unchanged, so no field
byte is moved; the records and raw pointers of every other rank are unchanged; and
when id_map is a permutation of the bucket ids of the rank, the records of every
field for the rank are a permutation of the records it had. -/
theorem C32_reorder_buckets (fd : FieldData) (rank : EntityRank) (id_map : List Nat)
    (hs : FieldsShaped fd) (hr : rank < fd.entity_rank_count) :
    bucket_count (reorder_buckets_callback fd rank id_map) rank = id_map.length ∧
    (∀ m, m < id_map.length →
      field_raw_data (reorder_buckets_callback fd rank id_map) rank m
        = field_raw_data fd rank (id_map.getD m 0) ∧
      ∀ i, i < fd.m_num_fields.toNat →
        field_meta_data (reorder_buckets_callback fd rank id_map) rank i m
          = field_meta_data fd rank i (id_map.getD m 0)) ∧
    ((reorder_buckets_callback fd rank id_map).memory = fd.memory ∧
      (reorder_buckets_callback fd rank id_map).heap_top = fd.heap_top ∧
      (reorder_buckets_callback fd rank id_map).allocations = fd.allocations ∧
      (reorder_buckets_callback fd rank id_map).deallocations = fd.deallocations ∧
      (reorder_buckets_callback fd rank id_map).m_num_fields = fd.m_num_fields) ∧
    (∀ r, r ≠ rank →
      (∀ x, field_raw_data (reorder_buckets_callback fd rank id_map) r x = field_raw_data fd r x) ∧
      ∀ i x, i < fd.m_num_fields.toNat →
        field_meta_data (reorder_buckets_callback fd rank id_map) r i x
          = field_meta_data fd r i x) ∧
    (id_map.Perm (List.range (bucket_count fd rank)) →
      ∀ i, i < fd.m_num_fields.toNat →
        ((reorder_buckets_callback fd rank id_map).m_field_meta_data.getD
            (fd.m_num_fields.toNat * rank + i) []).Perm
          (fd.m_field_meta_data.getD (fd.m_num_fields.toNat * rank + i) [])) := by
  obtain ⟨⟨M, R, hres, _, _, hvec⟩, hcount, hraw, hrec⟩ :=
    reorder_buckets_callback_spec fd rank id_map hs hr
  refine ⟨?_, ?_, ?_, ?_, ?_⟩
  · rw [hcount rank, if_pos rfl]
  · intro m hm
    refine ⟨?_, fun i hi => ?_⟩
    · rw [hraw rank m, if_pos rfl, if_pos hm]
    · rw [hrec rank i m hi, if_pos rfl, if_pos hm]
  · rw [hres]
    exact ⟨rfl, rfl, rfl, rfl, rfl⟩
  · intro r hne
    refine ⟨fun x => ?_, fun i x hi => ?_⟩
    · rw [hraw r x, if_neg hne]
    · rw [hrec r i x hi, if_neg hne]
  · intro hperm i hi
    rw [hres]
    show (M.getD (fd.m_num_fields.toNat * rank + i) []).Perm _
    rw [hvec i hi]
    have hlen := hs.buckets rank i hr hi
    have hmap := List.Perm.map (fun x => field_meta_data fd rank i x) hperm
    rw [← hlen] at hmap
    have hold : (List.range (fd.m_field_meta_data.getD (fd.m_num_fields.toNat * rank + i)
        []).length).map (fun x => field_meta_data fd rank i x)
        = fd.m_field_meta_data.getD (fd.m_num_fields.toNat * rank + i) [] :=
      map_getD_range _ FieldMetaData.null
    rw [hold] at hmap
    exact hmap

theorem C32_witness :
    FieldsShaped scenario_two_buckets ∧
    field_raw_data scenario_two_buckets 0 0 = some 1000 ∧
    field_raw_data scenario_two_buckets 0 1 = some 1080 ∧
    (field_meta_data scenario_two_buckets 0 1 0).m_size = 8 ∧
    (field_meta_data scenario_two_buckets 0 1 1).m_size = 0 ∧
    field_raw_data (reorder_buckets_callback scenario_two_buckets 0 [1, 0]) 0 0 = some 1080 ∧
    (field_meta_data (reorder_buckets_callback scenario_two_buckets 0 [1, 0]) 0 1 1).m_size = 8 :=
  have hs0 : FieldsShaped scenario_field_data := construct_field_data_shaped _ _ _ _ _
  have hs1 : FieldsShaped scenario_one_bucket :=
    (new_bucket_callback_spec scenario_field_data 0 [0, 1, 10] 2 hs0 (by decide)).2.1
  have hs2 : FieldsShaped scenario_two_buckets :=
    (new_bucket_callback_spec scenario_one_bucket 0 [0, 1] 2 hs1 (by decide)).2.1
  have h := (C32_reorder_buckets scenario_two_buckets 0 [1, 0] hs2 (by decide)).2.1
  have hsize : (field_meta_data scenario_two_buckets 0 1 0).m_size = 8 := by decide
  ⟨hs2, by decide, by decide, hsize, by decide, (h 0 (by decide)).1,
    by rw [(h 1 (by decide)).2 1 (by decide)]; exact hsize⟩


/-! ## The flood of `modified`: termination and reach -/

theorem reaches_upward_trans (m : BulkData) (a b c : Entity) (h1 : reaches_upward m a b)
    (h2 : reaches_upward m b c) : reaches_upward m a c := by
  induction h2 with
  | refl => exact h1
  | step y z _ hyz ih => exact reaches_upward.step a y z ih hyz

theorem reaches_upward_congr {m m' : BulkData} (hf : Frame m m')
    (hi : m'.m_mesh_indexes = m.m_mesh_indexes) (x y : Entity) (h : reaches_upward m' x y) :
    reaches_upward m x y := by
  induction h with
  | refl => exact reaches_upward.refl x
  | step y z _ hyz ih =>
    obtain ⟨c, hc, hcz⟩ := hyz
    exact reaches_upward.step x y z ih ⟨c, (flood_edge_congr hf hi y c).1 hc, hcz⟩

theorem reaches_upward_rank (m : BulkData)
    (hrank : ∀ x c, flood_edge m x c → m.entity_rank c.entity = c.rank) (e x : Entity)
    (h : reaches_upward m e x) : x = e ∨ m.entity_rank e < m.entity_rank x := by
  induction h with
  | refl => exact Or.inl rfl
  | step y z _ hyz ih =>
    obtain ⟨c, hc, hcz⟩ := hyz
    have hr := hrank y c hc
    rw [hcz] at hr
    right
    rcases ih with h | h
    · rw [hr, ← h]
      exact hc.2.1
    · rw [hr]
      exact Nat.lt_trans h hc.2.1

/-- The inner loop of the flood changes only entities reached upward from a target
of the table, and does the same for every bound above the number of Unchanged
entities. -/
theorem flood_fold_reach (fuel : Nat)
    (ih : ∀ (m : BulkData) (e : Entity), unchanged_count m < fuel →
      (∀ x, (modified_fuel fuel m e).state x ≠ m.state x → reaches_upward m e x) ∧
      ∀ fuel2, unchanged_count m < fuel2 → modified_fuel fuel2 m e = modified_fuel fuel m e)
    (fuel2 : Nat) (l : List ConnEntry) (acc : BulkData) (hacc : unchanged_count acc < fuel)
    (hacc2 : unchanged_count acc < fuel2) :
    (∀ x, (l.foldl
        (fun acc2 c =>
          if acc2.state c.entity = EntityState.Unchanged then modified_fuel fuel acc2 c.entity
          else acc2) acc).state x ≠ acc.state x →
      ∃ c ∈ l, reaches_upward acc c.entity x) ∧
    l.foldl
        (fun acc2 c =>
          if acc2.state c.entity = EntityState.Unchanged then modified_fuel fuel2 acc2 c.entity
          else acc2) acc
      = l.foldl
        (fun acc2 c =>
          if acc2.state c.entity = EntityState.Unchanged then modified_fuel fuel acc2 c.entity
          else acc2) acc := by
  induction l generalizing acc with
  | nil => exact ⟨fun x hx => absurd rfl hx, rfl⟩
  | cons c rest ihl =>
    rw [List.foldl_cons, List.foldl_cons]
    have hstep : Flooded acc
        (if acc.state c.entity = EntityState.Unchanged then modified_fuel fuel acc c.entity
          else acc) := by
      by_cases hc : acc.state c.entity = EntityState.Unchanged
      · rw [if_pos hc]; exact (modified_fuel_flooded fuel acc c.entity hacc).1
      · rw [if_neg hc]; exact flooded_refl acc
    have heq : (if acc.state c.entity = EntityState.Unchanged then
          modified_fuel fuel2 acc c.entity else acc)
        = (if acc.state c.entity = EntityState.Unchanged then
          modified_fuel fuel acc c.entity else acc) := by
      by_cases hc : acc.state c.entity = EntityState.Unchanged
      · rw [if_pos hc, if_pos hc]; exact (ih acc c.entity hacc).2 fuel2 hacc2
      · rw [if_neg hc, if_neg hc]
    rw [heq]
    have hrest := ihl _ (Nat.lt_of_le_of_lt hstep.count hacc)
      (Nat.lt_of_le_of_lt hstep.count hacc2)
    refine ⟨fun x hx => ?_, hrest.2⟩
    by_cases hx2 : (rest.foldl
        (fun acc2 c =>
          if acc2.state c.entity = EntityState.Unchanged then modified_fuel fuel acc2 c.entity
          else acc2)
        (if acc.state c.entity = EntityState.Unchanged then modified_fuel fuel acc c.entity
          else acc)).state x
        = (if acc.state c.entity = EntityState.Unchanged then modified_fuel fuel acc c.entity
          else acc).state x
    · rw [hx2] at hx
      by_cases hc : acc.state c.entity = EntityState.Unchanged
      · rw [if_pos hc] at hx
        exact ⟨c, List.mem_cons_self _ _, (ih acc c.entity hacc).1 x hx⟩
      · rw [if_neg hc] at hx
        exact absurd rfl hx
    · obtain ⟨c2, hc2, hreach⟩ := hrest.1 x hx2
      exact ⟨c2, List.mem_cons_of_mem _ hc2,
        reaches_upward_congr hstep.frame hstep.indexes _ _ hreach⟩

theorem flood_fold_ranks_reach (fuel : Nat)
    (ih : ∀ (m : BulkData) (e : Entity), unchanged_count m < fuel →
      (∀ x, (modified_fuel fuel m e).state x ≠ m.state x → reaches_upward m e x) ∧
      ∀ fuel2, unchanged_count m < fuel2 → modified_fuel fuel2 m e = modified_fuel fuel m e)
    (fuel2 : Nat) (table : EntityRank → List ConnEntry) (ranks : List EntityRank)
    (acc : BulkData) (hacc : unchanged_count acc < fuel) (hacc2 : unchanged_count acc < fuel2) :
    (∀ x, (ranks.foldl
        (fun acc irank => (table irank).foldl
          (fun acc2 c =>
            if acc2.state c.entity = EntityState.Unchanged then modified_fuel fuel acc2 c.entity
            else acc2) acc) acc).state x ≠ acc.state x →
      ∃ irank ∈ ranks, ∃ c ∈ table irank, reaches_upward acc c.entity x) ∧
    ranks.foldl
        (fun acc irank => (table irank).foldl
          (fun acc2 c =>
            if acc2.state c.entity = EntityState.Unchanged then modified_fuel fuel2 acc2 c.entity
            else acc2) acc) acc
      = ranks.foldl
        (fun acc irank => (table irank).foldl
          (fun acc2 c =>
            if acc2.state c.entity = EntityState.Unchanged then modified_fuel fuel acc2 c.entity
            else acc2) acc) acc := by
  have hfl : ∀ (m : BulkData) (e : Entity), unchanged_count m < fuel →
      Flooded m (modified_fuel fuel m e) ∧
        (modified_fuel fuel m e).state e ≠ EntityState.Unchanged :=
    fun m e h => modified_fuel_flooded fuel m e h
  induction ranks generalizing acc with
  | nil => exact ⟨fun x hx => absurd rfl hx, rfl⟩
  | cons r rest ihl =>
    rw [List.foldl_cons, List.foldl_cons]
    have hstep := (flood_fold fuel hfl (table r) acc hacc).1
    have hinner := flood_fold_reach fuel ih fuel2 (table r) acc hacc hacc2
    rw [hinner.2]
    have hrest := ihl _ (Nat.lt_of_le_of_lt hstep.count hacc)
      (Nat.lt_of_le_of_lt hstep.count hacc2)
    refine ⟨fun x hx => ?_, hrest.2⟩
    by_cases hx2 : (rest.foldl
        (fun acc irank => (table irank).foldl
          (fun acc2 c =>
            if acc2.state c.entity = EntityState.Unchanged then modified_fuel fuel acc2 c.entity
            else acc2) acc)
        ((table r).foldl
          (fun acc2 c =>
            if acc2.state c.entity = EntityState.Unchanged then modified_fuel fuel acc2 c.entity
            else acc2) acc)).state x
        = ((table r).foldl
          (fun acc2 c =>
            if acc2.state c.entity = EntityState.Unchanged then modified_fuel fuel acc2 c.entity
            else acc2) acc).state x
    · rw [hx2] at hx
      obtain ⟨c, hc, hreach⟩ := hinner.1 x hx
      exact ⟨r, List.mem_cons_self _ _, c, hc, hreach⟩
    · obtain ⟨r2, hr2, c, hc, hreach⟩ := hrest.1 x hx2
      exact ⟨r2, List.mem_cons_of_mem _ hr2, c, hc,
        reaches_upward_congr hstep.frame hstep.indexes _ _ hreach⟩

/-- The flood changes only the states of entities reached upward from the entity, and
its result does not depend on the bound once the bound exceeds the number of
Unchanged entities. -/
theorem modified_fuel_reach (fuel : Nat) (m : BulkData) (e : Entity)
    (hfuel : unchanged_count m < fuel) :
    (∀ x, (modified_fuel fuel m e).state x ≠ m.state x → reaches_upward m e x) ∧
    ∀ fuel2, unchanged_count m < fuel2 → modified_fuel fuel2 m e = modified_fuel fuel m e := by
  induction fuel generalizing m e with
  | zero => exact absurd hfuel (Nat.not_lt_zero _)
  | succ fuel ih =>
    by_cases hs : m.state e = EntityState.Unchanged
    · have hlt := lt_length_of_state_unchanged m e hs
      have hframe := set_state_modified_frame m e hs
      have hstate : ∀ x, (m.set_state e EntityState.Modified).state x
          = if x = e then EntityState.Modified else m.state x := by
        intro x
        rw [state_set_state]
        by_cases hx : x = e
        · rw [if_pos ⟨hx, hlt⟩, if_pos hx]
        · rw [if_neg (fun h => hx h.1), if_neg hx]
      have hcount : unchanged_count (m.set_state e EntityState.Modified) + 1
          = unchanged_count m := count_set_of_getD m.m_entity_states e hs
      have hacc : unchanged_count (m.set_state e EntityState.Modified) < fuel := by omega
      constructor
      · intro x hx
        by_cases hxe : x = e
        · rw [hxe]; exact reaches_upward.refl e
        · unfold modified_fuel at hx
          rw [if_neg (not_not.2 hs)] at hx
          dsimp only at hx
          rw [← (show (m.set_state e EntityState.Modified).state x = m.state x by
            rw [hstate x, if_neg hxe])] at hx
          obtain ⟨irank, hir, c, hc, hreach⟩ := (flood_fold_ranks_reach fuel
            (fun m e h => ih m e h) fuel
            (fun irank => (m.set_state e EntityState.Modified).begin_entities e irank)
            _ (m.set_state e EntityState.Modified) hacc hacc).1 x hx
          rw [List.mem_filter, List.mem_reverse, List.mem_range] at hir
          have hcm := (mem_begin_entities _ _ _ _).1 hc
          have hedge : flood_edge (m.set_state e EntityState.Modified) e c :=
            ⟨hcm.1, by rw [hcm.2]; simpa using hir.2, by rw [hcm.2]; exact hir.1⟩
          exact reaches_upward_congr hframe.1 hframe.2 _ _
            (reaches_upward_trans _ e c.entity x
              (reaches_upward.step e e c.entity (reaches_upward.refl e) ⟨c, hedge, rfl⟩) hreach)
      · intro fuel2 h2
        cases fuel2 with
        | zero => exact absurd h2 (Nat.not_lt_zero _)
        | succ fuel2 =>
          have hacc2 : unchanged_count (m.set_state e EntityState.Modified) < fuel2 := by omega
          unfold modified_fuel
          rw [if_neg (not_not.2 hs), if_neg (not_not.2 hs)]
          dsimp only
          exact (flood_fold_ranks_reach fuel (fun m e h => ih m e h) fuel2
            (fun irank => (m.set_state e EntityState.Modified).begin_entities e irank)
            _ (m.set_state e EntityState.Modified) hacc hacc2).2
    · constructor
      · intro x hx
        unfold modified_fuel at hx
        rw [if_pos hs] at hx
        exact absurd rfl hx
      · intro fuel2 h2
        cases fuel2 with
        | zero => exact absurd h2 (Nat.not_lt_zero _)
        | succ fuel2 =>
          unfold modified_fuel
          rw [if_pos hs, if_pos hs]

theorem scenario_chain_ranked (x : Entity) (c : ConnEntry)
    (h : flood_edge scenario_chain x c) : scenario_chain.entity_rank c.entity = c.rank := by
  by_cases hx : x < 4
  · have hc := h.1
    have h0 : scenario_chain.connectivity 0 = [] := by decide
    have h1 : scenario_chain.connectivity 1 = [⟨2, 2, 0, 0⟩] := by decide
    have h2 : scenario_chain.connectivity 2 = [⟨3, 1, 0, 0⟩] := by decide
    have h3 : scenario_chain.connectivity 3 = [] := by decide
    interval_cases x
    · rw [h0] at hc; exact absurd hc (List.not_mem_nil _)
    · rw [h1, List.mem_singleton] at hc; rw [hc]; decide
    · rw [h2, List.mem_singleton] at hc; rw [hc]; decide
    · rw [h3] at hc; exact absurd hc (List.not_mem_nil _)
  · have hc := h.1
    have hnone : scenario_chain.mesh_index x = none := by
      unfold mesh_index
      have hlen : scenario_chain.m_mesh_indexes.length = 4 := by decide
      have hle : scenario_chain.m_mesh_indexes.length ≤ x := by
        rw [hlen]; exact Nat.le_of_not_lt hx
      exact List.getD_eq_default _ _ hle
    unfold connectivity at hc
    rw [hnone] at hc
    exact absurd hc (List.not_mem_nil _)

/-- C39: modified(e) terminates: every bound on the depth of the flood above the
number of entity slots gives the result of `modified`. The only state change it
makes is from Unchanged to Modified. If the state of e is not Unchanged the mesh is
left as it is; otherwise e becomes Modified, an entity that was not Unchanged keeps
its state, and, in a mesh whose followed positions point to entities of the rank of
their table, no entity other than e of rank at most the rank of e changes state. -/
theorem C39_modified_terminates_and_marks (m : BulkData) (e : Entity)
    (hrank : ∀ x c, flood_edge m x c → m.entity_rank c.entity = c.rank) :
    (∀ fuel, m.m_entity_states.length < fuel → modified_fuel fuel m e = m.modified e) ∧
    (∀ x, (m.modified e).state x ≠ m.state x →
      m.state x = EntityState.Unchanged ∧ (m.modified e).state x = EntityState.Modified) ∧
    (m.state e ≠ EntityState.Unchanged → m.modified e = m) ∧
    (m.state e = EntityState.Unchanged →
      (m.modified e).state e = EntityState.Modified ∧
      (∀ x, m.state x ≠ EntityState.Unchanged → (m.modified e).state x = m.state x) ∧
      (∀ x, x ≠ e → m.entity_rank x ≤ m.entity_rank e →
        (m.modified e).state x = m.state x)) := by
  have hfl := modified_flooded m e
  have hlen : unchanged_count m < m.m_entity_states.length + 1 :=
    Nat.lt_succ_of_le (unchanged_count_le_length m)
  have hreach := modified_fuel_reach (m.m_entity_states.length + 1) m e hlen
  refine ⟨?_, ?_, ?_, ?_⟩
  · intro fuel hfuel
    exact hreach.2 fuel (Nat.lt_of_le_of_lt (unchanged_count_le_length m) hfuel)
  · intro x hx
    rcases hfl.1.mono x with h | h
    · exact absurd h hx
    · exact h
  · intro hs
    unfold modified modified_fuel
    rw [if_pos hs]
  · intro hs
    refine ⟨?_, ?_, ?_⟩
    · rcases hfl.1.mono e with h | h
      · exact absurd (h.trans hs) hfl.2
      · exact h.2
    · intro x hx
      rcases hfl.1.mono x with h | h
      · exact h
      · exact absurd h.1 hx
    · intro x hxe hle
      by_contra hne
      rcases reaches_upward_rank m hrank e x (hreach.1 x hne) with h | h
      · exact hxe h
      · exact absurd h (Nat.not_lt.2 hle)

theorem C39_witness :
    (∀ x c, flood_edge scenario_chain x c → scenario_chain.entity_rank c.entity = c.rank) ∧
    scenario_chain.state 2 = EntityState.Unchanged ∧
    modified_fuel 100 scenario_chain 2 = scenario_chain.modified 2 ∧
    (scenario_chain.modified 2).state 2 = EntityState.Modified ∧
    (scenario_chain.modified 2).state 1 = EntityState.Modified ∧
    (scenario_chain.modified 2).state 3 = scenario_chain.state 3 :=
  have h := C39_modified_terminates_and_marks scenario_chain 2 scenario_chain_ranked
  ⟨scenario_chain_ranked, by decide, h.1 100 (by decide), (h.2.2.2 (by decide)).1, by decide,
    (h.2.2.2 (by decide)).2.2 3 (by decide) (by decide)⟩

/-! ## The round trip of declare_relation and destroy_relation -/

theorem bucket_declare_relation_fwd (m : BulkData) (e e_to : Entity)
    (ordinal : ConnectivityOrdinal) (permut : Permutation)
    (hslot : (m.mesh_index e).isSome = true)
    (hnew : ∀ c ∈ m.connectivity e, c.ordinal ≠ ordinal) :
    (bucket_declare_relation m e e_to ordinal permut).1 = Outcome.ok true := by
  unfold bucket_declare_relation
  have hany : ∀ p : ConnEntry → Bool, (∀ c, p c = true → c.ordinal = ordinal) →
      ¬ ((m.begin_entities e (m.entity_rank e_to)).any p) = true := by
    intro p hp h1
    simp only [List.any_eq_true, begin_entities, List.mem_filter] at h1
    obtain ⟨c, ⟨hc, _⟩, hh⟩ := h1
    exact hnew c hc (hp c hh)
  have h1 := hany (fun c => c.entity == e_to && c.ordinal == ordinal) (by
    intro c hc
    simp only [Bool.and_eq_true, beq_iff_eq] at hc
    exact hc.2)
  have h2 : ¬ (decide (m.entity_rank e_to < m.entity_rank e) &&
        (m.begin_entities e (m.entity_rank e_to)).any (fun c => c.ordinal == ordinal)) = true := by
    simp only [Bool.and_eq_true, not_and]
    intro _
    exact hany (fun c => c.ordinal == ordinal) (by
      intro c hc
      simpa using hc)
  rw [if_neg h1, if_neg h2]
  cases hidx : m.mesh_index e with
  | none => rw [hidx] at hslot; exact absurd hslot (by simp)
  | some idx => rfl

theorem require_valid_relation_of_valid (action : String) (m : BulkData) (e_from e_to : Entity)
    (hrank : m.entity_rank e_to < m.entity_rank e_from) (hvf : m.is_valid e_from = true)
    (hvt : m.is_valid e_to = true) :
    require_valid_relation action m e_from e_to = Outcome.ok () := by
  unfold require_valid_relation
  simp [hvf, hvt, Nat.not_le.2 hrank]

/-- On a rank pair whose back-relations are tracked, declare_relation returns
normally when `e_from` holds no relation with the ordinal and `e_to` does not hold
the mirrored position. -/
theorem declare_relation_succeeds (m : BulkData) (e_from e_to : Entity)
    (local_id : RelationIdentifier) (permut : Permutation)
    (hmod : m.m_sync_state ≠ BulkDataSyncState.SYNCHRONIZED)
    (hrank : m.entity_rank e_to < m.entity_rank e_from) (hvf : m.is_valid e_from = true)
    (hvt : m.is_valid e_to = true)
    (hsf : (m.mesh_index e_from).isSome = true) (hst : (m.mesh_index e_to).isSome = true)
    (hnew : ∀ c ∈ m.connectivity e_from, c.ordinal ≠ local_id)
    (hback : ∀ c ∈ m.connectivity e_to, ¬ holds_relation m e_from local_id c) :
    (m.declare_relation e_from e_to local_id permut).1 = Outcome.ok () := by
  have hne : e_to ≠ e_from := fun h => by rw [h] at hrank; exact Nat.lt_irrefl _ hrank
  unfold declare_relation
  have hreq : m.require_ok_to_modify = Outcome.ok () := by
    unfold require_ok_to_modify; rw [if_pos hmod]
  rw [hreq]
  dsimp only
  rw [require_valid_relation_of_valid "declare" m e_from e_to hrank hvf hvt]
  dsimp only
  have hb1 := bucket_declare_relation_fwd m e_from e_to local_id permut hsf hnew
  rcases internal_declare_relation_cases m e_from e_to local_id m.m_sync_count false permut
    with h | h
  · exact absurd (h.2.2.trans hb1) h.1
  · obtain ⟨h1, _, _, hframe, _, hsome, hconn⟩ := h
    generalize internal_declare_relation m e_from e_to local_id m.m_sync_count false permut
      = r1 at h1 hframe hsome hconn
    obtain ⟨o1, m1⟩ := r1
    dsimp only at h1 hframe hsome hconn
    subst h1
    dsimp only
    rw [if_pos rfl]
    by_cases htr : m1.tracks_back_relation (m1.entity_rank e_to) (m1.entity_rank e_from) = true
    · rw [if_pos htr]
      have hb2 := bucket_declare_relation_back m1 e_to e_from local_id permut
        (by rw [hsome]; exact hst)
        (by rw [hframe.entity_rank, hframe.entity_rank]; exact Nat.le_of_lt hrank)
        (by
          intro c hc hh
          rw [hconn, if_neg hne] at hc
          exact hback c hc ⟨by rw [← hframe.entity_rank]; exact hh.1, hh.2⟩)
      rcases internal_declare_relation_cases m1 e_to e_from local_id m1.m_sync_count true permut
        with h | h
      · exact absurd (h.2.2.trans hb2) h.1
      · have h2 := h.1
        generalize internal_declare_relation m1 e_to e_from local_id m1.m_sync_count true permut
          = r2 at h2
        obtain ⟨o2, m2⟩ := r2
        dsimp only at h2
        subst h2
        rfl
    · rw [if_neg htr]

/-- C36: the two calls on a forward-only rank pair. The mesh is the one the
constructor gives for a connectivity map that tracks no back-relations, after
modification_begin and the declaration of an element (offset 1) and a node (offset
2); the element holds no relation. declare_relation(element, node, 0) raises no
error and enters the forward position only; the destroy_relation(element, node, 0)
that follows removes the forward position and then throws, because it asks the
bucket of the node for the converse position without the test on the rank pair that
declare_relation makes. -/
theorem C36_forward_only_destroy_throws :
    scenario_two_entities_forward_only
      = (((construct scenario_meta scenario_forward_only_map 1 0 true true).modification_begin.2.declare_entity
          3 1 [10]).2.declare_entity 0 1 []).2 ∧
    ReachableCycles scenario_two_entities_forward_only ∧
    scenario_two_entities_forward_only.is_valid 1 = true ∧
    scenario_two_entities_forward_only.is_valid 2 = true ∧
    scenario_two_entities_forward_only.entity_rank 2
      < scenario_two_entities_forward_only.entity_rank 1 ∧
    scenario_two_entities_forward_only.tracks_back_relation 0 3 = false ∧
    scenario_two_entities_forward_only.connectivity 1 = [] ∧
    (scenario_two_entities_forward_only.declare_relation 1 2 0 0).1 = Outcome.ok () ∧
    (scenario_two_entities_forward_only.declare_relation 1 2 0 0).2.connectivity 1
      = [⟨0, 2, 0, 0⟩] ∧
    (scenario_two_entities_forward_only.declare_relation 1 2 0 0).2.connectivity 2 = [] ∧
    ((scenario_two_entities_forward_only.declare_relation 1 2 0 0).2.destroy_relation 1 2 0).1
      = Outcome.error " Internal error - could not destroy inverse relation" ∧
    ((scenario_two_entities_forward_only.declare_relation 1 2 0 0).2.destroy_relation
      1 2 0).2.connectivity 1 = [] :=
  ⟨rfl,
    ReachableCycles.declare_entity _ 0 1 []
      (ReachableCycles.declare_entity _ 3 1 [10]
        (ReachableCycles.modification_begin _
          (ReachableCycles.construct scenario_meta scenario_forward_only_map 1 0 true true))),
    by decide, by decide, by decide, by decide, by decide, by decide, by decide, by decide,
    by decide, by decide⟩

/-- On a rank pair whose back-relations are tracked, declaring and then destroying a
relation is a round trip. For valid entities with rank(from) > rank(to) of a
modifiable mesh reachable over any number of modification cycles, where `from`
holds no relation with the ordinal, declare_relation raises no error, the
destroy_relation that follows returns true, and every connectivity table is the
same as before the two calls. -/
theorem declare_destroy_round_trip (m : BulkData) (e_from e_to : Entity)
    (local_id : RelationIdentifier) (permut : Permutation) (hreach : ReachableCycles m)
    (hmod : m.m_sync_state ≠ BulkDataSyncState.SYNCHRONIZED)
    (hrank : m.entity_rank e_to < m.entity_rank e_from) (hvf : m.is_valid e_from = true)
    (hvt : m.is_valid e_to = true)
    (htracked : m.tracks_back_relation (m.entity_rank e_to) (m.entity_rank e_from) = true)
    (hnew : ∀ c ∈ m.connectivity e_from, c.ordinal ≠ local_id) :
    (m.declare_relation e_from e_to local_id permut).1 = Outcome.ok () ∧
    ((m.declare_relation e_from e_to local_id permut).2.destroy_relation e_from e_to local_id).1
      = Outcome.ok true ∧
    ∀ x, ((m.declare_relation e_from e_to local_id permut).2.destroy_relation
        e_from e_to local_id).2.connectivity x = m.connectivity x := by
  have hwf := reachable_cycles_wellformed m hreach
  have hne : e_to ≠ e_from := fun h => by rw [h] at hrank; exact Nat.lt_irrefl _ hrank
  have hsf : (m.mesh_index e_from).isSome = true := by rw [hwf.slot_iff_valid]; exact hvf
  have hst : (m.mesh_index e_to).isSome = true := by rw [hwf.slot_iff_valid]; exact hvt
  have hfwd_new : ∀ c ∈ m.connectivity e_from, ¬ holds_relation m e_to local_id c :=
    fun c hc hh => hnew c hc hh.2.2
  have hback : ∀ c ∈ m.connectivity e_to, ¬ holds_relation m e_from local_id c := by
    intro c hc hh
    have hpair : m.tracked_pair (m.entity_rank e_to) c.rank = true := by
      unfold tracked_pair
      rw [hh.1, Nat.min_eq_left (Nat.le_of_lt hrank), Nat.max_eq_right (Nat.le_of_lt hrank)]
      exact htracked
    have hmir := (hwf.mirrored e_to c hc (by rw [hh.1]; exact Nat.ne_of_gt hrank) hpair).2
    rw [hh.2.1] at hmir
    exact hnew _ hmir hh.2.2
  have hok := declare_relation_succeeds m e_from e_to local_id permut hmod hrank hvf hvt hsf hst
    hnew hback
  obtain ⟨fwd, inv, prt, hview, hfacts⟩ := declare_relation_outcome m e_from e_to local_id permut
  generalize m.declare_relation e_from e_to local_id permut = r at hok hview hfacts
  obtain ⟨o, m1⟩ := r
  dsimp only at hok hview hfacts ⊢
  obtain ⟨hframe, hconn, _, _⟩ := hview
  obtain ⟨f1, _, _, _, f5, f6⟩ := hfacts
  have hprt : prt = true := f1.1 hok
  have hfwd : fwd = true := by
    cases hf : fwd with
    | true => rfl
    | false =>
      obtain ⟨c, hc, hh⟩ := f6 hprt hf
      exact absurd hh (hfwd_new c hc)
  have hinv : inv = true := by
    cases hi : inv with
    | true => rfl
    | false =>
      have := (f5 hfwd hi htracked).1
      rw [hprt] at this
      exact Bool.noConfusion this
  have hconn_from : m1.connectivity e_from
      = m.connectivity e_from ++ [declared_entry m e_to local_id permut] := by
    rw [hconn, if_pos ⟨hfwd, rfl⟩, if_neg (fun h => hne h.2.symm), List.append_nil]
  have hconn_to : m1.connectivity e_to
      = m.connectivity e_to ++ [declared_entry m e_from local_id permut] := by
    rw [hconn, if_neg (fun h => hne h.2), if_pos ⟨hinv, rfl⟩, List.append_nil]
  have hconn_other : ∀ x, x ≠ e_from → x ≠ e_to → m1.connectivity x = m.connectivity x := by
    intro x h1 h2
    rw [hconn, if_neg (fun h => h1 h.2), if_neg (fun h => h2 h.2), List.append_nil,
      List.append_nil]
  have hfilter : ∀ (a b : Entity), (∀ c ∈ m.connectivity a, ¬ holds_relation m b local_id c) →
      (m.connectivity a ++ [declared_entry m b local_id permut]).filter
        (fun c => !relation_hit m1 b local_id c) = m.connectivity a := by
    intro a b hnone
    rw [List.filter_append]
    have h1 : (m.connectivity a).filter (fun c => !relation_hit m1 b local_id c)
        = m.connectivity a := by
      rw [List.filter_eq_self]
      intro c hc
      have : relation_hit m1 b local_id c = false := by
        by_contra hp
        have hp2 : relation_hit m1 b local_id c = true := by simpa using hp
        rw [hframe.relation_hit, relation_hit_iff] at hp2
        exact hnone c hc hp2
      simp [this]
    have h2 : [declared_entry m b local_id permut].filter
        (fun c => !relation_hit m1 b local_id c) = [] := by
      have : relation_hit m1 b local_id (declared_entry m b local_id permut) = true := by
        rw [hframe.relation_hit, relation_hit_iff]
        exact ⟨rfl, rfl, rfl⟩
      simp [this]
    rw [h1, h2, List.append_nil]
  obtain ⟨chk, prt2, fwd2, hview2, hfacts2⟩ := destroy_relation_outcome m1 e_from e_to local_id
  obtain ⟨_, hconn2, _, _⟩ := hview2
  obtain ⟨g1, _, _, g4, g5, _⟩ := hfacts2
  have hchk : chk = true := g1.2 ⟨by rw [hframe.sync_state]; exact hmod,
    by rw [hframe.entity_rank, hframe.entity_rank]; exact hrank,
    by rw [hframe.is_valid]; exact hvf, by rw [hframe.is_valid]; exact hvt⟩
  have hfwd2 : fwd2 = true := g4.2 ⟨hchk, declared_entry m e_to local_id permut,
    by rw [hconn_from]; exact List.mem_append_right _ (List.mem_singleton_self _),
    by rw [holds_relation, hframe.entity_rank]; exact ⟨rfl, rfl, rfl⟩⟩
  have hout := g5 hchk (fun _ => ⟨declared_entry m e_from local_id permut,
    by rw [hconn_to]; exact List.mem_append_right _ (List.mem_singleton_self _),
    by rw [holds_relation, hframe.entity_rank]; exact ⟨rfl, rfl, rfl⟩⟩)
  rw [hfwd2] at hout
  refine ⟨hok, hout, ?_⟩
  intro x
  rw [hconn2]
  by_cases hx1 : x = e_from
  · rw [if_pos ⟨hchk, hx1⟩, hconn_from, hx1]
    exact hfilter e_from e_to hfwd_new
  · rw [if_neg (fun h => hx1 h.2)]
    by_cases hx2 : x = e_to
    · rw [if_pos ⟨hfwd2, hx2⟩, hconn_to, hx2]
      exact hfilter e_to e_from hback
    · rw [if_neg (fun h => hx2 h.2)]
      exact hconn_other x hx1 hx2

theorem scenario_two_entities_reachable : ReachableCycles scenario_two_entities :=
  ReachableCycles.declare_entity _ 0 1 []
    (ReachableCycles.declare_entity _ 3 1 [10]
      (ReachableCycles.modification_begin _
        (ReachableCycles.construct scenario_meta scenario_map 1 0 true true)))

/-- The round trip on the map that tracks every rank pair. -/
theorem declare_destroy_round_trip_example :
    ReachableCycles scenario_two_entities ∧
    scenario_two_entities.entity_rank 2 < scenario_two_entities.entity_rank 1 ∧
    scenario_two_entities.tracks_back_relation 0 3 = true ∧
    (scenario_two_entities.declare_relation 1 2 0 0).2.connectivity 1 = [⟨0, 2, 0, 0⟩] ∧
    ((scenario_two_entities.declare_relation 1 2 0 0).2.destroy_relation 1 2 0).1
      = Outcome.ok true ∧
    ∀ x, ((scenario_two_entities.declare_relation 1 2 0 0).2.destroy_relation
        1 2 0).2.connectivity x = scenario_two_entities.connectivity x :=
  have hwf := scenario_two_entities_reachable
  have h := declare_destroy_round_trip scenario_two_entities 1 2 0 0 hwf (by decide)
    (by decide) (by decide) (by decide) (by decide)
    (fun c hc => absurd hc (by
      have : scenario_two_entities.connectivity 1 = [] := by decide
      rw [this]; exact List.not_mem_nil c))
  ⟨hwf, by decide, by decide, by decide, h.2.1, h.2.2⟩

/-! ## The lookups in_ghost and comm_procs -/

theorem comm_info_less_of_le_of_less (a b c : EntityCommInfo)
    (hab : comm_info_less b a = false) (hbc : comm_info_less b c = true) :
    comm_info_less a c = true := by
  unfold comm_info_less at *
  simp only [Bool.or_eq_true, Bool.and_eq_true, decide_eq_true_eq, Bool.or_eq_false_iff,
    Bool.and_eq_false_iff, decide_eq_false_iff_not] at *
  omega

theorem comm_info_less_irrefl (a : EntityCommInfo) : comm_info_less a a = false := by
  unfold comm_info_less
  simp

theorem comm_info_eq_of_not_less (a b : EntityCommInfo) (h1 : comm_info_less a b = false)
    (h2 : comm_info_less b a = false) : a = b := by
  unfold comm_info_less at *
  simp only [Bool.or_eq_false_iff, Bool.and_eq_false_iff, decide_eq_false_iff_not] at *
  cases a with
  | mk ga pa =>
    cases b with
    | mk gb pb =>
      simp only at h1 h2
      have hg : ga = gb := by omega
      have hp : pa = pb := by omega
      rw [hg, hp]

theorem comm_info_sorted_getElem? (l : List EntityCommInfo) (hs : comm_info_sorted l)
    (i j : Nat) (a b : EntityCommInfo) (hij : i < j)
    (ha : l[i]? = some a) (hb : l[j]? = some b) : comm_info_less b a = false := by
  obtain ⟨hi, hai⟩ := List.getElem?_eq_some.1 ha
  obtain ⟨hj, hbj⟩ := List.getElem?_eq_some.1 hb
  have := List.pairwise_iff_getElem.1 hs i j hi hj hij
  rw [hai, hbj] at this
  exact this

/-- The bisection returns the first position whose entry is not less than `value`. -/
theorem comm_info_lower_bound_go_spec (l : List EntityCommInfo) (value : EntityCommInfo)
    (hs : comm_info_sorted l) (fuel : Nat) :
    ∀ (first count : Nat), count < fuel → first + count ≤ l.length →
      (∀ (i : Nat) (info : EntityCommInfo), i < first → l[i]? = some info →
        comm_info_less info value = true) →
      (∀ (i : Nat) (info : EntityCommInfo), first + count ≤ i → l[i]? = some info →
        comm_info_less info value = false) →
      (∀ (i : Nat) (info : EntityCommInfo),
        i < comm_info_lower_bound_go l value fuel first count → l[i]? = some info →
        comm_info_less info value = true) ∧
      (∀ (i : Nat) (info : EntityCommInfo),
        comm_info_lower_bound_go l value fuel first count ≤ i → l[i]? = some info →
        comm_info_less info value = false) ∧
      comm_info_lower_bound_go l value fuel first count ≤ l.length := by
  induction fuel with
  | zero => intro first count h; exact absurd h (Nat.not_lt_zero _)
  | succ fuel ih =>
    intro first count hfuel hlen hlow hhigh
    unfold comm_info_lower_bound_go
    by_cases hc : count = 0
    · rw [if_pos hc]
      subst hc
      exact ⟨hlow, fun i info hi => hhigh i info (by simpa using hi), by omega⟩
    · rw [if_neg hc]
      dsimp only
      have hstep : count / 2 < count := Nat.div_lt_self (Nat.pos_of_ne_zero hc) (by decide)
      have hit : first + count / 2 < l.length := by omega
      have hget : l.get? (first + count / 2) = some (l[first + count / 2]) := by
        rw [List.get?_eq_getElem?]
        exact List.getElem?_eq_getElem hit
      have hget2 : l[first + count / 2]? = some (l[first + count / 2]) :=
        List.getElem?_eq_getElem hit
      rw [hget]
      dsimp only
      by_cases hless : comm_info_less (l[first + count / 2]) value = true
      · rw [if_pos hless]
        apply ih (first + count / 2 + 1) (count - (count / 2 + 1)) (by omega) (by omega)
        · intro i info hi hinfo
          by_cases h1 : i < first
          · exact hlow i info h1 hinfo
          · by_cases h2 : i = first + count / 2
            · rw [h2, hget2] at hinfo
              rw [← Option.some.inj hinfo]
              exact hless
            · exact comm_info_less_of_le_of_less _ _ _
                (comm_info_sorted_getElem? l hs i (first + count / 2) info _ (by omega) hinfo
                  hget2) hless
        · intro i info hi hinfo
          exact hhigh i info (by omega) hinfo
      · rw [if_neg hless]
        apply ih first (count / 2) (by omega) (by omega) hlow
        intro i info hi hinfo
        by_cases h2 : i = first + count / 2
        · rw [h2, hget2] at hinfo
          rw [← Option.some.inj hinfo]
          simpa using hless
        · cases hk : comm_info_less info value with
          | false => rfl
          | true =>
            exfalso
            apply hless
            exact comm_info_less_of_le_of_less _ _ _
              (comm_info_sorted_getElem? l hs (first + count / 2) i _ info (by omega) hget2
                hinfo) hk

theorem comm_info_lower_bound_spec (l : List EntityCommInfo) (value : EntityCommInfo)
    (hs : comm_info_sorted l) :
    (∀ (i : Nat) (info : EntityCommInfo), i < comm_info_lower_bound l value →
      l[i]? = some info → comm_info_less info value = true) ∧
    (∀ (i : Nat) (info : EntityCommInfo), comm_info_lower_bound l value ≤ i →
      l[i]? = some info → comm_info_less info value = false) ∧
    comm_info_lower_bound l value ≤ l.length := by
  unfold comm_info_lower_bound
  apply comm_info_lower_bound_go_spec l value hs (l.length + 1) 0 l.length (Nat.lt_succ_self _)
    (by omega)
  · intro i info hi; exact absurd hi (Nat.not_lt_zero _)
  · intro i info hi hinfo
    obtain ⟨h, _⟩ := List.getElem?_eq_some.1 hinfo
    omega

/-- C40: in_ghost agrees with a linear scan. For a key whose comm-info run is sorted
by (ghost ordinal, process), in_ghost(ghosting, key, proc) returns what the linear
scan of the run for the pair (ghosting.ordinal, proc) returns, which is true exactly
when the pair occurs in the run; for a key with an empty run it returns false. -/
theorem C40_in_ghost_agrees_with_linear_scan (m : BulkData) (ghost : Ghosting) (key : EntityKey)
    (proc : Nat) (hs : comm_info_sorted (m.entity_comm key)) :
    m.in_ghost ghost key proc = m.in_ghost_linear_scan ghost key proc ∧
    (m.in_ghost ghost key proc = true ↔ (⟨ghost.ordinal, proc⟩ : EntityCommInfo) ∈ m.entity_comm key) ∧
    (m.entity_comm key = [] → m.in_ghost ghost key proc = false) := by
  obtain ⟨hlow, hhigh, hle⟩ := comm_info_lower_bound_spec (m.entity_comm key) ⟨ghost.ordinal, proc⟩ hs
  have hiff : m.in_ghost ghost key proc = true ↔
      (⟨ghost.ordinal, proc⟩ : EntityCommInfo) ∈ m.entity_comm key := by
    unfold in_ghost
    dsimp only
    constructor
    · intro h
      rw [Bool.and_eq_true] at h
      obtain ⟨_, h2⟩ := h
      cases hget : (m.entity_comm key).get?
          (comm_info_lower_bound (m.entity_comm key) ⟨ghost.ordinal, proc⟩) with
      | none => rw [hget] at h2; exact absurd h2 (by simp)
      | some info =>
        rw [hget] at h2
        have heq : (⟨ghost.ordinal, proc⟩ : EntityCommInfo) = info := by simpa using h2
        rw [heq]
        exact List.get?_mem hget
    · intro hmem
      obtain ⟨i, hi, hget⟩ := List.getElem_of_mem hmem
      have hget2 : (m.entity_comm key)[i]? = some ⟨ghost.ordinal, proc⟩ := by
        rw [List.getElem?_eq_getElem hi, hget]
      have hlb : comm_info_lower_bound (m.entity_comm key) ⟨ghost.ordinal, proc⟩ ≤ i := by
        by_contra hcon
        have := hlow i _ (Nat.lt_of_not_le hcon) hget2
        rw [comm_info_less_irrefl] at this
        exact Bool.noConfusion this
      have hlt : comm_info_lower_bound (m.entity_comm key) ⟨ghost.ordinal, proc⟩
          < (m.entity_comm key).length := Nat.lt_of_le_of_lt hlb hi
      obtain ⟨x, hat⟩ : ∃ x, (m.entity_comm key)[comm_info_lower_bound (m.entity_comm key)
          ⟨ghost.ordinal, proc⟩]? = some x := ⟨_, List.getElem?_eq_getElem hlt⟩
      have h1 := hhigh _ _ (Nat.le_refl _) hat
      have h2 : comm_info_less ⟨ghost.ordinal, proc⟩ x = false := by
        by_cases hi2 : comm_info_lower_bound (m.entity_comm key) ⟨ghost.ordinal, proc⟩ = i
        · have h3 := hat
          rw [hi2, hget2] at h3
          rw [← Option.some.inj h3]
          exact comm_info_less_irrefl _
        · exact comm_info_sorted_getElem? _ hs _ i _ _ (by omega) hat hget2
      have heq := comm_info_eq_of_not_less _ _ h1 h2
      rw [Bool.and_eq_true]
      refine ⟨by simpa using Nat.ne_of_lt hlt, ?_⟩
      rw [List.get?_eq_getElem?, hat]
      simpa using heq.symm
  have hscan : m.in_ghost_linear_scan ghost key proc = true ↔
      (⟨ghost.ordinal, proc⟩ : EntityCommInfo) ∈ m.entity_comm key := by
    unfold in_ghost_linear_scan
    rw [List.any_eq_true]
    constructor
    · rintro ⟨info, hinfo, h⟩
      simp only [Bool.and_eq_true, beq_iff_eq] at h
      have : info = ⟨ghost.ordinal, proc⟩ := by
        cases info with
        | mk g p => simp only at h; rw [h.1, h.2]
      rw [← this]
      exact hinfo
    · intro h
      exact ⟨_, h, by simp⟩
  refine ⟨?_, hiff, ?_⟩
  · cases h1 : m.in_ghost ghost key proc with
    | true => exact (hscan.2 (hiff.1 h1)).symm
    | false =>
      cases h2 : m.in_ghost_linear_scan ghost key proc with
      | false => rfl
      | true =>
        have := hiff.2 (hscan.1 h2)
        rw [h1] at this
        exact Bool.noConfusion this
  · intro hempty
    cases h1 : m.in_ghost ghost key proc with
    | false => rfl
    | true =>
      have := hiff.1 h1
      rw [hempty] at this
      exact absurd this (List.not_mem_nil _)

theorem C40_witness :
    comm_info_sorted (scenario_ghosted.entity_comm ⟨0, 1⟩) ∧
    scenario_ghosted.entity_comm ⟨0, 1⟩ = [⟨0, 2⟩, ⟨1, 1⟩, ⟨1, 2⟩] ∧
    scenario_ghosted.in_ghost ⟨1⟩ ⟨0, 1⟩ 2 = true ∧
    scenario_ghosted.in_ghost ⟨0⟩ ⟨0, 1⟩ 1 = false ∧
    scenario_ghosted.in_ghost ⟨1⟩ ⟨0, 1⟩ 2 = scenario_ghosted.in_ghost_linear_scan ⟨1⟩ ⟨0, 1⟩ 2 :=
  have hs : comm_info_sorted (scenario_ghosted.entity_comm ⟨0, 1⟩) := by
    have : scenario_ghosted.entity_comm ⟨0, 1⟩ = [⟨0, 2⟩, ⟨1, 1⟩, ⟨1, 2⟩] := by decide
    rw [this]
    unfold comm_info_sorted
    decide
  ⟨hs, by decide, by decide, by decide,
    (C40_in_ghost_agrees_with_linear_scan scenario_ghosted ⟨1⟩ ⟨0, 1⟩ 2 hs).1⟩

theorem foldl_push_back (l : List EntityCommInfo) (init : List Nat) :
    l.foldl (fun acc ec => acc ++ [ec.proc]) init = init ++ l.map (fun ec => ec.proc) := by
  induction l generalizing init with
  | nil => simp
  | cons a rest ih => rw [List.foldl_cons, ih, List.map_cons, List.append_assoc]; rfl

theorem std_sort_sorted (l : List Nat) : (std_sort l).Pairwise (fun a b => a ≤ b) :=
  List.sorted_insertionSort (fun a b : Nat => a ≤ b) l

theorem std_sort_mem (l : List Nat) (x : Nat) : x ∈ std_sort l ↔ x ∈ l :=
  (List.perm_insertionSort (fun a b : Nat => a ≤ b) l).mem_iff

/-- On an ascending vector `std::unique` leaves a strictly ascending vector with the
same elements. -/
theorem std_unique_go_spec (l : List Nat) (a : Nat)
    (hs : (a :: l).Pairwise (fun a b => a ≤ b)) :
    (a :: std_unique_go a l).Pairwise (fun a b => a < b) ∧
    ∀ x, x ∈ a :: std_unique_go a l ↔ x ∈ a :: l := by
  induction l generalizing a with
  | nil => exact ⟨List.pairwise_singleton _ _, fun x => Iff.rfl⟩
  | cons b rest ih =>
    rw [List.pairwise_cons] at hs
    obtain ⟨ha, hrest⟩ := hs
    have hrest2 := List.pairwise_cons.1 hrest
    unfold std_unique_go
    by_cases hab : a = b
    · rw [if_pos hab]
      have h := ih a (List.pairwise_cons.2
        ⟨fun x hx => ha x (List.mem_cons_of_mem _ hx), hrest2.2⟩)
      refine ⟨h.1, fun x => ?_⟩
      rw [h.2 x, ← hab]
      simp
    · rw [if_neg hab]
      have h := ih b hrest
      refine ⟨List.pairwise_cons.2 ⟨fun x hx => ?_, h.1⟩, fun x => ?_⟩
      · have hx2 := (h.2 x).1 hx
        have hb : a ≤ b := ha b (List.mem_cons_self _ _)
        have hlt : a < b := Nat.lt_of_le_of_ne hb hab
        rcases List.mem_cons.1 hx2 with hxb | hxr
        · rw [hxb]; exact hlt
        · exact Nat.lt_of_lt_of_le hlt (hrest2.1 x hxr)
      · rw [List.mem_cons, h.2 x, List.mem_cons (a := x) (b := a)]

theorem std_unique_spec (l : List Nat) (hs : l.Pairwise (fun a b => a ≤ b)) :
    (std_unique l).Pairwise (fun a b => a < b) ∧ ∀ x, x ∈ std_unique l ↔ x ∈ l := by
  cases l with
  | nil => exact ⟨List.Pairwise.nil, fun x => Iff.rfl⟩
  | cons a rest => exact std_unique_go_spec rest a hs

/-- C33: comm_procs(key, procs) is a lookup whose result is canonical. It is a
function of the mesh (a const member: no member is written). For every key the
vector it leaves in `procs` is strictly increasing, its elements are exactly the
process ranks that occur in the comm-info run of the key, and it does not depend on
what `procs` held before. -/
theorem C33_comm_procs_canonical (m : BulkData) (key : EntityKey) (procs : List Nat) :
    (m.comm_procs key procs).Pairwise (fun a b => a < b) ∧
    (∀ p, p ∈ m.comm_procs key procs ↔ ∃ info ∈ m.entity_comm key, info.proc = p) ∧
    m.comm_procs key procs = m.comm_procs key [] := by
  have h := std_unique_spec _ (std_sort_sorted
    ((m.entity_comm key).foldl (fun acc ec => acc ++ [ec.proc]) (vector_clear procs)))
  refine ⟨h.1, fun p => ?_, rfl⟩
  unfold comm_procs
  dsimp only
  rw [h.2, std_sort_mem, foldl_push_back]
  simp [vector_clear]

/-- In the example the node is shared with process 2 and ghosted to processes 1 and
2: the result is [1, 2] whatever the vector held. -/
theorem comm_procs_example :
    scenario_ghosted.entity_comm ⟨0, 1⟩ = [⟨0, 2⟩, ⟨1, 1⟩, ⟨1, 2⟩] ∧
    scenario_ghosted.comm_procs ⟨0, 1⟩ [7, 7, 3] = [1, 2] ∧
    scenario_ghosted.comm_procs ⟨3, 1⟩ [7] = [] := by
  decide
end BulkData

end StkMesh

namespace Tpetra

namespace Details

/-! ## computeOffsetsFromCounts -/

theorem sum_take_succ_getD (counts : List Int) (n : Nat) :
    (counts.take (n + 1)).sum
      = (counts.take n).sum + (if n < counts.length then counts.getD n 0 else 0) := by
  by_cases h : n < counts.length
  · rw [if_pos h, List.sum_take_succ counts n h, List.getD_eq_getElem counts 0 h]
  · rw [if_neg h, List.take_of_length_le (by omega), List.take_of_length_le (by omega)]
    simp

/-- The scan after `n` indexes: the entries below `n` hold the sums of the counts
before them, the other entries are as they were, and the running value is the sum
of the first `n` counts. -/
theorem parallel_scan_spec (counts ptr : List Int) (n : Nat) :
    (parallel_scan n (ComputeOffsetsFromCounts_call counts counts.length) ptr).2
      = (counts.take n).sum ∧
    (parallel_scan n (ComputeOffsetsFromCounts_call counts counts.length) ptr).1.length
      = ptr.length ∧
    ∀ i, (parallel_scan n (ComputeOffsetsFromCounts_call counts counts.length) ptr).1[i]?
      = if i < n ∧ i < ptr.length then some ((counts.take i).sum) else ptr[i]? := by
  induction n with
  | zero =>
    refine ⟨by simp [parallel_scan], by simp [parallel_scan], fun i => ?_⟩
    simp [parallel_scan]
  | succ n ih =>
    obtain ⟨h1, h2, h3⟩ := ih
    have hstep : parallel_scan (n + 1) (ComputeOffsetsFromCounts_call counts counts.length) ptr
        = ComputeOffsetsFromCounts_call counts counts.length n
            (parallel_scan n (ComputeOffsetsFromCounts_call counts counts.length) ptr).1
            (parallel_scan n (ComputeOffsetsFromCounts_call counts counts.length) ptr).2 true := by
      unfold parallel_scan
      rw [List.range_succ, List.foldl_append]
      rfl
    rw [hstep]
    generalize parallel_scan n (ComputeOffsetsFromCounts_call counts counts.length) ptr = st
      at h1 h2 h3
    obtain ⟨offs, upd⟩ := st
    dsimp only at h1 h2 h3
    unfold ComputeOffsetsFromCounts_call
    dsimp only
    refine ⟨?_, ?_, fun i => ?_⟩
    · rw [sum_take_succ_getD, h1]
      by_cases h : n < counts.length
      · simp [h]
      · simp [h]
    · simp [h2]
    · rw [if_pos rfl]
      by_cases hin : i = n
      · subst hin
        by_cases hil : i < ptr.length
        · rw [if_pos ⟨Nat.lt_succ_self _, hil⟩, List.getElem?_set_self (by omega), h1]
        · rw [if_neg (fun h => hil h.2), List.getElem?_eq_none (by simp; omega),
            List.getElem?_eq_none (by omega)]
      · rw [List.getElem?_set_ne (fun h => hin h.symm), h3]
        by_cases hlt : i < n
        · by_cases hil : i < ptr.length
          · rw [if_pos ⟨hlt, hil⟩, if_pos ⟨by omega, hil⟩]
          · rw [if_neg (fun h => hil h.2), if_neg (fun h => hil h.2)]
        · rw [if_neg (fun h => hlt h.1), if_neg (fun h => by omega)]

/-- What computeOffsetsFromCounts does on arrays it accepts. -/
theorem computeOffsetsFromCounts_spec (ptr counts : List Int) (hne : ptr ≠ [])
    (hlt : counts.length < ptr.length) :
    (computeOffsetsFromCounts ptr counts).1 = StkMesh.Outcome.ok counts.sum ∧
    (computeOffsetsFromCounts ptr counts).2.length = ptr.length ∧
    ∀ i, (computeOffsetsFromCounts ptr counts).2[i]?
      = if i ≤ counts.length then some ((counts.take i).sum) else ptr[i]? := by
  have hlen : ptr.length ≠ 0 := fun h => hne (List.length_eq_zero.1 h)
  obtain ⟨h1, h2, h3⟩ := parallel_scan_spec counts ptr (counts.length + 1)
  unfold computeOffsetsFromCounts
  dsimp only
  rw [if_pos hlen, if_neg (by omega)]
  unfold ComputeOffsetsFromCounts_run
  dsimp only
  refine ⟨?_, h2, fun i => ?_⟩
  · rw [h1, List.take_of_length_le (by omega)]
  · rw [h3]
    by_cases hi : i ≤ counts.length
    · rw [if_pos ⟨by omega, by omega⟩, if_pos hi]
    · rw [if_neg (fun h => by omega), if_neg hi]

/-- C34: for every non-empty offsets array ptr and counts array with counts.size() <
ptr.size(), computeOffsetsFromCounts returns normally and writes the exclusive
prefix sums of counts into ptr: ptr[0] = 0 and, for every i < counts.size(),
ptr[i+1] = ptr[i] + counts[i] = counts[0] + ... + counts[i] (unbounded integers). -/
theorem C34_offsets_are_prefix_sums (ptr counts : List Int) (hne : ptr ≠ [])
    (hlt : counts.length < ptr.length) :
    (computeOffsetsFromCounts ptr counts).1.isError = false ∧
    (computeOffsetsFromCounts ptr counts).2.length = ptr.length ∧
    (computeOffsetsFromCounts ptr counts).2[0]? = some 0 ∧
    ∀ i, i < counts.length →
      (computeOffsetsFromCounts ptr counts).2[i + 1]? = some ((counts.take (i + 1)).sum) ∧
      (computeOffsetsFromCounts ptr counts).2.getD (i + 1) 0
        = (computeOffsetsFromCounts ptr counts).2.getD i 0 + counts.getD i 0 := by
  obtain ⟨h1, h2, h3⟩ := computeOffsetsFromCounts_spec ptr counts hne hlt
  refine ⟨by rw [h1]; rfl, h2, ?_, fun i hi => ?_⟩
  · rw [h3, if_pos (Nat.zero_le _)]
    simp
  · have ha := h3 (i + 1)
    rw [if_pos (by omega)] at ha
    have hb := h3 i
    rw [if_pos (by omega)] at hb
    refine ⟨ha, ?_⟩
    rw [List.getD_eq_getElem?_getD, List.getD_eq_getElem?_getD, ha, hb, sum_take_succ_getD,
      if_pos hi]
    rfl

theorem C34_witness :
    ([9, 9, 9, 9] : List Int) ≠ [] ∧
    computeOffsetsFromCounts [9, 9, 9, 9] [5, 0, 2] = (StkMesh.Outcome.ok 7, [0, 5, 5, 7]) ∧
    (computeOffsetsFromCounts [9, 9, 9, 9] [5, 0, 2]).2[0]? = some 0 :=
  ⟨by decide, by decide,
    (C34_offsets_are_prefix_sums [9, 9, 9, 9] [5, 0, 2] (by decide) (by decide)).2.2.1⟩

/-- C35 (counterexample): with an array ptr of three entries and one count, which
the function accepts, the scan runs over the indexes 0 and 1 only: it returns 5, and
the last entry of ptr is still what it was. With an empty ptr and the count 5 the
function returns 0. -/
theorem C35_counterexample :
    computeOffsetsFromCounts [9, 9, 9] [5] = (StkMesh.Outcome.ok 5, [0, 5, 9]) ∧
    (computeOffsetsFromCounts [9, 9, 9] [5]).2.getLast? = some 9 ∧
    computeOffsetsFromCounts [] [5] = (StkMesh.Outcome.ok 0, []) ∧
    ([5] : List Int).sum = 5 := by
  decide

/-- C35 (amended): when ptr is one entry longer than counts,
computeOffsetsFromCounts(ptr, counts) returns the sum of all entries of counts, and
that value is the last entry of ptr after the call. -/
theorem C35_returns_total (ptr counts : List Int) (hlen : ptr.length = counts.length + 1) :
    (computeOffsetsFromCounts ptr counts).1 = StkMesh.Outcome.ok counts.sum ∧
    (computeOffsetsFromCounts ptr counts).2.getLast? = some counts.sum := by
  have hne : ptr ≠ [] := fun h => by rw [h] at hlen; simp at hlen
  obtain ⟨h1, h2, h3⟩ := computeOffsetsFromCounts_spec ptr counts hne (by omega)
  refine ⟨h1, ?_⟩
  rw [List.getLast?_eq_getElem?, h2, hlen, Nat.add_sub_cancel, h3, if_pos (Nat.le_refl _),
    List.take_of_length_le (Nat.le_refl _)]

theorem C35_witness :
    ([9, 9, 9, 9] : List Int).length = ([5, 0, 2] : List Int).length + 1 ∧
    (computeOffsetsFromCounts [9, 9, 9, 9] [5, 0, 2]).1 = StkMesh.Outcome.ok 7 ∧
    (computeOffsetsFromCounts [9, 9, 9, 9] [5, 0, 2]).2.getLast? = some 7 :=
  ⟨by decide, (C35_returns_total [9, 9, 9, 9] [5, 0, 2] (by decide)).1,
    (C35_returns_total [9, 9, 9, 9] [5, 0, 2] (by decide)).2⟩

end Details

end Tpetra

namespace StkMesh

namespace BulkData


/-! ## The rotation of update_field_data_states -/

theorem PointersMoved.unmoved (fd : FieldData) : PointersMoved fd fd :=
  ⟨rfl, rfl, fun _ => rfl, fun _ _ => rfl⟩

theorem PointersMoved.comp {a b c : FieldData} (h1 : PointersMoved a b)
    (h2 : PointersMoved b c) : PointersMoved a c := by
  refine ⟨?_, h2.length.trans h1.length, fun o => (h2.inner o).trans (h1.inner o), fun o b => ?_⟩
  · have e1 := h1.members
    have e2 := h2.members
    rw [e2, e1]
  · have e1 := h1.record o b
    have e2 := h2.record o b
    rw [e2, e1]

theorem PointersMoved.size {fd fd1 : FieldData} (h : PointersMoved fd fd1) (o b : Nat) :
    (field_meta_data_at fd1 o b).m_size = (field_meta_data_at fd o b).m_size := by
  rw [h.record o b]

theorem PointersMoved.num_fields {fd fd1 : FieldData} (h : PointersMoved fd fd1) :
    fd1.m_num_fields = fd.m_num_fields := by
  rw [h.members]

theorem PointersMoved.field_set {fd fd1 : FieldData} (h : PointersMoved fd fd1) :
    fd1.field_set = fd.field_set := by
  rw [h.members]

theorem PointersMoved.raw {fd fd1 : FieldData} (h : PointersMoved fd fd1) :
    fd1.m_field_raw_data = fd.m_field_raw_data := by
  rw [h.members]

theorem field_meta_data_at_set (fd : FieldData) (o b : Nat) (p : Option Nat) (o1 b1 : Nat) :
    field_meta_data_at (set_field_data fd o b p) o1 b1
      = if o1 = o ∧ b1 = b ∧ o < fd.m_field_meta_data.length ∧
          b < (fd.m_field_meta_data.getD o []).length then
          { field_meta_data_at fd o b with m_data := p }
        else field_meta_data_at fd o1 b1 := by
  unfold field_meta_data_at set_field_data
  dsimp only
  rw [modify_at_getD]
  by_cases h1 : o1 = o ∧ o < fd.m_field_meta_data.length
  · rw [if_pos h1, modify_at_getD]
    by_cases h2 : b1 = b ∧ b < (fd.m_field_meta_data.getD o []).length
    · rw [if_pos h2, if_pos ⟨h1.1, h2.1, h1.2, h2.2⟩]
    · rw [if_neg h2, if_neg (fun h => h2 ⟨h.2.1, h.2.2.2⟩), h1.1]
  · rw [if_neg h1, if_neg (fun h => h1 ⟨h.1, h.2.2.1⟩)]

theorem set_field_data_moved (fd : FieldData) (o b : Nat) (p : Option Nat) :
    PointersMoved fd (set_field_data fd o b p) := by
  refine ⟨rfl, ?_, fun o1 => ?_, fun o1 b1 => ?_⟩
  · unfold set_field_data; dsimp only; rw [modify_at_length]
  · unfold set_field_data; dsimp only
    rw [modify_at_getD]
    by_cases h1 : o1 = o ∧ o < fd.m_field_meta_data.length
    · rw [if_pos h1, modify_at_length, h1.1]
    · rw [if_neg h1]
  · rw [field_meta_data_at_set]
    by_cases h : o1 = o ∧ b1 = b ∧ o < fd.m_field_meta_data.length ∧
        b < (fd.m_field_meta_data.getD o []).length
    · rw [if_pos h, h.1, h.2.1]
    · rw [if_neg h]

/-- The exchanges of the rotation after `k` states: the states 1 to `k` hold the
former pointer of the state before them, `data_last` is the former pointer of state
`k`, and no other record has changed. -/
theorem rotate_fold_spec (fd : FieldData) (o b : Nat) (k : Nat)
    (hin : ∀ s, s ≤ k → o + s < fd.m_field_meta_data.length ∧
      b < (fd.m_field_meta_data.getD (o + s) []).length) :
    PointersMoved fd ((List.range' 1 k).foldl
        (fun (st : FieldData × Option Nat) s =>
          (set_field_data st.1 (o + s) b st.2, (field_meta_data_at st.1 (o + s) b).m_data))
        (fd, (field_meta_data_at fd o b).m_data)).1 ∧
    ((List.range' 1 k).foldl
        (fun (st : FieldData × Option Nat) s =>
          (set_field_data st.1 (o + s) b st.2, (field_meta_data_at st.1 (o + s) b).m_data))
        (fd, (field_meta_data_at fd o b).m_data)).2 = (field_meta_data_at fd (o + k) b).m_data ∧
    (∀ s, 1 ≤ s → s ≤ k →
      (field_meta_data_at ((List.range' 1 k).foldl
        (fun (st : FieldData × Option Nat) s =>
          (set_field_data st.1 (o + s) b st.2, (field_meta_data_at st.1 (o + s) b).m_data))
        (fd, (field_meta_data_at fd o b).m_data)).1 (o + s) b).m_data
        = (field_meta_data_at fd (o + s - 1) b).m_data) ∧
    (∀ o1 b1, ¬ (b1 = b ∧ o + 1 ≤ o1 ∧ o1 ≤ o + k) →
      field_meta_data_at ((List.range' 1 k).foldl
        (fun (st : FieldData × Option Nat) s =>
          (set_field_data st.1 (o + s) b st.2, (field_meta_data_at st.1 (o + s) b).m_data))
        (fd, (field_meta_data_at fd o b).m_data)).1 o1 b1 = field_meta_data_at fd o1 b1) := by
  induction k with
  | zero =>
    refine ⟨PointersMoved.unmoved fd, rfl, fun s h1 h2 => absurd h1 (by omega), fun _ _ _ => rfl⟩
  | succ k ih =>
    obtain ⟨hm, hlast, hdone, hrest⟩ := ih (fun s hs => hin s (Nat.le_succ_of_le hs))
    rw [List.range'_concat, List.foldl_append]
    generalize (List.range' 1 k).foldl
        (fun (st : FieldData × Option Nat) s =>
          (set_field_data st.1 (o + s) b st.2, (field_meta_data_at st.1 (o + s) b).m_data))
        (fd, (field_meta_data_at fd o b).m_data) = st at hm hlast hdone hrest
    obtain ⟨fd1, last⟩ := st
    dsimp only at hm hlast hdone hrest
    simp only [List.foldl_cons, List.foldl_nil, Nat.one_mul]
    have hrange := hin (k + 1) (Nat.le_refl _)
    have hin1 : o + (1 + k) < fd1.m_field_meta_data.length ∧
        b < (fd1.m_field_meta_data.getD (o + (1 + k)) []).length := by
      rw [hm.length, hm.inner, Nat.add_comm 1 k]
      exact hrange
    refine ⟨hm.comp (set_field_data_moved _ _ _ _), ?_, fun s h1 h2 => ?_, fun o1 b1 h => ?_⟩
    · rw [hrest _ _ (fun h => by omega), Nat.add_comm 1 k]
    · rw [field_meta_data_at_set]
      by_cases hs : s = 1 + k
      · rw [if_pos ⟨by rw [hs], rfl, hin1.1, hin1.2⟩, hlast, hs]
        have he : o + (1 + k) - 1 = o + k := by omega
        rw [he]
      · have hne : ¬ (o + s = o + (1 + k) ∧ b = b ∧ o + (1 + k) < fd1.m_field_meta_data.length ∧
            b < (fd1.m_field_meta_data.getD (o + (1 + k)) []).length) := by
          intro h
          exact hs (by omega)
        rw [if_neg hne]
        exact hdone s h1 (by omega)
    · have hne : ¬ (o1 = o + (1 + k) ∧ b1 = b ∧ o + (1 + k) < fd1.m_field_meta_data.length ∧
          b < (fd1.m_field_meta_data.getD (o + (1 + k)) []).length) := by
        intro h2
        exact h ⟨h2.2.1, by omega, by omega⟩
      rw [field_meta_data_at_set, if_neg hne]
      exact hrest o1 b1 (fun h2 => h ⟨h2.1, h2.2.1, by omega⟩)

/-- The rotation of one bucket of one field with `num_state` states. -/
theorem rotate_field_data_spec (fd : FieldData) (o num_state b : Nat) (hN : 1 ≤ num_state)
    (hin : ∀ s, s < num_state → o + s < fd.m_field_meta_data.length ∧
      b < (fd.m_field_meta_data.getD (o + s) []).length) :
    PointersMoved fd (rotate_field_data fd o num_state b) ∧
    (field_meta_data_at (rotate_field_data fd o num_state b) o b).m_data
      = (field_meta_data_at fd (o + num_state - 1) b).m_data ∧
    (∀ s, 1 ≤ s → s < num_state →
      (field_meta_data_at (rotate_field_data fd o num_state b) (o + s) b).m_data
        = (field_meta_data_at fd (o + s - 1) b).m_data) ∧
    (∀ o1 b1, ¬ (b1 = b ∧ o ≤ o1 ∧ o1 < o + num_state) →
      field_meta_data_at (rotate_field_data fd o num_state b) o1 b1
        = field_meta_data_at fd o1 b1) := by
  obtain ⟨hm, hlast, hdone, hrest⟩ := rotate_fold_spec fd o b (num_state - 1)
    (fun s hs => hin s (by omega))
  unfold rotate_field_data
  dsimp only
  generalize (List.range' 1 (num_state - 1)).foldl
      (fun (st : FieldData × Option Nat) s =>
        (set_field_data st.1 (o + s) b st.2, (field_meta_data_at st.1 (o + s) b).m_data))
      (fd, (field_meta_data_at fd o b).m_data) = st at hm hlast hdone hrest
  obtain ⟨fd1, last⟩ := st
  dsimp only at hm hlast hdone hrest ⊢
  have h0 := hin 0 (by omega)
  rw [Nat.add_zero] at h0
  have hin1 : o < fd1.m_field_meta_data.length ∧ b < (fd1.m_field_meta_data.getD o []).length := by
    rw [hm.length, hm.inner]
    exact h0
  refine ⟨hm.comp (set_field_data_moved _ _ _ _), ?_, fun s h1 h2 => ?_, fun o1 b1 h => ?_⟩
  · rw [field_meta_data_at_set, if_pos ⟨rfl, rfl, hin1.1, hin1.2⟩, hlast]
    have he : o + (num_state - 1) = o + num_state - 1 := by omega
    rw [he]
  · have hne : ¬ (o + s = o ∧ b = b ∧ o < fd1.m_field_meta_data.length ∧
        b < (fd1.m_field_meta_data.getD o []).length) := by
      intro h
      omega
    rw [field_meta_data_at_set, if_neg hne]
    exact hdone s h1 (by omega)
  · have hne : ¬ (o1 = o ∧ b1 = b ∧ o < fd1.m_field_meta_data.length ∧
        b < (fd1.m_field_meta_data.getD o []).length) := by
      intro h2
      exact h ⟨h2.2.1, by omega, by omega⟩
    rw [field_meta_data_at_set, if_neg hne]
    exact hrest o1 b1 (fun h2 => h ⟨h2.1, by omega, by omega⟩)

theorem field_meta_data_at_of_length_le (fd : FieldData) (o b : Nat)
    (h : (fd.m_field_meta_data.getD o []).length ≤ b) :
    field_meta_data_at fd o b = FieldMetaData.null := by
  unfold field_meta_data_at
  exact getD_of_length_le _ _ _ h

/-- The loop over the buckets after `n` buckets: in every bucket below `n` in which
the first state has a size the pointers are rotated; no other record has changed. -/
theorem rotate_buckets_fold_spec (fd : FieldData) (o num_state : Nat) (hN : 1 ≤ num_state)
    (hin : ∀ s, s < num_state → o + s < fd.m_field_meta_data.length ∧
      (fd.m_field_meta_data.getD (o + s) []).length = (fd.m_field_meta_data.getD o []).length)
    (n : Nat) (hn : n ≤ (fd.m_field_meta_data.getD o []).length) :
    PointersMoved fd ((List.range n).foldl
        (fun fd1 b =>
          if (field_meta_data_at fd1 o b).m_size > 0 then rotate_field_data fd1 o num_state b
          else fd1) fd) ∧
    (∀ b, b < n → 0 < (field_meta_data_at fd o b).m_size →
      (field_meta_data_at ((List.range n).foldl
        (fun fd1 b =>
          if (field_meta_data_at fd1 o b).m_size > 0 then rotate_field_data fd1 o num_state b
          else fd1) fd) o b).m_data = (field_meta_data_at fd (o + num_state - 1) b).m_data ∧
      ∀ s, 1 ≤ s → s < num_state →
        (field_meta_data_at ((List.range n).foldl
          (fun fd1 b =>
            if (field_meta_data_at fd1 o b).m_size > 0 then rotate_field_data fd1 o num_state b
            else fd1) fd) (o + s) b).m_data = (field_meta_data_at fd (o + s - 1) b).m_data) ∧
    (∀ o1 b1, ¬ (b1 < n ∧ o ≤ o1 ∧ o1 < o + num_state ∧ 0 < (field_meta_data_at fd o b1).m_size) →
      field_meta_data_at ((List.range n).foldl
        (fun fd1 b =>
          if (field_meta_data_at fd1 o b).m_size > 0 then rotate_field_data fd1 o num_state b
          else fd1) fd) o1 b1 = field_meta_data_at fd o1 b1) := by
  induction n with
  | zero =>
    exact ⟨PointersMoved.unmoved fd, fun b hb => absurd hb (Nat.not_lt_zero _), fun _ _ _ => rfl⟩
  | succ n ih =>
    obtain ⟨hm, hdone, hrest⟩ := ih (Nat.le_of_succ_le hn)
    rw [List.range_succ, List.foldl_append]
    generalize (List.range n).foldl
        (fun fd1 b =>
          if (field_meta_data_at fd1 o b).m_size > 0 then rotate_field_data fd1 o num_state b
          else fd1) fd = fd1 at hm hdone hrest
    simp only [List.foldl_cons, List.foldl_nil]
    have hsize : (field_meta_data_at fd1 o n).m_size = (field_meta_data_at fd o n).m_size :=
      hm.size o n
    by_cases hpos : (field_meta_data_at fd o n).m_size > 0
    · rw [if_pos (by rw [hsize]; exact hpos)]
      obtain ⟨rm, r0, rs, rrest⟩ := rotate_field_data_spec fd1 o num_state n hN (by
        intro s hs
        rw [hm.length, hm.inner, (hin s hs).2]
        exact ⟨(hin s hs).1, by omega⟩)
      have hsame : ∀ o1, field_meta_data_at fd1 o1 n = field_meta_data_at fd o1 n :=
        fun o1 => hrest o1 n (fun h => Nat.lt_irrefl _ h.1)
      refine ⟨hm.comp rm, fun b hb hb0 => ?_, fun o1 b1 h => ?_⟩
      · by_cases hbn : b = n
        · subst hbn
          refine ⟨by rw [r0, hsame], fun s h1 h2 => by rw [rs s h1 h2, hsame]⟩
        · have hbl : b < n := by omega
          obtain ⟨d0, ds⟩ := hdone b hbl hb0
          refine ⟨?_, fun s h1 h2 => ?_⟩
          · rw [rrest o b (fun h => hbn h.1)]; exact d0
          · rw [rrest (o + s) b (fun h => hbn h.1)]; exact ds s h1 h2
      · rw [rrest o1 b1 (fun h2 => h ⟨by omega, h2.2.1, h2.2.2, by rw [h2.1]; exact hpos⟩)]
        exact hrest o1 b1 (fun h2 => h ⟨by omega, h2.2⟩)
    · rw [if_neg (by rw [hsize]; exact hpos)]
      refine ⟨hm, fun b hb hb0 => ?_, fun o1 b1 h => ?_⟩
      · have hbn : b ≠ n := fun h => hpos (by rw [← h]; exact hb0)
        exact hdone b (by omega) hb0
      · exact hrest o1 b1 (fun h2 => h ⟨by omega, h2.2⟩)

/-- The pass of update_field_data_states for one field with its states, in a mesh in
which the vectors of the states are as long as that of the first state. -/
theorem rotate_group_spec (fd : FieldData) (o num_state : Nat)
    (hin : ∀ s, s < num_state → o + s < fd.m_field_meta_data.length ∧
      (fd.m_field_meta_data.getD (o + s) []).length = (fd.m_field_meta_data.getD o []).length) :
    PointersMoved fd
      (if num_state > 1 then update_field_data_states_buckets fd o num_state else fd) ∧
    (∀ b, group_rotated fd
      (if num_state > 1 then update_field_data_states_buckets fd o num_state else fd)
      o num_state b) ∧
    (∀ o1 b1, ¬ (o ≤ o1 ∧ o1 < o + num_state) →
      field_meta_data_at
        (if num_state > 1 then update_field_data_states_buckets fd o num_state else fd) o1 b1
        = field_meta_data_at fd o1 b1) := by
  by_cases hN : num_state > 1
  · rw [if_pos hN]
    obtain ⟨hm, hdone, hrest⟩ := rotate_buckets_fold_spec fd o num_state (by omega) hin
      (fd.m_field_meta_data.getD o []).length (Nat.le_refl _)
    unfold update_field_data_states_buckets
    refine ⟨hm, fun b => ⟨fun h => ?_, fun h s hs => ?_⟩, fun o1 b1 h => ?_⟩
    · have hb : b < (fd.m_field_meta_data.getD o []).length := by
        by_contra hcon
        have := field_meta_data_at_of_length_le fd o b (Nat.le_of_not_lt hcon)
        rw [this] at h
        exact absurd h.2 (by decide)
      exact hdone b hb h.2
    · exact hrest (o + s) b (fun h2 => h ⟨hN, h2.2.2.2⟩)
    · exact hrest o1 b1 (fun h2 => h ⟨h2.2.1, h2.2.2.1⟩)
  · rw [if_neg hN]
    exact ⟨PointersMoved.unmoved fd, fun b => ⟨fun h => absurd h.1 hN, fun _ _ _ => rfl⟩,
      fun _ _ _ => rfl⟩

theorem state_group_mono (fs : List FieldBase) (k k1 : Nat) (h : k ≤ k1) :
    state_group fs k ≤ state_group fs k1 := by
  induction k1 with
  | zero => rw [Nat.le_zero.1 h]
  | succ n ih =>
    by_cases hk : k = n + 1
    · rw [hk]
    · have h1 := ih (by omega)
      have h2 : state_group fs (n + 1) = state_group fs n
          + (fs.getD (state_group fs n) FieldBase.null).number_of_states := rfl
      omega

theorem group_rotated_congr_right {fd fd1 fd2 : FieldData} {o num_state b : Nat}
    (h : group_rotated fd fd1 o num_state b)
    (heq : ∀ s, s < num_state → field_meta_data_at fd2 (o + s) b = field_meta_data_at fd1 (o + s) b) :
    group_rotated fd fd2 o num_state b := by
  refine ⟨fun hc => ?_, fun hc s hs => ?_⟩
  · obtain ⟨h0, hs⟩ := h.1 hc
    refine ⟨?_, fun s h1 h2 => ?_⟩
    · have := heq 0 (by omega)
      rw [Nat.add_zero] at this
      rw [this]; exact h0
    · rw [heq s h2]; exact hs s h1 h2
  · rw [heq s hs]; exact h.2 hc s hs

theorem group_rotated_congr_left {fd fd1 fd2 : FieldData} {o num_state b : Nat}
    (h : group_rotated fd1 fd2 o num_state b)
    (heq : ∀ s, s < num_state → field_meta_data_at fd1 (o + s) b = field_meta_data_at fd (o + s) b) :
    group_rotated fd fd2 o num_state b := by
  refine ⟨fun hc => ?_, fun hc s hs => ?_⟩
  · have h0 := heq 0 (by omega)
    rw [Nat.add_zero] at h0
    obtain ⟨g0, gs⟩ := h.1 ⟨hc.1, by rw [h0]; exact hc.2⟩
    refine ⟨?_, fun s h1 h2 => ?_⟩
    · rw [g0]
      have he : o + num_state - 1 = o + (num_state - 1) := by omega
      rw [he, heq (num_state - 1) (by omega)]
    · rw [gs s h1 h2]
      have he : o + s - 1 = o + (s - 1) := by omega
      rw [he, heq (s - 1) (by omega)]
  · have h0 := heq 0 (by omega)
    rw [Nat.add_zero] at h0
    rw [← heq s hs]
    exact h.2 (fun hc2 => hc ⟨hc2.1, by rw [← h0]; exact hc2.2⟩) s hs

/-- The loop of update_field_data_states over the fields of one rank, from the pass
`k` on: it comes to an end, every field from that pass on is rotated, and no other
record has changed. -/
theorem rotate_fields_spec (fs : List FieldBase) (hg : FieldStatesGrouped fs) (r len : Nat) :
    ∀ (fuel k : Nat) (fd : FieldData), fd.field_set = fs → fd.m_num_fields.toNat = fs.length →
      (∀ j, j < fs.length → fs.length * r + j < fd.m_field_meta_data.length ∧
        (fd.m_field_meta_data.getD (fs.length * r + j) []).length = len) →
      state_group fs k ≤ fs.length → fs.length - state_group fs k < fuel →
      ∃ fd1, update_field_data_states_fields r fuel (state_group fs k) fd = some fd1 ∧
        PointersMoved fd fd1 ∧
        (∀ k1, k ≤ k1 → state_group fs k1 < fs.length → ∀ b,
          group_rotated fd fd1 (fs.length * r + state_group fs k1)
            (fs.getD (state_group fs k1) FieldBase.null).number_of_states b) ∧
        (∀ o1 b1, (o1 < fs.length * r + state_group fs k ∨ fs.length * r + fs.length ≤ o1) →
          field_meta_data_at fd1 o1 b1 = field_meta_data_at fd o1 b1) := by
  intro fuel
  induction fuel with
  | zero => intro k fd _ _ _ _ h; exact absurd h (Nat.not_lt_zero _)
  | succ fuel ih =>
    intro k fd hfs hnf hshape hle hfuel
    unfold update_field_data_states_fields
    rw [hnf, hfs]
    by_cases hi : state_group fs k < fs.length
    · rw [if_pos hi]
      dsimp only
      have hpos := hg.positive k hi
      have hins := hg.inside k hi
      have hnext : state_group fs (k + 1) = state_group fs k
          + (fs.getD (state_group fs k) FieldBase.null).number_of_states := rfl
      obtain ⟨gm, grot, grest⟩ := rotate_group_spec fd (fs.length * r + state_group fs k)
        (fs.getD (state_group fs k) FieldBase.null).number_of_states (by
          intro s hs
          have h1 := hshape (state_group fs k + s) (by omega)
          have h2 := hshape (state_group fs k) hi
          rw [Nat.add_assoc]
          exact ⟨h1.1, by rw [h1.2, h2.2]⟩)
      generalize (if (fs.getD (state_group fs k) FieldBase.null).number_of_states > 1 then
          update_field_data_states_buckets fd (fs.length * r + state_group fs k)
            (fs.getD (state_group fs k) FieldBase.null).number_of_states
        else fd) = fd1 at gm grot grest
      rw [← hnext]
      obtain ⟨fd2, hsome, hm, hrot, hrest⟩ := ih (k + 1) fd1 (by rw [gm.field_set, hfs])
        (by rw [gm.num_fields, hnf])
        (by
          intro j hj
          rw [gm.length, gm.inner]
          exact hshape j hj)
        hins (by omega)
      refine ⟨fd2, hsome, gm.comp hm, fun k1 hk1 hlt b => ?_, fun o1 b1 h => ?_⟩
      · by_cases hk : k1 = k
        · rw [hk]
          exact group_rotated_congr_right (grot b)
            (fun s hs => hrest _ b (Or.inl (by omega)))
        · have hmono := state_group_mono fs (k + 1) k1 (by omega)
          exact group_rotated_congr_left (hrot k1 (by omega) hlt b)
            (fun s hs => grest _ b (fun h => by omega))
      · rw [hrest o1 b1 (by omega)]
        exact grest o1 b1 (fun h2 => by omega)
    · rw [if_neg hi]
      refine ⟨fd, rfl, PointersMoved.unmoved fd, fun k1 hk1 hlt b => ?_, fun _ _ _ => rfl⟩
      have := state_group_mono fs k k1 hk1
      omega

theorem outside_other_block (nf r r1 j : Nat) (hj : j < nf) (hne : r1 ≠ r) :
    nf * r + j < nf * r1 ∨ nf * r1 + nf ≤ nf * r + j := by
  by_contra hcon
  have h := block_unique nf r r1 j hj (by omega) (by omega)
  exact hne h.symm

/-- The loop of update_field_data_states over the ranks of a list: it comes to an end,
every field of every rank of the list is rotated, and no other record has changed. -/
theorem rotate_ranks_spec (fs : List FieldBase) (hg : FieldStatesGrouped fs) :
    ∀ (l : List Nat) (fd : FieldData), fd.field_set = fs → fd.m_num_fields.toNat = fs.length →
      l.Nodup →
      (∀ r ∈ l, ∃ len, ∀ j, j < fs.length → fs.length * r + j < fd.m_field_meta_data.length ∧
        (fd.m_field_meta_data.getD (fs.length * r + j) []).length = len) →
      ∃ fd1, update_field_data_states_ranks l fd = some fd1 ∧ PointersMoved fd fd1 ∧
        (∀ r ∈ l, ∀ k, state_group fs k < fs.length → ∀ b,
          group_rotated fd fd1 (fs.length * r + state_group fs k)
            (fs.getD (state_group fs k) FieldBase.null).number_of_states b) ∧
        (∀ o1 b1, (∀ r ∈ l, o1 < fs.length * r ∨ fs.length * r + fs.length ≤ o1) →
          field_meta_data_at fd1 o1 b1 = field_meta_data_at fd o1 b1) := by
  intro l
  induction l with
  | nil =>
    intro fd _ _ _ _
    exact ⟨fd, rfl, PointersMoved.unmoved fd, fun r hr => absurd hr (List.not_mem_nil r),
      fun _ _ _ => rfl⟩
  | cons r rest ih =>
    intro fd hfs hnf hnd hshape
    obtain ⟨len, hlen⟩ := hshape r (List.mem_cons_self _ _)
    obtain ⟨fdA, hA, mA, rotA, restA⟩ := rotate_fields_spec fs hg r len
      (fd.m_num_fields.toNat + 1) 0 fd hfs hnf hlen (Nat.zero_le _) (by
        have h0 : state_group fs 0 = 0 := rfl
        rw [hnf, h0]; omega)
    have h0 : state_group fs 0 = 0 := rfl
    rw [h0] at hA restA
    unfold update_field_data_states_ranks
    rw [hA]
    dsimp only
    have hnd2 := List.nodup_cons.1 hnd
    obtain ⟨fdB, hB, mB, rotB, restB⟩ := ih fdA (by rw [mA.field_set, hfs])
      (by rw [mA.num_fields, hnf]) hnd2.2 (by
        intro r1 hr1
        obtain ⟨len1, hlen1⟩ := hshape r1 (List.mem_cons_of_mem _ hr1)
        refine ⟨len1, fun j hj => ?_⟩
        rw [mA.length, mA.inner]
        exact hlen1 j hj)
    refine ⟨fdB, hB, mA.comp mB, fun r1 hr1 k hk b => ?_, fun o1 b1 h => ?_⟩
    · have hins := hg.inside k hk
      have hnext : state_group fs (k + 1) = state_group fs k
          + (fs.getD (state_group fs k) FieldBase.null).number_of_states := rfl
      rcases List.mem_cons.1 hr1 with hr | hr
      · rw [hr]
        refine group_rotated_congr_right (rotA k (Nat.zero_le _) hk b) (fun s hs => ?_)
        apply restB
        intro r2 hr2
        rw [Nat.add_assoc]
        exact outside_other_block fs.length r r2 _ (by omega)
          (fun h => hnd2.1 (by rw [← h]; exact hr2))
      · refine group_rotated_congr_left (rotB r1 hr k hk b) (fun s hs => ?_)
        apply restA
        have hne : r ≠ r1 := fun h => hnd2.1 (by rw [h]; exact hr)
        have := outside_other_block fs.length r1 r (state_group fs k + s) (by omega) hne
        rw [Nat.add_assoc]
        omega
    · rw [restB o1 b1 (fun r1 hr1 => h r1 (List.mem_cons_of_mem _ hr1))]
      apply restA
      have := h r (List.mem_cons_self _ _)
      omega

/-- The whole of update_field_data_states on field-data members of the shape the
callbacks maintain, for a field set in which the states of a field stand together:
the call comes to an end; only data pointers of records change; the records of
every field with its states are rotated in every rank. -/
theorem update_field_data_states_spec (fd : FieldData) (hs : FieldsShaped fd)
    (hg : FieldStatesGrouped fd.field_set) :
    ∃ fd1, update_field_data_states fd = some fd1 ∧ PointersMoved fd fd1 ∧
      ∀ r, r < fd.entity_rank_count → ∀ k, state_group fd.field_set k < fd.m_num_fields.toNat →
        ∀ b, group_rotated fd fd1 (fd.m_num_fields.toNat * r + state_group fd.field_set k)
          (fd.field_set.getD (state_group fd.field_set k) FieldBase.null).number_of_states b := by
  unfold update_field_data_states
  rcases hs.num_fields with hunset | hset
  · have hz : fd.m_num_fields.toNat = 0 := by rw [hunset]; rfl
    have hloop : ∀ (l : List Nat), update_field_data_states_ranks l fd = some fd := by
      intro l
      induction l with
      | nil => rfl
      | cons r rest ih =>
        unfold update_field_data_states_ranks
        have : update_field_data_states_fields r (fd.m_num_fields.toNat + 1) 0 fd = some fd := by
          unfold update_field_data_states_fields
          rw [if_neg (by rw [hz]; exact Nat.lt_irrefl 0)]
        rw [this]
        exact ih
    rw [hloop]
    refine ⟨fd, rfl, PointersMoved.unmoved fd, fun r _ k hk => ?_⟩
    rw [hz] at hk
    exact absurd hk (Nat.not_lt_zero _)
  · have hnf : fd.m_num_fields.toNat = fd.field_set.length := by rw [hset]; rfl
    obtain ⟨fd1, h1, m1, rot, _⟩ := rotate_ranks_spec fd.field_set hg
      (List.range fd.entity_rank_count) fd rfl hnf (List.nodup_range _) (by
        intro r hr
        rw [List.mem_range] at hr
        refine ⟨bucket_count fd r, fun j hj => ?_⟩
        rw [← hnf]
        refine ⟨?_, hs.buckets r j hr (by rw [hnf]; exact hj)⟩
        rw [hs.meta_length]
        exact flat_index_lt _ _ _ _ hr (by rw [hnf]; exact hj))
    rw [h1]
    refine ⟨fd1, rfl, m1, fun r hr k hk b => ?_⟩
    rw [hnf]
    exact rot r (List.mem_range.2 hr) k (by rw [← hnf]; exact hk) b

theorem scenario_fields_grouped : FieldStatesGrouped scenario_fields := by
  have h0 : state_group scenario_fields 0 = 0 := rfl
  have h1 : state_group scenario_fields 1 = 1 := rfl
  have h2 : state_group scenario_fields 2 = 3 := rfl
  have hlen : scenario_fields.length = 3 := rfl
  have hcases : ∀ k, state_group scenario_fields k < scenario_fields.length → k = 0 ∨ k = 1 := by
    intro k hk
    by_contra hcon
    have := state_group_mono scenario_fields 2 k (by omega)
    omega
  constructor
  · intro k hk
    rcases hcases k hk with h | h <;> rw [h] <;> decide
  · intro k hk
    rcases hcases k hk with h | h <;> rw [h] <;> decide

theorem scenario_two_buckets_shaped : FieldsShaped scenario_two_buckets :=
  (new_bucket_callback_spec scenario_one_bucket 0 [0, 1] 2
    (new_bucket_callback_spec scenario_field_data 0 [0, 1, 10] 2
      (construct_field_data_shaped _ _ _ _ _) (by decide)).2.1 (by decide)).2.1

/-- C31: update_field_data_states rotates pointers and copies no data. On field-data
members of the shape the callbacks maintain, with a field set in which the states of
a field stand together, the call comes to an end; the memory, the raw pointers and
the size of every record are unchanged; and for every rank, every field (its first
state at index `i`, with N states) and every bucket: if N = 1 the record is
untouched; if N > 1 and the field has a size in the bucket (the size of the first
state, which the code tests), the first state has the former pointer of state N - 1
and state s, 1 <= s < N, the former pointer of state s - 1; if N > 1 and the size is
0 the records of all N states are untouched. -/
theorem C31_update_field_data_states_rotates (fd : FieldData) (hs : FieldsShaped fd)
    (hg : FieldStatesGrouped fd.field_set) :
    ∃ fd1, update_field_data_states fd = some fd1 ∧
      fd1.memory = fd.memory ∧ fd1.m_field_raw_data = fd.m_field_raw_data ∧
      (∀ r i b, (field_meta_data fd1 r i b).m_size = (field_meta_data fd r i b).m_size) ∧
      ∀ r, r < fd.entity_rank_count → ∀ k, state_group fd.field_set k < fd.m_num_fields.toNat →
        ∀ b,
          ((fd.field_set.getD (state_group fd.field_set k) FieldBase.null).number_of_states = 1 →
            field_meta_data fd1 r (state_group fd.field_set k) b
              = field_meta_data fd r (state_group fd.field_set k) b) ∧
          (1 < (fd.field_set.getD (state_group fd.field_set k) FieldBase.null).number_of_states →
            0 < (field_meta_data fd r (state_group fd.field_set k) b).m_size →
            (field_meta_data fd1 r (state_group fd.field_set k) b).m_data
              = (field_meta_data fd r (state_group fd.field_set k
                + (fd.field_set.getD (state_group fd.field_set k) FieldBase.null).number_of_states
                - 1) b).m_data ∧
            ∀ s, 1 ≤ s →
              s < (fd.field_set.getD (state_group fd.field_set k) FieldBase.null).number_of_states →
              (field_meta_data fd1 r (state_group fd.field_set k + s) b).m_data
                = (field_meta_data fd r (state_group fd.field_set k + s - 1) b).m_data) ∧
          (1 < (fd.field_set.getD (state_group fd.field_set k) FieldBase.null).number_of_states →
            (field_meta_data fd r (state_group fd.field_set k) b).m_size = 0 →
            ∀ s,
              s < (fd.field_set.getD (state_group fd.field_set k) FieldBase.null).number_of_states →
              field_meta_data fd1 r (state_group fd.field_set k + s) b
                = field_meta_data fd r (state_group fd.field_set k + s) b) := by
  obtain ⟨fd1, h1, m1, rot⟩ := update_field_data_states_spec fd hs hg
  have hnf := m1.num_fields
  refine ⟨fd1, h1, by rw [m1.members], m1.raw, fun r i b => ?_, fun r hr k hk b => ?_⟩
  · unfold field_meta_data
    rw [hnf]
    exact m1.size _ _
  · have hrot := rot r hr k hk b
    unfold field_meta_data
    rw [hnf]
    refine ⟨fun hN => ?_, fun hN hsz => ?_, fun hN hsz s hlt => ?_⟩
    · have := hrot.2 (fun h => by omega) 0 (by omega)
      rw [Nat.add_zero] at this
      exact this
    · obtain ⟨g0, gs⟩ := hrot.1 ⟨hN, hsz⟩
      refine ⟨?_, fun s hs1 hs2 => ?_⟩
      · rw [g0]
        congr 2
        omega
      · rw [← Nat.add_assoc, gs s hs1 hs2]
        congr 2
        omega
    · have := hrot.2 (fun h => by omega) s hlt
      rw [← Nat.add_assoc]
      exact this

theorem scenario_rotated_eq :
    update_field_data_states scenario_two_buckets = some scenario_rotated := by
  obtain ⟨fd1, h1, _⟩ := update_field_data_states_spec scenario_two_buckets
    scenario_two_buckets_shaped scenario_fields_grouped
  unfold scenario_rotated
  rw [h1]
  rfl

theorem C31_witness :
    FieldsShaped scenario_two_buckets ∧
    FieldStatesGrouped scenario_two_buckets.field_set ∧
    (field_meta_data scenario_two_buckets 0 1 0).m_data = some 1048 ∧
    (field_meta_data scenario_two_buckets 0 2 0).m_data = some 1064 ∧
    update_field_data_states scenario_two_buckets = some scenario_rotated ∧
    (field_meta_data scenario_rotated 0 1 0).m_data = some 1064 ∧
    (field_meta_data scenario_rotated 0 2 0).m_data = some 1048 ∧
    ∃ fd1, update_field_data_states scenario_two_buckets = some fd1 ∧
      fd1.memory = scenario_two_buckets.memory :=
  ⟨scenario_two_buckets_shaped, scenario_fields_grouped, by decide, by decide, scenario_rotated_eq, by decide,
    by decide,
    (C31_update_field_data_states_rotates scenario_two_buckets scenario_two_buckets_shaped
      scenario_fields_grouped).imp (fun _ h => ⟨h.1, h.2.1⟩)⟩

/-! ## The invariant of the field-data members -/

/-- The loop of destroy_bucket_callback after `n` fields: the records of the bucket
that have a data pointer are reset, for the fields below `n`, and `bytes_to_delete`
is the sum of the 32-bit products of their sizes and the capacity. -/
theorem destroy_loop_spec (fd : FieldData) (rank : EntityRank) (bucket_id capacity n : Nat) :
    ((List.range n).foldl (destroy_bucket_field rank bucket_id capacity) (fd, 0)).1
      = { fd with m_field_meta_data :=
          ((List.range n).foldl (destroy_bucket_field rank bucket_id capacity)
            (fd, 0)).1.m_field_meta_data } ∧
    ((List.range n).foldl (destroy_bucket_field rank bucket_id capacity)
      (fd, 0)).1.m_field_meta_data.length = fd.m_field_meta_data.length ∧
    (∀ o, (((List.range n).foldl (destroy_bucket_field rank bucket_id capacity)
      (fd, 0)).1.m_field_meta_data.getD o []).length = (fd.m_field_meta_data.getD o []).length) ∧
    (∀ o x, field_meta_data_at ((List.range n).foldl
        (destroy_bucket_field rank bucket_id capacity) (fd, 0)).1 o x
      = if fd.m_num_fields.toNat * rank ≤ o ∧ o < fd.m_num_fields.toNat * rank + n ∧
          x = bucket_id ∧ (field_meta_data_at fd o x).m_data ≠ none then
          { field_meta_data_at fd o x with m_size := 0, m_data := none }
        else field_meta_data_at fd o x) ∧
    ((List.range n).foldl (destroy_bucket_field rank bucket_id capacity) (fd, 0)).2
      = freed_bytes (freed_size fd rank bucket_id) capacity n := by
  induction n with
  | zero =>
    refine ⟨rfl, rfl, fun _ => rfl, fun o x => ?_, rfl⟩
    rw [if_neg (fun h => by omega)]
    rfl
  | succ n ih =>
    obtain ⟨hmem, hlen, hinner, hrec, hbytes⟩ := ih
    rw [List.range_succ, List.foldl_append]
    generalize (List.range n).foldl (destroy_bucket_field rank bucket_id capacity) (fd, 0) = st
      at hmem hlen hinner hrec hbytes
    obtain ⟨fd1, bytes⟩ := st
    dsimp only at hmem hlen hinner hrec hbytes
    simp only [List.foldl_cons, List.foldl_nil]
    have hnf : fd1.m_num_fields = fd.m_num_fields := by rw [hmem]
    have hcur : field_meta_data fd1 rank n bucket_id = field_meta_data fd rank n bucket_id := by
      unfold field_meta_data
      rw [hnf, hrec, if_neg (fun h => by omega)]
    have hnext : freed_bytes (freed_size fd rank bucket_id) capacity (n + 1)
        = freed_bytes (freed_size fd rank bucket_id) capacity n
          + wrap32 (freed_size fd rank bucket_id n * capacity) := rfl
    unfold destroy_bucket_field
    dsimp only
    rw [hcur]
    by_cases hd : (field_meta_data fd rank n bucket_id).m_data ≠ none
    · rw [if_pos hd]
      dsimp only
      refine ⟨by rw [hmem], ?_, fun o => ?_, fun o x => ?_, ?_⟩
      · rw [modify_at_length]; exact hlen
      · rw [modify_at_getD]
        by_cases h1 : o = fd1.m_num_fields.toNat * rank + n ∧
            fd1.m_num_fields.toNat * rank + n < fd1.m_field_meta_data.length
        · rw [if_pos h1, modify_at_length, ← h1.1]
          exact hinner o
        · rw [if_neg h1]
          exact hinner o
      · show ((modify_at fd1.m_field_meta_data (fd1.m_num_fields.toNat * rank + n)
            (fun v => modify_at v bucket_id
              (fun r => { r with m_size := 0, m_data := none }))).getD o []).getD x
              FieldMetaData.null = _
        rw [modify_at_getD]
        have hrec2 : ∀ o x, (fd1.m_field_meta_data.getD o []).getD x FieldMetaData.null
            = if fd.m_num_fields.toNat * rank ≤ o ∧ o < fd.m_num_fields.toNat * rank + n ∧
                x = bucket_id ∧ (field_meta_data_at fd o x).m_data ≠ none then
                { field_meta_data_at fd o x with m_size := 0, m_data := none }
              else field_meta_data_at fd o x := hrec
        rw [hnf]
        by_cases h1 : o = fd.m_num_fields.toNat * rank + n ∧
            fd.m_num_fields.toNat * rank + n < fd1.m_field_meta_data.length
        · rw [if_pos h1, modify_at_getD]
          by_cases h2 : x = bucket_id ∧
              bucket_id < (fd1.m_field_meta_data.getD (fd.m_num_fields.toNat * rank + n) []).length
          · rw [if_pos h2, hrec2, if_neg (fun h => by omega),
              if_pos ⟨by omega, by omega, h2.1, by rw [h1.1, h2.1]; exact hd⟩, h1.1, h2.1]
          · rw [if_neg h2, hrec2, if_neg (fun h => by omega)]
            have hx : x ≠ bucket_id := by
              intro hx
              apply h2
              refine ⟨hx, ?_⟩
              by_contra hcon
              apply hd
              unfold field_meta_data field_meta_data_at
              rw [getD_of_length_le _ _ _ (by rw [← hinner]; exact Nat.le_of_not_lt hcon)]
              rfl
            rw [if_neg (fun h => hx h.2.2.1), h1.1]
        · rw [if_neg h1, hrec2]
          by_cases h3 : o = fd.m_num_fields.toNat * rank + n
          · have hout : fd.m_field_meta_data.length ≤ o := by
              rw [← hlen, h3]
              exact Nat.le_of_not_lt (fun h => h1 ⟨h3, h⟩)
            have hnull : field_meta_data_at fd o x = FieldMetaData.null := by
              unfold field_meta_data_at
              rw [getD_of_length_le fd.m_field_meta_data o [] hout]
              rfl
            rw [if_neg (fun h => h.2.2.2 (by rw [hnull]; rfl)),
              if_neg (fun h => h.2.2.2 (by rw [hnull]; rfl))]
          · by_cases h4 : fd.m_num_fields.toNat * rank ≤ o ∧ o < fd.m_num_fields.toNat * rank + n ∧
                x = bucket_id ∧ (field_meta_data_at fd o x).m_data ≠ none
            · rw [if_pos h4, if_pos ⟨h4.1, by omega, h4.2.2⟩]
            · rw [if_neg h4, if_neg (fun h => h4 ⟨h.1, by omega, h.2.2⟩)]
      · rw [hbytes, hnext]
        unfold freed_size
        rw [if_pos hd]
    · rw [if_neg hd]
      refine ⟨hmem, hlen, hinner, fun o x => ?_, ?_⟩
      · rw [hrec]
        by_cases h4 : fd.m_num_fields.toNat * rank ≤ o ∧ o < fd.m_num_fields.toNat * rank + n ∧
            x = bucket_id ∧ (field_meta_data_at fd o x).m_data ≠ none
        · rw [if_pos h4, if_pos ⟨h4.1, by omega, h4.2.2⟩]
        · rw [if_neg h4]
          by_cases h3 : o = fd.m_num_fields.toNat * rank + n ∧ x = bucket_id
          · rw [if_neg (fun h => hd (by
              unfold field_meta_data
              rw [← h3.1, ← h3.2]
              exact h.2.2.2))]
          · rw [if_neg (fun h => h4 ⟨h.1, by
              rcases Nat.lt_or_ge o (fd.m_num_fields.toNat * rank + n) with hl | hl
              · exact hl
              · exact absurd ⟨by omega, h.2.2.1⟩ h3, h.2.2⟩)]
      · rw [hbytes, hnext]
        unfold freed_size
        rw [if_neg hd, Nat.zero_mul]
        rfl

/-- What destroy_bucket_callback does to a bucket with a raw pointer: the records of
the bucket that have a data pointer are reset, the raw pointer is handed back with
the sum of the 32-bit products of their sizes and the capacity and set to null;
nothing else changes. -/
theorem destroy_bucket_callback_spec (fd : FieldData) (rank : EntityRank)
    (bucket_id capacity : Nat) (hraw : field_raw_data fd rank bucket_id ≠ none) :
    destroy_bucket_callback fd rank bucket_id capacity
      = { fd with
          m_field_meta_data := (destroy_bucket_callback fd rank bucket_id capacity).m_field_meta_data
          m_field_raw_data := (destroy_bucket_callback fd rank bucket_id capacity).m_field_raw_data
          deallocations := (destroy_bucket_callback fd rank bucket_id capacity).deallocations } ∧
    (destroy_bucket_callback fd rank bucket_id capacity).m_field_meta_data.length
      = fd.m_field_meta_data.length ∧
    (∀ o, ((destroy_bucket_callback fd rank bucket_id capacity).m_field_meta_data.getD o []).length
      = (fd.m_field_meta_data.getD o []).length) ∧
    (∀ o x, field_meta_data_at (destroy_bucket_callback fd rank bucket_id capacity) o x
      = if fd.m_num_fields.toNat * rank ≤ o ∧
          o < fd.m_num_fields.toNat * rank + fd.m_num_fields.toNat ∧
          x = bucket_id ∧ (field_meta_data_at fd o x).m_data ≠ none then
          { field_meta_data_at fd o x with m_size := 0, m_data := none }
        else field_meta_data_at fd o x) ∧
    (destroy_bucket_callback fd rank bucket_id capacity).m_field_raw_data.length
      = fd.m_field_raw_data.length ∧
    (∀ r, bucket_count (destroy_bucket_callback fd rank bucket_id capacity) r = bucket_count fd r) ∧
    (∀ r x, field_raw_data (destroy_bucket_callback fd rank bucket_id capacity) r x
      = if r = rank ∧ x = bucket_id then none else field_raw_data fd r x) ∧
    (destroy_bucket_callback fd rank bucket_id capacity).deallocations
      = fd.deallocations ++ [(field_raw_data fd rank bucket_id,
          freed_bytes (freed_size fd rank bucket_id) capacity fd.m_num_fields.toNat)] := by
  obtain ⟨hmem, hlen, hinner, hrec, hbytes⟩ :=
    destroy_loop_spec fd rank bucket_id capacity fd.m_num_fields.toNat
  unfold destroy_bucket_callback
  rw [if_pos hraw]
  dsimp only
  generalize (List.range fd.m_num_fields.toNat).foldl
      (destroy_bucket_field rank bucket_id capacity) (fd, 0) = st
    at hmem hlen hinner hrec hbytes
  obtain ⟨fd1, bytes⟩ := st
  dsimp only at hmem hlen hinner hrec hbytes ⊢
  have hraw1 : fd1.m_field_raw_data = fd.m_field_raw_data := by rw [hmem]
  have hde : fd1.deallocations = fd.deallocations := by rw [hmem]
  have hfr : field_raw_data fd1 = field_raw_data fd := field_raw_data_congr hraw1
  unfold deallocate
  dsimp only
  refine ⟨?_, hlen, hinner, hrec, ?_, fun r => ?_, fun r x => ?_, ?_⟩
  · rw [hmem]
  · rw [modify_at_length, hraw1]
  · unfold bucket_count
    dsimp only
    rw [modify_at_getD, hraw1]
    by_cases h1 : r = rank ∧ rank < fd.m_field_raw_data.length
    · rw [if_pos h1, modify_at_length, h1.1]
    · rw [if_neg h1]
  · unfold field_raw_data
    dsimp only
    rw [modify_at_getD, hraw1]
    by_cases h1 : r = rank ∧ rank < fd.m_field_raw_data.length
    · rw [if_pos h1, modify_at_const_getD]
      by_cases h2 : x = bucket_id ∧ bucket_id < (fd.m_field_raw_data.getD rank []).length
      · rw [if_pos h2, if_pos ⟨h1.1, h2.1⟩]
      · rw [if_neg h2]
        by_cases h3 : x = bucket_id
        · rw [if_pos ⟨h1.1, h3⟩, h3]
          exact getD_of_length_le _ _ _ (Nat.le_of_not_lt (fun h => h2 ⟨h3, h⟩))
        · rw [if_neg (fun h => h3 h.2), h1.1]
    · rw [if_neg h1]
      by_cases h3 : r = rank
      · have hout : fd.m_field_raw_data.length ≤ r := by
          rw [h3]; exact Nat.le_of_not_lt (fun h => h1 ⟨h3, h⟩)
        rw [getD_of_length_le fd.m_field_raw_data r [] hout]
        by_cases h4 : r = rank ∧ x = bucket_id
        · rw [if_pos h4]; rfl
        · rw [if_neg h4]
      · rw [if_neg (fun h => h3 h.1)]
  · rw [hde, hfr, hbytes]

theorem state_group_ge (fs : List FieldBase) (hg : FieldStatesGrouped fs) (n : Nat) :
    n ≤ state_group fs n ∨ fs.length ≤ state_group fs n := by
  induction n with
  | zero => exact Or.inl (Nat.le_refl _)
  | succ n ih =>
    have hnext : state_group fs (n + 1) = state_group fs n
        + (fs.getD (state_group fs n) FieldBase.null).number_of_states := rfl
    by_cases hlt : state_group fs n < fs.length
    · have := hg.positive n hlt
      rcases ih with h | h
      · left; omega
      · omega
    · right; omega

/-- Every index of the field set is a state of a field: it lies in the range of one
pass of the loop over the fields. -/
theorem exists_state_group (fs : List FieldBase) (hg : FieldStatesGrouped fs) (j : Nat)
    (hj : j < fs.length) :
    ∃ k s, state_group fs k + s = j ∧ state_group fs k < fs.length ∧
      s < (fs.getD (state_group fs k) FieldBase.null).number_of_states := by
  have hfind : ∀ n, (∃ k, k < n ∧ state_group fs k ≤ j ∧ j < state_group fs (k + 1)) ∨
      state_group fs n ≤ j := by
    intro n
    induction n with
    | zero => exact Or.inr (Nat.zero_le _)
    | succ n ih =>
      rcases ih with ⟨k, hk, h1, h2⟩ | h
      · exact Or.inl ⟨k, by omega, h1, h2⟩
      · by_cases hlt : j < state_group fs (n + 1)
        · exact Or.inl ⟨n, by omega, h, hlt⟩
        · exact Or.inr (by omega)
  rcases hfind (j + 1) with ⟨k, _, h1, h2⟩ | h
  · have hnext : state_group fs (k + 1) = state_group fs k
        + (fs.getD (state_group fs k) FieldBase.null).number_of_states := rfl
    exact ⟨k, j - state_group fs k, by omega, by omega, by omega⟩
  · rcases state_group_ge fs hg (j + 1) with h2 | h2 <;> omega

theorem shaped_of_moved {fd fd1 : FieldData} (hs : FieldsShaped fd) (hm : PointersMoved fd fd1) :
    FieldsShaped fd1 := by
  have hnf := hm.num_fields
  have hfs := hm.field_set
  have hraw := hm.raw
  have hrc : fd1.entity_rank_count = fd.entity_rank_count := by rw [hm.members]
  have hbc : bucket_count fd1 = bucket_count fd := bucket_count_congr hraw
  refine ⟨?_, ?_, ?_, fun r i hr hi => ?_, fun h r => ?_⟩
  · rw [hnf, hfs]; exact hs.num_fields
  · rw [hm.length, hnf, hrc]; exact hs.meta_length
  · rw [hraw, hrc]; exact hs.raw_length
  · rw [hm.inner, hnf, hbc]
    exact hs.buckets r i (by rw [← hrc]; exact hr) (by rw [← hnf]; exact hi)
  · rw [hbc]; exact hs.no_buckets (by rw [← hnf]; exact h) r

theorem states_same_size_congr {fd fd1 : FieldData} (h : fd1.field_set = fd.field_set)
    (hs : states_same_size fd) : states_same_size fd1 := by
  unfold states_same_size
  rw [h, num_bytes_per_entity_congr h]
  exact hs

theorem consistent_of_memory (fd : FieldData) (mem : Nat → Nat) (h : FieldsConsistent fd) :
    FieldsConsistent { fd with memory := mem } :=
  ⟨⟨h.shaped.num_fields, h.shaped.meta_length, h.shaped.raw_length, h.shaped.buckets,
      h.shaped.no_buckets⟩, h.grouped, h.same_size, h.null_of_zero, h.backed, h.unbacked, h.sizes⟩

theorem construct_field_data_consistent (field_set : List FieldBase) (entity_rank_count : Nat)
    (assertions : Bool) (memory : Nat → Nat) (heap_top : Nat)
    (hg : FieldStatesGrouped field_set)
    (hss : states_same_size
      (construct_field_data field_set entity_rank_count assertions memory heap_top)) :
    FieldsConsistent
      (construct_field_data field_set entity_rank_count assertions memory heap_top) := by
  refine ⟨construct_field_data_shaped _ _ _ _ _, hg, hss, ?_, ?_, ?_, ?_⟩
  · intro r i b _ hi; exact absurd hi (Nat.not_lt_zero _)
  · intro r i b _ hi; exact absurd hi (Nat.not_lt_zero _)
  · intro r i b _ hi; exact absurd hi (Nat.not_lt_zero _)
  · intro r k s b _ hk; exact absurd hk (Nat.not_lt_zero _)

/-- The three facts of the invariant about one record, for every index of the field
set: also while the number of fields is unset, when there is no record at all. -/
theorem consistent_record (fd : FieldData) (h : FieldsConsistent fd) (r i b : Nat)
    (hr : r < fd.entity_rank_count) (hi : i < fd.field_set.length) :
    ((field_meta_data fd r i b).m_size = 0 → (field_meta_data fd r i b).m_data = none) ∧
    (field_raw_data fd r b ≠ none → 0 < (field_meta_data fd r i b).m_size →
      (field_meta_data fd r i b).m_data ≠ none) ∧
    (field_raw_data fd r b = none → (field_meta_data fd r i b).m_data = none) := by
  rcases h.shaped.num_fields with hunset | hset
  · have hz : fd.m_num_fields.toNat = 0 := by rw [hunset]; rfl
    have hnull : field_meta_data fd r i b = FieldMetaData.null := by
      unfold field_meta_data field_meta_data_at
      have hlen : fd.m_field_meta_data.length = 0 := by
        rw [h.shaped.meta_length, hz, Nat.zero_mul]
      rw [getD_of_length_le fd.m_field_meta_data _ [] (by omega)]
      rfl
    rw [hnull]
    exact ⟨fun _ => rfl, fun _ h0 => absurd h0 (by decide), fun _ => rfl⟩
  · have hnf : fd.m_num_fields.toNat = fd.field_set.length := by rw [hset]; rfl
    exact ⟨h.null_of_zero r i b hr (by rw [hnf]; exact hi),
      h.backed r i b hr (by rw [hnf]; exact hi), h.unbacked r i b hr (by rw [hnf]; exact hi)⟩

theorem consistent_sizes (fd : FieldData) (h : FieldsConsistent fd) (r k s b : Nat)
    (hr : r < fd.entity_rank_count) (hk : state_group fd.field_set k < fd.field_set.length)
    (hs : s < (fd.field_set.getD (state_group fd.field_set k) FieldBase.null).number_of_states) :
    (field_meta_data fd r (state_group fd.field_set k + s) b).m_size
      = (field_meta_data fd r (state_group fd.field_set k) b).m_size := by
  rcases h.shaped.num_fields with hunset | hset
  · have hz : fd.m_num_fields.toNat = 0 := by rw [hunset]; rfl
    have hnull : ∀ i, field_meta_data fd r i b = FieldMetaData.null := by
      intro i
      unfold field_meta_data field_meta_data_at
      have hlen : fd.m_field_meta_data.length = 0 := by
        rw [h.shaped.meta_length, hz, Nat.zero_mul]
      rw [getD_of_length_le fd.m_field_meta_data _ [] (by omega)]
      rfl
    rw [hnull, hnull]
  · have hnf : fd.m_num_fields.toNat = fd.field_set.length := by rw [hset]; rfl
    exact h.sizes r k s b hr (by rw [hnf]; exact hk) hs

theorem new_bucket_record_data (fd : FieldData) (rank : EntityRank) (parts : List PartOrdinal)
    (capacity nf i : Nat) :
    (new_bucket_record fd rank parts capacity nf i).m_data
      = if 0 < num_bytes_per_entity fd rank parts i ∧
          0 < slice_offset (num_bytes_per_entity fd rank parts) capacity nf then
          some (fd.heap_top + slice_offset (num_bytes_per_entity fd rank parts) capacity i)
        else none := by
  unfold new_bucket_record
  by_cases h1 : num_bytes_per_entity fd rank parts i > 0
  · by_cases h2 : slice_offset (num_bytes_per_entity fd rank parts) capacity nf > 0
    · simp only [h1, h2, if_true, and_self]
    · simp only [h1, h2, if_true, if_false, and_false]
  · simp only [h1, if_false, false_and]
    rfl

theorem new_bucket_callback_consistent (fd : FieldData) (rank : EntityRank)
    (parts : List PartOrdinal) (capacity : Nat) (h : FieldsConsistent fd)
    (hr : rank < fd.entity_rank_count) :
    FieldsConsistent (new_bucket_callback fd rank parts capacity) := by
  obtain ⟨⟨hfs, hrc, _, hnum, _⟩, hshaped, _, hraw, hrec, _⟩ :=
    new_bucket_callback_spec fd rank parts capacity h.shaped hr
  have hnf : (new_bucket_callback fd rank parts capacity).m_num_fields.toNat
      = fd.field_set.length := by rw [hnum]; rfl
  refine ⟨hshaped, by rw [hfs]; exact h.grouped, states_same_size_congr hfs h.same_size,
    fun r i b hr1 hi => ?_, fun r i b hr1 hi => ?_, fun r i b hr1 hi => ?_,
    fun r k s b hr1 hk hs => ?_⟩
  · rw [hnf] at hi
    rw [hrc] at hr1
    rw [hrec r i b hi]
    by_cases hnew : r = rank ∧ b = bucket_count fd rank
    · rw [if_pos hnew, new_bucket_record_size, new_bucket_record_data]
      intro h0
      rw [if_neg (fun hc => by omega)]
    · rw [if_neg hnew]
      exact (consistent_record fd h r i b hr1 hi).1
  · rw [hnf] at hi
    rw [hrc] at hr1
    rw [hrec r i b hi, hraw r b]
    by_cases hnew : r = rank ∧ b = bucket_count fd rank
    · rw [if_pos hnew, if_pos hnew, new_bucket_record_size, new_bucket_record_data]
      intro h1 h2
      by_cases htot : slice_offset (num_bytes_per_entity fd rank parts) capacity
          fd.field_set.length > 0
      · rw [if_pos ⟨h2, htot⟩]
        exact fun hc => Option.noConfusion hc
      · rw [if_neg htot] at h1
        exact absurd rfl h1
    · rw [if_neg hnew, if_neg hnew]
      exact (consistent_record fd h r i b hr1 hi).2.1
  · rw [hnf] at hi
    rw [hrc] at hr1
    rw [hrec r i b hi, hraw r b]
    by_cases hnew : r = rank ∧ b = bucket_count fd rank
    · rw [if_pos hnew, if_pos hnew, new_bucket_record_data]
      intro h1
      by_cases htot : slice_offset (num_bytes_per_entity fd rank parts) capacity
          fd.field_set.length > 0
      · rw [if_pos htot] at h1
        exact Option.noConfusion h1
      · rw [if_neg (fun hc => htot hc.2)]
    · rw [if_neg hnew, if_neg hnew]
      exact (consistent_record fd h r i b hr1 hi).2.2
  · rw [hnf, hfs] at hk
    rw [hfs] at hs ⊢
    rw [hrc] at hr1
    have hins := h.grouped.inside k hk
    have hnext : state_group fd.field_set (k + 1) = state_group fd.field_set k
        + (fd.field_set.getD (state_group fd.field_set k) FieldBase.null).number_of_states := rfl
    rw [hrec r _ b (by omega), hrec r _ b hk]
    by_cases hnew : r = rank ∧ b = bucket_count fd rank
    · rw [if_pos hnew, if_pos hnew, new_bucket_record_size, new_bucket_record_size]
      exact h.same_size k hk s hs rank parts
    · rw [if_neg hnew, if_neg hnew]
      exact consistent_sizes fd h r k s b hr1 hk hs

/-- After a rotation the data pointer of a record is the former pointer of a record
of the same bucket with the same size. -/
theorem rotated_data_source (fd fd1 : FieldData) (h : FieldsConsistent fd)
    (hm : PointersMoved fd fd1)
    (hrot : ∀ r, r < fd.entity_rank_count → ∀ k,
      state_group fd.field_set k < fd.m_num_fields.toNat → ∀ b,
        group_rotated fd fd1 (fd.m_num_fields.toNat * r + state_group fd.field_set k)
          (fd.field_set.getD (state_group fd.field_set k) FieldBase.null).number_of_states b)
    (r i b : Nat) (hr : r < fd.entity_rank_count) (hi : i < fd.m_num_fields.toNat) :
    ∃ j, j < fd.m_num_fields.toNat ∧
      (field_meta_data fd1 r i b).m_data = (field_meta_data fd r j b).m_data ∧
      (field_meta_data fd r j b).m_size = (field_meta_data fd r i b).m_size := by
  have hnf1 := hm.num_fields
  have hnf : fd.m_num_fields.toNat = fd.field_set.length := by
    rcases h.shaped.num_fields with hunset | hset
    · rw [hunset] at hi; exact absurd hi (Nat.not_lt_zero _)
    · rw [hset]; rfl
  obtain ⟨k, s, hks, hk, hs⟩ := exists_state_group fd.field_set h.grouped i (by omega)
  have hins := h.grouped.inside k hk
  have hnext : state_group fd.field_set (k + 1) = state_group fd.field_set k
      + (fd.field_set.getD (state_group fd.field_set k) FieldBase.null).number_of_states := rfl
  have hg := hrot r hr k (by omega) b
  have hsz : ∀ t, t < (fd.field_set.getD (state_group fd.field_set k)
      FieldBase.null).number_of_states →
      (field_meta_data fd r (state_group fd.field_set k + t) b).m_size
        = (field_meta_data fd r (state_group fd.field_set k) b).m_size :=
    fun t ht => h.sizes r k t b hr (by omega) ht
  have hat : ∀ (x : FieldData) (t : Nat), field_meta_data_at x
      (fd.m_num_fields.toNat * r + state_group fd.field_set k + t) b
      = field_meta_data_at x (fd.m_num_fields.toNat * r + (state_group fd.field_set k + t)) b := by
    intro x t
    rw [Nat.add_assoc]
  by_cases hc : 1 < (fd.field_set.getD (state_group fd.field_set k) FieldBase.null).number_of_states ∧
      0 < (field_meta_data_at fd (fd.m_num_fields.toNat * r + state_group fd.field_set k) b).m_size
  · obtain ⟨g0, gs⟩ := hg.1 hc
    by_cases hs0 : s = 0
    · refine ⟨state_group fd.field_set k
        + ((fd.field_set.getD (state_group fd.field_set k) FieldBase.null).number_of_states - 1),
        by omega, ?_, ?_⟩
      · have hi0 : i = state_group fd.field_set k := by omega
        unfold field_meta_data
        rw [hnf1, hi0, g0]
        congr 2
        omega
      · rw [hsz _ (by omega), ← hks, hsz s hs]
    · refine ⟨state_group fd.field_set k + (s - 1), by omega, ?_, ?_⟩
      · have := gs s (by omega) hs
        rw [hat] at this
        unfold field_meta_data
        rw [hnf1, ← hks, this]
        congr 2
        omega
      · rw [hsz _ (by omega), ← hks, hsz s hs]
  · refine ⟨i, hi, ?_, rfl⟩
    have := hg.2 hc s hs
    rw [hat, hat, hks] at this
    unfold field_meta_data
    rw [hnf1, this]

theorem update_field_data_states_consistent (fd fd1 : FieldData) (h : FieldsConsistent fd)
    (hu : update_field_data_states fd = some fd1) :
    FieldsConsistent fd1 ∧ PointersMoved fd fd1 := by
  obtain ⟨fd2, h2, hm, hrot⟩ := update_field_data_states_spec fd h.shaped h.grouped
  rw [hu] at h2
  have heq : fd1 = fd2 := Option.some.inj h2
  subst heq
  have hnf1 := hm.num_fields
  have hfs := hm.field_set
  have hrc : fd1.entity_rank_count = fd.entity_rank_count := by rw [hm.members]
  have hraw : field_raw_data fd1 = field_raw_data fd := field_raw_data_congr hm.raw
  have hsize : ∀ r i b, (field_meta_data fd1 r i b).m_size = (field_meta_data fd r i b).m_size := by
    intro r i b
    unfold field_meta_data
    rw [hnf1]
    exact hm.size _ _
  refine ⟨⟨shaped_of_moved h.shaped hm, by rw [hfs]; exact h.grouped,
    states_same_size_congr hfs h.same_size, fun r i b hr hi => ?_, fun r i b hr hi => ?_,
    fun r i b hr hi => ?_, fun r k s b hr hk hs => ?_⟩, hm⟩
  · rw [hrc] at hr
    rw [hnf1] at hi
    obtain ⟨j, hj, hd, hs⟩ := rotated_data_source fd fd1 h hm hrot r i b hr hi
    rw [hsize, hd]
    intro h0
    exact h.null_of_zero r j b hr hj (by rw [hs]; exact h0)
  · rw [hrc] at hr
    rw [hnf1] at hi
    obtain ⟨j, hj, hd, hs⟩ := rotated_data_source fd fd1 h hm hrot r i b hr hi
    rw [hsize, hd, hraw]
    intro h1 h0
    exact h.backed r j b hr hj h1 (by rw [hs]; exact h0)
  · rw [hrc] at hr
    rw [hnf1] at hi
    obtain ⟨j, hj, hd, hs⟩ := rotated_data_source fd fd1 h hm hrot r i b hr hi
    rw [hd, hraw]
    intro h1
    exact h.unbacked r j b hr hj h1
  · rw [hrc] at hr
    rw [hnf1, hfs] at hk
    rw [hfs] at hs ⊢
    rw [hsize, hsize]
    exact h.sizes r k s b hr hk hs

/-- The records after destroy_bucket_callback on a bucket with a raw pointer, by rank
and field. -/
theorem destroy_bucket_callback_record (fd : FieldData) (rank : EntityRank)
    (bucket_id capacity : Nat) (hraw : field_raw_data fd rank bucket_id ≠ none)
    (r i x : Nat) (hi : i < fd.m_num_fields.toNat) :
    field_meta_data (destroy_bucket_callback fd rank bucket_id capacity) r i x
      = if r = rank ∧ x = bucket_id ∧ (field_meta_data fd r i x).m_data ≠ none then
          { field_meta_data fd r i x with m_size := 0, m_data := none }
        else field_meta_data fd r i x := by
  obtain ⟨hmem, _, _, hrec, _⟩ := destroy_bucket_callback_spec fd rank bucket_id capacity hraw
  have hnf : (destroy_bucket_callback fd rank bucket_id capacity).m_num_fields = fd.m_num_fields := by
    rw [hmem]
  unfold field_meta_data
  rw [hnf, hrec]
  by_cases hc : r = rank ∧ x = bucket_id ∧
      (field_meta_data_at fd (fd.m_num_fields.toNat * r + i) x).m_data ≠ none
  · rw [if_pos hc, if_pos ⟨by rw [hc.1]; exact Nat.le_add_right _ _, by rw [hc.1]; omega, hc.2⟩]
  · rw [if_neg hc, if_neg]
    intro h2
    have hr : r = rank := block_unique _ r rank i hi h2.1 h2.2.1
    exact hc ⟨hr, h2.2.2⟩

theorem destroy_bucket_callback_consistent (fd : FieldData) (rank : EntityRank)
    (bucket_id capacity : Nat) (h : FieldsConsistent fd) :
    FieldsConsistent (destroy_bucket_callback fd rank bucket_id capacity) := by
  by_cases hraw : field_raw_data fd rank bucket_id ≠ none
  · obtain ⟨hmem, hlen, hinner, _, hrawlen, hbc, hrawspec, _⟩ :=
      destroy_bucket_callback_spec fd rank bucket_id capacity hraw
    have hrecord := destroy_bucket_callback_record fd rank bucket_id capacity hraw
    have hnf : (destroy_bucket_callback fd rank bucket_id capacity).m_num_fields
        = fd.m_num_fields := by rw [hmem]
    have hfs : (destroy_bucket_callback fd rank bucket_id capacity).field_set = fd.field_set := by
      rw [hmem]
    have hrc : (destroy_bucket_callback fd rank bucket_id capacity).entity_rank_count
        = fd.entity_rank_count := by rw [hmem]
    have hzero : ∀ i, i < fd.m_num_fields.toNat → rank < fd.entity_rank_count →
        (field_meta_data (destroy_bucket_callback fd rank bucket_id capacity) rank i
            bucket_id).m_size = 0 ∧
        (field_meta_data (destroy_bucket_callback fd rank bucket_id capacity) rank i
            bucket_id).m_data = none := by
      intro i hi hr
      rw [hrecord rank i bucket_id hi]
      by_cases hd : (field_meta_data fd rank i bucket_id).m_data ≠ none
      · rw [if_pos ⟨rfl, rfl, hd⟩]
        exact ⟨rfl, rfl⟩
      · rw [if_neg (fun hc => hd hc.2.2)]
        have hnone : (field_meta_data fd rank i bucket_id).m_data = none := by
          by_contra hcon; exact hd hcon
        refine ⟨?_, hnone⟩
        by_contra hsz
        exact h.backed rank i bucket_id hr hi hraw (Nat.pos_of_ne_zero hsz) hnone
    refine ⟨⟨?_, ?_, ?_, fun r i hr hi => ?_, fun hu r => ?_⟩, by rw [hfs]; exact h.grouped,
      states_same_size_congr hfs h.same_size, fun r i b hr hi => ?_, fun r i b hr hi => ?_,
      fun r i b hr hi => ?_, fun r k s b hr hk hs => ?_⟩
    · rw [hnf, hfs]; exact h.shaped.num_fields
    · rw [hlen, hnf, hrc]; exact h.shaped.meta_length
    · rw [hrawlen, hrc]; exact h.shaped.raw_length
    · rw [hinner, hnf, hbc]
      exact h.shaped.buckets r i (by rw [← hrc]; exact hr) (by rw [← hnf]; exact hi)
    · rw [hbc]; exact h.shaped.no_buckets (by rw [← hnf]; exact hu) r
    · rw [hrc] at hr
      rw [hnf] at hi
      by_cases hnew : r = rank ∧ b = bucket_id
      · rw [hnew.1, hnew.2]
        exact fun _ => (hzero i hi (by rw [← hnew.1]; exact hr)).2
      · rw [hrecord r i b hi, if_neg (fun hc => hnew ⟨hc.1, hc.2.1⟩)]
        exact h.null_of_zero r i b hr hi
    · rw [hrc] at hr
      rw [hnf] at hi
      rw [hrawspec]
      by_cases hnew : r = rank ∧ b = bucket_id
      · rw [if_pos hnew]
        exact fun hc => absurd rfl hc
      · rw [if_neg hnew, hrecord r i b hi, if_neg (fun hc => hnew ⟨hc.1, hc.2.1⟩)]
        exact h.backed r i b hr hi
    · rw [hrc] at hr
      rw [hnf] at hi
      rw [hrawspec]
      by_cases hnew : r = rank ∧ b = bucket_id
      · rw [hnew.1, hnew.2]
        exact fun _ => (hzero i hi (by rw [← hnew.1]; exact hr)).2
      · rw [if_neg hnew, hrecord r i b hi, if_neg (fun hc => hnew ⟨hc.1, hc.2.1⟩)]
        exact h.unbacked r i b hr hi
    · rw [hrc] at hr
      rw [hnf, hfs] at hk
      rw [hfs] at hs ⊢
      have hnf2 : fd.m_num_fields.toNat = fd.field_set.length := by
        rcases h.shaped.num_fields with hunset | hset
        · rw [hunset] at hk; exact absurd hk (Nat.not_lt_zero _)
        · rw [hset]; rfl
      have hins := h.grouped.inside k (by omega)
      have hnext : state_group fd.field_set (k + 1) = state_group fd.field_set k
          + (fd.field_set.getD (state_group fd.field_set k) FieldBase.null).number_of_states := rfl
      by_cases hnew : r = rank ∧ b = bucket_id
      · rw [hnew.1, hnew.2, (hzero _ (by omega) (by rw [← hnew.1]; exact hr)).1,
          (hzero _ hk (by rw [← hnew.1]; exact hr)).1]
      · rw [hrecord r _ b (by omega), hrecord r _ b hk,
          if_neg (fun hc => hnew ⟨hc.1, hc.2.1⟩), if_neg (fun hc => hnew ⟨hc.1, hc.2.1⟩)]
        exact h.sizes r k s b hr hk hs
  · have hres : destroy_bucket_callback fd rank bucket_id capacity = fd := by
      unfold destroy_bucket_callback
      rw [if_neg hraw]
    rw [hres]
    exact h

theorem reorder_buckets_callback_shaped (fd : FieldData) (rank : EntityRank)
    (id_map : List Nat) (hs : FieldsShaped fd) (hr : rank < fd.entity_rank_count)
    (hmap : ∀ k ∈ id_map, k < bucket_count fd rank) :
    FieldsShaped (reorder_buckets_callback fd rank id_map) ∧
    (reorder_buckets_callback fd rank id_map).field_set = fd.field_set ∧
    (reorder_buckets_callback fd rank id_map).entity_rank_count = fd.entity_rank_count ∧
    (reorder_buckets_callback fd rank id_map).m_num_fields = fd.m_num_fields := by
  obtain ⟨M, hfold, hlen0, hget0⟩ := reorder_loop_spec
    ({ fd with
      m_field_raw_data := (modify_at fd.m_field_raw_data rank
        (fun _ => id_map.map (fun k => field_raw_data fd rank k))) } : FieldData)
    rank id_map fd.m_num_fields.toNat
  have hlen : M.length = fd.m_field_meta_data.length := hlen0
  have hget : ∀ k, M.getD k [] =
      if fd.m_num_fields.toNat * rank ≤ k ∧
          k < fd.m_num_fields.toNat * rank + fd.m_num_fields.toNat ∧
          k < fd.m_field_meta_data.length then
        id_map.map (fun x => field_meta_data_at fd k x)
      else fd.m_field_meta_data.getD k [] := hget0
  clear hget0 hlen0
  have hres : reorder_buckets_callback fd rank id_map
      = { fd with
          m_field_meta_data := M
          m_field_raw_data := (modify_at fd.m_field_raw_data rank
            (fun _ => id_map.map (fun k => field_raw_data fd rank k))) } := by
    unfold reorder_buckets_callback
    exact hfold
  obtain ⟨_, hbc, _, _⟩ := reorder_buckets_callback_spec fd rank id_map hs hr
  have hnf : (reorder_buckets_callback fd rank id_map).m_num_fields = fd.m_num_fields := by
    rw [hres]
  have hfs : (reorder_buckets_callback fd rank id_map).field_set = fd.field_set := by rw [hres]
  have hrc : (reorder_buckets_callback fd rank id_map).entity_rank_count
      = fd.entity_rank_count := by rw [hres]
  have hmeta : (reorder_buckets_callback fd rank id_map).m_field_meta_data = M := by rw [hres]
  have hrawl : (reorder_buckets_callback fd rank id_map).m_field_raw_data.length
      = fd.m_field_raw_data.length := by
    rw [hres]
    exact modify_at_length _ _ _
  refine ⟨⟨?_, ?_, ?_, fun r i hr1 hi => ?_, fun hu r => ?_⟩, hfs, hrc, hnf⟩
  · rw [hnf, hfs]; exact hs.num_fields
  · rw [hmeta, hlen, hnf, hrc]; exact hs.meta_length
  · rw [hrawl, hrc]; exact hs.raw_length
  · rw [hrc] at hr1
    rw [hnf] at hi ⊢
    rw [hmeta, hget, hbc]
    by_cases h : r = rank
    · subst h
      have hin : fd.m_num_fields.toNat * r + i < fd.m_field_meta_data.length := by
        rw [hs.meta_length]
        exact flat_index_lt _ _ _ _ hr hi
      rw [if_pos ⟨Nat.le_add_right _ _, by omega, hin⟩, if_pos rfl, List.length_map]
    · rw [if_neg h, if_neg (fun hb => h (block_unique _ r rank i hi hb.1 hb.2.1))]
      exact hs.buckets r i hr1 hi
  · rw [hnf] at hu
    have hz : fd.m_num_fields.toNat = 0 := by rw [hu]; rfl
    rw [hbc]
    by_cases h : r = rank
    · rw [if_pos h]
      cases id_map with
      | nil => rfl
      | cons a rest =>
        have := hmap a (List.mem_cons_self _ _)
        rw [hs.no_buckets hu rank] at this
        exact absurd this (Nat.not_lt_zero _)
    · rw [if_neg h]
      exact hs.no_buckets hu r

theorem reorder_buckets_callback_consistent (fd : FieldData) (rank : EntityRank)
    (id_map : List Nat) (h : FieldsConsistent fd) (hr : rank < fd.entity_rank_count)
    (hmap : ∀ k ∈ id_map, k < bucket_count fd rank) :
    FieldsConsistent (reorder_buckets_callback fd rank id_map) := by
  obtain ⟨hshaped, hfs, hrc, hnf⟩ := reorder_buckets_callback_shaped fd rank id_map h.shaped hr hmap
  obtain ⟨_, _, hraw, hrec⟩ := reorder_buckets_callback_spec fd rank id_map h.shaped hr
  refine ⟨hshaped, by rw [hfs]; exact h.grouped, states_same_size_congr hfs h.same_size,
    fun r i b hr1 hi => ?_, fun r i b hr1 hi => ?_, fun r i b hr1 hi => ?_,
    fun r k s b hr1 hk hs => ?_⟩
  · rw [hrc] at hr1
    rw [hnf] at hi
    rw [hrec r i b hi]
    by_cases h1 : r = rank
    · rw [if_pos h1]
      by_cases h2 : b < id_map.length
      · rw [if_pos h2]
        exact h.null_of_zero rank i _ hr hi
      · rw [if_neg h2]
        exact fun _ => rfl
    · rw [if_neg h1]
      exact h.null_of_zero r i b hr1 hi
  · rw [hrc] at hr1
    rw [hnf] at hi
    rw [hrec r i b hi, hraw r b]
    by_cases h1 : r = rank
    · rw [if_pos h1, if_pos h1]
      by_cases h2 : b < id_map.length
      · rw [if_pos h2, if_pos h2]
        exact h.backed rank i _ hr hi
      · rw [if_neg h2, if_neg h2]
        exact fun hc => absurd rfl hc
    · rw [if_neg h1, if_neg h1]
      exact h.backed r i b hr1 hi
  · rw [hrc] at hr1
    rw [hnf] at hi
    rw [hrec r i b hi, hraw r b]
    by_cases h1 : r = rank
    · rw [if_pos h1, if_pos h1]
      by_cases h2 : b < id_map.length
      · rw [if_pos h2, if_pos h2]
        exact h.unbacked rank i _ hr hi
      · rw [if_neg h2, if_neg h2]
        exact fun _ => rfl
    · rw [if_neg h1, if_neg h1]
      exact h.unbacked r i b hr1 hi
  · rw [hrc] at hr1
    rw [hnf, hfs] at hk
    rw [hfs] at hs ⊢
    have hnf2 : fd.m_num_fields.toNat = fd.field_set.length := by
      rcases h.shaped.num_fields with hunset | hset
      · rw [hunset] at hk; exact absurd hk (Nat.not_lt_zero _)
      · rw [hset]; rfl
    have hins := h.grouped.inside k (by omega)
    have hnext : state_group fd.field_set (k + 1) = state_group fd.field_set k
        + (fd.field_set.getD (state_group fd.field_set k) FieldBase.null).number_of_states := rfl
    rw [hrec r _ b (by omega), hrec r _ b hk]
    by_cases h1 : r = rank
    · rw [if_pos h1, if_pos h1]
      by_cases h2 : b < id_map.length
      · rw [if_pos h2, if_pos h2]
        exact h.sizes rank k s _ hr hk hs
      · rw [if_neg h2, if_neg h2]
    · rw [if_neg h1, if_neg h1]
      exact h.sizes r k s b hr1 hk hs

/-- Every reachable state of the field-data members satisfies the invariant. -/
theorem reachable_fields_consistent (fd : FieldData) (h : ReachableFields fd) :
    FieldsConsistent fd := by
  induction h with
  | construct field_set entity_rank_count assertions memory heap_top hg hss =>
    exact construct_field_data_consistent _ _ _ _ _ hg hss
  | new_bucket_callback fd rank parts capacity _ hr ih =>
    exact new_bucket_callback_consistent fd rank parts capacity ih hr
  | copy_entity_fields_callback fd dst_rank dst_bucket_id dst_bucket_ord src_rank src_bucket_id
      src_bucket_ord _ ih =>
    obtain ⟨mem, hmem⟩ := copy_entity_fields_callback_frame fd dst_rank dst_bucket_id
      dst_bucket_ord src_rank src_bucket_id src_bucket_ord
    rw [hmem]
    exact consistent_of_memory fd mem ih
  | remove_entity_callback fd rank bucket_id bucket_ord _ ih =>
    obtain ⟨mem, hmem⟩ := remove_entity_callback_frame fd rank bucket_id bucket_ord
    rw [hmem]
    exact consistent_of_memory fd mem ih
  | destroy_bucket_callback fd rank bucket_id capacity _ ih =>
    exact destroy_bucket_callback_consistent fd rank bucket_id capacity ih
  | update_field_data_states fd fd1 _ hu ih =>
    exact (update_field_data_states_consistent fd fd1 ih hu).1
  | reorder_buckets_callback fd rank id_map _ hr hmap ih =>
    exact reorder_buckets_callback_consistent fd rank id_map ih hr hmap

theorem freed_size_of_consistent (fd : FieldData) (h : FieldsConsistent fd) (rank : EntityRank)
    (bucket_id i : Nat) (hr : rank < fd.entity_rank_count) (hi : i < fd.m_num_fields.toNat)
    (hraw : field_raw_data fd rank bucket_id ≠ none) :
    freed_size fd rank bucket_id i = (field_meta_data fd rank i bucket_id).m_size := by
  unfold freed_size
  by_cases hd : (field_meta_data fd rank i bucket_id).m_data ≠ none
  · rw [if_pos hd]
  · rw [if_neg hd]
    have hnone : (field_meta_data fd rank i bucket_id).m_data = none := by
      by_contra hcon; exact hd hcon
    by_contra hsz
    exact h.backed rank i bucket_id hr hi hraw (Nat.pos_of_ne_zero (fun h0 => hsz h0.symm)) hnone

theorem rank_lt_of_raw (fd : FieldData) (hs : FieldsShaped fd) (rank : EntityRank)
    (bucket_id : Nat) (hraw : field_raw_data fd rank bucket_id ≠ none) :
    rank < fd.entity_rank_count := by
  by_contra hcon
  apply hraw
  unfold field_raw_data
  rw [getD_of_length_le fd.m_field_raw_data rank [] (by rw [hs.raw_length]; exact Nat.le_of_not_lt hcon)]
  rfl

theorem freed_bytes_congr (f g : Nat → Nat) (capacity n : Nat) (h : ∀ i, i < n → f i = g i) :
    freed_bytes f capacity n = freed_bytes g capacity n := by
  induction n with
  | zero => rfl
  | succ n ih =>
    show freed_bytes f capacity n + wrap32 (f n * capacity)
      = freed_bytes g capacity n + wrap32 (g n * capacity)
    rw [ih (fun i hi => h i (by omega)), h n (by omega)]

/-- The sum of the 32-bit products is the sum of the products when every product is
below 2^32. -/
theorem freed_bytes_eq_slice_offset (f : Nat → Nat) (capacity n : Nat)
    (h : ∀ i, i < n → f i * capacity < 4294967296) :
    freed_bytes f capacity n = slice_offset f capacity n := by
  induction n with
  | zero => rfl
  | succ n ih =>
    show freed_bytes f capacity n + wrap32 (f n * capacity)
      = slice_offset f capacity n + f n * capacity
    rw [ih (fun i hi => h i (by omega)), wrap32_of_lt _ (h n (by omega))]

/-- What destroy_bucket_callback does to a bucket with a raw pointer when the members
satisfy the invariant: every record of the bucket ends with size 0 and a null
pointer, the raw pointer is null, and the byte count handed back is the sum of the
32-bit products of the sizes of the records and the capacity. -/
theorem destroy_bucket_callback_frees (fd : FieldData) (h : FieldsConsistent fd)
    (rank : EntityRank) (bucket_id capacity : Nat)
    (hraw : field_raw_data fd rank bucket_id ≠ none) :
    (∀ i, i < fd.m_num_fields.toNat →
      (field_meta_data (destroy_bucket_callback fd rank bucket_id capacity) rank i
          bucket_id).m_size = 0 ∧
      (field_meta_data (destroy_bucket_callback fd rank bucket_id capacity) rank i
          bucket_id).m_data = none) ∧
    field_raw_data (destroy_bucket_callback fd rank bucket_id capacity) rank bucket_id = none ∧
    (destroy_bucket_callback fd rank bucket_id capacity).deallocations
      = fd.deallocations ++ [(field_raw_data fd rank bucket_id,
          freed_bytes (fun i => (field_meta_data fd rank i bucket_id).m_size) capacity
            fd.m_num_fields.toNat)] := by
  have hr := rank_lt_of_raw fd h.shaped rank bucket_id hraw
  obtain ⟨_, _, _, _, _, _, hrawspec, hde⟩ :=
    destroy_bucket_callback_spec fd rank bucket_id capacity hraw
  have hrecord := destroy_bucket_callback_record fd rank bucket_id capacity hraw
  refine ⟨fun i hi => ?_, by rw [hrawspec, if_pos ⟨rfl, rfl⟩], ?_⟩
  · rw [hrecord rank i bucket_id hi]
    by_cases hd : (field_meta_data fd rank i bucket_id).m_data ≠ none
    · rw [if_pos ⟨rfl, rfl, hd⟩]
      exact ⟨rfl, rfl⟩
    · rw [if_neg (fun hc => hd hc.2.2)]
      have hnone : (field_meta_data fd rank i bucket_id).m_data = none := by
        by_contra hcon; exact hd hcon
      refine ⟨?_, hnone⟩
      by_contra hsz
      exact h.backed rank i bucket_id hr hi hraw (Nat.pos_of_ne_zero hsz) hnone
  · rw [hde, freed_bytes_congr (freed_size fd rank bucket_id)
      (fun i => (field_meta_data fd rank i bucket_id).m_size) capacity fd.m_num_fields.toNat
      (fun i hi => freed_size_of_consistent fd h rank bucket_id i hr hi hraw)]

/-- Any number of calls of update_field_data_states come to an end, keep the
invariant and move data pointers only. -/
theorem update_field_data_states_times_spec (n : Nat) :
    ∀ fd : FieldData, FieldsConsistent fd →
      ∃ fd1, update_field_data_states_times n fd = some fd1 ∧ FieldsConsistent fd1 ∧
        PointersMoved fd fd1 := by
  induction n with
  | zero => exact fun fd h => ⟨fd, rfl, h, PointersMoved.unmoved fd⟩
  | succ n ih =>
    intro fd h
    obtain ⟨fd1, h1, _, _⟩ := update_field_data_states_spec fd h.shaped h.grouped
    obtain ⟨hc1, hm1⟩ := update_field_data_states_consistent fd fd1 h h1
    obtain ⟨fd2, h2, hc2, hm2⟩ := ih fd1 hc1
    refine ⟨fd2, ?_, hc2, hm1.comp hm2⟩
    unfold update_field_data_states_times
    rw [h1]
    exact h2

theorem scenario_fields_same_size : states_same_size scenario_field_data := by
  have h0 : state_group scenario_fields 0 = 0 := rfl
  have h1 : state_group scenario_fields 1 = 1 := rfl
  have h2 : state_group scenario_fields 2 = 3 := rfl
  have hlen : scenario_fields.length = 3 := rfl
  have hcases : ∀ k, state_group scenario_fields k < scenario_fields.length → k = 0 ∨ k = 1 := by
    intro k hk
    by_contra hcon
    have := state_group_mono scenario_fields 2 k (by omega)
    omega
  intro k hk s hs rank parts
  have hfs : scenario_field_data.field_set = scenario_fields := rfl
  rw [hfs] at hk hs ⊢
  rcases hcases k hk with h | h
  · rw [h] at hs ⊢
    have hs0 : s = 0 := by
      have : (scenario_fields.getD (state_group scenario_fields 0) FieldBase.null).number_of_states
          = 1 := rfl
      omega
    rw [hs0]
    rfl
  · rw [h] at hs ⊢
    have hs2 : s < 2 := hs
    interval_cases s
    · rfl
    · rfl

theorem scenario_field_data_reachable : ReachableFields scenario_field_data :=
  ReachableFields.construct scenario_fields 4 true (fun _ => 255) 1000 scenario_fields_grouped
    scenario_fields_same_size

theorem scenario_two_buckets_reachable : ReachableFields scenario_two_buckets :=
  ReachableFields.new_bucket_callback _ 0 [0, 1] 2
    (ReachableFields.new_bucket_callback _ 0 [0, 1, 10] 2 scenario_field_data_reachable
      (by decide)) (by decide)

theorem scenario_rotated_reachable : ReachableFields scenario_rotated :=
  ReachableFields.update_field_data_states _ _ scenario_two_buckets_reachable scenario_rotated_eq

/-- C26: a field with a zero-size restriction on the parts of a bucket does not exist
there. In every state reachable through new_bucket_callback,
copy_entity_fields_callback, remove_entity_callback, destroy_bucket_callback,
update_field_data_states and reorder_buckets_callback, new_bucket_callback records
size 0 and a null data pointer for a field whose byte size on the rank and the parts
of the new bucket is 0, and every field record with size 0 has a null pointer. -/
theorem C26_zero_size_field_absent (fd : FieldData) (h : ReachableFields fd) :
    (∀ (rank : EntityRank) (parts : List PartOrdinal) (capacity i : Nat),
      rank < fd.entity_rank_count → i < fd.field_set.length →
      num_bytes_per_entity fd rank parts i = 0 →
      (field_meta_data (new_bucket_callback fd rank parts capacity) rank i
        (bucket_count fd rank)).m_size = 0 ∧
      (field_meta_data (new_bucket_callback fd rank parts capacity) rank i
        (bucket_count fd rank)).m_data = none) ∧
    (∀ r i b, r < fd.entity_rank_count → i < fd.m_num_fields.toNat →
      (field_meta_data fd r i b).m_size = 0 → (field_meta_data fd r i b).m_data = none) := by
  have hc := reachable_fields_consistent fd h
  refine ⟨fun rank parts capacity i hr hi hz => ?_, hc.null_of_zero⟩
  obtain ⟨_, _, _, _, hrec, _⟩ := new_bucket_callback_spec fd rank parts capacity hc.shaped hr
  rw [hrec rank i _ hi, if_pos ⟨rfl, rfl⟩, new_bucket_record_size, new_bucket_record_data]
  exact ⟨hz, by rw [if_neg (fun hcon => by omega)]⟩

theorem C26_witness :
    ReachableFields scenario_one_bucket ∧
    ReachableFields scenario_rotated ∧
    (find_restriction scenario_temperature 0 [0, 1]).dimension = 0 ∧
    (field_meta_data scenario_two_buckets 0 1 1).m_size = 0 ∧
    (field_meta_data scenario_two_buckets 0 1 1).m_data = none ∧
    (field_meta_data scenario_rotated 0 2 1).m_size = 0 ∧
    (field_meta_data scenario_rotated 0 2 1).m_data = none :=
  have h1 : ReachableFields scenario_one_bucket :=
    ReachableFields.new_bucket_callback _ 0 [0, 1, 10] 2 scenario_field_data_reachable (by decide)
  have ha := (C26_zero_size_field_absent scenario_one_bucket h1).1 0 [0, 1] 2 1 (by decide)
    (by decide) (by decide)
  ⟨h1, scenario_rotated_reachable, by decide, ha.1, ha.2, by decide,
    (C26_zero_size_field_absent scenario_rotated scenario_rotated_reachable).2 0 2 1 (by decide)
      (by decide) (by decide)⟩

/-- What destroy_bucket_callback hands back. In every reachable state of the
field-data members, after destroy_bucket_callback(rank, bucket, capacity) on a
bucket with a raw pointer every field's record for that bucket has size 0 and a null
pointer, the raw pointer of the bucket is null, and the byte count handed back to
the allocator with the raw pointer is the sum of the 32-bit products of the sizes of
the records and `capacity`. For a bucket that new_bucket_callback creates with an
allocation, with every product size × capacity below 2^32, destroyed with the
capacity it was created with after any number of update_field_data_states calls
(which come to an end), that byte count is the byte count that was allocated, and
the pointer is the one that was allocated. -/
theorem destroy_bucket_frees_allocation (fd : FieldData) (h : ReachableFields fd) :
    (∀ (rank : EntityRank) (bucket_id capacity : Nat),
      field_raw_data fd rank bucket_id ≠ none →
      (∀ i, i < fd.m_num_fields.toNat →
        (field_meta_data (destroy_bucket_callback fd rank bucket_id capacity) rank i
            bucket_id).m_size = 0 ∧
        (field_meta_data (destroy_bucket_callback fd rank bucket_id capacity) rank i
            bucket_id).m_data = none) ∧
      field_raw_data (destroy_bucket_callback fd rank bucket_id capacity) rank bucket_id = none ∧
      (destroy_bucket_callback fd rank bucket_id capacity).deallocations
        = fd.deallocations ++ [(field_raw_data fd rank bucket_id,
            freed_bytes (fun i => (field_meta_data fd rank i bucket_id).m_size) capacity
              fd.m_num_fields.toNat)]) ∧
    (∀ (rank : EntityRank) (parts : List PartOrdinal) (capacity n : Nat),
      rank < fd.entity_rank_count →
      0 < slice_offset (num_bytes_per_entity fd rank parts) capacity fd.field_set.length →
      (∀ i, i < fd.field_set.length →
        num_bytes_per_entity fd rank parts i * capacity < 4294967296) →
      ∃ fdn, update_field_data_states_times n (new_bucket_callback fd rank parts capacity)
          = some fdn ∧
        (new_bucket_callback fd rank parts capacity).allocations
          = fd.allocations ++ [(fd.heap_top,
              slice_offset (num_bytes_per_entity fd rank parts) capacity fd.field_set.length)] ∧
        (destroy_bucket_callback fdn rank (bucket_count fd rank) capacity).deallocations
          = fd.deallocations ++ [(some fd.heap_top,
              slice_offset (num_bytes_per_entity fd rank parts) capacity
                fd.field_set.length)]) := by
  have hc := reachable_fields_consistent fd h
  refine ⟨fun rank bucket_id capacity hraw =>
    destroy_bucket_callback_frees fd hc rank bucket_id capacity hraw,
    fun rank parts capacity n hr htot hfit => ?_⟩
  obtain ⟨⟨_, _, _, hnum, hde⟩, _, _, hraw, hrec, _, _, _, halloc⟩ :=
    new_bucket_callback_spec fd rank parts capacity hc.shaped hr
  have hc1 := new_bucket_callback_consistent fd rank parts capacity hc hr
  obtain ⟨fdn, hn, hcn, hmn⟩ :=
    update_field_data_states_times_spec n (new_bucket_callback fd rank parts capacity) hc1
  have hnfn : fdn.m_num_fields.toNat = fd.field_set.length := by
    rw [hmn.num_fields, hnum]; rfl
  have hrawn : field_raw_data fdn rank (bucket_count fd rank) = some fd.heap_top := by
    rw [field_raw_data_congr hmn.raw, hraw, if_pos ⟨rfl, rfl⟩, if_pos htot]
  have hden : fdn.deallocations = fd.deallocations := by
    have : fdn.deallocations = (new_bucket_callback fd rank parts capacity).deallocations := by
      rw [hmn.members]
    rw [this, hde]
  have hfree := (destroy_bucket_callback_frees fdn hcn rank (bucket_count fd rank) capacity
    (by rw [hrawn]; exact fun hcon => Option.noConfusion hcon)).2.2
  refine ⟨fdn, hn, ?_, ?_⟩
  · rw [halloc, if_pos htot]
  · rw [hfree, hden, hrawn, hnfn]
    rw [freed_bytes_congr (fun i => (field_meta_data fdn rank i (bucket_count fd rank)).m_size)
      (num_bytes_per_entity fd rank parts) capacity fd.field_set.length (by
        intro i hi
        show (field_meta_data fdn rank i (bucket_count fd rank)).m_size = _
        have hsz : (field_meta_data fdn rank i (bucket_count fd rank)).m_size
            = (field_meta_data (new_bucket_callback fd rank parts capacity) rank i
                (bucket_count fd rank)).m_size := by
          unfold field_meta_data
          rw [hmn.num_fields]
          exact hmn.size _ _
        rw [hsz, hrec rank i _ hi, if_pos ⟨rfl, rfl⟩, new_bucket_record_size]),
      freed_bytes_eq_slice_offset _ _ _ hfit]

/-- The bucket of the example is freed with the 80 bytes that were allocated for it,
also after rotations. -/
theorem destroy_bucket_example :
    ReachableFields scenario_field_data ∧
    scenario_one_bucket.allocations = [(1000, 80)] ∧
    (destroy_bucket_callback scenario_one_bucket 0 0 2).deallocations = [(some 1000, 80)] ∧
    field_raw_data scenario_rotated 0 0 = some 1000 ∧
    (destroy_bucket_callback scenario_rotated 0 0 2).deallocations = [(some 1000, 80)] ∧
    field_raw_data (destroy_bucket_callback scenario_rotated 0 0 2) 0 0 = none ∧
    ∃ fdn, update_field_data_states_times 3 (new_bucket_callback scenario_field_data 0 [0, 1, 10] 2)
        = some fdn ∧
      (destroy_bucket_callback fdn 0 (bucket_count scenario_field_data 0) 2).deallocations
        = scenario_field_data.deallocations ++ [(some scenario_field_data.heap_top,
            slice_offset (num_bytes_per_entity scenario_field_data 0 [0, 1, 10]) 2
              scenario_field_data.field_set.length)] :=
  have hraw : field_raw_data scenario_rotated 0 0 ≠ none := by decide
  have hfit : ∀ i, i < scenario_field_data.field_set.length →
      num_bytes_per_entity scenario_field_data 0 [0, 1, 10] i * 2 < 4294967296 := by
    intro i hi
    have hlen : scenario_field_data.field_set.length = 3 := rfl
    rw [hlen] at hi
    have hcases : i = 0 ∨ i = 1 ∨ i = 2 := by omega
    rcases hcases with rfl | rfl | rfl <;> decide
  ⟨scenario_field_data_reachable, by decide, by decide, by decide, by decide,
    ((destroy_bucket_frees_allocation scenario_rotated scenario_rotated_reachable).1 0 0 2
      hraw).2.1,
    ((destroy_bucket_frees_allocation scenario_field_data scenario_field_data_reachable).2
      0 [0, 1, 10] 2 3 (by decide) (by decide) hfit).imp (fun _ hx => ⟨hx.1, hx.2.2⟩)⟩

/-! ## Field data: slot offsets and byte counts of 2^32 bytes -/

theorem scenario_large_bucket_reachable : ReachableFields scenario_large_bucket := by
  have h1 : state_group [scenario_large] 1 = 1 := rfl
  have hlen : [scenario_large].length = 1 := rfl
  have hcases : ∀ k, state_group [scenario_large] k < [scenario_large].length → k = 0 := by
    intro k hk
    by_contra hcon
    have := state_group_mono [scenario_large] 1 k (by omega)
    omega
  refine ReachableFields.new_bucket_callback _ 0 [0] 512
    (ReachableFields.construct [scenario_large] 4 true (fun _ => 255) 1000 ⟨?_, ?_⟩ ?_)
    (by decide)
  · intro k hk
    rw [hcases k hk]
    decide
  · intro k hk
    rw [hcases k hk]
    decide
  · intro k hk s hs rank parts
    have hfs : (construct_field_data [scenario_large] 4 true (fun _ => 255) 1000).field_set
        = [scenario_large] := rfl
    rw [hfs] at hk hs ⊢
    rw [hcases k hk] at hs ⊢
    have hs0 : s = 0 := by
      have : ([scenario_large].getD (state_group [scenario_large] 0) FieldBase.null).number_of_states
          = 1 := rfl
      omega
    rw [hs0]
    rfl

/-- C27: the call with a slot offset of 2^32 bytes. In the bucket of 512 nodes of a
field with 16777216 bytes per node, the application wrote the byte 42 at the start
of slot 1. copy_entity_fields_callback(0, 0, 256, 0, 0, 1) returns; the product
dst_size * dst_bucket_ord = 16777216 * 256 is formed in 32 bits and is 0, so the
range handed to std::swap_ranges as the destination is slot 0: afterwards the
destination slot 256 (at address 1000 + 2^32, inside the allocation) still holds its
0 and not the 42 of the source slot, and slot 0 holds the 42. -/
theorem C27_copy_offset_wraps :
    ReachableFields scenario_large_bucket ∧
    scenario_large_written.allocations = [(1000, 8589934592)] ∧
    (field_meta_data scenario_large_written 0 0 0).m_size = 16777216 ∧
    (field_meta_data scenario_large_written 0 0 0).m_data = some 1000 ∧
    slot_address (field_meta_data scenario_large_written 0 0 0) 256 = 4294968296 ∧
    slot_address (field_meta_data scenario_large_written 0 0 0) 1 = 16778216 ∧
    scenario_large_written.memory 16778216 = 42 ∧
    scenario_large_written.memory 4294968296 = 0 ∧
    (copy_entity_fields_callback scenario_large_written 0 0 256 0 0 1).1 = Outcome.ok () ∧
    (copy_entity_fields_callback scenario_large_written 0 0 256 0 0 1).2.memory 4294968296 = 0 ∧
    (copy_entity_fields_callback scenario_large_written 0 0 256 0 0 1).2.memory 1000 = 42 := by
  have hn : scenario_large_written.m_num_fields.toNat = 1 := by decide
  have hsz : (field_meta_data scenario_large_written 0 0 0).m_size = 16777216 := by decide
  have hpd : slot_pointer (field_meta_data scenario_large_written 0 0 0) 256 = 1000 := by decide
  have hps : slot_pointer (field_meta_data scenario_large_written 0 0 0) 1 = 16778216 := by
    decide
  have hok : (copy_entity_fields_callback scenario_large_written 0 0 256 0 0 1).1
      = Outcome.ok () := by decide
  have hbefore : scenario_large_written.memory 16778216 = 42 := by decide
  refine ⟨scenario_large_bucket_reachable, by decide, hsz, by decide, by decide, by decide,
    hbefore, by decide, hok, ?_, ?_⟩
  · have hframe := copy_entity_fields_loop_bytes scenario_large_written 0 0 256 0 0 1
      (List.range scenario_large_written.m_num_fields.toNat) scenario_large_written.memory
      4294968296 (fun j hj => by
        have hj2 : j < 1 := by rw [← hn]; exact List.mem_range.1 hj
        have hj0 : j = 0 := by omega
        rw [hj0]
        unfold copy_field_touches
        rw [hpd, hps, hsz]
        rintro ⟨_, _, h | h⟩ <;> omega)
    have hmem : (copy_entity_fields_callback scenario_large_written 0 0 256 0 0 1).2.memory
        4294968296 = scenario_large_written.memory 4294968296 := hframe
    rw [hmem]
    decide
  · have hex := copy_entity_fields_ranges scenario_large_written 0 0 256 0 0 1 0 16777216 hok
      (by decide) hsz hsz (by decide) (Or.inr (Or.inl (by rw [hpd, hps])))
      (fun j hj hne => by
        rw [hn] at hj
        omega) 0 (by decide)
    rw [hpd, hps] at hex
    rw [← hbefore]
    exact hex

/-- C29: the call with a slot offset of 2^32 bytes. In the bucket of 512 nodes of a
field with 16777216 bytes per node and no initial value, the application wrote the
byte 42 at the start of slot 256 and the byte 43 at the start of slot 0.
remove_entity_callback(0, 0, 256) forms bucket_ord * num_bytes_per_entity = 256 *
16777216 in 32 bits, which is 0, and resets slot 0: afterwards slot 256 still holds
the 42 written for the removed entity, and slot 0 has lost its 43. -/
theorem C29_remove_offset_wraps :
    ReachableFields scenario_large_bucket ∧
    scenario_large_removal.allocations = [(1000, 8589934592)] ∧
    (field_meta_data scenario_large_removal 0 0 0).m_size = 16777216 ∧
    (field_meta_data scenario_large_removal 0 0 0).m_data = some 1000 ∧
    scenario_large.initial_value.isNone = true ∧
    slot_address (field_meta_data scenario_large_removal 0 0 0) 256 = 4294968296 ∧
    slot_address (field_meta_data scenario_large_removal 0 0 0) 0 = 1000 ∧
    scenario_large_removal.memory 4294968296 = 42 ∧
    scenario_large_removal.memory 1000 = 43 ∧
    (remove_entity_callback scenario_large_removal 0 0 256).memory 4294968296 = 42 ∧
    (remove_entity_callback scenario_large_removal 0 0 256).memory 1000 = 0 :=
  ⟨scenario_large_bucket_reachable, by decide, by decide, by decide, by decide, by decide,
    by decide, by decide, by decide, by decide, by decide⟩

/-- C30: the byte count handed back for a bucket of 2^33 bytes. The bucket of 512
nodes of a field with 16777216 bytes per node is created by new_bucket_callback,
which allocates 16777216 * 512 = 8589934592 bytes at address 1000 (the product is
formed in size_t). destroy_bucket_callback(0, 0, 512), with the capacity the bucket
was created with, resets the record and the raw pointer and hands the pointer 1000
back with the byte count 0: field_data.m_size * capacity is formed in 32 bits. -/
theorem C30_destroy_count_wraps :
    ReachableFields scenario_large_bucket ∧
    scenario_large_bucket.allocations = [(1000, 8589934592)] ∧
    (field_meta_data scenario_large_bucket 0 0 0).m_size = 16777216 ∧
    field_raw_data scenario_large_bucket 0 0 = some 1000 ∧
    (field_meta_data (destroy_bucket_callback scenario_large_bucket 0 0 512) 0 0 0).m_size = 0 ∧
    (field_meta_data (destroy_bucket_callback scenario_large_bucket 0 0 512) 0 0 0).m_data
      = none ∧
    field_raw_data (destroy_bucket_callback scenario_large_bucket 0 0 512) 0 0 = none ∧
    (destroy_bucket_callback scenario_large_bucket 0 0 512).deallocations = [(some 1000, 0)] :=
  ⟨scenario_large_bucket_reachable, by decide, by decide, by decide, by decide, by decide,
    by decide, by decide⟩
end BulkData

end StkMesh
